import Mathlib

/-!
# libpes: the PEC and PES embroidery codecs

A shallow embedding of the codec core of libpes (pec-encoder.c, pec-decoder.c,
pec.c, pes-encoder.c and pes-decoder.c) and theorems about it.

Conventions of the embedding.

* A C `int` is an `Int`; a byte (`uint8_t`) is a `Byte = Fin 256`. Sums and
  differences of `int` values are taken in `Int`, without wrap-around.
* `v & (2^k - 1)` on a two's-complement `int` is `v % 2^k`; the arithmetic shift
  `v >> k` is `v / 2^k` (floor division). Bit operations on values known to be
  non-negative are done on `Nat` with `&&&`, `|||`, `<<<`.
* A byte sink (`encode_cb`) that accepts every chunk is modelled by the list of
  bytes it received: an encoding function returns `some bytes` when the C
  function returns `true`, and `none` when it returns `false`.
* An iteration callback that always returns `true` is modelled by the list of
  its invocations.
* `float` values are elements of a type `F`; the float computations of the
  sources are the fields of `FloatOps F`.
-/

set_option maxRecDepth 100000

namespace Libpes

/-- A byte of a buffer (`uint8_t`). -/
abbrev Byte := Fin 256

/-- The low eight bits of a non-negative value. -/
def byteOfNat (n : Nat) : Byte := ⟨n % 256, Nat.mod_lt _ (by decide)⟩

/-- The low eight bits of a C int, `(uint8_t)(v & 0xFF)`. -/
def byteOfInt (v : Int) : Byte := byteOfNat (v % 256).toNat

/-- Conjunction of two writes to a sink that accepts everything: the C idiom
`a(...) && b(...)`, where both write to the same sink. -/
def both (a b : Option (List Byte)) : Option (List Byte) :=
  match a with
  | none => none
  | some x =>
    match b with
    | none => none
    | some y => some (x ++ y)

/-- The constant characters of a C string literal, as bytes. -/
def ascii (s : String) : List Byte := s.toList.map (fun c => byteOfNat c.toNat)

/-- PEC stitch types (pec.h). -/
inductive pec_stitch_type where
  | PEC_STITCH_NORMAL
  | PEC_STITCH_JUMP
  | PEC_STITCH_TRIM
  | PEC_STITCH_STOP
  deriving DecidableEq, Repr

open pec_stitch_type

/-- PEC RGB colour (pec.h). -/
structure pec_rgb where
  r : Int
  g : Int
  b : Int
  deriving DecidableEq, Repr

/-- PEC thread (pec.h). -/
structure pec_thread where
  index : Int
  id : String
  code : String
  name : String
  type : String
  rgb : pec_rgb
  deriving DecidableEq, Repr

/-- The float computations of the sources. Each field is one C expression on
`float`; the embedding is parametric in them. -/
structure FloatOps (F : Type) where
  /-- `pec_raw_coordinate(c)`, that is `(int)roundf(10.0f * c)` (pec-encoder.c). -/
  pec_raw_coordinate : F → Int
  /-- `pec_physical_coordinate(c)`, that is `0.1f * (float)c` (pec-decoder.c). -/
  pec_physical_coordinate : Int → F
  /-- The comparison `a < b` on floats. -/
  lt : F → F → Bool
  /-- The literal `0.0f`. -/
  zero : F
  /-- The interpolation `(1.0f - t) * a + t * b` with `t = i / 100.0f`
  (thumbnail_framed_line). -/
  lerp : Int → F → F → F
  /-- The pixel `(c, r)` that thumbnail_framed_plot computes for the point
  `(x, y)` within bounds `min_x min_y max_x max_y`, or `none` when neither the
  width nor the height of the bounds is positive. -/
  framed : F → F → F → F → F → F → Option (Int × Int)
  /-- The literal `1.0f`. -/
  one : F
  /-- The bits of a float read as an `int`: `memcpy(&raw, &f, 4); (int)raw`
  (encode_f32lsb). -/
  f32_bits : F → Int
  /-- The float with the given bits: `raw = i; memcpy(value, &raw, 4)`
  (decode_f32lsb). -/
  f32_of_bits : Int → F
  /-- The product `t * (1.0f / pec_physical_coordinate(1))` (encode_transform). -/
  raw_translation : F → F
  /-- The product `t * pec_physical_coordinate(1)` (pes_affine_transform). -/
  physical_translation : F → F
  /-- The conversion `(int)roundf(f)` (encode_cembone). -/
  round : F → Int

/-- Division of `p` by `q` rounded to the nearest integer, ties away from zero
(`roundf` of an exact quotient); `q` is not zero. -/
def roundDiv (p q : Int) : Int :=
  let p1 := if q < 0 then -p else p
  let q1 := if q < 0 then -q else q
  if 0 ≤ p1 then (2 * p1 + q1) / (2 * q1) else -((2 * (-p1) + q1) / (2 * q1))

/-- A fixed-point instance of the float operations, used to evaluate the
definitions on concrete inputs: the value `v` is held as the integer `10 * v`,
so that a coordinate in millimetres is held as its number of
tenth-millimetres and both coordinate conversions are the identity. The
interpolation is rounded down to the grid, and the thumbnail pixel is the
expression of thumbnail_framed_plot (margin 5, half extents 19 and 14, the
smaller of the two scales) evaluated in exact arithmetic and then rounded.
The 32 bits of a value are the two's complement of its integer. -/
def gridOps : FloatOps Int where
  pec_raw_coordinate := fun c => c
  pec_physical_coordinate := fun c => c
  lt := fun a b => decide (a < b)
  zero := 0
  lerp := fun i a b => ((100 - i) * a + i * b) / 100
  framed := fun min_x min_y max_x max_y x y =>
    let w := max_x - min_x
    let h := max_y - min_y
    if 0 < w ∨ 0 < h then
      let sw_lt_sh : Bool :=
        if w = 0 then false else if h = 0 then true
        else if 0 < w * h then decide (38 * h < 28 * w) else decide (28 * w < 38 * h)
      let sn : Int := if sw_lt_sh then 38 else 28
      let sd : Int := if sw_lt_sh then w else h
      some (5 + roundDiv (38 * sd + (2 * x - min_x - max_x) * sn) (2 * sd),
            5 + roundDiv (28 * sd + (2 * y - min_y - max_y) * sn) (2 * sd))
    else none
  one := 10
  f32_bits := fun v => if v % 4294967296 < 2147483648 then v % 4294967296
    else v % 4294967296 - 4294967296
  f32_of_bits := fun i => i
  raw_translation := fun t => 10 * t
  physical_translation := fun t => t / 10
  round := fun t => roundDiv t 10

/-! ## pec-encoder.c -/

namespace PecEncoder

/-- A stitch of the PEC encoder (struct pec_stitch). -/
structure pec_stitch (F : Type) where
  x : F
  y : F
  type : pec_stitch_type

/-- Bounds of the PEC encoder (struct pec_bounds). -/
structure pec_bounds (F : Type) where
  min_x : F
  min_y : F
  max_x : F
  max_y : F
  valid : Bool

/-- State of the PEC encoder (struct pec_encoder). The stitch list holds
`stitch_count` entries and the palette list `thread_count` entries. -/
structure pec_encoder (F : Type) where
  bounds : pec_bounds F
  stitch_capacity : Int
  stitch_list : List (pec_stitch F)
  palette : List Int

/-- Field `stitch_count` of the encoder. -/
def pec_encoder.stitch_count {F : Type} (e : pec_encoder F) : Int := e.stitch_list.length

/-- Field `thread_count` of the encoder. -/
def pec_encoder.thread_count {F : Type} (e : pec_encoder F) : Int := e.palette.length

def PEC_MAX_THREADS : Int := 256
def PEC_THUMBNAIL_WIDTH : Int := 48
def PEC_THUMBNAIL_HEIGHT : Int := 38

/-- Source: encode_u8. -/
def encode_u8 (value : Int) : Option (List Byte) :=
  if 0 ≤ value ∧ value ≤ 0xFF then some [byteOfInt value] else none

/-- Source: encode_u16lsb. -/
def encode_u16lsb (value : Int) : Option (List Byte) :=
  if 0 ≤ value ∧ value ≤ 0xFFFF then some [byteOfInt value, byteOfInt (value / 256)] else none

/-- Source: the loop of encode_threads that writes palette entries. -/
def encode_palette : List Int → Option (List Byte)
  | [] => some []
  | p :: rest => both (encode_u8 p) (encode_palette rest)

/-- Source: the padding loop of encode_threads, `for (i = thread_count; i < 463; i++)`. -/
def encode_padding (thread_count : Int) : Option (List Byte) :=
  some (List.replicate (463 - thread_count).toNat (byteOfInt 0x20))

/-- Source: encode_threads. -/
def encode_threads {F : Type} (encoder : pec_encoder F) : Option (List Byte) :=
  if encoder.thread_count < 1 ∨ PEC_MAX_THREADS < encoder.thread_count then none
  else
    both (some (ascii "            "))
      (both (encode_u8 (encoder.thread_count - 1))
        (both (encode_palette encoder.palette) (encode_padding encoder.thread_count)))

/-- Source: encode_label. -/
def encode_label : Option (List Byte) :=
  both (some (ascii "LA:                \r            ")) (encode_u16lsb 0x00FF)

/-- Source: encode_thumbnail_size. -/
def encode_thumbnail_size : Option (List Byte) :=
  both (encode_u8 (PEC_THUMBNAIL_WIDTH / 8)) (encode_u8 PEC_THUMBNAIL_HEIGHT)

/-- Source: encode_size. -/
def encode_size {F : Type} (ops : FloatOps F) (encoder : pec_encoder F) : Option (List Byte) :=
  let width : Int := if !encoder.bounds.valid then 0 else
    ops.pec_raw_coordinate encoder.bounds.max_x - ops.pec_raw_coordinate encoder.bounds.min_x
  let height : Int := if !encoder.bounds.valid then 0 else
    ops.pec_raw_coordinate encoder.bounds.max_y - ops.pec_raw_coordinate encoder.bounds.min_y
  both (encode_u16lsb width)
    (both (encode_u16lsb height)
      (both (encode_u16lsb 0x01E0)
        (both (encode_u16lsb 0x01B0)
          (both (encode_u16lsb 0x0000) (encode_u16lsb 0x0000)))))

/-- The kind bits of the first byte of the two-byte form:
`type == PEC_STITCH_TRIM ? 0x20 : type == PEC_STITCH_JUMP ? 0x10 : 0x00`. -/
def kind_bits (type : pec_stitch_type) : Nat :=
  if type = PEC_STITCH_TRIM then 0x20 else if type = PEC_STITCH_JUMP then 0x10 else 0x00

/-- Source: encode_stitch. -/
def encode_stitch (type : pec_stitch_type) (d : Int) : Option (List Byte) :=
  if d < -0x800 ∨ 0x7FF < d then none
  else if type = PEC_STITCH_NORMAL ∧ -0x40 ≤ d ∧ d ≤ 0x3F then
    encode_u8 (d % 0x80)
  else
    both (encode_u8 (((d / 256 % 16).toNat ||| 0x80 ||| kind_bits type : Nat) : Int))
      (encode_u8 (d % 256))

/-- Source: the loop of encode_stitch_list, from stitch `i` on with the running
`x`, `y` and the stop counter `stop`. -/
def encode_stitch_loop {F : Type} (ops : FloatOps F) :
    List (pec_stitch F) → Int → Int → Int → Option (List Byte)
  | [], _, _, _ => some []
  | s :: rest, x, y, stop =>
    let nx := ops.pec_raw_coordinate s.x
    let ny := ops.pec_raw_coordinate s.y
    if s.type = PEC_STITCH_STOP then
      both (both (encode_u16lsb 0xB0FE) (encode_u8 stop))
        (encode_stitch_loop ops rest x y (3 - stop))
    else
      both (both (encode_stitch s.type (nx - x)) (encode_stitch s.type (ny - y)))
        (encode_stitch_loop ops rest nx ny stop)

/-- Source: encode_stitch_list. -/
def encode_stitch_list {F : Type} (ops : FloatOps F) (encoder : pec_encoder F) :
    Option (List Byte) :=
  both
    (encode_stitch_loop ops encoder.stitch_list
      (ops.pec_raw_coordinate encoder.bounds.min_x)
      (ops.pec_raw_coordinate encoder.bounds.min_y) 2)
    (encode_u8 0xFF)

/-- Source: encode_thumbnail_offset. The size probe runs encode_stitch_list on
the counting sink, starting from 20. -/
def encode_thumbnail_offset {F : Type} (ops : FloatOps F) (encoder : pec_encoder F) :
    Option (List Byte) :=
  match encode_stitch_list ops encoder with
  | none => none
  | some stream =>
    let size : Int := 20 + stream.length
    if size ≤ 0xFFFF then
      both (encode_u16lsb 0x0000)
        (both (encode_u16lsb size)
          (both (encode_u16lsb 0x3100) (encode_u16lsb 0xF0FF)))
    else none

/-- A thumbnail image (struct pec_thumbnail): `image[r][c]` is entry `6 * r + c`
of the list, which holds 38 * 6 bytes. -/
structure pec_thumbnail where
  image : List Byte

/-- The cleared thumbnail, `{ 0 }` or `memset(&thumbnail, 0, ...)`. -/
def thumbnail_zero : pec_thumbnail := ⟨List.replicate 228 0⟩

/-- Source: thumbnail_plot. -/
def thumbnail_plot (thumbnail : pec_thumbnail) (c r : Int) : pec_thumbnail :=
  if 0 ≤ c ∧ c < PEC_THUMBNAIL_WIDTH ∧ 0 ≤ r ∧ r < PEC_THUMBNAIL_HEIGHT then
    ⟨thumbnail.image.modify (fun b => byteOfNat (b.val ||| (1 <<< (c % 8).toNat)))
      (6 * r + c / 8).toNat⟩
  else thumbnail

/-- Source: thumbnail_framed_plot. -/
def thumbnail_framed_plot {F : Type} (ops : FloatOps F) (thumbnail : pec_thumbnail)
    (x y : F) (bounds : pec_bounds F) : pec_thumbnail :=
  match ops.framed bounds.min_x bounds.min_y bounds.max_x bounds.max_y x y with
  | some (c, r) => thumbnail_plot thumbnail c r
  | none => thumbnail

/-- Source: thumbnail_framed_line. -/
def thumbnail_framed_line {F : Type} (ops : FloatOps F) (thumbnail : pec_thumbnail)
    (a b : pec_stitch F) (bounds : pec_bounds F) : pec_thumbnail :=
  if a.type ≠ PEC_STITCH_NORMAL ∨ b.type ≠ PEC_STITCH_NORMAL then thumbnail
  else
    (List.range 101).foldl
      (fun t i => thumbnail_framed_plot ops t (ops.lerp i a.x b.x) (ops.lerp i a.y b.y) bounds)
      thumbnail

/-- Source: thumbnail_frame. -/
def thumbnail_frame (thumbnail : pec_thumbnail) : pec_thumbnail :=
  let t1 := (List.range 40).foldl
    (fun t i => thumbnail_plot (thumbnail_plot t (4 + i) 1) (4 + i) (PEC_THUMBNAIL_HEIGHT - 2))
    thumbnail
  let t2 := (List.range 30).foldl
    (fun t i => thumbnail_plot (thumbnail_plot t 1 (4 + i)) (PEC_THUMBNAIL_WIDTH - 2) (4 + i))
    t1
  let t3 := thumbnail_plot t2 3 2
  let t4 := thumbnail_plot t3 2 3
  let t5 := thumbnail_plot t4 (PEC_THUMBNAIL_WIDTH - 4) 2
  let t6 := thumbnail_plot t5 (PEC_THUMBNAIL_WIDTH - 3) 3
  let t7 := thumbnail_plot t6 2 (PEC_THUMBNAIL_HEIGHT - 4)
  let t8 := thumbnail_plot t7 3 (PEC_THUMBNAIL_HEIGHT - 3)
  let t9 := thumbnail_plot t8 (PEC_THUMBNAIL_WIDTH - 3) (PEC_THUMBNAIL_HEIGHT - 4)
  thumbnail_plot t9 (PEC_THUMBNAIL_WIDTH - 4) (PEC_THUMBNAIL_HEIGHT - 3)

/-- Source: the writing loop of encode_thumbnail, rows `r` from 0 to 37 and
byte columns `c` from 0 to 5. -/
def encode_thumbnail_rows (thumbnail : pec_thumbnail) : Option (List Byte) :=
  some ((List.range 38).flatMap (fun r =>
    (List.range 6).map (fun c => thumbnail.image.getD (6 * r + c) 0)))

/-- Source: encode_thumbnail. -/
def encode_thumbnail (thumbnail : pec_thumbnail) : Option (List Byte) :=
  encode_thumbnail_rows (thumbnail_frame thumbnail)

/-- Source: the first loop of encode_thumbnail_list, `for (k = 1; k < stitch_count; k++)`,
as a recursion on the list of pairs of consecutive stitches. -/
def thumbnail_all_lines {F : Type} (ops : FloatOps F) (bounds : pec_bounds F) :
    pec_thumbnail → List (pec_stitch F) → pec_thumbnail
  | t, a :: b :: rest =>
    thumbnail_all_lines ops bounds (thumbnail_framed_line ops t a b bounds) (b :: rest)
  | t, _ => t

/-- Source: the inner loop of the second loop of encode_thumbnail_list,
`for (; k < stitch_count && stitch_list[k].type != PEC_STITCH_STOP; k++)`;
`fuel` bounds the number of iterations and the result is the thumbnail and the
final `k`. -/
def thumbnail_run_lines {F : Type} (ops : FloatOps F) (encoder : pec_encoder F) :
    Nat → pec_thumbnail → Nat → pec_thumbnail × Nat
  | 0, t, k => (t, k)
  | fuel + 1, t, k =>
    match encoder.stitch_list[k]? with
    | none => (t, k)
    | some b =>
      if b.type ≠ PEC_STITCH_STOP then
        match encoder.stitch_list[k - 1]? with
        | none => (t, k)
        | some a =>
          thumbnail_run_lines ops encoder fuel
            (thumbnail_framed_line ops t a b encoder.bounds) (k + 1)
      else (t, k)

/-- Source: the second loop of encode_thumbnail_list,
`for (i = 0, k = 1; i < thread_count; i++, k++)`, with `n` threads left. -/
def encode_thread_thumbnails {F : Type} (ops : FloatOps F) (encoder : pec_encoder F) :
    Nat → Nat → Option (List Byte)
  | 0, _ => some []
  | n + 1, k =>
    let run := thumbnail_run_lines ops encoder encoder.stitch_list.length thumbnail_zero k
    both (encode_thumbnail run.1) (encode_thread_thumbnails ops encoder n (run.2 + 1))

/-- Source: encode_thumbnail_list. -/
def encode_thumbnail_list {F : Type} (ops : FloatOps F) (encoder : pec_encoder F) :
    Option (List Byte) :=
  both
    (encode_thumbnail (thumbnail_all_lines ops encoder.bounds thumbnail_zero encoder.stitch_list))
    (encode_thread_thumbnails ops encoder encoder.palette.length 1)

/-- Source: pec_encode, on a sink that accepts every chunk. -/
def pec_encode {F : Type} (ops : FloatOps F) (encoder : pec_encoder F) : Option (List Byte) :=
  both encode_label
    (both encode_thumbnail_size
      (both (encode_threads encoder)
        (both (encode_thumbnail_offset ops encoder)
          (both (encode_size ops encoder)
            (both (encode_stitch_list ops encoder) (encode_thumbnail_list ops encoder))))))

/-- Source: update_bounds. -/
def update_bounds {F : Type} (ops : FloatOps F) (bounds : pec_bounds F) (x y : F) :
    pec_bounds F :=
  if !bounds.valid then
    { min_x := x, min_y := y, max_x := x, max_y := y, valid := true }
  else
    { min_x := if ops.lt x bounds.min_x then x else bounds.min_x
      min_y := if ops.lt y bounds.min_y then y else bounds.min_y
      max_x := if ops.lt bounds.max_x x then x else bounds.max_x
      max_y := if ops.lt bounds.max_y y then y else bounds.max_y
      valid := bounds.valid }

/-- Source: pec_encoder_init (calloc gives the all-zero state). -/
def pec_encoder_init {F : Type} (ops : FloatOps F) : pec_encoder F :=
  { bounds := { min_x := ops.zero, min_y := ops.zero, max_x := ops.zero, max_y := ops.zero,
                valid := false }
    stitch_capacity := 0
    stitch_list := []
    palette := [] }

/-- Source: append_stitch. The outcome of `realloc` is the parameter `alloc_ok`;
the result is the new state and the returned flag. -/
def append_stitch {F : Type} (ops : FloatOps F) (alloc_ok : Bool) (encoder : pec_encoder F)
    (stitch_type : pec_stitch_type) (x y : F) : pec_encoder F × Bool :=
  if encoder.thread_count = 0 then (encoder, false)
  else
    let grown : pec_encoder F :=
      if encoder.stitch_capacity ≤ encoder.stitch_count then
        let capacity := encoder.stitch_capacity +
          (if encoder.stitch_capacity = 0 then 100
           else if 10000 < encoder.stitch_capacity then 10000
           else encoder.stitch_capacity)
        if capacity < 2147483647 / 2 ∧ alloc_ok then
          { encoder with stitch_capacity := capacity }
        else encoder
      else encoder
    if grown.stitch_capacity ≤ grown.stitch_count then (grown, false)
    else
      ({ grown with
          stitch_list := grown.stitch_list ++ [{ x := x, y := y, type := stitch_type }]
          bounds := update_bounds ops grown.bounds x y }, true)

/-- Source: pec_append_stitch. -/
def pec_append_stitch {F : Type} (ops : FloatOps F) (alloc_ok : Bool) (encoder : pec_encoder F)
    (x y : F) : pec_encoder F × Bool :=
  append_stitch ops alloc_ok encoder PEC_STITCH_NORMAL x y

/-- Source: pec_append_jump_stitch. -/
def pec_append_jump_stitch {F : Type} (ops : FloatOps F) (alloc_ok : Bool)
    (encoder : pec_encoder F) (x y : F) : pec_encoder F × Bool :=
  append_stitch ops alloc_ok encoder PEC_STITCH_JUMP x y

/-- Source: pec_append_trim_stitch. -/
def pec_append_trim_stitch {F : Type} (ops : FloatOps F) (alloc_ok : Bool)
    (encoder : pec_encoder F) (x y : F) : pec_encoder F × Bool :=
  append_stitch ops alloc_ok encoder PEC_STITCH_TRIM x y

/-- Source: pec_append_thread. -/
def pec_append_thread {F : Type} (ops : FloatOps F) (alloc_ok : Bool) (encoder : pec_encoder F)
    (palette_index : Int) : pec_encoder F × Bool :=
  if PEC_MAX_THREADS ≤ encoder.thread_count then (encoder, false)
  else
    let e1 : pec_encoder F := { encoder with palette := encoder.palette ++ [palette_index] }
    if e1.stitch_count = 0 then (e1, true)
    else append_stitch ops alloc_ok e1 PEC_STITCH_STOP ops.zero ops.zero

end PecEncoder

/-! ## pec-decoder.c -/

namespace PecDecoder

/-- State of the PEC decoder (struct pec_decoder): the owned copy of the input;
`size` is the length of `data`. The label is a copy of the first bytes of
`data` and is not kept apart. -/
structure pec_decoder where
  data : List Byte

/-- Field `size` of the decoder. -/
def pec_decoder.size (d : pec_decoder) : Int := d.data.length

/-- Source: decode_u8. -/
def decode_u8 (decoder : pec_decoder) (offset : Int) : Option Nat :=
  if offset < 0 ∨ decoder.size < offset + 1 then none
  else some (decoder.data.getD offset.toNat 0).val

/-- Source: decode_u16lsb. -/
def decode_u16lsb (decoder : pec_decoder) (offset : Int) : Option Nat :=
  if offset < 0 ∨ decoder.size < offset + 2 then none
  else some ((decoder.data.getD offset.toNat 0).val |||
    ((decoder.data.getD (offset + 1).toNat 0).val <<< 8))

/-- Source: decode_thumbnail_offset. -/
def decode_thumbnail_offset (decoder : pec_decoder) : Option Int :=
  match decode_u16lsb decoder 514 with
  | none => none
  | some image_offset => some (image_offset + 512)

/-- Source: decode_stitch_coordinate. The result is the new `*stitch_offset`,
the new `*c` and the new `*stitch_type`. -/
def decode_stitch_coordinate (decoder : pec_decoder) (stitch_offset : Int) (c : Int)
    (stitch_type : pec_stitch_type) : Option (Int × Int × pec_stitch_type) :=
  match decode_u8 decoder stitch_offset with
  | none => none
  | some u =>
    if u &&& 0x80 ≠ 0 then
      let t1 := if u &&& 0x20 ≠ 0 then PEC_STITCH_TRIM else stitch_type
      let t2 := if u &&& 0x10 ≠ 0 then PEC_STITCH_JUMP else t1
      match decode_u8 decoder (stitch_offset + 1) with
      | none => none
      | some v =>
        let w : Nat := ((u &&& 0x0F) <<< 8) + v
        let w1 : Int := if w &&& 0x800 ≠ 0 then (w : Int) - 0x1000 else w
        some (stitch_offset + 2, c + w1, t2)
    else
      let u1 : Int := if u ≥ 0x40 then (u : Int) - 0x80 else u
      some (stitch_offset + 1, c + u1, stitch_type)

/-- Source: pec_decoder_init. The bound `INT_MAX/2 < size` is on the C side
2^30 - 1; allocation is taken to succeed. -/
def pec_decoder_init (data : List Byte) : Option pec_decoder :=
  if (data.length : Int) < 534 ∨ (2147483647 / 2 : Int) < data.length then none
  else some { data := data }

/-- A pec_stitch_callback together with its argument: the callback receives
the state behind `arg`, the stitch index, the two coordinates (converted by
pec_physical_coordinate) and the stitch type, and returns the new state and
its verdict (`true` to continue). -/
abbrev pec_stitch_callback (F : Type) (σ : Type) :=
  σ → Int → F → F → pec_stitch_type → σ × Bool

/-- Source: the loop of pec_stitch_foreach, from the iteration with the given
`stitch_index`, `stitch_offset`, `x` and `y` on. Every iteration that does not
leave the loop moves the offset forward by at least two bytes and needs a byte
at the offset, so `fuel` iterations suffice when `fuel` exceeds the number of
bytes of the buffer; running out of fuel is reported as a failure. -/
def stitch_foreach_loop {F σ : Type} (ops : FloatOps F) (decoder : pec_decoder)
    (stitch_cb : pec_stitch_callback F σ) :
    Nat → Int → Int → Int → Int → σ → σ × Bool
  | 0, _, _, _, _, arg => (arg, false)
  | fuel + 1, stitch_index, stitch_offset, x, y, arg =>
    match decode_u8 decoder stitch_offset with
    | none => (arg, false)
    | some cmd =>
      if cmd = 0xFF then (arg, true)
      else if cmd = 0xFE then
        let r := stitch_cb arg stitch_index (ops.pec_physical_coordinate x)
          (ops.pec_physical_coordinate y) PEC_STITCH_STOP
        if r.2 = false then (r.1, false)
        else stitch_foreach_loop ops decoder stitch_cb fuel (stitch_index + 1)
          (stitch_offset + 3) x y r.1
      else
        match decode_stitch_coordinate decoder stitch_offset x PEC_STITCH_NORMAL with
        | none => (arg, false)
        | some (o1, x1, t1) =>
          match decode_stitch_coordinate decoder o1 y t1 with
          | none => (arg, false)
          | some (o2, y1, t2) =>
            let r := stitch_cb arg stitch_index (ops.pec_physical_coordinate x1)
              (ops.pec_physical_coordinate y1) t2
            if r.2 = false then (r.1, false)
            else stitch_foreach_loop ops decoder stitch_cb fuel (stitch_index + 1) o2 x1 y1 r.1

/-- Source: pec_stitch_foreach. The result is the final state behind `arg` and
the returned flag. -/
def pec_stitch_foreach {F σ : Type} (ops : FloatOps F) (decoder : pec_decoder)
    (stitch_cb : pec_stitch_callback F σ) (arg : σ) : σ × Bool :=
  stitch_foreach_loop ops decoder stitch_cb (decoder.data.length + 1) 0 532 0 0 arg

/-- Source: the callback stitch_count of pec-decoder.c. -/
def stitch_count {F : Type} : pec_stitch_callback F Int :=
  fun counter _ _ _ _ => (counter + 1, true)

/-- Source: pec_stitch_count. -/
def pec_stitch_count {F : Type} (ops : FloatOps F) (decoder : pec_decoder) : Int :=
  (pec_stitch_foreach ops decoder stitch_count 0).1

/-- One invocation of a pec_stitch_callback. -/
structure stitch_event (F : Type) where
  stitch_index : Int
  x : F
  y : F
  stitch_type : pec_stitch_type

/-- The callback that records its invocations, in order, and accepts every
stitch. -/
def record_stitch {F : Type} : pec_stitch_callback F (List (stitch_event F)) :=
  fun log stitch_index x y stitch_type =>
    (log ++ [{ stitch_index := stitch_index, x := x, y := y, stitch_type := stitch_type }], true)

/-- Source: pec_thread_count. -/
def pec_thread_count (decoder : pec_decoder) : Int :=
  match decode_u8 decoder 48 with
  | some raw => raw + 1
  | none => 0

/-- Source: pec_thumbnail_width. -/
def pec_thumbnail_width (decoder : pec_decoder) : Int :=
  match decode_u8 decoder 34 with
  | some width => 8 * width
  | none => 0

/-- Source: pec_thumbnail_height. -/
def pec_thumbnail_height (decoder : pec_decoder) : Int :=
  match decode_u8 decoder 35 with
  | some height => height
  | none => 0

end PecDecoder

/-! ## pec.c -/

namespace Pec

/-- Source: palette_thread_list. -/
def palette_thread_list : List pec_thread := [
    ⟨1, "1", "000", "Prussian Blue", "A", ⟨26, 10, 148⟩⟩,
    ⟨2, "2", "000", "Blue", "A", ⟨15, 117, 255⟩⟩,
    ⟨3, "3", "000", "Teal Green", "A", ⟨0, 147, 76⟩⟩,
    ⟨4, "4", "000", "Corn Flower Blue", "A", ⟨186, 189, 254⟩⟩,
    ⟨5, "5", "000", "Red", "A", ⟨236, 0, 0⟩⟩,
    ⟨6, "6", "000", "Reddish Brown", "A", ⟨228, 153, 90⟩⟩,
    ⟨7, "7", "000", "Magenta", "A", ⟨204, 72, 171⟩⟩,
    ⟨8, "8", "000", "Light Lilac", "A", ⟨253, 196, 250⟩⟩,
    ⟨9, "9", "000", "Lilac", "A", ⟨221, 132, 205⟩⟩,
    ⟨10, "10", "000", "Mint Green", "A", ⟨107, 211, 138⟩⟩,
    ⟨11, "11", "000", "Deep Gold", "A", ⟨228, 169, 69⟩⟩,
    ⟨12, "12", "000", "Orange", "A", ⟨255, 189, 66⟩⟩,
    ⟨13, "13", "000", "Yellow", "A", ⟨255, 230, 0⟩⟩,
    ⟨14, "14", "000", "Lime Green", "A", ⟨108, 217, 0⟩⟩,
    ⟨15, "15", "000", "Brass", "A", ⟨193, 169, 65⟩⟩,
    ⟨16, "16", "000", "Silver", "A", ⟨181, 173, 151⟩⟩,
    ⟨17, "17", "000", "Russet Brown", "A", ⟨186, 156, 95⟩⟩,
    ⟨18, "18", "000", "Cream Brown", "A", ⟨250, 245, 158⟩⟩,
    ⟨19, "19", "000", "Pewter", "A", ⟨128, 128, 128⟩⟩,
    ⟨20, "20", "000", "Black", "A", ⟨0, 0, 0⟩⟩,
    ⟨21, "21", "000", "Ultramarine", "A", ⟨0, 28, 223⟩⟩,
    ⟨22, "22", "000", "Royal Purple", "A", ⟨223, 0, 184⟩⟩,
    ⟨23, "23", "000", "Dark Gray", "A", ⟨98, 98, 98⟩⟩,
    ⟨24, "24", "000", "Dark Brown", "A", ⟨105, 38, 13⟩⟩,
    ⟨25, "25", "000", "Deep Rose", "A", ⟨255, 0, 96⟩⟩,
    ⟨26, "26", "000", "Light Brown", "A", ⟨191, 130, 0⟩⟩,
    ⟨27, "27", "000", "Salmon Pink", "A", ⟨243, 145, 120⟩⟩,
    ⟨28, "28", "000", "Vermillion", "A", ⟨255, 104, 5⟩⟩,
    ⟨29, "29", "000", "White", "A", ⟨240, 240, 240⟩⟩,
    ⟨30, "30", "000", "Violet", "A", ⟨200, 50, 205⟩⟩,
    ⟨31, "31", "000", "Seacrest", "A", ⟨176, 191, 155⟩⟩,
    ⟨32, "32", "000", "Sky Blue", "A", ⟨101, 191, 235⟩⟩,
    ⟨33, "33", "000", "Pumpkin", "A", ⟨255, 186, 4⟩⟩,
    ⟨34, "34", "000", "Cream Yellow", "A", ⟨255, 240, 108⟩⟩,
    ⟨35, "35", "000", "Khaki", "A", ⟨254, 202, 21⟩⟩,
    ⟨36, "36", "000", "Clay Brown", "A", ⟨243, 129, 1⟩⟩,
    ⟨37, "37", "000", "Leaf Green", "A", ⟨55, 169, 35⟩⟩,
    ⟨38, "38", "000", "Peacock Blue", "A", ⟨35, 70, 95⟩⟩,
    ⟨39, "39", "000", "Gray", "A", ⟨166, 166, 149⟩⟩,
    ⟨40, "40", "000", "Warm Gray", "A", ⟨206, 191, 166⟩⟩,
    ⟨41, "41", "000", "Dark Olive", "A", ⟨150, 170, 2⟩⟩,
    ⟨42, "42", "000", "Linen", "A", ⟨255, 227, 198⟩⟩,
    ⟨43, "43", "000", "Pink", "A", ⟨255, 153, 215⟩⟩,
    ⟨44, "44", "000", "Deep Green", "A", ⟨0, 112, 4⟩⟩,
    ⟨45, "45", "000", "Lavender", "A", ⟨237, 204, 251⟩⟩,
    ⟨46, "46", "000", "Wisteria Violet", "A", ⟨192, 137, 216⟩⟩,
    ⟨47, "47", "000", "Beige", "A", ⟨231, 217, 180⟩⟩,
    ⟨48, "48", "000", "Carmine", "A", ⟨233, 14, 134⟩⟩,
    ⟨49, "49", "000", "Amber Red", "A", ⟨207, 104, 41⟩⟩,
    ⟨50, "50", "000", "Olive Green", "A", ⟨64, 134, 21⟩⟩,
    ⟨51, "51", "000", "Dark Fuschia", "A", ⟨219, 23, 151⟩⟩,
    ⟨52, "52", "000", "Tangerine", "A", ⟨255, 167, 4⟩⟩,
    ⟨53, "53", "000", "Light Blue", "A", ⟨185, 255, 255⟩⟩,
    ⟨54, "54", "000", "Emerald Green", "A", ⟨34, 137, 39⟩⟩,
    ⟨55, "55", "000", "Purple", "A", ⟨182, 18, 205⟩⟩,
    ⟨56, "56", "000", "Moss Green", "A", ⟨0, 170, 0⟩⟩,
    ⟨57, "57", "000", "Flesh Pink", "A", ⟨254, 169, 220⟩⟩,
    ⟨58, "58", "000", "Harvest Gold", "A", ⟨254, 213, 16⟩⟩,
    ⟨59, "59", "000", "Electric Blue", "A", ⟨0, 151, 223⟩⟩,
    ⟨60, "60", "000", "Lemon Yellow", "A", ⟨255, 255, 132⟩⟩,
    ⟨61, "61", "000", "Fresh Green", "A", ⟨207, 231, 116⟩⟩,
    ⟨62, "62", "000", "Applique Material", "A", ⟨255, 200, 100⟩⟩,
    ⟨63, "63", "000", "Applique Position", "A", ⟨255, 200, 200⟩⟩,
    ⟨64, "64", "000", "Applique", "A", ⟨255, 200, 200⟩⟩
  ]

/-- Source: PEC_PALETTE_COUNT. -/
def PEC_PALETTE_COUNT : Int := palette_thread_list.length

/-- Source: pec_undefined_thread. -/
def pec_undefined_thread : pec_thread :=
  ⟨0, "00", "000", "Undefined", "A", ⟨220, 220, 220⟩⟩

/-- Source: rgb_norm2. -/
def rgb_norm2 (u v : pec_rgb) : Int :=
  let dr := v.r - u.r
  let dg := v.g - u.g
  let db := v.b - u.b
  dr * dr + dg * dg + db * db

/-- Source: pec_palette_thread. -/
def pec_palette_thread (palette_index : Int) : pec_thread :=
  if 1 ≤ palette_index ∧ palette_index ≤ PEC_PALETTE_COUNT then
    palette_thread_list.getD (palette_index - 1).toNat pec_undefined_thread
  else pec_undefined_thread

/-- Source: pec_palette_index_by_rgb; the loop `for (i = 0; i < PEC_PALETTE_COUNT; i++)`
is the fold over `0, 1, ..., PEC_PALETTE_COUNT - 1`. -/
def pec_palette_index_by_rgb (rgb : pec_rgb) : Int :=
  (List.range PEC_PALETTE_COUNT.toNat).foldl
    (fun (palette_index : Int) (i : Nat) =>
      if rgb_norm2 rgb (pec_palette_thread i).rgb <
          rgb_norm2 rgb (pec_palette_thread palette_index).rgb then (i : Int)
      else palette_index)
    0

end Pec

/-! ## pes-encoder.c -/

namespace PesEncoder

open Pec PecEncoder

/-- Affine PES transformation matrix (struct pes_transform of pes.h);
`mij` is `matrix[i][j]`. -/
structure pes_transform (F : Type) where
  m00 : F
  m01 : F
  m10 : F
  m11 : F
  m20 : F
  m21 : F

/-- A stitch of the PES encoder (struct pes_stitch). -/
structure pes_stitch (F : Type) where
  thread_index : Int
  x : F
  y : F
  jump : Bool

/-- Bounds of the PES encoder (struct pes_bounds). -/
structure pes_bounds (F : Type) where
  min_x : F
  min_y : F
  max_x : F
  max_y : F
  valid : Bool

/-- State of the PES encoder (struct pes_encoder). The thread list holds
`thread_count` entries and the stitch list `stitch_count` entries. -/
structure pes_encoder (F : Type) where
  bounds : pes_bounds F
  affine_transform : pes_transform F
  translation_x : F
  translation_y : F
  thread_list : List pec_thread
  stitch_capacity : Int
  stitch_list : List (pes_stitch F)
  block_count : Int
  pec_encoder : PecEncoder.pec_encoder F

/-- Field `thread_count` of the encoder. -/
def pes_encoder.thread_count {F : Type} (e : pes_encoder F) : Int := e.thread_list.length

/-- Field `stitch_count` of the encoder. -/
def pes_encoder.stitch_count {F : Type} (e : pes_encoder F) : Int := e.stitch_list.length

def PES_MAX_THREADS : Int := 256

/-- Source: encode_u16lsb of pes-encoder.c. -/
def encode_u16lsb (value : Int) : Option (List Byte) :=
  if 0 ≤ value ∧ value ≤ 0xFFFF then some [byteOfInt value, byteOfInt (value / 256)] else none

/-- Source: encode_i16lsb. -/
def encode_i16lsb (value : Int) : Option (List Byte) :=
  if -0x8000 ≤ value ∧ value ≤ 0x7FFF then encode_u16lsb (value % 0x10000) else none

/-- Source: encode_i32lsb. -/
def encode_i32lsb (value : Int) : Option (List Byte) :=
  some [byteOfInt value, byteOfInt (value / 256), byteOfInt (value / 65536),
        byteOfInt (value / 16777216)]

/-- Source: encode_f32lsb. -/
def encode_f32lsb {F : Type} (ops : FloatOps F) (f : F) : Option (List Byte) :=
  encode_i32lsb (ops.f32_bits f)

/-- Source: encode_string, on a string literal. -/
def encode_string (s : String) : Option (List Byte) :=
  if (ascii s).length ≤ 0xFFFF then
    both (encode_u16lsb (ascii s).length) (some (ascii s))
  else none

/-- Source: update_bounds of pes-encoder.c. -/
def update_bounds {F : Type} (ops : FloatOps F) (bounds : pes_bounds F) (x y : F) :
    pes_bounds F :=
  if !bounds.valid then
    { min_x := x, min_y := y, max_x := x, max_y := y, valid := true }
  else
    { min_x := if ops.lt x bounds.min_x then x else bounds.min_x
      min_y := if ops.lt y bounds.min_y then y else bounds.min_y
      max_x := if ops.lt bounds.max_x x then x else bounds.max_x
      max_y := if ops.lt bounds.max_y y then y else bounds.max_y
      valid := bounds.valid }

/-- Source: encode_transform. -/
def encode_transform {F : Type} (ops : FloatOps F) (encoder : pes_encoder F) :
    Option (List Byte) :=
  let t := encoder.affine_transform
  both (encode_f32lsb ops t.m00)
    (both (encode_f32lsb ops t.m01)
      (both (encode_f32lsb ops t.m10)
        (both (encode_f32lsb ops t.m11)
          (both (encode_f32lsb ops (ops.raw_translation t.m20))
            (encode_f32lsb ops (ops.raw_translation t.m21))))))

/-- Source: is_block. The index is within the list when the function is called;
the entry before index 0 is not read, since `stitch_index == 0` is tested first. -/
def is_block {F : Type} (stitch_list : List (pes_stitch F)) (stitch_index : Nat) : Bool :=
  match stitch_list[stitch_index]? with
  | none => false
  | some s =>
    s.jump || stitch_index == 0 ||
      (match stitch_list[stitch_index - 1]? with
       | none => false
       | some p => p.thread_index != s.thread_index)

/-- Source: encode_cembone. -/
def encode_cembone {F : Type} (ops : FloatOps F) (encoder : pes_encoder F) :
    Option (List Byte) :=
  let t_x := ops.pec_raw_coordinate encoder.affine_transform.m20
  let t_y := ops.pec_raw_coordinate encoder.affine_transform.m21
  let min_x := ops.pec_raw_coordinate encoder.bounds.min_x + t_x
  let min_y := ops.pec_raw_coordinate encoder.bounds.min_y + t_y
  let max_x := ops.pec_raw_coordinate encoder.bounds.max_x + t_x
  let max_y := ops.pec_raw_coordinate encoder.bounds.max_y + t_y
  let width : Int := if !encoder.bounds.valid then 0 else max_x - min_x
  let height : Int := if !encoder.bounds.valid then 0 else max_y - min_y
  let block_count := encoder.block_count
  both (encode_string "CEmbOne")
   (both (encode_i16lsb min_x)
    (both (encode_i16lsb min_y)
     (both (encode_i16lsb max_x)
      (both (encode_i16lsb max_y)
       (both (encode_i16lsb min_x)
        (both (encode_i16lsb min_y)
         (both (encode_i16lsb max_x)
          (both (encode_i16lsb max_y)
           (both (encode_transform ops encoder)
            (both (encode_u16lsb 1)
             (both (encode_i16lsb (ops.round encoder.translation_x))
              (both (encode_i16lsb (ops.round encoder.translation_y))
               (both (encode_u16lsb width)
                (both (encode_u16lsb height)
                 (both (some [0, 0, 0, 0, 0, 0, 0, 0])
                  (both (encode_u16lsb block_count)
                   (both (encode_u16lsb 0xFFFF) (encode_u16lsb 0x0000))))))))))))))))))

/-- The numeric value of a stitch type (enum pec_stitch_type). -/
def stitch_type_code : pec_stitch_type → Int
  | .PEC_STITCH_NORMAL => 0
  | .PEC_STITCH_JUMP => 1
  | .PEC_STITCH_TRIM => 2
  | .PEC_STITCH_STOP => 3

/-- Source: encode_block_header. -/
def encode_block_header (stitch_type : pec_stitch_type) (thread_index : Int)
    (stitch_count : Int) : Option (List Byte) :=
  both (encode_u16lsb (stitch_type_code stitch_type))
    (both (encode_u16lsb (thread_index + 1)) (encode_u16lsb stitch_count))

/-- Source: encode_stitch of pes-encoder.c. -/
def encode_stitch {F : Type} (ops : FloatOps F) (x y : F) : Option (List Byte) :=
  both (encode_i16lsb (ops.pec_raw_coordinate x)) (encode_i16lsb (ops.pec_raw_coordinate y))

/-- Source: the loop of block_stitch_count, with `fuel` iterations left. -/
def block_stitch_count_loop {F : Type} (stitch_list : List (pes_stitch F))
    (stitch_index : Nat) : Nat → Nat → Nat
  | 0, count => count
  | fuel + 1, count =>
    if stitch_index + count < stitch_list.length ∧
        (count = 0 ∨ is_block stitch_list (stitch_index + count) = false) then
      block_stitch_count_loop stitch_list stitch_index fuel (count + 1)
    else count

/-- Source: block_stitch_count. The loop makes at most `stitch_count` iterations. -/
def block_stitch_count {F : Type} (stitch_list : List (pes_stitch F)) (stitch_index : Nat) :
    Nat :=
  block_stitch_count_loop stitch_list stitch_index stitch_list.length 0

/-- Source: encode_jump_stitch. -/
def encode_jump_stitch {F : Type} (ops : FloatOps F) (a b : pes_stitch F) :
    Option (List Byte) :=
  both (encode_block_header .PEC_STITCH_JUMP b.thread_index 2)
    (both (encode_stitch ops a.x a.y) (encode_stitch ops b.x b.y))

/-- Source: the loop of encode_stitch_list of pes-encoder.c, from index `i` on;
`prev` is `stitch_list[i - 1]` and `rest` the stitches from index `i`. The
test for a thread change compares `stitch->thread_index` with
`encoder->stitch_list[i].thread_index`, which is the same stitch. -/
def encode_stitch_loop {F : Type} (ops : FloatOps F) (encoder : pes_encoder F) :
    Nat → Option (pes_stitch F) → List (pes_stitch F) → Option (List Byte)
  | _, _, [] => some []
  | i, prev, stitch :: rest =>
    let head : Option (List Byte) :=
      if i = 0 then
        encode_block_header .PEC_STITCH_NORMAL stitch.thread_index
          (block_stitch_count encoder.stitch_list i)
      else if stitch.jump = true ∨ stitch.thread_index ≠ stitch.thread_index then
        match prev with
        | none => none
        | some p =>
          both (encode_u16lsb 0x8003)
            (both (encode_jump_stitch ops p stitch)
              (both (encode_u16lsb 0x8003)
                (encode_block_header .PEC_STITCH_NORMAL stitch.thread_index
                  (block_stitch_count encoder.stitch_list i))))
      else some []
    both head
      (both (encode_stitch ops stitch.x stitch.y)
        (encode_stitch_loop ops encoder (i + 1) (some stitch) rest))

/-- Source: encode_stitch_list of pes-encoder.c. -/
def encode_stitch_list {F : Type} (ops : FloatOps F) (encoder : pes_encoder F) :
    Option (List Byte) :=
  encode_stitch_loop ops encoder 0 none encoder.stitch_list

/-- Source: the first loop of encode_thread_list14, counting the thread changes;
`prev` is the thread index of the stitch before, if any. -/
def change_count_loop {F : Type} : Option Int → List (pes_stitch F) → Int
  | _, [] => 0
  | prev, s :: rest =>
    (if prev = none ∨ prev ≠ some s.thread_index then 1 else 0) +
      change_count_loop (some s.thread_index) rest

/-- Source: the second loop of encode_thread_list14, from index `i` on with the
running `block_index`. A thread index outside the thread list reads the
undefined thread. -/
def encode_change_loop {F : Type} (encoder : pes_encoder F) :
    Nat → Int → Option Int → List (pes_stitch F) → Option (List Byte)
  | _, _, _, [] => some []
  | i, block_index, prev, s :: rest =>
    let entry : Option (List Byte) :=
      if prev = none ∨ prev ≠ some s.thread_index then
        let thread := encoder.thread_list.getD s.thread_index.toNat pec_undefined_thread
        both (encode_u16lsb block_index) (encode_u16lsb (pec_palette_index_by_rgb thread.rgb))
      else some []
    let next : Int :=
      if is_block encoder.stitch_list i = true then block_index + (if i = 0 then 1 else 2)
      else block_index
    both entry (encode_change_loop encoder (i + 1) next (some s.thread_index) rest)

/-- Source: encode_thread_list14. -/
def encode_thread_list14 {F : Type} (encoder : pes_encoder F) : Option (List Byte) :=
  both (encode_u16lsb (change_count_loop none encoder.stitch_list))
    (both (encode_change_loop encoder 0 0 none encoder.stitch_list)
      (both (encode_u16lsb 0) (encode_u16lsb 0)))

/-- Source: encode_csewseg14. -/
def encode_csewseg14 {F : Type} (ops : FloatOps F) (encoder : pes_encoder F) :
    Option (List Byte) :=
  both (encode_string "CSewSeg")
    (both (encode_stitch_list ops encoder) (encode_thread_list14 encoder))

/-- Source: encode_sections14. -/
def encode_sections14 {F : Type} (ops : FloatOps F) (encoder : pes_encoder F) :
    Option (List Byte) :=
  both (encode_cembone ops encoder) (encode_csewseg14 ops encoder)

/-- Source: encode_pec. -/
def encode_pec {F : Type} (ops : FloatOps F) (encoder : pes_encoder F) : Option (List Byte) :=
  pec_encode ops encoder.pec_encoder

/-- Source: encode_pec_offset1. The size probe runs encode_sections14 on the
counting sink, starting from 22; the counting sink refuses a chunk once the
`int` counter has passed `INT_MAX`. -/
def encode_pec_offset1 {F : Type} (ops : FloatOps F) (encoder : pes_encoder F) :
    Option (List Byte) :=
  match encode_sections14 ops encoder with
  | none => none
  | some sections =>
    let pec_offset : Int := 22 + sections.length
    if pec_offset ≤ 2147483647 then encode_i32lsb pec_offset else none

/-- Source: pes_encode1, on a sink that accepts every chunk. -/
def pes_encode1 {F : Type} (ops : FloatOps F) (encoder : pes_encoder F) : Option (List Byte) :=
  both (some (ascii "#PES0001"))
    (both (encode_pec_offset1 ops encoder)
      (both (encode_u16lsb 0x0000)
        (both (encode_u16lsb 0x0001)
          (both (encode_u16lsb 0x0001)
            (both (encode_u16lsb 0xFFFF)
              (both (encode_u16lsb 0x0000)
                (both (encode_sections14 ops encoder) (encode_pec ops encoder))))))))

/-- Source: pes_encoder_init (calloc gives the all-zero state; allocation is
taken to succeed). -/
def pes_encoder_init {F : Type} (ops : FloatOps F) : pes_encoder F :=
  { bounds := { min_x := ops.zero, min_y := ops.zero, max_x := ops.zero, max_y := ops.zero,
                valid := false }
    affine_transform := { m00 := ops.one, m01 := ops.zero, m10 := ops.zero, m11 := ops.one,
                          m20 := ops.zero, m21 := ops.zero }
    translation_x := ops.zero
    translation_y := ops.zero
    thread_list := []
    stitch_capacity := 0
    stitch_list := []
    block_count := 0
    pec_encoder := pec_encoder_init ops }

/-- The outcomes of the three `realloc` calls that one append_stitch of
pes-encoder.c can make: its own, the one of the Stop that pec_append_thread
appends, and the one of the PEC stitch. -/
structure alloc_outcomes where
  pes_list : Bool
  pec_stop : Bool
  pec_stitch : Bool

/-- Source: append_stitch of pes-encoder.c. The result is the new state and the
returned flag. -/
def append_stitch {F : Type} (ops : FloatOps F) (alloc : alloc_outcomes)
    (encoder : pes_encoder F) (thread_index : Int) (x y : F) (jump : Bool) :
    pes_encoder F × Bool :=
  if thread_index < 0 ∨ encoder.thread_count ≤ thread_index then (encoder, false)
  else
    let grown : pes_encoder F :=
      if encoder.stitch_capacity ≤ encoder.stitch_count then
        let capacity := encoder.stitch_capacity +
          (if encoder.stitch_capacity = 0 then 100
           else if 10000 < encoder.stitch_capacity then 10000
           else encoder.stitch_capacity)
        if capacity < 2147483647 / 2 ∧ alloc.pes_list then
          { encoder with stitch_capacity := capacity }
        else encoder
      else encoder
    if grown.stitch_capacity ≤ grown.stitch_count then (grown, false)
    else
      let thread_change : Bool :=
        grown.stitch_list.getLast?.any (fun last => decide (thread_index ≠ last.thread_index))
      let threaded : PecEncoder.pec_encoder F × Bool :=
        if grown.stitch_count = 0 ∨ thread_change = true then
          pec_append_thread ops alloc.pec_stop grown.pec_encoder
            (pec_palette_index_by_rgb
              (grown.thread_list.getD thread_index.toNat pec_undefined_thread).rgb)
        else (grown.pec_encoder, true)
      if threaded.2 = false then ({ grown with pec_encoder := threaded.1 }, false)
      else
        let stitched : PecEncoder.pec_encoder F × Bool :=
          if thread_change = true then pec_append_jump_stitch ops alloc.pec_stitch threaded.1 x y
          else if jump = true then pec_append_trim_stitch ops alloc.pec_stitch threaded.1 x y
          else pec_append_stitch ops alloc.pec_stitch threaded.1 x y
        if stitched.2 = false then ({ grown with pec_encoder := stitched.1 }, false)
        else
          let stitch_list := grown.stitch_list ++
            [{ thread_index := thread_index, x := x, y := y, jump := jump }]
          ({ grown with
              pec_encoder := stitched.1
              stitch_list := stitch_list
              bounds := update_bounds ops grown.bounds x y
              block_count :=
                if is_block stitch_list (stitch_list.length - 1) = true then
                  grown.block_count + (if stitch_list.length = 1 then 1 else 2)
                else grown.block_count }, true)

/-- Source: pes_append_thread. -/
def pes_append_thread {F : Type} (encoder : pes_encoder F) (thread : pec_thread) :
    pes_encoder F × Bool :=
  if PES_MAX_THREADS ≤ encoder.thread_count then (encoder, false)
  else ({ encoder with thread_list := encoder.thread_list ++ [thread] }, true)

/-- Source: pes_append_stitch. -/
def pes_append_stitch {F : Type} (ops : FloatOps F) (alloc : alloc_outcomes)
    (encoder : pes_encoder F) (thread_index : Int) (x y : F) : pes_encoder F × Bool :=
  append_stitch ops alloc encoder thread_index x y false

/-- Source: pes_append_jump_stitch. -/
def pes_append_jump_stitch {F : Type} (ops : FloatOps F) (alloc : alloc_outcomes)
    (encoder : pes_encoder F) (thread_index : Int) (x y : F) : pes_encoder F × Bool :=
  append_stitch ops alloc encoder thread_index x y true

/-- Source: pes_encode_transform. -/
def pes_encode_transform {F : Type} (encoder : pes_encoder F)
    (affine_transform : pes_transform F) : pes_encoder F :=
  { encoder with affine_transform := affine_transform }

end PesEncoder

/-! ## pes-decoder.c -/

namespace PesDecoder

open Pec PecDecoder

/-- A change of thread (struct pes_change). -/
structure pes_change where
  block_index : Int
  thread_index : Int
  deriving DecidableEq, Repr

/-- State of the PES decoder (struct pes_decoder). `data` is the owned copy of
the input and `size` its length; `version` holds the four bytes copied from
offset 4; `thread_list` is `none` for the null pointer. -/
structure pes_decoder where
  data : List Byte
  version : List Byte
  hoop_width : Int
  hoop_height : Int
  pec_offset : Int
  cembone_offset : Int
  csewseg_offset : Int
  name : List Byte
  thread_count : Int
  thread_list : Option (List pec_thread)
  change_count : Int
  change_list : List pes_change
  pec : pec_decoder

/-- Field `size` of the decoder. -/
def pes_decoder.size (d : pes_decoder) : Int := d.data.length

/-- The C string held in a character array: the characters before the first
NUL. -/
def cstring (bytes : List Byte) : String :=
  String.mk ((bytes.takeWhile (fun b => b.val ≠ 0)).map (fun b => Char.ofNat b.val))

/-- An entry of a zero-filled thread array (calloc): every field is zero or the
null pointer. -/
def zero_thread : pec_thread := ⟨0, "", "", "", "", ⟨0, 0, 0⟩⟩

/-- Source: decode_u8 of pes-decoder.c. -/
def decode_u8 (decoder : pes_decoder) (offset : Int) : Option Int :=
  if offset < 0 ∨ decoder.size < offset + 1 then none
  else some (decoder.data.getD offset.toNat 0).val

/-- Source: decode_u16lsb of pes-decoder.c. -/
def decode_u16lsb (decoder : pes_decoder) (offset : Int) : Option Int :=
  if offset < 0 ∨ decoder.size < offset + 2 then none
  else some (((decoder.data.getD offset.toNat 0).val |||
    ((decoder.data.getD (offset + 1).toNat 0).val <<< 8) : Nat) : Int)

/-- Source: decode_i16lsb; the cast to `int16_t` is the 16-bit two's complement. -/
def decode_i16lsb (decoder : pes_decoder) (offset : Int) : Option Int :=
  if offset < 0 ∨ decoder.size < offset + 2 then none
  else
    let v : Nat := (decoder.data.getD offset.toNat 0).val |||
      ((decoder.data.getD (offset + 1).toNat 0).val <<< 8)
    some (if v < 0x8000 then (v : Int) else (v : Int) - 0x10000)

/-- Source: decode_i32lsb; the value is the 32-bit two's complement of the four
bytes. -/
def decode_i32lsb (decoder : pes_decoder) (offset : Int) : Option Int :=
  if offset < 0 ∨ decoder.size < offset + 4 then none
  else
    let v : Nat := (decoder.data.getD offset.toNat 0).val |||
      ((decoder.data.getD (offset + 1).toNat 0).val <<< 8) |||
      ((decoder.data.getD (offset + 2).toNat 0).val <<< 16) |||
      ((decoder.data.getD (offset + 3).toNat 0).val <<< 24)
    some (if v < 0x80000000 then (v : Int) else (v : Int) - 0x100000000)

/-- Source: decode_f32lsb. -/
def decode_f32lsb {F : Type} (ops : FloatOps F) (decoder : pes_decoder) (offset : Int) :
    Option F :=
  match decode_i32lsb decoder offset with
  | none => none
  | some i => some (ops.f32_of_bits i)

/-- Source: decode_string; the result is the length and the copied characters. -/
def decode_string (decoder : pes_decoder) (offset : Int) : Option (Int × List Byte) :=
  match decode_u8 decoder offset with
  | none => none
  | some length =>
    if decoder.size < offset + 1 + length then none
    else some (length, (decoder.data.drop (offset + 1).toNat).take length.toNat)

/-- Source: decode_hoop_size. -/
def decode_hoop_size (decoder : pes_decoder) (offset : Int) : Option (Int × Int) :=
  match decode_u16lsb decoder (offset + 0) with
  | none => none
  | some hoop_width =>
    match decode_u16lsb decoder (offset + 2) with
    | none => none
    | some hoop_height => some (hoop_width, hoop_height)

/-- Source: string_equal, for a string literal `s`. -/
def string_equal (decoder : pes_decoder) (offset : Int) (s : String) : Bool :=
  match decode_u16lsb decoder offset with
  | none => false
  | some length =>
    decide (length = (ascii s).length) && decide (offset + 2 + length ≤ decoder.size) &&
      decide ((decoder.data.drop (offset + 2).toNat).take length.toNat = ascii s)

/-- A pes_thread_callback with the state behind its argument: it receives the
change index, the block index and the thread or palette index. -/
abbrev pes_thread_callback (σ : Type) := σ → Int → Int → Int → σ × Bool

/-- A pes_block_callback with the state behind its argument: it receives the
thread, the stitch count and the stitch type code read from the block. -/
abbrev pes_block_callback (σ : Type) := σ → pec_thread → Int → Int → σ × Bool

/-- A pes_stitch_callback with the state behind its argument: it receives the
index of the stitch within its block and the two coordinates. -/
abbrev pes_stitch_callback (F : Type) (σ : Type) := σ → Int → F → F → σ × Bool

/-- Source: the loop of thread_foreach, with `n` entries left; `none` in the
second component stands for `return false`. -/
def thread_foreach_loop {σ : Type} (decoder : pes_decoder) (thread_cb : pes_thread_callback σ) :
    Nat → Int → Int → σ → σ × Option Int
  | 0, _, offset, arg => (arg, some offset)
  | n + 1, i, offset, arg =>
    match decode_u16lsb decoder (offset + 0) with
    | none => (arg, none)
    | some block_index =>
      match decode_u16lsb decoder (offset + 2) with
      | none => (arg, none)
      | some index =>
        let r := thread_cb arg i block_index index
        if r.2 = false then (r.1, none)
        else thread_foreach_loop decoder thread_cb n (i + 1) (offset + 4) r.1

/-- Source: thread_foreach. -/
def thread_foreach {σ : Type} (decoder : pes_decoder) (offset : Int)
    (thread_cb : pes_thread_callback σ) (arg : σ) : σ × Bool :=
  match decode_u16lsb decoder offset with
  | none => (arg, false)
  | some thread_count =>
    let r := thread_foreach_loop decoder thread_cb thread_count.toNat 0 (offset + 2) arg
    match r.2 with
    | none => (r.1, false)
    | some offset1 => (r.1, decide (offset1 ≤ decoder.pec_offset))

/-- Source: the stitch loop of stitch_foreach, `for (i = 0; i < stitch_count; i++)`,
with `n` stitches left; the result is the state and the new offset, `none`
standing for `return false`. -/
def block_stitches {F σ : Type} (ops : FloatOps F) (decoder : pes_decoder)
    (stitch_cb : Option (pes_stitch_callback F σ)) :
    Nat → Int → Int → σ → σ × Option Int
  | 0, _, offset, arg => (arg, some offset)
  | n + 1, i, offset, arg =>
    match decode_i16lsb decoder (offset + 0) with
    | none => (arg, none)
    | some x =>
      match decode_i16lsb decoder (offset + 2) with
      | none => (arg, none)
      | some y =>
        match stitch_cb with
        | none => block_stitches ops decoder stitch_cb n (i + 1) (offset + 4) arg
        | some cb =>
          let r := cb arg i (ops.pec_physical_coordinate x) (ops.pec_physical_coordinate y)
          if r.2 = false then (r.1, none)
          else block_stitches ops decoder stitch_cb n (i + 1) (offset + 4) r.1

/-- Source: the block loop of stitch_foreach,
`for (block_index = 0; offset < decoder->pec_offset; block_index++)`. The result
is the state and the offset at which the loop was left, `none` standing for
`return false`. Every iteration moves the offset forward by at least six bytes,
so `fuel` iterations suffice when `fuel` exceeds the number of bytes of the
buffer; running out of fuel is reported as a failure. A thread index outside
the thread list reads the undefined thread. -/
def block_loop {F σ : Type} (ops : FloatOps F) (decoder : pes_decoder)
    (block_cb : Option (pes_block_callback σ)) (stitch_cb : Option (pes_stitch_callback F σ)) :
    Nat → Int → Int → Int → pec_thread → σ → σ × Option Int
  | 0, _, _, _, _, arg => (arg, none)
  | fuel + 1, block_index, offset, change_index, thread, arg =>
    if ¬ (offset < decoder.pec_offset) then (arg, some offset)
    else
      match decode_u16lsb decoder (offset + 0) with
      | none => (arg, none)
      | some stitch_type =>
        match decode_u16lsb decoder (offset + 2) with
        | none => (arg, none)
        | some _block_id =>
          match decode_u16lsb decoder (offset + 4) with
          | none => (arg, none)
          | some stitch_count =>
            let change : Option pes_change :=
              if change_index < decoder.change_count then
                decoder.change_list[change_index.toNat]?
              else none
            let changed : Bool :=
              match change with
              | none => false
              | some c => decide (block_index = c.block_index)
            let thread1 : pec_thread :=
              match change with
              | none => thread
              | some c =>
                if block_index = c.block_index then
                  (decoder.thread_list.getD []).getD c.thread_index.toNat pec_undefined_thread
                else thread
            let change_index1 : Int := if changed = true then change_index + 1 else change_index
            let r0 : σ × Bool :=
              match block_cb with
              | none => (arg, true)
              | some cb => cb arg thread1 stitch_count stitch_type
            if r0.2 = false then (r0.1, none)
            else
              let r1 := block_stitches ops decoder stitch_cb stitch_count.toNat 0 (offset + 6) r0.1
              match r1.2 with
              | none => (r1.1, none)
              | some offset1 =>
                match decode_u16lsb decoder offset1 with
                | none => (r1.1, none)
                | some code =>
                  if code ≠ 0x8003 then (r1.1, some offset1)
                  else block_loop ops decoder block_cb stitch_cb fuel (block_index + 1)
                    (offset1 + 2) change_index1 thread1 r1.1

/-- Source: stitch_foreach of pes-decoder.c. -/
def stitch_foreach {F σ : Type} (ops : FloatOps F) (decoder : pes_decoder)
    (block_cb : Option (pes_block_callback σ)) (stitch_cb : Option (pes_stitch_callback F σ))
    (thread_cb : Option (pes_thread_callback σ)) (arg : σ) : σ × Bool :=
  let r := block_loop ops decoder block_cb stitch_cb (decoder.data.length + 1) 0
    (decoder.csewseg_offset + 9) 0 pec_undefined_thread arg
  match r.2 with
  | none => (r.1, false)
  | some offset =>
    match thread_cb with
    | none => (r.1, true)
    | some cb => thread_foreach decoder offset cb r.1

/-- Source: the callback stitch_count of pes-decoder.c. -/
def stitch_count {F : Type} : pes_stitch_callback F Int :=
  fun counter _ _ _ => (counter + 1, true)

/-- Source: change_count_cb. -/
def change_count_cb : pes_thread_callback Int :=
  fun change_count _ _ _ => (change_count + 1, true)

/-- Source: change_thread_cb; the state is the decoder. -/
def change_thread_cb : pes_thread_callback pes_decoder :=
  fun decoder change_index block_index thread_index =>
    ({ decoder with
        change_list := decoder.change_list.set change_index.toNat
          { block_index := block_index, thread_index := thread_index } },
     decide (thread_index < decoder.thread_count))

/-- Source: palette_thread_cb; the state is the decoder. -/
def palette_thread_cb : pes_thread_callback pes_decoder :=
  fun decoder change_index block_index palette_index =>
    let thread := { pec_palette_thread palette_index with index := change_index }
    change_thread_cb
      { decoder with
          thread_list := some ((decoder.thread_list.getD []).set change_index.toNat thread) }
      change_index block_index change_index

/-- Source: init_palette. `calloc_zero` tells whether `calloc(1, 0)` returns a
pointer that is not null; other allocations are taken to succeed. The passes
read the buffer and the offsets of the decoder as it is when they start. -/
def init_palette {F : Type} (ops : FloatOps F) (calloc_zero : Bool) (decoder : pes_decoder) :
    Option pes_decoder :=
  let r := stitch_foreach ops decoder none
    (none : Option (pes_stitch_callback F Int)) (some change_count_cb) 0
  if r.2 = false then none
  else
    let change_count := r.1
    if change_count = 0 ∧ calloc_zero = false then none
    else
      let d1 : pes_decoder :=
        { decoder with
            thread_list := some (List.replicate change_count.toNat zero_thread)
            thread_count := change_count
            change_list := List.replicate change_count.toNat ⟨0, 0⟩
            change_count := change_count }
      let r2 := stitch_foreach ops d1 none
        (none : Option (pes_stitch_callback F pes_decoder)) (some palette_thread_cb) d1
      if r2.2 = false then none else some r2.1

/-- Source: init_change. -/
def init_change {F : Type} (ops : FloatOps F) (calloc_zero : Bool) (decoder : pes_decoder) :
    Option pes_decoder :=
  let r := stitch_foreach ops decoder none
    (none : Option (pes_stitch_callback F Int)) (some change_count_cb) 0
  if r.2 = false then none
  else
    let change_count := r.1
    if change_count = 0 ∧ calloc_zero = false then none
    else
      let d1 : pes_decoder :=
        { decoder with change_list := List.replicate change_count.toNat ⟨0, 0⟩ }
      let r2 := stitch_foreach ops d1 none
        (none : Option (pes_stitch_callback F pes_decoder)) (some change_thread_cb) d1
      if r2.2 = false then none else some { r2.1 with change_count := change_count }

/-- Source: the loop of init_threads, with `n` threads left; the result is the
threads read and the new offset. -/
def init_threads_loop (decoder : pes_decoder) :
    Nat → Int → Int → Option (List pec_thread × Int)
  | 0, _, offset => some ([], offset)
  | n + 1, i, offset =>
    match decode_string decoder offset with
    | none => none
    | some (code_length, code) =>
      let o1 := offset + (1 + code_length)
      match decode_u8 decoder (o1 + 0), decode_u8 decoder (o1 + 1), decode_u8 decoder (o1 + 2) with
      | some r, some g, some b =>
        let o2 := o1 + 3 + 1
        match decode_u8 decoder o2 with
        | none => none
        | some type =>
          let o3 := o2 + 1 + 3
          match decode_string decoder o3 with
          | none => none
          | some (id_length, id) =>
            let o4 := o3 + (1 + id_length)
            match decode_string decoder o4 with
            | none => none
            | some (name_length, name) =>
              let o5 := o4 + (1 + name_length) + 1
              let thread : pec_thread :=
                { index := i, id := cstring id, code := cstring code, name := cstring name,
                  type := if 0xA ≤ type ∧ type ≤ 0xF then
                      (["A", "B", "C", "D", "E", "F"].getD (type - 0xA).toNat "-")
                    else "-",
                  rgb := ⟨r, g, b⟩ }
              match init_threads_loop decoder n (i + 1) o5 with
              | none => none
              | some (rest, o6) => some (thread :: rest, o6)
      | _, _, _ => none

/-- Source: init_threads; the result is the decoder with its thread table and
the new offset. -/
def init_threads (calloc_zero : Bool) (decoder : pes_decoder) (offset : Int) :
    Option (pes_decoder × Int) :=
  match decode_u16lsb decoder offset with
  | none => none
  | some thread_count =>
    if thread_count = 0 ∧ calloc_zero = false then none
    else
      match init_threads_loop decoder thread_count.toNat 0 (offset + 2) with
      | none => none
      | some (threads, o1) =>
        some ({ decoder with thread_count := thread_count, thread_list := some threads }, o1)

/-- Source: init_version1. -/
def init_version1 (decoder : pes_decoder) : Option pes_decoder :=
  some { decoder with cembone_offset := 12 + 10 }

/-- Source: init_version4. -/
def init_version4 (decoder : pes_decoder) : Option pes_decoder :=
  match decode_string decoder (12 + 4) with
  | none => none
  | some (name_length, name) =>
    let o1 := 12 + 4 + (1 + name_length) + 6
    match decode_hoop_size decoder o1 with
    | none => none
    | some (w, h) =>
      some { decoder with name := name, hoop_width := w, hoop_height := h,
                          cembone_offset := o1 + 4 + 28 }

/-- Source: init_version5. -/
def init_version5 (calloc_zero : Bool) (decoder : pes_decoder) : Option pes_decoder :=
  match decode_string decoder (12 + 4) with
  | none => none
  | some (name_length, name) =>
    let o1 := 12 + 4 + (1 + name_length) + 6
    match decode_hoop_size decoder o1 with
    | none => none
    | some (w, h) =>
      match init_threads calloc_zero
          { decoder with name := name, hoop_width := w, hoop_height := h } (o1 + 4 + 49) with
      | none => none
      | some (d1, o2) => some { d1 with cembone_offset := o2 + 6 }

/-- Source: init_version6. -/
def init_version6 (calloc_zero : Bool) (decoder : pes_decoder) : Option pes_decoder :=
  match decode_string decoder (12 + 4) with
  | none => none
  | some (name_length, name) =>
    let o1 := 12 + 4 + (1 + name_length) + 8
    match decode_hoop_size decoder o1 with
    | none => none
    | some (w, h) =>
      match init_threads calloc_zero
          { decoder with name := name, hoop_width := w, hoop_height := h } (o1 + 4 + 59) with
      | none => none
      | some (d1, o2) => some { d1 with cembone_offset := o2 + 6 }

/-- The outcome of pes_decoder_init: the null pointer, a decoder, or a read
outside the buffer (a negative PEC offset makes init_pec pass a pointer before
the start of the buffer to pec_decoder_init). -/
inductive init_result where
  | null
  | out_of_bounds
  | decoder (d : pes_decoder)

/-- Source: pes_decoder_init (with init_pec). Allocation of the decoder itself
is taken to succeed. -/
def pes_decoder_init {F : Type} (ops : FloatOps F) (calloc_zero : Bool) (data : List Byte) :
    init_result :=
  if (2147483647 / 2 : Int) < data.length then .null
  else
    let d0 : pes_decoder :=
      { data := data, version := [], hoop_width := 0, hoop_height := 0, pec_offset := 0,
        cembone_offset := 0, csewseg_offset := 0, name := [], thread_count := 0,
        thread_list := none, change_count := 0, change_list := [], pec := ⟨[]⟩ }
    match decode_i32lsb d0 8 with
    | none => .null
    | some pec_offset =>
      if d0.size < pec_offset then .null
      else if pec_offset < 0 then .out_of_bounds
      else
        match PecDecoder.pec_decoder_init (data.drop pec_offset.toNat) with
        | none => .null
        | some pec =>
          let d1 : pes_decoder := { d0 with pec_offset := pec_offset, pec := pec }
          let versioned : Option pes_decoder :=
            if data.take 8 = ascii "#PES0001" then init_version1 d1
            else if data.take 8 = ascii "#PES0040" then init_version4 d1
            else if data.take 8 = ascii "#PES0050" then init_version5 calloc_zero d1
            else if data.take 8 = ascii "#PES0060" then init_version6 calloc_zero d1
            else none
          match versioned with
          | none => .null
          | some d2 =>
            let d3 : pes_decoder := { d2 with version := (data.drop 4).take 4 }
            if string_equal d3 d3.cembone_offset "CEmbOne" = false then .null
            else
              let d4 : pes_decoder := { d3 with csewseg_offset := d3.cembone_offset + 73 }
              if string_equal d4 d4.csewseg_offset "CSewSeg" = false then .null
              else
                match d4.thread_list with
                | none =>
                  (match init_palette ops calloc_zero d4 with
                   | none => .null
                   | some d5 => .decoder d5)
                | some _ =>
                  (match init_change ops calloc_zero d4 with
                   | none => .null
                   | some d5 => .decoder d5)

/-- Source: pes_version. -/
def pes_version (decoder : pes_decoder) : String := cstring decoder.version

/-- Source: pes_thread_count. -/
def pes_thread_count (decoder : pes_decoder) : Int := decoder.thread_count

/-- Source: pes_thread. -/
def pes_thread (decoder : pes_decoder) (thread_index : Int) : pec_thread :=
  if 0 ≤ thread_index ∧ thread_index < decoder.thread_count then
    (decoder.thread_list.getD []).getD thread_index.toNat pec_undefined_thread
  else pec_undefined_thread

/-- Source: pes_stitch_count. -/
def pes_stitch_count {F : Type} (ops : FloatOps F) (decoder : pes_decoder) : Int :=
  let r := stitch_foreach ops decoder none (some (stitch_count : pes_stitch_callback F Int))
    none 0
  if r.2 = false then 0 else r.1

/-- Source: pes_stitch_foreach. -/
def pes_stitch_foreach {F σ : Type} (ops : FloatOps F) (decoder : pes_decoder)
    (block_cb : Option (pes_block_callback σ)) (stitch_cb : Option (pes_stitch_callback F σ))
    (arg : σ) : σ × Bool :=
  stitch_foreach ops decoder block_cb stitch_cb none arg

/-- Source: pes_pec_decoder. -/
def pes_pec_decoder (decoder : pes_decoder) : pec_decoder := decoder.pec

/-- One callback invocation of pes_stitch_foreach: a block with its thread,
stitch count and stitch type code, or a stitch with its index within the block
and its coordinates. -/
inductive pes_event (F : Type) where
  | block (thread : pec_thread) (stitch_count : Int) (stitch_type : Int)
  | stitch (stitch_index : Int) (x y : F)

/-- The block callback that records its invocations and accepts every block. -/
def record_block {F : Type} : pes_block_callback (List (pes_event F)) :=
  fun log thread stitch_count stitch_type =>
    (log ++ [.block thread stitch_count stitch_type], true)

/-- The stitch callback that records its invocations and accepts every stitch. -/
def record_pes_stitch {F : Type} : pes_stitch_callback F (List (pes_event F)) :=
  fun log stitch_index x y => (log ++ [.stitch stitch_index x y], true)

end PesDecoder

end Libpes

namespace Libpes
open pec_stitch_type Pec

/-! ## The encoders on an arbitrary sink

The encoders of pec-encoder.c and pes-encoder.c write through a callback. The
definitions above give their output on a sink that accepts every chunk; the definitions
of this part keep the callback, so that the size probes, which run the same encoders on
the counting callback `encoded_size`, are the runs that the source makes. -/

/-- A pec_encode_callback or pes_encode_callback with the state behind its `arg`: it
receives the state and the chunk, and returns the new state and its flag. -/
abbrev encode_callback (σ : Type) := σ → List Byte → σ × Bool

/-- A call that writes to the sink: from the state of the sink to the new state and the
returned flag. -/
abbrev encode_step (σ : Type) := σ → σ × Bool

/-- The C idiom `a(...) && b(...)` on two calls that write to the same sink, also
`if (!a(...)) return false; return b(...)`. -/
def and_then {σ : Type} (a b : encode_step σ) : encode_step σ :=
  fun s => if (a s).2 = true then b (a s).1 else ((a s).1, false)

/-- A condition that leaves the sink alone, as in `0 <= value && ...`. -/
def test {σ : Type} (c : Bool) : encode_step σ := fun s => (s, c)

/-- The call `encode_cb(data, size, arg)`. -/
def write {σ : Type} (encode_cb : encode_callback σ) (data : List Byte) : encode_step σ :=
  fun s => encode_cb s data

/-- The conversion of a value to `int`, modulo 2^32 into the range of `int`. -/
def wrap32 (v : Int) : Int := (v + 2147483648) % 4294967296 - 2147483648

/-- Source: encoded_size, of pec-encoder.c and of pes-encoder.c: the state is the `int`
counter, `*s += size; return *s >= 0`. -/
def encoded_size : encode_callback Int :=
  fun s data => (wrap32 (s + data.length), decide (0 ≤ wrap32 (s + data.length)))

/-- The callback that appends every chunk to a buffer and accepts it. -/
def store_chunk : encode_callback (List Byte) := fun s data => (s ++ data, true)

namespace PecCallback

open PecEncoder

/-- Source: encode_u8. -/
def encode_u8 {σ : Type} (value : Int) (encode_cb : encode_callback σ) : encode_step σ :=
  and_then (test (decide (0 ≤ value ∧ value ≤ 0xFF))) (write encode_cb [byteOfInt value])

/-- Source: encode_u16lsb. -/
def encode_u16lsb {σ : Type} (value : Int) (encode_cb : encode_callback σ) : encode_step σ :=
  and_then (test (decide (0 ≤ value ∧ value ≤ 0xFFFF)))
    (write encode_cb [byteOfInt value, byteOfInt (value / 256)])

/-- Source: the loop of encode_threads that writes palette entries. -/
def encode_palette {σ : Type} : List Int → encode_callback σ → encode_step σ
  | [], _ => test true
  | p :: rest, encode_cb => and_then (encode_u8 p encode_cb) (encode_palette rest encode_cb)

/-- Source: the padding loop of encode_threads, with `n` iterations left. -/
def encode_padding_loop {σ : Type} : Nat → encode_callback σ → encode_step σ
  | 0, _ => test true
  | n + 1, encode_cb => and_then (encode_u8 0x20 encode_cb) (encode_padding_loop n encode_cb)

/-- Source: the padding loop of encode_threads, `for (i = thread_count; i < 463; i++)`. -/
def encode_padding {σ : Type} (thread_count : Int) (encode_cb : encode_callback σ) :
    encode_step σ :=
  encode_padding_loop (463 - thread_count).toNat encode_cb

/-- Source: encode_threads. -/
def encode_threads {F σ : Type} (encoder : pec_encoder F) (encode_cb : encode_callback σ) :
    encode_step σ :=
  if encoder.thread_count < 1 ∨ PEC_MAX_THREADS < encoder.thread_count then test false
  else
    and_then (write encode_cb (ascii "            "))
      (and_then (encode_u8 (encoder.thread_count - 1) encode_cb)
        (and_then (encode_palette encoder.palette encode_cb)
          (encode_padding encoder.thread_count encode_cb)))

/-- Source: encode_label. -/
def encode_label {σ : Type} (encode_cb : encode_callback σ) : encode_step σ :=
  and_then (write encode_cb (ascii "LA:                \r            "))
    (encode_u16lsb 0x00FF encode_cb)

/-- Source: encode_thumbnail_size. -/
def encode_thumbnail_size {σ : Type} (encode_cb : encode_callback σ) : encode_step σ :=
  and_then (encode_u8 (PEC_THUMBNAIL_WIDTH / 8) encode_cb)
    (encode_u8 PEC_THUMBNAIL_HEIGHT encode_cb)

/-- Source: encode_size. -/
def encode_size {F σ : Type} (ops : FloatOps F) (encoder : pec_encoder F)
    (encode_cb : encode_callback σ) : encode_step σ :=
  let width : Int := if !encoder.bounds.valid then 0 else
    ops.pec_raw_coordinate encoder.bounds.max_x - ops.pec_raw_coordinate encoder.bounds.min_x
  let height : Int := if !encoder.bounds.valid then 0 else
    ops.pec_raw_coordinate encoder.bounds.max_y - ops.pec_raw_coordinate encoder.bounds.min_y
  and_then (encode_u16lsb width encode_cb)
    (and_then (encode_u16lsb height encode_cb)
      (and_then (encode_u16lsb 0x01E0 encode_cb)
        (and_then (encode_u16lsb 0x01B0 encode_cb)
          (and_then (encode_u16lsb 0x0000 encode_cb) (encode_u16lsb 0x0000 encode_cb)))))

/-- Source: encode_stitch. -/
def encode_stitch {σ : Type} (type : pec_stitch_type) (d : Int)
    (encode_cb : encode_callback σ) : encode_step σ :=
  if d < -0x800 ∨ 0x7FF < d then test false
  else if type = PEC_STITCH_NORMAL ∧ -0x40 ≤ d ∧ d ≤ 0x3F then
    encode_u8 (d % 0x80) encode_cb
  else
    and_then
      (encode_u8 (((d / 256 % 16).toNat ||| 0x80 ||| kind_bits type : Nat) : Int) encode_cb)
      (encode_u8 (d % 256) encode_cb)

/-- Source: the loop of encode_stitch_list, from stitch `i` on with the running
`x`, `y` and the stop counter `stop`. -/
def encode_stitch_loop {F σ : Type} (ops : FloatOps F) :
    List (pec_stitch F) → Int → Int → Int → encode_callback σ → encode_step σ
  | [], _, _, _, _ => test true
  | s :: rest, x, y, stop, encode_cb =>
    let nx := ops.pec_raw_coordinate s.x
    let ny := ops.pec_raw_coordinate s.y
    if s.type = PEC_STITCH_STOP then
      and_then (and_then (encode_u16lsb 0xB0FE encode_cb) (encode_u8 stop encode_cb))
        (encode_stitch_loop ops rest x y (3 - stop) encode_cb)
    else
      and_then
        (and_then (encode_stitch s.type (nx - x) encode_cb)
          (encode_stitch s.type (ny - y) encode_cb))
        (encode_stitch_loop ops rest nx ny stop encode_cb)

/-- Source: encode_stitch_list. -/
def encode_stitch_list {F σ : Type} (ops : FloatOps F) (encoder : pec_encoder F)
    (encode_cb : encode_callback σ) : encode_step σ :=
  and_then
    (encode_stitch_loop ops encoder.stitch_list
      (ops.pec_raw_coordinate encoder.bounds.min_x)
      (ops.pec_raw_coordinate encoder.bounds.min_y) 2 encode_cb)
    (encode_u8 0xFF encode_cb)

/-- Source: encode_thumbnail_offset. The size probe is the run of encode_stitch_list on
encoded_size with the counter starting from 20. -/
def encode_thumbnail_offset {F σ : Type} (ops : FloatOps F) (encoder : pec_encoder F)
    (encode_cb : encode_callback σ) : encode_step σ :=
  if (encode_stitch_list ops encoder encoded_size 20).2 = false then test false
  else
    and_then (test (decide ((encode_stitch_list ops encoder encoded_size 20).1 ≤ 0xFFFF)))
      (and_then (encode_u16lsb 0x0000 encode_cb)
        (and_then (encode_u16lsb (encode_stitch_list ops encoder encoded_size 20).1 encode_cb)
          (and_then (encode_u16lsb 0x3100 encode_cb) (encode_u16lsb 0xF0FF encode_cb))))

/-- Source: the writing loop of encode_thumbnail, one encode_u8 for every byte of the
image; `bytes` are the bytes left, in row order. -/
def encode_thumbnail_bytes {σ : Type} : List Byte → encode_callback σ → encode_step σ
  | [], _ => test true
  | b :: rest, encode_cb =>
    and_then (encode_u8 (b.val : Int) encode_cb) (encode_thumbnail_bytes rest encode_cb)

/-- Source: the writing loop of encode_thumbnail, rows `r` from 0 to 37 and byte
columns `c` from 0 to 5. -/
def encode_thumbnail_rows {σ : Type} (thumbnail : pec_thumbnail)
    (encode_cb : encode_callback σ) : encode_step σ :=
  encode_thumbnail_bytes ((List.range 38).flatMap (fun r =>
    (List.range 6).map (fun c => thumbnail.image.getD (6 * r + c) 0))) encode_cb

/-- Source: encode_thumbnail. -/
def encode_thumbnail {σ : Type} (thumbnail : pec_thumbnail) (encode_cb : encode_callback σ) :
    encode_step σ :=
  encode_thumbnail_rows (thumbnail_frame thumbnail) encode_cb

/-- Source: the second loop of encode_thumbnail_list,
`for (i = 0, k = 1; i < thread_count; i++, k++)`, with `n` threads left. -/
def encode_thread_thumbnails {F σ : Type} (ops : FloatOps F) (encoder : pec_encoder F) :
    Nat → Nat → encode_callback σ → encode_step σ
  | 0, _, _ => test true
  | n + 1, k, encode_cb =>
    let run := thumbnail_run_lines ops encoder encoder.stitch_list.length thumbnail_zero k
    and_then (encode_thumbnail run.1 encode_cb)
      (encode_thread_thumbnails ops encoder n (run.2 + 1) encode_cb)

/-- Source: encode_thumbnail_list. -/
def encode_thumbnail_list {F σ : Type} (ops : FloatOps F) (encoder : pec_encoder F)
    (encode_cb : encode_callback σ) : encode_step σ :=
  and_then
    (encode_thumbnail (thumbnail_all_lines ops encoder.bounds thumbnail_zero encoder.stitch_list)
      encode_cb)
    (encode_thread_thumbnails ops encoder encoder.palette.length 1 encode_cb)

/-- Source: pec_encode. -/
def pec_encode {F σ : Type} (ops : FloatOps F) (encoder : pec_encoder F)
    (encode_cb : encode_callback σ) : encode_step σ :=
  and_then (encode_label encode_cb)
    (and_then (encode_thumbnail_size encode_cb)
      (and_then (encode_threads encoder encode_cb)
        (and_then (encode_thumbnail_offset ops encoder encode_cb)
          (and_then (encode_size ops encoder encode_cb)
            (and_then (encode_stitch_list ops encoder encode_cb)
              (encode_thumbnail_list ops encoder encode_cb))))))

/-- Source: pec_encoded_size: the run of pec_encode on encoded_size with the counter
starting from 0; the result is 0 when the run fails. -/
def pec_encoded_size {F : Type} (ops : FloatOps F) (encoder : pec_encoder F) : Int :=
  if (pec_encode ops encoder encoded_size 0).2 = false then 0
  else (pec_encode ops encoder encoded_size 0).1

end PecCallback

namespace PesCallback

open PesEncoder

/-- Source: encode_u16lsb of pes-encoder.c. -/
def encode_u16lsb {σ : Type} (value : Int) (encode_cb : encode_callback σ) : encode_step σ :=
  and_then (test (decide (0 ≤ value ∧ value ≤ 0xFFFF)))
    (write encode_cb [byteOfInt value, byteOfInt (value / 256)])

/-- Source: encode_i16lsb. -/
def encode_i16lsb {σ : Type} (value : Int) (encode_cb : encode_callback σ) : encode_step σ :=
  and_then (test (decide (-0x8000 ≤ value ∧ value ≤ 0x7FFF)))
    (encode_u16lsb (value % 0x10000) encode_cb)

/-- Source: encode_i32lsb. -/
def encode_i32lsb {σ : Type} (value : Int) (encode_cb : encode_callback σ) : encode_step σ :=
  write encode_cb [byteOfInt value, byteOfInt (value / 256), byteOfInt (value / 65536),
    byteOfInt (value / 16777216)]

/-- Source: encode_f32lsb. -/
def encode_f32lsb {F σ : Type} (ops : FloatOps F) (f : F) (encode_cb : encode_callback σ) :
    encode_step σ :=
  encode_i32lsb (ops.f32_bits f) encode_cb

/-- Source: encode_string, on a string literal. -/
def encode_string {σ : Type} (s : String) (encode_cb : encode_callback σ) : encode_step σ :=
  and_then (test (decide ((ascii s).length ≤ 0xFFFF)))
    (and_then (encode_u16lsb (ascii s).length encode_cb) (write encode_cb (ascii s)))

/-- Source: encode_transform. -/
def encode_transform {F σ : Type} (ops : FloatOps F) (encoder : pes_encoder F)
    (encode_cb : encode_callback σ) : encode_step σ :=
  let t := encoder.affine_transform
  and_then (encode_f32lsb ops t.m00 encode_cb)
    (and_then (encode_f32lsb ops t.m01 encode_cb)
      (and_then (encode_f32lsb ops t.m10 encode_cb)
        (and_then (encode_f32lsb ops t.m11 encode_cb)
          (and_then (encode_f32lsb ops (ops.raw_translation t.m20) encode_cb)
            (encode_f32lsb ops (ops.raw_translation t.m21) encode_cb)))))

/-- Source: encode_cembone. -/
def encode_cembone {F σ : Type} (ops : FloatOps F) (encoder : pes_encoder F)
    (encode_cb : encode_callback σ) : encode_step σ :=
  let t_x := ops.pec_raw_coordinate encoder.affine_transform.m20
  let t_y := ops.pec_raw_coordinate encoder.affine_transform.m21
  let min_x := ops.pec_raw_coordinate encoder.bounds.min_x + t_x
  let min_y := ops.pec_raw_coordinate encoder.bounds.min_y + t_y
  let max_x := ops.pec_raw_coordinate encoder.bounds.max_x + t_x
  let max_y := ops.pec_raw_coordinate encoder.bounds.max_y + t_y
  let width : Int := if !encoder.bounds.valid then 0 else max_x - min_x
  let height : Int := if !encoder.bounds.valid then 0 else max_y - min_y
  let block_count := encoder.block_count
  and_then (encode_string "CEmbOne" encode_cb)
   (and_then (encode_i16lsb min_x encode_cb)
    (and_then (encode_i16lsb min_y encode_cb)
     (and_then (encode_i16lsb max_x encode_cb)
      (and_then (encode_i16lsb max_y encode_cb)
       (and_then (encode_i16lsb min_x encode_cb)
        (and_then (encode_i16lsb min_y encode_cb)
         (and_then (encode_i16lsb max_x encode_cb)
          (and_then (encode_i16lsb max_y encode_cb)
           (and_then (encode_transform ops encoder encode_cb)
            (and_then (encode_u16lsb 1 encode_cb)
             (and_then (encode_i16lsb (ops.round encoder.translation_x) encode_cb)
              (and_then (encode_i16lsb (ops.round encoder.translation_y) encode_cb)
               (and_then (encode_u16lsb width encode_cb)
                (and_then (encode_u16lsb height encode_cb)
                 (and_then (write encode_cb [0, 0, 0, 0, 0, 0, 0, 0])
                  (and_then (encode_u16lsb block_count encode_cb)
                   (and_then (encode_u16lsb 0xFFFF encode_cb)
                     (encode_u16lsb 0x0000 encode_cb))))))))))))))))))

/-- Source: encode_block_header. -/
def encode_block_header {σ : Type} (stitch_type : pec_stitch_type) (thread_index : Int)
    (stitch_count : Int) (encode_cb : encode_callback σ) : encode_step σ :=
  and_then (encode_u16lsb (stitch_type_code stitch_type) encode_cb)
    (and_then (encode_u16lsb (thread_index + 1) encode_cb)
      (encode_u16lsb stitch_count encode_cb))

/-- Source: encode_stitch of pes-encoder.c. -/
def encode_stitch {F σ : Type} (ops : FloatOps F) (x y : F) (encode_cb : encode_callback σ) :
    encode_step σ :=
  and_then (encode_i16lsb (ops.pec_raw_coordinate x) encode_cb)
    (encode_i16lsb (ops.pec_raw_coordinate y) encode_cb)

/-- Source: encode_jump_stitch. -/
def encode_jump_stitch {F σ : Type} (ops : FloatOps F) (a b : pes_stitch F)
    (encode_cb : encode_callback σ) : encode_step σ :=
  and_then (encode_block_header .PEC_STITCH_JUMP b.thread_index 2 encode_cb)
    (and_then (encode_stitch ops a.x a.y encode_cb) (encode_stitch ops b.x b.y encode_cb))

/-- Source: the loop of encode_stitch_list of pes-encoder.c, from index `i` on;
`prev` is `stitch_list[i - 1]` and `rest` the stitches from index `i`. -/
def encode_stitch_loop {F σ : Type} (ops : FloatOps F) (encoder : pes_encoder F) :
    Nat → Option (pes_stitch F) → List (pes_stitch F) → encode_callback σ → encode_step σ
  | _, _, [], _ => test true
  | i, prev, stitch :: rest, encode_cb =>
    let head : encode_step σ :=
      if i = 0 then
        encode_block_header .PEC_STITCH_NORMAL stitch.thread_index
          (block_stitch_count encoder.stitch_list i) encode_cb
      else if stitch.jump = true ∨ stitch.thread_index ≠ stitch.thread_index then
        match prev with
        | none => test false
        | some p =>
          and_then (encode_u16lsb 0x8003 encode_cb)
            (and_then (encode_jump_stitch ops p stitch encode_cb)
              (and_then (encode_u16lsb 0x8003 encode_cb)
                (encode_block_header .PEC_STITCH_NORMAL stitch.thread_index
                  (block_stitch_count encoder.stitch_list i) encode_cb)))
      else test true
    and_then head
      (and_then (encode_stitch ops stitch.x stitch.y encode_cb)
        (encode_stitch_loop ops encoder (i + 1) (some stitch) rest encode_cb))

/-- Source: encode_stitch_list of pes-encoder.c. -/
def encode_stitch_list {F σ : Type} (ops : FloatOps F) (encoder : pes_encoder F)
    (encode_cb : encode_callback σ) : encode_step σ :=
  encode_stitch_loop ops encoder 0 none encoder.stitch_list encode_cb

/-- Source: the second loop of encode_thread_list14, from index `i` on with the
running `block_index`. -/
def encode_change_loop {F σ : Type} (encoder : pes_encoder F) :
    Nat → Int → Option Int → List (pes_stitch F) → encode_callback σ → encode_step σ
  | _, _, _, [], _ => test true
  | i, block_index, prev, s :: rest, encode_cb =>
    let entry : encode_step σ :=
      if prev = none ∨ prev ≠ some s.thread_index then
        let thread := encoder.thread_list.getD s.thread_index.toNat pec_undefined_thread
        and_then (encode_u16lsb block_index encode_cb)
          (encode_u16lsb (pec_palette_index_by_rgb thread.rgb) encode_cb)
      else test true
    let next : Int :=
      if is_block encoder.stitch_list i = true then block_index + (if i = 0 then 1 else 2)
      else block_index
    and_then entry (encode_change_loop encoder (i + 1) next (some s.thread_index) rest encode_cb)

/-- Source: encode_thread_list14. -/
def encode_thread_list14 {F σ : Type} (encoder : pes_encoder F)
    (encode_cb : encode_callback σ) : encode_step σ :=
  and_then (encode_u16lsb (change_count_loop none encoder.stitch_list) encode_cb)
    (and_then (encode_change_loop encoder 0 0 none encoder.stitch_list encode_cb)
      (and_then (encode_u16lsb 0 encode_cb) (encode_u16lsb 0 encode_cb)))

/-- Source: encode_csewseg14. -/
def encode_csewseg14 {F σ : Type} (ops : FloatOps F) (encoder : pes_encoder F)
    (encode_cb : encode_callback σ) : encode_step σ :=
  and_then (encode_string "CSewSeg" encode_cb)
    (and_then (encode_stitch_list ops encoder encode_cb) (encode_thread_list14 encoder encode_cb))

/-- Source: encode_sections14. -/
def encode_sections14 {F σ : Type} (ops : FloatOps F) (encoder : pes_encoder F)
    (encode_cb : encode_callback σ) : encode_step σ :=
  and_then (encode_cembone ops encoder encode_cb) (encode_csewseg14 ops encoder encode_cb)

/-- Source: encode_pec. -/
def encode_pec {F σ : Type} (ops : FloatOps F) (encoder : pes_encoder F)
    (encode_cb : encode_callback σ) : encode_step σ :=
  PecCallback.pec_encode ops encoder.pec_encoder encode_cb

/-- Source: encode_pec_offset1. The size probe is the run of encode_sections14 on
encoded_size with the counter starting from 22. -/
def encode_pec_offset1 {F σ : Type} (ops : FloatOps F) (encoder : pes_encoder F)
    (encode_cb : encode_callback σ) : encode_step σ :=
  and_then (test (encode_sections14 ops encoder encoded_size 22).2)
    (encode_i32lsb (encode_sections14 ops encoder encoded_size 22).1 encode_cb)

/-- Source: pes_encode1. -/
def pes_encode1 {F σ : Type} (ops : FloatOps F) (encoder : pes_encoder F)
    (encode_cb : encode_callback σ) : encode_step σ :=
  and_then (write encode_cb (ascii "#PES0001"))
    (and_then (encode_pec_offset1 ops encoder encode_cb)
      (and_then (encode_u16lsb 0x0000 encode_cb)
        (and_then (encode_u16lsb 0x0001 encode_cb)
          (and_then (encode_u16lsb 0x0001 encode_cb)
            (and_then (encode_u16lsb 0xFFFF encode_cb)
              (and_then (encode_u16lsb 0x0000 encode_cb)
                (and_then (encode_sections14 ops encoder encode_cb)
                  (encode_pec ops encoder encode_cb))))))))

/-- Source: pes_encode_size, for an encoding function `pes_encode`: the run on
encoded_size with the counter starting from 0; the result is 0 when the run fails. -/
def pes_encode_size {F : Type}
    (pes_encode : pes_encoder F → encode_callback Int → encode_step Int)
    (encoder : pes_encoder F) : Int :=
  if (pes_encode encoder encoded_size 0).2 = false then 0
  else (pes_encode encoder encoded_size 0).1

/-- Source: pes_encode1_size. -/
def pes_encode1_size {F : Type} (ops : FloatOps F) (encoder : pes_encoder F) : Int :=
  pes_encode_size (pes_encode1 ops) encoder

end PesCallback

/-! ## Encoders as chunk writers -/

/-- The run that offers the chunks to the callback one after the other until one is
refused, and returns `ok` when none was. -/
def feed {σ : Type} (encode_cb : encode_callback σ) : List (List Byte) → Bool → encode_step σ
  | [], ok => test ok
  | c :: rest, ok => and_then (write encode_cb c) (feed encode_cb rest ok)

/-- An encoder `w` on an arbitrary sink agrees with its output `o` on the accepting
sink: whatever the callback, `w` offers it one fixed sequence of chunks of at most
0xFFFF bytes and then returns one fixed flag, and `o` is the concatenation of the
chunks when the flag is true and a failure when it is false. -/
def models (w : (σ : Type) → encode_callback σ → encode_step σ) (o : Option (List Byte)) :
    Prop :=
  ∃ (chunks : List (List Byte)) (ok : Bool),
    (∀ (σ : Type) (encode_cb : encode_callback σ) (s : σ),
      w σ encode_cb s = feed encode_cb chunks ok s) ∧
    o = (if ok = true then some chunks.flatten else none) ∧
    ∀ c ∈ chunks, c.length ≤ 0xFFFF

end Libpes

namespace Libpes
open pec_stitch_type Pec

/-! ## svg-emb-encoder.c -/

/-- The computations of svg-emb-encoder.c on `float` and the helper of pes.h that is
declared but not defined in the sources. Each field is one C expression; the embedding
is parametric in them. -/
structure SvgOps (F : Type) where
  /-- The difference `a - b` on floats. -/
  sub : F → F → F
  /-- The sum `a + b` on floats. -/
  add : F → F → F
  /-- The characters that `%.1f` prints for a float. -/
  fixed1 : F → List Byte
  /-- The characters that `%5.1f` prints for a float. -/
  fixed5_1 : F → List Byte
  /-- The characters that `%.7f` prints for a float. -/
  fixed7 : F → List Byte
  /-- The function pes_is_identity_transform of pes.h. -/
  pes_is_identity_transform : PesEncoder.pes_transform F → Bool

/-- The characters that `%02x` prints for an `int`: the hexadecimal digits of the value
read as `unsigned int`, in lower case, at least two of them. -/
def hex02 (v : Int) : List Byte :=
  let digits := (Nat.toDigits 16 (v % 4294967296).toNat).map (fun c => byteOfNat c.toNat)
  List.replicate (2 - digits.length) (byteOfNat 48) ++ digits

/-- The string that `snprintf(buffer, size, ...)` leaves in the buffer, as `strlen` and
the callback see it: the first `size - 1` characters of the formatted text, up to the
first NUL. -/
def snprintf (size : Nat) (text : List Byte) : List Byte :=
  (text.take (size - 1)).takeWhile (fun b => b.val ≠ 0)

namespace SvgEmbEncoder

def SVG_EMB_MAX_THREADS : Int := 256

/-- A stitch of the SVG embroidery encoder (struct svg_emb_stitch). -/
structure svg_emb_stitch (F : Type) where
  thread_index : Int
  x : F
  y : F
  jump : Bool

/-- Bounds of the SVG embroidery encoder (struct svg_emb_bounds). -/
structure svg_emb_bounds (F : Type) where
  min_x : F
  min_y : F
  max_x : F
  max_y : F
  valid : Bool

/-- State of the SVG embroidery encoder (struct svg_emb_encoder). The thread list holds
`thread_count` entries and the stitch list `stitch_count` entries. -/
structure svg_emb_encoder (F : Type) where
  bounds : svg_emb_bounds F
  affine_transform : PesEncoder.pes_transform F
  thread_list : List pec_thread
  stitch_capacity : Int
  stitch_list : List (svg_emb_stitch F)

/-- Field `thread_count` of the encoder. -/
def svg_emb_encoder.thread_count {F : Type} (e : svg_emb_encoder F) : Int :=
  e.thread_list.length

/-- Field `stitch_count` of the encoder. -/
def svg_emb_encoder.stitch_count {F : Type} (e : svg_emb_encoder F) : Int :=
  e.stitch_list.length

/-- Source: update_bounds of svg-emb-encoder.c. -/
def update_bounds {F : Type} (ops : FloatOps F) (bounds : svg_emb_bounds F) (x y : F) :
    svg_emb_bounds F :=
  if !bounds.valid then
    { min_x := x, min_y := y, max_x := x, max_y := y, valid := true }
  else
    { min_x := if ops.lt x bounds.min_x then x else bounds.min_x
      min_y := if ops.lt y bounds.min_y then y else bounds.min_y
      max_x := if ops.lt bounds.max_x x then x else bounds.max_x
      max_y := if ops.lt bounds.max_y y then y else bounds.max_y
      valid := bounds.valid }

/-- Source: encode_stitch_footer. -/
def encode_stitch_footer {σ : Type} (encode_cb : encode_callback σ) : encode_step σ :=
  write encode_cb (ascii "\" />\n")

/-- Source: encode_stitch_header. -/
def encode_stitch_header {σ : Type} (thread : pec_thread) (encode_cb : encode_callback σ) :
    encode_step σ :=
  write encode_cb (snprintf 1024
    (ascii "  <path stroke=\"#" ++ hex02 thread.rgb.r ++ hex02 thread.rgb.g ++
      hex02 thread.rgb.b ++ ascii "\" fill=\"none\" stroke-width=\"0.2\"\n        d=\""))

/-- Source: encode_stitch of svg-emb-encoder.c. -/
def encode_stitch {F σ : Type} (txt : SvgOps F) (stitch_index : Int) (x y : F)
    (encode_cb : encode_callback σ) : encode_step σ :=
  write encode_cb (snprintf 1024
    ((if stitch_index % 4 ≠ 0 then ascii " "
      else if stitch_index ≠ 0 then ascii "\n           " else []) ++
     (if stitch_index = 0 then ascii "M" else ascii "L") ++ ascii " " ++
     txt.fixed5_1 x ++ ascii " " ++ txt.fixed5_1 y))

/-- Source: the loop of encode_stitch_list of svg-emb-encoder.c, from index `i` on with
the running `stitch_index` and `thread_index`. A thread index outside the thread list
reads the undefined thread. -/
def encode_stitch_loop {F σ : Type} (txt : SvgOps F) (encoder : svg_emb_encoder F) :
    Int → Int → Int → List (svg_emb_stitch F) → encode_callback σ → encode_step σ
  | _, _, _, [], _ => test true
  | i, stitch_index, thread_index, stitch :: rest, encode_cb =>
    let jump : Bool :=
      decide (0 < i) && (stitch.jump || decide (thread_index ≠ stitch.thread_index))
    let stitch_index1 : Int := if i = 0 ∨ jump = true then 0 else stitch_index
    and_then (if jump = true then encode_stitch_footer encode_cb else test true)
      (and_then
        (if i = 0 ∨ jump = true then
          encode_stitch_header
            (encoder.thread_list.getD stitch.thread_index.toNat pec_undefined_thread) encode_cb
         else test true)
        (and_then (encode_stitch txt stitch_index1 stitch.x stitch.y encode_cb)
          (encode_stitch_loop txt encoder (i + 1) (stitch_index1 + 1) stitch.thread_index
            rest encode_cb)))

/-- Source: encode_stitch_list of svg-emb-encoder.c. -/
def encode_stitch_list {F σ : Type} (txt : SvgOps F) (encoder : svg_emb_encoder F)
    (encode_cb : encode_callback σ) : encode_step σ :=
  and_then (encode_stitch_loop txt encoder 0 0 (-1) encoder.stitch_list encode_cb)
    (if encoder.stitch_count = 0 then test true else encode_stitch_footer encode_cb)

/-- Source: append_stitch of svg-emb-encoder.c. The outcome of `realloc` is the
parameter `alloc_ok`; the result is the new state and the returned flag. -/
def append_stitch {F : Type} (ops : FloatOps F) (alloc_ok : Bool) (encoder : svg_emb_encoder F)
    (thread_index : Int) (x y : F) (jump : Bool) : svg_emb_encoder F × Bool :=
  if thread_index < 0 ∨ encoder.thread_count ≤ thread_index then (encoder, false)
  else
    let grown : svg_emb_encoder F :=
      if encoder.stitch_capacity ≤ encoder.stitch_count then
        let capacity := encoder.stitch_capacity +
          (if encoder.stitch_capacity = 0 then 100
           else if 10000 < encoder.stitch_capacity then 10000
           else encoder.stitch_capacity)
        if capacity < 2147483647 / 2 ∧ alloc_ok then
          { encoder with stitch_capacity := capacity }
        else encoder
      else encoder
    if grown.stitch_capacity ≤ grown.stitch_count then (grown, false)
    else
      ({ grown with
          stitch_list := grown.stitch_list ++
            [{ thread_index := thread_index, x := x, y := y, jump := jump }]
          bounds := update_bounds ops grown.bounds x y }, true)

/-- Source: encode_header. -/
def encode_header {F σ : Type} (txt : SvgOps F) (encoder : svg_emb_encoder F)
    (encode_cb : encode_callback σ) : encode_step σ :=
  let w := txt.sub encoder.bounds.max_x encoder.bounds.min_x
  let h := txt.sub encoder.bounds.max_y encoder.bounds.min_y
  write encode_cb (snprintf 1024
    (ascii "<?xml version=\"1.0\"?>\n" ++
     ascii "<!DOCTYPE svg PUBLIC \"-//W3C//DTD SVG 1.1//EN\"\n" ++
     ascii "  \"http://www.w3.org/Graphics/SVG/1.1/DTD/svg11.dtd\">\n" ++
     ascii "<svg width=\"" ++ txt.fixed1 w ++ ascii "mm\" height=\"" ++ txt.fixed1 h ++
     ascii "mm\" version=\"1.1\"\n" ++
     ascii "     viewBox=\"" ++
     txt.fixed1 (txt.add encoder.bounds.min_x encoder.affine_transform.m20) ++ ascii " " ++
     txt.fixed1 (txt.add encoder.bounds.min_y encoder.affine_transform.m21) ++ ascii " " ++
     txt.fixed1 w ++ ascii " " ++ txt.fixed1 h ++
     ascii "\" xmlns=\"http://www.w3.org/2000/svg\">\n"))

/-- Source: encode_footer. -/
def encode_footer {σ : Type} (encode_cb : encode_callback σ) : encode_step σ :=
  write encode_cb (ascii "</svg>\n")

/-- Source: encode_transform_header. -/
def encode_transform_header {F σ : Type} (txt : SvgOps F) (encoder : svg_emb_encoder F)
    (encode_cb : encode_callback σ) : encode_step σ :=
  if txt.pes_is_identity_transform encoder.affine_transform = true then test true
  else
    write encode_cb (snprintf 256
      (ascii "  <g transform=\"matrix(" ++
       txt.fixed7 encoder.affine_transform.m00 ++ ascii " " ++
       txt.fixed7 encoder.affine_transform.m01 ++ ascii " " ++
       txt.fixed7 encoder.affine_transform.m10 ++ ascii " " ++
       txt.fixed7 encoder.affine_transform.m11 ++ ascii " " ++
       txt.fixed7 encoder.affine_transform.m20 ++ ascii " " ++
       txt.fixed7 encoder.affine_transform.m21 ++ ascii ")\">\n"))

/-- Source: encode_transform_footer. -/
def encode_transform_footer {F σ : Type} (txt : SvgOps F) (encoder : svg_emb_encoder F)
    (encode_cb : encode_callback σ) : encode_step σ :=
  if txt.pes_is_identity_transform encoder.affine_transform = true then test true
  else write encode_cb (ascii "  </g>\n")

/-- Source: svg_emb_encoder_init (calloc gives the all-zero state; allocation is taken
to succeed). -/
def svg_emb_encoder_init {F : Type} (ops : FloatOps F) : svg_emb_encoder F :=
  { bounds := { min_x := ops.zero, min_y := ops.zero, max_x := ops.zero, max_y := ops.zero,
                valid := false }
    affine_transform := { m00 := ops.one, m01 := ops.zero, m10 := ops.zero, m11 := ops.one,
                          m20 := ops.zero, m21 := ops.zero }
    thread_list := []
    stitch_capacity := 0
    stitch_list := [] }

/-- Source: svg_emb_append_thread. -/
def svg_emb_append_thread {F : Type} (encoder : svg_emb_encoder F) (thread : pec_thread) :
    svg_emb_encoder F × Bool :=
  if SVG_EMB_MAX_THREADS ≤ encoder.thread_count then (encoder, false)
  else ({ encoder with thread_list := encoder.thread_list ++ [thread] }, true)

/-- Source: svg_emb_append_stitch. -/
def svg_emb_append_stitch {F : Type} (ops : FloatOps F) (alloc_ok : Bool)
    (encoder : svg_emb_encoder F) (thread_index : Int) (x y : F) : svg_emb_encoder F × Bool :=
  append_stitch ops alloc_ok encoder thread_index x y false

/-- Source: svg_emb_append_jump_stitch. -/
def svg_emb_append_jump_stitch {F : Type} (ops : FloatOps F) (alloc_ok : Bool)
    (encoder : svg_emb_encoder F) (thread_index : Int) (x y : F) : svg_emb_encoder F × Bool :=
  append_stitch ops alloc_ok encoder thread_index x y true

/-- Source: svg_emb_encode_transform. -/
def svg_emb_encode_transform {F : Type} (encoder : svg_emb_encoder F)
    (affine_transform : PesEncoder.pes_transform F) : svg_emb_encoder F :=
  { encoder with affine_transform := affine_transform }

/-- Source: svg_emb_encode. -/
def svg_emb_encode {F σ : Type} (txt : SvgOps F) (encoder : svg_emb_encoder F)
    (encode_cb : encode_callback σ) : encode_step σ :=
  and_then (encode_header txt encoder encode_cb)
    (and_then (encode_transform_header txt encoder encode_cb)
      (and_then (encode_stitch_list txt encoder encode_cb)
        (and_then (encode_transform_footer txt encoder encode_cb)
          (encode_footer encode_cb))))

/-- Source: svg_emb_encode_size: the run of svg_emb_encode on encoded_size with the
counter starting from 0; the result is 0 when the run fails. -/
def svg_emb_encode_size {F : Type} (txt : SvgOps F) (encoder : svg_emb_encoder F) : Int :=
  if (svg_emb_encode txt encoder encoded_size 0).2 = false then 0
  else (svg_emb_encode txt encoder encoded_size 0).1

end SvgEmbEncoder

/-! ## pec-decoder.c: the thumbnail pixels -/

namespace PecDecoder

/-- Source: pec_thumbnail_pixel. The divisions and the remainder are those of C, which
truncate; the shift count `x % 8` is taken as 0 when it is negative, where C leaves the
shift undefined. -/
def pec_thumbnail_pixel (decoder : pec_decoder) (thumbnail_index x y : Int) : Bool :=
  match decode_thumbnail_offset decoder with
  | none => false
  | some thumbnail_offset =>
    let w := pec_thumbnail_width decoder
    let h := pec_thumbnail_height decoder
    let image_offset := Int.tdiv (thumbnail_index * w * h) 8
    let pixel_offset := Int.tdiv (x + w * y) 8
    match decode_u8 decoder (thumbnail_offset + image_offset + pixel_offset) with
    | none => false
    | some raw => decide (raw &&& (1 <<< (Int.tmod x 8).toNat) ≠ 0)

end PecDecoder

end Libpes
namespace Libpes

/-! ## sax.c -/

namespace Sax

/-- A token (struct sax_token). The field `cursor` holds the characters from the cursor
on, up to the end of the buffer; a read beyond them gives the NUL that ends the text. The
pointer `text` is not kept: in every token that the parser makes `cursor` is
`text + index`, so that `text[index]` is `cursor[0]`. -/
structure sax_token where
  row : Nat
  column : Nat
  index : Nat
  length : Nat
  cursor : List Byte
  deriving DecidableEq

/-- The type sax_element_opening_callback and sax_element_closing_callback, with the
state behind `arg`: the callback returns the new state and its flag. -/
abbrev sax_element_callback (α : Type) := sax_token → α → α × Bool

/-- The type sax_attribute_callback, with the state behind `arg`. -/
abbrev sax_attribute_callback (α : Type) := sax_token → sax_token → α → α × Bool

/-- The type sax_error_callback, with the state behind `arg`. -/
abbrev sax_error_callback (α : Type) := sax_token → String → α → α

/-- The outcome of a parsing function: the returned flag, the token that
update_continuation stores through `c`, and the state behind `arg`. -/
structure parsed (α : Type) where
  valid : Bool
  c : sax_token
  arg : α

/-- The outcome of a parsing function that has the parser state: as `parsed`, with the
field `level` of struct sax_state after the call. -/
structure parsed_element (α : Type) where
  valid : Bool
  c : sax_token
  level : Int
  arg : α

/-- The function isspace of the C library in the C locale: space, and the characters
from horizontal tab to carriage return. -/
def isspace (c : Byte) : Bool := decide (c.val = 32 ∨ (9 ≤ c.val ∧ c.val ≤ 13))

/-- Source: next_char. -/
def next_char (t : sax_token) : sax_token :=
  let t1 : sax_token :=
    if t.cursor.getD 0 0 = 10 then
      { row := t.row + 1, column := 1, index := t.index + 1, length := 1,
        cursor := t.cursor.tail }
    else if t.cursor.getD 0 0 ≠ 0 then
      { t with column := t.column + 1, index := t.index + 1, length := 1,
               cursor := t.cursor.tail }
    else t
  if t1.cursor.getD 0 0 = 0 then { t1 with length := 0 } else t1

/-- Source: parse_error, with update_continuation. -/
def parse_error {α : Type} (t : sax_token) (message : String)
    (error_cb : Option (sax_error_callback α)) (arg : α) : parsed α :=
  { valid := false, c := t,
    arg := match error_cb with
      | some cb => cb t message arg
      | none => arg }

/-- Source: valid_name_char; the characters compared are `=`, `/` and `>`. -/
def valid_name_char (c : Byte) : Bool :=
  decide (c ≠ 0) && !isspace c && decide (c ≠ 61) && decide (c ≠ 47) && decide (c ≠ 62)

/-- The loop `for (n = 0; p(t.cursor[0]); t = next_char(t)) n++`, which parse_name and
parse_attribute_value run with the length of the token as `n`, and the white space loops
`while (isspace(t.cursor[0])) t = next_char(t)` without a count. The loop stops at the
NUL that ends the text; `fuel` bounds the number of iterations. -/
def advance_while (p : Byte → Bool) : Nat → sax_token → Nat → sax_token × Nat
  | 0, t, n => (t, n)
  | fuel + 1, t, n =>
    if p (t.cursor.getD 0 0) = true then advance_while p fuel (next_char t) (n + 1)
    else (t, n)

/-- Source: parse_name. The result is the name and the continuation. -/
def parse_name (t : sax_token) : sax_token × sax_token :=
  ({ t with length := (advance_while valid_name_char t.cursor.length t 0).2 },
    (advance_while valid_name_char t.cursor.length t 0).1)

/-- Source: parse_attribute_value. The result is the value and the continuation. -/
def parse_attribute_value (t : sax_token) (q : Byte) : sax_token × sax_token :=
  ({ t with length := (advance_while (fun c => decide (c ≠ 0) && decide (c ≠ q))
      t.cursor.length t 0).2 },
    (advance_while (fun c => decide (c ≠ 0) && decide (c ≠ q)) t.cursor.length t 0).1)

/-- The loop `while (isspace(t.cursor[0])) t = next_char(t)` of parse_element_closing
and parse_attribute_list. -/
def skip_space (t : sax_token) : sax_token :=
  (advance_while isspace t.cursor.length t 0).1

/-- Source: element_opening. The result is the new level, the state and the flag. -/
def element_opening {α : Type} (name : sax_token) (level : Int)
    (element_opening_cb : Option (sax_element_callback α)) (arg : α) : Int × α × Bool :=
  (level + 1,
    match element_opening_cb with
    | some cb => cb name arg
    | none => (arg, true))

/-- Source: element_closing. The result is the new level, the state and the flag. -/
def element_closing {α : Type} (name : sax_token) (level : Int)
    (element_closing_cb : Option (sax_element_callback α)) (arg : α) : Int × α × Bool :=
  (level - 1,
    match element_closing_cb with
    | some cb => if 0 < level then cb name arg else (arg, true)
    | none => (arg, true))

/-- Source: parse_element_closing. -/
def parse_element_closing {α : Type} (t : sax_token) (level : Int)
    (element_closing_cb : Option (sax_element_callback α))
    (error_cb : Option (sax_error_callback α)) (arg : α) : parsed_element α :=
  let name := (parse_name t).1
  let t1 := skip_space (parse_name t).2
  if t1.cursor.getD 0 0 ≠ 62 then
    { valid := false, c := t1, level := level,
      arg := (parse_error t1 "Expected \x27>\x27" error_cb arg).arg }
  else
    { valid := (element_closing name level element_closing_cb arg).2.2,
      c := next_char t1,
      level := (element_closing name level element_closing_cb arg).1,
      arg := (element_closing name level element_closing_cb arg).2.1 }

/-- Source: parse_attribute; the quotes compared are the apostrophe and the double
quote. -/
def parse_attribute {α : Type} (t : sax_token)
    (attribute_cb : Option (sax_attribute_callback α))
    (error_cb : Option (sax_error_callback α)) (arg : α) : parsed α :=
  let name := (parse_name t).1
  let t1 := (parse_name t).2
  if t1.cursor.getD 0 0 ≠ 61 then parse_error t1 "Expected \x27=\x27" error_cb arg
  else
    let t2 := next_char t1
    let q := t2.cursor.getD 0 0
    if q ≠ 39 ∧ q ≠ 34 then parse_error t2 "Expected \x27 or \"" error_cb arg
    else
      let t3 := next_char t2
      let value := (parse_attribute_value t3 q).1
      let t4 := (parse_attribute_value t3 q).2
      if t4.cursor.getD 0 0 ≠ q then parse_error t4 "Expected \x27 or \"" error_cb arg
      else
        match attribute_cb with
        | some cb =>
          { valid := (cb name value arg).2, c := next_char t4, arg := (cb name value arg).1 }
        | none => { valid := true, c := next_char t4, arg := arg }

/-- Source: the loop of parse_attribute_list; `fuel` bounds the number of attributes. -/
def parse_attribute_list_loop {α : Type} (attribute_cb : Option (sax_attribute_callback α))
    (error_cb : Option (sax_error_callback α)) : Nat → sax_token → α → parsed α
  | 0, t, arg => { valid := false, c := t, arg := arg }
  | fuel + 1, t, arg =>
    let t1 := skip_space t
    if t1.cursor.getD 0 0 = 47 ∨ t1.cursor.getD 0 0 = 62 then
      { valid := true, c := t1, arg := arg }
    else
      let r := parse_attribute t1 attribute_cb error_cb arg
      if r.valid = true then parse_attribute_list_loop attribute_cb error_cb fuel r.c r.arg
      else { valid := false, c := r.c, arg := r.arg }

/-- Source: parse_attribute_list. Every attribute takes at least one character, so the
loop runs at most once more than there are characters. -/
def parse_attribute_list {α : Type} (t : sax_token)
    (attribute_cb : Option (sax_attribute_callback α))
    (error_cb : Option (sax_error_callback α)) (arg : α) : parsed α :=
  parse_attribute_list_loop attribute_cb error_cb (t.cursor.length + 1) t arg

/-- The last steps of parse_element_opening: `if (t.cursor[0] != '>') return
parse_error(...); return update_continuation(next_char(t), c, true)`. -/
def expect_closing_bracket {α : Type} (t : sax_token) (level : Int)
    (error_cb : Option (sax_error_callback α)) (arg : α) : parsed_element α :=
  if t.cursor.getD 0 0 ≠ 62 then
    { valid := false, c := t, level := level,
      arg := (parse_error t "Expected \x27>\x27" error_cb arg).arg }
  else { valid := true, c := next_char t, level := level, arg := arg }

/-- Source: parse_element_opening. -/
def parse_element_opening {α : Type} (t : sax_token) (level : Int)
    (element_opening_cb : Option (sax_element_callback α))
    (element_closing_cb : Option (sax_element_callback α))
    (attribute_cb : Option (sax_attribute_callback α))
    (error_cb : Option (sax_error_callback α)) (arg : α) : parsed_element α :=
  let name := (parse_name t).1
  let t1 := (parse_name t).2
  let opened := element_opening name level element_opening_cb arg
  if opened.2.2 = false then
    { valid := false, c := t1, level := opened.1, arg := opened.2.1 }
  else
    let attributes := parse_attribute_list t1 attribute_cb error_cb opened.2.1
    if attributes.valid = false then
      { valid := false, c := attributes.c, level := opened.1, arg := attributes.arg }
    else if attributes.c.cursor.getD 0 0 = 47 then
      let t2 := next_char attributes.c
      let closed := element_closing name opened.1 element_closing_cb attributes.arg
      if closed.2.2 = false then
        { valid := false, c := t2, level := closed.1, arg := closed.2.1 }
      else expect_closing_bracket t2 closed.1 error_cb closed.2.1
    else expect_closing_bracket attributes.c opened.1 error_cb attributes.arg

/-- The loops of parse_comment, parse_declaration and parse_processing:
`for (; t.cursor[0] != 0; t = next_char(t)) if (hit(t)) return ...`. The result is the
token at which the loop stops and whether it stops on a hit; `fuel` bounds the number of
iterations. -/
def seek (hit : sax_token → Bool) : Nat → sax_token → sax_token × Bool
  | 0, t => (t, false)
  | fuel + 1, t =>
    if t.cursor.getD 0 0 ≠ 0 then
      if hit t = true then (t, true) else seek hit fuel (next_char t)
    else (t, false)

/-- Source: parse_comment; the end is `-->`. -/
def parse_comment {α : Type} (t : sax_token) (error_cb : Option (sax_error_callback α))
    (arg : α) : parsed α :=
  let found := seek (fun t => decide (t.cursor.getD 0 0 = 45 ∧ t.cursor.getD 1 0 = 45 ∧
    t.cursor.getD 2 0 = 62)) t.cursor.length t
  if found.2 = true then
    { valid := true, c := next_char (next_char (next_char found.1)), arg := arg }
  else parse_error found.1 "Unexpected end in comment" error_cb arg

/-- Source: parse_declaration; the end is `>`. -/
def parse_declaration {α : Type} (t : sax_token) (error_cb : Option (sax_error_callback α))
    (arg : α) : parsed α :=
  let found := seek (fun t => decide (t.cursor.getD 0 0 = 62)) t.cursor.length t
  if found.2 = true then { valid := true, c := next_char found.1, arg := arg }
  else parse_error found.1 "Unexpected end in declaration" error_cb arg

/-- Source: parse_processing; the end is `?>`. -/
def parse_processing {α : Type} (t : sax_token) (error_cb : Option (sax_error_callback α))
    (arg : α) : parsed α :=
  let found := seek (fun t => decide (t.cursor.getD 0 0 = 63 ∧ t.cursor.getD 1 0 = 62))
    t.cursor.length t
  if found.2 = true then { valid := true, c := next_char (next_char found.1), arg := arg }
  else parse_error found.1 "Unexpected end in processing instruction" error_cb arg

/-- The outcome of a parsing function without the parser state, with the level as it
is. -/
def parsed.at_level {α : Type} (r : parsed α) (level : Int) : parsed_element α :=
  { valid := r.valid, c := r.c, level := level, arg := r.arg }

/-- Source: parse_element; the characters compared are `/`, `!`, `-` and `?`. -/
def parse_element {α : Type} (t : sax_token) (level : Int)
    (element_opening_cb : Option (sax_element_callback α))
    (element_closing_cb : Option (sax_element_callback α))
    (attribute_cb : Option (sax_attribute_callback α))
    (error_cb : Option (sax_error_callback α)) (arg : α) : parsed_element α :=
  if t.cursor.getD 0 0 = 47 then
    parse_element_closing (next_char t) level element_closing_cb error_cb arg
  else if t.cursor.getD 0 0 = 33 then
    if (next_char t).cursor.getD 0 0 = 45 ∧ (next_char t).cursor.getD 1 0 = 45 then
      (parse_comment (next_char (next_char (next_char t))) error_cb arg).at_level level
    else (parse_declaration (next_char t) error_cb arg).at_level level
  else if t.cursor.getD 0 0 = 63 then
    (parse_processing (next_char t) error_cb arg).at_level level
  else
    parse_element_opening t level element_opening_cb element_closing_cb attribute_cb
      error_cb arg

/-- Source: the loop of parse_children, with the running `element_count`; the character
compared is `<`. Every iteration takes at least one character; `fuel` bounds the number
of iterations. -/
def parse_children_loop {α : Type}
    (element_opening_cb : Option (sax_element_callback α))
    (element_closing_cb : Option (sax_element_callback α))
    (attribute_cb : Option (sax_attribute_callback α))
    (error_cb : Option (sax_error_callback α)) :
    Nat → sax_token → Int → Int → α → parsed_element α
  | 0, t, level, _, arg => { valid := false, c := t, level := level, arg := arg }
  | fuel + 1, t, level, element_count, arg =>
    if t.cursor.getD 0 0 ≠ 0 ∧ (element_count = 0 ∨ 0 ≤ level) then
      if t.cursor.getD 0 0 = 60 then
        let r := parse_element (next_char t) level element_opening_cb element_closing_cb
          attribute_cb error_cb arg
        if r.valid = false then r
        else
          parse_children_loop element_opening_cb element_closing_cb attribute_cb error_cb
            fuel r.c r.level (element_count + 1) r.arg
      else if isspace (t.cursor.getD 0 0) = true then
        parse_children_loop element_opening_cb element_closing_cb attribute_cb error_cb
          fuel (next_char t) level element_count arg
      else (parse_error t "Unrecognized character" error_cb arg).at_level level
    else { valid := true, c := t, level := level, arg := arg }

/-- Source: parse_children. -/
def parse_children {α : Type} (t : sax_token) (level : Int)
    (element_opening_cb : Option (sax_element_callback α))
    (element_closing_cb : Option (sax_element_callback α))
    (attribute_cb : Option (sax_attribute_callback α))
    (error_cb : Option (sax_error_callback α)) (arg : α) : parsed_element α :=
  parse_children_loop element_opening_cb element_closing_cb attribute_cb error_cb
    (t.cursor.length + 1) t level 0 arg

/-- Source: parse_text. -/
def parse_text {α : Type} (t : sax_token) (level : Int)
    (element_opening_cb : Option (sax_element_callback α))
    (element_closing_cb : Option (sax_element_callback α))
    (attribute_cb : Option (sax_attribute_callback α))
    (error_cb : Option (sax_error_callback α)) (arg : α) : parsed_element α :=
  parse_children t level element_opening_cb element_closing_cb attribute_cb error_cb arg

/-- Source: element_closed; the state behind `arg` is the flag `closed`. -/
def element_closed : sax_element_callback Bool := fun _ _ => (true, true)

/-- Source: sax_parse_text. The result is the state behind `arg` and the returned
flag. -/
def sax_parse_text {α : Type} (text : List Byte)
    (element_opening_cb : Option (sax_element_callback α))
    (element_closing_cb : Option (sax_element_callback α))
    (attribute_cb : Option (sax_attribute_callback α))
    (error_cb : Option (sax_error_callback α)) (arg : α) : α × Bool :=
  let r := parse_text { row := 1, column := 1, index := 0, length := 1, cursor := text } 0
    element_opening_cb element_closing_cb attribute_cb error_cb arg
  (r.arg, r.valid)

/-- Source: sax_parse_attributes. -/
def sax_parse_attributes {α : Type} (element_token : sax_token)
    (attribute_cb : Option (sax_attribute_callback α))
    (error_cb : Option (sax_error_callback α)) (arg : α) : α × Bool :=
  let r := parse_attribute_list (parse_name element_token).2 attribute_cb error_cb arg
  (r.arg, r.valid)

/-- The first call of sax_parse_children and sax_parse_siblings: parse_element on the
element token with element_closed as the only element callback and the flag `closed` as
its state. The source hands `error_cb` the address of the flag where the callbacks of
the caller get `arg`; the state of the caller is not reached through it, and the call is
embedded without an error callback. -/
def parse_own_element (element_token : sax_token) : parsed_element Bool :=
  parse_element element_token 0 none (some element_closed) none none false

/-- Source: sax_parse_children. -/
def sax_parse_children {α : Type} (element_token : sax_token)
    (element_opening_cb : Option (sax_element_callback α))
    (element_closing_cb : Option (sax_element_callback α))
    (attribute_cb : Option (sax_attribute_callback α))
    (error_cb : Option (sax_error_callback α)) (arg : α) : α × Bool :=
  let own := parse_own_element element_token
  if own.valid = false then (arg, false)
  else if own.arg = true then (arg, true)
  else
    let r := parse_children own.c (own.level - 1) element_opening_cb element_closing_cb
      attribute_cb error_cb arg
    (r.arg, r.valid)

/-- Source: sax_parse_siblings. -/
def sax_parse_siblings {α : Type} (element_token : sax_token)
    (element_opening_cb : Option (sax_element_callback α))
    (element_closing_cb : Option (sax_element_callback α))
    (attribute_cb : Option (sax_attribute_callback α))
    (error_cb : Option (sax_error_callback α)) (arg : α) : α × Bool :=
  let own := parse_own_element element_token
  if own.valid = false then (arg, false)
  else if own.arg = false then
    let skipped := parse_children own.c (own.level - 1) none none none error_cb arg
    if skipped.valid = false then (skipped.arg, false)
    else
      let r := parse_text skipped.c (skipped.level + 1) element_opening_cb
        element_closing_cb attribute_cb error_cb skipped.arg
      (r.arg, r.valid)
  else
    let r := parse_text own.c own.level element_opening_cb element_closing_cb attribute_cb
      error_cb arg
    (r.arg, r.valid)

/-- The function strlen of the C library on a buffer: the number of characters before
the first NUL, or before the end of the list, where the NUL of the text is. -/
def strlen (s : List Byte) : Nat := (s.takeWhile (fun b => decide (b ≠ 0))).length

/-- The function strncmp of the C library on two buffers: the difference of the first
characters that differ, read as unsigned char, among the first `n`, and 0 when there is
none before a NUL or the end of the `n` characters. The C standard fixes the sign of the
result only. -/
def strncmp : List Byte → List Byte → Nat → Int
  | _, _, 0 => 0
  | a, b, n + 1 =>
    if a.getD 0 0 ≠ b.getD 0 0 then ((a.getD 0 0).val : Int) - (b.getD 0 0).val
    else if a.getD 0 0 = 0 then 0
    else strncmp a.tail b.tail n

/-- Source: sax_strcmp. -/
def sax_strcmp (token : sax_token) (s : List Byte) : Int :=
  let length := strlen s
  let cmp := strncmp token.cursor s token.length
  if length ≤ token.length then cmp else if cmp = 0 then -1 else cmp

end Sax

end Libpes

/-! ## Auxiliary definitions used in statements -/

namespace Libpes
open pec_stitch_type PecEncoder PecDecoder

/-- The fixed first 48 bytes of every PEC output: the label block of encode_label, the
two bytes of encode_thumbnail_size and the twelve spaces that open encode_threads. -/
def pec_head : List Byte :=
  [76, 65, 58, 32, 32, 32, 32, 32, 32, 32, 32, 32, 32, 32, 32, 32, 32, 32, 32, 13,
   32, 32, 32, 32, 32, 32, 32, 32, 32, 32, 32, 32, 0xFF, 0x00, 6, 38,
   32, 32, 32, 32, 32, 32, 32, 32, 32, 32, 32, 32]

/-- The stitches that the PEC decoder is expected to report for a list of encoder
stitches: stitch number `i` of the list is reported with index `i` and its own type;
a stitch that is no Stop is reported at its raw coordinates minus `(x0, y0)`, and a
Stop at the position `(x, y)` reached before it, also minus `(x0, y0)`. -/
def pec_reported {F : Type} (ops : FloatOps F) (x0 y0 : Int) :
    List (pec_stitch F) → Int → Int → Int → List (stitch_event F)
  | [], _, _, _ => []
  | s :: rest, i, x, y =>
    if s.type = PEC_STITCH_STOP then
      { stitch_index := i, x := ops.pec_physical_coordinate (x - x0),
        y := ops.pec_physical_coordinate (y - y0), stitch_type := PEC_STITCH_STOP } ::
        pec_reported ops x0 y0 rest (i + 1) x y
    else
      { stitch_index := i,
        x := ops.pec_physical_coordinate (ops.pec_raw_coordinate s.x - x0),
        y := ops.pec_physical_coordinate (ops.pec_raw_coordinate s.y - y0),
        stitch_type := s.type } ::
        pec_reported ops x0 y0 rest (i + 1) (ops.pec_raw_coordinate s.x)
          (ops.pec_raw_coordinate s.y)

/-- A PEC encoder state used to evaluate the definitions: one thread, two Normal
stitches, on the fixed-point instance. -/
def sample_pec_encoder : pec_encoder Int :=
  { bounds := { min_x := 0, min_y := 0, max_x := 100, max_y := 70, valid := true }
    stitch_capacity := 100
    stitch_list := [⟨0, 0, PEC_STITCH_NORMAL⟩, ⟨100, 70, PEC_STITCH_NORMAL⟩]
    palette := [20] }

end Libpes

namespace Libpes
open pec_stitch_type Pec PesEncoder PesDecoder

/-- Every change of thread index falls on a stitch that has the jump flag. -/
def jump_on_change {F : Type} (l : List (pes_stitch F)) : Prop :=
  List.Chain' (fun a b => a.thread_index ≠ b.thread_index → b.jump = true) l

/-- The number of stitches at the head of a list that have no jump flag. -/
def run_length {F : Type} (l : List (pes_stitch F)) : Nat :=
  (l.takeWhile (fun s => !s.jump)).length

/-- The thread that the PES decoder materialises for run number `j` of the
stitches: the palette thread found for the colour of the stitch's thread, with
index `j`. -/
def run_thread {F : Type} (thread_list : List pec_thread) (s : pes_stitch F) (j : Int) :
    pec_thread :=
  { pec_palette_thread (pec_palette_index_by_rgb
      (thread_list.getD s.thread_index.toNat pec_undefined_thread).rgb) with index := j }

/-- The callback invocations expected for the stitches after the first one:
`cur` is the thread of the current run, `j` the number of the next run, `p` the
stitch before and `k` the index of the next stitch within its block. A stitch
with the jump flag gives a Jump block of two stitches (the stitch before and
the stitch itself) and opens a Normal block; other stitches continue the
current block. -/
def pes_reported_from {F : Type} (ops : FloatOps F) (thread_list : List pec_thread) :
    pec_thread → Int → pes_stitch F → Int → List (pes_stitch F) → List (pes_event F)
  | _, _, _, _, [] => []
  | cur, j, p, k, s :: rest =>
    if s.jump = true then
      let changed := s.thread_index ≠ p.thread_index
      let cur1 := if changed then run_thread thread_list s j else cur
      let j1 := if changed then j + 1 else j
      .block cur1 2 1 ::
      .stitch 0 (ops.pec_physical_coordinate (ops.pec_raw_coordinate p.x))
        (ops.pec_physical_coordinate (ops.pec_raw_coordinate p.y)) ::
      .stitch 1 (ops.pec_physical_coordinate (ops.pec_raw_coordinate s.x))
        (ops.pec_physical_coordinate (ops.pec_raw_coordinate s.y)) ::
      .block cur1 (1 + run_length rest) 0 ::
      .stitch 0 (ops.pec_physical_coordinate (ops.pec_raw_coordinate s.x))
        (ops.pec_physical_coordinate (ops.pec_raw_coordinate s.y)) ::
      pes_reported_from ops thread_list cur1 j1 s 1 rest
    else
      .stitch k (ops.pec_physical_coordinate (ops.pec_raw_coordinate s.x))
        (ops.pec_physical_coordinate (ops.pec_raw_coordinate s.y)) ::
      pes_reported_from ops thread_list cur j s (k + 1) rest

/-- The callback invocations expected from pes_stitch_foreach for the stitch
list of an encoder: a Normal block opened by the first stitch, then the
invocations for the stitches after it. -/
def pes_reported {F : Type} (ops : FloatOps F) (thread_list : List pec_thread) :
    List (pes_stitch F) → List (pes_event F)
  | [] => []
  | s :: rest =>
    .block (run_thread thread_list s 0) (1 + run_length rest) 0 ::
    .stitch 0 (ops.pec_physical_coordinate (ops.pec_raw_coordinate s.x))
      (ops.pec_physical_coordinate (ops.pec_raw_coordinate s.y)) ::
    pes_reported_from ops thread_list (run_thread thread_list s 0) 1 s 1 rest

/-- The coordinates of the stitches reported within blocks of type Normal
(code 0), in order; `normal` tells whether the current block is Normal. -/
def normal_block_stitches {F : Type} : Bool → List (pes_event F) → List (F × F)
  | _, [] => []
  | _, .block _ _ stitch_type :: rest => normal_block_stitches (decide (stitch_type = 0)) rest
  | normal, .stitch _ x y :: rest =>
    if normal = true then (x, y) :: normal_block_stitches normal rest
    else normal_block_stitches normal rest

/-- The blocks reported, as pairs of stitch count and stitch type code. -/
def reported_blocks {F : Type} : List (pes_event F) → List (Int × Int)
  | [] => []
  | .block _ stitch_count stitch_type :: rest => (stitch_count, stitch_type) :: reported_blocks rest
  | .stitch _ _ _ :: rest => reported_blocks rest

/-- The states of the PES encoder: the state after pes_encoder_init and every state
obtained from it by calls of the append operations and of pes_encode_transform,
whatever these calls return and whatever the allocator does. -/
inductive pes_reachable {F : Type} (ops : FloatOps F) : pes_encoder F → Prop where
  | init : pes_reachable ops (pes_encoder_init ops)
  | append_thread (e : pes_encoder F) (thread : pec_thread) :
      pes_reachable ops e → pes_reachable ops (pes_append_thread e thread).1
  | append_stitch (e : pes_encoder F) (alloc : alloc_outcomes) (thread_index : Int) (x y : F) :
      pes_reachable ops e →
      pes_reachable ops (pes_append_stitch ops alloc e thread_index x y).1
  | append_jump_stitch (e : pes_encoder F) (alloc : alloc_outcomes) (thread_index : Int)
      (x y : F) :
      pes_reachable ops e →
      pes_reachable ops (pes_append_jump_stitch ops alloc e thread_index x y).1
  | encode_transform (e : pes_encoder F) (t : pes_transform F) :
      pes_reachable ops e → pes_reachable ops (pes_encode_transform e t)

/-- A block callback that may be null, applied: a null callback leaves the state
as it is and lets the iteration continue. -/
def apply_block_cb {σ : Type} (block_cb : Option (pes_block_callback σ)) (arg : σ)
    (thread : pec_thread) (stitch_count stitch_type : Int) : σ × Bool :=
  match block_cb with
  | none => (arg, true)
  | some cb => cb arg thread stitch_count stitch_type

/-- A stitch callback that may be null, applied. -/
def apply_stitch_cb {F σ : Type} (stitch_cb : Option (pes_stitch_callback F σ)) (arg : σ)
    (stitch_index : Int) (x y : F) : σ × Bool :=
  match stitch_cb with
  | none => (arg, true)
  | some cb => cb arg stitch_index x y

/-- The state after the callback invocation described by an event. -/
def play_event {F σ : Type} (block_cb : Option (pes_block_callback σ))
    (stitch_cb : Option (pes_stitch_callback F σ)) (arg : σ) : pes_event F → σ
  | .block thread stitch_count stitch_type =>
    (apply_block_cb block_cb arg thread stitch_count stitch_type).1
  | .stitch stitch_index x y => (apply_stitch_cb stitch_cb arg stitch_index x y).1

/-- The part of one iteration of the block loop of stitch_foreach that follows
the stitches of the block: the continuation code is read at `offset1`, and the
loop is left there or continues with the next block after it. -/
def after_block {F σ : Type} (ops : FloatOps F) (decoder : pes_decoder)
    (block_cb : Option (pes_block_callback σ)) (stitch_cb : Option (pes_stitch_callback F σ))
    (fuel : Nat) (block_index offset1 change_index : Int) (thread : pec_thread) (arg : σ) :
    σ × Option Int :=
  match decode_u16lsb decoder offset1 with
  | none => (arg, none)
  | some code =>
    if code ≠ 0x8003 then (arg, some offset1)
    else block_loop ops decoder block_cb stitch_cb fuel (block_index + 1)
      (offset1 + 2) change_index thread arg

/-- The thread changes of the stitches after the first one, as the decoder holds
them: for every stitch with the jump flag whose thread index differs from the
one of the stitch before, the index of its Jump block and the number of its
run, with the thread materialised for the run. `b` is the index that the next
Jump block has, `j` the number of the next run and `p` the stitch before. -/
def changes_from {F : Type} (thread_list : List pec_thread) :
    Int → Int → pes_stitch F → List (pes_stitch F) → List (pes_change × pec_thread)
  | _, _, _, [] => []
  | b, j, p, s :: rest =>
    if s.jump = true then
      if s.thread_index ≠ p.thread_index then
        (⟨b, j⟩, run_thread thread_list s j) :: changes_from thread_list (b + 2) (j + 1) s rest
      else changes_from thread_list (b + 2) j s rest
    else changes_from thread_list b j s rest

/-- The thread changes of a stitch list, as the decoder holds them. -/
def changes_of {F : Type} (thread_list : List pec_thread) :
    List (pes_stitch F) → List (pes_change × pec_thread)
  | [] => []
  | s :: rest => (⟨0, 0⟩, run_thread thread_list s 0) :: changes_from thread_list 1 1 s rest

/-- The stitch callback invocations for consecutive stitches of one block, the
first of them with index `k`. -/
def run_events {F : Type} (ops : FloatOps F) : Int → List (pes_stitch F) → List (pes_event F)
  | _, [] => []
  | k, s :: rest =>
    .stitch k (ops.pec_physical_coordinate (ops.pec_raw_coordinate s.x))
      (ops.pec_physical_coordinate (ops.pec_raw_coordinate s.y)) :: run_events ops (k + 1) rest

/-- The entries of the thread table for the stitches after the first one, as pairs
of block index and palette index: one for every stitch with the jump flag whose
thread index differs from the one of the stitch before. `b` is the index that
the next Jump block has and `p` the stitch before. -/
def change_entries {F : Type} (thread_list : List pec_thread) :
    Int → pes_stitch F → List (pes_stitch F) → List (Int × Int)
  | _, _, [] => []
  | b, p, s :: rest =>
    if s.jump = true then
      if s.thread_index ≠ p.thread_index then
        (b, pec_palette_index_by_rgb
          (thread_list.getD s.thread_index.toNat pec_undefined_thread).rgb) ::
          change_entries thread_list (b + 2) s rest
      else change_entries thread_list (b + 2) s rest
    else change_entries thread_list b s rest

/-- The entries of the thread table of a stitch list. -/
def table_entries {F : Type} (thread_list : List pec_thread) :
    List (pes_stitch F) → List (Int × Int)
  | [] => []
  | s :: rest =>
    (0, pec_palette_index_by_rgb
      (thread_list.getD s.thread_index.toNat pec_undefined_thread).rgb) ::
      change_entries thread_list 1 s rest

/-- The bytes of table entries: two 16-bit little-endian values each. -/
def entries_bytes : List (Int × Int) → List Byte
  | [] => []
  | (b, x) :: rest =>
    byteOfInt b :: byteOfInt (b / 256) :: byteOfInt x :: byteOfInt (x / 256) ::
      entries_bytes rest

/-- The changes and threads that palette_thread_cb stores for table entries, the
first of them with change index `j`. -/
def materialise : Int → List (Int × Int) → List (pes_change × pec_thread)
  | _, [] => []
  | j, (b, x) :: rest =>
    (⟨b, j⟩, { pec_palette_thread x with index := j }) :: materialise (j + 1) rest

/-- The blocks expected for the stitches after the first one, as pairs of stitch
count and stitch type code: for every stitch with the jump flag a Jump block
(code 1) of two stitches and a Normal block (code 0) that holds the stitch and
the stitches up to the next jump. -/
def jump_blocks {F : Type} : List (pes_stitch F) → List (Int × Int)
  | [] => []
  | s :: rest =>
    if s.jump = true then (2, 1) :: (1 + (run_length rest : Int), 0) :: jump_blocks rest
    else jump_blocks rest

/-- The blocks expected for a stitch list: one Normal block, then the blocks of
the jumps. -/
def expected_blocks {F : Type} : List (pes_stitch F) → List (Int × Int)
  | [] => []
  | _ :: rest => (1 + (run_length rest : Int), 0) :: jump_blocks rest

/-- The stitches reported within the Jump blocks (code 1) as pairs of
coordinates, in order; `jump` tells whether the current block is a Jump block. -/
def jump_block_stitches {F : Type} : Bool → List (pes_event F) → List (F × F)
  | _, [] => []
  | _, .block _ _ stitch_type :: rest => jump_block_stitches (decide (stitch_type = 1)) rest
  | jump, .stitch _ x y :: rest =>
    if jump = true then (x, y) :: jump_block_stitches jump rest
    else jump_block_stitches jump rest

/-- The stitches expected within the Jump blocks for the stitches after `p`: the
stitch before and the stitch itself, for every stitch with the jump flag. -/
def jump_pairs {F : Type} (ops : FloatOps F) : pes_stitch F → List (pes_stitch F) → List (F × F)
  | _, [] => []
  | p, s :: rest =>
    if s.jump = true then
      (ops.pec_physical_coordinate (ops.pec_raw_coordinate p.x),
        ops.pec_physical_coordinate (ops.pec_raw_coordinate p.y)) ::
      (ops.pec_physical_coordinate (ops.pec_raw_coordinate s.x),
        ops.pec_physical_coordinate (ops.pec_raw_coordinate s.y)) :: jump_pairs ops s rest
    else jump_pairs ops s rest

/-- Allocation outcomes in which every `realloc` succeeds. -/
def alloc_all : alloc_outcomes := ⟨true, true, true⟩

/-- A PES encoder state used to evaluate the definitions, on the fixed-point
instance: three threads are appended (the palette colour Red, the colour
(1, 2, 3) that is not in the palette, and the palette colour Blue, which no
stitch uses), then two stitches with thread 0 and a jump stitch with thread 1. -/
def sample_pes_encoder : pes_encoder Int :=
  let e0 := pes_encoder_init gridOps
  let e1 := (pes_append_thread e0 (pec_palette_thread 5)).1
  let e2 := (pes_append_thread e1 ⟨0, "", "", "", "", ⟨1, 2, 3⟩⟩).1
  let e3 := (pes_append_thread e2 (pec_palette_thread 2)).1
  let e4 := (pes_append_stitch gridOps alloc_all e3 0 0 0).1
  let e5 := (pes_append_stitch gridOps alloc_all e4 0 100 70).1
  (pes_append_jump_stitch gridOps alloc_all e5 1 200 50).1

/-- The stitches expected within the Jump blocks for a stitch list. -/
def expected_jump_stitches {F : Type} (ops : FloatOps F) : List (pes_stitch F) → List (F × F)
  | [] => []
  | s :: rest => jump_pairs ops s rest

end Libpes

namespace Libpes
open pec_stitch_type Pec

/-! ## Sequences of PEC encoder operations -/

/-- One call of an append operation of the PEC encoder, with the outcome of the
`realloc` that the call may make. -/
inductive pec_op (F : Type) where
  | append_thread (alloc_ok : Bool) (palette_index : Int)
  | append_stitch (alloc_ok : Bool) (x y : F)
  | append_jump_stitch (alloc_ok : Bool) (x y : F)
  | append_trim_stitch (alloc_ok : Bool) (x y : F)

/-- The state and the returned flag after one operation. -/
def pec_apply {F : Type} (ops : FloatOps F) (e : PecEncoder.pec_encoder F) :
    pec_op F → PecEncoder.pec_encoder F × Bool
  | .append_thread alloc_ok palette_index =>
    PecEncoder.pec_append_thread ops alloc_ok e palette_index
  | .append_stitch alloc_ok x y => PecEncoder.pec_append_stitch ops alloc_ok e x y
  | .append_jump_stitch alloc_ok x y => PecEncoder.pec_append_jump_stitch ops alloc_ok e x y
  | .append_trim_stitch alloc_ok x y => PecEncoder.pec_append_trim_stitch ops alloc_ok e x y

/-- The state after a sequence of operations, whatever the operations return. -/
def pec_run {F : Type} (ops : FloatOps F) :
    PecEncoder.pec_encoder F → List (pec_op F) → PecEncoder.pec_encoder F
  | e, [] => e
  | e, op :: rest => pec_run ops (pec_apply ops e op).1 rest

/-- The number of Stop entries of the stitch list. -/
def stop_count {F : Type} (e : PecEncoder.pec_encoder F) : Nat :=
  e.stitch_list.countP (fun s => decide (s.type = PEC_STITCH_STOP))

/-- Every pec_append_thread of the sequence is either made on an encoder without
threads, or made on an encoder whose stitch list is not empty and returns
success. -/
def threads_separated {F : Type} (ops : FloatOps F) :
    PecEncoder.pec_encoder F → List (pec_op F) → Prop
  | _, [] => True
  | e, op :: rest =>
    (match op with
     | .append_thread _ _ =>
       e.thread_count = 0 ∨ (e.stitch_list ≠ [] ∧ (pec_apply ops e op).2 = true)
     | _ => True) ∧
    threads_separated ops (pec_apply ops e op).1 rest

/-- A PEC encoder state on the fixed-point instance: one thread and a stitch at
(0, 0). -/
def origin_pec_encoder : PecEncoder.pec_encoder Int :=
  pec_run gridOps (PecEncoder.pec_encoder_init gridOps)
    [.append_thread true 20, .append_stitch true 0 0]

/-- The state after appending to origin_pec_encoder a stitch at 300 mm, whose raw
x is 3000. -/
def overflow_pec_encoder : PecEncoder.pec_encoder Int :=
  (PecEncoder.pec_append_stitch gridOps true origin_pec_encoder 3000 0).1

/-- A PES encoder state on the fixed-point instance: one thread and a stitch at
(0, 0). -/
def origin_pes_encoder : PesEncoder.pes_encoder Int :=
  (PesEncoder.pes_append_stitch gridOps alloc_all
    (PesEncoder.pes_append_thread (PesEncoder.pes_encoder_init gridOps)
      (pec_palette_thread 5)).1 0 0 0).1

/-- The state after appending to origin_pes_encoder a stitch at 300 mm, whose raw
x is 3000. -/
def overflow_pes_encoder : PesEncoder.pes_encoder Int :=
  (PesEncoder.pes_append_stitch gridOps alloc_all origin_pes_encoder 0 3000 0).1

/-! ## Markers of a PES buffer -/

/-- The u16le length 7 followed by the seven characters of `s` stands at `offset` of
the buffer. -/
def marker_at (data : List Byte) (offset : Int) (s : String) : Bool :=
  decide (0 ≤ offset) && decide ((data.drop offset.toNat).take 9 = [7, 0] ++ ascii s)

/-- The first eight bytes of the buffer are one of the four PES magics. -/
def pes_magic (data : List Byte) : Bool :=
  decide (data.take 8 = ascii "#PES0001") || decide (data.take 8 = ascii "#PES0040") ||
  decide (data.take 8 = ascii "#PES0050") || decide (data.take 8 = ascii "#PES0060")

/-- The end of the version-specific header of the buffer: the offset that the
init_version function selected by the magic leaves in cembone_offset, `none` when the
magic is unknown or the header cannot be read. -/
def header_end (calloc_zero : Bool) (data : List Byte) : Option Int :=
  let d0 : PesDecoder.pes_decoder :=
    { data := data, version := [], hoop_width := 0, hoop_height := 0, pec_offset := 0,
      cembone_offset := 0, csewseg_offset := 0, name := [], thread_count := 0,
      thread_list := none, change_count := 0, change_list := [], pec := ⟨[]⟩ }
  let versioned : Option PesDecoder.pes_decoder :=
    if data.take 8 = ascii "#PES0001" then PesDecoder.init_version1 d0
    else if data.take 8 = ascii "#PES0040" then PesDecoder.init_version4 d0
    else if data.take 8 = ascii "#PES0050" then PesDecoder.init_version5 calloc_zero d0
    else if data.take 8 = ascii "#PES0060" then PesDecoder.init_version6 calloc_zero d0
    else none
  versioned.map (fun d => d.cembone_offset)

/-! ## Thread resolution of the PES decoder -/

/-- The threads passed to the recording block callback, in the order of the calls. -/
def block_threads {F : Type} (log : List (PesDecoder.pes_event F)) : List pec_thread :=
  log.filterMap (fun e =>
    match e with
    | .block thread _ _ => some thread
    | .stitch _ _ _ => none)

/-- The thread referenced by the last entry of the change table whose block_index is
at most `k`, and the undefined thread when there is no such entry. -/
def resolve_thread (d : PesDecoder.pes_decoder) (k : Int) : pec_thread :=
  match (d.change_list.filter (fun c => decide (c.block_index ≤ k))).getLast? with
  | none => pec_undefined_thread
  | some c => (d.thread_list.getD []).getD c.thread_index.toNat pec_undefined_thread

/-! ## The running position of the PEC stitch stream -/

/-- The raw position that encode_stitch_list holds after the given stitches when it
starts from (`x`, `y`): the raw coordinates of the last stitch that is not a Stop, and
the start when there is none. -/
def running_position {F : Type} (ops : FloatOps F) :
    Int → Int → List (PecEncoder.pec_stitch F) → Int × Int
  | x, y, [] => (x, y)
  | x, y, s :: rest =>
    if s.type = PEC_STITCH_STOP then running_position ops x y rest
    else running_position ops (ops.pec_raw_coordinate s.x) (ops.pec_raw_coordinate s.y) rest

/-- A delta that encode_stitch refuses. -/
def delta_out_of_range (d : Int) : Prop := d < -2048 ∨ 2047 < d

end Libpes
namespace Libpes
open pec_stitch_type Pec

/-! ## A thread change without the jump flag -/

/-- A PES encoder state on the fixed-point instance: two threads, a stitch of thread 0
at (0, 0) and a stitch of thread 1 at (1 mm, 0), both appended with pes_append_stitch,
so that the thread changes on a stitch without the jump flag. -/
def unflagged_change_encoder : PesEncoder.pes_encoder Int :=
  (PesEncoder.pes_append_stitch gridOps alloc_all
    (PesEncoder.pes_append_stitch gridOps alloc_all
      (PesEncoder.pes_append_thread
        (PesEncoder.pes_append_thread (PesEncoder.pes_encoder_init gridOps)
          (pec_palette_thread 5)).1
        (pec_palette_thread 2)).1 0 0 0).1 1 10 0).1

/-! ## Bounds of the encoders -/

/-- The comparison `<` of the float operations is irreflexive and transitive, as the
comparison of C floats is. -/
def lt_strict_order {F : Type} (ops : FloatOps F) : Prop :=
  (∀ a, ops.lt a a = false) ∧
  (∀ a b c, ops.lt a b = true → ops.lt b c = true → ops.lt a c = true)

/-- The value `m` is the minimum of the list: it is in the list and no entry is below
it. -/
def is_minimum {F : Type} (ops : FloatOps F) (m : F) (l : List F) : Prop :=
  m ∈ l ∧ ∀ v ∈ l, ops.lt v m = false

/-- The value `m` is the maximum of the list: it is in the list and no entry is above
it. -/
def is_maximum {F : Type} (ops : FloatOps F) (m : F) (l : List F) : Prop :=
  m ∈ l ∧ ∀ v ∈ l, ops.lt m v = false

/-- The states of the SVG embroidery encoder: those reached from svg_emb_encoder_init by
the append operations and svg_emb_encode_transform, whatever the operations return. -/
inductive svg_reachable {F : Type} (ops : FloatOps F) :
    SvgEmbEncoder.svg_emb_encoder F → Prop where
  | init : svg_reachable ops (SvgEmbEncoder.svg_emb_encoder_init ops)
  | append_thread (e : SvgEmbEncoder.svg_emb_encoder F) (thread : pec_thread) :
      svg_reachable ops e → svg_reachable ops (SvgEmbEncoder.svg_emb_append_thread e thread).1
  | append_stitch (e : SvgEmbEncoder.svg_emb_encoder F) (alloc_ok : Bool)
      (thread_index : Int) (x y : F) :
      svg_reachable ops e →
      svg_reachable ops (SvgEmbEncoder.svg_emb_append_stitch ops alloc_ok e thread_index x y).1
  | append_jump_stitch (e : SvgEmbEncoder.svg_emb_encoder F) (alloc_ok : Bool)
      (thread_index : Int) (x y : F) :
      svg_reachable ops e →
      svg_reachable ops
        (SvgEmbEncoder.svg_emb_append_jump_stitch ops alloc_ok e thread_index x y).1
  | encode_transform (e : SvgEmbEncoder.svg_emb_encoder F) (t : PesEncoder.pes_transform F) :
      svg_reachable ops e → svg_reachable ops (SvgEmbEncoder.svg_emb_encode_transform e t)

/-! ## Encoders without stitches -/

/-- The characters of a fixed-point value (tenths) printed with one decimal and `zeros`
further zero decimals, padded with blanks on the left to `width` characters. -/
def grid_fixed (zeros width : Nat) (v : Int) : List Byte :=
  let body := (if v < 0 then ascii "-" else []) ++
    (Nat.toDigits 10 (v.natAbs / 10)).map (fun c => byteOfNat c.toNat) ++ ascii "." ++
    (Nat.toDigits 10 (v.natAbs % 10)).map (fun c => byteOfNat c.toNat) ++
    List.replicate zeros (byteOfNat 48)
  List.replicate (width - body.length) (byteOfNat 32) ++ body

/-- The fixed-point instance of the float computations of svg-emb-encoder.c, on the
values of gridOps (tenths of a millimetre); the identity transform is the one that
pes_encoder_init and svg_emb_encoder_init set. -/
def gridSvgOps : SvgOps Int where
  sub := fun a b => a - b
  add := fun a b => a + b
  fixed1 := grid_fixed 0 0
  fixed5_1 := grid_fixed 0 5
  fixed7 := grid_fixed 6 0
  pes_is_identity_transform := fun t =>
    decide (t.m00 = 10 ∧ t.m01 = 0 ∧ t.m10 = 0 ∧ t.m11 = 10 ∧ t.m20 = 0 ∧ t.m21 = 0)

/-- The chunks of the SVG skeleton for the transform `t`: the header with the prolog, the
DOCTYPE and the svg element whose width and height are those of the bounds 0.0 to 0.0,
the opening and the closing tag of the g element unless the transform is the identity,
and the closing tag of the svg element. -/
def svg_skeleton {F : Type} (ops : FloatOps F) (txt : SvgOps F) (t : PesEncoder.pes_transform F) :
    List (List Byte) :=
  [snprintf 1024
    (ascii "<?xml version=\"1.0\"?>\n" ++
     ascii "<!DOCTYPE svg PUBLIC \"-//W3C//DTD SVG 1.1//EN\"\n" ++
     ascii "  \"http://www.w3.org/Graphics/SVG/1.1/DTD/svg11.dtd\">\n" ++
     ascii "<svg width=\"" ++ txt.fixed1 (txt.sub ops.zero ops.zero) ++
     ascii "mm\" height=\"" ++ txt.fixed1 (txt.sub ops.zero ops.zero) ++
     ascii "mm\" version=\"1.1\"\n" ++
     ascii "     viewBox=\"" ++
     txt.fixed1 (txt.add ops.zero t.m20) ++ ascii " " ++
     txt.fixed1 (txt.add ops.zero t.m21) ++ ascii " " ++
     txt.fixed1 (txt.sub ops.zero ops.zero) ++ ascii " " ++
     txt.fixed1 (txt.sub ops.zero ops.zero) ++
     ascii "\" xmlns=\"http://www.w3.org/2000/svg\">\n")] ++
  (if txt.pes_is_identity_transform t = true then []
   else [snprintf 256
      (ascii "  <g transform=\"matrix(" ++
       txt.fixed7 t.m00 ++ ascii " " ++ txt.fixed7 t.m01 ++ ascii " " ++
       txt.fixed7 t.m10 ++ ascii " " ++ txt.fixed7 t.m11 ++ ascii " " ++
       txt.fixed7 t.m20 ++ ascii " " ++ txt.fixed7 t.m21 ++ ascii ")\">\n"),
     ascii "  </g>\n"]) ++
  [ascii "</svg>\n"]

/-- The states of the PES encoder on which no stitch append has been called: those
reached from pes_encoder_init by pes_append_thread and pes_encode_transform. -/
inductive pes_unstitched {F : Type} (ops : FloatOps F) : PesEncoder.pes_encoder F → Prop where
  | init : pes_unstitched ops (PesEncoder.pes_encoder_init ops)
  | append_thread (e : PesEncoder.pes_encoder F) (thread : pec_thread) :
      pes_unstitched ops e → pes_unstitched ops (PesEncoder.pes_append_thread e thread).1
  | encode_transform (e : PesEncoder.pes_encoder F) (t : PesEncoder.pes_transform F) :
      pes_unstitched ops e → pes_unstitched ops (PesEncoder.pes_encode_transform e t)

/-- An SVG embroidery encoder without stitches, with one thread and a translation. -/
def unstitched_svg_encoder : SvgEmbEncoder.svg_emb_encoder Int :=
  SvgEmbEncoder.svg_emb_encode_transform
    (SvgEmbEncoder.svg_emb_append_thread (SvgEmbEncoder.svg_emb_encoder_init gridOps)
      (pec_palette_thread 5)).1
    { m00 := 10, m01 := 0, m10 := 0, m11 := 10, m20 := 25, m21 := 0 }

/-- A PES encoder without stitches, with one thread. -/
def unstitched_pes_encoder : PesEncoder.pes_encoder Int :=
  (PesEncoder.pes_append_thread (PesEncoder.pes_encoder_init gridOps) (pec_palette_thread 5)).1

/-! ## Thumbnails of the PEC encoder -/

/-- The pixel `(x, y)` of a thumbnail image of the encoder: bit `x mod 8` of byte
`6 * y + x / 8`, that is of `image[y][x / 8]`. -/
def thumbnail_pixel (t : PecEncoder.pec_thumbnail) (x y : Int) : Bool :=
  decide ((t.image.getD (6 * y + x / 8).toNat 0).val &&& (1 <<< (x % 8).toNat) ≠ 0)

/-- The images that the second loop of encode_thumbnail_list writes, one for each of the
`n` threads left, as they are after thumbnail_frame. -/
def thread_thumbnail_images {F : Type} (ops : FloatOps F) (encoder : PecEncoder.pec_encoder F) :
    Nat → Nat → List PecEncoder.pec_thumbnail
  | 0, _ => []
  | n + 1, k =>
    PecEncoder.thumbnail_frame
      (PecEncoder.thumbnail_run_lines ops encoder encoder.stitch_list.length
        PecEncoder.thumbnail_zero k).1 ::
    thread_thumbnail_images ops encoder n
      ((PecEncoder.thumbnail_run_lines ops encoder encoder.stitch_list.length
        PecEncoder.thumbnail_zero k).2 + 1)

/-- The images that encode_thumbnail_list writes, in order: the image of all stitches
and the image of each thread, as they are after thumbnail_frame. -/
def encoder_thumbnails {F : Type} (ops : FloatOps F) (encoder : PecEncoder.pec_encoder F) :
    List PecEncoder.pec_thumbnail :=
  PecEncoder.thumbnail_frame
    (PecEncoder.thumbnail_all_lines ops encoder.bounds PecEncoder.thumbnail_zero
      encoder.stitch_list) ::
  thread_thumbnail_images ops encoder encoder.palette.length 1

/-- The pixels `(c, r)` that thumbnail_frame plots, in the order of its calls. -/
def frame_pixels : List (Int × Int) :=
  (List.range 40).flatMap (fun i => [(4 + (i : Int), 1), (4 + (i : Int), 36)]) ++
  (List.range 30).flatMap (fun i => [(1, 4 + (i : Int)), (46, 4 + (i : Int))]) ++
  [(3, 2), (2, 3), (44, 2), (45, 3), (2, 34), (3, 35), (45, 34), (44, 35)]

/-- The calls of thumbnail_plot for a list of pixels, one after the other. -/
def plot_all (t : PecEncoder.pec_thumbnail) (pixels : List (Int × Int)) :
    PecEncoder.pec_thumbnail :=
  pixels.foldl (fun t p => PecEncoder.thumbnail_plot t p.1 p.2) t

end Libpes
namespace Libpes
open Sax

/-! ## Events of the XML parser -/

/-- A call that the parser makes to one of its callbacks, with the tokens it hands
over. -/
inductive sax_event where
  | opening (element : sax_token)
  | closing (element : sax_token)
  | attr (name value : sax_token)
  | error (token : sax_token) (message : String)
  deriving DecidableEq

/-- An element opening callback that records its call and returns true. -/
def record_opening : sax_element_callback (List sax_event) :=
  fun element log => (log ++ [sax_event.opening element], true)

/-- An element closing callback that records its call and returns true. -/
def record_closing : sax_element_callback (List sax_event) :=
  fun element log => (log ++ [sax_event.closing element], true)

/-- An attribute callback that records its call and returns true. -/
def record_attribute : sax_attribute_callback (List sax_event) :=
  fun name value log => (log ++ [sax_event.attr name value], true)

/-- An error callback that records its call. -/
def record_error : sax_error_callback (List sax_event) :=
  fun token message log => log ++ [sax_event.error token message]

/-- The run of sax_parse_text with the recording callbacks: the events and the flag. -/
def sax_events (text : List Byte) : List sax_event × Bool :=
  sax_parse_text text (some record_opening) (some record_closing) (some record_attribute)
    (some record_error) []

/-- The event is an attribute event. -/
def sax_event.is_attribute : sax_event → Bool
  | sax_event.attr _ _ => true
  | _ => false

/-- The characters of a token: the first `length` characters from its cursor. -/
def Sax.sax_token.chars (t : sax_token) : List Byte := t.cursor.take t.length

/-- The kinds of the events (enum sax_type of sax-tests.c). -/
inductive sax_type where
  | SAX_ELEMENT_OPENING
  | SAX_ELEMENT_CLOSING
  | SAX_ATTRIBUTE
  | SAX_ERROR
  deriving DecidableEq

/-- What check_reference of sax-tests.c compares of an event: the kind, the row and the
column of the first token, its characters, and the characters of the second token when
there is one. -/
def sax_event.invocation : sax_event → sax_type × Nat × Nat × List Byte × List Byte
  | sax_event.opening e =>
    (sax_type.SAX_ELEMENT_OPENING, e.row, e.column, e.chars, [])
  | sax_event.closing e =>
    (sax_type.SAX_ELEMENT_CLOSING, e.row, e.column, e.chars, [])
  | sax_event.attr a v => (sax_type.SAX_ATTRIBUTE, a.row, a.column, a.chars, v.chars)
  | sax_event.error e _ => (sax_type.SAX_ERROR, e.row, e.column, e.chars, [])

/-- The text that test_sax_parser of sax-tests.c parses. -/
def fixture_xml : List Byte :=
  ascii ("<?xml version=\"1.0\"?>\n" ++
    "<!DOCTYPE svg PUBLIC \"-//W3C//DTD SVG 1.1//EN\"\n" ++
    "  \"http://www.w3.org/Graphics/SVG/1.1/DTD/svg11.dtd\">\n" ++
    "<svg width=\x2784.1mm\x27 height=\x2751.1mm\x27 version=\"1.1\"\n" ++
    "     viewBox=\"0 0 84.1 51.1\" xmlns=\"http://www.w3.org/2000/svg\">\n" ++
    "  <!-- SVG paths -->\n" ++
    "  <path stroke=\"#fffc11\" fill=\"none\" stroke-width=\"0.2\"\n" ++
    "        d=\"M  30.5  23.7 L  30.5  23.7 L  30.4  24.1 L  30.3  24.5\n" ++
    "           L  30.3  24.9 L  29.5  25.3 L  28.9  24.3 L  29.5  23.2\n" ++
    "           L  30.8  23.8 L  29.6  24.9 L  28.5  24.9 L  29.0  23.8\" />\n" ++
    "  <path stroke=\"#fffc11\" fill=\"none\" stroke-width=\"0.2\" stroke-dasharray=\"1 1\"\n" ++
    "        d=\"M  40.6  26.9 L  45.9  10.5\" />\n" ++
    "  <path stroke=\"#fffc11\" fill=\"none\" stroke-width=\"0.2\"\n" ++
    "        d=\"M  45.9  10.5 L  45.9  10.5 L  45.6  10.7 L  45.2  10.9\n" ++
    "           L  44.9  11.1 L  44.3  11.3 L  43.3  11.9 L  41.6  12.7\n" ++
    "           L  43.3  11.2 L  45.4   9.9 L  47.7   8.4 L  49.4   7.4\" />\n" ++
    "  <g>\n" ++
    "    <path stroke=\"#b5dc10\" fill=\"none\" stroke-width=\"0.2\" stroke-dasharray=\"1 1\"\n" ++
    "          d=\"M  42.3   8.3 L  29.8  42.9\" />\n" ++
    "    <path stroke=\"#b5dc10\" fill=\"none\" stroke-width=\"0.2\"\n" ++
    "          d=\"M  29.8  42.9 L  29.8  42.9 L  29.9  42.4 L  29.9  42.1\n" ++
    "             L  30.0  41.6 L  29.4  41.2 L  28.8  39.8 L  28.8  37.9\" />\n" ++
    "  </g>\n" ++
    "  <path stroke=\"#b5dc10\" fill=\"none\" stroke-width=\"0.2\" stroke-dasharray=\"1 1\"\n" ++
    "        d=\"M  39.4  36.8 L  40.6  27.3\" />\n" ++
    "</svg>\n")

/-- The first token of an event. -/
def sax_event.token : sax_event → sax_token
  | sax_event.opening e => e
  | sax_event.closing e => e
  | sax_event.attr a _ => a
  | sax_event.error e _ => e

/-- The reference list of test_sax_parser of sax-tests.c: the 48 calls that the test
expects, each with its kind, row, column and the characters of its tokens. -/
def fixture_reference : List (sax_type × Nat × Nat × List Byte × List Byte) := [
  (sax_type.SAX_ELEMENT_OPENING, 4, 2, ascii "svg", ascii ""),
  (sax_type.SAX_ATTRIBUTE, 4, 6, ascii "width", ascii "84.1mm"),
  (sax_type.SAX_ATTRIBUTE, 4, 21, ascii "height", ascii "51.1mm"),
  (sax_type.SAX_ATTRIBUTE, 4, 37, ascii "version", ascii "1.1"),
  (sax_type.SAX_ATTRIBUTE, 5, 6, ascii "viewBox", ascii "0 0 84.1 51.1"),
  (sax_type.SAX_ATTRIBUTE, 5, 30, ascii "xmlns", ascii "http://www.w3.org/2000/svg"),
  (sax_type.SAX_ELEMENT_OPENING, 7, 4, ascii "path", ascii ""),
  (sax_type.SAX_ATTRIBUTE, 7, 9, ascii "stroke", ascii "#fffc11"),
  (sax_type.SAX_ATTRIBUTE, 7, 26, ascii "fill", ascii "none"),
  (sax_type.SAX_ATTRIBUTE, 7, 38, ascii "stroke-width", ascii "0.2"),
  (sax_type.SAX_ATTRIBUTE, 8, 9, ascii "d", ascii "M  30.5  23.7 L  30.5  23.7 L  30.4  24.1 L  30.3  24.5\n           L  30.3  24.9 L  29.5  25.3 L  28.9  24.3 L  29.5  23.2\n           L  30.8  23.8 L  29.6  24.9 L  28.5  24.9 L  29.0  23.8"),
  (sax_type.SAX_ELEMENT_CLOSING, 7, 4, ascii "path", ascii ""),
  (sax_type.SAX_ELEMENT_OPENING, 11, 4, ascii "path", ascii ""),
  (sax_type.SAX_ATTRIBUTE, 11, 9, ascii "stroke", ascii "#fffc11"),
  (sax_type.SAX_ATTRIBUTE, 11, 26, ascii "fill", ascii "none"),
  (sax_type.SAX_ATTRIBUTE, 11, 38, ascii "stroke-width", ascii "0.2"),
  (sax_type.SAX_ATTRIBUTE, 11, 57, ascii "stroke-dasharray", ascii "1 1"),
  (sax_type.SAX_ATTRIBUTE, 12, 9, ascii "d", ascii "M  40.6  26.9 L  45.9  10.5"),
  (sax_type.SAX_ELEMENT_CLOSING, 11, 4, ascii "path", ascii ""),
  (sax_type.SAX_ELEMENT_OPENING, 13, 4, ascii "path", ascii ""),
  (sax_type.SAX_ATTRIBUTE, 13, 9, ascii "stroke", ascii "#fffc11"),
  (sax_type.SAX_ATTRIBUTE, 13, 26, ascii "fill", ascii "none"),
  (sax_type.SAX_ATTRIBUTE, 13, 38, ascii "stroke-width", ascii "0.2"),
  (sax_type.SAX_ATTRIBUTE, 14, 9, ascii "d", ascii "M  45.9  10.5 L  45.9  10.5 L  45.6  10.7 L  45.2  10.9\n           L  44.9  11.1 L  44.3  11.3 L  43.3  11.9 L  41.6  12.7\n           L  43.3  11.2 L  45.4   9.9 L  47.7   8.4 L  49.4   7.4"),
  (sax_type.SAX_ELEMENT_CLOSING, 13, 4, ascii "path", ascii ""),
  (sax_type.SAX_ELEMENT_OPENING, 17, 4, ascii "g", ascii ""),
  (sax_type.SAX_ELEMENT_OPENING, 18, 6, ascii "path", ascii ""),
  (sax_type.SAX_ATTRIBUTE, 18, 11, ascii "stroke", ascii "#b5dc10"),
  (sax_type.SAX_ATTRIBUTE, 18, 28, ascii "fill", ascii "none"),
  (sax_type.SAX_ATTRIBUTE, 18, 40, ascii "stroke-width", ascii "0.2"),
  (sax_type.SAX_ATTRIBUTE, 18, 59, ascii "stroke-dasharray", ascii "1 1"),
  (sax_type.SAX_ATTRIBUTE, 19, 11, ascii "d", ascii "M  42.3   8.3 L  29.8  42.9"),
  (sax_type.SAX_ELEMENT_CLOSING, 18, 6, ascii "path", ascii ""),
  (sax_type.SAX_ELEMENT_OPENING, 20, 6, ascii "path", ascii ""),
  (sax_type.SAX_ATTRIBUTE, 20, 11, ascii "stroke", ascii "#b5dc10"),
  (sax_type.SAX_ATTRIBUTE, 20, 28, ascii "fill", ascii "none"),
  (sax_type.SAX_ATTRIBUTE, 20, 40, ascii "stroke-width", ascii "0.2"),
  (sax_type.SAX_ATTRIBUTE, 21, 11, ascii "d", ascii "M  29.8  42.9 L  29.8  42.9 L  29.9  42.4 L  29.9  42.1\n             L  30.0  41.6 L  29.4  41.2 L  28.8  39.8 L  28.8  37.9"),
  (sax_type.SAX_ELEMENT_CLOSING, 20, 6, ascii "path", ascii ""),
  (sax_type.SAX_ELEMENT_CLOSING, 23, 5, ascii "g", ascii ""),
  (sax_type.SAX_ELEMENT_OPENING, 24, 4, ascii "path", ascii ""),
  (sax_type.SAX_ATTRIBUTE, 24, 9, ascii "stroke", ascii "#b5dc10"),
  (sax_type.SAX_ATTRIBUTE, 24, 26, ascii "fill", ascii "none"),
  (sax_type.SAX_ATTRIBUTE, 24, 38, ascii "stroke-width", ascii "0.2"),
  (sax_type.SAX_ATTRIBUTE, 24, 57, ascii "stroke-dasharray", ascii "1 1"),
  (sax_type.SAX_ATTRIBUTE, 25, 9, ascii "d", ascii "M  39.4  36.8 L  40.6  27.3"),
  (sax_type.SAX_ELEMENT_CLOSING, 24, 4, ascii "path", ascii ""),
  (sax_type.SAX_ELEMENT_CLOSING, 26, 3, ascii "svg", ascii "")]

/-- The events of the run of sax_parse_text on the text of the test with the recording
callbacks. -/
def fixture_events : List sax_event := (sax_events fixture_xml).1

/-- The element token of event `i` of the run on the text of the test. -/
def fixture_element (i : Nat) : sax_token :=
  (fixture_events.getD i (sax_event.error ⟨0, 0, 0, 0, []⟩ "")).token

/-- The run of sax_parse_attributes with the recording callbacks. -/
def sax_attribute_events (element_token : sax_token) : List sax_event × Bool :=
  sax_parse_attributes element_token (some record_attribute) (some record_error) []

/-- The run of sax_parse_children with the recording callbacks. -/
def sax_children_events (element_token : sax_token) : List sax_event × Bool :=
  sax_parse_children element_token (some record_opening) (some record_closing)
    (some record_attribute) (some record_error) []

/-- The run of sax_parse_siblings with the recording callbacks. -/
def sax_sibling_events (element_token : sax_token) : List sax_event × Bool :=
  sax_parse_siblings element_token (some record_opening) (some record_closing)
    (some record_attribute) (some record_error) []

/-- The events of a list up to the closing event of the element that is open at its
start, which is left out: `depth` counts the elements opened since and not yet
closed. The list is taken whole when that closing event is missing. -/
def until_close : Nat → List sax_event → List sax_event
  | _, [] => []
  | depth, sax_event.opening e :: rest => sax_event.opening e :: until_close (depth + 1) rest
  | 0, sax_event.closing _ :: _ => []
  | depth + 1, sax_event.closing e :: rest => sax_event.closing e :: until_close depth rest
  | depth, sax_event.attr a v :: rest => sax_event.attr a v :: until_close depth rest
  | depth, sax_event.error e m :: rest => sax_event.error e m :: until_close depth rest

/-- The events of a list after the closing event of the element that is open at its
start; none when that closing event is missing. -/
def after_close : Nat → List sax_event → List sax_event
  | _, [] => []
  | depth, sax_event.opening _ :: rest => after_close (depth + 1) rest
  | 0, sax_event.closing _ :: rest => rest
  | depth + 1, sax_event.closing _ :: rest => after_close depth rest
  | depth, sax_event.attr _ _ :: rest => after_close depth rest
  | depth, sax_event.error _ _ :: rest => after_close depth rest

/-- The row of the character at `index` of a text, counted from 1: one more than the
number of line feeds before it. -/
def row_at (text : List Byte) (index : Nat) : Nat :=
  1 + ((text.take index).filter (fun b => decide (b = 10))).length

/-- The column of the character at `index` of a text, counted from 1: one more than the
number of characters between the last line feed before it and itself. -/
def column_at (text : List Byte) (index : Nat) : Nat :=
  1 + ((text.take index).reverse.takeWhile (fun b => decide (b ≠ 10))).length

/-- The token is at `index` of the text: its cursor is there, and its row and column are
those of that character. -/
def placed_in (text : List Byte) (t : sax_token) : Prop :=
  t.index ≤ text.length ∧ t.cursor = text.drop t.index ∧ t.row = row_at text t.index ∧
    t.column = column_at text t.index

/-- The token without its length. -/
def Sax.sax_token.place (t : sax_token) : sax_token := { t with length := 0 }

/-- The effect on the state of the callbacks of a sequence of events: each event calls
its callback when there is one, and the flags are dropped. -/
def deliver {α : Type} (element_opening_cb : Option (sax_element_callback α))
    (element_closing_cb : Option (sax_element_callback α))
    (attribute_cb : Option (sax_attribute_callback α))
    (error_cb : Option (sax_error_callback α)) : List sax_event → α → α
  | [], arg => arg
  | sax_event.opening e :: rest, arg =>
    deliver element_opening_cb element_closing_cb attribute_cb error_cb rest
      (match element_opening_cb with
        | some cb => (cb e arg).1
        | none => arg)
  | sax_event.closing e :: rest, arg =>
    deliver element_opening_cb element_closing_cb attribute_cb error_cb rest
      (match element_closing_cb with
        | some cb => (cb e arg).1
        | none => arg)
  | sax_event.attr a v :: rest, arg =>
    deliver element_opening_cb element_closing_cb attribute_cb error_cb rest
      (match attribute_cb with
        | some cb => (cb a v arg).1
        | none => arg)
  | sax_event.error e m :: rest, arg =>
    deliver element_opening_cb element_closing_cb attribute_cb error_cb rest
      (match error_cb with
        | some cb => cb e m arg
        | none => arg)

/-- The element callback, when there is one, returns true on every call. -/
def element_accepts {α : Type} (cb : Option (sax_element_callback α)) : Prop :=
  ∀ f, cb = some f → ∀ e arg, (f e arg).2 = true

/-- The attribute callback, when there is one, returns true on every call. -/
def attribute_accepts {α : Type} (cb : Option (sax_attribute_callback α)) : Prop :=
  ∀ f, cb = some f → ∀ a v arg, (f a v arg).2 = true

/-- The function strcmp of the C library on a string, given by its characters, and a
buffer: the difference of the first characters that differ, read as unsigned char, and 0
when both end together. The C standard fixes the sign of the result only. -/
def strcmp : List Byte → List Byte → Int
  | [], b => 0 - ((b.getD 0 0).val : Int)
  | c :: a, b =>
    if c ≠ b.getD 0 0 then (c.val : Int) - (b.getD 0 0).val
    else if c = 0 then 0
    else strcmp a b.tail

/-- A token of three characters in a longer buffer. -/
def sample_token : sax_token :=
  { row := 1, column := 2, index := 1, length := 3, cursor := ascii "svg width" }

/-! ## Runs of the parser with the recording callbacks -/

/-- The run of parse_attribute with the recording callbacks, from the empty log. -/
def attribute_run (t : sax_token) : parsed (List sax_event) :=
  parse_attribute t (some record_attribute) (some record_error) []

/-- The run of the loop of parse_attribute_list with the recording callbacks, from the
empty log. -/
def attribute_list_run (fuel : Nat) (t : sax_token) : parsed (List sax_event) :=
  parse_attribute_list_loop (some record_attribute) (some record_error) fuel t []

/-- The run of parse_element with the recording callbacks, from the empty log. -/
def element_run (t : sax_token) (level : Int) : parsed_element (List sax_event) :=
  parse_element t level (some record_opening) (some record_closing) (some record_attribute)
    (some record_error) []

/-- The run of the loop of parse_children with the recording callbacks, from the empty
log. -/
def children_run (fuel : Nat) (t : sax_token) (level element_count : Int) :
    parsed_element (List sax_event) :=
  parse_children_loop (some record_opening) (some record_closing) (some record_attribute)
    (some record_error) fuel t level element_count []

/-- The run of parse_element_closing with the recording callbacks, from the empty
log. -/
def closing_run (t : sax_token) (level : Int) : parsed_element (List sax_event) :=
  parse_element_closing t level (some record_closing) (some record_error) []

/-- The run of parse_element_opening with the recording callbacks, from the empty
log. -/
def opening_run (t : sax_token) (level : Int) : parsed_element (List sax_event) :=
  parse_element_opening t level (some record_opening) (some record_closing)
    (some record_attribute) (some record_error) []

/-- The run of the attribute loop that parse_element_opening makes after the name, on
the recording callbacks. -/
def opening_attributes (t : sax_token) : parsed (List sax_event) :=
  attribute_list_run ((parse_name t).2.cursor.length + 1) (parse_name t).2

/-- The outcome of parse_element_opening on the recording callbacks at a level that is
not negative, from the name and the run of the attribute loop: the opening event, the
attribute events, on `/` the closing event of the same name, and an error event
unless `>` follows. -/
def opening_outcome (name : sax_token) (run : parsed (List sax_event)) (level : Int) :
    parsed_element (List sax_event) :=
  if run.valid = false then ⟨false, run.c, level + 1, sax_event.opening name :: run.arg⟩
  else if run.c.cursor.getD 0 0 = 47 then
    if (next_char run.c).cursor.getD 0 0 ≠ 62 then
      ⟨false, next_char run.c, level,
        sax_event.opening name :: (run.arg ++
          ((if 0 < level + 1 then [sax_event.closing name] else []) ++
            [sax_event.error (next_char run.c) "Expected \x27>\x27"]))⟩
    else
      ⟨true, next_char (next_char run.c), level,
        sax_event.opening name :: (run.arg ++
          (if 0 < level + 1 then [sax_event.closing name] else []))⟩
  else if run.c.cursor.getD 0 0 ≠ 62 then
    ⟨false, run.c, level + 1,
      sax_event.opening name :: (run.arg ++
        [sax_event.error run.c "Expected \x27>\x27"])⟩
  else ⟨true, next_char run.c, level + 1, sax_event.opening name :: run.arg⟩

/-- What a tag that parses gives the callbacks: nothing for a comment, a declaration or
a processing instruction, the name of a closing tag, and the name and the attribute
events of an opening tag, which ends with `>` or, self-closing, with `/>`. -/
inductive sax_tag where
  | other
  | closing (name : sax_token)
  | opening (name : sax_token) (attrs : List sax_event)
  | self_closing (name : sax_token) (attrs : List sax_event)

/-- The events of a tag at a level: the closing event of a closing tag is delivered only
above level 0. -/
def sax_tag.events : sax_tag → Int → List sax_event
  | sax_tag.other, _ => []
  | sax_tag.closing name, level => if 0 < level then [sax_event.closing name] else []
  | sax_tag.opening name attrs, _ => sax_event.opening name :: attrs
  | sax_tag.self_closing name attrs, _ =>
    sax_event.opening name :: (attrs ++ [sax_event.closing name])

/-- The level after a tag. -/
def sax_tag.next_level : sax_tag → Int → Int
  | sax_tag.other, level => level
  | sax_tag.closing _, level => level - 1
  | sax_tag.opening _ _, level => level + 1
  | sax_tag.self_closing _ _, level => level

/-- What re-entry on the element token of an opening tag gives: sax_parse_attributes
delivers the attribute events of the tag, and the first call of sax_parse_children and
sax_parse_siblings stops at `c`, after the tag, with the flag `closed` set for a
self-closing tag. A tag that opens no element has no element token. -/
def sax_tag.reentry : sax_tag → sax_token → Prop
  | sax_tag.other, _ => True
  | sax_tag.closing _, _ => True
  | sax_tag.opening name attrs, c =>
    (∀ ev ∈ attrs, ev.is_attribute = true) ∧ sax_attribute_events name = (attrs, true) ∧
      parse_own_element name = ⟨true, c, 1, false⟩
  | sax_tag.self_closing name attrs, c =>
    (∀ ev ∈ attrs, ev.is_attribute = true) ∧ sax_attribute_events name = (attrs, true) ∧
      parse_own_element name = ⟨true, c, 0, true⟩

/-- What follows a run of the loop of parse_children that starts `k + 1` levels below
another one on the same text and stops at level `level` and token `c`: either it has
stopped on the closing tag of the element that was open at its start, and the events of
the other run after that closing event are those of a run from `c` at level `k`; or it
has reached the end of the text, and the other run has no such closing event. -/
def shift_rest (level : Int) (c : sax_token) (events : List sax_event) (r k : Nat) : Prop :=
  (level = -1 ∧
    ∃ (fuel : Nat) (element_count : Int), c.cursor.length < fuel ∧ 0 ≤ element_count ∧
      (children_run fuel c k element_count).valid = true ∧
      after_close r events = (children_run fuel c k element_count).arg) ∨
  (0 ≤ level ∧ c.cursor.getD 0 0 = 0 ∧ after_close r events = [])

/-- Re-entry on the element token `e` of an opening event that `post` follows in the
log of a parse: sax_parse_attributes delivers the attribute events that follow at once,
sax_parse_children the events after them up to the closing event of the element, and
sax_parse_siblings the events after that closing event up to the closing event of the
parent; the three calls succeed. -/
def reentry_at (e : sax_token) (post : List sax_event) : Prop :=
  sax_attribute_events e = (post.takeWhile sax_event.is_attribute, true) ∧
  sax_children_events e = (until_close 0 (post.dropWhile sax_event.is_attribute), true) ∧
  sax_sibling_events e =
    (until_close 0 (after_close 0 (post.dropWhile sax_event.is_attribute)), true)

end Libpes
namespace Libpes
open pec_stitch_type PecEncoder PecDecoder Pec

/-! ## Definitions for the stitch stream of the PEC encoder -/

/-- The stitch is a Stop. -/
def is_stop {F : Type} (s : pec_stitch F) : Bool := decide (s.type = PEC_STITCH_STOP)

/-- A PEC encoder state used to evaluate the definitions: three threads, and stitches
with two Stops, on the fixed-point instance. -/
def stop_pec_encoder : pec_encoder Int :=
  { bounds := { min_x := 0, min_y := 0, max_x := 40, max_y := 15, valid := true }
    stitch_capacity := 100
    stitch_list := [⟨0, 0, PEC_STITCH_NORMAL⟩, ⟨10, 10, PEC_STITCH_NORMAL⟩,
      ⟨0, 0, PEC_STITCH_STOP⟩, ⟨20, 5, PEC_STITCH_JUMP⟩, ⟨30, 15, PEC_STITCH_NORMAL⟩,
      ⟨0, 0, PEC_STITCH_STOP⟩, ⟨40, 0, PEC_STITCH_JUMP⟩]
    palette := [1, 2, 3] }

/-! ## The companion PEC encoder of the PES encoder -/

/-- The number of stitches of the PEC encoder that are no Stop. -/
def nonstop_count {F : Type} (e : pec_encoder F) : Nat :=
  e.stitch_list.countP (fun s => !is_stop s)

/-- The number of changes of thread_index in a stitch list that `prev`, the thread index
of the stitch before, precedes. -/
def runs_after {F : Type} : Int → List (PesEncoder.pes_stitch F) → Nat
  | _, [] => 0
  | prev, s :: rest => (if s.thread_index ≠ prev then 1 else 0) + runs_after s.thread_index rest

/-- The number of thread runs of a stitch list: the maximal runs of consecutive stitches
with equal thread_index. -/
def thread_runs {F : Type} : List (PesEncoder.pes_stitch F) → Nat
  | [] => 0
  | s :: rest => 1 + runs_after s.thread_index rest

/-- The states of the PES encoder that are reached from pes_encoder_init by calls of the
append operations and of pes_encode_transform in which every pes_append_stitch and
pes_append_jump_stitch returned success. -/
inductive pes_appended {F : Type} (ops : FloatOps F) : PesEncoder.pes_encoder F → Prop where
  | init : pes_appended ops (PesEncoder.pes_encoder_init ops)
  | append_thread (e : PesEncoder.pes_encoder F) (thread : pec_thread) :
      pes_appended ops e → pes_appended ops (PesEncoder.pes_append_thread e thread).1
  | append_stitch (e : PesEncoder.pes_encoder F) (alloc : PesEncoder.alloc_outcomes)
      (thread_index : Int) (x y : F) :
      pes_appended ops e →
      (PesEncoder.pes_append_stitch ops alloc e thread_index x y).2 = true →
      pes_appended ops (PesEncoder.pes_append_stitch ops alloc e thread_index x y).1
  | append_jump_stitch (e : PesEncoder.pes_encoder F) (alloc : PesEncoder.alloc_outcomes)
      (thread_index : Int) (x y : F) :
      pes_appended ops e →
      (PesEncoder.pes_append_jump_stitch ops alloc e thread_index x y).2 = true →
      pes_appended ops (PesEncoder.pes_append_jump_stitch ops alloc e thread_index x y).1
  | encode_transform (e : PesEncoder.pes_encoder F) (t : PesEncoder.pes_transform F) :
      pes_appended ops e → pes_appended ops (PesEncoder.pes_encode_transform e t)

/-- A PES encoder state on the fixed-point instance: one thread, and a pes_append_stitch
that fails because the stitch list of the companion PEC encoder cannot grow. -/
def failed_append_encoder : PesEncoder.pes_encoder Int :=
  (PesEncoder.pes_append_stitch gridOps ⟨true, true, false⟩
    (PesEncoder.pes_append_thread (PesEncoder.pes_encoder_init gridOps)
      (pec_palette_thread 5)).1 0 0 0).1

end Libpes
namespace Libpes
open Sax

/-! ## The depth of the events of the XML parser -/

/-- The number of elements that are open after a list of events, from `depth` open
elements: an opening event adds one and a closing event takes one away. -/
def depth_after : Nat → List sax_event → Nat
  | depth, [] => depth
  | depth, sax_event.opening _ :: rest => depth_after (depth + 1) rest
  | depth, sax_event.closing _ :: rest => depth_after (depth - 1) rest
  | depth, sax_event.attr _ _ :: rest => depth_after depth rest
  | depth, sax_event.error _ _ :: rest => depth_after depth rest

/-- Every closing event of the list closes an element that is open: from `depth` open
elements, a closing event comes only while an element is open. -/
def never_below : Nat → List sax_event → Prop
  | _, [] => True
  | depth, sax_event.opening _ :: rest => never_below (depth + 1) rest
  | depth, sax_event.closing _ :: rest => 0 < depth ∧ never_below (depth - 1) rest
  | depth, sax_event.attr _ _ :: rest => never_below depth rest
  | depth, sax_event.error _ _ :: rest => never_below depth rest

/-- The event is an element opening event. -/
def sax_event.is_opening : sax_event → Bool
  | sax_event.opening _ => true
  | _ => false

/-- The event is an element closing event. -/
def sax_event.is_closing : sax_event → Bool
  | sax_event.closing _ => true
  | _ => false

/-! ## The places of the events of the XML parser in the text -/

/-- The token stands at its index in the text, with the row and the column, counted
from 1, of the character there, and its length is the number of characters from there
on that satisfy `p`: the whole name for `valid_name_char`, the whole value for the
characters that are not the quote. -/
def token_at (text : List Byte) (p : Byte → Bool) (t : sax_token) : Bool :=
  decide (t.index ≤ text.length) && decide (t.cursor = text.drop t.index) &&
    decide (t.row = row_at text t.index) && decide (t.column = column_at text t.index) &&
    decide (t.length = ((text.drop t.index).takeWhile p).length)

/-- The characters of an attribute value whose quote stands right before `index`: all
but that quote and the NUL. -/
def value_char (text : List Byte) (index : Nat) : Byte → Bool :=
  fun c => decide (c ≠ 0) && decide (c ≠ text.getD (index - 1) 0)

/-- The events are in the order of the document, from the index `lo` that the events
before them have reached and the token `last` of the last opening event, when no closing
event has come since. An opening event has the name that starts right after a `<` at
or after `lo`; an attribute event has a name at or after `lo`, then `=`, a quote and the
value; a closing event has either the very token of `last`, for an element that closes
itself, or the name that starts right after `</` at or after `lo`; error events are
passed over. Each name and value has the row and the column of its first character. The
result is the index and the opening token after the events, and `none` when an event is
out of place. -/
def document_order (text : List Byte) :
    Nat → Option sax_token → List sax_event → Option (Nat × Option sax_token)
  | lo, last, [] => some (lo, last)
  | lo, _, sax_event.opening e :: rest =>
    if lo < e.index ∧ text.getD (e.index - 1) 0 = 60 ∧
        token_at text valid_name_char e = true then
      document_order text (e.index + e.length) (some e) rest
    else none
  | lo, last, sax_event.attr a v :: rest =>
    if lo ≤ a.index ∧ token_at text valid_name_char a = true ∧
        text.getD (a.index + a.length) 0 = 61 ∧ v.index = a.index + a.length + 2 ∧
        token_at text (value_char text v.index) v = true then
      document_order text (v.index + v.length + 1) last rest
    else none
  | lo, last, sax_event.closing e :: rest =>
    if last = some e then document_order text lo none rest
    else if lo + 2 ≤ e.index ∧ text.getD (e.index - 2) 0 = 60 ∧
        text.getD (e.index - 1) 0 = 47 ∧ token_at text valid_name_char e = true then
      document_order text (e.index + e.length) none rest
    else none
  | lo, last, sax_event.error _ _ :: rest => document_order text lo last rest

/-- The run of sax_parse_text without callbacks, on no state: the returned flag. -/
def sax_parse_quiet (text : List Byte) : Bool :=
  (sax_parse_text text (none : Option (sax_element_callback Unit)) none none none ()).2

end Libpes
namespace Libpes

/-! ## svg-emb-decoder.c: the thread table -/

namespace SvgEmbDecoder
open Sax Pec

/-- State of the SVG-emb decoder (struct svg_emb_decoder). The field `thread_list` holds
the entries that have been written, entry `i` at index `i`; the array of the source has
PES_MAX_THREADS = 256 entries, so an entry of the list at index 256 or above is a write
beyond the array. The field `transform` stands for `affine_transform`: it holds the text
from which sscanf has stored the six entries of the matrix, and `none` while the matrix
is the one that svg_emb_decoder_init sets. -/
structure svg_emb_decoder where
  text : List Byte
  thread_count : Int
  thread_list : List pec_thread
  transform : Option (List Byte) := none

/-- The state of the pass that collects the threads (struct svg_emb_thread_state), with
the state behind `arg` of the caller. -/
structure svg_emb_thread_state (α : Type) where
  decoder : svg_emb_decoder
  path_element : Bool
  error_cb : Option (sax_error_callback α)
  arg : α

/-- What the pass takes from outside the thread table: `sscanf_matrix` tells whether
`sscanf(value.cursor, "matrix(%f %f %f %f %f %f)", ...)` returns 6, and `g_error` is the
error callback of the attribute walk on a `g` element, for which the source passes
stitch_error_cb with the thread state as argument. -/
structure GOps (α : Type) where
  sscanf_matrix : List Byte → Bool
  g_error : sax_error_callback (svg_emb_thread_state α)

/-- Source: thread_error_cb. -/
def thread_error_cb {α : Type} : sax_error_callback (svg_emb_thread_state α) :=
  fun error message state =>
    match state.error_cb with
    | some cb => { state with arg := cb error message state.arg }
    | none => state

/-- Source: ishex. -/
def ishex (c : Byte) : Bool :=
  decide ((48 ≤ c.val ∧ c.val ≤ 57) ∨ (97 ≤ c.val ∧ c.val ≤ 102) ∨
    (65 ≤ c.val ∧ c.val ≤ 70))

/-- Source: hex. -/
def hex (c : Byte) : Nat :=
  if 48 ≤ c.val ∧ c.val ≤ 57 then c.val - 48
  else if 97 ≤ c.val ∧ c.val ≤ 102 then c.val - 97 + 0xA
  else if 65 ≤ c.val ∧ c.val ≤ 70 then c.val - 65 + 0xA
  else 0

/-- Source: parse_rgb; `none` stands for `return false`. -/
def parse_rgb (color : sax_token) : Option pec_rgb :=
  if color.length = 7 ∧ color.cursor.getD 0 0 = 35 ∧
      ishex (color.cursor.getD 1 0) = true ∧ ishex (color.cursor.getD 2 0) = true ∧
      ishex (color.cursor.getD 3 0) = true ∧ ishex (color.cursor.getD 4 0) = true ∧
      ishex (color.cursor.getD 5 0) = true ∧ ishex (color.cursor.getD 6 0) = true then
    some
      { r := (((hex (color.cursor.getD 1 0)) <<< 4 ||| hex (color.cursor.getD 2 0) : Nat) : Int)
        g := (((hex (color.cursor.getD 3 0)) <<< 4 ||| hex (color.cursor.getD 4 0) : Nat) : Int)
        b := (((hex (color.cursor.getD 5 0)) <<< 4 ||| hex (color.cursor.getD 6 0) : Nat) : Int) }
  else none

/-- Source: the loop of find_thread_index, from index `i` on over the entries left. -/
def find_thread_loop (rgb : pec_rgb) : Int → List pec_thread → Int
  | _, [] => -1
  | i, t :: rest =>
    if t.rgb.r = rgb.r ∧ t.rgb.g = rgb.g ∧ t.rgb.b = rgb.b then i
    else find_thread_loop rgb (i + 1) rest

/-- Source: find_thread_index. -/
def find_thread_index (decoder : svg_emb_decoder) (rgb : pec_rgb) : Int :=
  find_thread_loop rgb 0 (decoder.thread_list.take decoder.thread_count.toNat)

/-- Source: parse_color. The new entry is written at index `thread_count`, with no test
of the index against PES_MAX_THREADS. -/
def parse_color {α : Type} (color : sax_token) (state : svg_emb_thread_state α) :
    svg_emb_thread_state α × Bool :=
  match parse_rgb color with
  | none => (thread_error_cb color "Invalid color not in #RRGGBB hex format" state, false)
  | some rgb =>
    if find_thread_index state.decoder rgb = -1 then
      let p := pec_palette_thread (pec_palette_index_by_rgb rgb)
      let c : pec_thread := { p with rgb := rgb, index := state.decoder.thread_count }
      ({ state with
          decoder :=
            { state.decoder with
                thread_list :=
                  state.decoder.thread_list.take state.decoder.thread_count.toNat ++ [c]
                thread_count := state.decoder.thread_count + 1 } }, true)
    else (state, true)

/-- Source: g_cb; the matrix that sscanf stores is kept as the text it is read from.
When sscanf returns less than 6 the callback returns false and the decoder is freed. -/
def g_cb {α : Type} (ops : GOps α) : sax_attribute_callback (svg_emb_thread_state α) :=
  fun attribute_name value state =>
    if sax_strcmp attribute_name (ascii "transform") = 0 then
      if ops.sscanf_matrix value.cursor = false then (state, false)
      else
        ({ state with decoder := { state.decoder with transform := some value.cursor } },
          true)
    else (state, true)

/-- Source: thread_element_opening_cb. -/
def thread_element_opening_cb {α : Type} (ops : GOps α) :
    sax_element_callback (svg_emb_thread_state α) :=
  fun element state =>
    let state1 : svg_emb_thread_state α :=
      { state with path_element := decide (sax_strcmp element (ascii "path") = 0) }
    if sax_strcmp element (ascii "g") = 0 then
      let r := sax_parse_attributes element (some (g_cb ops)) (some ops.g_error) state1
      if r.2 = false then (r.1, false) else (r.1, true)
    else (state1, true)

/-- Source: thread_attribute_cb. -/
def thread_attribute_cb {α : Type} : sax_attribute_callback (svg_emb_thread_state α) :=
  fun attribute_name value state =>
    if state.path_element = true ∧ sax_strcmp attribute_name (ascii "stroke") = 0 then
      parse_color value state
    else (state, true)

/-- Source: init_threads. -/
def init_threads {α : Type} (ops : GOps α) (decoder : svg_emb_decoder)
    (error_cb : Option (sax_error_callback α)) (arg : α) : svg_emb_thread_state α × Bool :=
  sax_parse_text decoder.text (some (thread_element_opening_cb ops)) none
    (some thread_attribute_cb) (some thread_error_cb)
    { decoder := decoder, path_element := false, error_cb := error_cb, arg := arg }

/-- Source: svg_emb_decoder_init; `none` is the null pointer, and the allocation is taken
to succeed. -/
def svg_emb_decoder_init {α : Type} (ops : GOps α) (text : List Byte)
    (error_cb : Option (sax_error_callback α)) (arg : α) : Option svg_emb_decoder :=
  let r := init_threads ops { text := text, thread_count := 0, thread_list := [] }
    error_cb arg
  if r.2 = false then none else some r.1.decoder

/-- Source: svg_emb_thread_count. -/
def svg_emb_thread_count (decoder : svg_emb_decoder) : Int := decoder.thread_count

end SvgEmbDecoder

/-- A text with 257 `path` elements, each with a stroke colour of its own: `#000000`,
`#000001`, ..., `#000100`. -/
def many_colours : List Byte :=
  (List.range 257).flatMap (fun i =>
    ascii "<path stroke=\x27#00" ++ hex02 (i / 256) ++ hex02 (i % 256) ++
      ascii "\x27/>")

/-- The outside of the thread pass for a caller without state: sscanf finds its six
numbers, and the error callback of the attribute walk leaves the state as it is. -/
def unit_g_ops : SvgEmbDecoder.GOps Unit :=
  { sscanf_matrix := fun _ => true, g_error := fun _ _ state => state }

/-- The element token that sax_parse_text hands to the opening callback for a `path`
element: the four characters of the name. The callbacks read no more of the cursor of a
token than its `length` characters. -/
def path_name : Sax.sax_token :=
  { row := 1, column := 2, index := 1, length := 4, cursor := ascii "path" }

/-- The token of the attribute name `stroke`. -/
def stroke_name : Sax.sax_token :=
  { row := 1, column := 7, index := 6, length := 6, cursor := ascii "stroke" }

/-- The token of the value of the stroke attribute of element `i` of `many_colours`: the
seven characters of its colour. -/
def stroke_value (i : Nat) : Sax.sax_token :=
  { row := 1, column := 14, index := 13, length := 7,
    cursor := ascii "#00" ++ hex02 (i / 256) ++ hex02 (i % 256) }

/-- The calls that sax_parse_text makes to the callbacks of init_threads for the `path`
elements of `many_colours` with the numbers of the list, one after the other: the
opening callback with the element name, then the attribute callback with the stroke
attribute; the calls end with the first one that returns false. -/
def path_calls : List Nat → SvgEmbDecoder.svg_emb_thread_state Unit →
    SvgEmbDecoder.svg_emb_thread_state Unit × Bool
  | [], state => (state, true)
  | i :: rest, state =>
    let opened := SvgEmbDecoder.thread_element_opening_cb unit_g_ops path_name state
    if opened.2 = false then opened
    else
      let stroked := SvgEmbDecoder.thread_attribute_cb stroke_name (stroke_value i) opened.1
      if stroked.2 = false then stroked else path_calls rest stroked.1

/-- The state in which init_threads starts the parse of a text. -/
def thread_start (text : List Byte) : SvgEmbDecoder.svg_emb_thread_state Unit :=
  { decoder := { text := text, thread_count := 0, thread_list := [] },
    path_element := false, error_cb := none, arg := () }

/-- What is compared of a thread table: the count, and the index and the colour of each
entry. -/
def thread_table (decoder : SvgEmbDecoder.svg_emb_decoder) :
    Int × List (Int × Int × Int × Int) :=
  (decoder.thread_count,
    decoder.thread_list.map (fun t => (t.index, t.rgb.r, t.rgb.g, t.rgb.b)))

/-- The index and the colour of the thread of element `j` of `many_colours`. -/
def colour_entry (j : Nat) : Int × Int × Int × Int :=
  ((j : Int), 0, ((j / 256 : Nat) : Int), ((j % 256 : Nat) : Int))

/-- A state of the thread pass whose table is full: 256 threads, with the colours
`#000000` to `#0000ff`. -/
def full_table_state : SvgEmbDecoder.svg_emb_thread_state Unit :=
  { decoder :=
      { text := [], thread_count := 256,
        thread_list := (List.range 256).map (fun j =>
          { Pec.pec_undefined_thread with index := (j : Int), rgb := ⟨0, 0, (j : Int)⟩ }) },
    path_element := true, error_cb := none, arg := () }

end Libpes
namespace Libpes

/-! ## svg-emb-decoder.c: the stitches -/

namespace SvgEmbDecoder
open Sax Pec

/-- The conversions of text to `float` that svg-emb-decoder.c takes from the C library;
the embedding is parametric in them. -/
structure TextOps (F : Type) where
  /-- The call `strtof(s, &e)` on the characters from `s` on: the value and the number
  `e - s` of characters that the conversion takes, which is 0 when there is none. -/
  strtof : List Byte → F × Nat
  /-- The six floats that `sscanf(s, "matrix(%f %f %f %f %f %f)", ...)` stores when it
  returns 6. -/
  matrix : List Byte → PesEncoder.pes_transform F

/-- The type svg_emb_block_callback, with the state behind `arg`. -/
abbrev svg_emb_block_callback (σ : Type) := σ → Int → pec_thread → Int → σ × Bool

/-- The type svg_emb_stitch_callback, with the state behind `arg`. -/
abbrev svg_emb_stitch_callback (F σ : Type) := σ → Int → F → F → σ × Bool

/-- The type path_d_callback, with the state behind `arg`. -/
abbrev path_d_callback (F τ : Type) := τ → F → F → τ × Bool

/-- The state of the pass over the stitches (struct svg_emb_stitch_state), with the state
behind `arg` of the caller. -/
structure svg_emb_stitch_state (F σ : Type) where
  decoder : svg_emb_decoder
  path_element : Bool
  block_index : Int
  thread_index : Int
  stitch_count : Int
  stitch_index : Int
  block_cb : Option (svg_emb_block_callback σ)
  stitch_cb : Option (svg_emb_stitch_callback F σ)
  error_cb : Option (sax_error_callback σ)
  arg : σ

/-- Source: stitch_error_cb. -/
def stitch_error_cb {F σ : Type} : sax_error_callback (svg_emb_stitch_state F σ) :=
  fun error message state =>
    match state.error_cb with
    | some cb => { state with arg := cb error message state.arg }
    | none => state

/-- Source: the callback stitch_count of svg-emb-decoder.c; the state is the counter. -/
def stitch_count {F : Type} : path_d_callback F Int :=
  fun counter _ _ => (counter + 1, true)

/-- Source: internal_stitch_cb. -/
def internal_stitch_cb {F σ : Type} : path_d_callback F (svg_emb_stitch_state F σ) :=
  fun state x y =>
    let state1 := { state with stitch_index := state.stitch_index + 1 }
    match state1.stitch_cb with
    | some cb =>
      ({ state1 with arg := (cb state1.arg (state1.stitch_index - 1) x y).1 },
        (cb state1.arg (state1.stitch_index - 1) x y).2)
    | none => (state1, true)

/-- Source: parse_coordinate. The result is the float, the characters from the new `*s`
on, the number of characters taken, and the returned flag. -/
def parse_coordinate {F : Type} (txt : TextOps F) (s : List Byte) :
    F × List Byte × Nat × Bool :=
  ((txt.strtof s).1, s.drop (txt.strtof s).2, (txt.strtof s).2,
    decide ((txt.strtof s).2 ≠ 0))

/-- The loop `while (d < e && isspace(*d)) d++` of parse_d: `d` is given by the
characters from it on and `n` is `e - d`. -/
def skip_d_space : List Byte → Int → List Byte × Int
  | [], n => ([], n)
  | c :: rest, n =>
    if 0 < n ∧ isspace c = true then skip_d_space rest (n - 1) else (c :: rest, n)

/-- Source: the second loop of parse_d, with `d` given by the characters from it on and
`n = e - d`; strtof may read beyond `e`, which makes `n` negative. The characters
compared are `M` and `L`. Every turn takes at least one character of the `n` that are
left; `fuel` bounds the number of turns. -/
def parse_d_loop {F τ : Type} (txt : TextOps F) (d_cb : path_d_callback F τ) :
    Nat → List Byte → Int → τ → τ × Bool
  | 0, _, _, arg => (arg, false)
  | fuel + 1, d, n, arg =>
    if 0 < n ∧ d.getD 0 0 ≠ 0 then
      if d.getD 0 0 ≠ 77 ∧ d.getD 0 0 ≠ 76 then (arg, false)
      else
        let x := parse_coordinate txt d.tail
        if x.2.2.2 = false then (arg, false)
        else
          let y := parse_coordinate txt x.2.1
          if y.2.2.2 = false then (arg, false)
          else
            let n1 : Int := n - 1 - x.2.2.1 - y.2.2.1
            if n1 < 0 then (arg, false)
            else
              let r := d_cb arg x.1 y.1
              if r.2 = false then (r.1, false)
              else
                parse_d_loop txt d_cb fuel (skip_d_space y.2.1 n1).1 (skip_d_space y.2.1 n1).2
                  r.1
    else (arg, decide (n = 0))

/-- Source: parse_d. -/
def parse_d {F τ : Type} (txt : TextOps F) (d : List Byte) (length : Nat)
    (d_cb : path_d_callback F τ) (arg : τ) : τ × Bool :=
  parse_d_loop txt d_cb (length + 1) (skip_d_space d length).1 (skip_d_space d length).2 arg

/-- Source: svg_emb_thread. -/
def svg_emb_thread (decoder : svg_emb_decoder) (thread_index : Int) : pec_thread :=
  if 0 ≤ thread_index ∧ thread_index < decoder.thread_count then
    decoder.thread_list.getD thread_index.toNat pec_undefined_thread
  else pec_undefined_thread

/-- Source: path_cb. -/
def path_cb {F σ : Type} (txt : TextOps F) :
    sax_attribute_callback (svg_emb_stitch_state F σ) :=
  fun attribute_name value state =>
    if sax_strcmp attribute_name (ascii "d") = 0 then
      let r := parse_d txt value.cursor value.length stitch_count state.stitch_count
      if r.2 = false then
        (stitch_error_cb value "Malformed \"d\" attribute" { state with stitch_count := r.1 },
          false)
      else ({ state with stitch_count := r.1 }, true)
    else if sax_strcmp attribute_name (ascii "stroke") = 0 then
      match parse_rgb value with
      | none => (stitch_error_cb value "Invalid color not in #RRGGBB hex format" state, false)
      | some rgb => ({ state with thread_index := find_thread_index state.decoder rgb }, true)
    else (state, true)

/-- Source: stitch_element_opening_cb. -/
def stitch_element_opening_cb {F σ : Type} (txt : TextOps F) :
    sax_element_callback (svg_emb_stitch_state F σ) :=
  fun element state =>
    if sax_strcmp element (ascii "path") = 0 then
      let r := sax_parse_attributes element (some (path_cb txt)) (some stitch_error_cb)
        { state with path_element := true, thread_index := -1, stitch_count := 0,
                     stitch_index := 0 }
      if r.2 = false then (r.1, false)
      else if r.1.thread_index = -1 then
        (stitch_error_cb element "Missing \"stroke\" attribute" r.1, false)
      else
        match r.1.block_cb with
        | some cb =>
          ({ r.1 with
              block_index := r.1.block_index + 1
              arg := (cb r.1.arg r.1.block_index (svg_emb_thread r.1.decoder r.1.thread_index)
                r.1.stitch_count).1 },
            (cb r.1.arg r.1.block_index (svg_emb_thread r.1.decoder r.1.thread_index)
              r.1.stitch_count).2)
        | none => (r.1, true)
    else (state, true)

/-- Source: stitch_attribute_cb. -/
def stitch_attribute_cb {F σ : Type} (txt : TextOps F) :
    sax_attribute_callback (svg_emb_stitch_state F σ) :=
  fun attribute_name value state =>
    if state.path_element = true ∧ sax_strcmp attribute_name (ascii "d") = 0 then
      parse_d txt value.cursor value.length internal_stitch_cb state
    else (state, true)

/-- The state behind `arg` after svg_emb_decoder_init, which the error callback may have
changed. -/
def svg_emb_decoder_init_arg {α : Type} (ops : GOps α) (text : List Byte)
    (error_cb : Option (sax_error_callback α)) (arg : α) : α :=
  (init_threads ops { text := text, thread_count := 0, thread_list := [] } error_cb arg).1.arg

/-- Source: svg_emb_affine_transform; the matrix that svg_emb_decoder_init sets has 1.0f
at [0][0] and [1][1] and 0.0f elsewhere. -/
def svg_emb_affine_transform {F : Type} (ops : FloatOps F) (txt : TextOps F)
    (decoder : svg_emb_decoder) : PesEncoder.pes_transform F :=
  match decoder.transform with
  | none =>
    { m00 := ops.one, m01 := ops.zero, m10 := ops.zero, m11 := ops.one, m20 := ops.zero,
      m21 := ops.zero }
  | some s => txt.matrix s

/-- Source: svg_emb_stitch_foreach. The result is the state behind `arg` and the returned
flag. -/
def svg_emb_stitch_foreach {F σ : Type} (txt : TextOps F) (decoder : svg_emb_decoder)
    (block_cb : Option (svg_emb_block_callback σ))
    (stitch_cb : Option (svg_emb_stitch_callback F σ))
    (error_cb : Option (sax_error_callback σ)) (arg : σ) : σ × Bool :=
  let r := sax_parse_text decoder.text (some (stitch_element_opening_cb txt)) none
    (some (stitch_attribute_cb txt)) (some stitch_error_cb)
    { decoder := decoder, path_element := false, block_index := 0, thread_index := 0,
      stitch_count := 0, stitch_index := 0, block_cb := block_cb, stitch_cb := stitch_cb,
      error_cb := error_cb, arg := arg }
  (r.1.arg, r.2)

end SvgEmbDecoder

end Libpes
namespace Libpes

/-! ## pes-decoder.c: the affine transform -/

namespace PesDecoder
open PesEncoder

/-- Source: pes_affine_transform. A float that decode_f32lsb does not store stays the
0.0f of the initialiser. -/
def pes_affine_transform {F : Type} (ops : FloatOps F) (decoder : pes_decoder) :
    pes_transform F :=
  { m00 := (decode_f32lsb ops decoder (decoder.cembone_offset + 25)).getD ops.zero
    m01 := (decode_f32lsb ops decoder (decoder.cembone_offset + 29)).getD ops.zero
    m10 := (decode_f32lsb ops decoder (decoder.cembone_offset + 33)).getD ops.zero
    m11 := (decode_f32lsb ops decoder (decoder.cembone_offset + 37)).getD ops.zero
    m20 := ops.physical_translation
      ((decode_f32lsb ops decoder (decoder.cembone_offset + 41)).getD ops.zero)
    m21 := ops.physical_translation
      ((decode_f32lsb ops decoder (decoder.cembone_offset + 45)).getD ops.zero) }

end PesDecoder

/-! ## svg-emb-pes-transcoder.c -/

namespace SvgEmbPesTranscoder
open Sax Pec PesEncoder SvgEmbDecoder

/-- State of the transcoder (struct transcoder_state of svg-emb-pes-transcoder.c), with
the state behind `arg` of the caller. -/
structure transcoder_state (F σ : Type) where
  encoder : pes_encoder F
  thread : pec_thread
  jump : Bool
  error_cb : Option (sax_error_callback σ)
  arg : σ

/-- Source: block_cb of svg-emb-pes-transcoder.c. -/
def block_cb {F σ : Type} : svg_emb_block_callback (transcoder_state F σ) :=
  fun state block_index thread _ =>
    ({ state with thread := thread, jump := decide (block_index ≠ 0) }, true)

/-- Source: stitch_cb of svg-emb-pes-transcoder.c; `alloc` gives the outcomes of the
allocations of the append. -/
def stitch_cb {F σ : Type} (ops : FloatOps F) (alloc : alloc_outcomes) :
    svg_emb_stitch_callback F (transcoder_state F σ) :=
  fun state _ x y =>
    let r :=
      if state.jump = true then
        pes_append_jump_stitch ops alloc state.encoder state.thread.index x y
      else pes_append_stitch ops alloc state.encoder state.thread.index x y
    if r.2 = false then ({ state with encoder := r.1 }, false)
    else ({ state with encoder := r.1, jump := false }, true)

/-- Source: internal_error_cb. -/
def internal_error_cb {F σ : Type} : sax_error_callback (transcoder_state F σ) :=
  fun error message state =>
    match state.error_cb with
    | some cb => { state with arg := cb error message state.arg }
    | none => state

/-- Source: the loop of transcode_threads of svg-emb-pes-transcoder.c, with `n` threads
left from index `i` on. -/
def transcode_threads_loop {F σ : Type} (decoder : svg_emb_decoder) :
    Nat → Int → transcoder_state F σ → transcoder_state F σ × Bool
  | 0, _, state => (state, true)
  | n + 1, i, state =>
    let r := pes_append_thread state.encoder (svg_emb_thread decoder i)
    if r.2 = false then ({ state with encoder := r.1 }, false)
    else transcode_threads_loop decoder n (i + 1) { state with encoder := r.1 }

/-- Source: transcode_threads of svg-emb-pes-transcoder.c. -/
def transcode_threads {F σ : Type} (decoder : svg_emb_decoder)
    (state : transcoder_state F σ) : transcoder_state F σ × Bool :=
  transcode_threads_loop decoder (svg_emb_thread_count decoder).toNat 0 state

/-- Source: transcode_transform of svg-emb-pes-transcoder.c. -/
def transcode_transform {F σ : Type} (ops : FloatOps F) (txt : TextOps F)
    (decoder : svg_emb_decoder) (state : transcoder_state F σ) :
    transcoder_state F σ × Bool :=
  ({ state with
      encoder := pes_encode_transform state.encoder (svg_emb_affine_transform ops txt decoder) },
    true)

/-- Source: transcode_stitches of svg-emb-pes-transcoder.c. -/
def transcode_stitches {F σ : Type} (ops : FloatOps F) (txt : TextOps F)
    (alloc : alloc_outcomes) (decoder : svg_emb_decoder) (state : transcoder_state F σ) :
    transcoder_state F σ × Bool :=
  svg_emb_stitch_foreach txt decoder (some block_cb) (some (stitch_cb ops alloc))
    (some internal_error_cb) state

/-- Source: transcode of svg-emb-pes-transcoder.c. The allocations of the encoder and of
the decoder are taken to succeed; the encode callback gets the state behind `arg` as the
error callback has left it. The result is that state and the returned flag. -/
def transcode {F σ : Type} (ops : FloatOps F) (txt : TextOps F)
    (gops : GOps (transcoder_state F σ)) (alloc : alloc_outcomes)
    (pes_encode : pes_encoder F → encode_callback σ → encode_step σ)
    (svg_emb_text : List Byte) (encode_cb : encode_callback σ)
    (error_cb : Option (sax_error_callback σ)) (arg : σ) : σ × Bool :=
  let state : transcoder_state F σ :=
    { encoder := pes_encoder_init ops, thread := PesDecoder.zero_thread, jump := false,
      error_cb := error_cb, arg := arg }
  match svg_emb_decoder_init gops svg_emb_text (some internal_error_cb) state with
  | none =>
    ((svg_emb_decoder_init_arg gops svg_emb_text (some internal_error_cb) state).arg, false)
  | some decoder =>
    let state1 := svg_emb_decoder_init_arg gops svg_emb_text (some internal_error_cb) state
    let threads := transcode_threads decoder state1
    if threads.2 = false then (threads.1.arg, false)
    else
      let transformed := transcode_transform ops txt decoder threads.1
      let stitched := transcode_stitches ops txt alloc decoder transformed.1
      if stitched.2 = false then (stitched.1.arg, false)
      else pes_encode stitched.1.encoder encode_cb stitched.1.arg

/-- Source: svg_emb_pes1_transcode. -/
def svg_emb_pes1_transcode {F σ : Type} (ops : FloatOps F) (txt : TextOps F)
    (gops : GOps (transcoder_state F σ)) (alloc : alloc_outcomes)
    (svg_emb_text : List Byte) (encode_cb : encode_callback σ)
    (error_cb : Option (sax_error_callback σ)) (arg : σ) : σ × Bool :=
  transcode ops txt gops alloc (fun encoder cb => PesCallback.pes_encode1 ops encoder cb)
    svg_emb_text encode_cb error_cb arg

end SvgEmbPesTranscoder

/-! ## pes-svg-emb-transcoder.c -/

namespace PesSvgEmbTranscoder
open Pec PesDecoder SvgEmbEncoder

/-- State of the transcoder (struct transcoder_state of pes-svg-emb-transcoder.c), with
the state behind `arg` of the caller; `stitch_type` is the number of the enum. -/
structure transcoder_state (F σ : Type) where
  encoder : svg_emb_encoder F
  stitch_type : Int
  thread : pec_thread
  jump : Bool
  arg : σ

/-- Source: block_cb of pes-svg-emb-transcoder.c; PEC_STITCH_NORMAL is 0. -/
def block_cb {F σ : Type} : pes_block_callback (transcoder_state F σ) :=
  fun state thread _ stitch_type =>
    ({ state with
        thread := thread, stitch_type := stitch_type,
        jump := if stitch_type ≠ 0 then true else state.jump }, true)

/-- Source: stitch_cb of pes-svg-emb-transcoder.c; `alloc_ok` is the outcome of the
allocation of the append. -/
def stitch_cb {F σ : Type} (ops : FloatOps F) (alloc_ok : Bool) :
    pes_stitch_callback F (transcoder_state F σ) :=
  fun state _ x y =>
    if state.stitch_type ≠ 0 then (state, true)
    else
      let r :=
        if state.jump = true then
          svg_emb_append_jump_stitch ops alloc_ok state.encoder state.thread.index x y
        else svg_emb_append_stitch ops alloc_ok state.encoder state.thread.index x y
      if r.2 = false then ({ state with encoder := r.1 }, false)
      else ({ state with encoder := r.1, jump := false }, true)

/-- Source: the loop of transcode_threads of pes-svg-emb-transcoder.c, with `n` threads
left from index `i` on. -/
def transcode_threads_loop {F σ : Type} (decoder : pes_decoder) :
    Nat → Int → transcoder_state F σ → transcoder_state F σ × Bool
  | 0, _, state => (state, true)
  | n + 1, i, state =>
    let r := svg_emb_append_thread state.encoder (pes_thread decoder i)
    if r.2 = false then ({ state with encoder := r.1 }, false)
    else transcode_threads_loop decoder n (i + 1) { state with encoder := r.1 }

/-- Source: transcode_threads of pes-svg-emb-transcoder.c. -/
def transcode_threads {F σ : Type} (decoder : pes_decoder) (state : transcoder_state F σ) :
    transcoder_state F σ × Bool :=
  transcode_threads_loop decoder (pes_thread_count decoder).toNat 0 state

/-- Source: transcode_transform of pes-svg-emb-transcoder.c. -/
def transcode_transform {F σ : Type} (ops : FloatOps F) (decoder : pes_decoder)
    (state : transcoder_state F σ) : transcoder_state F σ × Bool :=
  ({ state with
      encoder := svg_emb_encode_transform state.encoder (pes_affine_transform ops decoder) },
    true)

/-- Source: transcode_stitches of pes-svg-emb-transcoder.c. -/
def transcode_stitches {F σ : Type} (ops : FloatOps F) (alloc_ok : Bool)
    (decoder : pes_decoder) (state : transcoder_state F σ) : transcoder_state F σ × Bool :=
  pes_stitch_foreach ops decoder (some block_cb) (some (stitch_cb ops alloc_ok)) state

/-- Source: pes_svg_emb_transcode. The allocation of the encoder is taken to succeed. The
result is the state behind `arg` and the returned flag, and `none` when pes_decoder_init
reads outside the buffer. -/
def pes_svg_emb_transcode {F σ : Type} (ops : FloatOps F) (txt : SvgOps F)
    (calloc_zero alloc_ok : Bool) (data : List Byte) (encode_cb : encode_callback σ)
    (arg : σ) : Option (σ × Bool) :=
  let state : transcoder_state F σ :=
    { encoder := svg_emb_encoder_init ops, stitch_type := 0, thread := zero_thread,
      jump := false, arg := arg }
  match pes_decoder_init ops calloc_zero data with
  | init_result.out_of_bounds => none
  | init_result.null => some (arg, false)
  | init_result.decoder decoder =>
    let threads := transcode_threads decoder state
    if threads.2 = false then some (arg, false)
    else
      let transformed := transcode_transform ops decoder threads.1
      let stitched := transcode_stitches ops alloc_ok decoder transformed.1
      if stitched.2 = false then some (arg, false)
      else some (svg_emb_encode txt stitched.1.encoder encode_cb arg)

end PesSvgEmbTranscoder

/-! ## The transcoders on the fixed-point instance -/

/-- The value of a run of decimal digits. -/
def digits_value (digits : List Byte) : Int :=
  digits.foldl (fun v c => 10 * v + ((c.val : Int) - 48)) 0

/-- The character is a decimal digit. -/
def isdigit (c : Byte) : Bool := decide (48 ≤ c.val ∧ c.val ≤ 57)

/-- The function strtof on the values of gridOps, for decimal numbers without exponent:
white space, an optional sign, digits, and an optional point with digits. The value is
exact when there is at most one digit after the point; further digits are dropped. -/
def grid_strtof (s : List Byte) : Int × Nat :=
  let space := (s.takeWhile Sax.isspace).length
  let s1 := s.drop space
  let sign := if s1.getD 0 0 = 45 ∨ s1.getD 0 0 = 43 then 1 else 0
  let s2 := s1.drop sign
  let whole := s2.takeWhile isdigit
  let s3 := s2.drop whole.length
  let point := if s3.getD 0 0 = 46 then 1 else 0
  let part := if s3.getD 0 0 = 46 then (s3.drop 1).takeWhile isdigit else []
  if whole = [] ∧ part = [] then (0, 0)
  else
    let v := 10 * digits_value whole + digits_value (part.take 1)
    (if s1.getD 0 0 = 45 then -v else v, space + sign + whole.length + point + part.length)

/-- The six numbers of `matrix(a b c d e f)`, read with grid_strtof. -/
def grid_matrix_numbers : Nat → List Byte → Option (List Int)
  | 0, _ => some []
  | n + 1, s =>
    if (grid_strtof s).2 = 0 then none
    else (grid_matrix_numbers n (s.drop (grid_strtof s).2)).map (fun l => (grid_strtof s).1 :: l)

/-- The fixed-point instance of the text conversions of svg-emb-decoder.c. -/
def gridTextOps : SvgEmbDecoder.TextOps Int where
  strtof := grid_strtof
  matrix := fun s =>
    let l := (grid_matrix_numbers 6 (s.drop 7)).getD []
    { m00 := l.getD 0 0, m01 := l.getD 1 0, m10 := l.getD 2 0, m11 := l.getD 3 0,
      m20 := l.getD 4 0, m21 := l.getD 5 0 }

/-- The outside of the thread pass on the fixed-point instance: sscanf finds its six
numbers when the text after `matrix(` holds six, and the error callback of the attribute
walk leaves the state as it is. -/
def gridGOps (α : Type) : SvgEmbDecoder.GOps α :=
  { sscanf_matrix := fun s =>
      decide (s.take 7 = ascii "matrix(") && (grid_matrix_numbers 6 (s.drop 7)).isSome,
    g_error := fun _ _ state => state }

/-- The PES v1 file that svg_emb_pes1_transcode writes for a text on the fixed-point
instance, with every allocation successful and without error callback, and `none` when it
returns false. -/
def grid_svg_to_pes (text : List Byte) : Option (List Byte) :=
  let r := SvgEmbPesTranscoder.svg_emb_pes1_transcode gridOps gridTextOps
    (gridGOps _) alloc_all text store_chunk none []
  if r.2 = true then some r.1 else none

/-- The SVG-emb text that pes_svg_emb_transcode writes for a PES file on the fixed-point
instance, with every allocation successful, and `none` when it returns false. -/
def grid_pes_to_svg (data : List Byte) : Option (List Byte) :=
  match PesSvgEmbTranscoder.pes_svg_emb_transcode gridOps gridSvgOps true true data
    store_chunk [] with
  | some (text, true) => some text
  | _ => none

end Libpes
namespace Libpes
open Sax Pec

/-! ## Inputs and intermediate states of the transcoders -/

/-- The transcoder state that transcode of svg-emb-pes-transcoder.c has built when it
reaches the call of pes_encode, with the flag of the conditions before that call: the
decoder is there, and transcode_threads, transcode_transform and transcode_stitches have
returned true. -/
def SvgEmbPesTranscoder.transcoded {F σ : Type} (ops : FloatOps F)
    (txt : SvgEmbDecoder.TextOps F)
    (gops : SvgEmbDecoder.GOps (SvgEmbPesTranscoder.transcoder_state F σ))
    (alloc : PesEncoder.alloc_outcomes) (svg_emb_text : List Byte)
    (error_cb : Option (sax_error_callback σ)) (arg : σ) :
    SvgEmbPesTranscoder.transcoder_state F σ × Bool :=
  let state : SvgEmbPesTranscoder.transcoder_state F σ :=
    { encoder := PesEncoder.pes_encoder_init ops, thread := PesDecoder.zero_thread,
      jump := false, error_cb := error_cb, arg := arg }
  let state1 := SvgEmbDecoder.svg_emb_decoder_init_arg gops svg_emb_text
    (some SvgEmbPesTranscoder.internal_error_cb) state
  match SvgEmbDecoder.svg_emb_decoder_init gops svg_emb_text
      (some SvgEmbPesTranscoder.internal_error_cb) state with
  | none => (state1, false)
  | some decoder =>
    let threads := SvgEmbPesTranscoder.transcode_threads decoder state1
    if threads.2 = false then threads
    else
      SvgEmbPesTranscoder.transcode_stitches ops txt alloc decoder
        (SvgEmbPesTranscoder.transcode_transform ops txt decoder threads.1).1

/-- The state of `transcoded` on the fixed-point instance, with every allocation
successful and without error callback, as in grid_svg_to_pes. -/
def grid_transcoded (text : List Byte) :
    SvgEmbPesTranscoder.transcoder_state Int (List Byte) × Bool :=
  SvgEmbPesTranscoder.transcoded gridOps gridTextOps (gridGOps _) alloc_all
    text none []

/-- An SVG-emb encoder state in two palette colours whose stitches lie 300 mm to the right
of the origin: two stitches of thread 0, then a jump stitch and a stitch of thread 1. -/
def far_colour_encoder : SvgEmbEncoder.svg_emb_encoder Int :=
  let e0 := SvgEmbEncoder.svg_emb_encoder_init gridOps
  let e1 := (SvgEmbEncoder.svg_emb_append_thread e0 (pec_palette_thread 5)).1
  let e2 := (SvgEmbEncoder.svg_emb_append_thread e1 (pec_palette_thread 2)).1
  let e3 := (SvgEmbEncoder.svg_emb_append_stitch gridOps true e2 0 3000 100).1
  let e4 := (SvgEmbEncoder.svg_emb_append_stitch gridOps true e3 0 3005 100).1
  let e5 := (SvgEmbEncoder.svg_emb_append_jump_stitch gridOps true e4 1 3005 100).1
  (SvgEmbEncoder.svg_emb_append_stitch gridOps true e5 1 3010 100).1

/-- The text that svg_emb_encode writes for far_colour_encoder. -/
def far_colour_text : List Byte :=
  ascii "<?xml version=\"1.0\"?>\n" ++
  ascii "<!DOCTYPE svg PUBLIC \"-//W3C//DTD SVG 1.1//EN\"\n" ++
  ascii "  \"http://www.w3.org/Graphics/SVG/1.1/DTD/svg11.dtd\">\n" ++
  ascii "<svg width=\"1.0mm\" height=\"0.0mm\" version=\"1.1\"\n" ++
  ascii "     viewBox=\"300.0 10.0 1.0 0.0\" xmlns=\"http://www.w3.org/2000/svg\">\n" ++
  ascii "  <path stroke=\"#ec0000\" fill=\"none\" stroke-width=\"0.2\"\n" ++
  ascii "        d=\"M 300.0  10.0 L 300.5  10.0\" />\n" ++
  ascii "  <path stroke=\"#0f75ff\" fill=\"none\" stroke-width=\"0.2\"\n" ++
  ascii "        d=\"M 300.5  10.0 L 301.0  10.0\" />\n" ++
  ascii "</svg>\n"

/-- The same stitches as in far_colour_encoder, all of thread 0. -/
def far_plain_encoder : SvgEmbEncoder.svg_emb_encoder Int :=
  let e0 := SvgEmbEncoder.svg_emb_encoder_init gridOps
  let e1 := (SvgEmbEncoder.svg_emb_append_thread e0 (pec_palette_thread 5)).1
  let e3 := (SvgEmbEncoder.svg_emb_append_stitch gridOps true e1 0 3000 100).1
  let e4 := (SvgEmbEncoder.svg_emb_append_stitch gridOps true e3 0 3005 100).1
  let e5 := (SvgEmbEncoder.svg_emb_append_jump_stitch gridOps true e4 0 3005 100).1
  (SvgEmbEncoder.svg_emb_append_stitch gridOps true e5 0 3010 100).1

/-- The text that svg_emb_encode writes for far_plain_encoder: the paths of
far_colour_text, both in the first colour. -/
def far_plain_text : List Byte :=
  ascii "<?xml version=\"1.0\"?>\n" ++
  ascii "<!DOCTYPE svg PUBLIC \"-//W3C//DTD SVG 1.1//EN\"\n" ++
  ascii "  \"http://www.w3.org/Graphics/SVG/1.1/DTD/svg11.dtd\">\n" ++
  ascii "<svg width=\"1.0mm\" height=\"0.0mm\" version=\"1.1\"\n" ++
  ascii "     viewBox=\"300.0 10.0 1.0 0.0\" xmlns=\"http://www.w3.org/2000/svg\">\n" ++
  ascii "  <path stroke=\"#ec0000\" fill=\"none\" stroke-width=\"0.2\"\n" ++
  ascii "        d=\"M 300.0  10.0 L 300.5  10.0\" />\n" ++
  ascii "  <path stroke=\"#ec0000\" fill=\"none\" stroke-width=\"0.2\"\n" ++
  ascii "        d=\"M 300.5  10.0 L 301.0  10.0\" />\n" ++
  ascii "</svg>\n"

/-- A PES encoder state with two palette threads of which only the second is used: two
stitches of thread 1. -/
def unused_thread_encoder : PesEncoder.pes_encoder Int :=
  let e0 := PesEncoder.pes_encoder_init gridOps
  let e1 := (PesEncoder.pes_append_thread e0 (pec_palette_thread 5)).1
  let e2 := (PesEncoder.pes_append_thread e1 (pec_palette_thread 2)).1
  let e3 := (PesEncoder.pes_append_stitch gridOps alloc_all e2 1 0 0).1
  (PesEncoder.pes_append_stitch gridOps alloc_all e3 1 100 70).1

/-- The SVG-emb text of the file of unused_thread_encoder: one path in the colour of
palette thread 2. -/
def unused_thread_text : List Byte :=
  ascii "<?xml version=\"1.0\"?>\n" ++
  ascii "<!DOCTYPE svg PUBLIC \"-//W3C//DTD SVG 1.1//EN\"\n" ++
  ascii "  \"http://www.w3.org/Graphics/SVG/1.1/DTD/svg11.dtd\">\n" ++
  ascii "<svg width=\"10.0mm\" height=\"7.0mm\" version=\"1.1\"\n" ++
  ascii "     viewBox=\"0.0 0.0 10.0 7.0\" xmlns=\"http://www.w3.org/2000/svg\">\n" ++
  ascii "  <path stroke=\"#0f75ff\" fill=\"none\" stroke-width=\"0.2\"\n" ++
  ascii "        d=\"M   0.0   0.0 L  10.0   7.0\" />\n" ++
  ascii "</svg>\n"

end Libpes

namespace Libpes
open pec_stitch_type PecEncoder PecDecoder


/-! ## Bit-level facts about bytes -/

theorem byteOfNat_val (n : Nat) (h : n < 256) : (byteOfNat n).val = n := by
  simp [byteOfNat, Nat.mod_eq_of_lt h]

theorem byteOfInt_val (v : Int) (h0 : 0 ≤ v) (h1 : v < 256) : ((byteOfInt v).val : Int) = v := by
  unfold byteOfInt byteOfNat
  simp only []
  omega

theorem low7_bit7 : ∀ u : Fin 128, u.val &&& 0x80 = 0 := by decide

theorem two_byte_head : ∀ hi : Fin 16, ∀ k : Fin 3,
    let u := hi.val ||| 0x80 ||| (k.val * 16)
    u = 0x80 + k.val * 16 + hi.val ∧ u &&& 0x80 ≠ 0 ∧ (u &&& 0x20 ≠ 0 ↔ k.val = 2) ∧
    (u &&& 0x10 ≠ 0 ↔ k.val = 1) ∧ u &&& 0x0F = hi.val := by decide

theorem byte_bits : ∀ u : Fin 256,
    (u.val &&& 0x80 ≠ 0 ↔ 0x80 ≤ u.val) ∧ (u.val &&& 0x20 ≠ 0 ↔ u.val.testBit 5 = true) ∧
    (u.val &&& 0x10 ≠ 0 ↔ u.val.testBit 4 = true) ∧ u.val &&& 0x0F = u.val % 16 := by decide

theorem sign_bit12 : ∀ hi : Fin 16, ∀ v : Fin 256,
    ((hi.val <<< 8) + v.val = hi.val * 256 + v.val) ∧
    ((((hi.val <<< 8) + v.val) &&& 0x800 ≠ 0) ↔ 8 ≤ hi.val) := by decide


theorem nibble_or : ∀ hi : Fin 16, ∀ v : Fin 256,
    (hi.val <<< 8) ||| v.val = hi.val * 256 + v.val := by decide

theorem nibble_byte (u v : Fin 256) :
    (u.val &&& 0x0F) <<< 8 ||| v.val = (u.val % 16) * 256 + v.val := by
  rw [(byte_bits u).2.2.2]
  exact nibble_or ⟨u.val % 16, Nat.mod_lt _ (by decide)⟩ v

theorem decode_u8_at (pre post : List Byte) (b : Byte) :
    decode_u8 ⟨pre ++ b :: post⟩ pre.length = some b.val := by
  unfold decode_u8 pec_decoder.size
  have h : ¬ ((pre.length : Int) < 0 ∨ (((pre ++ b :: post).length : Nat) : Int) < pre.length + 1) := by
    simp only [List.length_append, List.length_cons]
    omega
  simp only [h, if_false, Int.toNat_ofNat]
  rw [List.getD_eq_getElem?_getD, List.getElem?_append_right (le_refl _)]
  simp

theorem decode_u8_at_succ (pre post : List Byte) (a b : Byte) :
    decode_u8 ⟨pre ++ a :: b :: post⟩ (pre.length + 1) = some b.val := by
  have h := decode_u8_at (pre ++ [a]) post b
  simp only [List.append_assoc, List.singleton_append, List.length_append, List.length_singleton,
    Nat.cast_add, Nat.cast_one] at h
  exact h

theorem kind_bits_cases (t : pec_stitch_type) :
    ∃ k : Fin 3, kind_bits t = k.val * 16 ∧
      (k.val = 2 ↔ t = PEC_STITCH_TRIM) ∧ (k.val = 1 ↔ t = PEC_STITCH_JUMP) := by
  cases t
  · exact ⟨0, by decide⟩
  · exact ⟨1, by decide⟩
  · exact ⟨2, by decide⟩
  · exact ⟨0, by decide⟩

/-- The one-byte form: the byte written and what the decoder reads from it. -/
theorem encode_stitch_short (d : Int) (h1 : -0x40 ≤ d) (h2 : d ≤ 0x3F) :
    ∃ b : Byte, encode_stitch PEC_STITCH_NORMAL d = some [b] ∧ (b.val : Int) = d % 128 ∧
      b.val < 128 := by
  refine ⟨byteOfInt (d % 128), ?_, ?_, ?_⟩
  · unfold encode_stitch encode_u8
    have e1 : ¬ (d < -0x800 ∨ 0x7FF < d) := by omega
    have e2 : (PEC_STITCH_NORMAL = PEC_STITCH_NORMAL ∧ -0x40 ≤ d ∧ d ≤ 0x3F) := ⟨rfl, h1, h2⟩
    have e3 : (0 ≤ d % 0x80 ∧ d % 0x80 ≤ 0xFF) := by omega
    simp only [e1, e2, e3, if_false, if_true, and_self]
  · exact byteOfInt_val _ (by omega) (by omega)
  · have := byteOfInt_val (d % 128) (by omega) (by omega)
    omega

/-- The two-byte form: the bytes written. -/
theorem encode_stitch_long (t : pec_stitch_type) (d : Int) (h1 : -0x800 ≤ d) (h2 : d ≤ 0x7FF)
    (h : ¬ (t = PEC_STITCH_NORMAL ∧ -0x40 ≤ d ∧ d ≤ 0x3F)) :
    ∃ b1 b2 : Byte, encode_stitch t d = some [b1, b2] ∧
      b1.val = (d / 256 % 16).toNat ||| 0x80 ||| kind_bits t ∧ (b2.val : Int) = d % 256 := by
  obtain ⟨k, hk, -, -⟩ := kind_bits_cases t
  have hhi : (d / 256 % 16).toNat < 16 := by omega
  have hu := (two_byte_head ⟨(d / 256 % 16).toNat, hhi⟩ k).1
  simp only [] at hu
  have hk3 : k.val < 3 := k.isLt
  refine ⟨byteOfInt (((d / 256 % 16).toNat ||| 0x80 ||| kind_bits t : Nat) : Int),
    byteOfInt (d % 256), ?_, ?_, ?_⟩
  · unfold encode_stitch encode_u8
    have e1 : ¬ (d < -0x800 ∨ 0x7FF < d) := by omega
    have e3 : (0 ≤ d % 256 ∧ d % 256 ≤ 0xFF) := by omega
    have e4 : (0 ≤ (((d / 256 % 16).toNat ||| 0x80 ||| kind_bits t : Nat) : Int) ∧
        (((d / 256 % 16).toNat ||| 0x80 ||| kind_bits t : Nat) : Int) ≤ 0xFF) := by
      rw [hk, hu]; omega
    simp only [e1, h, e3, e4, if_false, if_true, both]
    rfl
  · have := byteOfInt_val (((d / 256 % 16).toNat ||| 0x80 ||| kind_bits t : Nat) : Int)
      (by omega) (by rw [hk, hu]; omega)
    exact_mod_cast this
  · exact byteOfInt_val _ (by omega) (by omega)


theorem decode_u8_eq (d : pec_decoder) (off : Int) (h0 : 0 ≤ off) (u : Byte)
    (h : d.data[off.toNat]? = some u) : decode_u8 d off = some u.val := by
  unfold decode_u8 pec_decoder.size
  have hlt : off.toNat < d.data.length := by
    rcases Nat.lt_or_ge off.toNat d.data.length with h1 | h1
    · exact h1
    · rw [List.getElem?_eq_none h1] at h; cases h
  have hc : ¬ (off < 0 ∨ (d.data.length : Int) < off + 1) := by omega
  simp only [hc, if_false]
  rw [List.getD_eq_getElem?_getD, h]
  rfl

theorem decode_u8_none (d : pec_decoder) (off : Int) (h : off < 0 ∨ d.size ≤ off) :
    decode_u8 d off = none := by
  unfold decode_u8
  have hc : (off < 0 ∨ d.size < off + 1) := by omega
  simp only [hc, if_true]

/-- What decode_stitch_coordinate does on a first byte below 0x80. -/
theorem decode_coordinate_short (d : pec_decoder) (off c : Int) (t : pec_stitch_type)
    (h0 : 0 ≤ off) (u : Byte) (h : d.data[off.toNat]? = some u) (hu : u.val < 0x80) :
    decode_stitch_coordinate d off c t =
      some (off + 1, c + (if 0x40 ≤ u.val then (u.val : Int) - 0x80 else u.val), t) := by
  unfold decode_stitch_coordinate
  rw [decode_u8_eq d off h0 u h]
  have hb : ¬ (u.val &&& 0x80 ≠ 0) := by
    have := (byte_bits u).1
    omega
  simp only [hb, if_false, ge_iff_le]

/-- What decode_stitch_coordinate does on a first byte from 0x80 on, when the
second byte is there. -/
theorem decode_coordinate_long (d : pec_decoder) (off c : Int) (t : pec_stitch_type)
    (h0 : 0 ≤ off) (u v : Byte) (h : d.data[off.toNat]? = some u)
    (hv : d.data[off.toNat + 1]? = some v) (hu : 0x80 ≤ u.val) :
    decode_stitch_coordinate d off c t =
      some (off + 2,
        c + (if (u.val % 16) * 256 + v.val < 2048 then (((u.val % 16) * 256 + v.val : Nat) : Int)
             else (((u.val % 16) * 256 + v.val : Nat) : Int) - 4096),
        if u.val.testBit 4 = true then PEC_STITCH_JUMP
        else if u.val.testBit 5 = true then PEC_STITCH_TRIM else t) := by
  unfold decode_stitch_coordinate
  rw [decode_u8_eq d off h0 u h]
  have hv2 : d.data[(off + 1).toNat]? = some v := by
    have : (off + 1).toNat = off.toNat + 1 := by omega
    rw [this]; exact hv
  obtain ⟨b7, b5, b4, lo⟩ := byte_bits u
  have hb : (u.val &&& 0x80 ≠ 0) := b7.2 hu
  have hlt : u.val % 16 < 16 := Nat.mod_lt _ (by decide)
  obtain ⟨s1, s2⟩ := sign_bit12 ⟨u.val % 16, hlt⟩ v
  simp only [] at s1 s2
  simp only []
  rw [if_pos hb, decode_u8_eq d (off + 1) (by omega) v hv2]
  simp only [lo, s1]
  have hkind : (if u.val &&& 0x10 ≠ 0 then PEC_STITCH_JUMP
      else if u.val &&& 0x20 ≠ 0 then PEC_STITCH_TRIM else t) =
      (if u.val.testBit 4 = true then PEC_STITCH_JUMP
        else if u.val.testBit 5 = true then PEC_STITCH_TRIM else t) := by
    by_cases h4 : u.val.testBit 4 = true
    · rw [if_pos (b4.2 h4), if_pos h4]
    · rw [if_neg (fun hh => h4 (b4.1 hh)), if_neg h4]
      by_cases h5 : u.val.testBit 5 = true
      · rw [if_pos (b5.2 h5), if_pos h5]
      · rw [if_neg (fun hh => h5 (b5.1 hh)), if_neg h5]
  have hval : (if (u.val % 16) * 256 + v.val &&& 0x800 ≠ 0
      then (((u.val % 16) * 256 + v.val : Nat) : Int) - 0x1000
      else (((u.val % 16) * 256 + v.val : Nat) : Int)) =
      (if (u.val % 16) * 256 + v.val < 2048 then (((u.val % 16) * 256 + v.val : Nat) : Int)
             else (((u.val % 16) * 256 + v.val : Nat) : Int) - 4096) := by
    rw [s1] at s2
    by_cases h8 : 8 ≤ u.val % 16
    · rw [if_pos (s2.2 h8), if_neg (by omega)]
    · rw [if_neg (fun hh => h8 (s2.1 hh)), if_pos (by have := v.isLt; omega)]
  rw [hkind, hval]

/-- What decode_stitch_coordinate does on a first byte from 0x80 on, when the
second byte lies past the end of the buffer. -/
theorem decode_coordinate_truncated (d : pec_decoder) (off c : Int) (t : pec_stitch_type)
    (h0 : 0 ≤ off) (u : Byte) (h : d.data[off.toNat]? = some u) (hu : 0x80 ≤ u.val)
    (hend : d.size ≤ off + 1) : decode_stitch_coordinate d off c t = none := by
  unfold decode_stitch_coordinate
  rw [decode_u8_eq d off h0 u h]
  have hb : (u.val &&& 0x80 ≠ 0) := (byte_bits u).1.2 hu
  simp only []
  rw [if_pos hb, decode_u8_none d (off + 1) (Or.inr hend)]


theorem two_byte_head_bits : ∀ hi : Fin 16, ∀ k : Fin 3,
    let u := 0x80 + k.val * 16 + hi.val
    0x80 ≤ u ∧ (u.testBit 4 = true ↔ k.val = 1) ∧ (u.testBit 5 = true ↔ k.val = 2) ∧
      u % 16 = hi.val := by decide

theorem getElem?_mid (pre post : List Byte) (b : Byte) :
    (pre ++ b :: post)[pre.length]? = some b := by
  rw [List.getElem?_append_right (le_refl _)]
  simp

theorem getElem?_mid_succ (pre post : List Byte) (a b : Byte) :
    (pre ++ a :: b :: post)[pre.length + 1]? = some b := by
  rw [List.getElem?_append_right (by omega)]
  simp

/-- Reading back the one-byte form. -/
theorem decode_encode_short (d : Int) (h1 : -0x40 ≤ d) (h2 : d ≤ 0x3F) (b : Byte)
    (hb : (b.val : Int) = d % 128) (c : Int) (t : pec_stitch_type) (pre post : List Byte) :
    decode_stitch_coordinate ⟨pre ++ b :: post⟩ pre.length c t =
      some ((pre.length : Int) + 1, c + d, t) := by
  have hlt : b.val < 0x80 := by omega
  rw [decode_coordinate_short ⟨pre ++ b :: post⟩ pre.length c t (by omega) b
    (by simp only [Int.toNat_ofNat]; exact getElem?_mid pre post b) hlt]
  have : (if 0x40 ≤ b.val then (b.val : Int) - 0x80 else (b.val : Int)) = d := by
    split_ifs <;> omega
  rw [this]

/-- Reading back the two-byte form. -/
theorem decode_encode_long (t : pec_stitch_type) (ht : t ≠ PEC_STITCH_STOP) (d : Int)
    (h1 : -0x800 ≤ d) (h2 : d ≤ 0x7FF) (b1 b2 : Byte)
    (hb1 : b1.val = (d / 256 % 16).toNat ||| 0x80 ||| kind_bits t)
    (hb2 : (b2.val : Int) = d % 256) (c : Int) (pre post : List Byte) :
    decode_stitch_coordinate ⟨pre ++ b1 :: b2 :: post⟩ pre.length c PEC_STITCH_NORMAL =
      some ((pre.length : Int) + 2, c + d, t) := by
  obtain ⟨k, hk, hk2, hk1⟩ := kind_bits_cases t
  have hhi : (d / 256 % 16).toNat < 16 := by omega
  have hu := (two_byte_head ⟨(d / 256 % 16).toNat, hhi⟩ k).1
  obtain ⟨g7, g4, g5, glo⟩ := two_byte_head_bits ⟨(d / 256 % 16).toNat, hhi⟩ k
  simp only [] at hu g7 g4 g5 glo
  rw [hk, hu] at hb1
  rw [← hb1] at g7 g4 g5 glo
  rw [decode_coordinate_long ⟨pre ++ b1 :: b2 :: post⟩ pre.length c PEC_STITCH_NORMAL (by omega)
    b1 b2 (by simp only [Int.toNat_ofNat]; exact getElem?_mid pre (b2 :: post) b1)
    (by simp only [Int.toNat_ofNat]; exact getElem?_mid_succ pre post b1 b2) g7]
  have hval : (if (b1.val % 16) * 256 + b2.val < 2048
      then (((b1.val % 16) * 256 + b2.val : Nat) : Int)
      else (((b1.val % 16) * 256 + b2.val : Nat) : Int) - 4096) = d := by
    rw [glo]
    split_ifs <;> omega
  have hkind : (if b1.val.testBit 4 = true then PEC_STITCH_JUMP
      else if b1.val.testBit 5 = true then PEC_STITCH_TRIM else PEC_STITCH_NORMAL) = t := by
    cases t
    · have n1 : ¬ k.val = 1 := fun e => by have := hk1.1 e; cases this
      have n2 : ¬ k.val = 2 := fun e => by have := hk2.1 e; cases this
      rw [if_neg (fun e => n1 (g4.1 e)), if_neg (fun e => n2 (g5.1 e))]
    · rw [if_pos (g4.2 (hk1.2 rfl))]
    · have n1 : ¬ k.val = 1 := fun e => by have := hk1.1 e; cases this
      rw [if_neg (fun e => n1 (g4.1 e)), if_pos (g5.2 (hk2.2 rfl))]
    · exact absurd rfl ht
  rw [hval, hkind]

/-! ## The PEC delta coding -/

/-- C9. PEC delta write rule: for a delta d in -2048..2047, encode_stitch writes one
byte, the 7-bit two's complement of d, when the kind is Normal and d lies in -64..63;
in every other case it writes two bytes, 0x80 | k | high nibble and then the low byte
of the 12-bit two's complement of d, with k = 0x20 for Trim, 0x10 for Jump and 0
otherwise. -/
theorem pec_delta_write_rule (t : pec_stitch_type) (d : Int) (h1 : -2048 ≤ d) (h2 : d ≤ 2047) :
    (t = PEC_STITCH_NORMAL ∧ -64 ≤ d ∧ d ≤ 63 →
      ∃ b : Byte, encode_stitch t d = some [b] ∧
        (b.val : Int) = (if 0 ≤ d then d else d + 128)) ∧
    (¬ (t = PEC_STITCH_NORMAL ∧ -64 ≤ d ∧ d ≤ 63) →
      ∃ b1 b2 : Byte, encode_stitch t d = some [b1, b2] ∧
        b1.val = 0x80 ||| (if t = PEC_STITCH_TRIM then 0x20
                           else if t = PEC_STITCH_JUMP then 0x10 else 0x00)
                      ||| ((if 0 ≤ d then d else d + 4096) / 256).toNat ∧
        (b1.val : Int) = 0x80 + (if t = PEC_STITCH_TRIM then 0x20
                           else if t = PEC_STITCH_JUMP then 0x10 else 0x00)
                      + (if 0 ≤ d then d else d + 4096) / 256 ∧
        (b2.val : Int) = (if 0 ≤ d then d else d + 4096) % 256) := by
  constructor
  · rintro ⟨rfl, h3, h4⟩
    obtain ⟨b, hb, hv, -⟩ := encode_stitch_short d h3 h4
    refine ⟨b, hb, ?_⟩
    rw [hv]; split_ifs <;> omega
  · intro h
    obtain ⟨b1, b2, he, hb1, hb2⟩ := encode_stitch_long t d h1 h2 h
    obtain ⟨k, hk, hk2, hk1⟩ := kind_bits_cases t
    have hhi : (d / 256 % 16).toNat < 16 := by omega
    have hu := (two_byte_head ⟨(d / 256 % 16).toNat, hhi⟩ k).1
    simp only [] at hu
    have hnib : ((if 0 ≤ d then d else d + 4096) / 256).toNat = (d / 256 % 16).toNat := by
      split_ifs <;> omega
    have hkb : (if t = PEC_STITCH_TRIM then 0x20
        else if t = PEC_STITCH_JUMP then 0x10 else 0x00) = kind_bits t := rfl
    have hkbi : (if t = PEC_STITCH_TRIM then (0x20 : Int)
        else if t = PEC_STITCH_JUMP then 0x10 else 0x00) = ((kind_bits t : Nat) : Int) := by
      unfold kind_bits; split_ifs <;> rfl
    refine ⟨b1, b2, he, ?_, ?_, ?_⟩
    · rw [hb1, hnib, hkb, Nat.lor_assoc, Nat.lor_comm, Nat.lor_assoc]
    · rw [hkbi, hb1, hk, hu]
      have hk3 := k.isLt
      split_ifs <;> omega
    · rw [hb2]; split_ifs <;> omega

theorem pec_delta_write_rule_witness :
    (-2048 : Int) ≤ -300 ∧ (-300 : Int) ≤ 2047 ∧
    encode_stitch PEC_STITCH_JUMP (-300) = some [0x9E, 0xD4] ∧
    ∃ b1 b2 : Byte, encode_stitch PEC_STITCH_JUMP (-300) = some [b1, b2] ∧
      (b1.val : Int) = 0x80 + 0x10 + (-300 + 4096) / 256 ∧
      (b2.val : Int) = (-300 + 4096) % 256 := by
  refine ⟨by decide, by decide, by decide, ?_⟩
  obtain ⟨b1, b2, he, -, h1, h2⟩ :=
    (pec_delta_write_rule PEC_STITCH_JUMP (-300) (by decide) (by decide)).2 (by decide)
  exact ⟨b1, b2, he, h1, h2⟩


/-- C10. PEC delta read rule: decode_stitch_coordinate fails when the first byte lies
outside the buffer; on a first byte u below 0x40 it adds u, on 0x40 ≤ u < 0x80 it adds
u - 0x80, in both cases consuming one byte and keeping the stitch kind; on u ≥ 0x80 it
fails when the second byte lies past the end, and otherwise consumes two bytes, adds
the 12-bit two's-complement value with high nibble u & 0x0F and low byte v, and sets
the kind to Jump if bit 4 of u is set, else to Trim if bit 5 is set, else keeps it. -/
theorem pec_delta_read_rule (decoder : pec_decoder) (off c : Int) (t : pec_stitch_type) :
    (off < 0 ∨ decoder.size ≤ off → decode_stitch_coordinate decoder off c t = none) ∧
    (∀ u : Byte, 0 ≤ off → decoder.data[off.toNat]? = some u →
      (u.val < 0x40 →
        decode_stitch_coordinate decoder off c t = some (off + 1, c + u.val, t)) ∧
      (0x40 ≤ u.val → u.val < 0x80 →
        decode_stitch_coordinate decoder off c t = some (off + 1, c + u.val - 0x80, t)) ∧
      (0x80 ≤ u.val →
        (decoder.size ≤ off + 1 → decode_stitch_coordinate decoder off c t = none) ∧
        (∀ v : Byte, decoder.data[off.toNat + 1]? = some v →
          decode_stitch_coordinate decoder off c t =
            some (off + 2,
              c + (if (u.val &&& 0x0F) <<< 8 ||| v.val < 0x800
                   then ((((u.val &&& 0x0F) <<< 8 ||| v.val : Nat)) : Int)
                   else ((((u.val &&& 0x0F) <<< 8 ||| v.val : Nat)) : Int) - 0x1000),
              if u.val.testBit 4 = true then PEC_STITCH_JUMP
              else if u.val.testBit 5 = true then PEC_STITCH_TRIM else t)))) := by
  constructor
  · intro h
    unfold decode_stitch_coordinate
    rw [decode_u8_none decoder off h]
  · intro u h0 hu
    refine ⟨?_, ?_, ?_⟩
    · intro h
      rw [decode_coordinate_short decoder off c t h0 u hu (by omega), if_neg (by omega)]
    · intro h1 h2
      rw [decode_coordinate_short decoder off c t h0 u hu h2, if_pos h1]
      have e : c + ((u.val : Int) - 0x80) = c + u.val - 0x80 := by omega
      rw [e]
    · intro h
      refine ⟨decode_coordinate_truncated decoder off c t h0 u hu h, ?_⟩
      intro v hv
      rw [decode_coordinate_long decoder off c t h0 u v hu hv h]
      have e : (u.val &&& 0x0F) <<< 8 ||| v.val = (u.val % 16) * 256 + v.val :=
        nibble_byte u v
      rw [e]

theorem pec_delta_read_rule_witness :
    decode_stitch_coordinate ⟨[0x7B]⟩ 0 10 PEC_STITCH_NORMAL = some (1, 5, PEC_STITCH_NORMAL) ∧
    decode_stitch_coordinate ⟨[0xBE, 0xD4]⟩ 0 1000 PEC_STITCH_NORMAL =
      some (2, 700, PEC_STITCH_JUMP) ∧
    decode_stitch_coordinate ⟨[0xBE]⟩ 0 1000 PEC_STITCH_NORMAL = none := by
  have h1 := ((pec_delta_read_rule ⟨[0x7B]⟩ 0 10 PEC_STITCH_NORMAL).2 0x7B (by decide)
    (by decide)).2.1 (by decide) (by decide)
  have h2 := (((pec_delta_read_rule ⟨[0xBE, 0xD4]⟩ 0 1000 PEC_STITCH_NORMAL).2 0xBE (by decide)
    (by decide)).2.2 (by decide)).2 0xD4 (by decide)
  have h3 := (((pec_delta_read_rule ⟨[0xBE]⟩ 0 1000 PEC_STITCH_NORMAL).2 0xBE (by decide)
    (by decide)).2.2 (by decide)).1 (by decide)
  refine ⟨?_, ?_, h3⟩
  · rw [h1]; decide
  · rw [h2]; decide

/-- C1. PEC delta round trip: for a delta d in -2048..2047 and a kind t among Normal,
Jump and Trim, encode_stitch writes one or two bytes; placed anywhere in a buffer and
read by decode_stitch_coordinate from accumulator c and kind Normal, exactly these
bytes are consumed (the offset ends right after them), the accumulator becomes c + d
and the kind becomes t. -/
theorem pec_delta_round_trip (t : pec_stitch_type) (d : Int) (c : Int) (pre post : List Byte)
    (ht : t ≠ PEC_STITCH_STOP) (h1 : -2048 ≤ d) (h2 : d ≤ 2047) :
    ∃ bytes : List Byte, encode_stitch t d = some bytes ∧
      (bytes.length = 1 ∨ bytes.length = 2) ∧
      decode_stitch_coordinate ⟨pre ++ bytes ++ post⟩ pre.length c PEC_STITCH_NORMAL =
        some ((pre.length : Int) + bytes.length, c + d, t) := by
  by_cases h : t = PEC_STITCH_NORMAL ∧ -0x40 ≤ d ∧ d ≤ 0x3F
  · obtain ⟨rfl, h3, h4⟩ := h
    obtain ⟨b, hb, hv, -⟩ := encode_stitch_short d h3 h4
    refine ⟨[b], hb, Or.inl rfl, ?_⟩
    have := decode_encode_short d h3 h4 b hv c PEC_STITCH_NORMAL pre post
    simpa using this
  · obtain ⟨b1, b2, he, hb1, hb2⟩ := encode_stitch_long t d h1 h2 h
    refine ⟨[b1, b2], he, Or.inr rfl, ?_⟩
    have := decode_encode_long t ht d h1 h2 b1 b2 hb1 hb2 c pre post
    simpa using this

theorem pec_delta_round_trip_witness :
    PEC_STITCH_TRIM ≠ PEC_STITCH_STOP ∧ (-2048 : Int) ≤ -2048 ∧ (-2048 : Int) ≤ 2047 ∧
    ∃ bytes : List Byte, encode_stitch PEC_STITCH_TRIM (-2048) = some bytes ∧
      (bytes.length = 1 ∨ bytes.length = 2) ∧
      decode_stitch_coordinate ⟨[0xFE, 0xB0, 0x02] ++ bytes ++ [0xFF]⟩ 3 7 PEC_STITCH_NORMAL =
        some (3 + (bytes.length : Int), 7 + -2048, PEC_STITCH_TRIM) :=
  ⟨by decide, by decide, by decide,
    pec_delta_round_trip PEC_STITCH_TRIM (-2048) 7 [0xFE, 0xB0, 0x02] [0xFF] (by decide)
      (by decide) (by decide)⟩


/-! ## Structure of the PEC encoder output -/

theorem both_eq_some {a b : Option (List Byte)} {out : List Byte} :
    both a b = some out ↔ ∃ x y, a = some x ∧ b = some y ∧ out = x ++ y := by
  unfold both
  cases a with
  | none => simp
  | some x =>
    cases b with
    | none => simp
    | some y =>
      simp only [Option.some.injEq]
      constructor
      · intro h; exact ⟨x, y, rfl, rfl, h.symm⟩
      · rintro ⟨x1, y1, rfl, rfl, rfl⟩; rfl

theorem both_some (x y : List Byte) : both (some x) (some y) = some (x ++ y) := rfl

theorem encode_u8_eq_some {v : Int} {out : List Byte} (h : encode_u8 v = some out) :
    ∃ b : Byte, out = [b] ∧ (b.val : Int) = v := by
  unfold encode_u8 at h
  split_ifs at h with hc
  simp only [Option.some.injEq] at h
  exact ⟨byteOfInt v, h.symm, byteOfInt_val v hc.1 (by omega)⟩

theorem encode_u16lsb_eq_some {v : Int} {out : List Byte} (h : encode_u16lsb v = some out) :
    ∃ lo hi : Byte, out = [lo, hi] ∧ (lo.val : Int) + 256 * hi.val = v ∧ 0 ≤ v ∧ v ≤ 0xFFFF := by
  unfold encode_u16lsb at h
  split_ifs at h with hc
  simp only [Option.some.injEq] at h
  refine ⟨byteOfInt v, byteOfInt (v / 256), h.symm, ?_, hc.1, hc.2⟩
  have h1 : ((byteOfInt v).val : Int) = v % 256 := by
    unfold byteOfInt byteOfNat
    simp only []
    omega
  have h2 := byteOfInt_val (v / 256) (by omega) (by omega)
  rw [h1, h2]
  omega

theorem encode_palette_eq_some : ∀ (pal : List Int) (out : List Byte),
    encode_palette pal = some out →
      out.length = pal.length ∧
      ∀ i : Nat, i < pal.length → ∃ b : Byte, out[i]? = some b ∧ some (b.val : Int) = pal[i]?
  | [], out, h => by
    simp only [encode_palette, Option.some.injEq] at h
    subst h
    exact ⟨rfl, fun i hi => absurd hi (by simp)⟩
  | p :: rest, out, h => by
    simp only [encode_palette] at h
    obtain ⟨x, y, hx, hy, rfl⟩ := both_eq_some.1 h
    obtain ⟨b, rfl, hb⟩ := encode_u8_eq_some hx
    obtain ⟨hl, hi⟩ := encode_palette_eq_some rest y hy
    refine ⟨by simp [hl], ?_⟩
    intro i hlt
    cases i with
    | zero => exact ⟨b, by simp, by simp [hb]⟩
    | succ j =>
      obtain ⟨c, hc1, hc2⟩ := hi j (by simpa using hlt)
      exact ⟨c, by simpa using hc1, by simpa using hc2⟩

theorem length_flatMap_const {α β : Type} (f : α → List β) (k : Nat) :
    ∀ l : List α, (∀ a, (f a).length = k) → (l.flatMap f).length = l.length * k
  | [], _ => by simp
  | a :: l, h => by
    simp only [List.flatMap_cons, List.length_append, List.length_cons, h a,
      length_flatMap_const f k l h]
    ring

theorem encode_thumbnail_length (t : pec_thumbnail) :
    ∃ out, encode_thumbnail t = some out ∧ out.length = 228 := by
  refine ⟨_, rfl, ?_⟩
  rw [length_flatMap_const _ 6]
  · simp
  · intro a; simp

theorem encode_thread_thumbnails_length {F : Type} (ops : FloatOps F) (e : pec_encoder F) :
    ∀ (n k : Nat), ∃ out, encode_thread_thumbnails ops e n k = some out ∧ out.length = n * 228
  | 0, _ => ⟨[], rfl, rfl⟩
  | n + 1, k => by
    simp only [encode_thread_thumbnails]
    obtain ⟨a, ha, hla⟩ := encode_thumbnail_length
      (thumbnail_run_lines ops e e.stitch_list.length thumbnail_zero k).1
    obtain ⟨b, hb, hlb⟩ := encode_thread_thumbnails_length ops e n
      ((thumbnail_run_lines ops e e.stitch_list.length thumbnail_zero k).2 + 1)
    rw [ha, hb, both_some]
    refine ⟨_, rfl, ?_⟩
    simp only [List.length_append, hla, hlb]
    ring

theorem encode_thumbnail_list_length {F : Type} (ops : FloatOps F) (e : pec_encoder F) :
    ∃ out, encode_thumbnail_list ops e = some out ∧ out.length = (e.palette.length + 1) * 228 := by
  unfold encode_thumbnail_list
  obtain ⟨a, ha, hla⟩ := encode_thumbnail_length
    (thumbnail_all_lines ops e.bounds thumbnail_zero e.stitch_list)
  obtain ⟨b, hb, hlb⟩ := encode_thread_thumbnails_length ops e e.palette.length 1
  rw [ha, hb, both_some]
  refine ⟨_, rfl, ?_⟩
  simp only [List.length_append, hla, hlb]
  ring

theorem encode_label_eq : encode_label = some
    [76, 65, 58, 32, 32, 32, 32, 32, 32, 32, 32, 32, 32, 32, 32, 32, 32, 32, 32, 13,
     32, 32, 32, 32, 32, 32, 32, 32, 32, 32, 32, 32, 0xFF, 0x00] := by decide

theorem encode_thumbnail_size_eq : encode_thumbnail_size = some [6, 38] := by decide


theorem encode_size_eq_some {F : Type} (ops : FloatOps F) (e : pec_encoder F) (out : List Byte)
    (h : encode_size ops e = some out) : out.length = 12 := by
  unfold encode_size at h
  simp only [] at h
  obtain ⟨x1, y1, h1, hy1, rfl⟩ := both_eq_some.1 h
  obtain ⟨x2, y2, h2, hy2, rfl⟩ := both_eq_some.1 hy1
  obtain ⟨x3, y3, h3, hy3, rfl⟩ := both_eq_some.1 hy2
  obtain ⟨x4, y4, h4, hy4, rfl⟩ := both_eq_some.1 hy3
  obtain ⟨x5, y5, h5, h6, rfl⟩ := both_eq_some.1 hy4
  obtain ⟨_, _, rfl, -⟩ := encode_u16lsb_eq_some h1
  obtain ⟨_, _, rfl, -⟩ := encode_u16lsb_eq_some h2
  obtain ⟨_, _, rfl, -⟩ := encode_u16lsb_eq_some h3
  obtain ⟨_, _, rfl, -⟩ := encode_u16lsb_eq_some h4
  obtain ⟨_, _, rfl, -⟩ := encode_u16lsb_eq_some h5
  obtain ⟨_, _, rfl, -⟩ := encode_u16lsb_eq_some h6
  rfl

theorem spaces12 : ascii "            " = [32, 32, 32, 32, 32, 32, 32, 32, 32, 32, 32, 32] := by
  decide

/-- The shape of every successful pec_encode output. -/
theorem pec_encode_eq_some {F : Type} (ops : FloatOps F) (e : pec_encoder F) (out : List Byte)
    (h : pec_encode ops e = some out) :
    ∃ (cnt lo hi : Byte) (pal sz stream thumbs : List Byte),
      encode_palette e.palette = some pal ∧ encode_size ops e = some sz ∧
      encode_stitch_list ops e = some stream ∧ encode_thumbnail_list ops e = some thumbs ∧
      1 ≤ e.palette.length ∧ e.palette.length ≤ 256 ∧
      (cnt.val : Int) = (e.palette.length : Int) - 1 ∧
      (lo.val : Int) + 256 * hi.val = 20 + stream.length ∧
      out = pec_head ++ ([cnt] ++ (pal ++ (List.replicate (463 - e.palette.length) 32 ++
        ([0, 0, lo, hi, 0x00, 0x31, 0xFF, 0xF0] ++ (sz ++ (stream ++ thumbs)))))) := by
  unfold pec_encode at h
  obtain ⟨x1, y1, h1, hy1, rfl⟩ := both_eq_some.1 h
  obtain ⟨x2, y2, h2, hy2, rfl⟩ := both_eq_some.1 hy1
  obtain ⟨x3, y3, h3, hy3, rfl⟩ := both_eq_some.1 hy2
  obtain ⟨x4, y4, h4, hy4, rfl⟩ := both_eq_some.1 hy3
  obtain ⟨sz, y5, h5, hy5, rfl⟩ := both_eq_some.1 hy4
  obtain ⟨stream, thumbs, h6, h7, rfl⟩ := both_eq_some.1 hy5
  rw [encode_label_eq] at h1
  rw [encode_thumbnail_size_eq] at h2
  simp only [Option.some.injEq] at h1 h2
  subst h1 h2
  -- threads
  unfold encode_threads at h3
  split_ifs at h3 with hc
  simp only [pec_encoder.thread_count, PEC_MAX_THREADS] at hc
  obtain ⟨s12, z1, hs, hz1, rfl⟩ := both_eq_some.1 h3
  obtain ⟨c1, z2, hc1, hz2, rfl⟩ := both_eq_some.1 hz1
  obtain ⟨pal, pad, hpal, hpad, rfl⟩ := both_eq_some.1 hz2
  obtain ⟨cnt, rfl, hcnt⟩ := encode_u8_eq_some hc1
  rw [spaces12] at hs
  simp only [Option.some.injEq] at hs
  subst hs
  unfold encode_padding at hpad
  simp only [Option.some.injEq, pec_encoder.thread_count] at hpad
  have hpadn : ((463 : Int) - e.palette.length).toNat = 463 - e.palette.length := by omega
  rw [hpadn] at hpad
  subst hpad
  -- thumbnail offset
  unfold encode_thumbnail_offset at h4
  rw [h6] at h4
  simp only [] at h4
  split_ifs at h4 with hsz
  obtain ⟨a1, w1, ha1, hw1, rfl⟩ := both_eq_some.1 h4
  obtain ⟨a2, w2, ha2, hw2, rfl⟩ := both_eq_some.1 hw1
  obtain ⟨a3, a4, ha3, ha4, rfl⟩ := both_eq_some.1 hw2
  obtain ⟨lo, hi, rfl, hlohi, -, -⟩ := encode_u16lsb_eq_some ha2
  have e1 : encode_u16lsb 0x0000 = some [0, 0] := by decide
  have e3 : encode_u16lsb 0x3100 = some [0x00, 0x31] := by decide
  have e4 : encode_u16lsb 0xF0FF = some [0xFF, 0xF0] := by decide
  rw [e1] at ha1; rw [e3] at ha3; rw [e4] at ha4
  simp only [Option.some.injEq] at ha1 ha3 ha4
  subst ha1 ha3 ha4
  refine ⟨cnt, lo, hi, pal, sz, stream, thumbs, hpal, h5, h6, h7, by omega, by omega, ?_, hlohi, ?_⟩
  · simp only [pec_encoder.thread_count] at hcnt; exact hcnt
  · simp [pec_head, byteOfInt, byteOfNat]


theorem encode_stitch_list_eq_some {F : Type} (ops : FloatOps F) (e : pec_encoder F)
    (stream : List Byte) (h : encode_stitch_list ops e = some stream) :
    ∃ body, encode_stitch_loop ops e.stitch_list (ops.pec_raw_coordinate e.bounds.min_x)
        (ops.pec_raw_coordinate e.bounds.min_y) 2 = some body ∧ stream = body ++ [0xFF] := by
  unfold encode_stitch_list at h
  obtain ⟨body, y, hb, hy, rfl⟩ := both_eq_some.1 h
  have : encode_u8 0xFF = some [0xFF] := by decide
  rw [this] at hy
  simp only [Option.some.injEq] at hy
  subst hy
  exact ⟨body, hb, rfl⟩

/-- C8. PEC container layout: in every successful pec_encode output, byte 34 is 6 and
byte 35 is 38, byte 48 is thread_count - 1, bytes 49 .. 48 + thread_count are the
palette indices in order, the stitch stream written by encode_stitch_list starts at
offset 532 and ends with 0xFF, 512 + u16le(514) is the offset right after the stream,
and the total length is that offset plus (thread_count + 1) * 228 thumbnail bytes. -/
theorem pec_container_layout {F : Type} (ops : FloatOps F) (e : pec_encoder F) (out : List Byte)
    (h : pec_encode ops e = some out) :
    out[34]? = some 6 ∧ out[35]? = some 38 ∧
    (∃ b : Byte, out[48]? = some b ∧ (b.val : Int) = e.thread_count - 1) ∧
    (∀ i : Nat, i < e.palette.length →
      ∃ b : Byte, out[49 + i]? = some b ∧ some (b.val : Int) = e.palette[i]?) ∧
    ∃ stream thumbs : List Byte,
      encode_stitch_list ops e = some stream ∧
      out = out.take 532 ++ stream ++ thumbs ∧ (out.take 532).length = 532 ∧
      stream.getLast? = some 0xFF ∧
      (∃ lo hi : Byte, out[514]? = some lo ∧ out[515]? = some hi ∧
        512 + ((lo.val : Int) + 256 * hi.val) = 532 + stream.length) ∧
      thumbs.length = (e.palette.length + 1) * 228 ∧
      (out.length : Int) = 532 + stream.length + (e.thread_count + 1) * 228 := by
  obtain ⟨cnt, lo, hi, pal, sz, stream, thumbs, hpal, hsz, hstream, hthumbs, hn1, hn2, hcnt,
    hlohi, rfl⟩ := pec_encode_eq_some ops e out h
  obtain ⟨hpl, hpi⟩ := encode_palette_eq_some e.palette pal hpal
  have hszl := encode_size_eq_some ops e sz hsz
  obtain ⟨th2, hth2, hthl⟩ := encode_thumbnail_list_length ops e
  rw [hthumbs] at hth2
  simp only [Option.some.injEq] at hth2
  subst hth2
  obtain ⟨body, -, hbody⟩ := encode_stitch_list_eq_some ops e stream hstream
  have hhead : pec_head.length = 48 := rfl
  refine ⟨?_, ?_, ⟨cnt, ?_, ?_⟩, ?_, ?_⟩
  · rw [List.getElem?_append_left (by rw [hhead]; decide)]; rfl
  · rw [List.getElem?_append_left (by rw [hhead]; decide)]; rfl
  · rw [List.getElem?_append_right (by rw [hhead])]; simp [hhead]
  · simp only [pec_encoder.thread_count]; exact hcnt
  · intro i hi
    obtain ⟨b, hb1, hb2⟩ := hpi i hi
    refine ⟨b, ?_, hb2⟩
    rw [List.getElem?_append_right (by rw [hhead]; omega), hhead]
    have e1 : 49 + i - 48 = i + 1 := by omega
    rw [e1, List.singleton_append, List.getElem?_cons_succ,
      List.getElem?_append_left (by omega)]
    exact hb1
  · -- the first 532 bytes
    have hsplit : pec_head ++ ([cnt] ++ (pal ++ (List.replicate (463 - e.palette.length) 32 ++
        ([0, 0, lo, hi, 0x00, 0x31, 0xFF, 0xF0] ++ (sz ++ (stream ++ thumbs)))))) =
        (pec_head ++ ([cnt] ++ (pal ++ List.replicate (463 - e.palette.length) 32))) ++
        ([0, 0, lo, hi, 0x00, 0x31, 0xFF, 0xF0] ++ (sz ++ (stream ++ thumbs))) := by
      simp only [List.append_assoc]
    have hP : (pec_head ++ ([cnt] ++ (pal ++
        List.replicate (463 - e.palette.length) (32 : Byte)))).length = 512 := by
      simp only [List.length_append, hhead, List.length_singleton, hpl, List.length_replicate]
      omega
    have hsplit2 : pec_head ++ ([cnt] ++ (pal ++ (List.replicate (463 - e.palette.length) 32 ++
        ([0, 0, lo, hi, 0x00, 0x31, 0xFF, 0xF0] ++ (sz ++ (stream ++ thumbs)))))) =
        ((pec_head ++ ([cnt] ++ (pal ++ List.replicate (463 - e.palette.length) 32))) ++
        ([0, 0, lo, hi, 0x00, 0x31, 0xFF, 0xF0] ++ sz)) ++ (stream ++ thumbs) := by
      simp only [List.append_assoc]
    have hQ : ((pec_head ++ ([cnt] ++ (pal ++
        List.replicate (463 - e.palette.length) (32 : Byte)))) ++
        ([0, 0, lo, hi, 0x00, 0x31, 0xFF, 0xF0] ++ sz)).length = 532 := by
      rw [List.length_append, hP]
      simp only [List.length_append, List.length_cons, List.length_nil, hszl]
    refine ⟨stream, thumbs, hstream, ?_, ?_, ?_, ⟨lo, hi, ?_, ?_, ?_⟩, hthl, ?_⟩
    · rw [hsplit2, List.take_append_of_le_length (by rw [hQ]), List.take_of_length_le (by rw [hQ])]
      simp only [List.append_assoc]
    · rw [hsplit2, List.take_append_of_le_length (by rw [hQ]), List.take_of_length_le (by rw [hQ])]
      exact hQ
    · rw [hbody]; simp
    · rw [hsplit, List.getElem?_append_right (by rw [hP]; decide), hP]; rfl
    · rw [hsplit, List.getElem?_append_right (by rw [hP]; decide), hP]; rfl
    · omega
    · rw [hsplit2, List.length_append, hQ, List.length_append, hthl]
      simp only [pec_encoder.thread_count]
      push_cast
      ring


/-- Reading back the two-byte form, from a kind that is Normal or already the written one. -/
theorem decode_encode_long_from (t t0 : pec_stitch_type) (ht : t ≠ PEC_STITCH_STOP)
    (ht0 : t0 = PEC_STITCH_NORMAL ∨ t0 = t) (d : Int)
    (h1 : -0x800 ≤ d) (h2 : d ≤ 0x7FF) (b1 b2 : Byte)
    (hb1 : b1.val = (d / 256 % 16).toNat ||| 0x80 ||| kind_bits t)
    (hb2 : (b2.val : Int) = d % 256) (c : Int) (pre post : List Byte) :
    decode_stitch_coordinate ⟨pre ++ b1 :: b2 :: post⟩ pre.length c t0 =
      some ((pre.length : Int) + 2, c + d, t) ∧ b1.val < 0xFE := by
  obtain ⟨k, hk, hk2, hk1⟩ := kind_bits_cases t
  have hhi : (d / 256 % 16).toNat < 16 := by omega
  have hu := (two_byte_head ⟨(d / 256 % 16).toNat, hhi⟩ k).1
  obtain ⟨g7, g4, g5, glo⟩ := two_byte_head_bits ⟨(d / 256 % 16).toNat, hhi⟩ k
  simp only [] at hu g7 g4 g5 glo
  rw [hk, hu] at hb1
  rw [← hb1] at g7 g4 g5 glo
  refine ⟨?_, by have := k.isLt; omega⟩
  rw [decode_coordinate_long ⟨pre ++ b1 :: b2 :: post⟩ pre.length c t0 (by omega)
    b1 b2 (by simp only [Int.toNat_ofNat]; exact getElem?_mid pre (b2 :: post) b1)
    (by simp only [Int.toNat_ofNat]; exact getElem?_mid_succ pre post b1 b2) g7]
  have hval : (if (b1.val % 16) * 256 + b2.val < 2048
      then (((b1.val % 16) * 256 + b2.val : Nat) : Int)
      else (((b1.val % 16) * 256 + b2.val : Nat) : Int) - 4096) = d := by
    rw [glo]
    split_ifs <;> omega
  have hkind : (if b1.val.testBit 4 = true then PEC_STITCH_JUMP
      else if b1.val.testBit 5 = true then PEC_STITCH_TRIM else t0) = t := by
    cases t
    · have n1 : ¬ k.val = 1 := fun e => by have := hk1.1 e; cases this
      have n2 : ¬ k.val = 2 := fun e => by have := hk2.1 e; cases this
      rw [if_neg (fun e => n1 (g4.1 e)), if_neg (fun e => n2 (g5.1 e))]
      rcases ht0 with h | h <;> exact h
    · rw [if_pos (g4.2 (hk1.2 rfl))]
    · have n1 : ¬ k.val = 1 := fun e => by have := hk1.1 e; cases this
      rw [if_neg (fun e => n1 (g4.1 e)), if_pos (g5.2 (hk2.2 rfl))]
    · exact absurd rfl ht
  rw [hval, hkind]

/-- Every successful encode_stitch output starts with a byte that is no command
byte, and is read back in place as the delta and the kind written. -/
theorem encode_stitch_decode (t : pec_stitch_type) (ht : t ≠ PEC_STITCH_STOP) (d : Int)
    (bytes : List Byte) (h : encode_stitch t d = some bytes) :
    ∃ (b : Byte) (rest : List Byte), bytes = b :: rest ∧ b.val < 0xFE ∧
      ∀ (pre post : List Byte) (c : Int) (t0 : pec_stitch_type),
        (t0 = PEC_STITCH_NORMAL ∨ t0 = t) →
        decode_stitch_coordinate ⟨pre ++ bytes ++ post⟩ pre.length c t0 =
          some ((pre.length : Int) + bytes.length, c + d, t) := by
  have hr : -0x800 ≤ d ∧ d ≤ 0x7FF := by
    by_contra hc
    unfold encode_stitch at h
    rw [if_pos (by omega)] at h
    cases h
  by_cases hs : t = PEC_STITCH_NORMAL ∧ -0x40 ≤ d ∧ d ≤ 0x3F
  · obtain ⟨rfl, h3, h4⟩ := hs
    obtain ⟨b, hb, hv, hlt⟩ := encode_stitch_short d h3 h4
    rw [hb] at h
    simp only [Option.some.injEq] at h
    subst h
    refine ⟨b, [], rfl, by omega, ?_⟩
    intro pre post c t0 ht0
    have ht0n : t0 = PEC_STITCH_NORMAL := by rcases ht0 with h | h <;> exact h
    subst ht0n
    have := decode_encode_short d h3 h4 b hv c PEC_STITCH_NORMAL pre post
    simpa using this
  · obtain ⟨b1, b2, he, hb1, hb2⟩ := encode_stitch_long t d hr.1 hr.2 hs
    rw [he] at h
    simp only [Option.some.injEq] at h
    subst h
    obtain ⟨-, hlt⟩ := decode_encode_long_from t t ht (Or.inr rfl) d hr.1 hr.2 b1 b2 hb1 hb2 0 [] []
    refine ⟨b1, [b2], rfl, hlt, ?_⟩
    intro pre post c t0 ht0
    have := (decode_encode_long_from t t0 ht ht0 d hr.1 hr.2 b1 b2 hb1 hb2 c pre post).1
    simpa using this


theorem encode_stitch_loop_length {F : Type} (ops : FloatOps F) :
    ∀ (stitches : List (pec_stitch F)) (x y stop : Int) (body : List Byte),
      encode_stitch_loop ops stitches x y stop = some body → stitches.length ≤ body.length
  | [], _, _, _, body, _ => by simp
  | s :: rest, x, y, stop, body, h => by
    simp only [encode_stitch_loop] at h
    split_ifs at h with hs
    · obtain ⟨a, rb, ha, hrb, rfl⟩ := both_eq_some.1 h
      obtain ⟨a1, a2, ha1, ha2, rfl⟩ := both_eq_some.1 ha
      obtain ⟨_, _, rfl, -⟩ := encode_u16lsb_eq_some ha1
      have := encode_stitch_loop_length ops rest _ _ _ rb hrb
      simp only [List.length_append, List.length_cons, List.length_nil]
      omega
    · obtain ⟨a, rb, ha, hrb, rfl⟩ := both_eq_some.1 h
      obtain ⟨a1, a2, ha1, ha2, rfl⟩ := both_eq_some.1 ha
      obtain ⟨b, r1, rfl, -⟩ := encode_stitch_decode s.type hs _ a1 ha1
      have := encode_stitch_loop_length ops rest _ _ _ rb hrb
      simp only [List.length_append, List.length_cons]
      omega

/-- The decoder loop run on an encoded stitch list, for a callback that accepts every
stitch: it succeeds and has invoked the callback on the expected stitches, in order. -/
theorem stitch_foreach_loop_encoded {F σ : Type} (ops : FloatOps F)
    (cb : pec_stitch_callback F σ) (f : σ → stitch_event F → σ)
    (hcb : ∀ s i x y t, cb s i x y t = (f s ⟨i, x, y, t⟩, true)) (x0 y0 : Int) :
    ∀ (stitches : List (pec_stitch F)) (x y stop : Int) (body : List Byte),
      encode_stitch_loop ops stitches x y stop = some body →
      ∀ (pre post : List Byte) (fuel : Nat), stitches.length < fuel →
      ∀ (i : Int) (arg : σ),
        stitch_foreach_loop ops ⟨pre ++ body ++ 0xFF :: post⟩ cb fuel i pre.length
          (x - x0) (y - y0) arg =
        ((pec_reported ops x0 y0 stitches i x y).foldl f arg, true)
  | [], x, y, stop, body, h, pre, post, fuel, hf, i, arg => by
    simp only [encode_stitch_loop, Option.some.injEq] at h
    subst h
    obtain ⟨n, rfl⟩ : ∃ n, fuel = n + 1 := ⟨fuel - 1, by simp at hf; omega⟩
    simp only [stitch_foreach_loop, List.append_nil, decode_u8_at, pec_reported, List.foldl_nil]
    rfl
  | s :: rest, x, y, stop, body, h, pre, post, fuel, hf, i, arg => by
    obtain ⟨n, rfl⟩ : ∃ n, fuel = n + 1 := ⟨fuel - 1, by simp at hf; omega⟩
    have hn : rest.length < n := by simp at hf; omega
    simp only [encode_stitch_loop] at h
    split_ifs at h with hs
    · -- a Stop
      obtain ⟨a, rb, ha, hrb, rfl⟩ := both_eq_some.1 h
      obtain ⟨a1, a2, ha1, ha2, rfl⟩ := both_eq_some.1 ha
      have e1 : encode_u16lsb 0xB0FE = some [0xFE, 0xB0] := by decide
      rw [e1] at ha1
      simp only [Option.some.injEq] at ha1
      subst ha1
      obtain ⟨sb, rfl, -⟩ := encode_u8_eq_some ha2
      have ih := stitch_foreach_loop_encoded ops cb f hcb x0 y0 rest x y (3 - stop) rb hrb
        (pre ++ [0xFE, 0xB0, sb]) post n hn (i + 1) (f arg ⟨i, ops.pec_physical_coordinate (x - x0),
          ops.pec_physical_coordinate (y - y0), PEC_STITCH_STOP⟩)
      have hd : pre ++ ([0xFE, 0xB0] ++ [sb] ++ rb) ++ 0xFF :: post =
          pre ++ 0xFE :: ([0xB0, sb] ++ rb ++ 0xFF :: post) := by simp
      have hd2 : pre ++ [0xFE, 0xB0, sb] ++ rb ++ 0xFF :: post =
          pre ++ 0xFE :: ([0xB0, sb] ++ rb ++ 0xFF :: post) := by simp
      rw [hd2] at ih
      rw [hd]
      simp only [stitch_foreach_loop, decode_u8_at, hcb, pec_reported, hs, if_true,
        List.foldl_cons]
      have c1 : ¬ ((0xFE : Byte).val = 0xFF) := by decide
      have c2 : ((0xFE : Byte).val = 0xFE) := by decide
      rw [if_neg c1, if_pos c2]
      simp only [if_false, Bool.true_eq_false]
      have e3 : ((pre ++ [0xFE, 0xB0, sb]).length : Int) = (pre.length : Int) + 3 := by
        simp
      rw [e3] at ih
      exact ih
    · -- a stitch with coordinates
      obtain ⟨a, rb, ha, hrb, rfl⟩ := both_eq_some.1 h
      obtain ⟨bx, bY, hbx, hbY, rfl⟩ := both_eq_some.1 ha
      obtain ⟨b, rx, hbxe, hblt, hdx⟩ := encode_stitch_decode s.type hs _ bx hbx
      obtain ⟨-, -, -, -, hdy⟩ := encode_stitch_decode s.type hs _ bY hbY
      have ih := stitch_foreach_loop_encoded ops cb f hcb x0 y0 rest
        (ops.pec_raw_coordinate s.x) (ops.pec_raw_coordinate s.y) stop rb hrb
        (pre ++ bx ++ bY) post n hn (i + 1)
        (f arg ⟨i, ops.pec_physical_coordinate (ops.pec_raw_coordinate s.x - x0),
          ops.pec_physical_coordinate (ops.pec_raw_coordinate s.y - y0), s.type⟩)
      have hd0 : pre ++ (bx ++ bY ++ rb) ++ 0xFF :: post =
          pre ++ b :: (rx ++ bY ++ rb ++ 0xFF :: post) := by rw [hbxe]; simp
      have hd1 : pre ++ (bx ++ bY ++ rb) ++ 0xFF :: post =
          pre ++ bx ++ (bY ++ rb ++ 0xFF :: post) := by simp
      have hd2 : pre ++ (bx ++ bY ++ rb) ++ 0xFF :: post =
          (pre ++ bx) ++ bY ++ (rb ++ 0xFF :: post) := by simp
      have hd3 : pre ++ (bx ++ bY ++ rb) ++ 0xFF :: post =
          pre ++ bx ++ bY ++ rb ++ 0xFF :: post := by simp
      have hx := hdx pre (bY ++ rb ++ 0xFF :: post) (x - x0) PEC_STITCH_NORMAL (Or.inl rfl)
      have hy := hdy (pre ++ bx) (rb ++ 0xFF :: post) (y - y0) s.type (Or.inr rfl)
      rw [← hd1] at hx
      rw [← hd2] at hy
      rw [← hd3] at ih
      have hu : decode_u8 ⟨pre ++ (bx ++ bY ++ rb) ++ 0xFF :: post⟩ pre.length = some b.val := by
        rw [hd0]; exact decode_u8_at _ _ _
      have el : ((pre ++ bx).length : Int) = (pre.length : Int) + bx.length := by simp
      rw [el] at hy
      have ex : x - x0 + (ops.pec_raw_coordinate s.x - x) = ops.pec_raw_coordinate s.x - x0 := by
        omega
      have ey : y - y0 + (ops.pec_raw_coordinate s.y - y) = ops.pec_raw_coordinate s.y - y0 := by
        omega
      rw [ex] at hx
      rw [ey] at hy
      have el2 : ((pre ++ bx ++ bY).length : Int) = (pre.length : Int) + bx.length + bY.length := by
        simp only [List.length_append]; push_cast; ring
      rw [el2] at ih
      simp only [stitch_foreach_loop, hu, hx, hy, hcb, pec_reported, hs, if_false,
        List.foldl_cons]
      rw [if_neg (by omega), if_neg (by omega)]
      simp only [if_false, Bool.true_eq_false]
      exact ih


/-- Every successful pec_encode output is 532 bytes of header, the stitch stream
and the thumbnails. -/
theorem pec_encode_split {F : Type} (ops : FloatOps F) (e : pec_encoder F) (out : List Byte)
    (h : pec_encode ops e = some out) :
    ∃ pre stream thumbs : List Byte, out = pre ++ stream ++ thumbs ∧ pre.length = 532 ∧
      encode_stitch_list ops e = some stream ∧
      thumbs.length = (e.palette.length + 1) * 228 ∧
      1 ≤ e.palette.length ∧ e.palette.length ≤ 256 ∧ 20 + stream.length ≤ 0xFFFF := by
  obtain ⟨cnt, lo, hi, pal, sz, stream, thumbs, hpal, hsz, hstream, hthumbs, hn1, hn2, hcnt,
    hlohi, rfl⟩ := pec_encode_eq_some ops e out h
  obtain ⟨hpl, -⟩ := encode_palette_eq_some e.palette pal hpal
  have hszl := encode_size_eq_some ops e sz hsz
  obtain ⟨th2, hth2, hthl⟩ := encode_thumbnail_list_length ops e
  rw [hthumbs] at hth2
  simp only [Option.some.injEq] at hth2
  subst hth2
  refine ⟨(pec_head ++ ([cnt] ++ (pal ++ List.replicate (463 - e.palette.length) 32))) ++
        ([0, 0, lo, hi, 0x00, 0x31, 0xFF, 0xF0] ++ sz), stream, thumbs, ?_, ?_, hstream, hthl,
        hn1, hn2, ?_⟩
  · simp only [List.append_assoc]
  · have hhead : pec_head.length = 48 := rfl
    simp only [List.length_append, hhead, List.length_singleton, hpl, List.length_replicate,
      List.length_cons, List.length_nil, hszl]
    omega
  · have h1 := lo.isLt
    have h2 := hi.isLt
    omega

theorem foldl_record {F : Type} (evs : List (stitch_event F)) :
    ∀ init : List (stitch_event F),
      evs.foldl (fun log ev => log ++ [ev]) init = init ++ evs := by
  induction evs with
  | nil => intro init; simp
  | cons a l ih => intro init; simp [ih]

theorem foldl_count {F : Type} (evs : List (stitch_event F)) :
    ∀ init : Int, evs.foldl (fun c _ => c + 1) init = init + evs.length := by
  induction evs with
  | nil => intro init; simp
  | cons a l ih =>
    intro init
    simp only [List.foldl_cons, ih, List.length_cons]
    push_cast
    ring

theorem pec_reported_spec {F : Type} (ops : FloatOps F) (x0 y0 : Int) :
    ∀ (stitches : List (pec_stitch F)) (i0 x y : Int),
      (pec_reported ops x0 y0 stitches i0 x y).length = stitches.length ∧
      ∀ j : Nat, ∀ s : pec_stitch F, stitches[j]? = some s →
        ∃ ev : stitch_event F, (pec_reported ops x0 y0 stitches i0 x y)[j]? = some ev ∧
          ev.stitch_index = i0 + j ∧ ev.stitch_type = s.type ∧
          (s.type ≠ PEC_STITCH_STOP →
            ev.x = ops.pec_physical_coordinate (ops.pec_raw_coordinate s.x - x0) ∧
            ev.y = ops.pec_physical_coordinate (ops.pec_raw_coordinate s.y - y0))
  | [], _, _, _ => ⟨rfl, fun j s h => by simp at h⟩
  | a :: rest, i0, x, y => by
    by_cases hs : a.type = PEC_STITCH_STOP
    · obtain ⟨hl, hj⟩ := pec_reported_spec ops x0 y0 rest (i0 + 1) x y
      simp only [pec_reported, hs, if_true, List.length_cons, hl, true_and]
      intro j s hjs
      cases j with
      | zero =>
        simp only [List.getElem?_cons_zero, Option.some.injEq] at hjs
        subst hjs
        refine ⟨_, List.getElem?_cons_zero, ?_, ?_, ?_⟩
        · simp
        · exact hs.symm
        · intro hne; exact absurd hs hne
      | succ k =>
        simp only [List.getElem?_cons_succ] at hjs
        obtain ⟨ev, h1, h2, h3⟩ := hj k s hjs
        refine ⟨ev, by simpa using h1, ?_, h3⟩
        rw [h2]; push_cast; ring
    · obtain ⟨hl, hj⟩ := pec_reported_spec ops x0 y0 rest (i0 + 1) (ops.pec_raw_coordinate a.x)
        (ops.pec_raw_coordinate a.y)
      simp only [pec_reported, hs, if_false, List.length_cons, hl, true_and]
      intro j s hjs
      cases j with
      | zero =>
        simp only [List.getElem?_cons_zero, Option.some.injEq] at hjs
        subst hjs
        refine ⟨_, List.getElem?_cons_zero, ?_, rfl, fun _ => ⟨rfl, rfl⟩⟩
        simp
      | succ k =>
        simp only [List.getElem?_cons_succ] at hjs
        obtain ⟨ev, h1, h2, h3⟩ := hj k s hjs
        refine ⟨ev, by simpa using h1, ?_, h3⟩
        rw [h2]; push_cast; ring

/-- The iteration of the decoder over a successful pec_encode output, for a callback
that accepts every stitch. -/
theorem pec_stitch_foreach_encoded {F σ : Type} (ops : FloatOps F) (e : pec_encoder F)
    (out : List Byte) (h : pec_encode ops e = some out)
    (cb : pec_stitch_callback F σ) (f : σ → stitch_event F → σ)
    (hcb : ∀ s i x y t, cb s i x y t = (f s ⟨i, x, y, t⟩, true)) (arg : σ) :
    pec_decoder_init out = some ⟨out⟩ ∧
    pec_stitch_foreach ops ⟨out⟩ cb arg =
      ((pec_reported ops (ops.pec_raw_coordinate e.bounds.min_x)
        (ops.pec_raw_coordinate e.bounds.min_y) e.stitch_list 0
        (ops.pec_raw_coordinate e.bounds.min_x)
        (ops.pec_raw_coordinate e.bounds.min_y)).foldl f arg, true) := by
  obtain ⟨pre, stream, thumbs, rfl, hpre, hstream, hthl, hn1, hn2, hsl⟩ :=
    pec_encode_split ops e out h
  obtain ⟨body, hbody, rfl⟩ := encode_stitch_list_eq_some ops e stream hstream
  have hlen := encode_stitch_loop_length ops e.stitch_list _ _ _ body hbody
  constructor
  · unfold pec_decoder_init
    have : ¬ (((pre ++ (body ++ [0xFF]) ++ thumbs).length : Int) < 534 ∨
        (2147483647 / 2 : Int) < (pre ++ (body ++ [0xFF]) ++ thumbs).length) := by
      simp only [List.length_append, hpre, hthl, List.length_cons, List.length_nil] at hsl ⊢
      push_cast
      omega
    rw [if_neg this]
  · unfold pec_stitch_foreach
    have hd : pre ++ (body ++ [0xFF]) ++ thumbs = pre ++ body ++ 0xFF :: thumbs := by simp
    have key := stitch_foreach_loop_encoded ops cb f hcb (ops.pec_raw_coordinate e.bounds.min_x)
      (ops.pec_raw_coordinate e.bounds.min_y) e.stitch_list
      (ops.pec_raw_coordinate e.bounds.min_x) (ops.pec_raw_coordinate e.bounds.min_y) 2 body hbody
      pre thumbs ((pre ++ body ++ 0xFF :: thumbs).length + 1)
      (by simp only [List.length_append]; omega) 0 arg
    rw [hpre] at key
    simp only [sub_self] at key
    simp only [hd]
    exact key

/-- C2. PEC stitch-stream round trip: when pec_encode succeeds, pec_decoder_init accepts
the output and pec_stitch_foreach succeeds on it; the callback is invoked once per entry of
the encoder's stitch list, in order, with indices 0, 1, 2, ... and the entry's kind; every
stitch that is no Stop is reported at its raw coordinates minus the raw minimum-bounds
corner (converted by pec_physical_coordinate); and pec_stitch_count is the encoder's
stitch count. -/
theorem pec_stitch_stream_round_trip {F : Type} (ops : FloatOps F) (e : pec_encoder F)
    (out : List Byte) (h : pec_encode ops e = some out) :
    ∃ (decoder : pec_decoder) (events : List (stitch_event F)),
      pec_decoder_init out = some decoder ∧
      pec_stitch_foreach ops decoder record_stitch [] = (events, true) ∧
      events.length = e.stitch_list.length ∧
      (∀ (i : Nat) (s : pec_stitch F), e.stitch_list[i]? = some s →
        ∃ ev : stitch_event F, events[i]? = some ev ∧
          ev.stitch_index = i ∧ ev.stitch_type = s.type ∧
          (s.type ≠ PEC_STITCH_STOP →
            ev.x = ops.pec_physical_coordinate
              (ops.pec_raw_coordinate s.x - ops.pec_raw_coordinate e.bounds.min_x) ∧
            ev.y = ops.pec_physical_coordinate
              (ops.pec_raw_coordinate s.y - ops.pec_raw_coordinate e.bounds.min_y))) ∧
      pec_stitch_count ops decoder = e.stitch_count := by
  obtain ⟨hinit, hrec⟩ := pec_stitch_foreach_encoded ops e out h record_stitch
    (fun log ev => log ++ [ev]) (fun _ _ _ _ _ => rfl) []
  obtain ⟨-, hcnt⟩ := pec_stitch_foreach_encoded ops e out h stitch_count
    (fun c _ => c + 1) (fun _ _ _ _ _ => rfl) 0
  obtain ⟨hl, hj⟩ := pec_reported_spec ops (ops.pec_raw_coordinate e.bounds.min_x)
    (ops.pec_raw_coordinate e.bounds.min_y) e.stitch_list 0
    (ops.pec_raw_coordinate e.bounds.min_x) (ops.pec_raw_coordinate e.bounds.min_y)
  rw [foldl_record, List.nil_append] at hrec
  rw [foldl_count, hl] at hcnt
  refine ⟨⟨out⟩, _, hinit, hrec, hl, ?_, ?_⟩
  · intro i s his
    obtain ⟨ev, h1, h2, h3⟩ := hj i s his
    exact ⟨ev, h1, by simpa using h2, h3⟩
  · unfold pec_stitch_count pec_encoder.stitch_count
    rw [hcnt]
    simp

theorem pec_stitch_stream_round_trip_witness :
    ∃ (out : List Byte) (decoder : pec_decoder) (events : List (stitch_event Int)),
      pec_encode gridOps sample_pec_encoder = some out ∧
      pec_decoder_init out = some decoder ∧
      pec_stitch_foreach gridOps decoder record_stitch [] = (events, true) ∧
      events.length = 2 ∧
      pec_stitch_count gridOps decoder = 2 := by
  obtain ⟨out, h⟩ := Option.isSome_iff_exists.1
    (by decide : (pec_encode gridOps sample_pec_encoder).isSome = true)
  obtain ⟨decoder, events, h1, h2, h3, -, h5⟩ :=
    pec_stitch_stream_round_trip gridOps sample_pec_encoder out h
  exact ⟨out, decoder, events, h, h1, h2, h3, h5⟩

theorem pec_container_layout_witness :
    ∃ out : List Byte, pec_encode gridOps sample_pec_encoder = some out ∧
      out[34]? = some 6 ∧ out[35]? = some 38 ∧ out.drop 532 ≠ [] ∧
      (out.length : Int) = 532 + 7 + (1 + 1) * 228 := by
  obtain ⟨out, h⟩ := Option.isSome_iff_exists.1
    (by decide : (pec_encode gridOps sample_pec_encoder).isSome = true)
  obtain ⟨h1, h2, -, -, stream, thumbs, h3, h4, h5, h6, -, -, h7⟩ :=
    pec_container_layout gridOps sample_pec_encoder out h
  have hs : encode_stitch_list gridOps sample_pec_encoder =
      some [0, 0, 0x80, 100, 0x80, 70, 0xFF] := by decide
  rw [hs] at h3
  simp only [Option.some.injEq] at h3
  subst h3
  refine ⟨out, h, h1, h2, ?_, ?_⟩
  · intro hd
    have : out.length ≤ 532 := List.drop_eq_nil_iff.1 hd
    simp only [pec_encoder.thread_count] at h7
    omega
  · simpa [pec_encoder.thread_count, sample_pec_encoder] using h7

end Libpes

namespace Libpes
open pec_stitch_type Pec PesEncoder PesDecoder

/-! ## Structure of the PES version 1 output -/

theorem byteOfInt_val_mod (v : Int) : ((byteOfInt v).val : Int) = v % 256 := by
  unfold byteOfInt byteOfNat
  simp only []
  omega

theorem pes_u16_eq_some {v : Int} {out : List Byte} (h : PesEncoder.encode_u16lsb v = some out) :
    ∃ lo hi : Byte, out = [lo, hi] ∧ (lo.val : Int) + 256 * hi.val = v ∧ 0 ≤ v ∧ v ≤ 0xFFFF := by
  unfold PesEncoder.encode_u16lsb at h
  split_ifs at h with hc
  simp only [Option.some.injEq] at h
  refine ⟨byteOfInt v, byteOfInt (v / 256), h.symm, ?_, hc.1, hc.2⟩
  rw [byteOfInt_val_mod, byteOfInt_val_mod]
  omega

theorem pes_i16_eq_some {v : Int} {out : List Byte} (h : PesEncoder.encode_i16lsb v = some out) :
    ∃ lo hi : Byte, out = [lo, hi] ∧ (lo.val : Int) + 256 * hi.val = v % 0x10000 ∧
      -0x8000 ≤ v ∧ v ≤ 0x7FFF := by
  unfold PesEncoder.encode_i16lsb at h
  split_ifs at h with hc
  obtain ⟨lo, hi, h1, h2, -, -⟩ := pes_u16_eq_some h
  exact ⟨lo, hi, h1, h2, hc.1, hc.2⟩

theorem pes_i32_eq (v : Int) (h0 : 0 ≤ v) (h1 : v ≤ 2147483647) :
    ∃ p0 p1 p2 p3 : Byte, PesEncoder.encode_i32lsb v = some [p0, p1, p2, p3] ∧
      (p0.val : Int) + 256 * p1.val + 65536 * p2.val + 16777216 * p3.val = v := by
  refine ⟨_, _, _, _, rfl, ?_⟩
  rw [byteOfInt_val_mod, byteOfInt_val_mod, byteOfInt_val_mod, byteOfInt_val_mod]
  omega

/-- The shape of every successful pes_encode1 output. -/
theorem pes_encode1_eq_some {F : Type} (ops : FloatOps F) (e : pes_encoder F) (out : List Byte)
    (h : pes_encode1 ops e = some out) :
    ∃ (p0 p1 p2 p3 : Byte) (sections pec : List Byte),
      encode_sections14 ops e = some sections ∧ PecEncoder.pec_encode ops e.pec_encoder = some pec ∧
      (p0.val : Int) + 256 * p1.val + 65536 * p2.val + 16777216 * p3.val =
        22 + sections.length ∧
      out = [35, 80, 69, 83, 48, 48, 48, 49, p0, p1, p2, p3,
             0, 0, 1, 0, 1, 0, 0xFF, 0xFF, 0, 0] ++ (sections ++ pec) := by
  unfold pes_encode1 at h
  obtain ⟨x1, y1, h1, hy1, rfl⟩ := both_eq_some.1 h
  obtain ⟨x2, y2, h2, hy2, rfl⟩ := both_eq_some.1 hy1
  obtain ⟨x3, y3, h3, hy3, rfl⟩ := both_eq_some.1 hy2
  obtain ⟨x4, y4, h4, hy4, rfl⟩ := both_eq_some.1 hy3
  obtain ⟨x5, y5, h5, hy5, rfl⟩ := both_eq_some.1 hy4
  obtain ⟨x6, y6, h6, hy6, rfl⟩ := both_eq_some.1 hy5
  obtain ⟨x7, y7, h7, hy7, rfl⟩ := both_eq_some.1 hy6
  obtain ⟨sections, pec, hs, hp, rfl⟩ := both_eq_some.1 hy7
  have e1 : ascii "#PES0001" = [35, 80, 69, 83, 48, 48, 48, 49] := by decide
  have c0 : PesEncoder.encode_u16lsb 0x0000 = some [0, 0] := by decide
  have c1 : PesEncoder.encode_u16lsb 0x0001 = some [1, 0] := by decide
  have cf : PesEncoder.encode_u16lsb 0xFFFF = some [0xFF, 0xFF] := by decide
  rw [e1] at h1
  rw [c0] at h3 h7
  rw [c1] at h4 h5
  rw [cf] at h6
  simp only [Option.some.injEq] at h1 h3 h4 h5 h6 h7
  subst h1 h3 h4 h5 h6 h7
  unfold encode_pec_offset1 at h2
  rw [hs] at h2
  simp only [] at h2
  split_ifs at h2 with hc
  obtain ⟨p0, p1, p2, p3, hp4, hv⟩ := pes_i32_eq (22 + sections.length) (by omega) hc
  rw [hp4] at h2
  simp only [Option.some.injEq] at h2
  subst h2
  exact ⟨p0, p1, p2, p3, sections, pec, hs, hp, hv, by simp⟩

/-- C7. PES v1 pec_offset is exact: every successful pes_encode1 output is the 8 bytes
"#PES0001", the 32-bit little-endian value P, 10 bytes of constants, the CEmbOne and
CSewSeg sections written by encode_sections14, and the companion PEC payload written by
pec_encode; P is 22 plus the length of the sections, so the suffix of the output from
byte offset P on is exactly the PEC payload. -/
theorem pes_pec_offset_exact {F : Type} (ops : FloatOps F) (e : pes_encoder F)
    (out : List Byte) (h : pes_encode1 ops e = some out) :
    ∃ (p0 p1 p2 p3 : Byte) (sections pec : List Byte),
      encode_sections14 ops e = some sections ∧
      PecEncoder.pec_encode ops e.pec_encoder = some pec ∧
      out = ascii "#PES0001" ++ [p0, p1, p2, p3] ++ [0, 0, 1, 0, 1, 0, 0xFF, 0xFF, 0, 0] ++
        sections ++ pec ∧
      (p0.val : Int) + 256 * p1.val + 65536 * p2.val + 16777216 * p3.val =
        22 + sections.length ∧
      out.drop (p0.val + 256 * p1.val + 65536 * p2.val + 16777216 * p3.val) = pec := by
  obtain ⟨p0, p1, p2, p3, sections, pec, hs, hp, hv, rfl⟩ := pes_encode1_eq_some ops e out h
  refine ⟨p0, p1, p2, p3, sections, pec, hs, hp, ?_, hv, ?_⟩
  · have e1 : ascii "#PES0001" = [35, 80, 69, 83, 48, 48, 48, 49] := by decide
    rw [e1]; simp
  · have hn : p0.val + 256 * p1.val + 65536 * p2.val + 16777216 * p3.val =
        22 + sections.length := by exact_mod_cast hv
    rw [hn]
    have : [35, 80, 69, 83, 48, 48, 48, 49, p0, p1, p2, p3,
             0, 0, 1, 0, 1, 0, 0xFF, 0xFF, 0, 0] ++ (sections ++ pec) =
        ([35, 80, 69, 83, 48, 48, 48, 49, p0, p1, p2, p3,
             0, 0, 1, 0, 1, 0, 0xFF, 0xFF, 0, 0] ++ sections) ++ pec := by simp
    rw [this]
    apply List.drop_left'
    simp
    omega


/-! ## Blocks of the PES stitch list -/

theorem getElem?_append_at {α : Type} (pre rest : List α) (s : α) :
    (pre ++ s :: rest)[pre.length]? = some s := by
  rw [List.getElem?_append_right (le_refl _)]
  simp

theorem is_block_zero {F : Type} (rest : List (pes_stitch F)) (s : pes_stitch F) :
    is_block (s :: rest) 0 = true := by
  unfold is_block
  simp

theorem is_block_succ {F : Type} (init rest : List (pes_stitch F)) (p s : pes_stitch F) :
    is_block (init ++ p :: s :: rest) (init.length + 1) =
      (s.jump || (p.thread_index != s.thread_index)) := by
  unfold is_block
  have e : init ++ p :: s :: rest = (init ++ [p]) ++ s :: rest := by simp
  have h0 : (init ++ p :: s :: rest)[init.length + 1]? = some s := by
    rw [e]
    have := getElem?_append_at (init ++ [p]) rest s
    simpa using this
  have h1 : (init ++ p :: s :: rest)[init.length + 1 - 1]? = some p := by
    simp only [Nat.add_sub_cancel]
    exact getElem?_append_at init _ p
  rw [h0]
  simp only []
  rw [h1]
  simp

/-- Under jump_on_change, a stitch after the first one starts a block exactly when it
has the jump flag. -/
theorem is_block_jump {F : Type} (init rest : List (pes_stitch F)) (p s : pes_stitch F)
    (H : jump_on_change (init ++ p :: s :: rest)) :
    is_block (init ++ p :: s :: rest) (init.length + 1) = s.jump := by
  rw [is_block_succ]
  have hadj : p.thread_index ≠ s.thread_index → s.jump = true := by
    have hin : [p, s] <:+: init ++ p :: s :: rest := ⟨init, rest, by simp⟩
    have := List.Chain'.infix H hin
    simpa [List.chain'_cons] using this
  cases hj : s.jump
  · have : p.thread_index = s.thread_index := by
      by_contra hne
      have := hadj hne
      rw [hj] at this
      cases this
    simp [this]
  · simp

/-- The count of block_stitch_count at a block start followed by `run` stitches that do
not start a block and then by the end of the list or by a block start. -/
theorem block_stitch_count_eq {F : Type} (full : List (pes_stitch F)) (i n : Nat)
    (hlen : i + n < full.length)
    (hrun : ∀ k, 1 ≤ k → k ≤ n → is_block full (i + k) = false)
    (hend : i + n + 1 < full.length → is_block full (i + n + 1) = true) :
    block_stitch_count full i = n + 1 := by
  unfold block_stitch_count
  have key : ∀ fuel count, count ≤ n + 1 → n + 1 ≤ count + fuel →
      block_stitch_count_loop full i fuel count = n + 1 := by
    intro fuel
    induction fuel with
    | zero =>
      intro count h1 h2
      simp only [block_stitch_count_loop]
      omega
    | succ f ih =>
      intro count h1 h2
      simp only [block_stitch_count_loop]
      by_cases hc : count = n + 1
      · subst hc
        have : ¬ (i + (n + 1) < full.length ∧
            (n + 1 = 0 ∨ is_block full (i + (n + 1)) = false)) := by
          rintro ⟨hlt, hor⟩
          rcases hor with h0 | hb
          · omega
          · have := hend (by omega)
            rw [show i + n + 1 = i + (n + 1) by omega] at this
            rw [this] at hb
            cases hb
        rw [if_neg this]
      · have hcond : (i + count < full.length ∧
            (count = 0 ∨ is_block full (i + count) = false)) := by
          refine ⟨by omega, ?_⟩
          by_cases h0 : count = 0
          · exact Or.inl h0
          · exact Or.inr (hrun count (by omega) (by omega))
        rw [if_pos hcond]
        exact ih (count + 1) (by omega) (by omega)
  exact key full.length 0 (by omega) (by omega)


theorem split_at_index {α : Type} (full : List α) (m : Nat) (hm : 1 ≤ m) (t : α)
    (ht : full[m]? = some t) :
    ∃ (A B : List α) (p : α), full = A ++ p :: t :: B ∧ A.length + 1 = m := by
  have hlt : m < full.length := by
    rcases Nat.lt_or_ge m full.length with h | h
    · exact h
    · rw [List.getElem?_eq_none h] at ht; cases ht
  have htm : full[m] = t := by
    rw [List.getElem?_eq_getElem hlt] at ht
    exact Option.some.inj ht
  refine ⟨full.take (m - 1), full.drop (m + 1), full[m - 1], ?_, ?_⟩
  · have h1 : full.drop (m - 1) = full[m - 1] :: full.drop (m - 1 + 1) :=
      List.drop_eq_getElem_cons (by omega)
    have h2 : full.drop m = full[m] :: full.drop (m + 1) := List.drop_eq_getElem_cons hlt
    have e : m - 1 + 1 = m := by omega
    rw [e, h2, htm] at h1
    rw [← h1]
    exact (List.take_append_drop (m - 1) full).symm
  · rw [List.length_take]
    omega

/-- Under jump_on_change, the stitch at an index other than 0 starts a block exactly
when it has the jump flag. -/
theorem is_block_jump_idx {F : Type} (full : List (pes_stitch F)) (H : jump_on_change full)
    (m : Nat) (hm : 1 ≤ m) (t : pes_stitch F) (ht : full[m]? = some t) :
    is_block full m = t.jump := by
  obtain ⟨A, B, p, rfl, rfl⟩ := split_at_index full m hm t ht
  exact is_block_jump A B p t H

theorem split_run {F : Type} (rest : List (pes_stitch F)) :
    ∃ run tail : List (pes_stitch F), rest = run ++ tail ∧ (∀ s ∈ run, s.jump = false) ∧
      (tail = [] ∨ ∃ t tl, tail = t :: tl ∧ t.jump = true) ∧ run_length rest = run.length := by
  refine ⟨rest.takeWhile (fun s => !s.jump), rest.dropWhile (fun s => !s.jump),
    (List.takeWhile_append_dropWhile _ _).symm, ?_, ?_, rfl⟩
  · intro s hs
    have := List.mem_takeWhile_imp hs
    simpa using this
  · cases hd : rest.dropWhile (fun s => !s.jump) with
    | nil => exact Or.inl rfl
    | cons t tl =>
      refine Or.inr ⟨t, tl, rfl, ?_⟩
      have := List.head?_dropWhile_not (fun s : pes_stitch F => !s.jump) rest
      rw [hd] at this
      simpa using this

theorem run_length_append {F : Type} (run tail : List (pes_stitch F))
    (hrun : ∀ s ∈ run, s.jump = false)
    (htail : tail = [] ∨ ∃ t tl, tail = t :: tl ∧ t.jump = true) :
    run_length (run ++ tail) = run.length := by
  unfold run_length
  induction run with
  | nil =>
    rcases htail with rfl | ⟨t, tl, rfl, ht⟩
    · rfl
    · simp [List.takeWhile, ht]
  | cons a l ih =>
    have ha := hrun a (List.mem_cons_self _ _)
    have ih1 := ih (fun s hs => hrun s (List.mem_cons_of_mem _ hs))
    simp only [List.cons_append, List.takeWhile_cons, ha, Bool.not_false, if_true,
      List.length_cons, ih1]

/-- The stitch count written in the header of a block: one plus the number of
following stitches without the jump flag. -/
theorem block_stitch_count_run {F : Type} (init run tail : List (pes_stitch F))
    (s : pes_stitch F) (H : jump_on_change (init ++ s :: (run ++ tail)))
    (hrun : ∀ s ∈ run, s.jump = false)
    (htail : tail = [] ∨ ∃ t tl, tail = t :: tl ∧ t.jump = true) :
    block_stitch_count (init ++ s :: (run ++ tail)) init.length = run.length + 1 := by
  apply block_stitch_count_eq
  · simp only [List.length_append, List.length_cons]; omega
  · intro k hk1 hk2
    have hk : k - 1 < run.length := by omega
    have hget : (init ++ s :: (run ++ tail))[init.length + k]? = some run[k - 1] := by
      rw [List.getElem?_append_right (by omega)]
      have e : init.length + k - init.length = (k - 1) + 1 := by omega
      rw [e, List.getElem?_cons_succ, List.getElem?_append_left hk,
        List.getElem?_eq_getElem hk]
    rw [is_block_jump_idx _ H (init.length + k) (by omega) _ hget]
    exact hrun _ (List.getElem_mem _)
  · intro hlt
    rcases htail with rfl | ⟨t, tl, rfl, ht⟩
    · simp only [List.append_nil, List.length_append, List.length_cons] at hlt
      omega
    · have hget : (init ++ s :: (run ++ t :: tl))[init.length + run.length + 1]? = some t := by
        rw [List.getElem?_append_right (by omega)]
        have e : init.length + run.length + 1 - init.length = run.length + 1 := by omega
        rw [e, List.getElem?_cons_succ]
        exact getElem?_append_at run tl t
      rw [is_block_jump_idx _ H _ (by omega) _ hget]
      exact ht


/-! ## The PES decoder on its own buffer -/

theorem lor_shift8 (lo hi : Byte) : lo.val ||| (hi.val <<< 8) = lo.val + 256 * hi.val := by
  rw [Nat.shiftLeft_eq, Nat.lor_comm, Nat.mul_comm]
  have := Nat.mul_add_lt_is_or (i := 8) (b := lo.val) (by have := lo.isLt; omega) hi.val
  rw [show (2 : Nat) ^ 8 = 256 by norm_num] at this
  rw [← this]
  omega

theorem getD_at (pre post : List Byte) (b : Byte) (n : Nat) (hn : n = pre.length) :
    (pre ++ b :: post).getD n 0 = b := by
  subst hn
  rw [List.getD_eq_getElem?_getD, List.getElem?_append_right (le_refl _)]
  simp

theorem pes_decode_u16_at (d : pes_decoder) (pre post : List Byte) (lo hi : Byte) (off : Int)
    (hd : d.data = pre ++ lo :: hi :: post) (hoff : off = pre.length) :
    PesDecoder.decode_u16lsb d off = some ((lo.val : Int) + 256 * hi.val) := by
  unfold PesDecoder.decode_u16lsb pes_decoder.size
  subst hoff
  have hc : ¬ ((pre.length : Int) < 0 ∨ (d.data.length : Int) < pre.length + 2) := by
    rw [hd]
    simp only [List.length_append, List.length_cons]
    push_cast
    omega
  rw [if_neg hc, hd]
  have h1 : (pre ++ lo :: hi :: post).getD (pre.length : Int).toNat 0 = lo :=
    getD_at pre _ lo _ (by simp)
  have h2 : (pre ++ lo :: hi :: post).getD ((pre.length : Int) + 1).toNat 0 = hi := by
    have e : pre ++ lo :: hi :: post = (pre ++ [lo]) ++ hi :: post := by simp
    rw [e]
    exact getD_at (pre ++ [lo]) post hi _ (by simp)
  rw [h1, h2, lor_shift8]
  push_cast
  rfl

theorem pes_decode_i16_at (d : pes_decoder) (pre post : List Byte) (lo hi : Byte) (off v : Int)
    (hd : d.data = pre ++ lo :: hi :: post) (hoff : off = pre.length)
    (hv : (lo.val : Int) + 256 * hi.val = v % 0x10000) (h1 : -0x8000 ≤ v) (h2 : v ≤ 0x7FFF) :
    PesDecoder.decode_i16lsb d off = some v := by
  unfold PesDecoder.decode_i16lsb pes_decoder.size
  subst hoff
  have hc : ¬ ((pre.length : Int) < 0 ∨ (d.data.length : Int) < pre.length + 2) := by
    rw [hd]
    simp only [List.length_append, List.length_cons]
    push_cast
    omega
  rw [if_neg hc, hd]
  have g1 : (pre ++ lo :: hi :: post).getD (pre.length : Int).toNat 0 = lo :=
    getD_at pre _ lo _ (by simp)
  have g2 : (pre ++ lo :: hi :: post).getD ((pre.length : Int) + 1).toNat 0 = hi := by
    have e : pre ++ lo :: hi :: post = (pre ++ [lo]) ++ hi :: post := by simp
    rw [e]
    exact getD_at (pre ++ [lo]) post hi _ (by simp)
  simp only [g1, g2, lor_shift8]
  have hlo := lo.isLt
  have hhi := hi.isLt
  split_ifs with hlt
  · congr 1; push_cast; omega
  · congr 1; push_cast; omega

/-- One iteration of the block loop on a block whose header and stitches are read: the
thread is resolved, the block callback invoked, the stitches iterated, and the loop goes
on with the continuation code. -/
theorem block_loop_step {F σ : Type} (ops : FloatOps F) (d : pes_decoder)
    (bcb : Option (pes_block_callback σ)) (scb : Option (pes_stitch_callback F σ))
    (fuel : Nat) (b off ci : Int) (th : pec_thread) (arg : σ)
    (ty id cnt : Int) (th1 : pec_thread) (ci1 : Int) (arg1 arg2 : σ) (off1 : Int)
    (hoff : off < d.pec_offset)
    (h1 : PesDecoder.decode_u16lsb d (off + 0) = some ty)
    (h2 : PesDecoder.decode_u16lsb d (off + 2) = some id)
    (h3 : PesDecoder.decode_u16lsb d (off + 4) = some cnt)
    (hch : (ci < d.change_count ∧ ∃ c, d.change_list[ci.toNat]? = some c ∧ b = c.block_index ∧
              th1 = (d.thread_list.getD []).getD c.thread_index.toNat pec_undefined_thread ∧
              ci1 = ci + 1) ∨
           ((¬ ci < d.change_count ∨ ∃ c, d.change_list[ci.toNat]? = some c ∧
              b ≠ c.block_index) ∧ th1 = th ∧ ci1 = ci))
    (hb : apply_block_cb bcb arg th1 cnt ty = (arg1, true))
    (hst : block_stitches ops d scb cnt.toNat 0 (off + 6) arg1 = (arg2, some off1)) :
    block_loop ops d bcb scb (fuel + 1) b off ci th arg =
      after_block ops d bcb scb fuel b off1 ci1 th1 arg2 := by
  unfold after_block
  have hpo : ¬ (d.pec_offset ≤ off) := by omega
  rcases hch with ⟨hlt, c, hc, hbc, ht, hi⟩ | ⟨hno, ht, hi⟩
  · rw [ht] at hb
    rw [ht, hi]
    have hdec : decide (b = c.block_index) = true := decide_eq_true hbc
    cases bcb with
    | none =>
      simp only [apply_block_cb, Prod.mk.injEq, and_true] at hb
      subst hb
      simp only [block_loop, not_lt, hpo, h1, h2, h3, if_pos hlt, hc, if_pos hbc, hdec,
        if_true, if_false, Bool.true_eq_false, hst]
    | some cb =>
      simp only [apply_block_cb] at hb
      simp only [block_loop, not_lt, hpo, h1, h2, h3, if_pos hlt, hc, if_pos hbc, hdec,
        if_true, if_false, Bool.true_eq_false, hb, hst]
  · rw [ht] at hb
    rw [ht, hi]
    have hsel : (if ci < d.change_count then d.change_list[ci.toNat]? else none) = none ∨
        ∃ c, (if ci < d.change_count then d.change_list[ci.toNat]? else none) = some c ∧
          b ≠ c.block_index := by
      by_cases hlt : ci < d.change_count
      · rcases hno with hge | ⟨c, hc, hbc⟩
        · exact absurd hlt hge
        · exact Or.inr ⟨c, by rw [if_pos hlt, hc], hbc⟩
      · exact Or.inl (by rw [if_neg hlt])
    cases bcb with
    | none =>
      simp only [apply_block_cb, Prod.mk.injEq, and_true] at hb
      subst hb
      rcases hsel with hn | ⟨c, hc, hbc⟩
      · simp only [block_loop, not_lt, hpo, h1, h2, h3, hn, if_false, Bool.false_eq_true,
          Bool.true_eq_false, hst]
      · simp only [block_loop, not_lt, hpo, h1, h2, h3, hc, if_neg hbc, hbc, decide_False,
          if_false, Bool.false_eq_true, Bool.true_eq_false, hst]
    | some cb =>
      simp only [apply_block_cb] at hb
      rcases hsel with hn | ⟨c, hc, hbc⟩
      · simp only [block_loop, not_lt, hpo, h1, h2, h3, hn, if_false, Bool.false_eq_true,
          Bool.true_eq_false, hb, hst]
      · simp only [block_loop, not_lt, hpo, h1, h2, h3, hc, if_neg hbc, hbc, decide_False,
          if_false, Bool.false_eq_true, Bool.true_eq_false, hb, hst]

theorem pes_encode_stitch_eq_some {F : Type} (ops : FloatOps F) (x y : F) (out : List Byte)
    (h : PesEncoder.encode_stitch ops x y = some out) :
    ∃ xl xh yl yh : Byte, out = [xl, xh, yl, yh] ∧
      ∀ (d : pes_decoder) (pre post : List Byte) (off : Int),
        d.data = pre ++ out ++ post → off = pre.length →
        PesDecoder.decode_i16lsb d (off + 0) = some (ops.pec_raw_coordinate x) ∧
        PesDecoder.decode_i16lsb d (off + 2) = some (ops.pec_raw_coordinate y) := by
  unfold PesEncoder.encode_stitch at h
  obtain ⟨a, b, ha, hb, rfl⟩ := both_eq_some.1 h
  obtain ⟨xl, xh, rfl, hx, hx1, hx2⟩ := pes_i16_eq_some ha
  obtain ⟨yl, yh, rfl, hy, hy1, hy2⟩ := pes_i16_eq_some hb
  refine ⟨xl, xh, yl, yh, rfl, ?_⟩
  intro d pre post off hd hoff
  constructor
  · exact pes_decode_i16_at d pre (yl :: yh :: post) xl xh (off + 0) _ (by rw [hd]; simp)
      (by omega) hx hx1 hx2
  · exact pes_decode_i16_at d (pre ++ [xl, xh]) post yl yh (off + 2) _ (by rw [hd]; simp)
      (by simp; omega) hy hy1 hy2

theorem play_stitch {F σ : Type} (bcb : Option (pes_block_callback σ))
    (scb : Option (pes_stitch_callback F σ)) (arg : σ) (k : Int) (x y : F) :
    play_event bcb scb arg (.stitch k x y) = (apply_stitch_cb scb arg k x y).1 := rfl

/-- One iteration of the stitch loop of a block. -/
theorem block_stitches_step {F σ : Type} (ops : FloatOps F) (d : pes_decoder)
    (scb : Option (pes_stitch_callback F σ))
    (hs : ∀ a k x y, (apply_stitch_cb scb a k x y).2 = true)
    (n : Nat) (k off : Int) (arg : σ) (x y : Int)
    (hx : PesDecoder.decode_i16lsb d (off + 0) = some x)
    (hy : PesDecoder.decode_i16lsb d (off + 2) = some y) :
    block_stitches ops d scb (n + 1) k off arg =
      block_stitches ops d scb n (k + 1) (off + 4)
        (apply_stitch_cb scb arg k (ops.pec_physical_coordinate x)
          (ops.pec_physical_coordinate y)).1 := by
  cases scb with
  | none => simp only [block_stitches, hx, hy, apply_stitch_cb]
  | some cb =>
    have := hs arg k (ops.pec_physical_coordinate x) (ops.pec_physical_coordinate y)
    simp only [apply_stitch_cb] at this
    simp only [block_stitches, hx, hy, apply_stitch_cb, this, Bool.true_eq_false, if_false]

/-- The stitch loop of a block on the coordinates written for stitches without the
jump flag. -/
theorem block_stitches_run {F σ : Type} (ops : FloatOps F) (enc : pes_encoder F)
    (bcb : Option (pes_block_callback σ)) (scb : Option (pes_stitch_callback F σ))
    (hs : ∀ a k x y, (apply_stitch_cb scb a k x y).2 = true) :
    ∀ (run : List (pes_stitch F)), (∀ s ∈ run, s.jump = false) →
    ∀ (i : Nat), 1 ≤ i → ∀ (p : pes_stitch F) (tail : List (pes_stitch F)) (out : List Byte),
      encode_stitch_loop ops enc i (some p) (run ++ tail) = some out →
      ∃ cs out1, out = cs ++ out1 ∧ cs.length = 4 * run.length ∧
        encode_stitch_loop ops enc (i + run.length) (some (run.getLastD p)) tail = some out1 ∧
        ∀ (d : pes_decoder) (pre post : List Byte), d.data = pre ++ cs ++ post →
          ∀ (k off : Int) (arg : σ), off = pre.length →
            block_stitches ops d scb run.length k off arg =
              ((run_events ops k run).foldl (play_event bcb scb) arg,
               some (off + cs.length))
  | [], _, i, _, p, tail, out, h => by
    refine ⟨[], out, rfl, rfl, by simpa using h, ?_⟩
    intro d pre post hd k off arg hoff
    simp [block_stitches, run_events]
  | s :: run, hrun, i, hi, p, tail, out, h => by
    have hsj : s.jump = false := hrun s (List.mem_cons_self _ _)
    simp only [List.cons_append, encode_stitch_loop] at h
    have hi0 : ¬ i = 0 := by omega
    have hnj : ¬ (s.jump = true ∨ s.thread_index ≠ s.thread_index) := by
      rw [hsj]; simp
    rw [if_neg hi0, if_neg hnj] at h
    obtain ⟨e, rest, he, hrest, rfl⟩ := both_eq_some.1 h
    simp only [Option.some.injEq] at he
    subst he
    obtain ⟨c, out2, hc, hout2, rfl⟩ := both_eq_some.1 hrest
    obtain ⟨cs, out1, rfl, hlen, henc, hdec⟩ := block_stitches_run ops enc bcb scb hs run
      (fun t ht => hrun t (List.mem_cons_of_mem _ ht)) (i + 1) (by omega) s tail out2 hout2
    obtain ⟨xl, xh, yl, yh, rfl, hcoord⟩ := pes_encode_stitch_eq_some ops s.x s.y c hc
    refine ⟨[xl, xh, yl, yh] ++ cs, out1, by simp, by simp [hlen]; omega, ?_, ?_⟩
    · have e1 : i + (s :: run).length = i + 1 + run.length := by simp; omega
      rw [e1, List.getLastD_cons]
      exact henc
    · intro d pre post hd k off arg hoff
      obtain ⟨hx, hy⟩ := hcoord d pre (cs ++ post) off (by rw [hd]; simp) hoff
      rw [List.length_cons, block_stitches_step ops d scb hs run.length k off arg _ _ hx hy]
      rw [hdec d (pre ++ [xl, xh, yl, yh]) post (by rw [hd]; simp) (k + 1) (off + 4) _
        (by simp; omega)]
      simp only [run_events, List.foldl_cons, play_stitch, List.length_append, List.length_cons,
        List.length_nil]
      congr 2
      push_cast
      omega


theorem changes_from_ge {F : Type} (tl : List pec_thread) :
    ∀ (l : List (pes_stitch F)) (b j : Int) (p : pes_stitch F),
      ∀ c ∈ changes_from tl b j p l, b ≤ c.1.block_index
  | [], _, _, _, c, hc => by simp [changes_from] at hc
  | s :: rest, b, j, p, c, hc => by
    simp only [changes_from] at hc
    split_ifs at hc with h1 h2
    · rcases List.mem_cons.1 hc with rfl | hc
      · simp
      · have := changes_from_ge tl rest (b + 2) (j + 1) s c hc
        omega
    · have := changes_from_ge tl rest (b + 2) j s c hc
      omega
    · exact changes_from_ge tl rest b j s c hc

theorem changes_from_run {F : Type} (tl : List pec_thread) :
    ∀ (run : List (pes_stitch F)), (∀ s ∈ run, s.jump = false) →
    ∀ (b j : Int) (p : pes_stitch F) (tail : List (pes_stitch F)),
      changes_from tl b j p (run ++ tail) = changes_from tl b j (run.getLastD p) tail
  | [], _, _, _, _, _ => rfl
  | s :: run, hrun, b, j, p, tail => by
    have hsj : s.jump = false := hrun s (List.mem_cons_self _ _)
    simp only [List.cons_append, changes_from, hsj, Bool.false_eq_true, if_false,
      List.getLastD_cons, List.append_eq]
    exact changes_from_run tl run (fun t ht => hrun t (List.mem_cons_of_mem _ ht)) b j s tail

theorem reported_from_run {F : Type} (ops : FloatOps F) (tl : List pec_thread) :
    ∀ (run : List (pes_stitch F)), (∀ s ∈ run, s.jump = false) →
    ∀ (cur : pec_thread) (j : Int) (p : pes_stitch F) (k : Int) (tail : List (pes_stitch F)),
      pes_reported_from ops tl cur j p k (run ++ tail) =
        run_events ops k run ++
          pes_reported_from ops tl cur j (run.getLastD p) (k + run.length) tail
  | [], _, _, _, _, _, _ => by simp [run_events]
  | s :: run, hrun, cur, j, p, k, tail => by
    have hsj : s.jump = false := hrun s (List.mem_cons_self _ _)
    simp only [List.cons_append, pes_reported_from, hsj, Bool.false_eq_true, if_false,
      List.getLastD_cons, run_events, List.length_cons, List.append_eq]
    rw [reported_from_run ops tl run (fun t ht => hrun t (List.mem_cons_of_mem _ ht)) cur j s
      (k + 1) tail]
    have e : k + 1 + (run.length : Int) = k + ((run.length + 1 : Nat) : Int) := by
      push_cast; ring
    rw [e]

theorem getLast?_append_run {α : Type} (front run : List α) (t : α) :
    (front ++ t :: run).getLast? = some (run.getLastD t) := by
  rw [List.getLast?_append_of_ne_nil _ (List.cons_ne_nil _ _)]
  induction run generalizing t with
  | nil => rfl
  | cons a l ih => rw [List.getLast?_cons_cons, ih a, List.getLastD_cons]

theorem pes_header_eq_some (ty : pec_stitch_type) (th cnt : Int) (out : List Byte)
    (h : encode_block_header ty th cnt = some out) :
    ∃ a0 a1 b0 b1 c0 c1 : Byte, out = [a0, a1, b0, b1, c0, c1] ∧
      (a0.val : Int) + 256 * a1.val = stitch_type_code ty ∧
      (c0.val : Int) + 256 * c1.val = cnt := by
  unfold encode_block_header at h
  obtain ⟨x, y, hx, hy, rfl⟩ := both_eq_some.1 h
  obtain ⟨y1, y2, hy1, hy2, rfl⟩ := both_eq_some.1 hy
  obtain ⟨a0, a1, rfl, ha, -, -⟩ := pes_u16_eq_some hx
  obtain ⟨b0, b1, rfl, -, -, -⟩ := pes_u16_eq_some hy1
  obtain ⟨c0, c1, rfl, hc, -, -⟩ := pes_u16_eq_some hy2
  exact ⟨a0, a1, b0, b1, c0, c1, rfl, ha, hc⟩

/-- Reading a block header written by encode_block_header. -/
theorem pes_header_decode (d : pes_decoder) (pre post : List Byte) (a0 a1 b0 b1 c0 c1 : Byte)
    (off : Int) (hd : d.data = pre ++ [a0, a1, b0, b1, c0, c1] ++ post) (hoff : off = pre.length) :
    PesDecoder.decode_u16lsb d (off + 0) = some ((a0.val : Int) + 256 * a1.val) ∧
    PesDecoder.decode_u16lsb d (off + 2) = some ((b0.val : Int) + 256 * b1.val) ∧
    PesDecoder.decode_u16lsb d (off + 4) = some ((c0.val : Int) + 256 * c1.val) := by
  refine ⟨?_, ?_, ?_⟩
  · exact pes_decode_u16_at d pre (b0 :: b1 :: c0 :: c1 :: post) a0 a1 _ (by rw [hd]; simp)
      (by omega)
  · exact pes_decode_u16_at d (pre ++ [a0, a1]) (c0 :: c1 :: post) b0 b1 _ (by rw [hd]; simp)
      (by simp; omega)
  · exact pes_decode_u16_at d (pre ++ [a0, a1, b0, b1]) post c0 c1 _ (by rw [hd]; simp)
      (by simp; omega)

theorem block_stitches_zero {F σ : Type} (ops : FloatOps F) (d : pes_decoder)
    (scb : Option (pes_stitch_callback F σ)) (k off : Int) (arg : σ) :
    block_stitches ops d scb 0 k off arg = (arg, some off) := rfl

theorem play_block {F σ : Type} (bcb : Option (pes_block_callback σ))
    (scb : Option (pes_stitch_callback F σ)) (arg : σ) (th : pec_thread) (c t : Int) :
    play_event bcb scb arg (.block th c t) = (apply_block_cb bcb arg th c t).1 := rfl


/-- What encode_stitch_loop writes for a stitch with the jump flag and the stitches
without jump flag after it: the continuation code, the Jump block of two stitches,
the continuation code, the header of a Normal block and the coordinates. -/
theorem encode_jump_iteration {F σ : Type} (ops : FloatOps F) (enc : pes_encoder F)
    (bcb : Option (pes_block_callback σ)) (scb : Option (pes_stitch_callback F σ))
    (hs : ∀ a k x y, (apply_stitch_cb scb a k x y).2 = true)
    (H : jump_on_change enc.stitch_list)
    (front run tail : List (pes_stitch F)) (p t : pes_stitch F)
    (hfull : enc.stitch_list = front ++ t :: (run ++ tail)) (hfront : 1 ≤ front.length)
    (ht : t.jump = true) (hrun : ∀ s ∈ run, s.jump = false)
    (htail : tail = [] ∨ ∃ u tl, tail = u :: tl ∧ u.jump = true)
    (out : List Byte)
    (h : encode_stitch_loop ops enc front.length (some p) (t :: (run ++ tail)) = some out) :
    ∃ (a0 a1 b0 b1 c0 c1 e0 e1 f0 f1 g0 g1 : Byte) (cp ct cs out1 : List Byte),
      out = [0x03, 0x80] ++ [a0, a1, b0, b1, c0, c1] ++ cp ++ ct ++ [0x03, 0x80] ++
        [e0, e1, f0, f1, g0, g1] ++ ct ++ cs ++ out1 ∧
      (a0.val : Int) + 256 * a1.val = 1 ∧ (c0.val : Int) + 256 * c1.val = 2 ∧
      (e0.val : Int) + 256 * e1.val = 0 ∧
      (g0.val : Int) + 256 * g1.val = ((run.length + 1 : Nat) : Int) ∧
      PesEncoder.encode_stitch ops p.x p.y = some cp ∧
      PesEncoder.encode_stitch ops t.x t.y = some ct ∧
      cs.length = 4 * run.length ∧
      encode_stitch_loop ops enc (front.length + 1 + run.length) (some (run.getLastD t)) tail =
        some out1 ∧
      ∀ (d : pes_decoder) (pre post : List Byte), d.data = pre ++ cs ++ post →
        ∀ (k off : Int) (arg : σ), off = pre.length →
          block_stitches ops d scb run.length k off arg =
            ((run_events ops k run).foldl (play_event bcb scb) arg, some (off + cs.length)) := by
  simp only [encode_stitch_loop] at h
  have hi0 : ¬ front.length = 0 := by omega
  rw [if_neg hi0, if_pos (Or.inl ht)] at h
  obtain ⟨hd, rest, hhd, hrest, rfl⟩ := both_eq_some.1 h
  obtain ⟨m1, r1, hm1, hr1, rfl⟩ := both_eq_some.1 hhd
  obtain ⟨js, r2, hjs, hr2, rfl⟩ := both_eq_some.1 hr1
  obtain ⟨m2, nh, hm2, hnh, rfl⟩ := both_eq_some.1 hr2
  have e8003 : PesEncoder.encode_u16lsb 0x8003 = some [0x03, 0x80] := by decide
  rw [e8003] at hm1 hm2
  simp only [Option.some.injEq] at hm1 hm2
  subst hm1 hm2
  unfold encode_jump_stitch at hjs
  obtain ⟨jh, r3, hjh, hr3, rfl⟩ := both_eq_some.1 hjs
  obtain ⟨cp, ct, hcp, hct, rfl⟩ := both_eq_some.1 hr3
  obtain ⟨ct2, out2, hct2, hout2, rfl⟩ := both_eq_some.1 hrest
  rw [hct] at hct2
  simp only [Option.some.injEq] at hct2
  subst hct2
  obtain ⟨a0, a1, b0, b1, c0, c1, rfl, ha, hc⟩ := pes_header_eq_some _ _ _ jh hjh
  obtain ⟨e0, e1, f0, f1, g0, g1, rfl, he, hg⟩ := pes_header_eq_some _ _ _ nh hnh
  obtain ⟨cs, out1, rfl, hlen, henc, hdec⟩ := block_stitches_run ops enc bcb scb hs run hrun
    (front.length + 1) (by omega) t tail out2 hout2
  have hbsc : block_stitch_count enc.stitch_list front.length = run.length + 1 := by
    rw [hfull]
    exact block_stitch_count_run front run tail t (by rw [← hfull]; exact H) hrun htail
  rw [hbsc] at hg
  refine ⟨a0, a1, b0, b1, c0, c1, e0, e1, f0, f1, g0, g1, cp, ct, cs, out1, by simp, ha, hc,
    he, hg, hcp, hct, hlen, henc, hdec⟩


/-! ## The block loop of the decoder on the stitch list of the encoder -/

theorem after_block_code {F σ : Type} (ops : FloatOps F) (d : pes_decoder)
    (bcb : Option (pes_block_callback σ)) (scb : Option (pes_stitch_callback F σ))
    (fuel : Nat) (b off ci : Int) (th : pec_thread) (arg : σ)
    (pre post : List Byte) (hd : d.data = pre ++ [0x03, 0x80] ++ post) (hoff : off = pre.length) :
    after_block ops d bcb scb fuel b off ci th arg =
      block_loop ops d bcb scb fuel (b + 1) (off + 2) ci th arg := by
  unfold after_block
  have := pes_decode_u16_at d pre post 0x03 0x80 off (by rw [hd]; simp) hoff
  rw [this]
  have e : ((((0x03 : Byte).val : Nat) : Int) + 256 * (((0x80 : Byte).val : Nat) : Int)) = 0x8003 := by
    decide
  simp only [e, ne_eq, not_true_eq_false, if_false]

theorem after_block_end {F σ : Type} (ops : FloatOps F) (d : pes_decoder)
    (bcb : Option (pes_block_callback σ)) (scb : Option (pes_stitch_callback F σ))
    (fuel : Nat) (b off ci : Int) (th : pec_thread) (arg : σ)
    (pre post : List Byte) (lo hi : Byte) (hd : d.data = pre ++ lo :: hi :: post)
    (hoff : off = pre.length) (hne : (lo.val : Int) + 256 * hi.val ≠ 0x8003) :
    after_block ops d bcb scb fuel b off ci th arg = (arg, some off) := by
  unfold after_block
  rw [pes_decode_u16_at d pre post lo hi off hd hoff]
  simp only [ne_eq, hne, not_false_eq_true, if_true]

/-- The block loop on the bytes written for the stitches after the first block, for
callbacks that accept everything: it reports the expected blocks and stitches and
leaves the loop at the thread table. -/
theorem after_block_encoded {F σ : Type} (ops : FloatOps F) (enc : pes_encoder F)
    (bcb : Option (pes_block_callback σ)) (scb : Option (pes_stitch_callback F σ))
    (hb : ∀ a th c t, (apply_block_cb bcb a th c t).2 = true)
    (hs : ∀ a k x y, (apply_stitch_cb scb a k x y).2 = true)
    (H : jump_on_change enc.stitch_list) :
    ∀ (n : Nat) (tail : List (pes_stitch F)), tail.length ≤ n →
      (tail = [] ∨ ∃ t tl, tail = t :: tl ∧ t.jump = true) →
    ∀ (front : List (pes_stitch F)) (p : pes_stitch F),
      enc.stitch_list = front ++ tail → front.getLast? = some p →
    ∀ (out : List Byte), encode_stitch_loop ops enc front.length (some p) tail = some out →
    ∀ (d : pes_decoder) (pre : List Byte) (tl0 th0 : Byte) (post : List Byte),
      d.data = pre ++ out ++ tl0 :: th0 :: post →
      (tl0.val : Int) + 256 * th0.val ≠ 0x8003 →
      (pre.length : Int) + out.length < d.pec_offset →
    ∀ (done : List (pes_change × pec_thread)) (b : Int),
      d.change_list =
        (done ++ changes_from enc.thread_list b done.length p tail).map Prod.fst →
      d.thread_list =
        some ((done ++ changes_from enc.thread_list b done.length p tail).map Prod.snd) →
      d.change_count = d.change_list.length →
    ∀ (fuel : Nat), 2 * tail.length ≤ fuel →
    ∀ (off : Int) (cur : pec_thread) (k : Int) (arg : σ), off = pre.length →
      after_block ops d bcb scb fuel (b - 1) off done.length cur arg =
        ((pes_reported_from ops enc.thread_list cur done.length p k tail).foldl
            (play_event bcb scb) arg,
         some (off + out.length)) := by
  intro n
  induction n with
  | zero =>
    intro tail hlen _ front p hfull hp out henc d pre tl0 th0 post hd hne hpec done b hcl htl hcc
      fuel hfuel off cur k arg hoff
    have ht : tail = [] := List.length_eq_zero.1 (by omega)
    subst ht
    simp only [encode_stitch_loop, Option.some.injEq] at henc
    subst henc
    rw [after_block_end ops d bcb scb fuel (b - 1) off _ cur arg pre post tl0 th0
      (by rw [hd]; simp) hoff hne]
    simp [pes_reported_from]
  | succ m ih =>
    intro tail hlen htail front p hfull hp out henc d pre tl0 th0 post hd hne hpec done b hcl htl
      hcc fuel hfuel off cur k arg hoff
    rcases htail with rfl | ⟨t, tl, rfl, ht⟩
    · simp only [encode_stitch_loop, Option.some.injEq] at henc
      subst henc
      rw [after_block_end ops d bcb scb fuel (b - 1) off _ cur arg pre post tl0 th0
        (by rw [hd]; simp) hoff hne]
      simp [pes_reported_from]
    · obtain ⟨run, tail1, rfl, hrun, htail1, hrl⟩ := split_run tl
      have hfront : 1 ≤ front.length := by
        cases front with
        | nil => simp at hp
        | cons a l => simp
      obtain ⟨a0, a1, b0, b1, c0, c1, e0, e1, f0, f1, g0, g1, cp, ct, cs, out1, rfl, ha, hc, he,
        hg, hcp, hct, hcsl, henc1, hdec⟩ := encode_jump_iteration ops enc bcb scb hs H front run
          tail1 p t hfull hfront ht hrun htail1 out henc
      obtain ⟨p0, p1, p2, p3, rfl, hpdec⟩ := pes_encode_stitch_eq_some ops p.x p.y cp hcp
      obtain ⟨t0, t1, t2, t3, rfl, htdec⟩ := pes_encode_stitch_eq_some ops t.x t.y ct hct
      -- the buffer, right-associated
      have hdata : d.data = pre ++ ([0x03, 0x80] ++ ([a0, a1, b0, b1, c0, c1] ++
          ([p0, p1, p2, p3] ++ ([t0, t1, t2, t3] ++ ([0x03, 0x80] ++
          ([e0, e1, f0, f1, g0, g1] ++ ([t0, t1, t2, t3] ++ (cs ++
          (out1 ++ tl0 :: th0 :: post))))))))) := by
        rw [hd]; simp only [List.append_assoc]
      have houtlen : (([0x03, 0x80] ++ [a0, a1, b0, b1, c0, c1] ++ [p0, p1, p2, p3] ++
          [t0, t1, t2, t3] ++ [0x03, 0x80] ++ [e0, e1, f0, f1, g0, g1] ++ [t0, t1, t2, t3] ++
          cs ++ out1 : List Byte).length : Int) = 28 + cs.length + out1.length := by
        simp only [List.length_append, List.length_cons, List.length_nil]
        push_cast
        ring
      rw [houtlen] at hpec ⊢
      obtain ⟨f1', rfl⟩ : ∃ f1', fuel = f1' + 1 := ⟨fuel - 1, by
        simp only [List.length_cons] at hfuel; omega⟩
      obtain ⟨f2, rfl⟩ : ∃ f2, f1' = f2 + 1 := ⟨f1' - 1, by
        simp only [List.length_cons] at hfuel; omega⟩
      -- the change of thread at the Jump block
      let j1 : Int := if t.thread_index ≠ p.thread_index then (done.length : Int) + 1
        else done.length
      let cur1 : pec_thread :=
        if t.thread_index ≠ p.thread_index then run_thread enc.thread_list t done.length else cur
      let done1 : List (pes_change × pec_thread) :=
        if t.thread_index ≠ p.thread_index then
          done ++ [(⟨b, done.length⟩, run_thread enc.thread_list t done.length)]
        else done
      have hdone1 : (done1.length : Int) = j1 := by
        simp only [done1, j1]
        split_ifs <;> simp
      have hchg : done ++ changes_from enc.thread_list b done.length p (t :: (run ++ tail1)) =
          done1 ++ changes_from enc.thread_list (b + 2) done1.length (run.getLastD t) tail1 := by
        rw [hdone1]
        simp only [changes_from, ht, if_true, done1, j1]
        split_ifs with hne1
        · rw [changes_from_run enc.thread_list run hrun]; simp
        · rw [changes_from_run enc.thread_list run hrun]
      rw [hchg] at hcl htl
      have hcnt : d.change_count =
          ((done1 ++ changes_from enc.thread_list (b + 2) done1.length (run.getLastD t)
            tail1).length : Int) := by
        rw [hcc, hcl, List.length_map]
      -- any change still to come has a block index from b + 2 on
      have hlater : ∀ (ci : Int) (c : pes_change), ci = done1.length →
          d.change_list[ci.toNat]? = some c → b + 2 ≤ c.block_index := by
        intro ci c hci hc1
        subst hci
        rw [hcl, Int.toNat_ofNat, List.getElem?_map, List.getElem?_append_right (le_refl _),
          Nat.sub_self] at hc1
        cases hcf : changes_from enc.thread_list (b + 2) done1.length (run.getLastD t) tail1 with
        | nil => rw [hcf] at hc1; simp at hc1
        | cons x xs =>
          rw [hcf] at hc1
          simp only [List.getElem?_cons_zero, Option.map_some', Option.some.injEq] at hc1
          have := changes_from_ge enc.thread_list tail1 (b + 2) done1.length (run.getLastD t) x
            (by rw [hcf]; exact List.mem_cons_self _ _)
          rw [← hc1]
          exact this
      have hnochange : ∀ (ci bi : Int), ci = done1.length → bi < b + 2 →
          (¬ ci < d.change_count ∨ ∃ c, d.change_list[ci.toNat]? = some c ∧ bi ≠ c.block_index) := by
        intro ci bi hci hbi
        by_cases hlt : ci < d.change_count
        · right
          have hlt2 : ci.toNat < d.change_list.length := by
            rw [hcc] at hlt; omega
          refine ⟨d.change_list[ci.toNat], List.getElem?_eq_getElem hlt2, ?_⟩
          have := hlater ci _ hci (List.getElem?_eq_getElem hlt2)
          omega
        · exact Or.inl hlt
      -- first step: the continuation code before the Jump block
      rw [after_block_code ops d bcb scb (f2 + 1 + 1) (b - 1) off done.length cur arg pre
        ([a0, a1, b0, b1, c0, c1] ++ ([p0, p1, p2, p3] ++ ([t0, t1, t2, t3] ++ ([0x03, 0x80] ++ ([e0, e1, f0, f1, g0, g1] ++ ([t0, t1, t2, t3] ++ (cs ++ (out1 ++ tl0 :: th0 :: post))))))))
        (by rw [hdata]; simp only [List.append_assoc]) hoff]
      have hb1 : b - 1 + 1 = b := by omega
      rw [hb1]
      -- the Jump block
      obtain ⟨hj1, hj2, hj3⟩ := pes_header_decode d (pre ++ [0x03, 0x80])
        ([p0, p1, p2, p3] ++ ([t0, t1, t2, t3] ++ ([0x03, 0x80] ++ ([e0, e1, f0, f1, g0, g1] ++ ([t0, t1, t2, t3] ++ (cs ++ (out1 ++ tl0 :: th0 :: post))))))) a0 a1 b0 b1 c0 c1
        (off + 2) (by rw [hdata]; simp only [List.append_assoc]) (by simp; omega)
      rw [ha] at hj1
      rw [hc] at hj3
      have hjch : (((done.length : Int) < d.change_count ∧ ∃ c,
            d.change_list[((done.length : Int)).toNat]? = some c ∧ b = c.block_index ∧
            cur1 = (d.thread_list.getD []).getD c.thread_index.toNat pec_undefined_thread ∧
            j1 = (done.length : Int) + 1) ∨
          ((¬ (done.length : Int) < d.change_count ∨ ∃ c,
            d.change_list[((done.length : Int)).toNat]? = some c ∧ b ≠ c.block_index) ∧
            cur1 = cur ∧ j1 = done.length)) := by
        by_cases hne1 : t.thread_index ≠ p.thread_index
        · left
          have hd1 : done1 = done ++ [(⟨b, done.length⟩, run_thread enc.thread_list t done.length)] := by
            simp only [done1, if_pos hne1]
          have hcl2 := hcl
          have htl2 := htl
          rw [hd1] at hcl2 htl2
          refine ⟨?_, ⟨b, done.length⟩, ?_, rfl, ?_, ?_⟩
          · rw [hcnt, hd1]
            simp only [List.length_append, List.length_cons, List.length_nil]
            push_cast
            omega
          · rw [hcl2, Int.toNat_ofNat, List.getElem?_map, List.append_assoc,
              List.singleton_append, getElem?_append_at]
            rfl
          · rw [htl2]
            simp only [Option.getD_some, cur1, if_pos hne1, Int.toNat_ofNat]
            rw [List.getD_eq_getElem?_getD, List.getElem?_map, List.append_assoc,
              List.singleton_append, getElem?_append_at]
            rfl
          · simp only [j1, if_pos hne1]
        · right
          have hd1 : done1 = done := by simp only [done1, if_neg hne1]
          refine ⟨?_, by simp only [cur1, if_neg hne1], by simp only [j1, if_neg hne1]⟩
          have := hnochange done.length b (by rw [hd1]) (by omega)
          exact this
      have hstJ : block_stitches ops d scb (2 : Int).toNat 0 (off + 2 + 6)
          (apply_block_cb bcb arg cur1 2 1).1 =
          ((apply_stitch_cb scb
              (apply_stitch_cb scb (apply_block_cb bcb arg cur1 2 1).1 0
                (ops.pec_physical_coordinate (ops.pec_raw_coordinate p.x))
                (ops.pec_physical_coordinate (ops.pec_raw_coordinate p.y))).1 1
              (ops.pec_physical_coordinate (ops.pec_raw_coordinate t.x))
              (ops.pec_physical_coordinate (ops.pec_raw_coordinate t.y))).1,
            some (off + 16)) := by
        obtain ⟨hpx, hpy⟩ := hpdec d (pre ++ [0x03, 0x80] ++ [a0, a1, b0, b1, c0, c1])
          ([t0, t1, t2, t3] ++ ([0x03, 0x80] ++ ([e0, e1, f0, f1, g0, g1] ++ ([t0, t1, t2, t3] ++ (cs ++ (out1 ++ tl0 :: th0 :: post))))))
          (off + 2 + 6) (by rw [hdata]; simp only [List.append_assoc]) (by simp; omega)
        obtain ⟨htx, hty⟩ := htdec d (pre ++ [0x03, 0x80] ++ [a0, a1, b0, b1, c0, c1] ++
          [p0, p1, p2, p3])
          ([0x03, 0x80] ++ ([e0, e1, f0, f1, g0, g1] ++ ([t0, t1, t2, t3] ++ (cs ++ (out1 ++ tl0 :: th0 :: post))))) (off + 2 + 6 + 4)
          (by rw [hdata]; simp only [List.append_assoc]) (by simp; omega)
        have e2 : (2 : Int).toNat = 1 + 1 := rfl
        rw [e2, block_stitches_step ops d scb hs 1 0 (off + 2 + 6) _ _ _ hpx hpy]
        have e1 : (1 : Nat) = 0 + 1 := rfl
        rw [e1, block_stitches_step ops d scb hs 0 (0 + 1) (off + 2 + 6 + 4) _ _ _ htx hty,
          block_stitches_zero]
        have e3 : off + 2 + 6 + 4 + 4 = off + 16 := by omega
        rw [e3]
        rfl
      rw [block_loop_step ops d bcb scb (f2 + 1) b (off + 2) done.length cur arg 1 _ 2 cur1 j1
        (apply_block_cb bcb arg cur1 2 1).1 _ (off + 16) (by omega) hj1 hj2 hj3 hjch
        (Prod.ext rfl (hb _ _ _ _)) hstJ]
      -- the continuation code before the Normal block
      rw [after_block_code ops d bcb scb (f2 + 1) b (off + 16) j1 cur1 _
        (pre ++ [0x03, 0x80] ++ [a0, a1, b0, b1, c0, c1] ++ [p0, p1, p2, p3] ++ [t0, t1, t2, t3])
        ([e0, e1, f0, f1, g0, g1] ++ ([t0, t1, t2, t3] ++ (cs ++ (out1 ++ tl0 :: th0 :: post))))
        (by rw [hdata]; simp only [List.append_assoc]) (by simp; omega)]
      -- the Normal block
      obtain ⟨hn1, hn2, hn3⟩ := pes_header_decode d
        (pre ++ [0x03, 0x80] ++ [a0, a1, b0, b1, c0, c1] ++ [p0, p1, p2, p3] ++ [t0, t1, t2, t3] ++
          [0x03, 0x80])
        ([t0, t1, t2, t3] ++ (cs ++ (out1 ++ tl0 :: th0 :: post))) e0 e1 f0 f1 g0 g1 (off + 16 + 2)
        (by rw [hdata]; simp only [List.append_assoc]) (by simp; omega)
      rw [he] at hn1
      rw [hg] at hn3
      have hnch : ((j1 < d.change_count ∧ ∃ c,
            d.change_list[j1.toNat]? = some c ∧ b + 1 = c.block_index ∧
            cur1 = (d.thread_list.getD []).getD c.thread_index.toNat pec_undefined_thread ∧
            j1 = j1 + 1) ∨
          ((¬ j1 < d.change_count ∨ ∃ c,
            d.change_list[j1.toNat]? = some c ∧ b + 1 ≠ c.block_index) ∧
            cur1 = cur1 ∧ j1 = j1)) :=
        Or.inr ⟨hnochange j1 (b + 1) hdone1.symm (by omega), rfl, rfl⟩
      have hstN : ∀ argJ : σ, block_stitches ops d scb (((run.length + 1 : Nat) : Int)).toNat 0
          (off + 16 + 2 + 6)
          (apply_block_cb bcb argJ cur1 ((run.length + 1 : Nat) : Int) 0).1 =
          ((run_events ops 1 run).foldl (play_event bcb scb)
            (apply_stitch_cb scb (apply_block_cb bcb argJ cur1 ((run.length + 1 : Nat) : Int) 0).1 0
                (ops.pec_physical_coordinate (ops.pec_raw_coordinate t.x))
                (ops.pec_physical_coordinate (ops.pec_raw_coordinate t.y))).1,
            some (off + 28 + cs.length)) := by
        intro argJ
        obtain ⟨htx, hty⟩ := htdec d (pre ++ [0x03, 0x80] ++ [a0, a1, b0, b1, c0, c1] ++
          [p0, p1, p2, p3] ++ [t0, t1, t2, t3] ++ [0x03, 0x80] ++ [e0, e1, f0, f1, g0, g1])
          (cs ++ (out1 ++ tl0 :: th0 :: post))
          (off + 16 + 2 + 6)
          (by rw [hdata]; simp only [List.append_assoc]) (by simp; omega)
        rw [Int.toNat_ofNat, block_stitches_step ops d scb hs run.length 0 (off + 16 + 2 + 6) _ _ _
          htx hty]
        rw [hdec d (pre ++ [0x03, 0x80] ++ [a0, a1, b0, b1, c0, c1] ++
          [p0, p1, p2, p3] ++ [t0, t1, t2, t3] ++ [0x03, 0x80] ++ [e0, e1, f0, f1, g0, g1] ++
          [t0, t1, t2, t3]) (out1 ++ tl0 :: th0 :: post)
          (by rw [hdata]; simp only [List.append_assoc]) (0 + 1) (off + 16 + 2 + 6 + 4) _
          (by simp; omega)]
        have e3 : off + 16 + 2 + 6 + 4 + (cs.length : Int) = off + 28 + cs.length := by omega
        rw [e3]
        rfl
      rw [block_loop_step ops d bcb scb f2 (b + 1) (off + 16 + 2) j1 cur1 _ 0 _
        ((run.length + 1 : Nat) : Int) cur1 j1
        (apply_block_cb bcb _ cur1 ((run.length + 1 : Nat) : Int) 0).1 _ (off + 28 + cs.length)
        (by omega) hn1 hn2 hn3 hnch (Prod.ext rfl (hb _ _ _ _)) (hstN _)]
      -- the stitches after this block
      have hfull1 : enc.stitch_list = (front ++ t :: run) ++ tail1 := by
        rw [hfull]; simp
      have hfl : (front ++ t :: run).length = front.length + 1 + run.length := by
        simp; omega
      have hb2 : b + 1 = b + 2 - 1 := by omega
      rw [hb2, ← hdone1]
      rw [ih tail1 (by simp only [List.length_cons, List.length_append] at hlen; omega) htail1
        (front ++ t :: run) (run.getLastD t) hfull1 (getLast?_append_run front run t) out1
        (by rw [hfl]; exact henc1) d
        (pre ++ [0x03, 0x80] ++ [a0, a1, b0, b1, c0, c1] ++
          [p0, p1, p2, p3] ++ [t0, t1, t2, t3] ++ [0x03, 0x80] ++ [e0, e1, f0, f1, g0, g1] ++
          [t0, t1, t2, t3] ++ cs) tl0 th0 post
        (by rw [hdata]; simp only [List.append_assoc]) hne
        (by simp only [List.length_append, List.length_cons, List.length_nil]; push_cast; omega)
        done1 (b + 2) hcl htl hcc f2
        (by simp only [List.length_cons, List.length_append] at hfuel; omega)
        (off + 28 + cs.length) cur1 (1 + run.length) _
        (by simp only [List.length_append, List.length_cons, List.length_nil]; push_cast; omega)]
      -- the events
      have hrep : pes_reported_from ops enc.thread_list cur done.length p k (t :: (run ++ tail1)) =
          .block cur1 2 1 ::
          .stitch 0 (ops.pec_physical_coordinate (ops.pec_raw_coordinate p.x))
            (ops.pec_physical_coordinate (ops.pec_raw_coordinate p.y)) ::
          .stitch 1 (ops.pec_physical_coordinate (ops.pec_raw_coordinate t.x))
            (ops.pec_physical_coordinate (ops.pec_raw_coordinate t.y)) ::
          .block cur1 ((run.length + 1 : Nat) : Int) 0 ::
          .stitch 0 (ops.pec_physical_coordinate (ops.pec_raw_coordinate t.x))
            (ops.pec_physical_coordinate (ops.pec_raw_coordinate t.y)) ::
          (run_events ops 1 run ++
            pes_reported_from ops enc.thread_list cur1 done1.length (run.getLastD t)
              (1 + run.length) tail1) := by
        rw [hdone1]
        simp only [pes_reported_from, ht, if_true, cur1, j1]
        rw [run_length_append run tail1 hrun htail1,
          reported_from_run ops enc.thread_list run hrun]
        congr 4
        push_cast
        ring_nf
      rw [hrep]
      simp only [List.foldl_cons, List.foldl_append, play_block, play_stitch]
      congr 2
      omega


/-- The block loop of stitch_foreach on the stitch list written by the encoder, for
callbacks that accept everything and a decoder that holds the thread changes of the
stitch list: it reports the expected blocks and stitches and leaves the loop at the
thread table. -/
theorem block_loop_encoded {F σ : Type} (ops : FloatOps F) (enc : pes_encoder F)
    (bcb : Option (pes_block_callback σ)) (scb : Option (pes_stitch_callback F σ))
    (hb : ∀ a th c t, (apply_block_cb bcb a th c t).2 = true)
    (hs : ∀ a k x y, (apply_stitch_cb scb a k x y).2 = true)
    (H : jump_on_change enc.stitch_list) (hne0 : enc.stitch_list ≠ [])
    (sl : List Byte) (henc : PesEncoder.encode_stitch_list ops enc = some sl)
    (d : pes_decoder) (pre : List Byte) (tl0 th0 : Byte) (post : List Byte)
    (hd : d.data = pre ++ sl ++ tl0 :: th0 :: post)
    (hne : (tl0.val : Int) + 256 * th0.val ≠ 0x8003)
    (hpec : (pre.length : Int) + sl.length < d.pec_offset)
    (hcl : d.change_list = (changes_of enc.thread_list enc.stitch_list).map Prod.fst)
    (htl : d.thread_list = some ((changes_of enc.thread_list enc.stitch_list).map Prod.snd))
    (hcc : d.change_count = d.change_list.length)
    (fuel : Nat) (hfuel : 2 * enc.stitch_list.length ≤ fuel)
    (off : Int) (hoff : off = pre.length) (th : pec_thread) (arg : σ) :
    block_loop ops d bcb scb fuel 0 off 0 th arg =
      ((pes_reported ops enc.thread_list enc.stitch_list).foldl (play_event bcb scb) arg,
       some (off + sl.length)) := by
  obtain ⟨s0, rest, hfull⟩ : ∃ s0 rest, enc.stitch_list = s0 :: rest := by
    cases hl : enc.stitch_list with
    | nil => exact absurd hl hne0
    | cons a l => exact ⟨a, l, rfl⟩
  obtain ⟨run, tail1, rfl, hrun, htail1, hrl⟩ := split_run rest
  unfold PesEncoder.encode_stitch_list at henc
  rw [hfull] at henc
  simp only [encode_stitch_loop, if_true] at henc
  obtain ⟨nh, r1, hnh, hr1, rfl⟩ := both_eq_some.1 henc
  obtain ⟨c0s, out2, hc0, hout2, rfl⟩ := both_eq_some.1 hr1
  obtain ⟨e0, e1, f0, f1, g0, g1, rfl, he, hg⟩ := pes_header_eq_some _ _ _ nh hnh
  obtain ⟨t0, t1, t2, t3, rfl, htdec⟩ := pes_encode_stitch_eq_some ops s0.x s0.y c0s hc0
  obtain ⟨cs, out1, rfl, hcsl, henc1, hdec⟩ := block_stitches_run ops enc bcb scb hs run hrun
    (0 + 1) (by omega) s0 tail1 out2 hout2
  have hbsc : block_stitch_count enc.stitch_list 0 = run.length + 1 := by
    rw [hfull]
    have := block_stitch_count_run [] run tail1 s0 (by rw [List.nil_append, ← hfull]; exact H)
      hrun htail1
    simpa using this
  rw [hbsc] at hg
  have hdata : d.data = pre ++ ([e0, e1, f0, f1, g0, g1] ++ ([t0, t1, t2, t3] ++ (cs ++
      (out1 ++ tl0 :: th0 :: post)))) := by
    rw [hd]; simp only [List.append_assoc]
  have houtlen : (([e0, e1, f0, f1, g0, g1] ++ ([t0, t1, t2, t3] ++ (cs ++ out1)) :
      List Byte).length : Int) = 10 + cs.length + out1.length := by
    simp only [List.length_append, List.length_cons, List.length_nil]
    push_cast
    ring
  rw [houtlen] at hpec ⊢
  obtain ⟨f2, rfl⟩ : ∃ f2, fuel = f2 + 1 := ⟨fuel - 1, by
    rw [hfull] at hfuel; simp only [List.length_cons] at hfuel; omega⟩
  have hchg : changes_of enc.thread_list enc.stitch_list =
      [(⟨0, 0⟩, run_thread enc.thread_list s0 0)] ++
        changes_from enc.thread_list (-1 + 2)
          (([(⟨0, 0⟩, run_thread enc.thread_list s0 0)] :
            List (pes_change × pec_thread)).length : Int) (run.getLastD s0) tail1 := by
    rw [hfull]
    simp only [changes_of, List.length_singleton, List.singleton_append, Nat.cast_one]
    rw [changes_from_run enc.thread_list run hrun]
    rfl
  rw [hchg] at hcl htl
  obtain ⟨hn1, hn2, hn3⟩ := pes_header_decode d pre
    ([t0, t1, t2, t3] ++ (cs ++ (out1 ++ tl0 :: th0 :: post))) e0 e1 f0 f1 g0 g1 off
    (by rw [hdata]; simp only [List.append_assoc]) hoff
  rw [he] at hn1
  rw [hg] at hn3
  have hch : (((0 : Int) < d.change_count ∧ ∃ c,
        d.change_list[(0 : Int).toNat]? = some c ∧ (0 : Int) = c.block_index ∧
        run_thread enc.thread_list s0 0 =
          (d.thread_list.getD []).getD c.thread_index.toNat pec_undefined_thread ∧
        (1 : Int) = 0 + 1) ∨
      ((¬ (0 : Int) < d.change_count ∨ ∃ c,
        d.change_list[(0 : Int).toNat]? = some c ∧ (0 : Int) ≠ c.block_index) ∧
        run_thread enc.thread_list s0 0 = th ∧ (1 : Int) = 0)) := by
    left
    refine ⟨?_, ⟨0, 0⟩, ?_, rfl, ?_, rfl⟩
    · rw [hcc, hcl]; simp
    · rw [hcl]; simp
    · rw [htl]; simp [List.getD]
  have hstN : block_stitches ops d scb (((run.length + 1 : Nat) : Int)).toNat 0 (off + 6)
      (apply_block_cb bcb arg (run_thread enc.thread_list s0 0)
        ((run.length + 1 : Nat) : Int) 0).1 =
      ((run_events ops 1 run).foldl (play_event bcb scb)
        (apply_stitch_cb scb (apply_block_cb bcb arg (run_thread enc.thread_list s0 0)
            ((run.length + 1 : Nat) : Int) 0).1 0
            (ops.pec_physical_coordinate (ops.pec_raw_coordinate s0.x))
            (ops.pec_physical_coordinate (ops.pec_raw_coordinate s0.y))).1,
        some (off + 10 + cs.length)) := by
    obtain ⟨htx, hty⟩ := htdec d (pre ++ [e0, e1, f0, f1, g0, g1])
      (cs ++ (out1 ++ tl0 :: th0 :: post)) (off + 6)
      (by rw [hdata]; simp only [List.append_assoc]) (by simp; omega)
    rw [Int.toNat_ofNat, block_stitches_step ops d scb hs run.length 0 (off + 6) _ _ _ htx hty]
    rw [hdec d (pre ++ [e0, e1, f0, f1, g0, g1] ++ [t0, t1, t2, t3]) (out1 ++ tl0 :: th0 :: post)
      (by rw [hdata]; simp only [List.append_assoc]) (0 + 1) (off + 6 + 4) _ (by simp; omega)]
    have e3 : off + 6 + 4 + (cs.length : Int) = off + 10 + cs.length := by omega
    rw [e3]
    rfl
  have hoff0 : off + 0 = off := by omega
  rw [hoff0] at hn1
  rw [block_loop_step ops d bcb scb f2 0 off 0 th arg 0 _ ((run.length + 1 : Nat) : Int)
    (run_thread enc.thread_list s0 0) 1 _ _ (off + 10 + cs.length) (by omega)
    (by rw [hoff0]; exact hn1) hn2 hn3 hch (Prod.ext rfl (hb _ _ _ _)) hstN]
  have hfull1 : enc.stitch_list = (s0 :: run) ++ tail1 := by rw [hfull]; simp
  have hgl : (s0 :: run).getLast? = some (run.getLastD s0) := by
    have := getLast?_append_run ([] : List (pes_stitch F)) run s0
    simpa using this
  have key := after_block_encoded ops enc bcb scb hb hs H tail1.length tail1 (le_refl _) htail1
    (s0 :: run) (run.getLastD s0) hfull1 hgl out1
    (by simpa [Nat.add_comm] using henc1) d
    (pre ++ [e0, e1, f0, f1, g0, g1] ++ [t0, t1, t2, t3] ++ cs) tl0 th0 post
    (by rw [hdata]; simp only [List.append_assoc]) hne
    (by simp only [List.length_append, List.length_cons, List.length_nil]; push_cast; omega)
    [(⟨0, 0⟩, run_thread enc.thread_list s0 0)] (-1 + 2) hcl htl hcc f2
    (by rw [hfull] at hfuel; simp only [List.length_cons, List.length_append] at hfuel; omega)
    (off + 10 + cs.length) (run_thread enc.thread_list s0 0) (1 + run.length)
    ((run_events ops 1 run).foldl (play_event bcb scb)
      (apply_stitch_cb scb (apply_block_cb bcb arg (run_thread enc.thread_list s0 0)
            ((run.length + 1 : Nat) : Int) 0).1 0
            (ops.pec_physical_coordinate (ops.pec_raw_coordinate s0.x))
            (ops.pec_physical_coordinate (ops.pec_raw_coordinate s0.y))).1)
  have hb2 : (-1 + 2 - 1 : Int) = 0 := by norm_num
  have hl1 : (([(⟨0, 0⟩, run_thread enc.thread_list s0 0)] :
      List (pes_change × pec_thread)).length : Int) = 1 := by simp
  rw [hb2, hl1] at key
  rw [key (by
    simp only [List.length_append, List.length_cons, List.length_nil]; push_cast; omega)]
  have hrep : pes_reported ops enc.thread_list enc.stitch_list =
      .block (run_thread enc.thread_list s0 0) ((run.length + 1 : Nat) : Int) 0 ::
      .stitch 0 (ops.pec_physical_coordinate (ops.pec_raw_coordinate s0.x))
        (ops.pec_physical_coordinate (ops.pec_raw_coordinate s0.y)) ::
      (run_events ops 1 run ++ pes_reported_from ops enc.thread_list
        (run_thread enc.thread_list s0 0) 1 (run.getLastD s0) (1 + run.length) tail1) := by
    rw [hfull]
    simp only [pes_reported, hrl]
    rw [reported_from_run ops enc.thread_list run hrun]
    have e4 : (1 : Int) + (run.length : Int) = ((run.length + 1 : Nat) : Int) := by
      push_cast; omega
    rw [e4]
  rw [hrep]
  simp only [List.foldl_cons, List.foldl_append, play_event]
  have e5 : off + 10 + (cs.length : Int) + out1.length = off + (10 + cs.length + out1.length) := by
    omega
  rw [e5]


/-! ## The block loop with null callbacks -/

theorem pes_decode_u16_data (d d1 : pes_decoder) (h : d.data = d1.data) (off : Int) :
    decode_u16lsb d off = decode_u16lsb d1 off := by
  simp only [decode_u16lsb, pes_decoder.size, h]

theorem pes_decode_i16_data (d d1 : pes_decoder) (h : d.data = d1.data) (off : Int) :
    decode_i16lsb d off = decode_i16lsb d1 off := by
  simp only [decode_i16lsb, pes_decoder.size, h]

theorem block_stitches_data {F σ : Type} (ops : FloatOps F) (d d1 : pes_decoder)
    (h : d.data = d1.data) (scb : Option (pes_stitch_callback F σ)) :
    ∀ (n : Nat) (i off : Int) (arg : σ),
      block_stitches ops d scb n i off arg = block_stitches ops d1 scb n i off arg
  | 0, _, _, _ => rfl
  | n + 1, i, off, arg => by
    simp only [block_stitches, pes_decode_i16_data d d1 h,
      block_stitches_data ops d d1 h scb n]

/-- With null callbacks the block loop depends on the buffer and the PEC offset only. -/
theorem block_loop_null_cb {F σ : Type} (ops : FloatOps F) (d d1 : pes_decoder)
    (h : d.data = d1.data) (hp : d.pec_offset = d1.pec_offset) :
    ∀ (fuel : Nat) (b b1 off ci ci1 : Int) (th th1 : pec_thread) (arg : σ),
      block_loop ops d none (none : Option (pes_stitch_callback F σ)) fuel b off ci th arg =
        block_loop ops d1 none none fuel b1 off ci1 th1 arg
  | 0, _, _, _, _, _, _, _, _ => rfl
  | fuel + 1, b, b1, off, ci, ci1, th, th1, arg => by
    simp only [block_loop, pes_decode_u16_data d d1 h, hp, block_stitches_data ops d d1 h]
    split
    · rfl
    · split
      · rfl
      · split
        · rfl
        · split
          · rfl
          · simp only [Bool.true_eq_false, if_false]
            split
            · rfl
            · split
              · rfl
              · split
                · rfl
                · exact block_loop_null_cb ops d d1 h hp fuel _ _ _ _ _ _ _ _

/-! ## The thread table -/

theorem changes_from_materialise {F : Type} (tl : List pec_thread) :
    ∀ (l : List (pes_stitch F)) (b j : Int) (p : pes_stitch F),
      changes_from tl b j p l = materialise j (change_entries tl b p l)
  | [], _, _, _ => rfl
  | s :: rest, b, j, p => by
    simp only [changes_from, change_entries]
    split_ifs
    · simp only [materialise, run_thread, changes_from_materialise tl rest]
    · exact changes_from_materialise tl rest _ _ _
    · exact changes_from_materialise tl rest _ _ _

theorem changes_of_materialise {F : Type} (tl : List pec_thread) (l : List (pes_stitch F)) :
    changes_of tl l = materialise 0 (table_entries tl l) := by
  cases l with
  | nil => rfl
  | cons s rest =>
    simp only [changes_of, table_entries, materialise, run_thread,
      changes_from_materialise tl rest]
    rfl

theorem materialise_length : ∀ (E : List (Int × Int)) (j : Int), (materialise j E).length = E.length
  | [], _ => rfl
  | (_, _) :: rest, j => by simp only [materialise, List.length_cons, materialise_length rest]

theorem entries_bytes_length : ∀ (E : List (Int × Int)), (entries_bytes E).length = 4 * E.length
  | [] => rfl
  | (_, _) :: rest => by
    simp only [entries_bytes, List.length_cons, entries_bytes_length rest]; omega

theorem adjacent_of_chain {F : Type} (front rest : List (pes_stitch F)) (p s : pes_stitch F)
    (H : jump_on_change (front ++ s :: rest)) (hp : front.getLast? = some p) :
    p.thread_index ≠ s.thread_index → s.jump = true := by
  obtain ⟨A, rfl⟩ := List.getLast?_eq_some_iff.1 hp
  have hin : [p, s] <:+: A ++ [p] ++ s :: rest := ⟨A, rest, by simp⟩
  have := List.Chain'.infix H hin
  simpa [List.chain'_cons] using this

/-- The second loop of encode_thread_list14 writes the table entries. -/
theorem encode_change_loop_entries {F : Type} (enc : pes_encoder F)
    (H : jump_on_change enc.stitch_list) :
    ∀ (tail front : List (pes_stitch F)) (p : pes_stitch F),
      enc.stitch_list = front ++ tail → front.getLast? = some p →
    ∀ (b : Int) (bytes : List Byte),
      encode_change_loop enc front.length b (some p.thread_index) tail = some bytes →
      bytes = entries_bytes (change_entries enc.thread_list b p tail) ∧
      ∀ e ∈ change_entries enc.thread_list b p tail,
        0 ≤ e.1 ∧ e.1 ≤ 0xFFFF ∧ 0 ≤ e.2 ∧ e.2 ≤ 0xFFFF
  | [], _, _, _, _, _, bytes, h => by
    simp only [encode_change_loop, Option.some.injEq] at h
    subst h
    simp [change_entries, entries_bytes]
  | s :: rest, front, p, hfull, hp, b, bytes, h => by
    have hadj := adjacent_of_chain front rest p s (hfull ▸ H) hp
    have hfl : 1 ≤ front.length := by
      cases front with
      | nil => simp at hp
      | cons a l => simp
    have hib : is_block enc.stitch_list front.length = s.jump :=
      is_block_jump_idx enc.stitch_list H front.length hfl s
        (by rw [hfull]; exact getElem?_append_at front rest s)
    have hfull1 : enc.stitch_list = (front ++ [s]) ++ rest := by rw [hfull]; simp
    have hp1 : (front ++ [s]).getLast? = some s := by simp
    have hlen1 : (front ++ [s]).length = front.length + 1 := by simp
    have hi0 : ¬ front.length = 0 := by omega
    simp only [encode_change_loop, hib, if_neg hi0] at h
    have hcond : (some p.thread_index = none ∨ some p.thread_index ≠ some s.thread_index) ↔
        s.thread_index ≠ p.thread_index := by
      constructor
      · rintro (hh | hh)
        · cases hh
        · intro e; exact hh (by rw [e])
      · intro hh; right; intro e; exact hh (Option.some.inj e).symm
    obtain ⟨en, r, hen, hr, rfl⟩ := both_eq_some.1 h
    rw [← hlen1] at hr
    simp only [change_entries]
    generalize pec_palette_index_by_rgb
      (enc.thread_list.getD s.thread_index.toNat pec_undefined_thread).rgb = X at hen ⊢
    by_cases hth : s.thread_index ≠ p.thread_index
    · have hj : s.jump = true := hadj (fun e => hth e.symm)
      rw [if_pos (hcond.2 hth)] at hen
      rw [if_pos hj] at hr ⊢
      rw [if_pos hth]
      obtain ⟨ih1, ih2⟩ := encode_change_loop_entries enc H rest (front ++ [s]) s hfull1 hp1 _ _ hr
      obtain ⟨x1, x2, hx1, hx2, rfl⟩ := both_eq_some.1 hen
      unfold PesEncoder.encode_u16lsb at hx1 hx2
      split_ifs at hx1 hx2 with c1 c2
      simp only [Option.some.injEq] at hx1 hx2
      subst hx1 hx2 ih1
      refine ⟨by simp [entries_bytes], ?_⟩
      intro e he
      rcases List.mem_cons.1 he with he | he
      · rw [he]; exact ⟨c1.1, c1.2, c2.1, c2.2⟩
      · exact ih2 e he
    · rw [if_neg (fun c => hth (hcond.1 c))] at hen
      simp only [Option.some.injEq] at hen
      subst hen
      have ih := encode_change_loop_entries enc H rest (front ++ [s]) s hfull1 hp1 _ _ hr
      by_cases hj : s.jump = true
      · rw [if_pos hj] at ih ⊢
        rw [if_neg hth]
        simpa using ih
      · rw [if_neg hj] at ih ⊢
        simpa using ih

theorem change_count_loop_entries {F : Type} (tl : List pec_thread) :
    ∀ (tail : List (pes_stitch F)) (p : pes_stitch F) (b : Int), jump_on_change (p :: tail) →
      change_count_loop (some p.thread_index) tail = (change_entries tl b p tail).length
  | [], _, _, _ => rfl
  | s :: rest, p, b, H => by
    have H2 := (List.chain'_cons.1 H)
    simp only [change_count_loop, change_entries]
    by_cases hth : s.thread_index ≠ p.thread_index
    · have hj : s.jump = true := H2.1 (fun e => hth e.symm)
      have hc : (some p.thread_index = none ∨ some p.thread_index ≠ some s.thread_index) := by
        right; intro e; exact hth (Option.some.inj e).symm
      rw [if_pos hc, if_pos hj, if_pos hth, change_count_loop_entries tl rest s (b + 2) H2.2]
      simp only [List.length_cons]; push_cast; omega
    · have hc : ¬ (some p.thread_index = none ∨ some p.thread_index ≠ some s.thread_index) := by
        rintro (hh | hh)
        · cases hh
        · apply hh; rw [not_not.1 hth]
      rw [if_neg hc]
      by_cases hj : s.jump = true
      · rw [if_pos hj, if_neg hth, change_count_loop_entries tl rest s (b + 2) H2.2]; omega
      · rw [if_neg hj, change_count_loop_entries tl rest s b H2.2]; omega

/-- The thread table written by encode_thread_list14: the number of entries, the
entries, and four zero bytes. -/
theorem encode_thread_list14_eq {F : Type} (enc : pes_encoder F)
    (H : jump_on_change enc.stitch_list) (hne : enc.stitch_list ≠ []) (tb : List Byte)
    (h : encode_thread_list14 enc = some tb) :
    ∃ n0 n1 : Byte,
      tb = [n0, n1] ++ entries_bytes (table_entries enc.thread_list enc.stitch_list) ++
        [0, 0, 0, 0] ∧
      (n0.val : Int) + 256 * n1.val = (table_entries enc.thread_list enc.stitch_list).length ∧
      ∀ e ∈ table_entries enc.thread_list enc.stitch_list,
        0 ≤ e.1 ∧ e.1 ≤ 0xFFFF ∧ 0 ≤ e.2 ∧ e.2 ≤ 0xFFFF := by
  obtain ⟨s0, rest, hfull⟩ : ∃ s0 rest, enc.stitch_list = s0 :: rest := by
    cases hl : enc.stitch_list with
    | nil => exact absurd hl hne
    | cons a l => exact ⟨a, l, rfl⟩
  unfold encode_thread_list14 at h
  obtain ⟨cnt, r1, hcnt, hr1, rfl⟩ := both_eq_some.1 h
  obtain ⟨ents, r2, hents, hr2, rfl⟩ := both_eq_some.1 hr1
  have hz : both (PesEncoder.encode_u16lsb 0) (PesEncoder.encode_u16lsb 0) =
      some [0, 0, 0, 0] := by decide
  rw [hz] at hr2
  simp only [Option.some.injEq] at hr2
  subst hr2
  obtain ⟨n0, n1, rfl, hn, -, -⟩ := pes_u16_eq_some hcnt
  have hib : is_block enc.stitch_list 0 = true := by rw [hfull]; exact is_block_zero rest s0
  rw [hfull] at hents
  simp only [encode_change_loop, true_or, if_true] at hents
  rw [hib] at hents
  simp only [if_true] at hents
  obtain ⟨en, r, hen, hr, rfl⟩ := both_eq_some.1 hents
  obtain ⟨ih1, ih2⟩ := encode_change_loop_entries enc H rest [s0] s0 (by rw [hfull]; rfl) rfl
    _ _ hr
  obtain ⟨x1, x2, hx1, hx2, rfl⟩ := both_eq_some.1 hen
  generalize hX : pec_palette_index_by_rgb
      (enc.thread_list.getD s0.thread_index.toNat pec_undefined_thread).rgb = X at hx2
  unfold PesEncoder.encode_u16lsb at hx1 hx2
  split_ifs at hx1 hx2 with c1 c2
  simp only [Option.some.injEq] at hx1 hx2
  subst hx1 hx2 ih1
  have hE : table_entries enc.thread_list enc.stitch_list =
      (0, X) :: change_entries enc.thread_list (0 + 1) s0 rest := by
    rw [hfull, ← hX]; rfl
  rw [hE]
  refine ⟨n0, n1, by simp [entries_bytes], ?_, ?_⟩
  · rw [hn, hfull]
    simp only [change_count_loop, true_or, if_true, List.length_cons]
    rw [change_count_loop_entries enc.thread_list rest s0 (0 + 1) (hfull ▸ H)]
    push_cast; omega
  · intro e he
    rcases List.mem_cons.1 he with he | he
    · rw [he]; exact ⟨c1.1, c1.2, c2.1, c2.2⟩
    · exact ih2 e he

theorem entry_decode (d : pes_decoder) (pre post : List Byte) (b x : Int) (rest : List (Int × Int))
    (hd : d.data = pre ++ entries_bytes ((b, x) :: rest) ++ post)
    (hb : 0 ≤ b ∧ b ≤ 0xFFFF) (hx : 0 ≤ x ∧ x ≤ 0xFFFF) (off : Int) (hoff : off = pre.length) :
    PesDecoder.decode_u16lsb d (off + 0) = some b ∧
    PesDecoder.decode_u16lsb d (off + 2) = some x ∧
    d.data = (pre ++ [byteOfInt b, byteOfInt (b / 256), byteOfInt x, byteOfInt (x / 256)]) ++
      entries_bytes rest ++ post := by
  have h1 := pes_decode_u16_at d pre
    (byteOfInt x :: byteOfInt (x / 256) :: (entries_bytes rest ++ post))
    (byteOfInt b) (byteOfInt (b / 256)) (off + 0) (by rw [hd]; simp [entries_bytes]) (by omega)
  have h2 := pes_decode_u16_at d (pre ++ [byteOfInt b, byteOfInt (b / 256)])
    (entries_bytes rest ++ post)
    (byteOfInt x) (byteOfInt (x / 256)) (off + 2) (by rw [hd]; simp [entries_bytes])
    (by simp; omega)
  rw [byteOfInt_val_mod, byteOfInt_val_mod] at h1 h2
  have e1 : b % 256 + 256 * (b / 256 % 256) = b := by omega
  have e2 : x % 256 + 256 * (x / 256 % 256) = x := by omega
  rw [e1] at h1
  rw [e2] at h2
  exact ⟨h1, h2, by rw [hd]; simp [entries_bytes]⟩

/-- The loop of thread_foreach with change_count_cb counts the table entries. -/
theorem thread_loop_count (d : pes_decoder) :
    ∀ (E : List (Int × Int)) (pre post : List Byte),
      d.data = pre ++ entries_bytes E ++ post →
      (∀ e ∈ E, 0 ≤ e.1 ∧ e.1 ≤ 0xFFFF ∧ 0 ≤ e.2 ∧ e.2 ≤ 0xFFFF) →
    ∀ (i off c : Int), off = pre.length →
      thread_foreach_loop d change_count_cb E.length i off c =
        (c + E.length, some (off + 4 * E.length))
  | [], _, _, _, _, _, _, _, _ => by simp [thread_foreach_loop]
  | (b, x) :: rest, pre, post, hd, hr, i, off, c, hoff => by
    have hbx := hr (b, x) (List.mem_cons_self _ _)
    obtain ⟨h1, h2, hd2⟩ := entry_decode d pre post b x rest hd ⟨hbx.1, hbx.2.1⟩
      ⟨hbx.2.2.1, hbx.2.2.2⟩ off hoff
    simp only [List.length_cons, thread_foreach_loop, h1, h2, change_count_cb,
      Bool.true_eq_false, if_false]
    rw [thread_loop_count d rest _ post hd2 (fun e he => hr e (List.mem_cons_of_mem _ he))
      (i + 1) (off + 4) (c + 1) (by simp; omega)]
    refine Prod.ext ?_ ?_
    · simp only []; push_cast; omega
    · simp only [Option.some.injEq]; push_cast; omega

theorem set_append_replicate {α : Type} (A : List α) (n : Nat) (z c : α) :
    (A ++ List.replicate (n + 1) z).set A.length c = (A ++ [c]) ++ List.replicate n z := by
  induction A with
  | nil => simp [List.replicate_succ]
  | cons a l ih => simp only [List.cons_append, List.length_cons, List.set_cons_succ, ih]

/-- The loop of thread_foreach with palette_thread_cb stores the changes and the
threads of the table entries. -/
theorem thread_loop_palette (d : pes_decoder) :
    ∀ (E : List (Int × Int)) (pre post : List Byte),
      d.data = pre ++ entries_bytes E ++ post →
      (∀ e ∈ E, 0 ≤ e.1 ∧ e.1 ≤ 0xFFFF ∧ 0 ≤ e.2 ∧ e.2 ≤ 0xFFFF) →
    ∀ (done : List (pes_change × pec_thread)) (st : pes_decoder) (off : Int),
      off = pre.length →
      st.thread_count = done.length + E.length →
      st.change_list = done.map Prod.fst ++ List.replicate E.length ⟨0, 0⟩ →
      st.thread_list = some (done.map Prod.snd ++ List.replicate E.length zero_thread) →
      thread_foreach_loop d palette_thread_cb E.length done.length off st =
        ({ st with
            change_list := (done ++ materialise done.length E).map Prod.fst
            thread_list := some ((done ++ materialise done.length E).map Prod.snd) },
         some (off + 4 * E.length))
  | [], _, _, _, _, done, st, off, _, _, hcl, htl => by
    simp only [List.length_nil, thread_foreach_loop, materialise, List.append_nil,
      List.replicate_zero] at hcl htl ⊢
    refine Prod.ext ?_ (by simp)
    cases st
    simp only [] at hcl htl ⊢
    rw [hcl, htl]
  | (b, x) :: rest, pre, post, hd, hr, done, st, off, hoff, hcnt, hcl, htl => by
    have hbx := hr (b, x) (List.mem_cons_self _ _)
    obtain ⟨h1, h2, hd2⟩ := entry_decode d pre post b x rest hd ⟨hbx.1, hbx.2.1⟩
      ⟨hbx.2.2.1, hbx.2.2.2⟩ off hoff
    have hlt : decide ((done.length : Int) < st.thread_count) = true := by
      rw [hcnt]; simp only [List.length_cons, decide_eq_true_eq]; push_cast; omega
    simp only [List.length_cons, thread_foreach_loop, h1, h2, palette_thread_cb,
      change_thread_cb, hlt, Bool.true_eq_false, if_false, Int.toNat_ofNat]
    have hlen : ((done.length : Int) + 1) =
        ((done ++ [((⟨b, done.length⟩ : pes_change),
          { pec_palette_thread x with index := (done.length : Int) })]).length : Int) := by
      simp
    rw [hlen]
    refine (thread_loop_palette d rest _ post hd2 (fun e he => hr e (List.mem_cons_of_mem _ he))
      (done ++ [(⟨b, done.length⟩, { pec_palette_thread x with index := (done.length : Int) })])
      _ (off + 4) (by simp; omega) ?_ ?_ ?_).trans ?_
    · simp only [hcnt, List.length_append, List.length_cons, List.length_nil]
      push_cast; omega
    · simp only [hcl, List.length_cons, List.map_append, List.map_cons, List.map_nil]
      rw [← List.length_map done Prod.fst, set_append_replicate]
    · simp only [htl, Option.getD_some, List.length_cons, List.map_append,
        List.map_cons, List.map_nil]
      rw [← List.length_map done Prod.snd, set_append_replicate]
    · refine Prod.ext ?_ ?_
      · simp only [materialise, List.append_assoc, List.singleton_append, List.length_append,
          List.length_cons, List.length_nil]
        push_cast
        rfl
      · simp only [Option.some.injEq]; push_cast; omega

/-! ## Reachable states of the PES encoder and sizes -/

theorem pec_append_mono {F : Type} (ops : FloatOps F) (a : Bool) (e : PecEncoder.pec_encoder F)
    (t : pec_stitch_type) (x y : F) :
    e.stitch_list.length ≤ (PecEncoder.append_stitch ops a e t x y).1.stitch_list.length ∧
    ((PecEncoder.append_stitch ops a e t x y).2 = true →
      (PecEncoder.append_stitch ops a e t x y).1.stitch_list.length =
        e.stitch_list.length + 1) := by
  unfold PecEncoder.append_stitch
  simp only []
  generalize hg : (if e.stitch_capacity ≤ e.stitch_count then
        if e.stitch_capacity +
            (if e.stitch_capacity = 0 then 100
             else if 10000 < e.stitch_capacity then 10000 else e.stitch_capacity) <
            2147483647 / 2 ∧ a = true then
          { e with stitch_capacity := e.stitch_capacity +
            (if e.stitch_capacity = 0 then 100
             else if 10000 < e.stitch_capacity then 10000 else e.stitch_capacity) }
        else e
      else e) = g
  have hg1 : g.stitch_list = e.stitch_list := by
    rw [← hg]; split_ifs <;> rfl
  clear hg
  split_ifs <;> simp [hg1]

theorem pec_append_thread_mono {F : Type} (ops : FloatOps F) (a : Bool)
    (e : PecEncoder.pec_encoder F) (p : Int) :
    e.stitch_list.length ≤ (PecEncoder.pec_append_thread ops a e p).1.stitch_list.length := by
  unfold PecEncoder.pec_append_thread
  by_cases c : PecEncoder.PEC_MAX_THREADS ≤ e.thread_count
  · rw [if_pos c]
  · rw [if_neg c]
    simp only []
    split_ifs
    · exact Nat.le_refl _
    · exact (pec_append_mono ops a { e with palette := e.palette ++ [p] } _ _ _).1

/-- One append_stitch of the PES encoder keeps the PES stitch list no longer than the
PEC stitch list. -/
theorem pes_append_inv {F : Type} (ops : FloatOps F) (alloc : alloc_outcomes)
    (e : pes_encoder F) (ti : Int) (x y : F) (jump : Bool)
    (h : e.stitch_list.length ≤ e.pec_encoder.stitch_list.length) :
    (PesEncoder.append_stitch ops alloc e ti x y jump).1.stitch_list.length ≤
      (PesEncoder.append_stitch ops alloc e ti x y jump).1.pec_encoder.stitch_list.length := by
  unfold PesEncoder.append_stitch
  simp only []
  generalize hg : (if e.stitch_capacity ≤ e.stitch_count then
        if e.stitch_capacity +
            (if e.stitch_capacity = 0 then 100
             else if 10000 < e.stitch_capacity then 10000 else e.stitch_capacity) <
            2147483647 / 2 ∧ alloc.pes_list = true then
          { e with stitch_capacity := e.stitch_capacity +
            (if e.stitch_capacity = 0 then 100
             else if 10000 < e.stitch_capacity then 10000 else e.stitch_capacity) }
        else e
      else e) = g
  have hg1 : g.stitch_list = e.stitch_list ∧ g.pec_encoder = e.pec_encoder := by
    rw [← hg]; split_ifs <;> exact ⟨rfl, rfl⟩
  clear hg
  have h0 := h
  rw [← hg1.1, ← hg1.2] at h
  generalize hT : (if g.stitch_count = 0 ∨
        g.stitch_list.getLast?.any (fun last => decide (ti ≠ last.thread_index)) = true then
        PecEncoder.pec_append_thread ops alloc.pec_stop g.pec_encoder
          (pec_palette_index_by_rgb (g.thread_list.getD ti.toNat pec_undefined_thread).rgb)
      else (g.pec_encoder, true)) = T
  have hT1 : g.pec_encoder.stitch_list.length ≤ T.1.stitch_list.length := by
    rw [← hT]; split_ifs
    · exact pec_append_thread_mono _ _ _ _
    · exact le_refl _
  clear hT
  generalize hS : (if g.stitch_list.getLast?.any
          (fun last => decide (ti ≠ last.thread_index)) = true then
        PecEncoder.pec_append_jump_stitch ops alloc.pec_stitch T.1 x y
      else if jump = true then PecEncoder.pec_append_trim_stitch ops alloc.pec_stitch T.1 x y
      else PecEncoder.pec_append_stitch ops alloc.pec_stitch T.1 x y) = S
  have hS1 : T.1.stitch_list.length ≤ S.1.stitch_list.length ∧
      (S.2 = true → S.1.stitch_list.length = T.1.stitch_list.length + 1) := by
    rw [← hS]
    simp only [PecEncoder.pec_append_jump_stitch,
      PecEncoder.pec_append_trim_stitch, PecEncoder.pec_append_stitch]
    split_ifs <;> exact pec_append_mono _ _ _ _ _ _
  clear hS
  have hS2 := hS1.2
  split_ifs with c1 c2 c3 c4
  all_goals first
    | exact h0
    | exact h
    | exact le_trans h hT1
    | exact le_trans h (le_trans hT1 hS1.1)
    | (simp only [List.length_append, List.length_cons, List.length_nil]
       exact le_trans (Nat.succ_le_succ (le_trans h hT1))
         (le_of_eq (hS2 (by simpa using c4)).symm))

/-- In every state of the PES encoder the PES stitch list is no longer than the PEC
stitch list. -/
theorem pes_reachable_inv {F : Type} (ops : FloatOps F) (e : pes_encoder F)
    (h : pes_reachable ops e) : e.stitch_list.length ≤ e.pec_encoder.stitch_list.length := by
  induction h with
  | init => exact le_refl _
  | append_thread e thread _ ih =>
    unfold pes_append_thread
    split_ifs
    · exact ih
    · exact ih
  | append_stitch e alloc ti x y _ ih => exact pes_append_inv ops alloc e ti x y false ih
  | append_jump_stitch e alloc ti x y _ ih => exact pes_append_inv ops alloc e ti x y true ih
  | encode_transform e t _ ih => exact ih

theorem pec_encode_stitch_length {t : pec_stitch_type} {d : Int} {out : List Byte}
    (h : PecEncoder.encode_stitch t d = some out) : 1 ≤ out.length := by
  unfold PecEncoder.encode_stitch at h
  split_ifs at h
  · obtain ⟨b, rfl, -⟩ := encode_u8_eq_some h
    simp
  · obtain ⟨a, b, ha, hb, rfl⟩ := both_eq_some.1 h
    obtain ⟨b1, rfl, -⟩ := encode_u8_eq_some ha
    simp

/-- Every stitch of the PEC stitch list takes at least two bytes of the stream. -/
theorem pec_stream_length {F : Type} (ops : FloatOps F) :
    ∀ (stitches : List (PecEncoder.pec_stitch F)) (x y stop : Int) (body : List Byte),
      PecEncoder.encode_stitch_loop ops stitches x y stop = some body →
      2 * stitches.length ≤ body.length
  | [], _, _, _, body, _ => by simp
  | s :: rest, x, y, stop, body, h => by
    simp only [PecEncoder.encode_stitch_loop] at h
    split_ifs at h with hs
    · obtain ⟨a, rb, ha, hrb, rfl⟩ := both_eq_some.1 h
      obtain ⟨a1, a2, ha1, ha2, rfl⟩ := both_eq_some.1 ha
      obtain ⟨_, _, rfl, -⟩ := encode_u16lsb_eq_some ha1
      have := pec_stream_length ops rest _ _ _ rb hrb
      simp only [List.length_append, List.length_cons]
      omega
    · obtain ⟨a, rb, ha, hrb, rfl⟩ := both_eq_some.1 h
      obtain ⟨a1, a2, ha1, ha2, rfl⟩ := both_eq_some.1 ha
      have := pec_stream_length ops rest _ _ _ rb hrb
      have l1 := pec_encode_stitch_length ha1
      have l2 := pec_encode_stitch_length ha2
      simp only [List.length_append, List.length_cons]
      omega

/-- Every stitch takes between 4 and 28 bytes of the PES stitch list. -/
theorem pes_stream_length {F : Type} (ops : FloatOps F) (enc : pes_encoder F) :
    ∀ (tail : List (pes_stitch F)) (i : Nat) (prev : Option (pes_stitch F)) (out : List Byte),
      encode_stitch_loop ops enc i prev tail = some out →
      4 * tail.length ≤ out.length ∧ out.length ≤ 28 * tail.length
  | [], _, _, out, h => by
    simp only [encode_stitch_loop, Option.some.injEq] at h
    subst h
    simp
  | s :: rest, i, prev, out, h => by
    simp only [encode_stitch_loop] at h
    obtain ⟨hd, r, hhd, hr, rfl⟩ := both_eq_some.1 h
    obtain ⟨c, r2, hc, hr2, rfl⟩ := both_eq_some.1 hr
    obtain ⟨t0, t1, t2, t3, rfl, -⟩ := pes_encode_stitch_eq_some ops s.x s.y c hc
    have ih := pes_stream_length ops enc rest _ _ _ hr2
    have hhl : hd.length ≤ 24 := by
      split_ifs at hhd with c1 c2
      · obtain ⟨a0, a1, b0, b1, c0, c1, rfl, -, -⟩ := pes_header_eq_some _ _ _ hd hhd
        simp
      · cases prev with
        | none => cases hhd
        | some p =>
          simp only [] at hhd
          obtain ⟨m1, r1, hm1, hr1, rfl⟩ := both_eq_some.1 hhd
          obtain ⟨js, r2, hjs, hr2, rfl⟩ := both_eq_some.1 hr1
          obtain ⟨m2, nh, hm2, hnh, rfl⟩ := both_eq_some.1 hr2
          obtain ⟨_, _, rfl, -, -, -⟩ := pes_u16_eq_some hm1
          obtain ⟨_, _, rfl, -, -, -⟩ := pes_u16_eq_some hm2
          unfold encode_jump_stitch at hjs
          obtain ⟨jh, r3, hjh, hr3, rfl⟩ := both_eq_some.1 hjs
          obtain ⟨cp, ct, hcp, hct, rfl⟩ := both_eq_some.1 hr3
          obtain ⟨_, _, _, _, _, _, rfl, -, -⟩ := pes_header_eq_some _ _ _ jh hjh
          obtain ⟨_, _, _, _, _, _, rfl, -, -⟩ := pes_header_eq_some _ _ _ nh hnh
          obtain ⟨_, _, _, _, rfl, -⟩ := pes_encode_stitch_eq_some ops _ _ cp hcp
          obtain ⟨_, _, _, _, rfl, -⟩ := pes_encode_stitch_eq_some ops _ _ ct hct
          simp
      · simp only [Option.some.injEq] at hhd
        subst hhd
        simp
    simp only [List.length_append, List.length_cons, List.length_nil]
    omega

theorem change_entries_length {F : Type} (tl : List pec_thread) :
    ∀ (l : List (pes_stitch F)) (b : Int) (p : pes_stitch F),
      (change_entries tl b p l).length ≤ l.length
  | [], _, _ => by simp [change_entries]
  | s :: rest, b, p => by
    simp only [change_entries]
    split_ifs
    · have := change_entries_length tl rest (b + 2) s
      simp only [List.length_cons]; omega
    · have := change_entries_length tl rest (b + 2) s
      simp only [List.length_cons]; omega
    · have := change_entries_length tl rest b s
      simp only [List.length_cons]; omega

theorem table_entries_length {F : Type} (tl : List pec_thread) (l : List (pes_stitch F)) :
    (table_entries tl l).length ≤ l.length := by
  cases l with
  | nil => simp [table_entries]
  | cons s rest =>
    have := change_entries_length tl rest 1 s
    simp only [table_entries, List.length_cons]; omega

/-! ## The sections and pes_decoder_init on the encoder output -/

theorem encode_transform_length {F : Type} (ops : FloatOps F) (enc : pes_encoder F) :
    ∃ t, encode_transform ops enc = some t ∧ t.length = 24 :=
  ⟨_, rfl, rfl⟩

/-- The CEmbOne section is the string "CEmbOne" with its length, followed by 64 bytes. -/
theorem encode_cembone_eq {F : Type} (ops : FloatOps F) (enc : pes_encoder F) (ce : List Byte)
    (h : encode_cembone ops enc = some ce) :
    ∃ body, ce = [7, 0, 67, 69, 109, 98, 79, 110, 101] ++ body ∧ body.length = 64 := by
  unfold encode_cembone at h
  simp only [] at h
  obtain ⟨x0, y0, h0, hy0, rfl⟩ := both_eq_some.1 h
  obtain ⟨x1, y1, h1, hy1, rfl⟩ := both_eq_some.1 hy0
  obtain ⟨x2, y2, h2, hy2, rfl⟩ := both_eq_some.1 hy1
  obtain ⟨x3, y3, h3, hy3, rfl⟩ := both_eq_some.1 hy2
  obtain ⟨x4, y4, h4, hy4, rfl⟩ := both_eq_some.1 hy3
  obtain ⟨x5, y5, h5, hy5, rfl⟩ := both_eq_some.1 hy4
  obtain ⟨x6, y6, h6, hy6, rfl⟩ := both_eq_some.1 hy5
  obtain ⟨x7, y7, h7, hy7, rfl⟩ := both_eq_some.1 hy6
  obtain ⟨x8, y8, h8, hy8, rfl⟩ := both_eq_some.1 hy7
  obtain ⟨x9, y9, h9, hy9, rfl⟩ := both_eq_some.1 hy8
  obtain ⟨x10, y10, h10, hy10, rfl⟩ := both_eq_some.1 hy9
  obtain ⟨x11, y11, h11, hy11, rfl⟩ := both_eq_some.1 hy10
  obtain ⟨x12, y12, h12, hy12, rfl⟩ := both_eq_some.1 hy11
  obtain ⟨x13, y13, h13, hy13, rfl⟩ := both_eq_some.1 hy12
  obtain ⟨x14, y14, h14, hy14, rfl⟩ := both_eq_some.1 hy13
  obtain ⟨x15, y15, h15, hy15, rfl⟩ := both_eq_some.1 hy14
  obtain ⟨x16, y16, h16, hy16, rfl⟩ := both_eq_some.1 hy15
  obtain ⟨x17, x18, h17, h18, rfl⟩ := both_eq_some.1 hy16
  have e0 : encode_string "CEmbOne" = some [7, 0, 67, 69, 109, 98, 79, 110, 101] := by decide
  rw [e0] at h0
  simp only [Option.some.injEq] at h0 h15
  subst h0 h15
  obtain ⟨_, _, rfl, -⟩ := pes_i16_eq_some h1
  obtain ⟨_, _, rfl, -⟩ := pes_i16_eq_some h2
  obtain ⟨_, _, rfl, -⟩ := pes_i16_eq_some h3
  obtain ⟨_, _, rfl, -⟩ := pes_i16_eq_some h4
  obtain ⟨_, _, rfl, -⟩ := pes_i16_eq_some h5
  obtain ⟨_, _, rfl, -⟩ := pes_i16_eq_some h6
  obtain ⟨_, _, rfl, -⟩ := pes_i16_eq_some h7
  obtain ⟨_, _, rfl, -⟩ := pes_i16_eq_some h8
  obtain ⟨t, ht, htl⟩ := encode_transform_length ops enc
  rw [ht] at h9
  simp only [Option.some.injEq] at h9
  subst h9
  obtain ⟨_, _, rfl, -⟩ := pes_u16_eq_some h10
  obtain ⟨_, _, rfl, -⟩ := pes_i16_eq_some h11
  obtain ⟨_, _, rfl, -⟩ := pes_i16_eq_some h12
  obtain ⟨_, _, rfl, -⟩ := pes_u16_eq_some h13
  obtain ⟨_, _, rfl, -⟩ := pes_u16_eq_some h14
  obtain ⟨_, _, rfl, -⟩ := pes_u16_eq_some h16
  obtain ⟨_, _, rfl, -⟩ := pes_u16_eq_some h17
  obtain ⟨_, _, rfl, -⟩ := pes_u16_eq_some h18
  refine ⟨_, rfl, ?_⟩
  simp only [List.length_append, List.length_cons, List.length_nil, htl]

/-- The sections written by encode_sections14 on a stitch list that is not empty and
has its thread changes on stitches with the jump flag. -/
theorem encode_sections14_eq {F : Type} (ops : FloatOps F) (enc : pes_encoder F)
    (H : jump_on_change enc.stitch_list) (hne : enc.stitch_list ≠ []) (sections : List Byte)
    (h : encode_sections14 ops enc = some sections) :
    ∃ (body sl : List Byte) (n0 n1 : Byte),
      body.length = 64 ∧ PesEncoder.encode_stitch_list ops enc = some sl ∧
      (n0.val : Int) + 256 * n1.val = (table_entries enc.thread_list enc.stitch_list).length ∧
      (∀ e ∈ table_entries enc.thread_list enc.stitch_list,
        0 ≤ e.1 ∧ e.1 ≤ 0xFFFF ∧ 0 ≤ e.2 ∧ e.2 ≤ 0xFFFF) ∧
      sections = [7, 0, 67, 69, 109, 98, 79, 110, 101] ++ body ++
        [7, 0, 67, 83, 101, 119, 83, 101, 103] ++ sl ++ [n0, n1] ++
        entries_bytes (table_entries enc.thread_list enc.stitch_list) ++ [0, 0, 0, 0] := by
  unfold encode_sections14 at h
  obtain ⟨ce, cs, hce, hcs, rfl⟩ := both_eq_some.1 h
  unfold encode_csewseg14 at hcs
  obtain ⟨nm, r, hnm, hr, rfl⟩ := both_eq_some.1 hcs
  obtain ⟨sl, tb, hsl, htb, rfl⟩ := both_eq_some.1 hr
  have e0 : encode_string "CSewSeg" = some [7, 0, 67, 83, 101, 119, 83, 101, 103] := by decide
  rw [e0] at hnm
  simp only [Option.some.injEq] at hnm
  subst hnm
  obtain ⟨body, rfl, hbody⟩ := encode_cembone_eq ops enc ce hce
  obtain ⟨n0, n1, rfl, hn, hE⟩ := encode_thread_list14_eq enc H hne tb htb
  exact ⟨body, sl, n0, n1, hbody, hsl, hn, hE, by simp⟩

theorem foldl_play_none {F σ : Type} : ∀ (l : List (pes_event F)) (arg : σ),
    l.foldl (play_event (none : Option (pes_block_callback σ))
      (none : Option (pes_stitch_callback F σ))) arg = arg
  | [], _ => rfl
  | ev :: rest, arg => by
    cases ev <;> exact foldl_play_none rest arg

theorem table_entries_ne_nil {F : Type} (tl : List pec_thread) (l : List (pes_stitch F))
    (hne : l ≠ []) : 1 ≤ (table_entries tl l).length := by
  cases l with
  | nil => exact absurd rfl hne
  | cons s rest => simp [table_entries]

/-- The block loop with null callbacks, on the stitch list written by the encoder,
whatever thread changes the decoder holds. -/
theorem block_loop_encoded_null {F σ : Type} (ops : FloatOps F) (enc : pes_encoder F)
    (H : jump_on_change enc.stitch_list) (hne0 : enc.stitch_list ≠ [])
    (sl : List Byte) (henc : PesEncoder.encode_stitch_list ops enc = some sl)
    (d : pes_decoder) (pre : List Byte) (tl0 th0 : Byte) (post : List Byte)
    (hd : d.data = pre ++ sl ++ tl0 :: th0 :: post)
    (hne : (tl0.val : Int) + 256 * th0.val ≠ 0x8003)
    (hpec : (pre.length : Int) + sl.length < d.pec_offset)
    (fuel : Nat) (hfuel : 2 * enc.stitch_list.length ≤ fuel)
    (off : Int) (hoff : off = pre.length) (th : pec_thread) (arg : σ) :
    block_loop ops d none (none : Option (pes_stitch_callback F σ)) fuel 0 off 0 th arg =
      (arg, some (off + sl.length)) := by
  have key := block_loop_encoded ops enc (none : Option (pes_block_callback σ))
    (none : Option (pes_stitch_callback F σ)) (fun _ _ _ _ => rfl) (fun _ _ _ _ => rfl) H hne0
    sl henc
    { d with
        change_list := (changes_of enc.thread_list enc.stitch_list).map Prod.fst
        thread_list := some ((changes_of enc.thread_list enc.stitch_list).map Prod.snd)
        change_count := ((changes_of enc.thread_list enc.stitch_list).map Prod.fst).length }
    pre tl0 th0 post hd hne hpec rfl rfl rfl fuel hfuel off hoff th arg
  rw [foldl_play_none] at key
  rw [← key]
  exact block_loop_null_cb ops d
    { d with
        change_list := (changes_of enc.thread_list enc.stitch_list).map Prod.fst
        thread_list := some ((changes_of enc.thread_list enc.stitch_list).map Prod.snd)
        change_count := ((changes_of enc.thread_list enc.stitch_list).map Prod.fst).length }
    rfl rfl fuel _ _ _ _ _ _ _ _

/-- The function init_palette on a buffer that holds the stitch list and the thread
table written by the encoder. -/
theorem init_palette_encoded {F : Type} (ops : FloatOps F) (calloc_zero : Bool)
    (enc : pes_encoder F)
    (H : jump_on_change enc.stitch_list) (hne0 : enc.stitch_list ≠ [])
    (sl : List Byte) (henc : PesEncoder.encode_stitch_list ops enc = some sl)
    (d : pes_decoder) (pre : List Byte) (n0 n1 : Byte) (post : List Byte)
    (hd : d.data = pre ++ sl ++ n0 :: n1 ::
      (entries_bytes (table_entries enc.thread_list enc.stitch_list) ++ post))
    (hn : (n0.val : Int) + 256 * n1.val = (table_entries enc.thread_list enc.stitch_list).length)
    (hne : ((table_entries enc.thread_list enc.stitch_list).length : Int) ≠ 0x8003)
    (hE : ∀ e ∈ table_entries enc.thread_list enc.stitch_list,
      0 ≤ e.1 ∧ e.1 ≤ 0xFFFF ∧ 0 ≤ e.2 ∧ e.2 ≤ 0xFFFF)
    (hpec : (pre.length : Int) + sl.length + 2 +
      4 * (table_entries enc.thread_list enc.stitch_list).length ≤ d.pec_offset)
    (hfuel : 2 * enc.stitch_list.length ≤ d.data.length + 1)
    (hoff : d.csewseg_offset + 9 = pre.length) :
    init_palette ops calloc_zero d = some
      { d with
          thread_list := some ((changes_of enc.thread_list enc.stitch_list).map Prod.snd)
          thread_count := (table_entries enc.thread_list enc.stitch_list).length
          change_list := (changes_of enc.thread_list enc.stitch_list).map Prod.fst
          change_count := (table_entries enc.thread_list enc.stitch_list).length } := by
  have hE1 := table_entries_ne_nil enc.thread_list enc.stitch_list hne0
  have hcnt16 : PesDecoder.decode_u16lsb d (d.csewseg_offset + 9 + sl.length) =
      some ((table_entries enc.thread_list enc.stitch_list).length : Int) := by
    rw [← hn]
    exact pes_decode_u16_at d (pre ++ sl) _ n0 n1 _ (by rw [hd]; try simp)
      (by rw [hoff, List.length_append]; push_cast; rfl)
  have hpass1 : stitch_foreach ops d none (none : Option (pes_stitch_callback F Int))
      (some change_count_cb) 0 =
      (((table_entries enc.thread_list enc.stitch_list).length : Int), true) := by
    unfold stitch_foreach
    rw [block_loop_encoded_null ops enc H hne0 sl henc d pre n0 n1 _ hd (by rw [hn]; exact hne)
      (by omega) _ hfuel _ hoff]
    simp only [thread_foreach, hcnt16, Int.toNat_ofNat]
    rw [thread_loop_count d _ (pre ++ sl ++ [n0, n1]) post (by rw [hd]; simp) hE 0 _ 0
      (by rw [hoff]; simp; omega)]
    simp only [Int.zero_add, Prod.mk.injEq, decide_eq_true_eq, true_and]
    omega
  unfold init_palette
  simp only [hpass1, Bool.true_eq_false, if_false, Int.toNat_ofNat]
  have hnz : ¬ (((table_entries enc.thread_list enc.stitch_list).length : Int) = 0 ∧
      calloc_zero = false) := by
    rintro ⟨h0, -⟩; omega
  rw [if_neg hnz]
  have hpass2 : ∀ d1 : pes_decoder, d1.data = d.data → d1.pec_offset = d.pec_offset →
      d1.csewseg_offset = d.csewseg_offset →
      d1.thread_count = (table_entries enc.thread_list enc.stitch_list).length →
      d1.change_list = List.replicate
        (table_entries enc.thread_list enc.stitch_list).length ⟨0, 0⟩ →
      d1.thread_list = some (List.replicate
        (table_entries enc.thread_list enc.stitch_list).length zero_thread) →
      stitch_foreach ops d1 none (none : Option (pes_stitch_callback F pes_decoder))
        (some palette_thread_cb) d1 =
      ({ d1 with
          thread_list := some ((changes_of enc.thread_list enc.stitch_list).map Prod.snd)
          change_list := (changes_of enc.thread_list enc.stitch_list).map Prod.fst }, true) := by
    intro d1 h1 h2 h3 h4 h5 h6
    unfold stitch_foreach
    rw [block_loop_encoded_null ops enc H hne0 sl henc d1 pre n0 n1 _ (h1.trans hd)
      (by rw [hn]; exact hne) (by rw [h2]; omega) _ (by rw [h1]; exact hfuel) _
      (by rw [h3]; exact hoff)]
    simp only [thread_foreach]
    rw [pes_decode_u16_data d1 d h1, h3, hcnt16]
    simp only [Int.toNat_ofNat]
    have := thread_loop_palette d1
      _ (pre ++ sl ++ [n0, n1]) post (by rw [h1, hd]; simp) hE [] d1
      (d.csewseg_offset + 9 + sl.length + 2) (by rw [hoff]; simp; omega)
      (by simp [h4]) (by simp [h5]) (by simp [h6])
    simp only [List.length_nil, Nat.cast_zero, List.nil_append] at this
    rw [this]
    simp only [← changes_of_materialise]
    refine Prod.ext ?_ ?_
    · simp only [h3]
    · simp only [decide_eq_true_eq]
      omega
  rw [hpass2
    { d with
        thread_list := some (List.replicate
          (table_entries enc.thread_list enc.stitch_list).length zero_thread)
        thread_count := (table_entries enc.thread_list enc.stitch_list).length
        change_list := List.replicate
          (table_entries enc.thread_list enc.stitch_list).length ⟨0, 0⟩
        change_count := (table_entries enc.thread_list enc.stitch_list).length }
    rfl rfl rfl rfl rfl rfl]
  simp

theorem lor_shift32 (p0 p1 p2 p3 : Byte) :
    p0.val ||| (p1.val <<< 8) ||| (p2.val <<< 16) ||| (p3.val <<< 24) =
      p0.val + 256 * p1.val + 65536 * p2.val + 16777216 * p3.val := by
  have h0 := p0.isLt
  have h1 := p1.isLt
  have h2 := p2.isLt
  rw [lor_shift8, Nat.shiftLeft_eq, Nat.shiftLeft_eq]
  have a := Nat.mul_add_lt_is_or (i := 16) (b := p0.val + 256 * p1.val) (by omega) p2.val
  rw [Nat.lor_comm] at a
  rw [Nat.mul_comm p2.val, ← a]
  have b := Nat.mul_add_lt_is_or (i := 24) (b := 2 ^ 16 * p2.val + (p0.val + 256 * p1.val))
    (by omega) p3.val
  rw [Nat.lor_comm] at b
  rw [Nat.mul_comm p3.val, ← b]
  omega

theorem pes_decode_i32_at (d : pes_decoder) (pre post : List Byte) (p0 p1 p2 p3 : Byte)
    (off : Int) (hd : d.data = pre ++ p0 :: p1 :: p2 :: p3 :: post) (hoff : off = pre.length)
    (hv : (p0.val : Int) + 256 * p1.val + 65536 * p2.val + 16777216 * p3.val ≤ 2147483647) :
    PesDecoder.decode_i32lsb d off =
      some ((p0.val : Int) + 256 * p1.val + 65536 * p2.val + 16777216 * p3.val) := by
  unfold PesDecoder.decode_i32lsb pes_decoder.size
  subst hoff
  have hc : ¬ ((pre.length : Int) < 0 ∨ (d.data.length : Int) < pre.length + 4) := by
    rw [hd]
    simp only [List.length_append, List.length_cons]
    push_cast
    omega
  rw [if_neg hc, hd]
  have g0 : (pre ++ p0 :: p1 :: p2 :: p3 :: post).getD (pre.length : Int).toNat 0 = p0 :=
    getD_at pre _ p0 _ (by simp)
  have g1 : (pre ++ p0 :: p1 :: p2 :: p3 :: post).getD ((pre.length : Int) + 1).toNat 0 = p1 := by
    have e : pre ++ p0 :: p1 :: p2 :: p3 :: post = (pre ++ [p0]) ++ p1 :: p2 :: p3 :: post := by
      simp
    rw [e]
    exact getD_at (pre ++ [p0]) _ p1 _ (by simp)
  have g2 : (pre ++ p0 :: p1 :: p2 :: p3 :: post).getD ((pre.length : Int) + 2).toNat 0 = p2 := by
    have e : pre ++ p0 :: p1 :: p2 :: p3 :: post = (pre ++ [p0, p1]) ++ p2 :: p3 :: post := by
      simp
    rw [e]
    exact getD_at (pre ++ [p0, p1]) _ p2 _ (by simp; omega)
  have g3 : (pre ++ p0 :: p1 :: p2 :: p3 :: post).getD ((pre.length : Int) + 3).toNat 0 = p3 := by
    have e : pre ++ p0 :: p1 :: p2 :: p3 :: post = (pre ++ [p0, p1, p2]) ++ p3 :: post := by
      simp
    rw [e]
    exact getD_at (pre ++ [p0, p1, p2]) _ p3 _ (by simp; omega)
  simp only [g0, g1, g2, g3, lor_shift32]
  have hlt : p0.val + 256 * p1.val + 65536 * p2.val + 16777216 * p3.val < 0x80000000 := by
    omega
  rw [if_pos hlt]
  push_cast
  rfl

theorem string_equal_at (d : pes_decoder) (pre post : List Byte) (s : String) (lo hi : Byte)
    (off : Int) (hd : d.data = pre ++ lo :: hi :: (ascii s ++ post)) (hoff : off = pre.length)
    (hlen : (lo.val : Int) + 256 * hi.val = (ascii s).length) :
    string_equal d off s = true := by
  unfold string_equal
  rw [pes_decode_u16_at d pre _ lo hi off hd hoff, hlen]
  simp only [decide_True, Bool.true_and, Bool.and_eq_true, decide_eq_true_eq, Int.toNat_ofNat]
  subst hoff
  refine ⟨?_, ?_⟩
  · unfold pes_decoder.size
    rw [hd]
    simp only [List.length_append, List.length_cons]
    push_cast
    omega
  · rw [hd]
    have e : pre ++ lo :: hi :: (ascii s ++ post) = (pre ++ [lo, hi]) ++ (ascii s ++ post) := by
      simp
    have e2 : ((pre.length : Int) + 2).toNat = (pre ++ [lo, hi]).length := by simp; omega
    rw [e, e2, List.drop_left, List.take_left]

/-- The function pes_decoder_init on the output of pes_encode1, for an encoder state
with at least one stitch whose thread changes fall on stitches with the jump flag. -/
theorem pes_decoder_init_encoded {F : Type} (ops : FloatOps F) (calloc_zero : Bool)
    (enc : pes_encoder F) (hr : pes_reachable ops enc)
    (H : jump_on_change enc.stitch_list) (hne0 : enc.stitch_list ≠ [])
    (out : List Byte) (h : pes_encode1 ops enc = some out) :
    ∃ (sections pec sl pre post : List Byte) (n0 n1 : Byte),
      encode_sections14 ops enc = some sections ∧
      PecEncoder.pec_encode ops enc.pec_encoder = some pec ∧
      PesEncoder.encode_stitch_list ops enc = some sl ∧
      out = pre ++ sl ++ n0 :: n1 :: post ∧ pre.length = 104 ∧
      (n0.val : Int) + 256 * n1.val ≠ 0x8003 ∧
      (104 : Int) + sl.length < 22 + sections.length ∧
      2 * enc.stitch_list.length ≤ out.length + 1 ∧
      pes_decoder_init ops calloc_zero out = .decoder
        { data := out, version := [48, 48, 48, 49], hoop_width := 0, hoop_height := 0,
          pec_offset := 22 + sections.length, cembone_offset := 22, csewseg_offset := 95,
          name := [], thread_count := (table_entries enc.thread_list enc.stitch_list).length,
          thread_list := some ((changes_of enc.thread_list enc.stitch_list).map Prod.snd),
          change_count := (table_entries enc.thread_list enc.stitch_list).length,
          change_list := (changes_of enc.thread_list enc.stitch_list).map Prod.fst,
          pec := ⟨pec⟩ } ∧
      ∀ d : pes_decoder, d.data = out →
        string_equal d 22 "CEmbOne" = true ∧ string_equal d (22 + 73) "CSewSeg" = true := by
  obtain ⟨p0, p1, p2, p3, sections, pec, hs, hp, hv, rfl⟩ := pes_encode1_eq_some ops enc out h
  obtain ⟨body, sl, n0, n1, hbody, hsl, hn, hE, hsec⟩ :=
    encode_sections14_eq ops enc H hne0 sections hs
  -- sizes
  obtain ⟨ppre, stream, thumbs, hpeq, hppre, hstream, hthl, hp1, hp2, hs20⟩ :=
    pec_encode_split ops enc.pec_encoder pec hp
  obtain ⟨sbody, hsbody, hstr⟩ := encode_stitch_list_eq_some ops _ stream hstream
  have hsb := pec_stream_length ops _ _ _ _ sbody hsbody
  have hinv := pes_reachable_inv ops enc hr
  have hslb := pes_stream_length ops enc enc.stitch_list 0 none sl hsl
  have hEl := table_entries_length enc.thread_list enc.stitch_list
  have hEB := entries_bytes_length (table_entries enc.thread_list enc.stitch_list)
  have hpecinit : PecDecoder.pec_decoder_init pec = some ⟨pec⟩ :=
    (pec_stitch_foreach_encoded ops enc.pec_encoder pec hp
      (fun (s : Unit) _ _ _ _ => (s, true)) (fun s _ => s) (fun _ _ _ _ _ => rfl) ()).1
  have hstreaml : stream.length = sbody.length + 1 := by rw [hstr]; simp
  have hpecl : pec.length = 532 + stream.length + thumbs.length := by
    rw [hpeq]; simp [hppre]; omega
  have hsecl : sections.length = 88 + sl.length + 4 *
      (table_entries enc.thread_list enc.stitch_list).length := by
    rw [hsec]; simp [hbody, hEB]; omega
  have hn2 : 2 * enc.stitch_list.length ≤ 65515 := by omega
  have hthumbs : thumbs.length ≤ 257 * 228 := by
    rw [hthl]; exact Nat.mul_le_mul_right _ (by omega)
  refine ⟨sections, pec, sl,
    [35, 80, 69, 83, 48, 48, 48, 49, p0, p1, p2, p3, 0, 0, 1, 0, 1, 0, 0xFF, 0xFF, 0, 0] ++
      [7, 0, 67, 69, 109, 98, 79, 110, 101] ++ body ++ [7, 0, 67, 83, 101, 119, 83, 101, 103],
    entries_bytes (table_entries enc.thread_list enc.stitch_list) ++ ([0, 0, 0, 0] ++ pec),
    n0, n1, hs, hp, hsl, by rw [hsec]; simp, by simp [hbody], by rw [hn]; omega,
    by rw [hsecl]; push_cast; omega,
    by simp only [List.length_append, List.length_cons, List.length_nil]; omega, ?_⟩
  generalize hOUT : [35, 80, 69, 83, 48, 48, 48, 49, p0, p1, p2, p3, 0, 0, 1, 0, 1, 0, 0xFF,
    0xFF, 0, 0] ++ (sections ++ pec) = OUT
  have hO1 : OUT = [35, 80, 69, 83, 48, 48, 48, 49] ++ p0 :: p1 :: p2 :: p3 ::
      ([0, 0, 1, 0, 1, 0, 0xFF, 0xFF, 0, 0] ++ (sections ++ pec)) := by rw [← hOUT]; rfl
  have hce : ascii "CEmbOne" = [67, 69, 109, 98, 79, 110, 101] := by decide
  have hcs : ascii "CSewSeg" = [67, 83, 101, 119, 83, 101, 103] := by decide
  have hO2 : OUT = [35, 80, 69, 83, 48, 48, 48, 49, p0, p1, p2, p3, 0, 0, 1, 0, 1, 0, 0xFF,
      0xFF, 0, 0] ++ 7 :: 0 :: (ascii "CEmbOne" ++ (body ++
        [7, 0, 67, 83, 101, 119, 83, 101, 103] ++ sl ++ [n0, n1] ++
          entries_bytes (table_entries enc.thread_list enc.stitch_list) ++ [0, 0, 0, 0] ++
            pec)) := by
    rw [← hOUT, hsec, hce]; simp
  have hO3 : OUT = ([35, 80, 69, 83, 48, 48, 48, 49, p0, p1, p2, p3, 0, 0, 1, 0, 1, 0, 0xFF,
      0xFF, 0, 0] ++ [7, 0, 67, 69, 109, 98, 79, 110, 101] ++ body) ++
      7 :: 0 :: (ascii "CSewSeg" ++ (sl ++ [n0, n1] ++
          entries_bytes (table_entries enc.thread_list enc.stitch_list) ++ [0, 0, 0, 0] ++
            pec)) := by
    rw [← hOUT, hsec, hcs]; simp
  have hO4 : OUT = ([35, 80, 69, 83, 48, 48, 48, 49, p0, p1, p2, p3, 0, 0, 1, 0, 1, 0, 0xFF,
      0xFF, 0, 0] ++ [7, 0, 67, 69, 109, 98, 79, 110, 101] ++ body ++
      [7, 0, 67, 83, 101, 119, 83, 101, 103]) ++ sl ++ n0 :: n1 ::
      (entries_bytes (table_entries enc.thread_list enc.stitch_list) ++ ([0, 0, 0, 0] ++ pec)) := by
    rw [← hOUT, hsec]; simp
  have hO5 : OUT.drop (22 + sections.length) = pec := by
    rw [← hOUT, ← List.append_assoc]
    apply List.drop_left'
    simp
    omega
  have hOl : OUT.length = 22 + sections.length + pec.length := by
    rw [← hOUT]; simp; omega
  have hO6 : OUT.take 8 = ascii "#PES0001" := by
    have e1 : ascii "#PES0001" = [35, 80, 69, 83, 48, 48, 48, 49] := by decide
    rw [hO1, e1]; rfl
  have hO7 : (OUT.drop 4).take 4 = [48, 48, 48, 49] := by rw [hO1]; rfl
  clear hOUT
  have hsz : ¬ ((2147483647 / 2 : Int) < OUT.length) := by
    rw [hOl]; push_cast; omega
  have hD32 : ∀ d : pes_decoder, d.data = OUT →
      PesDecoder.decode_i32lsb d 8 = some (22 + (sections.length : Int)) := by
    intro d hd
    rw [← hv]
    exact pes_decode_i32_at d [35, 80, 69, 83, 48, 48, 48, 49] _ p0 p1 p2 p3 8
      (by rw [hd, hO1]) (by simp) (by rw [hv]; omega)
  have hS1 : ∀ d : pes_decoder, d.data = OUT → string_equal d (12 + 10) "CEmbOne" = true := by
    intro d hd
    exact string_equal_at d _ _ "CEmbOne" 7 0 _ (by rw [hd]; exact hO2) (by simp)
      (by rw [hce]; rfl)
  have hS2 : ∀ d : pes_decoder, d.data = OUT →
      string_equal d (12 + 10 + 73) "CSewSeg" = true := by
    intro d hd
    exact string_equal_at d _ _ "CSewSeg" 7 0 _ (by rw [hd]; exact hO3) (by simp [hbody])
      (by rw [hcs]; rfl)
  have hP : ∀ d : pes_decoder, d.data = OUT → d.pec_offset = 22 + (sections.length : Int) →
      d.csewseg_offset = 12 + 10 + 73 →
      init_palette ops calloc_zero d = some
        { d with
            thread_list := some ((changes_of enc.thread_list enc.stitch_list).map Prod.snd)
            thread_count := (table_entries enc.thread_list enc.stitch_list).length
            change_list := (changes_of enc.thread_list enc.stitch_list).map Prod.fst
            change_count := (table_entries enc.thread_list enc.stitch_list).length } := by
    intro d hd hpo hco
    exact init_palette_encoded ops calloc_zero enc H hne0 sl hsl d _ n0 n1 _
      (by rw [hd]; exact hO4) hn (by omega) hE
      (by rw [hpo, hsecl]; simp [hbody]; omega)
      (by rw [hd, hOl]; omega)
      (by rw [hco]; simp [hbody])
  refine ⟨?_, fun d hd => ⟨by simpa using hS1 d hd, by simpa using hS2 d hd⟩⟩
  unfold pes_decoder_init
  rw [if_neg hsz]
  simp only [hD32, pes_decoder.size]
  have hc1 : ¬ ((OUT.length : Int) < 22 + (sections.length : Int)) := by rw [hOl]; push_cast; omega
  have hc2 : ¬ ((22 : Int) + (sections.length : Int) < 0) := by omega
  have hdrop : OUT.drop ((22 : Int) + (sections.length : Int)).toNat = pec := by
    have : ((22 : Int) + (sections.length : Int)).toNat = 22 + sections.length := by omega
    rw [this, hO5]
  rw [if_neg hc1, if_neg hc2, hdrop]
  simp only [hpecinit, hO6, if_true, init_version1, hO7, hS1, hS2, Bool.true_eq_false, if_false,
    hP]
  norm_num

/-! ## The reported blocks and stitches -/

theorem foldl_play_record {F : Type} : ∀ (l acc : List (pes_event F)),
    l.foldl (play_event (some record_block) (some record_pes_stitch)) acc = acc ++ l
  | [], acc => by simp
  | ev :: rest, acc => by
    rw [List.foldl_cons, foldl_play_record rest]
    cases ev <;> simp [play_event, apply_block_cb, apply_stitch_cb, record_block,
      record_pes_stitch]

theorem normal_stitches_from {F : Type} (ops : FloatOps F) (tl : List pec_thread) :
    ∀ (l : List (pes_stitch F)) (cur : pec_thread) (j : Int) (p : pes_stitch F) (k : Int),
      normal_block_stitches true (pes_reported_from ops tl cur j p k l) =
        l.map (fun s => (ops.pec_physical_coordinate (ops.pec_raw_coordinate s.x),
          ops.pec_physical_coordinate (ops.pec_raw_coordinate s.y)))
  | [], _, _, _, _ => rfl
  | s :: rest, cur, j, p, k => by
    simp only [pes_reported_from]
    by_cases hj : s.jump = true
    · rw [if_pos hj]
      simp [normal_block_stitches, normal_stitches_from ops tl rest]
    · rw [if_neg hj]
      simp only [normal_block_stitches, if_true, normal_stitches_from ops tl rest,
        List.map_cons]

theorem normal_stitches_reported {F : Type} (ops : FloatOps F) (tl : List pec_thread)
    (l : List (pes_stitch F)) :
    normal_block_stitches false (pes_reported ops tl l) =
      l.map (fun s => (ops.pec_physical_coordinate (ops.pec_raw_coordinate s.x),
        ops.pec_physical_coordinate (ops.pec_raw_coordinate s.y))) := by
  cases l with
  | nil => rfl
  | cons s rest => simp [pes_reported, normal_block_stitches, normal_stitches_from ops tl rest]

theorem jump_stitches_from {F : Type} (ops : FloatOps F) (tl : List pec_thread) :
    ∀ (l : List (pes_stitch F)) (cur : pec_thread) (j : Int) (p : pes_stitch F) (k : Int),
      jump_block_stitches false (pes_reported_from ops tl cur j p k l) = jump_pairs ops p l
  | [], _, _, _, _ => rfl
  | s :: rest, cur, j, p, k => by
    simp only [pes_reported_from, jump_pairs]
    by_cases hj : s.jump = true
    · rw [if_pos hj, if_pos hj]
      simp [jump_block_stitches, jump_stitches_from ops tl rest]
    · rw [if_neg hj, if_neg hj]
      simp only [jump_block_stitches, Bool.false_eq_true, if_false,
        jump_stitches_from ops tl rest]

theorem reported_blocks_from {F : Type} (ops : FloatOps F) (tl : List pec_thread) :
    ∀ (l : List (pes_stitch F)) (cur : pec_thread) (j : Int) (p : pes_stitch F) (k : Int),
      reported_blocks (pes_reported_from ops tl cur j p k l) = jump_blocks l
  | [], _, _, _, _ => rfl
  | s :: rest, cur, j, p, k => by
    simp only [pes_reported_from, jump_blocks]
    by_cases hj : s.jump = true
    · rw [if_pos hj, if_pos hj]
      simp [reported_blocks, reported_blocks_from ops tl rest]
    · rw [if_neg hj, if_neg hj]
      simp only [reported_blocks, reported_blocks_from ops tl rest]

theorem reported_blocks_eq {F : Type} (ops : FloatOps F) (tl : List pec_thread)
    (l : List (pes_stitch F)) :
    reported_blocks (pes_reported ops tl l) = expected_blocks l := by
  cases l with
  | nil => rfl
  | cons s rest => simp [pes_reported, reported_blocks, expected_blocks,
      reported_blocks_from ops tl rest]

theorem stitch_count_from {F : Type} (ops : FloatOps F) (tl : List pec_thread) :
    ∀ (l : List (pes_stitch F)) (cur : pec_thread) (j : Int) (p : pes_stitch F) (k c : Int),
      (pes_reported_from ops tl cur j p k l).foldl
        (play_event (none : Option (pes_block_callback Int)) (some PesDecoder.stitch_count)) c =
        c + l.length + 2 * (l.countP (fun s => s.jump) : Nat)
  | [], _, _, _, _, c => by simp [pes_reported_from]
  | s :: rest, cur, j, p, k, c => by
    simp only [pes_reported_from]
    by_cases hj : s.jump = true
    · rw [if_pos hj]
      simp only [List.foldl_cons, play_event, apply_block_cb, apply_stitch_cb,
        PesDecoder.stitch_count, stitch_count_from ops tl rest, List.length_cons,
        List.countP_cons, hj, if_true]
      push_cast
      omega
    · rw [if_neg hj]
      simp only [List.foldl_cons, play_event, apply_block_cb, apply_stitch_cb,
        PesDecoder.stitch_count, stitch_count_from ops tl rest, List.length_cons,
        List.countP_cons, hj, Bool.false_eq_true, if_false]
      push_cast
      omega

theorem stitch_count_reported {F : Type} (ops : FloatOps F) (tl : List pec_thread)
    (l : List (pes_stitch F)) :
    (pes_reported ops tl l).foldl
      (play_event (none : Option (pes_block_callback Int)) (some PesDecoder.stitch_count)) 0 =
      l.length + 2 * ((l.drop 1).countP (fun s => s.jump) : Nat) := by
  cases l with
  | nil => rfl
  | cons s rest =>
    simp only [pes_reported, List.foldl_cons, play_event, apply_block_cb, apply_stitch_cb,
      PesDecoder.stitch_count, stitch_count_from ops tl rest, List.length_cons, List.drop_one,
      List.tail_cons]
    push_cast
    omega

theorem changes_of_length {F : Type} (tl : List pec_thread) (l : List (pes_stitch F))
    (H : jump_on_change l) :
    ((changes_of tl l).length : Int) = change_count_loop none l ∧
    (changes_of tl l).length = (table_entries tl l).length := by
  rw [changes_of_materialise, materialise_length]
  refine ⟨?_, rfl⟩
  cases l with
  | nil => rfl
  | cons s rest =>
    simp only [table_entries, change_count_loop, true_or, if_true, List.length_cons]
    rw [change_count_loop_entries tl rest s 1 H]
    push_cast
    omega

/-- Decoding the output of pes_encode1, for an encoder state with at least one stitch
whose thread changes fall on stitches with the jump flag: pes_decoder_init gives a
decoder that holds one thread per run of stitches, and the stitch iteration invokes the
callbacks as pes_reported lists them. -/
theorem pes_decode_encoded {F : Type} (ops : FloatOps F) (calloc_zero : Bool)
    (enc : pes_encoder F) (hr : pes_reachable ops enc)
    (hne0 : enc.stitch_list ≠ []) (H : jump_on_change enc.stitch_list)
    (out : List Byte) (h : pes_encode1 ops enc = some out) :
    ∃ d : pes_decoder,
      pes_decoder_init ops calloc_zero out = .decoder d ∧
      d.cembone_offset = 22 ∧ string_equal d 22 "CEmbOne" = true ∧
      d.csewseg_offset = 22 + 73 ∧ string_equal d (22 + 73) "CSewSeg" = true ∧
      pes_version d = "0001" ∧
      d.thread_count = (changes_of enc.thread_list enc.stitch_list).length ∧
      d.thread_list = some ((changes_of enc.thread_list enc.stitch_list).map Prod.snd) ∧
      ∀ {σ : Type} (bcb : Option (pes_block_callback σ))
        (scb : Option (pes_stitch_callback F σ)),
        (∀ a th c t, (apply_block_cb bcb a th c t).2 = true) →
        (∀ a k x y, (apply_stitch_cb scb a k x y).2 = true) →
        ∀ arg : σ, stitch_foreach ops d bcb scb none arg =
          ((pes_reported ops enc.thread_list enc.stitch_list).foldl (play_event bcb scb) arg,
           true) := by
  obtain ⟨sections, pec, sl, pre, post, n0, n1, hs, hp, hsl, hout, hpre, hne, hlt, hfuel, hinit,
    hstr⟩ := pes_decoder_init_encoded ops calloc_zero enc hr H hne0 out h
  have hlen := (changes_of_length enc.thread_list enc.stitch_list H).2
  have hver : cstring [48, 48, 48, 49] = "0001" := by decide
  refine ⟨_, hinit, rfl, (hstr _ rfl).1, rfl, (hstr _ rfl).2, hver, ?_, rfl, ?_⟩
  · simp only [hlen]
  · intro σ bcb scb hb hs arg
    unfold stitch_foreach
    simp only []
    rw [block_loop_encoded ops enc bcb scb hb hs H hne0 sl hsl _ pre n0 n1 post hout hne
      (by simp only [hpre]; push_cast; omega) rfl rfl
      (by simp only [List.length_map, hlen]) _ hfuel _ (by simp only [hpre]; norm_num)]

/-! ## The PES version 1 round trip -/

theorem sample_pes_reachable : pes_reachable gridOps sample_pes_encoder :=
  pes_reachable.append_jump_stitch _ alloc_all 1 200 50
    (pes_reachable.append_stitch _ alloc_all 0 100 70
      (pes_reachable.append_stitch _ alloc_all 0 0 0
        (pes_reachable.append_thread _ _
          (pes_reachable.append_thread _ _
            (pes_reachable.append_thread _ _ pes_reachable.init)))))

theorem sample_pes_stitches : sample_pes_encoder.stitch_list =
    [⟨0, 0, 0, false⟩, ⟨0, 100, 70, false⟩, ⟨1, 200, 50, true⟩] := by rfl

theorem sample_pes_threads : sample_pes_encoder.thread_list.map (fun t => t.rgb) =
    [⟨236, 0, 0⟩, ⟨1, 2, 3⟩, ⟨15, 117, 255⟩] := by decide

theorem sample_pes_encodes : (pes_encode1 gridOps sample_pes_encoder).isSome = true := by
  decide

theorem sample_pes_jump_on_change : jump_on_change sample_pes_encoder.stitch_list := by
  rw [sample_pes_stitches]
  unfold jump_on_change
  simp

/-- C5. PES v1 stitch round trip: for every state of the PES encoder (a state reached from
pes_encoder_init by the append operations and pes_encode_transform) with at least one
stitch in which every change of thread_index falls on a stitch that has the jump flag,
and on which pes_encode1 succeeds, pes_decoder_init accepts the output, with CEmbOne
found at offset 22 and CSewSeg 73 bytes later, pes_version is "0001", and
pes_stitch_foreach succeeds; it invokes the callbacks as pes_reported lists them: one
Normal block, then for every stitch after the first that has the jump flag a Jump block
of two stitches, which are the stitch before and the jump stitch, followed by a Normal
block; the stitches of the Normal blocks, in order, are the appended stitches at their
raw coordinates. -/
theorem pes_stitch_round_trip {F : Type} (ops : FloatOps F) (calloc_zero : Bool)
    (enc : pes_encoder F) (hr : pes_reachable ops enc)
    (hne : enc.stitch_list ≠ []) (H : jump_on_change enc.stitch_list)
    (out : List Byte) (h : pes_encode1 ops enc = some out) :
    ∃ (d : pes_decoder) (events : List (pes_event F)),
      pes_decoder_init ops calloc_zero out = .decoder d ∧
      d.cembone_offset = 22 ∧ string_equal d 22 "CEmbOne" = true ∧
      d.csewseg_offset = 22 + 73 ∧ string_equal d (22 + 73) "CSewSeg" = true ∧
      pes_version d = "0001" ∧
      pes_stitch_foreach ops d (some record_block) (some record_pes_stitch) [] =
        (events, true) ∧
      events = pes_reported ops enc.thread_list enc.stitch_list ∧
      reported_blocks events = expected_blocks enc.stitch_list ∧
      jump_block_stitches false events = expected_jump_stitches ops enc.stitch_list ∧
      normal_block_stitches false events =
        enc.stitch_list.map (fun s =>
          (ops.pec_physical_coordinate (ops.pec_raw_coordinate s.x),
           ops.pec_physical_coordinate (ops.pec_raw_coordinate s.y))) := by
  obtain ⟨d, h1, h2, h3, h4, h5, h6, -, -, h9⟩ :=
    pes_decode_encoded ops calloc_zero enc hr hne H out h
  refine ⟨d, pes_reported ops enc.thread_list enc.stitch_list, h1, h2, h3, h4, h5, h6, ?_, rfl,
    reported_blocks_eq ops _ _, ?_, normal_stitches_reported ops _ _⟩
  · unfold pes_stitch_foreach
    rw [h9 (some record_block) (some record_pes_stitch) (fun _ _ _ _ => rfl)
      (fun _ _ _ _ => rfl) [], foldl_play_record]
    rfl
  · cases hl : enc.stitch_list with
    | nil => exact absurd hl hne
    | cons s rest =>
      simp only [pes_reported, jump_block_stitches, expected_jump_stitches]
      exact jump_stitches_from ops _ rest _ _ _ _

theorem pes_stitch_round_trip_witness :
    ∃ (out : List Byte) (d : pes_decoder) (events : List (pes_event Int)),
      pes_encode1 gridOps sample_pes_encoder = some out ∧
      pes_decoder_init gridOps true out = .decoder d ∧
      pes_version d = "0001" ∧
      pes_stitch_foreach gridOps d (some record_block) (some record_pes_stitch) [] =
        (events, true) ∧
      reported_blocks events = [(2, 0), (2, 1), (1, 0)] ∧
      jump_block_stitches false events = [(100, 70), (200, 50)] ∧
      normal_block_stitches false events = [(0, 0), (100, 70), (200, 50)] := by
  obtain ⟨out, h⟩ := Option.isSome_iff_exists.1 sample_pes_encodes
  obtain ⟨d, events, h1, -, -, -, -, h6, h7, -, h9, h10, h11⟩ :=
    pes_stitch_round_trip gridOps true sample_pes_encoder sample_pes_reachable
      (by rw [sample_pes_stitches]; exact List.cons_ne_nil _ _) sample_pes_jump_on_change out h
  rw [sample_pes_stitches] at h9 h10 h11
  exact ⟨out, d, events, h, h1, h6, h7, h9, h10, h11⟩

/-- The scalar fields that the decoder reports for the output of pes_encode1. -/
theorem pes_scalar_fields_encoded {F : Type} (ops : FloatOps F) (calloc_zero : Bool)
    (enc : pes_encoder F) (hr : pes_reachable ops enc)
    (hne : enc.stitch_list ≠ []) (H : jump_on_change enc.stitch_list)
    (out : List Byte) (h : pes_encode1 ops enc = some out) :
    ∃ d : pes_decoder,
      pes_decoder_init ops calloc_zero out = .decoder d ∧
      pes_version d = "0001" ∧
      pes_thread_count d = change_count_loop none enc.stitch_list ∧
      (∀ j : Nat, (j : Int) < pes_thread_count d →
        ∃ c, (changes_of enc.thread_list enc.stitch_list)[j]? = some c ∧
          pes_thread d j = c.2) ∧
      pes_stitch_count ops d = enc.stitch_list.length +
        2 * ((enc.stitch_list.drop 1).countP (fun s => s.jump) : Nat) := by
  obtain ⟨d, h1, -, -, -, -, h6, h7, h8, h9⟩ :=
    pes_decode_encoded ops calloc_zero enc hr hne H out h
  have hlen := (changes_of_length enc.thread_list enc.stitch_list H).1
  refine ⟨d, h1, h6, by unfold pes_thread_count; rw [h7, hlen], ?_, ?_⟩
  · intro j hj
    unfold pes_thread_count at hj
    rw [h7] at hj
    have hj2 : j < (changes_of enc.thread_list enc.stitch_list).length := by exact_mod_cast hj
    refine ⟨(changes_of enc.thread_list enc.stitch_list)[j], List.getElem?_eq_getElem hj2, ?_⟩
    unfold pes_thread
    rw [if_pos ⟨by omega, by rw [h7]; exact hj⟩, h8]
    simp only [Option.getD_some, Int.toNat_ofNat]
    rw [List.getD_eq_getElem?_getD, List.getElem?_map, List.getElem?_eq_getElem hj2]
    rfl
  · unfold pes_stitch_count
    simp only []
    rw [h9 none (some PesDecoder.stitch_count) (fun _ _ _ _ => rfl) (fun _ _ _ _ => rfl) 0]
    simp only [Bool.true_eq_false, if_false]
    exact stitch_count_reported ops _ _

/-- C6 (amended). The scalar fields after a PES v1 round trip: for every state of the PES
encoder (a state reached from pes_encoder_init by the append operations and
pes_encode_transform) with at least one stitch in which every change of thread_index
falls on a stitch that has the jump flag, and on which pes_encode1 succeeds, decoding the
output gives pes_version "0001"; pes_thread_count is the number of runs of stitches with
the same thread_index (the count that encode_thread_list14 writes), not the number of
threads appended; pes_thread(j) is the thread materialised for run j, that is the palette
thread nearest in colour to the encoder thread of the run, with index j; and
pes_stitch_count is the number of appended stitches plus two for every stitch after the
first that has the jump flag. -/
theorem pes_scalar_fields_round_trip {F : Type} (ops : FloatOps F) (calloc_zero : Bool)
    (enc : pes_encoder F) (hr : pes_reachable ops enc)
    (hne : enc.stitch_list ≠ []) (H : jump_on_change enc.stitch_list)
    (out : List Byte) (h : pes_encode1 ops enc = some out) :
    ∃ d : pes_decoder,
      pes_decoder_init ops calloc_zero out = .decoder d ∧
      pes_version d = "0001" ∧
      pes_thread_count d = change_count_loop none enc.stitch_list ∧
      (∀ j : Nat, (j : Int) < pes_thread_count d →
        ∃ c, (changes_of enc.thread_list enc.stitch_list)[j]? = some c ∧
          pes_thread d j = c.2) ∧
      pes_stitch_count ops d = enc.stitch_list.length +
        2 * ((enc.stitch_list.drop 1).countP (fun s => s.jump) : Nat) :=
  pes_scalar_fields_encoded ops calloc_zero enc hr hne H out h

theorem pes_scalar_fields_round_trip_witness :
    ∃ (out : List Byte) (d : pes_decoder),
      pes_encode1 gridOps sample_pes_encoder = some out ∧
      pes_decoder_init gridOps true out = .decoder d ∧
      pes_version d = "0001" ∧ pes_thread_count d = 2 ∧ pes_stitch_count gridOps d = 5 := by
  obtain ⟨out, h⟩ := Option.isSome_iff_exists.1 sample_pes_encodes
  obtain ⟨d, h1, h2, h3, -, h5⟩ :=
    pes_scalar_fields_round_trip gridOps true sample_pes_encoder sample_pes_reachable
      (by rw [sample_pes_stitches]; exact List.cons_ne_nil _ _) sample_pes_jump_on_change out h
  rw [sample_pes_stitches] at h3 h5
  exact ⟨out, d, h, h1, h2, h3, h5⟩

/-- C6 as stated fails on sample_pes_encoder: three threads and three stitches are
appended and pes_encode1 succeeds, but the decoder reports two threads and five
stitches, and its thread 1 has the colour (0, 0, 0) where the appended thread 1 has
(1, 2, 3). -/
theorem pes_scalar_fields_counterexample :
    ∃ (out : List Byte) (d : pes_decoder),
      pes_encode1 gridOps sample_pes_encoder = some out ∧
      pes_decoder_init gridOps true out = .decoder d ∧
      sample_pes_encoder.thread_list.length = 3 ∧ pes_thread_count d = 2 ∧
      sample_pes_encoder.stitch_list.length = 3 ∧ pes_stitch_count gridOps d = 5 ∧
      (sample_pes_encoder.thread_list.getD 1 pec_undefined_thread).rgb = ⟨1, 2, 3⟩ ∧
      (pes_thread d 1).rgb = ⟨0, 0, 0⟩ := by
  obtain ⟨out, h⟩ := Option.isSome_iff_exists.1 sample_pes_encodes
  obtain ⟨d, h1, h2, h3, h4, h5⟩ :=
    pes_scalar_fields_encoded gridOps true sample_pes_encoder sample_pes_reachable
      (by rw [sample_pes_stitches]; exact List.cons_ne_nil _ _) sample_pes_jump_on_change out h
  have h3b : pes_thread_count d = 2 := by rw [h3, sample_pes_stitches]; rfl
  obtain ⟨c, hc, hth⟩ := h4 1 (by rw [h3b]; norm_num)
  have hc2 : ((changes_of sample_pes_encoder.thread_list sample_pes_encoder.stitch_list)[1]?).map
      (fun c => c.2.rgb) = some ⟨0, 0, 0⟩ := by decide
  rw [hc] at hc2
  simp only [Option.map_some', Option.some.injEq] at hc2
  refine ⟨out, d, h, h1, by decide, h3b, by decide, ?_, by decide, ?_⟩
  · rw [h5, sample_pes_stitches]; rfl
  · have : pes_thread d ((1 : Nat) : Int) = c.2 := hth
    simp only [Nat.cast_one] at this
    rw [this, hc2]

theorem pes_pec_offset_exact_witness :
    ∃ out : List Byte, pes_encode1 gridOps sample_pes_encoder = some out ∧
      out.take 8 = ascii "#PES0001" ∧
      ∃ pec : List Byte,
        PecEncoder.pec_encode gridOps sample_pes_encoder.pec_encoder = some pec ∧
        out.drop ((out.getD 8 0).val + 256 * (out.getD 9 0).val +
          65536 * (out.getD 10 0).val + 16777216 * (out.getD 11 0).val) = pec := by
  obtain ⟨out, h⟩ := Option.isSome_iff_exists.1 sample_pes_encodes
  obtain ⟨p0, p1, p2, p3, sections, pec, -, hp, hout, -, hdrop⟩ :=
    pes_pec_offset_exact gridOps sample_pes_encoder out h
  have e1 : ascii "#PES0001" = [35, 80, 69, 83, 48, 48, 48, 49] := by decide
  rw [e1] at hout
  subst hout
  exact ⟨_, h, by rw [e1]; rfl, pec, hp, hdrop⟩
end Libpes

namespace Libpes
open pec_stitch_type Pec

/-! ## The palette -/

theorem palette_count : PEC_PALETTE_COUNT = 64 := by decide

theorem palette_entries_by_index : ∀ k : Fin 64,
    (pec_palette_thread ((k.val : Int) + 1)).index = (k.val : Int) + 1 ∧
    0 ≤ (pec_palette_thread ((k.val : Int) + 1)).rgb.r ∧
    (pec_palette_thread ((k.val : Int) + 1)).rgb.r ≤ 255 ∧
    0 ≤ (pec_palette_thread ((k.val : Int) + 1)).rgb.g ∧
    (pec_palette_thread ((k.val : Int) + 1)).rgb.g ≤ 255 ∧
    0 ≤ (pec_palette_thread ((k.val : Int) + 1)).rgb.b ∧
    (pec_palette_thread ((k.val : Int) + 1)).rgb.b ≤ 255 := by
  decide

/-- C17. Palette lookup by index: for every i with 1 <= i <= 64 the thread
pec_palette_thread(i) has index i and RGB components within 0..255; for every other
integer pec_palette_thread returns the undefined thread, whose index is 0 and whose RGB
is (220, 220, 220). -/
theorem pec_palette_thread_by_index (i : Int) :
    (1 ≤ i ∧ i ≤ 64 →
      (pec_palette_thread i).index = i ∧
      0 ≤ (pec_palette_thread i).rgb.r ∧ (pec_palette_thread i).rgb.r ≤ 255 ∧
      0 ≤ (pec_palette_thread i).rgb.g ∧ (pec_palette_thread i).rgb.g ≤ 255 ∧
      0 ≤ (pec_palette_thread i).rgb.b ∧ (pec_palette_thread i).rgb.b ≤ 255) ∧
    (¬ (1 ≤ i ∧ i ≤ 64) → pec_palette_thread i = pec_undefined_thread) ∧
    pec_undefined_thread.index = 0 ∧ pec_undefined_thread.rgb = ⟨220, 220, 220⟩ := by
  refine ⟨?_, ?_, rfl, rfl⟩
  · rintro ⟨h1, h2⟩
    have hk : (i - 1).toNat < 64 := by omega
    have := palette_entries_by_index ⟨(i - 1).toNat, hk⟩
    have e : (((i - 1).toNat : Nat) : Int) + 1 = i := by omega
    simp only [e] at this
    exact this
  · intro h
    unfold pec_palette_thread
    rw [palette_count, if_neg h]

theorem pec_palette_thread_by_index_witness :
    ((pec_palette_thread 5).index = 5 ∧ (pec_palette_thread 5).rgb = ⟨236, 0, 0⟩) ∧
    pec_palette_thread 65 = pec_undefined_thread ∧
    pec_palette_thread 0 = pec_undefined_thread := by
  refine ⟨⟨((pec_palette_thread_by_index 5).1 (by decide)).1, by decide⟩,
    (pec_palette_thread_by_index 65).2.1 (by decide),
    (pec_palette_thread_by_index 0).2.1 (by decide)⟩

/-- The search loop of pec_palette_index_by_rgb over `0, ..., n - 1`, for a distance
`f` by index. -/
theorem first_minimum_fold (f : Int → Int) : ∀ n : Nat,
    0 ≤ (List.range (n + 1)).foldl
          (fun (p : Int) (i : Nat) => if f i < f p then (i : Int) else p) 0 ∧
    (List.range (n + 1)).foldl
          (fun (p : Int) (i : Nat) => if f i < f p then (i : Int) else p) 0 ≤ n ∧
    ∀ j : Nat, j ≤ n →
      f ((List.range (n + 1)).foldl
          (fun (p : Int) (i : Nat) => if f i < f p then (i : Int) else p) 0) ≤ f j ∧
      ((j : Int) < (List.range (n + 1)).foldl
          (fun (p : Int) (i : Nat) => if f i < f p then (i : Int) else p) 0 →
        f ((List.range (n + 1)).foldl
          (fun (p : Int) (i : Nat) => if f i < f p then (i : Int) else p) 0) < f j)
  | 0 => by
    have e : (List.range (0 + 1)).foldl
        (fun (p : Int) (i : Nat) => if f i < f p then (i : Int) else p) 0 = 0 := by
      simp [List.range_succ]
    rw [e]
    refine ⟨le_refl _, le_refl _, ?_⟩
    intro j hj
    have : j = 0 := by omega
    subst this
    exact ⟨le_refl _, fun h => absurd h (by simp)⟩
  | n + 1 => by
    obtain ⟨h0, h1, h2⟩ := first_minimum_fold f n
    rw [List.range_succ, List.foldl_append]
    generalize (List.range (n + 1)).foldl
      (fun (p : Int) (i : Nat) => if f i < f p then (i : Int) else p) 0 = r at h0 h1 h2
    simp only [List.foldl_cons, List.foldl_nil]
    by_cases hc : f ((n + 1 : Nat) : Int) < f r
    · rw [if_pos hc]
      refine ⟨by omega, by push_cast; omega, ?_⟩
      intro j hj
      rcases Nat.lt_or_ge j (n + 1) with hlt | hge
      · have := (h2 j (by omega)).1
        exact ⟨by omega, fun _ => by omega⟩
      · have : j = n + 1 := by omega
        subst this
        exact ⟨le_refl _, fun h => absurd h (by simp)⟩
    · rw [if_neg hc]
      refine ⟨h0, by push_cast; omega, ?_⟩
      intro j hj
      rcases Nat.lt_or_ge j (n + 1) with hlt | hge
      · exact h2 j (by omega)
      · have : j = n + 1 := by omega
        subst this
        refine ⟨by omega, fun h => ?_⟩
        push_cast at h
        omega

/-- The result of pec_palette_index_by_rgb is the first index among 0, ..., 63 at which
the distance is minimal. -/
theorem palette_index_first_minimum (u : pec_rgb) :
    0 ≤ pec_palette_index_by_rgb u ∧ pec_palette_index_by_rgb u ≤ 63 ∧
    ∀ j : Nat, j ≤ 63 →
      rgb_norm2 u (pec_palette_thread (pec_palette_index_by_rgb u)).rgb ≤
        rgb_norm2 u (pec_palette_thread j).rgb ∧
      ((j : Int) < pec_palette_index_by_rgb u →
        rgb_norm2 u (pec_palette_thread (pec_palette_index_by_rgb u)).rgb <
          rgb_norm2 u (pec_palette_thread j).rgb) := by
  have h := first_minimum_fold (fun k => rgb_norm2 u (pec_palette_thread k).rgb) 63
  have e : PEC_PALETTE_COUNT.toNat = 63 + 1 := by decide
  unfold pec_palette_index_by_rgb
  rw [e]
  exact h

/-- C15. Nearest-palette search is minimal and first-wins: for every RGB u, with
i = pec_palette_index_by_rgb(u), no palette index j in 1..64 has a squared RGB distance
from u to pec_palette_thread(j).rgb that is strictly smaller than the distance from u to
pec_palette_thread(i).rgb, and no j in 1..64 with j < i has an equal distance. -/
theorem pec_palette_index_minimal (u : pec_rgb) (j : Int) (h1 : 1 ≤ j) (h2 : j ≤ 64) :
    ¬ (rgb_norm2 u (pec_palette_thread j).rgb <
        rgb_norm2 u (pec_palette_thread (pec_palette_index_by_rgb u)).rgb) ∧
    (j < pec_palette_index_by_rgb u →
      rgb_norm2 u (pec_palette_thread j).rgb ≠
        rgb_norm2 u (pec_palette_thread (pec_palette_index_by_rgb u)).rgb) := by
  obtain ⟨h0, h63, hmin⟩ := palette_index_first_minimum u
  by_cases hj : j ≤ 63
  · have := hmin j.toNat (by omega)
    have e : ((j.toNat : Nat) : Int) = j := by omega
    rw [e] at this
    exact ⟨by omega, fun hlt => by have := this.2 hlt; omega⟩
  · have hj64 : j = 64 := by omega
    subst hj64
    have e : (pec_palette_thread 64).rgb = (pec_palette_thread ((63 : Nat) : Int)).rgb := by
      decide
    have := (hmin 63 (le_refl _)).1
    rw [e]
    exact ⟨by omega, fun hlt => by omega⟩

theorem pec_palette_index_minimal_witness :
    ¬ (rgb_norm2 ⟨1, 2, 3⟩ (pec_palette_thread 5).rgb <
        rgb_norm2 ⟨1, 2, 3⟩ (pec_palette_thread (pec_palette_index_by_rgb ⟨1, 2, 3⟩)).rgb) ∧
    pec_palette_index_by_rgb ⟨1, 2, 3⟩ = 20 :=
  ⟨(pec_palette_index_minimal ⟨1, 2, 3⟩ 5 (by decide) (by decide)).1, by decide⟩

/-- C16 fails on the colour (220, 220, 220): the search starts at index 0 and examines
the indices 0, ..., 63, index 0 is the undefined thread with this colour, and the result
is 0, which is not an index of the palette; the result is never 64. -/
theorem pec_palette_index_by_rgb_undefined :
    pec_palette_index_by_rgb ⟨220, 220, 220⟩ = 0 ∧
    pec_palette_thread (pec_palette_index_by_rgb ⟨220, 220, 220⟩) = pec_undefined_thread ∧
    ∀ u : pec_rgb, 0 ≤ pec_palette_index_by_rgb u ∧ pec_palette_index_by_rgb u ≤ 63 := by
  have h : pec_palette_index_by_rgb ⟨220, 220, 220⟩ = 0 := by decide
  refine ⟨h, by rw [h]; rfl, fun u => ?_⟩
  exact ⟨(palette_index_first_minimum u).1, (palette_index_first_minimum u).2.1⟩

/-! ## The append operations -/

/-- C14. A stitch needs a thread first: on a PEC encoder to which no thread has been
appended, pec_append_stitch, pec_append_jump_stitch and pec_append_trim_stitch return
failure and leave the encoder state as it is; pes_append_stitch and
pes_append_jump_stitch return failure and leave the PES encoder, its companion PEC
encoder included, as it is whenever thread_index is negative or not below the number of
appended threads. -/
theorem append_stitch_needs_thread {F : Type} (ops : FloatOps F) :
    (∀ (alloc_ok : Bool) (e : PecEncoder.pec_encoder F) (x y : F), e.thread_count = 0 →
      PecEncoder.pec_append_stitch ops alloc_ok e x y = (e, false) ∧
      PecEncoder.pec_append_jump_stitch ops alloc_ok e x y = (e, false) ∧
      PecEncoder.pec_append_trim_stitch ops alloc_ok e x y = (e, false)) ∧
    (∀ (alloc : PesEncoder.alloc_outcomes) (e : PesEncoder.pes_encoder F) (thread_index : Int)
      (x y : F), thread_index < 0 ∨ e.thread_count ≤ thread_index →
      PesEncoder.pes_append_stitch ops alloc e thread_index x y = (e, false) ∧
      PesEncoder.pes_append_jump_stitch ops alloc e thread_index x y = (e, false)) := by
  refine ⟨?_, ?_⟩
  · intro a e x y h
    simp only [PecEncoder.pec_append_stitch, PecEncoder.pec_append_jump_stitch,
      PecEncoder.pec_append_trim_stitch, PecEncoder.append_stitch, if_pos h, and_self]
  · intro alloc e ti x y h
    simp only [PesEncoder.pes_append_stitch, PesEncoder.pes_append_jump_stitch,
      PesEncoder.append_stitch, if_pos h, and_self]

theorem append_stitch_needs_thread_witness :
    PecEncoder.pec_append_stitch gridOps true (PecEncoder.pec_encoder_init gridOps) 10 20 =
      (PecEncoder.pec_encoder_init gridOps, false) ∧
    PesEncoder.pes_append_stitch gridOps alloc_all (PesEncoder.pes_encoder_init gridOps) 0 10 20 =
      (PesEncoder.pes_encoder_init gridOps, false) ∧
    PesEncoder.pes_append_jump_stitch gridOps alloc_all sample_pes_encoder 3 10 20 =
      (sample_pes_encoder, false) :=
  ⟨((append_stitch_needs_thread gridOps).1 true (PecEncoder.pec_encoder_init gridOps) 10 20
      (by decide)).1,
   ((append_stitch_needs_thread gridOps).2 alloc_all (PesEncoder.pes_encoder_init gridOps) 0 10 20
      (by decide)).1,
   ((append_stitch_needs_thread gridOps).2 alloc_all sample_pes_encoder 3 10 20
      (by decide)).2⟩

/-- The outcome of append_stitch of the PEC encoder: the flag does not depend on the
stitch, a failure keeps the lists and the bounds, a success needs a thread and records
the stitch at the end of the list. -/
theorem pec_append_cases {F : Type} (ops : FloatOps F) (a : Bool) (e : PecEncoder.pec_encoder F)
    (t : pec_stitch_type) (x y : F) :
    (∀ (t1 : pec_stitch_type) (x1 y1 : F),
      (PecEncoder.append_stitch ops a e t x y).2 = (PecEncoder.append_stitch ops a e t1 x1 y1).2) ∧
    (PecEncoder.append_stitch ops a e t x y).1.palette = e.palette ∧
    ((PecEncoder.append_stitch ops a e t x y).2 = false →
      (PecEncoder.append_stitch ops a e t x y).1.stitch_list = e.stitch_list ∧
      (PecEncoder.append_stitch ops a e t x y).1.bounds = e.bounds) ∧
    ((PecEncoder.append_stitch ops a e t x y).2 = true →
      e.palette ≠ [] ∧
      (PecEncoder.append_stitch ops a e t x y).1.stitch_list = e.stitch_list ++ [⟨x, y, t⟩] ∧
      (PecEncoder.append_stitch ops a e t x y).1.bounds =
        PecEncoder.update_bounds ops e.bounds x y) ∧
    (e.palette ≠ [] → e.stitch_count < e.stitch_capacity →
      (PecEncoder.append_stitch ops a e t x y).2 = true) := by
  unfold PecEncoder.append_stitch
  simp only []
  generalize hg : (if e.stitch_capacity ≤ e.stitch_count then
        if e.stitch_capacity +
            (if e.stitch_capacity = 0 then 100
             else if 10000 < e.stitch_capacity then 10000 else e.stitch_capacity) <
            2147483647 / 2 ∧ a = true then
          { e with stitch_capacity := e.stitch_capacity +
            (if e.stitch_capacity = 0 then 100
             else if 10000 < e.stitch_capacity then 10000 else e.stitch_capacity) }
        else e
      else e) = g
  have hg1 : g.stitch_list = e.stitch_list ∧ g.palette = e.palette ∧ g.bounds = e.bounds ∧
      (e.stitch_count < e.stitch_capacity → g.stitch_capacity = e.stitch_capacity) := by
    rw [← hg]
    by_cases c1 : e.stitch_capacity ≤ e.stitch_count
    · rw [if_pos c1]
      split_ifs <;> exact ⟨rfl, rfl, rfl, fun h => absurd h (by omega)⟩
    · rw [if_neg c1]
      exact ⟨rfl, rfl, rfl, fun _ => rfl⟩
  clear hg
  obtain ⟨h1, h2, h3, h4⟩ := hg1
  have hcnt : g.stitch_count = e.stitch_count := by
    unfold PecEncoder.pec_encoder.stitch_count; rw [h1]
  have hth : e.thread_count = 0 ↔ e.palette = [] := by
    unfold PecEncoder.pec_encoder.thread_count
    constructor
    · intro h; exact List.length_eq_zero.1 (by exact_mod_cast h)
    · intro h; rw [h]; rfl
  by_cases c0 : e.thread_count = 0
  · simp only [if_pos c0, true_and, Bool.false_eq_true, false_implies, implies_true, and_true]
    exact fun hp => absurd (hth.1 c0) hp
  · simp only [if_neg c0]
    by_cases c1 : g.stitch_capacity ≤ g.stitch_count
    · simp only [if_pos c1, h1, h2, h3, true_and, Bool.false_eq_true, false_implies,
        implies_true, and_true]
      intro _ hlt
      have := h4 hlt
      omega
    · simp only [if_neg c1, h1, h2, h3, true_and, Bool.true_eq_false, false_implies,
        implies_true, and_true]
      exact fun _ h => c0 (hth.2 h)

/-- The flag of append_stitch of the PES encoder does not depend on the coordinates, and a
success records the stitch at the end of the stitch list. -/
theorem pes_append_cases {F : Type} (ops : FloatOps F) (alloc : PesEncoder.alloc_outcomes)
    (e : PesEncoder.pes_encoder F) (ti : Int) (x y : F) (jump : Bool) :
    (∀ x1 y1 : F, (PesEncoder.append_stitch ops alloc e ti x y jump).2 =
      (PesEncoder.append_stitch ops alloc e ti x1 y1 jump).2) ∧
    ((PesEncoder.append_stitch ops alloc e ti x y jump).2 = true →
      (PesEncoder.append_stitch ops alloc e ti x y jump).1.stitch_list =
        e.stitch_list ++ [⟨ti, x, y, jump⟩]) ∧
    ((PesEncoder.append_stitch ops alloc e ti x y jump).2 = false →
      (PesEncoder.append_stitch ops alloc e ti x y jump).1.stitch_list = e.stitch_list) := by
  unfold PesEncoder.append_stitch
  simp only []
  generalize hg : (if e.stitch_capacity ≤ e.stitch_count then
        if e.stitch_capacity +
            (if e.stitch_capacity = 0 then 100
             else if 10000 < e.stitch_capacity then 10000 else e.stitch_capacity) <
            2147483647 / 2 ∧ alloc.pes_list = true then
          { e with stitch_capacity := e.stitch_capacity +
            (if e.stitch_capacity = 0 then 100
             else if 10000 < e.stitch_capacity then 10000 else e.stitch_capacity) }
        else e
      else e) = g
  have hg1 : g.stitch_list = e.stitch_list := by
    rw [← hg]; split_ifs <;> rfl
  clear hg
  generalize (if g.stitch_count = 0 ∨
        g.stitch_list.getLast?.any (fun last => decide (ti ≠ last.thread_index)) = true then
        PecEncoder.pec_append_thread ops alloc.pec_stop g.pec_encoder
          (pec_palette_index_by_rgb (g.thread_list.getD ti.toNat pec_undefined_thread).rgb)
      else (g.pec_encoder, true)) = T
  have hS : ∀ x1 y1 : F,
      (if g.stitch_list.getLast?.any (fun last => decide (ti ≠ last.thread_index)) = true then
        PecEncoder.pec_append_jump_stitch ops alloc.pec_stitch T.1 x y
      else if jump = true then PecEncoder.pec_append_trim_stitch ops alloc.pec_stitch T.1 x y
      else PecEncoder.pec_append_stitch ops alloc.pec_stitch T.1 x y).2 =
      (if g.stitch_list.getLast?.any (fun last => decide (ti ≠ last.thread_index)) = true then
        PecEncoder.pec_append_jump_stitch ops alloc.pec_stitch T.1 x1 y1
      else if jump = true then PecEncoder.pec_append_trim_stitch ops alloc.pec_stitch T.1 x1 y1
      else PecEncoder.pec_append_stitch ops alloc.pec_stitch T.1 x1 y1).2 := by
    intro x1 y1
    simp only [PecEncoder.pec_append_jump_stitch, PecEncoder.pec_append_trim_stitch,
      PecEncoder.pec_append_stitch]
    split_ifs <;> exact (pec_append_cases ops _ _ _ x y).1 _ x1 y1
  refine ⟨?_, ?_, ?_⟩
  · intro x1 y1
    by_cases c1 : ti < 0 ∨ e.thread_count ≤ ti
    · rw [if_pos c1, if_pos c1]
    · rw [if_neg c1, if_neg c1]
      by_cases c2 : g.stitch_capacity ≤ g.stitch_count
      · rw [if_pos c2, if_pos c2]
      · rw [if_neg c2, if_neg c2]
        by_cases c3 : T.2 = false
        · rw [if_pos c3, if_pos c3]
        · rw [if_neg c3, if_neg c3]
          have h12 := hS x1 y1
          generalize (if g.stitch_list.getLast?.any
                (fun last => decide (ti ≠ last.thread_index)) = true then
              PecEncoder.pec_append_jump_stitch ops alloc.pec_stitch T.1 x y
            else if jump = true then
              PecEncoder.pec_append_trim_stitch ops alloc.pec_stitch T.1 x y
            else PecEncoder.pec_append_stitch ops alloc.pec_stitch T.1 x y) = S at h12 ⊢
          generalize (if g.stitch_list.getLast?.any
                (fun last => decide (ti ≠ last.thread_index)) = true then
              PecEncoder.pec_append_jump_stitch ops alloc.pec_stitch T.1 x1 y1
            else if jump = true then
              PecEncoder.pec_append_trim_stitch ops alloc.pec_stitch T.1 x1 y1
            else PecEncoder.pec_append_stitch ops alloc.pec_stitch T.1 x1 y1) = S1 at h12 ⊢
          by_cases c4 : S.2 = false
          · have c5 : S1.2 = false := by rw [← h12]; exact c4
            simp only [if_pos c4, if_pos c5]
          · have c5 : ¬ S1.2 = false := by rw [← h12]; exact c4
            simp only [if_neg c4, if_neg c5]
  · split_ifs <;> simp [hg1]
  · split_ifs <;> simp [hg1]

/-- C12 as stated fails: on the fixed-point instance, after one thread and a stitch at
(0, 0), appending a stitch at 300 mm (raw x 3000, a raw delta of 3000) returns success
and records the stitch, with pec_append_stitch and with pes_append_stitch; the PEC
encoder then fails to encode. -/
theorem append_delta_overflow_counterexample :
    origin_pec_encoder.stitch_list.length = 1 ∧
    gridOps.pec_raw_coordinate 3000 - gridOps.pec_raw_coordinate 0 = 3000 ∧
    (PecEncoder.pec_append_stitch gridOps true origin_pec_encoder 3000 0).2 = true ∧
    (PecEncoder.pec_append_stitch gridOps true origin_pec_encoder 3000 0).1.stitch_list.length
      = 2 ∧
    origin_pes_encoder.stitch_list.length = 1 ∧
    (PesEncoder.pes_append_stitch gridOps alloc_all origin_pes_encoder 0 3000 0).2 = true ∧
    (PesEncoder.pes_append_stitch gridOps alloc_all origin_pes_encoder 0 3000 0).1.stitch_list.length
      = 2 ∧
    PecEncoder.pec_encode gridOps overflow_pec_encoder = none := by
  refine ⟨by decide, by decide, by decide, by decide, by decide, by decide, by decide, by decide⟩

/-- C12 (amended). Delta overflow is not looked at when a stitch is appended: the flag
returned by pec_append_stitch and by pes_append_stitch is the same for every pair of
coordinates, it is success on a PEC encoder that has a thread and free capacity, and on
success the stitch is recorded at the end of the stitch list whatever its delta. -/
theorem append_ignores_delta {F : Type} (ops : FloatOps F) :
    (∀ (alloc_ok : Bool) (e : PecEncoder.pec_encoder F) (x y : F),
      (∀ x1 y1 : F, (PecEncoder.pec_append_stitch ops alloc_ok e x y).2 =
        (PecEncoder.pec_append_stitch ops alloc_ok e x1 y1).2) ∧
      (e.palette ≠ [] → e.stitch_count < e.stitch_capacity →
        (PecEncoder.pec_append_stitch ops alloc_ok e x y).2 = true) ∧
      ((PecEncoder.pec_append_stitch ops alloc_ok e x y).2 = true →
        (PecEncoder.pec_append_stitch ops alloc_ok e x y).1.stitch_list =
          e.stitch_list ++ [⟨x, y, PEC_STITCH_NORMAL⟩])) ∧
    (∀ (alloc : PesEncoder.alloc_outcomes) (e : PesEncoder.pes_encoder F) (thread_index : Int)
      (x y : F),
      (∀ x1 y1 : F, (PesEncoder.pes_append_stitch ops alloc e thread_index x y).2 =
        (PesEncoder.pes_append_stitch ops alloc e thread_index x1 y1).2) ∧
      ((PesEncoder.pes_append_stitch ops alloc e thread_index x y).2 = true →
        (PesEncoder.pes_append_stitch ops alloc e thread_index x y).1.stitch_list =
          e.stitch_list ++ [⟨thread_index, x, y, false⟩])) := by
  refine ⟨fun a e x y => ?_, fun alloc e ti x y => ?_⟩
  · obtain ⟨h1, -, -, h4, h5⟩ := pec_append_cases ops a e PEC_STITCH_NORMAL x y
    exact ⟨fun x1 y1 => h1 _ x1 y1, h5, fun h => (h4 h).2.1⟩
  · obtain ⟨h1, h2, -⟩ := pes_append_cases ops alloc e ti x y false
    exact ⟨h1, h2⟩

theorem append_ignores_delta_witness :
    (PecEncoder.pec_append_stitch gridOps true origin_pec_encoder 3000 0).2 =
      (PecEncoder.pec_append_stitch gridOps true origin_pec_encoder 1 0).2 ∧
    (PecEncoder.pec_append_stitch gridOps true origin_pec_encoder 3000 0).1.stitch_list =
      origin_pec_encoder.stitch_list ++ [⟨3000, 0, PEC_STITCH_NORMAL⟩] ∧
    (PesEncoder.pes_append_stitch gridOps alloc_all origin_pes_encoder 0 3000 0).1.stitch_list =
      origin_pes_encoder.stitch_list ++ [⟨0, 3000, 0, false⟩] :=
  ⟨((append_ignores_delta gridOps).1 true origin_pec_encoder 3000 0).1 1 0,
   ((append_ignores_delta gridOps).1 true origin_pec_encoder 3000 0).2.2 (by decide),
   ((append_ignores_delta gridOps).2 alloc_all origin_pes_encoder 0 3000 0).2 (by decide)⟩

/-! ## Stops between threads -/

theorem stop_count_append {F : Type} (e : PecEncoder.pec_encoder F) (l : List (PecEncoder.pec_stitch F))
    (s : PecEncoder.pec_stitch F) (h : e.stitch_list = l ++ [s]) :
    stop_count e = l.countP (fun s => decide (s.type = PEC_STITCH_STOP)) +
      (if s.type = PEC_STITCH_STOP then 1 else 0) := by
  unfold stop_count
  rw [h, List.countP_append, List.countP_cons, List.countP_nil]
  simp

/-- One operation keeps the relation between Stops and threads: there is no stitch
without a thread and at most one Stop for every thread but the first; the Stops are
exactly one for every thread but the first when a thread is only appended to an encoder
without threads or, with success, to an encoder that has stitches. -/
theorem pec_apply_stops {F : Type} (ops : FloatOps F) (e : PecEncoder.pec_encoder F)
    (op : pec_op F)
    (h1 : e.palette = [] → e.stitch_list = [])
    (h2 : e.palette ≠ [] → stop_count e + 1 ≤ e.palette.length) :
    ((pec_apply ops e op).1.palette = [] → (pec_apply ops e op).1.stitch_list = []) ∧
    ((pec_apply ops e op).1.palette ≠ [] →
      stop_count (pec_apply ops e op).1 + 1 ≤ (pec_apply ops e op).1.palette.length) ∧
    ((e.palette ≠ [] → stop_count e + 1 = e.palette.length) →
      (match op with
       | .append_thread _ _ =>
         e.thread_count = 0 ∨ (e.stitch_list ≠ [] ∧ (pec_apply ops e op).2 = true)
       | _ => True) →
      (pec_apply ops e op).1.palette ≠ [] →
      stop_count (pec_apply ops e op).1 + 1 = (pec_apply ops e op).1.palette.length) := by
  have stitch_case : ∀ (a : Bool) (t : pec_stitch_type) (x y : F), t ≠ PEC_STITCH_STOP →
      ((PecEncoder.append_stitch ops a e t x y).1.palette = [] →
        (PecEncoder.append_stitch ops a e t x y).1.stitch_list = []) ∧
      stop_count (PecEncoder.append_stitch ops a e t x y).1 = stop_count e ∧
      (PecEncoder.append_stitch ops a e t x y).1.palette = e.palette := by
    intro a t x y ht
    obtain ⟨-, hp, hf, hs, -⟩ := pec_append_cases ops a e t x y
    cases hflag : (PecEncoder.append_stitch ops a e t x y).2
    · obtain ⟨hl, -⟩ := hf hflag
      refine ⟨fun h => by rw [hl]; exact h1 (hp ▸ h), ?_, hp⟩
      unfold stop_count; rw [hl]
    · obtain ⟨hne, hl, -⟩ := hs hflag
      refine ⟨fun h => absurd (hp ▸ h) hne, ?_, hp⟩
      rw [stop_count_append _ _ _ hl, if_neg ht]
      rfl
  cases op with
  | append_stitch a x y =>
    obtain ⟨c1, c2, c3⟩ := stitch_case a PEC_STITCH_NORMAL x y (by decide)
    simp only [pec_apply, PecEncoder.pec_append_stitch]
    rw [c2, c3]
    exact ⟨by rw [← c3]; exact c1, h2, fun h _ => h⟩
  | append_jump_stitch a x y =>
    obtain ⟨c1, c2, c3⟩ := stitch_case a PEC_STITCH_JUMP x y (by decide)
    simp only [pec_apply, PecEncoder.pec_append_jump_stitch]
    rw [c2, c3]
    exact ⟨by rw [← c3]; exact c1, h2, fun h _ => h⟩
  | append_trim_stitch a x y =>
    obtain ⟨c1, c2, c3⟩ := stitch_case a PEC_STITCH_TRIM x y (by decide)
    simp only [pec_apply, PecEncoder.pec_append_trim_stitch]
    rw [c2, c3]
    exact ⟨by rw [← c3]; exact c1, h2, fun h _ => h⟩
  | append_thread a p =>
    simp only [pec_apply]
    unfold PecEncoder.pec_append_thread
    by_cases c : PecEncoder.PEC_MAX_THREADS ≤ e.thread_count
    · simp only [if_pos c]
      refine ⟨h1, h2, fun h3 hd _ => ?_⟩
      rcases hd with hd | ⟨-, hd⟩
      · unfold PecEncoder.PEC_MAX_THREADS at c; omega
      · exact absurd hd (by simp)
    · simp only [if_neg c]
      by_cases cz : ({ e with palette := e.palette ++ [p] } :
          PecEncoder.pec_encoder F).stitch_count = 0
      · simp only [if_pos cz]
        have hl : e.stitch_list = [] :=
          List.length_eq_zero.1 (by
            unfold PecEncoder.pec_encoder.stitch_count at cz; exact_mod_cast cz)
        have hs0 : stop_count ({ e with palette := e.palette ++ [p] } :
            PecEncoder.pec_encoder F) = 0 := by
          unfold stop_count; simp only [hl, List.countP_nil]
        refine ⟨fun h => absurd h (by simp), fun _ => ?_, fun h3 hd _ => ?_⟩
        · rw [hs0]; simp
        · rw [hs0]
          rcases hd with hd | ⟨hd, -⟩
          · have : e.palette = [] :=
              List.length_eq_zero.1 (by
                unfold PecEncoder.pec_encoder.thread_count at hd; exact_mod_cast hd)
            simp [this]
          · exact absurd hl hd
      · simp only [if_neg cz]
        have hne : e.stitch_list ≠ [] := by
          intro h
          apply cz
          unfold PecEncoder.pec_encoder.stitch_count
          simp only [h, List.length_nil, Nat.cast_zero]
        have hpe : e.palette ≠ [] := fun h => hne (h1 h)
        obtain ⟨-, hp, hf, hs, -⟩ := pec_append_cases ops a
          ({ e with palette := e.palette ++ [p] } : PecEncoder.pec_encoder F)
          PEC_STITCH_STOP ops.zero ops.zero
        have h2e := h2 hpe
        cases hflag : (PecEncoder.append_stitch ops a
          ({ e with palette := e.palette ++ [p] } : PecEncoder.pec_encoder F)
          PEC_STITCH_STOP ops.zero ops.zero).2
        · obtain ⟨hl, -⟩ := hf hflag
          have hsc : stop_count (PecEncoder.append_stitch ops a
              ({ e with palette := e.palette ++ [p] } : PecEncoder.pec_encoder F)
              PEC_STITCH_STOP ops.zero ops.zero).1 = stop_count e := by
            unfold stop_count; rw [hl]
          rw [hsc, hp]
          refine ⟨fun h => absurd h (by simp), fun _ => by simp; omega, fun _ hd _ => ?_⟩
          rcases hd with hd | ⟨-, hd⟩
          · have : e.palette = [] :=
              List.length_eq_zero.1 (by
                unfold PecEncoder.pec_encoder.thread_count at hd; exact_mod_cast hd)
            exact absurd this hpe
          · exact absurd hd (by simp)
        · obtain ⟨-, hl, -⟩ := hs hflag
          have hsc : stop_count (PecEncoder.append_stitch ops a
              ({ e with palette := e.palette ++ [p] } : PecEncoder.pec_encoder F)
              PEC_STITCH_STOP ops.zero ops.zero).1 = stop_count e + 1 := by
            rw [stop_count_append _ _ _ hl, if_pos rfl]
            rfl
          rw [hsc, hp]
          refine ⟨fun h => absurd h (by simp), fun _ => by simp; omega, fun h3 _ _ => ?_⟩
          have := h3 hpe
          simp
          omega

theorem pec_run_stops {F : Type} (ops : FloatOps F) (l : List (pec_op F)) :
    ∀ e : PecEncoder.pec_encoder F,
    (e.palette = [] → e.stitch_list = []) →
    (e.palette ≠ [] → stop_count e + 1 ≤ e.palette.length) →
    ((pec_run ops e l).palette = [] → (pec_run ops e l).stitch_list = []) ∧
    ((pec_run ops e l).palette ≠ [] →
      stop_count (pec_run ops e l) + 1 ≤ (pec_run ops e l).palette.length) ∧
    ((e.palette ≠ [] → stop_count e + 1 = e.palette.length) →
      threads_separated ops e l → (pec_run ops e l).palette ≠ [] →
      stop_count (pec_run ops e l) + 1 = (pec_run ops e l).palette.length) := by
  induction l with
  | nil => intro e h1 h2; exact ⟨h1, h2, fun h3 _ => h3⟩
  | cons op rest ih =>
    intro e h1 h2
    obtain ⟨a1, a2, a3⟩ := pec_apply_stops ops e op h1 h2
    obtain ⟨b1, b2, b3⟩ := ih (pec_apply ops e op).1 a1 a2
    exact ⟨b1, b2, fun h3 hs => b3 (a3 h3 hs.1) hs.2⟩

/-- C13 as stated fails: on the fixed-point instance, two threads appended to a fresh
encoder with no stitch between them leave thread_count = 2 and no Stop entry. -/
theorem stop_count_counterexample :
    (pec_run gridOps (PecEncoder.pec_encoder_init gridOps)
      [.append_thread true 20, .append_thread true 5]).thread_count = 2 ∧
    stop_count (pec_run gridOps (PecEncoder.pec_encoder_init gridOps)
      [.append_thread true 20, .append_thread true 5]) = 0 := by
  refine ⟨by decide, by decide⟩

/-- C13 (amended). After every sequence of PEC encoder operations on a fresh encoder that
leaves thread_count >= 1, the number of Stop entries of the stitch list is at most
thread_count - 1; it equals thread_count - 1 when every pec_append_thread of the
sequence was either made on an encoder without threads or made on an encoder that has
stitches and returned success. -/
theorem stop_count_between_threads {F : Type} (ops : FloatOps F) (l : List (pec_op F))
    (h : 1 ≤ (pec_run ops (PecEncoder.pec_encoder_init ops) l).thread_count) :
    (stop_count (pec_run ops (PecEncoder.pec_encoder_init ops) l) : Int) ≤
      (pec_run ops (PecEncoder.pec_encoder_init ops) l).thread_count - 1 ∧
    (threads_separated ops (PecEncoder.pec_encoder_init ops) l →
      (stop_count (pec_run ops (PecEncoder.pec_encoder_init ops) l) : Int) =
        (pec_run ops (PecEncoder.pec_encoder_init ops) l).thread_count - 1) := by
  obtain ⟨-, b2, b3⟩ := pec_run_stops ops l (PecEncoder.pec_encoder_init ops)
    (fun _ => rfl) (fun h => absurd rfl h)
  have hne : (pec_run ops (PecEncoder.pec_encoder_init ops) l).palette ≠ [] := by
    intro h0
    unfold PecEncoder.pec_encoder.thread_count at h
    rw [h0] at h
    simp at h
  have c2 := b2 hne
  unfold PecEncoder.pec_encoder.thread_count
  refine ⟨by omega, fun hs => ?_⟩
  have c3 := b3 (fun h => absurd rfl h) hs hne
  omega

theorem stop_count_between_threads_witness :
    (stop_count (pec_run gridOps (PecEncoder.pec_encoder_init gridOps)
      [.append_thread true 20, .append_stitch true 0 0, .append_thread true 5,
       .append_jump_stitch true 10 10, .append_thread true 7]) : Int) = 3 - 1 :=
  (stop_count_between_threads gridOps
    [.append_thread true 20, .append_stitch true 0 0, .append_thread true 5,
     .append_jump_stitch true 10 10, .append_thread true 7] (by decide)).2
    ⟨Or.inl (by decide), trivial,
     Or.inr ⟨fun h => absurd (congrArg List.length h) (by decide), by decide⟩, trivial,
     Or.inr ⟨fun h => absurd (congrArg List.length h) (by decide), by decide⟩, trivial⟩

/-! ## Magic and markers of pes_decoder_init -/

theorem pes_decode_u8_congr (d d1 : PesDecoder.pes_decoder) (h : d.data = d1.data) (o : Int) :
    PesDecoder.decode_u8 d o = PesDecoder.decode_u8 d1 o := by
  unfold PesDecoder.decode_u8 PesDecoder.pes_decoder.size; rw [h]

theorem pes_decode_u16lsb_congr (d d1 : PesDecoder.pes_decoder) (h : d.data = d1.data)
    (o : Int) : PesDecoder.decode_u16lsb d o = PesDecoder.decode_u16lsb d1 o := by
  unfold PesDecoder.decode_u16lsb PesDecoder.pes_decoder.size; rw [h]

theorem pes_decode_string_congr (d d1 : PesDecoder.pes_decoder) (h : d.data = d1.data)
    (o : Int) : PesDecoder.decode_string d o = PesDecoder.decode_string d1 o := by
  unfold PesDecoder.decode_string PesDecoder.pes_decoder.size
  rw [pes_decode_u8_congr d d1 h, h]

theorem pes_decode_hoop_size_congr (d d1 : PesDecoder.pes_decoder) (h : d.data = d1.data)
    (o : Int) : PesDecoder.decode_hoop_size d o = PesDecoder.decode_hoop_size d1 o := by
  unfold PesDecoder.decode_hoop_size
  rw [pes_decode_u16lsb_congr d d1 h, pes_decode_u16lsb_congr d d1 h]

theorem init_threads_loop_congr (d d1 : PesDecoder.pes_decoder) (h : d.data = d1.data) :
    ∀ (n : Nat) (i o : Int),
      PesDecoder.init_threads_loop d n i o = PesDecoder.init_threads_loop d1 n i o := by
  intro n
  induction n with
  | zero => intro i o; rfl
  | succ n ih =>
    intro i o
    simp only [PesDecoder.init_threads_loop, pes_decode_string_congr d d1 h,
      pes_decode_u8_congr d d1 h, ih]

theorem init_threads_offset_congr (cz : Bool) (d d1 : PesDecoder.pes_decoder)
    (h : d.data = d1.data) (o : Int) :
    (PesDecoder.init_threads cz d o).map (fun r => (r.1.data, r.2)) =
      (PesDecoder.init_threads cz d1 o).map (fun r => (r.1.data, r.2)) := by
  unfold PesDecoder.init_threads
  rw [pes_decode_u16lsb_congr d d1 h]
  simp only [init_threads_loop_congr d d1 h]
  cases PesDecoder.decode_u16lsb d1 o with
  | none => rfl
  | some tc =>
    simp only []
    split_ifs
    · rfl
    · cases PesDecoder.init_threads_loop d1 tc.toNat 0 (o + 2) with
      | none => rfl
      | some r => simp [h]

theorem init_version1_congr (d d1 : PesDecoder.pes_decoder) (h : d.data = d1.data) :
    (PesDecoder.init_version1 d).map (fun r => (r.data, r.cembone_offset)) =
      (PesDecoder.init_version1 d1).map (fun r => (r.data, r.cembone_offset)) := by
  unfold PesDecoder.init_version1
  simp [h]

theorem init_version4_congr (d d1 : PesDecoder.pes_decoder) (h : d.data = d1.data) :
    (PesDecoder.init_version4 d).map (fun r => (r.data, r.cembone_offset)) =
      (PesDecoder.init_version4 d1).map (fun r => (r.data, r.cembone_offset)) := by
  unfold PesDecoder.init_version4
  rw [pes_decode_string_congr d d1 h]
  cases PesDecoder.decode_string d1 (12 + 4) with
  | none => rfl
  | some r =>
    simp only []
    rw [pes_decode_hoop_size_congr d d1 h]
    cases PesDecoder.decode_hoop_size d1 (12 + 4 + (1 + r.1) + 6) with
    | none => rfl
    | some q => simp [h]

theorem init_version5_congr (cz : Bool) (d d1 : PesDecoder.pes_decoder) (h : d.data = d1.data) :
    (PesDecoder.init_version5 cz d).map (fun r => (r.data, r.cembone_offset)) =
      (PesDecoder.init_version5 cz d1).map (fun r => (r.data, r.cembone_offset)) := by
  unfold PesDecoder.init_version5
  rw [pes_decode_string_congr d d1 h]
  cases PesDecoder.decode_string d1 (12 + 4) with
  | none => rfl
  | some r =>
    simp only []
    rw [pes_decode_hoop_size_congr d d1 h]
    cases PesDecoder.decode_hoop_size d1 (12 + 4 + (1 + r.1) + 6) with
    | none => rfl
    | some q =>
      simp only []
      have key := init_threads_offset_congr cz
        { d with name := r.2, hoop_width := q.1, hoop_height := q.2 }
        { d1 with name := r.2, hoop_width := q.1, hoop_height := q.2 } h
        (12 + 4 + (1 + r.1) + 6 + 4 + 49)
      revert key
      cases PesDecoder.init_threads cz
          { d with name := r.2, hoop_width := q.1, hoop_height := q.2 }
          (12 + 4 + (1 + r.1) + 6 + 4 + 49) <;>
        cases PesDecoder.init_threads cz
          { d1 with name := r.2, hoop_width := q.1, hoop_height := q.2 }
          (12 + 4 + (1 + r.1) + 6 + 4 + 49) <;>
        simp

theorem init_version6_congr (cz : Bool) (d d1 : PesDecoder.pes_decoder) (h : d.data = d1.data) :
    (PesDecoder.init_version6 cz d).map (fun r => (r.data, r.cembone_offset)) =
      (PesDecoder.init_version6 cz d1).map (fun r => (r.data, r.cembone_offset)) := by
  unfold PesDecoder.init_version6
  rw [pes_decode_string_congr d d1 h]
  cases PesDecoder.decode_string d1 (12 + 4) with
  | none => rfl
  | some r =>
    simp only []
    rw [pes_decode_hoop_size_congr d d1 h]
    cases PesDecoder.decode_hoop_size d1 (12 + 4 + (1 + r.1) + 8) with
    | none => rfl
    | some q =>
      simp only []
      have key := init_threads_offset_congr cz
        { d with name := r.2, hoop_width := q.1, hoop_height := q.2 }
        { d1 with name := r.2, hoop_width := q.1, hoop_height := q.2 } h
        (12 + 4 + (1 + r.1) + 8 + 4 + 59)
      revert key
      cases PesDecoder.init_threads cz
          { d with name := r.2, hoop_width := q.1, hoop_height := q.2 }
          (12 + 4 + (1 + r.1) + 8 + 4 + 59) <;>
        cases PesDecoder.init_threads cz
          { d1 with name := r.2, hoop_width := q.1, hoop_height := q.2 }
          (12 + 4 + (1 + r.1) + 8 + 4 + 59) <;>
        simp

/-- A successful string_equal against a literal of seven characters finds the
length-prefixed literal in the buffer. -/
theorem string_equal_marker (d : PesDecoder.pes_decoder) (o : Int) (s : String)
    (hs : (ascii s).length = 7) (h : PesDecoder.string_equal d o s = true) :
    marker_at d.data o s = true := by
  unfold PesDecoder.string_equal at h
  unfold PesDecoder.decode_u16lsb PesDecoder.pes_decoder.size at h
  by_cases c : o < 0 ∨ (d.data.length : Int) < o + 2
  · rw [if_pos c] at h; exact absurd h (by simp)
  · rw [if_neg c] at h
    simp only [Bool.and_eq_true, decide_eq_true_eq] at h
    obtain ⟨⟨h1, h2⟩, h3⟩ := h
    rw [hs] at h1
    have h1n : (d.data.getD o.toNat 0).val ||| ((d.data.getD (o + 1).toNat 0).val <<< 8) = 7 := by
      exact_mod_cast h1
    rw [lor_shift8] at h1n
    have ha : (d.data.getD o.toNat 0).val = 7 := by omega
    have hb : (d.data.getD (o + 1).toNat 0).val = 0 := by omega
    rw [h1] at h2 h3
    have ho : 0 ≤ o := by omega
    obtain ⟨n, rfl⟩ := Int.eq_ofNat_of_zero_le ho
    have hlen : n + 9 ≤ d.data.length := by omega
    have e1 : ((n : Int) + 1).toNat = n + 1 := by omega
    have e2 : ((n : Int) + 2).toNat = n + 2 := by omega
    rw [e1] at hb
    rw [e2] at h3
    simp only [Int.toNat_ofNat] at ha h3
    have h3b : List.take 7 (List.drop (n + 2) d.data) = ascii s := h3
    unfold marker_at
    simp only [Bool.and_eq_true, decide_eq_true_eq, Int.toNat_ofNat]
    refine ⟨ho, ?_⟩
    have g0 : d.data.getD n 0 = d.data[n] := by
      rw [List.getD_eq_getElem?_getD, List.getElem?_eq_getElem (by omega)]; rfl
    have g1 : d.data.getD (n + 1) 0 = d.data[n + 1] := by
      rw [List.getD_eq_getElem?_getD, List.getElem?_eq_getElem (by omega)]; rfl
    rw [g0] at ha
    rw [g1] at hb
    have d0 : List.drop n d.data = d.data[n] :: List.drop (n + 1) d.data :=
      List.drop_eq_getElem_cons (by omega)
    have d1 : List.drop (n + 1) d.data = d.data[n + 1] :: List.drop (n + 2) d.data :=
      List.drop_eq_getElem_cons (by omega)
    have v0 : d.data[n] = (7 : Byte) := Fin.ext ha
    have v1 : d.data[n + 1] = (0 : Byte) := Fin.ext hb
    rw [v0] at d0
    rw [v1] at d1
    rw [d0, d1, List.take_succ_cons, List.take_succ_cons, h3b]
    rfl

theorem init_threads_data (cz : Bool) (d : PesDecoder.pes_decoder) (o : Int)
    (r : PesDecoder.pes_decoder × Int) (h : PesDecoder.init_threads cz d o = some r) :
    r.1.data = d.data := by
  unfold PesDecoder.init_threads at h
  split at h
  · exact absurd h (by simp)
  · split at h
    · exact absurd h (by simp)
    · split at h
      · exact absurd h (by simp)
      · simp only [Option.some.injEq] at h
        rw [← h]

theorem init_version_data (cz : Bool) (d r : PesDecoder.pes_decoder) :
    (PesDecoder.init_version1 d = some r → r.data = d.data) ∧
    (PesDecoder.init_version4 d = some r → r.data = d.data) ∧
    (PesDecoder.init_version5 cz d = some r → r.data = d.data) ∧
    (PesDecoder.init_version6 cz d = some r → r.data = d.data) := by
  refine ⟨fun h => ?_, fun h => ?_, fun h => ?_, fun h => ?_⟩
  · unfold PesDecoder.init_version1 at h
    simp only [Option.some.injEq] at h
    rw [← h]
  · unfold PesDecoder.init_version4 at h
    split at h
    · exact absurd h (by simp)
    · simp only [] at h
      split at h
      · exact absurd h (by simp)
      · simp only [Option.some.injEq] at h
        rw [← h]
  · unfold PesDecoder.init_version5 at h
    split at h
    · exact absurd h (by simp)
    · simp only [] at h
      split at h
      · exact absurd h (by simp)
      · split at h
        · exact absurd h (by simp)
        · rename_i d1 o2 hth
          simp only [Option.some.injEq] at h
          rw [← h]
          exact init_threads_data cz _ _ _ hth
  · unfold PesDecoder.init_version6 at h
    split at h
    · exact absurd h (by simp)
    · simp only [] at h
      split at h
      · exact absurd h (by simp)
      · split at h
        · exact absurd h (by simp)
        · rename_i d1 o2 hth
          simp only [Option.some.injEq] at h
          rw [← h]
          exact init_threads_data cz _ _ _ hth

theorem init_version_end (f : PesDecoder.pes_decoder → Option PesDecoder.pes_decoder)
    (hf : ∀ d d1 : PesDecoder.pes_decoder, d.data = d1.data →
      (f d).map (fun r => (r.data, r.cembone_offset)) =
        (f d1).map (fun r => (r.data, r.cembone_offset)))
    (da d2 : PesDecoder.pes_decoder) (hv : f da = some d2) (db : PesDecoder.pes_decoder)
    (h : da.data = db.data) :
    (f db).map (fun d => d.cembone_offset) = some d2.cembone_offset := by
  have key := hf da db h
  rw [hv] at key
  cases hb : f db with
  | none => rw [hb] at key; exact absurd key (by simp)
  | some r =>
    rw [hb] at key
    simp only [Option.map_some', Option.some.injEq, Prod.mk.injEq] at key
    simp only [Option.map_some', key.2]

theorem pes_decoder_init_markers {F : Type} (ops : FloatOps F) (cz : Bool) (data : List Byte)
    (d : PesDecoder.pes_decoder) (h : PesDecoder.pes_decoder_init ops cz data = .decoder d) :
    pes_magic data = true ∧
    ∃ o, header_end cz data = some o ∧ marker_at data o "CEmbOne" = true ∧
      marker_at data (o + 73) "CSewSeg" = true := by
  unfold PesDecoder.pes_decoder_init at h
  split at h
  · exact absurd h (by simp)
  · simp only [] at h
    split at h
    · exact absurd h (by simp)
    · rename_i pec_offset hpo
      split at h
      · exact absurd h (by simp)
      · split at h
        · exact absurd h (by simp)
        · split at h
          · exact absurd h (by simp)
          · rename_i pec hpec
            split at h
            · exact absurd h (by simp)
            · rename_i d2 hv
              have hfacts : pes_magic data = true ∧ d2.data = data ∧
                  header_end cz data = some d2.cembone_offset := by
                unfold pes_magic header_end
                by_cases m1 : List.take 8 data = ascii "#PES0001"
                · rw [if_pos m1] at hv
                  simp only [if_pos m1]
                  exact ⟨by simp [m1], (init_version_data cz _ _).1 hv,
                    init_version_end _ init_version1_congr _ _ hv _ rfl⟩
                · rw [if_neg m1] at hv
                  simp only [if_neg m1]
                  by_cases m4 : List.take 8 data = ascii "#PES0040"
                  · rw [if_pos m4] at hv
                    simp only [if_pos m4]
                    exact ⟨by simp [m4], (init_version_data cz _ _).2.1 hv,
                      init_version_end _ init_version4_congr _ _ hv _ rfl⟩
                  · rw [if_neg m4] at hv
                    simp only [if_neg m4]
                    by_cases m5 : List.take 8 data = ascii "#PES0050"
                    · rw [if_pos m5] at hv
                      simp only [if_pos m5]
                      exact ⟨by simp [m5], (init_version_data cz _ _).2.2.1 hv,
                        init_version_end _ (init_version5_congr cz) _ _ hv _ rfl⟩
                    · rw [if_neg m5] at hv
                      simp only [if_neg m5]
                      by_cases m6 : List.take 8 data = ascii "#PES0060"
                      · rw [if_pos m6] at hv
                        simp only [if_pos m6]
                        exact ⟨by simp [m6], (init_version_data cz _ _).2.2.2 hv,
                          init_version_end _ (init_version6_congr cz) _ _ hv _ rfl⟩
                      · rw [if_neg m6] at hv
                        exact absurd hv (by simp)
              obtain ⟨hm, hd, he⟩ := hfacts
              refine ⟨hm, d2.cembone_offset, he, ?_, ?_⟩
              · split at h
                · exact absurd h (by simp)
                · rename_i hse
                  have := string_equal_marker _ _ "CEmbOne" (by decide)
                    (Bool.eq_true_of_not_eq_false hse)
                  rw [← hd]
                  exact this
              · split at h
                · exact absurd h (by simp)
                · split at h
                  · exact absurd h (by simp)
                  · rename_i hse
                    have := string_equal_marker _ _ "CSewSeg" (by decide)
                      (Bool.eq_true_of_not_eq_false hse)
                    rw [← hd]
                    exact this

/-- C18. PES magic and marker mismatch are rejected: pes_decoder_init returns no decoder
for every buffer whose first 8 bytes are not one of "#PES0001", "#PES0040", "#PES0050",
"#PES0060", for every buffer in which the u16le length 7 followed by "CEmbOne" does not
stand at the end of the version-specific header, and for every buffer in which the
length-prefixed "CSewSeg" does not stand exactly 73 bytes after the CEmbOne marker start;
the end of the header of a version 1 buffer is offset 22. No decoder means the null
pointer or, for a buffer with a negative PEC offset, the read before the buffer that
init_pec makes. -/
theorem pes_decoder_init_rejects {F : Type} (ops : FloatOps F) (calloc_zero : Bool)
    (data : List Byte)
    (h : pes_magic data = false ∨
      (∀ o, header_end calloc_zero data = some o → marker_at data o "CEmbOne" = false) ∨
      (∀ o, header_end calloc_zero data = some o →
        marker_at data (o + 73) "CSewSeg" = false)) :
    (∀ d, PesDecoder.pes_decoder_init ops calloc_zero data ≠ .decoder d) ∧
    (data.take 8 = ascii "#PES0001" → header_end calloc_zero data = some 22) := by
  refine ⟨fun d hd => ?_, fun hm => ?_⟩
  · obtain ⟨hm, o, ho, h1, h2⟩ := pes_decoder_init_markers ops calloc_zero data d hd
    rcases h with h | h | h
    · rw [hm] at h; exact absurd h (by simp)
    · rw [h o ho] at h1; exact absurd h1 (by simp)
    · rw [h o ho] at h2; exact absurd h2 (by simp)
  · unfold header_end
    simp only [if_pos hm]
    rfl

theorem pes_decoder_init_rejects_witness :
    (∀ d, PesDecoder.pes_decoder_init gridOps true
      (ascii "#PES0001" ++ List.replicate 14 0 ++ [7, 0] ++ ascii "CEmbTwo") ≠ .decoder d) ∧
    (∀ d, PesDecoder.pes_decoder_init gridOps true
      (ascii "#PES0002" ++ List.replicate 14 0 ++ [7, 0] ++ ascii "CEmbOne") ≠ .decoder d) :=
  ⟨(pes_decoder_init_rejects gridOps true
      (ascii "#PES0001" ++ List.replicate 14 0 ++ [7, 0] ++ ascii "CEmbTwo")
      (Or.inr (Or.inl (fun o ho => by
        have e : header_end true
            (ascii "#PES0001" ++ List.replicate 14 0 ++ [7, 0] ++ ascii "CEmbTwo") =
            some 22 := by decide
        rw [e] at ho
        simp only [Option.some.injEq] at ho
        rw [← ho]
        decide)))).1,
   (pes_decoder_init_rejects gridOps true
      (ascii "#PES0002" ++ List.replicate 14 0 ++ [7, 0] ++ ascii "CEmbOne")
      (Or.inl (by decide))).1⟩

/-! ## Thread resolution in the block loop -/

/-- The outcomes of one iteration of the block loop with a block callback: either the
callback is not reached and the state is returned as it is, or the thread is resolved
against the change entry under the cursor, the callback is invoked with it, and the
loop ends with the state after the callback or after the stitches of the block, or
goes on with the next block index. -/
theorem block_loop_cases {F σ : Type} (ops : FloatOps F) (d : PesDecoder.pes_decoder)
    (cb : PesDecoder.pes_block_callback σ) (scb : Option (PesDecoder.pes_stitch_callback F σ))
    (fuel : Nat) (bi off ci : Int) (th : pec_thread) (arg : σ) :
    (∃ x, PesDecoder.block_loop ops d (some cb) scb (fuel + 1) bi off ci th arg = (arg, x)) ∨
    ∃ (ty cnt : Int) (th1 : pec_thread) (ci1 : Int),
      ((ci < d.change_count ∧ ∃ c, d.change_list[ci.toNat]? = some c ∧ bi = c.block_index ∧
          th1 = (d.thread_list.getD []).getD c.thread_index.toNat pec_undefined_thread ∧
          ci1 = ci + 1) ∨
       ((¬ ci < d.change_count ∨ d.change_list[ci.toNat]? = none ∨
          ∃ c, d.change_list[ci.toNat]? = some c ∧ bi ≠ c.block_index) ∧
          th1 = th ∧ ci1 = ci)) ∧
      ((∃ x, PesDecoder.block_loop ops d (some cb) scb (fuel + 1) bi off ci th arg =
          ((cb arg th1 cnt ty).1, x)) ∨
       (∃ x, PesDecoder.block_loop ops d (some cb) scb (fuel + 1) bi off ci th arg =
          ((PesDecoder.block_stitches ops d scb cnt.toNat 0 (off + 6)
            (cb arg th1 cnt ty).1).1, x)) ∨
       (∃ off1, PesDecoder.block_loop ops d (some cb) scb (fuel + 1) bi off ci th arg =
          PesDecoder.block_loop ops d (some cb) scb fuel (bi + 1) off1 ci1 th1
            (PesDecoder.block_stitches ops d scb cnt.toNat 0 (off + 6)
              (cb arg th1 cnt ty).1).1)) := by
  by_cases hoff : ¬ (off < d.pec_offset)
  · exact Or.inl ⟨some off, by simp only [PesDecoder.block_loop, if_pos hoff]⟩
  cases h1 : PesDecoder.decode_u16lsb d (off + 0) with
  | none => exact Or.inl ⟨none, by simp only [PesDecoder.block_loop, if_neg hoff, h1]⟩
  | some ty =>
  cases h2 : PesDecoder.decode_u16lsb d (off + 2) with
  | none => exact Or.inl ⟨none, by simp only [PesDecoder.block_loop, if_neg hoff, h1, h2]⟩
  | some id =>
  cases h3 : PesDecoder.decode_u16lsb d (off + 4) with
  | none => exact Or.inl ⟨none, by simp only [PesDecoder.block_loop, if_neg hoff, h1, h2, h3]⟩
  | some cnt =>
  right
  have tail : ∀ (th1 : pec_thread) (ci1 : Int),
      PesDecoder.block_loop ops d (some cb) scb (fuel + 1) bi off ci th arg =
        (if (cb arg th1 cnt ty).2 = false then ((cb arg th1 cnt ty).1, none)
         else
          match (PesDecoder.block_stitches ops d scb cnt.toNat 0 (off + 6)
              (cb arg th1 cnt ty).1).2 with
          | none => ((PesDecoder.block_stitches ops d scb cnt.toNat 0 (off + 6)
              (cb arg th1 cnt ty).1).1, none)
          | some offset1 =>
            match PesDecoder.decode_u16lsb d offset1 with
            | none => ((PesDecoder.block_stitches ops d scb cnt.toNat 0 (off + 6)
                (cb arg th1 cnt ty).1).1, none)
            | some code =>
              if code ≠ 0x8003 then ((PesDecoder.block_stitches ops d scb cnt.toNat 0 (off + 6)
                (cb arg th1 cnt ty).1).1, some offset1)
              else PesDecoder.block_loop ops d (some cb) scb fuel (bi + 1) (offset1 + 2) ci1 th1
                (PesDecoder.block_stitches ops d scb cnt.toNat 0 (off + 6)
                  (cb arg th1 cnt ty).1).1) →
      ((∃ x, PesDecoder.block_loop ops d (some cb) scb (fuel + 1) bi off ci th arg =
          ((cb arg th1 cnt ty).1, x)) ∨
       (∃ x, PesDecoder.block_loop ops d (some cb) scb (fuel + 1) bi off ci th arg =
          ((PesDecoder.block_stitches ops d scb cnt.toNat 0 (off + 6)
            (cb arg th1 cnt ty).1).1, x)) ∨
       (∃ off1, PesDecoder.block_loop ops d (some cb) scb (fuel + 1) bi off ci th arg =
          PesDecoder.block_loop ops d (some cb) scb fuel (bi + 1) off1 ci1 th1
            (PesDecoder.block_stitches ops d scb cnt.toNat 0 (off + 6)
              (cb arg th1 cnt ty).1).1)) := by
    intro th1 ci1 e
    rw [e]
    split
    · exact Or.inl ⟨none, rfl⟩
    · split
      · exact Or.inr (Or.inl ⟨none, rfl⟩)
      · split
        · exact Or.inr (Or.inl ⟨none, rfl⟩)
        · split
          · exact Or.inr (Or.inl ⟨_, rfl⟩)
          · exact Or.inr (Or.inr ⟨_, rfl⟩)
  by_cases hlt : ci < d.change_count
  · cases hc : d.change_list[ci.toNat]? with
    | none =>
      refine ⟨ty, cnt, th, ci, Or.inr ⟨Or.inr (Or.inl rfl), rfl, rfl⟩, tail th ci ?_⟩
      simp only [PesDecoder.block_loop, if_neg hoff, h1, h2, h3, if_pos hlt, hc, if_false,
        Bool.false_eq_true]
    | some c =>
      by_cases hbc : bi = c.block_index
      · refine ⟨ty, cnt, _, ci + 1, Or.inl ⟨hlt, c, rfl, hbc, rfl, rfl⟩, tail _ _ ?_⟩
        have hdec : decide (bi = c.block_index) = true := decide_eq_true hbc
        simp only [PesDecoder.block_loop, if_neg hoff, h1, h2, h3, if_pos hlt, hc, if_pos hbc,
          hdec, if_true]
      · refine ⟨ty, cnt, th, ci, Or.inr ⟨Or.inr (Or.inr ⟨c, rfl, hbc⟩), rfl, rfl⟩,
          tail th ci ?_⟩
        simp only [PesDecoder.block_loop, if_neg hoff, h1, h2, h3, if_pos hlt, hc, if_neg hbc,
          hbc, decide_False, if_false, Bool.false_eq_true]
  · refine ⟨ty, cnt, th, ci, Or.inr ⟨Or.inl hlt, rfl, rfl⟩, tail th ci ?_⟩
    simp only [PesDecoder.block_loop, if_neg hoff, h1, h2, h3, if_neg hlt, if_false,
      Bool.false_eq_true]

theorem filter_eq_take {α : Type} (l : List α) (p : α → Bool) (ci : Nat)
    (h1 : ∀ j c, l[j]? = some c → j < ci → p c = true)
    (h2 : ∀ j c, l[j]? = some c → ci ≤ j → p c = false) :
    l.filter p = l.take ci := by
  conv_lhs => rw [← List.take_append_drop ci l]
  rw [List.filter_append]
  have a : (l.take ci).filter p = l.take ci := by
    rw [List.filter_eq_self]
    intro c hc
    obtain ⟨j, hj⟩ := List.mem_iff_getElem?.1 hc
    rw [List.getElem?_take] at hj
    by_cases hlt : j < ci
    · rw [if_pos hlt] at hj; exact h1 j c hj hlt
    · rw [if_neg hlt] at hj; exact absurd hj (by simp)
  have b : (l.drop ci).filter p = [] := by
    rw [List.filter_eq_nil_iff]
    intro c hc
    obtain ⟨j, hj⟩ := List.mem_iff_getElem?.1 hc
    rw [List.getElem?_drop] at hj
    rw [h2 (ci + j) c hj (by omega)]
    simp
  rw [a, b, List.append_nil]

theorem block_threads_append {F : Type} (a b : List (PesDecoder.pes_event F)) :
    block_threads (a ++ b) = block_threads a ++ block_threads b := by
  unfold block_threads
  rw [List.filterMap_append]

theorem block_stitches_threads {F : Type} (ops : FloatOps F) (d : PesDecoder.pes_decoder)
    (scb : Option (PesDecoder.pes_stitch_callback F (List (PesDecoder.pes_event F))))
    (hs : ∀ cb, scb = some cb → ∀ log i x y, block_threads (cb log i x y).1 = block_threads log) :
    ∀ (n : Nat) (i off : Int) (log : List (PesDecoder.pes_event F)),
      block_threads (PesDecoder.block_stitches ops d scb n i off log).1 = block_threads log := by
  intro n
  induction n with
  | zero => intro i off log; rfl
  | succ n ih =>
    intro i off log
    unfold PesDecoder.block_stitches
    split
    · rfl
    · split
      · rfl
      · split
        · exact ih _ _ _
        · rename_i cb
          simp only []
          split
          · exact hs cb rfl _ _ _ _
          · rw [ih]
            exact hs cb rfl _ _ _ _

theorem getLast_take_succ {α : Type} (l : List α) (ci : Nat) (c : α) (h : l[ci]? = some c) :
    (l.take (ci + 1)).getLast? = some c := by
  rw [List.take_succ, h]
  simp

/-- The invariant of the block loop under the recording block callback: the threads
logged so far are the resolved threads of their blocks, the change cursor separates the
entries before the current block from the others, and the running thread is the
resolved thread of the previous block. -/
theorem block_loop_threads {F : Type} (ops : FloatOps F) (d : PesDecoder.pes_decoder)
    (hcc : d.change_count = d.change_list.length)
    (hinc : d.change_list.Pairwise (fun a b => a.block_index < b.block_index))
    (scb : Option (PesDecoder.pes_stitch_callback F (List (PesDecoder.pes_event F))))
    (hs : ∀ cb, scb = some cb → ∀ log i x y, block_threads (cb log i x y).1 = block_threads log) :
    ∀ (fuel bi : Nat) (off : Int) (ci : Nat) (thread : pec_thread)
      (log : List (PesDecoder.pes_event F)),
      (block_threads log).length = bi →
      (∀ (k : Nat) th, (block_threads log)[k]? = some th → th = resolve_thread d k) →
      (∀ j c, d.change_list[j]? = some c → j < ci → c.block_index < (bi : Int)) →
      (∀ j c, d.change_list[j]? = some c → ci ≤ j → (bi : Int) ≤ c.block_index) →
      thread = resolve_thread d ((bi : Int) - 1) →
      ∀ (k : Nat) th, (block_threads (PesDecoder.block_loop ops d (some PesDecoder.record_block) scb
        fuel bi off ci thread log).1)[k]? = some th → th = resolve_thread d k := by
  intro fuel
  induction fuel with
  | zero => intro bi off ci thread log _ h2 _ _ _; exact h2
  | succ fuel ih =>
    intro bi off ci thread log h1 h2 h3 h4 h5
    have hprev : d.change_list.filter (fun c => decide (c.block_index ≤ (bi : Int) - 1)) =
        d.change_list.take ci :=
      filter_eq_take _ _ ci
        (fun j c hj hlt => decide_eq_true (by have := h3 j c hj hlt; omega))
        (fun j c hj hle => decide_eq_false (by have := h4 j c hj hle; omega))
    rcases block_loop_cases ops d PesDecoder.record_block scb fuel bi off ci thread log with
      ⟨x, hx⟩ | ⟨ty, cnt, th1, ci1, hres, hout⟩
    · rw [hx]; exact h2
    · -- the thread passed to the callback is the resolved thread of block bi
      have hth : th1 = resolve_thread d bi ∧
          (∃ ci2 : Nat, ci1 = (ci2 : Int) ∧
            (∀ j c, d.change_list[j]? = some c → j < ci2 → c.block_index < ((bi + 1 : Nat) : Int)) ∧
            (∀ j c, d.change_list[j]? = some c → ci2 ≤ j →
              ((bi + 1 : Nat) : Int) ≤ c.block_index)) := by
        rcases hres with ⟨-, c, hc, hbc, ht, hci⟩ | ⟨hno, ht, hci⟩
        · simp only [Int.toNat_ofNat] at hc
          have hgt : ∀ j c1, d.change_list[j]? = some c1 → ci + 1 ≤ j →
              (bi : Int) < c1.block_index := by
            intro j c1 hj hle
            have hlen : j < d.change_list.length := by
              by_contra hge
              rw [List.getElem?_eq_none (by omega)] at hj
              exact absurd hj (by simp)
            have hci : ci < d.change_list.length := by omega
            have e1 : d.change_list[ci] = c := by
              rw [List.getElem?_eq_getElem hci] at hc
              exact Option.some.inj hc
            have e2 : d.change_list[j] = c1 := by
              rw [List.getElem?_eq_getElem hlen] at hj
              exact Option.some.inj hj
            have := List.pairwise_iff_getElem.1 hinc ci j hci hlen (by omega)
            rw [e1, e2] at this
            omega
          have hcur : d.change_list.filter (fun c => decide (c.block_index ≤ (bi : Int))) =
              d.change_list.take (ci + 1) :=
            filter_eq_take _ _ (ci + 1)
              (fun j c1 hj hlt => decide_eq_true (by
                by_cases hj2 : j < ci
                · have := h3 j c1 hj hj2; omega
                · have : j = ci := by omega
                  subst this
                  rw [hc] at hj
                  have := Option.some.inj hj
                  subst this
                  omega))
              (fun j c1 hj hle => decide_eq_false (by have := hgt j c1 hj hle; omega))
          refine ⟨?_, ci + 1, by rw [hci]; push_cast; rfl, ?_, ?_⟩
          · unfold resolve_thread
            rw [hcur, getLast_take_succ _ _ _ hc, ht]
          · intro j c1 hj hlt
            by_cases hj2 : j < ci
            · have := h3 j c1 hj hj2; push_cast; omega
            · have : j = ci := by omega
              subst this
              rw [hc] at hj
              have := Option.some.inj hj
              subst this
              push_cast; omega
          · intro j c1 hj hle
            have := hgt j c1 hj hle
            push_cast; omega
        · have hgt : ∀ j c1, d.change_list[j]? = some c1 → ci ≤ j →
              (bi : Int) < c1.block_index := by
            intro j c1 hj hle
            have hlen : j < d.change_list.length := by
              by_contra hge
              rw [List.getElem?_eq_none (by omega)] at hj
              exact absurd hj (by simp)
            have hci : ci < d.change_list.length := by omega
            rcases hno with hno | hno | ⟨c, hc, hbc⟩
            · rw [hcc] at hno
              exact absurd (by exact_mod_cast hci) hno
            · simp only [Int.toNat_ofNat] at hno
              rw [List.getElem?_eq_getElem hci] at hno
              exact absurd hno (by simp)
            · simp only [Int.toNat_ofNat] at hc
              have hge := h4 ci c hc (le_refl _)
              by_cases hj2 : j = ci
              · subst hj2
                rw [hc] at hj
                have := Option.some.inj hj
                subst this
                omega
              · have e1 : d.change_list[ci] = c := by
                  rw [List.getElem?_eq_getElem hci] at hc
                  exact Option.some.inj hc
                have e2 : d.change_list[j] = c1 := by
                  rw [List.getElem?_eq_getElem hlen] at hj
                  exact Option.some.inj hj
                have := List.pairwise_iff_getElem.1 hinc ci j hci hlen (by omega)
                rw [e1, e2] at this
                omega
          have hcur : d.change_list.filter (fun c => decide (c.block_index ≤ (bi : Int))) =
              d.change_list.take ci :=
            filter_eq_take _ _ ci
              (fun j c1 hj hlt => decide_eq_true (by have := h3 j c1 hj hlt; omega))
              (fun j c1 hj hle => decide_eq_false (by have := hgt j c1 hj hle; omega))
          refine ⟨?_, ci, hci, ?_, ?_⟩
          · rw [ht, h5]
            unfold resolve_thread
            rw [hcur, hprev]
          · intro j c1 hj hlt
            have := h3 j c1 hj hlt; push_cast; omega
          · intro j c1 hj hle
            have := hgt j c1 hj hle
            push_cast; omega
      obtain ⟨hth1, ci2, hci2, h3n, h4n⟩ := hth
      have hlog1 : block_threads (PesDecoder.record_block log th1 cnt ty).1 =
          block_threads log ++ [th1] := by
        unfold PesDecoder.record_block
        simp only []
        rw [block_threads_append]
        rfl
      have good1 : ∀ (k : Nat) th, (block_threads log ++ [th1])[k]? = some th →
          th = resolve_thread d k := by
        intro k th hk
        by_cases hkl : k < (block_threads log).length
        · rw [List.getElem?_append_left hkl] at hk
          exact h2 k th hk
        · rw [List.getElem?_append_right (by omega)] at hk
          have hk0 : k - (block_threads log).length = 0 := by
            by_contra hne
            rw [List.getElem?_eq_none (by simp; omega)] at hk
            exact absurd hk (by simp)
          rw [hk0] at hk
          simp only [List.getElem?_cons_zero, Option.some.injEq] at hk
          have : k = bi := by omega
          rw [← hk, this]
          exact hth1
      rcases hout with ⟨x, hx⟩ | ⟨x, hx⟩ | ⟨off1, hx⟩
      · rw [hx, hlog1]; exact good1
      · rw [hx, block_stitches_threads ops d scb hs, hlog1]; exact good1
      · rw [hx, hci2]
        have e : ((bi : Int) + 1) = ((bi + 1 : Nat) : Int) := by push_cast; rfl
        rw [e]
        refine ih (bi + 1) off1 ci2 th1 _ ?_ ?_ h3n h4n ?_
        · rw [block_stitches_threads ops d scb hs, hlog1]
          simp [h1]
        · rw [block_stitches_threads ops d scb hs, hlog1]; exact good1
        · rw [hth1]; congr 1; push_cast; omega

/-! ## The change table of a constructed decoder -/

theorem pes_decode_u16lsb_nonneg (d : PesDecoder.pes_decoder) (o v : Int)
    (h : PesDecoder.decode_u16lsb d o = some v) : 0 ≤ v := by
  unfold PesDecoder.decode_u16lsb at h
  split_ifs at h
  simp only [Option.some.injEq] at h
  rw [← h]
  exact Int.ofNat_nonneg _

theorem block_stitches_null_arg {F σ : Type} (ops : FloatOps F) (d : PesDecoder.pes_decoder) :
    ∀ (n : Nat) (i off : Int) (arg : σ),
      (PesDecoder.block_stitches ops d (none : Option (PesDecoder.pes_stitch_callback F σ))
        n i off arg).1 = arg := by
  intro n
  induction n with
  | zero => intro i off arg; rfl
  | succ n ih =>
    intro i off arg
    unfold PesDecoder.block_stitches
    split
    · rfl
    · split
      · rfl
      · exact ih _ _ _

theorem block_loop_null_arg {F σ : Type} (ops : FloatOps F) (d : PesDecoder.pes_decoder) :
    ∀ (fuel : Nat) (bi off ci : Int) (th : pec_thread) (arg : σ),
      (PesDecoder.block_loop ops d none (none : Option (PesDecoder.pes_stitch_callback F σ))
        fuel bi off ci th arg).1 = arg := by
  intro fuel
  induction fuel with
  | zero => intro bi off ci th arg; rfl
  | succ fuel ih =>
    intro bi off ci th arg
    simp only [PesDecoder.block_loop]
    split
    · rfl
    · split
      · rfl
      · split
        · rfl
        · split
          · rfl
          · simp only [Bool.true_eq_false, if_false]
            split
            · exact block_stitches_null_arg ops d _ _ _ _
            · split
              · exact block_stitches_null_arg ops d _ _ _ _
              · split
                · exact block_stitches_null_arg ops d _ _ _ _
                · rw [ih]
                  exact block_stitches_null_arg ops d _ _ _ _

theorem thread_foreach_loop_inv {σ : Type} (d : PesDecoder.pes_decoder)
    (cb : PesDecoder.pes_thread_callback σ) (Inv : σ → Prop)
    (hcb : ∀ s i b t, 0 ≤ b → Inv s → Inv (cb s i b t).1) :
    ∀ (n : Nat) (i off : Int) (arg : σ), Inv arg →
      Inv (PesDecoder.thread_foreach_loop d cb n i off arg).1 := by
  intro n
  induction n with
  | zero => intro i off arg h; exact h
  | succ n ih =>
    intro i off arg h
    unfold PesDecoder.thread_foreach_loop
    split
    · exact h
    · rename_i b hb
      split
      · exact h
      · simp only []
        split
        · exact hcb _ _ _ _ (pes_decode_u16lsb_nonneg _ _ _ hb) h
        · exact ih _ _ _ (hcb _ _ _ _ (pes_decode_u16lsb_nonneg _ _ _ hb) h)

theorem stitch_foreach_inv {F σ : Type} (ops : FloatOps F) (d : PesDecoder.pes_decoder)
    (cb : PesDecoder.pes_thread_callback σ) (Inv : σ → Prop)
    (hcb : ∀ s i b t, 0 ≤ b → Inv s → Inv (cb s i b t).1) (arg : σ) (h : Inv arg) :
    Inv (PesDecoder.stitch_foreach ops d none
      (none : Option (PesDecoder.pes_stitch_callback F σ)) (some cb) arg).1 := by
  unfold PesDecoder.stitch_foreach
  simp only []
  rw [block_loop_null_arg]
  split
  · exact h
  · unfold PesDecoder.thread_foreach
    split
    · exact h
    · simp only []
      split
      · exact thread_foreach_loop_inv d cb Inv hcb _ _ _ _ h
      · exact thread_foreach_loop_inv d cb Inv hcb _ _ _ _ h

theorem change_thread_cb_inv (n : Nat) (cc : Int) (s : PesDecoder.pes_decoder)
    (i b t : Int) (hb : 0 ≤ b)
    (h : s.change_count = cc ∧ s.change_list.length = n ∧
      ∀ c ∈ s.change_list, 0 ≤ c.block_index) :
    (PesDecoder.change_thread_cb s i b t).1.change_count = cc ∧
    (PesDecoder.change_thread_cb s i b t).1.change_list.length = n ∧
    ∀ c ∈ (PesDecoder.change_thread_cb s i b t).1.change_list, 0 ≤ c.block_index := by
  unfold PesDecoder.change_thread_cb
  simp only [List.length_set]
  refine ⟨h.1, h.2.1, fun c hc => ?_⟩
  rcases List.mem_or_eq_of_mem_set hc with hm | he
  · exact h.2.2 c hm
  · rw [he]; exact hb

theorem palette_thread_cb_inv (n : Nat) (cc : Int) (s : PesDecoder.pes_decoder)
    (i b t : Int) (hb : 0 ≤ b)
    (h : s.change_count = cc ∧ s.change_list.length = n ∧
      ∀ c ∈ s.change_list, 0 ≤ c.block_index) :
    (PesDecoder.palette_thread_cb s i b t).1.change_count = cc ∧
    (PesDecoder.palette_thread_cb s i b t).1.change_list.length = n ∧
    ∀ c ∈ (PesDecoder.palette_thread_cb s i b t).1.change_list, 0 ≤ c.block_index := by
  unfold PesDecoder.palette_thread_cb
  exact change_thread_cb_inv n cc _ i b i hb h

theorem palette_pass_inv {F : Type} (ops : FloatOps F) (dd start : PesDecoder.pes_decoder)
    (hcnt : 0 ≤ start.change_count)
    (hlen : start.change_list.length = start.change_count.toNat)
    (hnn : ∀ c ∈ start.change_list, 0 ≤ c.block_index) :
    (PesDecoder.stitch_foreach ops dd none (none : Option (PesDecoder.pes_stitch_callback F
        PesDecoder.pes_decoder)) (some PesDecoder.palette_thread_cb) start).1.change_count =
      (PesDecoder.stitch_foreach ops dd none (none : Option (PesDecoder.pes_stitch_callback F
        PesDecoder.pes_decoder)) (some PesDecoder.palette_thread_cb) start).1.change_list.length ∧
    ∀ c ∈ (PesDecoder.stitch_foreach ops dd none (none : Option (PesDecoder.pes_stitch_callback F
        PesDecoder.pes_decoder)) (some PesDecoder.palette_thread_cb) start).1.change_list,
      0 ≤ c.block_index := by
  have key := stitch_foreach_inv (F := F) ops dd PesDecoder.palette_thread_cb
    (fun s => s.change_count = start.change_count ∧
      s.change_list.length = start.change_count.toNat ∧
      ∀ c ∈ s.change_list, 0 ≤ c.block_index)
    (fun s i b t hb hs => palette_thread_cb_inv _ _ s i b t hb hs) start ⟨rfl, hlen, hnn⟩
  refine ⟨?_, key.2.2⟩
  rw [key.1, key.2.1]
  exact (Int.toNat_of_nonneg hcnt).symm

theorem change_pass_inv {F : Type} (ops : FloatOps F) (dd start : PesDecoder.pes_decoder)
    (n : Nat) (hlen : start.change_list.length = n)
    (hnn : ∀ c ∈ start.change_list, 0 ≤ c.block_index) :
    (PesDecoder.stitch_foreach ops dd none (none : Option (PesDecoder.pes_stitch_callback F
        PesDecoder.pes_decoder)) (some PesDecoder.change_thread_cb) start).1.change_list.length
      = n ∧
    ∀ c ∈ (PesDecoder.stitch_foreach ops dd none (none : Option (PesDecoder.pes_stitch_callback F
        PesDecoder.pes_decoder)) (some PesDecoder.change_thread_cb) start).1.change_list,
      0 ≤ c.block_index := by
  have key := stitch_foreach_inv (F := F) ops dd PesDecoder.change_thread_cb
    (fun s => s.change_count = start.change_count ∧ s.change_list.length = n ∧
      ∀ c ∈ s.change_list, 0 ≤ c.block_index)
    (fun s i b t hb hs => change_thread_cb_inv _ _ s i b t hb hs) start ⟨rfl, hlen, hnn⟩
  exact key.2

/-- The change table of a decoder that pes_decoder_init returns: change_count is the
length of the table and no block index is negative. -/
theorem pes_decoder_init_changes {F : Type} (ops : FloatOps F) (cz : Bool) (data : List Byte)
    (d : PesDecoder.pes_decoder) (h : PesDecoder.pes_decoder_init ops cz data = .decoder d) :
    d.change_count = d.change_list.length ∧ ∀ c ∈ d.change_list, 0 ≤ c.block_index := by
  have count : ∀ d4 : PesDecoder.pes_decoder,
      0 ≤ (PesDecoder.stitch_foreach ops d4 none
        (none : Option (PesDecoder.pes_stitch_callback F Int))
        (some PesDecoder.change_count_cb) 0).1 := fun d4 =>
    stitch_foreach_inv ops d4 PesDecoder.change_count_cb (fun c => 0 ≤ c)
      (fun s _ _ _ _ hs => by unfold PesDecoder.change_count_cb; simp only []; omega)
      0 (le_refl _)
  have palette : ∀ d4 d5 : PesDecoder.pes_decoder,
      PesDecoder.init_palette ops cz d4 = some d5 →
      d5.change_count = d5.change_list.length ∧ ∀ c ∈ d5.change_list, 0 ≤ c.block_index := by
    intro d4 d5 h5
    unfold PesDecoder.init_palette at h5
    simp only [] at h5
    split at h5
    · exact absurd h5 (by simp)
    · split at h5
      · exact absurd h5 (by simp)
      · split at h5
        · exact absurd h5 (by simp)
        · simp only [Option.some.injEq] at h5
          rw [← h5]
          exact palette_pass_inv ops _ _ (count d4) (List.length_replicate _ _)
            (fun c hc => by rw [(List.mem_replicate.1 hc).2])
  have change : ∀ d4 d5 : PesDecoder.pes_decoder,
      PesDecoder.init_change ops cz d4 = some d5 →
      d5.change_count = d5.change_list.length ∧ ∀ c ∈ d5.change_list, 0 ≤ c.block_index := by
    intro d4 d5 h5
    unfold PesDecoder.init_change at h5
    simp only [] at h5
    split at h5
    · exact absurd h5 (by simp)
    · split at h5
      · exact absurd h5 (by simp)
      · split at h5
        · exact absurd h5 (by simp)
        · simp only [Option.some.injEq] at h5
          rw [← h5]
          have key := change_pass_inv (F := F) ops
            { d4 with change_list := List.replicate (PesDecoder.stitch_foreach ops d4 none
                (none : Option (PesDecoder.pes_stitch_callback F Int))
                (some PesDecoder.change_count_cb) 0).1.toNat ⟨0, 0⟩ }
            { d4 with change_list := List.replicate (PesDecoder.stitch_foreach ops d4 none
                (none : Option (PesDecoder.pes_stitch_callback F Int))
                (some PesDecoder.change_count_cb) 0).1.toNat ⟨0, 0⟩ }
            _ (List.length_replicate _ _)
            (fun c hc => by rw [(List.mem_replicate.1 hc).2])
          refine ⟨?_, key.2⟩
          simp only [key.1]
          exact (Int.toNat_of_nonneg (count d4)).symm
  unfold PesDecoder.pes_decoder_init at h
  split at h
  · exact absurd h (by simp)
  · simp only [] at h
    split at h
    · exact absurd h (by simp)
    · split at h
      · exact absurd h (by simp)
      · split at h
        · exact absurd h (by simp)
        · split at h
          · exact absurd h (by simp)
          · split at h
            · exact absurd h (by simp)
            · split at h
              · exact absurd h (by simp)
              · split at h
                · exact absurd h (by simp)
                · split at h
                  · split at h
                    · exact absurd h (by simp)
                    · rename_i d5 h5
                      simp only [PesDecoder.init_result.decoder.injEq] at h
                      rw [← h]
                      exact palette _ _ h5
                  · split at h
                    · exact absurd h (by simp)
                    · rename_i d5 h5
                      simp only [PesDecoder.init_result.decoder.injEq] at h
                      rw [← h]
                      exact change _ _ h5

theorem resolve_thread_entry (d : PesDecoder.pes_decoder)
    (hinc : d.change_list.Pairwise (fun a b => a.block_index < b.block_index))
    (c : PesDecoder.pes_change) (hc : c ∈ d.change_list) :
    resolve_thread d c.block_index =
      (d.thread_list.getD []).getD c.thread_index.toNat pec_undefined_thread := by
  obtain ⟨j, hj, hjc⟩ := List.mem_iff_getElem.1 hc
  have hget : d.change_list[j]? = some c := by rw [List.getElem?_eq_getElem hj, hjc]
  have hcmp : ∀ i c1, d.change_list[i]? = some c1 →
      (i < j → c1.block_index < c.block_index) ∧ (j < i → c.block_index < c1.block_index) := by
    intro i c1 hi
    have hlen : i < d.change_list.length := by
      by_contra hge
      rw [List.getElem?_eq_none (by omega)] at hi
      exact absurd hi (by simp)
    have e2 : d.change_list[i] = c1 := by
      rw [List.getElem?_eq_getElem hlen] at hi
      exact Option.some.inj hi
    refine ⟨fun hlt => ?_, fun hlt => ?_⟩
    · have := List.pairwise_iff_getElem.1 hinc i j hlen hj hlt
      rw [e2, hjc] at this
      exact this
    · have := List.pairwise_iff_getElem.1 hinc j i hj hlen hlt
      rw [e2, hjc] at this
      exact this
  have hcur : d.change_list.filter (fun c1 => decide (c1.block_index ≤ c.block_index)) =
      d.change_list.take (j + 1) :=
    filter_eq_take _ _ (j + 1)
      (fun i c1 hi hlt => decide_eq_true (by
        by_cases hij : i < j
        · exact le_of_lt ((hcmp i c1 hi).1 hij)
        · have : i = j := by omega
          subst this
          rw [hget] at hi
          rw [Option.some.inj hi]))
      (fun i c1 hi hle => decide_eq_false (by
        have := (hcmp i c1 hi).2 (by omega)
        omega))
  unfold resolve_thread
  rw [hcur, getLast_take_succ _ _ _ hget]

/-- C19. Thread resolution during iteration: for every decoder that pes_decoder_init
returns and whose change table has strictly increasing block indices, pes_stitch_foreach
passes to the block callback of block k (counted from 0, observed with the recording
block callback, whatever stitch callback leaves the recorded blocks alone) the thread
referenced by the last change entry whose block_index is at most k, and the undefined
thread when there is no such entry; in particular the block at which a change entry
applies already receives the thread of that entry. -/
theorem thread_resolution {F : Type} (ops : FloatOps F) (calloc_zero : Bool)
    (data : List Byte) (d : PesDecoder.pes_decoder)
    (hinit : PesDecoder.pes_decoder_init ops calloc_zero data = .decoder d)
    (hinc : d.change_list.Pairwise (fun a b => a.block_index < b.block_index))
    (stitch_cb : Option (PesDecoder.pes_stitch_callback F (List (PesDecoder.pes_event F))))
    (hs : ∀ cb, stitch_cb = some cb →
      ∀ log i x y, block_threads (cb log i x y).1 = block_threads log) :
    (∀ (k : Nat) (thread : pec_thread),
      (block_threads (PesDecoder.pes_stitch_foreach ops d (some PesDecoder.record_block)
        stitch_cb []).1)[k]? = some thread → thread = resolve_thread d k) ∧
    (∀ c ∈ d.change_list, ∀ thread : pec_thread,
      (block_threads (PesDecoder.pes_stitch_foreach ops d (some PesDecoder.record_block)
        stitch_cb []).1)[c.block_index.toNat]? = some thread →
      thread = (d.thread_list.getD []).getD c.thread_index.toNat pec_undefined_thread) := by
  obtain ⟨hcc, hnn⟩ := pes_decoder_init_changes ops calloc_zero data d hinit
  have main : ∀ (k : Nat) (thread : pec_thread),
      (block_threads (PesDecoder.pes_stitch_foreach ops d (some PesDecoder.record_block)
        stitch_cb []).1)[k]? = some thread → thread = resolve_thread d k := by
    have key := block_loop_threads ops d hcc hinc stitch_cb hs (d.data.length + 1) 0
      (d.csewseg_offset + 9) 0 pec_undefined_thread [] rfl
      (fun k th hk => absurd hk (by simp [block_threads]))
      (fun j c _ hlt => absurd hlt (by omega))
      (fun j c hj _ => hnn c (List.mem_iff_getElem?.2 ⟨j, hj⟩))
      (by
        unfold resolve_thread
        have e : d.change_list.filter (fun c => decide (c.block_index ≤ ((0 : Nat) : Int) - 1)) =
            [] := by
          rw [List.filter_eq_nil_iff]
          intro c hc
          have := hnn c hc
          simp only [decide_eq_true_eq]
          push_cast
          omega
        rw [e]
        rfl)
    intro k thread hk
    apply key k thread
    unfold PesDecoder.pes_stitch_foreach PesDecoder.stitch_foreach at hk
    simp only [] at hk
    split at hk
    · exact hk
    · exact hk
  refine ⟨main, fun c hc thread hk => ?_⟩
  have := main _ thread hk
  rw [Int.toNat_of_nonneg (hnn c hc), resolve_thread_entry d hinc c hc] at this
  exact this

theorem thread_resolution_witness :
    ∃ (out : List Byte) (d : PesDecoder.pes_decoder),
      PesEncoder.pes_encode1 gridOps sample_pes_encoder = some out ∧
      PesDecoder.pes_decoder_init gridOps true out = .decoder d ∧
      d.change_list = [⟨0, 0⟩, ⟨1, 1⟩] ∧
      (block_threads (PesDecoder.pes_stitch_foreach gridOps d (some PesDecoder.record_block)
        (some PesDecoder.record_pes_stitch) []).1).length = 3 ∧
      ∀ (k : Nat) (thread : pec_thread),
        (block_threads (PesDecoder.pes_stitch_foreach gridOps d (some PesDecoder.record_block)
          (some PesDecoder.record_pes_stitch) []).1)[k]? = some thread →
        thread = resolve_thread d k := by
  obtain ⟨out, h⟩ := Option.isSome_iff_exists.1 sample_pes_encodes
  obtain ⟨sections, pec, sl, pre, post, n0, n1, -, -, -, -, -, -, -, -, hinit, -⟩ :=
    pes_decoder_init_encoded gridOps true sample_pes_encoder sample_pes_reachable
      sample_pes_jump_on_change (by rw [sample_pes_stitches]; exact List.cons_ne_nil _ _) out h
  obtain ⟨d, h1, -, -, -, -, -, -, -, h9⟩ :=
    pes_decode_encoded gridOps true sample_pes_encoder sample_pes_reachable
      (by rw [sample_pes_stitches]; exact List.cons_ne_nil _ _) sample_pes_jump_on_change out h
  have hd := h1.symm.trans hinit
  simp only [PesDecoder.init_result.decoder.injEq] at hd
  have hcl : d.change_list = [⟨0, 0⟩, ⟨1, 1⟩] := by
    rw [hd]
    show List.map Prod.fst (changes_of sample_pes_encoder.thread_list
      sample_pes_encoder.stitch_list) = [⟨0, 0⟩, ⟨1, 1⟩]
    decide
  refine ⟨out, d, h, h1, hcl, ?_, ?_⟩
  · unfold PesDecoder.pes_stitch_foreach
    rw [h9 (some PesDecoder.record_block) (some PesDecoder.record_pes_stitch)
      (fun _ _ _ _ => rfl) (fun _ _ _ _ => rfl) []]
    decide
  · exact (thread_resolution gridOps true out d h1
      (by rw [hcl]; simp)
      (some PesDecoder.record_pes_stitch)
      (fun cb hcb log i x y => by
        simp only [Option.some.injEq] at hcb
        rw [← hcb]
        unfold PesDecoder.record_pes_stitch
        simp only []
        rw [block_threads_append]
        simp [block_threads])).1

/-! ## Chunk writers -/

theorem feed_false {σ : Type} (cb : encode_callback σ) (chunks : List (List Byte)) :
    ∀ s, (feed cb chunks false s).2 = false := by
  induction chunks with
  | nil => intro s; rfl
  | cons c rest ih =>
    intro s
    simp only [feed, and_then]
    split_ifs
    · exact ih _
    · rfl

theorem and_then_eq_of_false {σ : Type} (a b : encode_step σ) (h : ∀ s, (a s).2 = false) :
    ∀ s, and_then a b s = a s := by
  intro s
  unfold and_then
  rw [if_neg (by rw [h s]; simp)]
  exact Prod.ext rfl (h s).symm

theorem feed_append {σ : Type} (cb : encode_callback σ) (c1 c2 : List (List Byte)) (ok : Bool) :
    ∀ s, feed cb (c1 ++ c2) ok s = and_then (feed cb c1 true) (feed cb c2 ok) s := by
  induction c1 with
  | nil => intro s; simp [feed, and_then, test]
  | cons c rest ih =>
    intro s
    simp only [List.cons_append, feed, and_then, write]
    by_cases h : (cb s c).2 = true
    · simp only [h, if_true]
      exact ih _
    · simp only [h, if_false]
      simp

theorem models_test (c : Bool) : models (fun _ _ => test c) (if c = true then some [] else none) :=
  ⟨[], c, fun _ _ _ => rfl, by simp, by simp⟩

theorem models_write (data : List Byte) (h : data.length ≤ 0xFFFF) :
    models (fun _ cb => write cb data) (some data) :=
  ⟨[data], true, fun _ e s => by
      simp only [feed, and_then, test, write]
      by_cases c : (e s data).2 = true
      · rw [if_pos c]; exact Prod.ext rfl c
      · rw [if_neg c]; exact Prod.ext rfl (by simpa using c),
    by simp, by simpa using h⟩

theorem models_and_then (wa wb : (σ : Type) → encode_callback σ → encode_step σ)
    (oa ob : Option (List Byte)) (ha : models wa oa) (hb : models wb ob) :
    models (fun σ cb => and_then (wa σ cb) (wb σ cb)) (both oa ob) := by
  obtain ⟨ca, oka, ha1, ha2, ha3⟩ := ha
  obtain ⟨cb, okb, hb1, hb2, hb3⟩ := hb
  cases oka with
  | false =>
    refine ⟨ca, false, fun σ e s => ?_, ?_, ha3⟩
    · have : ∀ s, (wa σ e s).2 = false := fun s => by rw [ha1]; exact feed_false e ca s
      show and_then (wa σ e) (wb σ e) s = feed e ca false s
      rw [and_then_eq_of_false _ _ this, ha1]
    · rw [ha2]; rfl
  | true =>
    refine ⟨ca ++ cb, okb, fun σ e s => ?_, ?_, ?_⟩
    · show and_then (wa σ e) (wb σ e) s = feed e (ca ++ cb) okb s
      rw [feed_append]
      unfold and_then
      simp only [ha1, hb1]
    · rw [ha2, hb2]
      cases okb <;> simp [both]
    · intro c hc
      rcases List.mem_append.1 hc with h | h
      · exact ha3 c h
      · exact hb3 c h

theorem models_guard (c : Bool) (w : (σ : Type) → encode_callback σ → encode_step σ)
    (o : Option (List Byte)) (h : models w o) :
    models (fun σ cb => and_then (test c) (w σ cb)) (if c = true then o else none) := by
  have := models_and_then _ _ _ _ (models_test c) h
  cases c
  · simpa [both] using this
  · cases o <;> simpa [both] using this

theorem models_fail : models (fun _ _ => test false) none := models_test false

theorem models_done : models (fun _ _ => test true) (some []) := models_test true

theorem models_guard_prop (p : Prop) [Decidable p]
    (w : (σ : Type) → encode_callback σ → encode_step σ)
    (o : Option (List Byte)) (h : models w o) :
    models (fun σ cb => and_then (test (decide p)) (w σ cb)) (if p then o else none) := by
  have := models_guard (decide p) w o h
  by_cases hp : p
  · simpa [hp] using this
  · simpa [hp] using this

theorem models_ite (p : Prop) [Decidable p]
    (w1 w2 : (σ : Type) → encode_callback σ → encode_step σ) (o1 o2 : Option (List Byte))
    (h1 : models w1 o1) (h2 : models w2 o2) :
    models (fun σ cb => if p then w1 σ cb else w2 σ cb) (if p then o1 else o2) := by
  by_cases hp : p
  · simpa [hp] using h1
  · simpa [hp] using h2

/-! ## The PEC encoder as a chunk writer -/

theorem models_pec_u8 (value : Int) :
    models (fun _ cb => PecCallback.encode_u8 value cb) (PecEncoder.encode_u8 value) :=
  models_guard_prop _ _ _ (models_write _ (by simp))

theorem models_pec_u16lsb (value : Int) :
    models (fun _ cb => PecCallback.encode_u16lsb value cb) (PecEncoder.encode_u16lsb value) :=
  models_guard_prop _ _ _ (models_write _ (by simp))

theorem models_pec_palette (l : List Int) :
    models (fun _ cb => PecCallback.encode_palette l cb) (PecEncoder.encode_palette l) := by
  induction l with
  | nil => exact models_done
  | cons p rest ih => exact models_and_then _ _ _ _ (models_pec_u8 p) ih

theorem models_pec_padding_loop (n : Nat) :
    models (fun _ cb => PecCallback.encode_padding_loop n cb)
      (some (List.replicate n (byteOfInt 0x20))) := by
  induction n with
  | zero => exact models_done
  | succ n ih =>
    have := models_and_then _ _ _ _ (models_pec_u8 0x20) ih
    have e : both (PecEncoder.encode_u8 0x20) (some (List.replicate n (byteOfInt 0x20))) =
        some (List.replicate (n + 1) (byteOfInt 0x20)) := by
      simp [PecEncoder.encode_u8, both, List.replicate_succ]
    rw [e] at this
    exact this

theorem models_pec_padding (thread_count : Int) :
    models (fun _ cb => PecCallback.encode_padding thread_count cb)
      (PecEncoder.encode_padding thread_count) :=
  models_pec_padding_loop _

theorem models_pec_threads {F : Type} (encoder : PecEncoder.pec_encoder F) :
    models (fun _ cb => PecCallback.encode_threads encoder cb)
      (PecEncoder.encode_threads encoder) :=
  models_ite _ _ _ _ _ models_fail
    (models_and_then _ _ _ _ (models_write _ (by decide))
      (models_and_then _ _ _ _ (models_pec_u8 _)
        (models_and_then _ _ _ _ (models_pec_palette _) (models_pec_padding _))))

theorem models_pec_label :
    models (fun _ cb => PecCallback.encode_label cb) PecEncoder.encode_label :=
  models_and_then _ _ _ _ (models_write _ (by decide)) (models_pec_u16lsb _)

theorem models_pec_thumbnail_size :
    models (fun _ cb => PecCallback.encode_thumbnail_size cb) PecEncoder.encode_thumbnail_size :=
  models_and_then _ _ _ _ (models_pec_u8 _) (models_pec_u8 _)

theorem models_pec_size {F : Type} (ops : FloatOps F) (encoder : PecEncoder.pec_encoder F) :
    models (fun _ cb => PecCallback.encode_size ops encoder cb)
      (PecEncoder.encode_size ops encoder) :=
  models_and_then _ _ _ _ (models_pec_u16lsb _)
    (models_and_then _ _ _ _ (models_pec_u16lsb _)
      (models_and_then _ _ _ _ (models_pec_u16lsb _)
        (models_and_then _ _ _ _ (models_pec_u16lsb _)
          (models_and_then _ _ _ _ (models_pec_u16lsb _) (models_pec_u16lsb _)))))

theorem models_pec_stitch (type : pec_stitch_type) (d : Int) :
    models (fun _ cb => PecCallback.encode_stitch type d cb) (PecEncoder.encode_stitch type d) :=
  models_ite _ _ _ _ _ models_fail
    (models_ite _ _ _ _ _ (models_pec_u8 _)
      (models_and_then _ _ _ _ (models_pec_u8 _) (models_pec_u8 _)))

theorem models_pec_stitch_loop {F : Type} (ops : FloatOps F)
    (l : List (PecEncoder.pec_stitch F)) :
    ∀ x y stop : Int,
      models (fun _ cb => PecCallback.encode_stitch_loop ops l x y stop cb)
        (PecEncoder.encode_stitch_loop ops l x y stop) := by
  induction l with
  | nil => intro x y stop; exact models_done
  | cons s rest ih =>
    intro x y stop
    exact models_ite _ _ _ _ _
      (models_and_then _ _ _ _
        (models_and_then _ _ _ _ (models_pec_u16lsb _) (models_pec_u8 _)) (ih _ _ _))
      (models_and_then _ _ _ _
        (models_and_then _ _ _ _ (models_pec_stitch _ _) (models_pec_stitch _ _)) (ih _ _ _))

theorem models_pec_stitch_list {F : Type} (ops : FloatOps F)
    (encoder : PecEncoder.pec_encoder F) :
    models (fun _ cb => PecCallback.encode_stitch_list ops encoder cb)
      (PecEncoder.encode_stitch_list ops encoder) :=
  models_and_then _ _ _ _ (models_pec_stitch_loop ops _ _ _ _) (models_pec_u8 _)

/-! ## The counting callback -/

theorem wrap32_of_range (v : Int) (h0 : 0 ≤ v) (h1 : v ≤ 2147483647) : wrap32 v = v := by
  unfold wrap32; omega

theorem wrap32_of_over (v : Int) (h0 : 2147483647 < v) (h1 : v < 4294967296) :
    wrap32 v < 0 := by
  unfold wrap32; omega

/-- The run of a chunk sequence on encoded_size: the counter is raised by the total
length when the total stays within `int`, and the run fails when it does not. -/
theorem feed_encoded_size (chunks : List (List Byte)) (ok : Bool)
    (hc : ∀ c ∈ chunks, c.length ≤ 0xFFFF) :
    ∀ s : Int, 0 ≤ s → s ≤ 2147483647 →
      (s + chunks.flatten.length ≤ 2147483647 →
        feed encoded_size chunks ok s = (s + chunks.flatten.length, ok)) ∧
      (2147483647 < s + chunks.flatten.length → (feed encoded_size chunks ok s).2 = false) := by
  induction chunks with
  | nil =>
    intro s h0 h1
    refine ⟨fun _ => by simp [feed, test], fun h => ?_⟩
    simp at h
    omega
  | cons c rest ih =>
    intro s h0 h1
    have hlen := hc c (List.mem_cons_self _ _)
    have hrest : ∀ c1 ∈ rest, c1.length ≤ 0xFFFF := fun c1 h => hc c1 (List.mem_cons_of_mem _ h)
    have hfl : (c :: rest).flatten.length = c.length + rest.flatten.length := by simp
    by_cases hs : s + (c.length : Int) ≤ 2147483647
    · have hw : wrap32 (s + c.length) = s + c.length := wrap32_of_range _ (by omega) hs
      have hstep : feed encoded_size (c :: rest) ok s = feed encoded_size rest ok (s + c.length) := by
        simp only [feed, and_then, write, encoded_size, hw]
        rw [if_pos (by simp; omega)]
      obtain ⟨i1, i2⟩ := ih hrest (s + c.length) (by omega) hs
      rw [hstep, hfl]
      refine ⟨fun h => ?_, fun h => ?_⟩
      · rw [i1 (by push_cast at h ⊢; omega)]
        congr 1
        push_cast
        omega
      · exact i2 (by push_cast at h ⊢; omega)
    · have hw : wrap32 (s + c.length) < 0 := wrap32_of_over _ (by omega) (by omega)
      refine ⟨fun h => ?_, fun _ => ?_⟩
      · rw [hfl] at h
        push_cast at h
        omega
      · simp only [feed, and_then, write, encoded_size]
        rw [if_neg (by simp; omega)]

theorem feed_store_chunk (chunks : List (List Byte)) (ok : Bool) :
    ∀ s : List Byte, feed store_chunk chunks ok s = (s ++ chunks.flatten, ok) := by
  induction chunks with
  | nil => intro s; simp [feed, test]
  | cons c rest ih =>
    intro s
    simp only [feed, and_then, write, store_chunk, if_true]
    rw [ih]
    simp

/-- The size probe of an encoder that agrees with its output: the counter after the run
on encoded_size from `s0` is `s0` plus the length of the output when that is within
`int`, and the run fails when the output is a failure or too long. -/
theorem models_probe (w : (σ : Type) → encode_callback σ → encode_step σ)
    (o : Option (List Byte)) (h : models w o) (s0 : Int) (h0 : 0 ≤ s0)
    (h1 : s0 ≤ 2147483647) :
    (o = none → (w Int encoded_size s0).2 = false) ∧
    (∀ out, o = some out →
      (s0 + out.length ≤ 2147483647 → w Int encoded_size s0 = (s0 + out.length, true)) ∧
      (2147483647 < s0 + out.length → (w Int encoded_size s0).2 = false)) := by
  obtain ⟨chunks, ok, hw, ho, hc⟩ := h
  cases ok with
  | false =>
    refine ⟨fun _ => by rw [hw]; exact feed_false _ _ _, fun out hout => ?_⟩
    rw [ho] at hout
    exact absurd hout (by simp)
  | true =>
    refine ⟨fun hn => ?_, fun out hout => ?_⟩
    · rw [ho] at hn; exact absurd hn (by simp)
    · rw [ho] at hout
      simp only [if_true, Option.some.injEq] at hout
      rw [← hout, hw]
      exact feed_encoded_size chunks true hc s0 h0 h1

theorem models_store (w : (σ : Type) → encode_callback σ → encode_step σ)
    (o : Option (List Byte)) (h : models w o) (s0 : List Byte) :
    (o = none → (w (List Byte) store_chunk s0).2 = false) ∧
    (∀ out, o = some out → w (List Byte) store_chunk s0 = (s0 ++ out, true)) := by
  obtain ⟨chunks, ok, hw, ho, -⟩ := h
  cases ok with
  | false =>
    refine ⟨fun _ => by rw [hw]; exact feed_false _ _ _, fun out hout => ?_⟩
    rw [ho] at hout
    exact absurd hout (by simp)
  | true =>
    refine ⟨fun hn => ?_, fun out hout => ?_⟩
    · rw [ho] at hn; exact absurd hn (by simp)
    · rw [ho] at hout
      simp only [if_true, Option.some.injEq] at hout
      rw [← hout, hw, feed_store_chunk]

theorem models_none (w : (σ : Type) → encode_callback σ → encode_step σ)
    (h : models w none) (σ : Type) (cb : encode_callback σ) (s : σ) : (w σ cb s).2 = false := by
  obtain ⟨chunks, ok, hw, ho, -⟩ := h
  cases ok with
  | false => rw [hw]; exact feed_false _ _ _
  | true => exact absurd ho (by simp)

theorem models_pec_thumbnail_offset {F : Type} (ops : FloatOps F)
    (encoder : PecEncoder.pec_encoder F) :
    models (fun _ cb => PecCallback.encode_thumbnail_offset ops encoder cb)
      (PecEncoder.encode_thumbnail_offset ops encoder) := by
  obtain ⟨hnone, hsome⟩ := models_probe _ _ (models_pec_stitch_list ops encoder) 20
    (by norm_num) (by norm_num)
  unfold PecCallback.encode_thumbnail_offset PecEncoder.encode_thumbnail_offset
  cases hst : PecEncoder.encode_stitch_list ops encoder with
  | none =>
    have := hnone hst
    simp only [this, if_true]
    exact models_fail
  | some stream =>
    obtain ⟨hfit, hover⟩ := hsome stream hst
    by_cases hb : (20 : Int) + stream.length ≤ 2147483647
    · have := hfit hb
      simp only [this, Bool.true_eq_false, if_false]
      exact models_guard_prop _ _ _
        (models_and_then _ _ _ _ (models_pec_u16lsb _)
          (models_and_then _ _ _ _ (models_pec_u16lsb _)
            (models_and_then _ _ _ _ (models_pec_u16lsb _) (models_pec_u16lsb _))))
    · have := hover (by omega)
      simp only [this, if_true]
      rw [if_neg (by omega)]
      exact models_fail

theorem models_pec_thumbnail_bytes (l : List Byte) :
    models (fun _ cb => PecCallback.encode_thumbnail_bytes l cb) (some l) := by
  induction l with
  | nil => exact models_done
  | cons b rest ih =>
    have := models_and_then _ _ _ _ (models_pec_u8 (b.val : Int)) ih
    have e : both (PecEncoder.encode_u8 (b.val : Int)) (some rest) = some (b :: rest) := by
      have hb := b.isLt
      have h1 : byteOfInt (b.val : Int) = b := by
        apply Fin.ext
        simp only [byteOfInt, byteOfNat]
        omega
      unfold PecEncoder.encode_u8
      rw [if_pos ⟨by omega, by omega⟩, h1]
      rfl
    rw [e] at this
    exact this

theorem models_pec_thumbnail (thumbnail : PecEncoder.pec_thumbnail) :
    models (fun _ cb => PecCallback.encode_thumbnail thumbnail cb)
      (PecEncoder.encode_thumbnail thumbnail) :=
  models_pec_thumbnail_bytes _

theorem models_pec_thread_thumbnails {F : Type} (ops : FloatOps F)
    (encoder : PecEncoder.pec_encoder F) (n : Nat) :
    ∀ k : Nat,
      models (fun _ cb => PecCallback.encode_thread_thumbnails ops encoder n k cb)
        (PecEncoder.encode_thread_thumbnails ops encoder n k) := by
  induction n with
  | zero => intro k; exact models_done
  | succ n ih =>
    intro k
    exact models_and_then _ _ _ _ (models_pec_thumbnail _) (ih _)

theorem models_pec_thumbnail_list {F : Type} (ops : FloatOps F)
    (encoder : PecEncoder.pec_encoder F) :
    models (fun _ cb => PecCallback.encode_thumbnail_list ops encoder cb)
      (PecEncoder.encode_thumbnail_list ops encoder) :=
  models_and_then _ _ _ _ (models_pec_thumbnail _) (models_pec_thread_thumbnails ops encoder _ _)

/-- The run of pec_encode on an arbitrary callback offers it the chunks of the output on
the accepting sink. -/
theorem models_pec_encode {F : Type} (ops : FloatOps F) (encoder : PecEncoder.pec_encoder F) :
    models (fun _ cb => PecCallback.pec_encode ops encoder cb)
      (PecEncoder.pec_encode ops encoder) :=
  models_and_then _ _ _ _ models_pec_label
    (models_and_then _ _ _ _ models_pec_thumbnail_size
      (models_and_then _ _ _ _ (models_pec_threads encoder)
        (models_and_then _ _ _ _ (models_pec_thumbnail_offset ops encoder)
          (models_and_then _ _ _ _ (models_pec_size ops encoder)
            (models_and_then _ _ _ _ (models_pec_stitch_list ops encoder)
              (models_pec_thumbnail_list ops encoder))))))

/-! ## The PES encoder as a chunk writer -/

theorem models_pes_u16lsb (value : Int) :
    models (fun _ cb => PesCallback.encode_u16lsb value cb) (PesEncoder.encode_u16lsb value) :=
  models_guard_prop _ _ _ (models_write _ (by simp))

theorem models_pes_i16lsb (value : Int) :
    models (fun _ cb => PesCallback.encode_i16lsb value cb) (PesEncoder.encode_i16lsb value) :=
  models_guard_prop _ _ _ (models_pes_u16lsb _)

theorem models_pes_i32lsb (value : Int) :
    models (fun _ cb => PesCallback.encode_i32lsb value cb) (PesEncoder.encode_i32lsb value) :=
  models_write _ (by simp)

theorem models_pes_f32lsb {F : Type} (ops : FloatOps F) (f : F) :
    models (fun _ cb => PesCallback.encode_f32lsb ops f cb) (PesEncoder.encode_f32lsb ops f) :=
  models_pes_i32lsb _

theorem models_guard_false (p : Prop) [Decidable p] (hp : ¬ p)
    (w : (σ : Type) → encode_callback σ → encode_step σ) :
    models (fun σ cb => and_then (test (decide p)) (w σ cb)) none :=
  ⟨[], false, fun _ _ s => by simp [and_then, test, feed, hp], by simp, by simp⟩

theorem models_pes_string (s : String) :
    models (fun _ cb => PesCallback.encode_string s cb) (PesEncoder.encode_string s) := by
  unfold PesCallback.encode_string PesEncoder.encode_string
  by_cases h : (ascii s).length ≤ 0xFFFF
  · exact models_guard_prop ((ascii s).length ≤ 0xFFFF) _ _
      (models_and_then _ _ _ _ (models_pes_u16lsb ((ascii s).length : Int))
        (models_write (ascii s) h))
  · rw [if_neg h]
    exact models_guard_false _ h _

theorem models_pes_transform {F : Type} (ops : FloatOps F) (encoder : PesEncoder.pes_encoder F) :
    models (fun _ cb => PesCallback.encode_transform ops encoder cb)
      (PesEncoder.encode_transform ops encoder) :=
  models_and_then _ _ _ _ (models_pes_f32lsb ops _)
    (models_and_then _ _ _ _ (models_pes_f32lsb ops _)
      (models_and_then _ _ _ _ (models_pes_f32lsb ops _)
        (models_and_then _ _ _ _ (models_pes_f32lsb ops _)
          (models_and_then _ _ _ _ (models_pes_f32lsb ops _) (models_pes_f32lsb ops _)))))

theorem models_pes_cembone {F : Type} (ops : FloatOps F) (encoder : PesEncoder.pes_encoder F) :
    models (fun _ cb => PesCallback.encode_cembone ops encoder cb)
      (PesEncoder.encode_cembone ops encoder) :=
  models_and_then _ _ _ _ (models_pes_string _)
   (models_and_then _ _ _ _ (models_pes_i16lsb _)
    (models_and_then _ _ _ _ (models_pes_i16lsb _)
     (models_and_then _ _ _ _ (models_pes_i16lsb _)
      (models_and_then _ _ _ _ (models_pes_i16lsb _)
       (models_and_then _ _ _ _ (models_pes_i16lsb _)
        (models_and_then _ _ _ _ (models_pes_i16lsb _)
         (models_and_then _ _ _ _ (models_pes_i16lsb _)
          (models_and_then _ _ _ _ (models_pes_i16lsb _)
           (models_and_then _ _ _ _ (models_pes_transform ops encoder)
            (models_and_then _ _ _ _ (models_pes_u16lsb _)
             (models_and_then _ _ _ _ (models_pes_i16lsb _)
              (models_and_then _ _ _ _ (models_pes_i16lsb _)
               (models_and_then _ _ _ _ (models_pes_u16lsb _)
                (models_and_then _ _ _ _ (models_pes_u16lsb _)
                 (models_and_then _ _ _ _ (models_write _ (by decide))
                  (models_and_then _ _ _ _ (models_pes_u16lsb _)
                   (models_and_then _ _ _ _ (models_pes_u16lsb _)
                     (models_pes_u16lsb _))))))))))))))))))

theorem models_pes_block_header (stitch_type : pec_stitch_type) (thread_index : Int)
    (stitch_count : Int) :
    models (fun _ cb => PesCallback.encode_block_header stitch_type thread_index stitch_count cb)
      (PesEncoder.encode_block_header stitch_type thread_index stitch_count) :=
  models_and_then _ _ _ _ (models_pes_u16lsb _)
    (models_and_then _ _ _ _ (models_pes_u16lsb _) (models_pes_u16lsb _))

theorem models_pes_stitch {F : Type} (ops : FloatOps F) (x y : F) :
    models (fun _ cb => PesCallback.encode_stitch ops x y cb) (PesEncoder.encode_stitch ops x y) :=
  models_and_then _ _ _ _ (models_pes_i16lsb _) (models_pes_i16lsb _)

theorem models_pes_jump_stitch {F : Type} (ops : FloatOps F) (a b : PesEncoder.pes_stitch F) :
    models (fun _ cb => PesCallback.encode_jump_stitch ops a b cb)
      (PesEncoder.encode_jump_stitch ops a b) :=
  models_and_then _ _ _ _ (models_pes_block_header _ _ _)
    (models_and_then _ _ _ _ (models_pes_stitch ops _ _) (models_pes_stitch ops _ _))

theorem models_pes_stitch_loop {F : Type} (ops : FloatOps F)
    (encoder : PesEncoder.pes_encoder F) (l : List (PesEncoder.pes_stitch F)) :
    ∀ (i : Nat) (prev : Option (PesEncoder.pes_stitch F)),
      models (fun _ cb => PesCallback.encode_stitch_loop ops encoder i prev l cb)
        (PesEncoder.encode_stitch_loop ops encoder i prev l) := by
  induction l with
  | nil => intro i prev; unfold PesCallback.encode_stitch_loop PesEncoder.encode_stitch_loop
           exact models_done
  | cons stitch rest ih =>
    intro i prev
    unfold PesCallback.encode_stitch_loop PesEncoder.encode_stitch_loop
    refine models_and_then _ _ _ _ ?_
      (models_and_then _ _ _ _ (models_pes_stitch ops _ _) (ih _ _))
    refine models_ite _ _ _ _ _ (models_pes_block_header _ _ _) (models_ite _ _ _ _ _ ?_ models_done)
    cases prev with
    | none => exact models_fail
    | some p =>
      exact models_and_then _ _ _ _ (models_pes_u16lsb _)
        (models_and_then _ _ _ _ (models_pes_jump_stitch ops _ _)
          (models_and_then _ _ _ _ (models_pes_u16lsb _) (models_pes_block_header _ _ _)))

theorem models_pes_stitch_list {F : Type} (ops : FloatOps F)
    (encoder : PesEncoder.pes_encoder F) :
    models (fun _ cb => PesCallback.encode_stitch_list ops encoder cb)
      (PesEncoder.encode_stitch_list ops encoder) :=
  models_pes_stitch_loop ops encoder _ _ _

theorem models_pes_change_loop {F : Type} (encoder : PesEncoder.pes_encoder F)
    (l : List (PesEncoder.pes_stitch F)) :
    ∀ (i : Nat) (block_index : Int) (prev : Option Int),
      models (fun _ cb => PesCallback.encode_change_loop encoder i block_index prev l cb)
        (PesEncoder.encode_change_loop encoder i block_index prev l) := by
  induction l with
  | nil => intro i b prev; unfold PesCallback.encode_change_loop PesEncoder.encode_change_loop
           exact models_done
  | cons s rest ih =>
    intro i b prev
    unfold PesCallback.encode_change_loop PesEncoder.encode_change_loop
    exact models_and_then _ _ _ _
      (models_ite _ _ _ _ _ (models_and_then _ _ _ _ (models_pes_u16lsb _) (models_pes_u16lsb _))
        models_done)
      (ih _ _ _)

theorem models_pes_thread_list14 {F : Type} (encoder : PesEncoder.pes_encoder F) :
    models (fun _ cb => PesCallback.encode_thread_list14 encoder cb)
      (PesEncoder.encode_thread_list14 encoder) :=
  models_and_then _ _ _ _ (models_pes_u16lsb _)
    (models_and_then _ _ _ _ (models_pes_change_loop encoder _ _ _ _)
      (models_and_then _ _ _ _ (models_pes_u16lsb _) (models_pes_u16lsb _)))

theorem models_pes_csewseg14 {F : Type} (ops : FloatOps F) (encoder : PesEncoder.pes_encoder F) :
    models (fun _ cb => PesCallback.encode_csewseg14 ops encoder cb)
      (PesEncoder.encode_csewseg14 ops encoder) :=
  models_and_then _ _ _ _ (models_pes_string _)
    (models_and_then _ _ _ _ (models_pes_stitch_list ops encoder)
      (models_pes_thread_list14 encoder))

theorem models_pes_sections14 {F : Type} (ops : FloatOps F)
    (encoder : PesEncoder.pes_encoder F) :
    models (fun _ cb => PesCallback.encode_sections14 ops encoder cb)
      (PesEncoder.encode_sections14 ops encoder) :=
  models_and_then _ _ _ _ (models_pes_cembone ops encoder) (models_pes_csewseg14 ops encoder)

theorem models_pes_pec_offset1 {F : Type} (ops : FloatOps F)
    (encoder : PesEncoder.pes_encoder F) :
    models (fun _ cb => PesCallback.encode_pec_offset1 ops encoder cb)
      (PesEncoder.encode_pec_offset1 ops encoder) := by
  obtain ⟨hnone, hsome⟩ := models_probe _ _ (models_pes_sections14 ops encoder) 22
    (by norm_num) (by norm_num)
  unfold PesCallback.encode_pec_offset1 PesEncoder.encode_pec_offset1
  cases hst : PesEncoder.encode_sections14 ops encoder with
  | none =>
    have := hnone hst
    simp only [this]
    exact models_guard false _ _ (models_pes_i32lsb _)
  | some sections =>
    obtain ⟨hfit, hover⟩ := hsome sections hst
    by_cases hb : (22 : Int) + sections.length ≤ 2147483647
    · have := hfit hb
      simp only [this, if_pos hb]
      exact models_guard true _ _ (models_pes_i32lsb _)
    · have := hover (by omega)
      simp only [this, if_neg hb]
      exact models_guard false _ _ (models_pes_i32lsb _)

/-- The run of pes_encode1 on an arbitrary callback offers it the chunks of the output
on the accepting sink. -/
theorem models_pes_encode1 {F : Type} (ops : FloatOps F) (encoder : PesEncoder.pes_encoder F) :
    models (fun _ cb => PesCallback.pes_encode1 ops encoder cb)
      (PesEncoder.pes_encode1 ops encoder) :=
  models_and_then _ _ _ _ (models_write _ (by decide))
    (models_and_then _ _ _ _ (models_pes_pec_offset1 ops encoder)
      (models_and_then _ _ _ _ (models_pes_u16lsb _)
        (models_and_then _ _ _ _ (models_pes_u16lsb _)
          (models_and_then _ _ _ _ (models_pes_u16lsb _)
            (models_and_then _ _ _ _ (models_pes_u16lsb _)
              (models_and_then _ _ _ _ (models_pes_u16lsb _)
                (models_and_then _ _ _ _ (models_pes_sections14 ops encoder)
                  (models_pec_encode ops encoder.pec_encoder))))))))

/-! ## Out-of-range deltas -/

theorem both_none_right (a : Option (List Byte)) : both a none = none := by
  cases a <;> rfl

theorem pec_encode_stitch_none (type : pec_stitch_type) (d : Int) (h : delta_out_of_range d) :
    PecEncoder.encode_stitch type d = none := by
  unfold PecEncoder.encode_stitch
  rw [if_pos (by unfold delta_out_of_range at h; omega)]

/-- The loop of encode_stitch_list fails on a stitch list in which a stitch that is not
a Stop has a delta out of range from the running position. -/
theorem pec_stitch_loop_none {F : Type} (ops : FloatOps F)
    (pre : List (PecEncoder.pec_stitch F)) (s : PecEncoder.pec_stitch F)
    (post : List (PecEncoder.pec_stitch F)) (hs : s.type ≠ PEC_STITCH_STOP) :
    ∀ x y stop : Int,
      (delta_out_of_range (ops.pec_raw_coordinate s.x - (running_position ops x y pre).1) ∨
       delta_out_of_range (ops.pec_raw_coordinate s.y - (running_position ops x y pre).2)) →
      PecEncoder.encode_stitch_loop ops (pre ++ s :: post) x y stop = none := by
  induction pre with
  | nil =>
    intro x y stop hd
    simp only [List.nil_append, PecEncoder.encode_stitch_loop, if_neg hs]
    simp only [running_position] at hd
    rcases hd with hd | hd
    · rw [pec_encode_stitch_none _ _ hd]; rfl
    · rw [pec_encode_stitch_none _ _ hd, both_none_right]; rfl
  | cons p rest ih =>
    intro x y stop hd
    simp only [List.cons_append, PecEncoder.encode_stitch_loop]
    simp only [running_position] at hd
    by_cases hp : p.type = PEC_STITCH_STOP
    · rw [if_pos hp] at hd ⊢
      exact (congrArg (both _) (ih _ _ _ hd)).trans (both_none_right _)
    · rw [if_neg hp] at hd ⊢
      exact (congrArg (both _) (ih _ _ _ hd)).trans (both_none_right _)

theorem pec_encode_none_of_stitch_list {F : Type} (ops : FloatOps F)
    (encoder : PecEncoder.pec_encoder F) (h : PecEncoder.encode_stitch_list ops encoder = none) :
    PecEncoder.pec_encode ops encoder = none := by
  have h1 : PecEncoder.encode_thumbnail_offset ops encoder = none := by
    unfold PecEncoder.encode_thumbnail_offset
    rw [h]
  have h2 : ∀ b : Option (List Byte), both none b = none := fun _ => rfl
  unfold PecEncoder.pec_encode
  rw [h1, h2, both_none_right, both_none_right, both_none_right]

/-- The size probe of the PEC encoder against the output on the accepting sink: the
output length when pec_encode succeeds, and 0 when it fails. -/
theorem pec_encoded_size_eq {F : Type} (ops : FloatOps F) (encoder : PecEncoder.pec_encoder F) :
    (PecEncoder.pec_encode ops encoder = none →
      PecCallback.pec_encoded_size ops encoder = 0) ∧
    (∀ out, PecEncoder.pec_encode ops encoder = some out →
      PecCallback.pec_encoded_size ops encoder = out.length) := by
  obtain ⟨hnone, hsome⟩ := models_probe _ _ (models_pec_encode ops encoder) 0
    (le_refl _) (by norm_num)
  refine ⟨fun h => ?_, fun out h => ?_⟩
  · unfold PecCallback.pec_encoded_size
    rw [if_pos (hnone h)]
  · obtain ⟨pre, stream, thumbs, rfl, hpre, -, hth, -, hpal, hst⟩ :=
      pec_encode_split ops encoder _ h
    have hlen : (0 : Int) + ((pre ++ stream ++ thumbs).length : Int) ≤ 2147483647 := by
      simp only [List.length_append, hpre, hth]
      have : (encoder.palette.length + 1) * 228 ≤ 257 * 228 :=
        Nat.mul_le_mul_right _ (by omega)
      push_cast at hst ⊢
      omega
    have := (hsome _ h).1 hlen
    unfold PecCallback.pec_encoded_size
    rw [this]
    simp

/-- C11. Out-of-range deltas are an encoding failure: for every state of the PEC encoder
in which some stitch that is not a Stop has a raw x or y that differs from the running
position (the raw coordinates of the last stitch before it that is not a Stop, or the raw
minimum-bounds corner when there is none) by less than -2048 or more than 2047,
pec_encode returns false on every callback, pec_encoded_size returns 0, and the output on
the accepting sink is a failure. -/
theorem pec_encode_rejects_delta {F : Type} (ops : FloatOps F)
    (encoder : PecEncoder.pec_encoder F) (i : Nat) (s : PecEncoder.pec_stitch F)
    (hi : encoder.stitch_list[i]? = some s) (hs : s.type ≠ PEC_STITCH_STOP)
    (hd : delta_out_of_range (ops.pec_raw_coordinate s.x -
            (running_position ops (ops.pec_raw_coordinate encoder.bounds.min_x)
              (ops.pec_raw_coordinate encoder.bounds.min_y) (encoder.stitch_list.take i)).1) ∨
          delta_out_of_range (ops.pec_raw_coordinate s.y -
            (running_position ops (ops.pec_raw_coordinate encoder.bounds.min_x)
              (ops.pec_raw_coordinate encoder.bounds.min_y) (encoder.stitch_list.take i)).2)) :
    (∀ (σ : Type) (encode_cb : encode_callback σ) (arg : σ),
      (PecCallback.pec_encode ops encoder encode_cb arg).2 = false) ∧
    PecCallback.pec_encoded_size ops encoder = 0 ∧
    PecEncoder.pec_encode ops encoder = none := by
  have hlt : i < encoder.stitch_list.length := by
    by_contra hge
    rw [List.getElem?_eq_none (by omega)] at hi
    exact absurd hi (by simp)
  have hsplit : encoder.stitch_list =
      encoder.stitch_list.take i ++ s :: encoder.stitch_list.drop (i + 1) := by
    have e : encoder.stitch_list[i] = s := by
      rw [List.getElem?_eq_getElem hlt] at hi
      exact Option.some.inj hi
    rw [← e, ← List.drop_eq_getElem_cons hlt, List.take_append_drop]
  have hloop := pec_stitch_loop_none ops (encoder.stitch_list.take i) s
    (encoder.stitch_list.drop (i + 1)) hs _ _ 2 hd
  rw [← hsplit] at hloop
  have hlist : PecEncoder.encode_stitch_list ops encoder = none := by
    unfold PecEncoder.encode_stitch_list
    rw [hloop]
    rfl
  have hnone := pec_encode_none_of_stitch_list ops encoder hlist
  exact ⟨fun σ cb arg => models_none _ (hnone ▸ models_pec_encode ops encoder) σ cb arg,
    (pec_encoded_size_eq ops encoder).1 hnone, hnone⟩

theorem pec_encode_rejects_delta_witness :
    (PecCallback.pec_encode gridOps overflow_pec_encoder store_chunk []).2 = false ∧
    PecCallback.pec_encoded_size gridOps overflow_pec_encoder = 0 ∧
    PecEncoder.pec_encode gridOps overflow_pec_encoder = none :=
  have h := pec_encode_rejects_delta gridOps overflow_pec_encoder 1 ⟨3000, 0, PEC_STITCH_NORMAL⟩
    (by rfl) (by decide) (Or.inl (Or.inr (by decide)))
  ⟨h.1 _ store_chunk [], h.2.1, h.2.2⟩

/-! ## The size probe of the PES encoder -/

theorem pes_change_loop_length {F : Type} (enc : PesEncoder.pes_encoder F) :
    ∀ (l : List (PesEncoder.pes_stitch F)) (i : Nat) (b : Int) (prev : Option Int)
      (bytes : List Byte),
      PesEncoder.encode_change_loop enc i b prev l = some bytes → bytes.length ≤ 4 * l.length
  | [], _, _, _, bytes, h => by
    simp only [PesEncoder.encode_change_loop, Option.some.injEq] at h
    subst h
    simp
  | s :: rest, i, b, prev, bytes, h => by
    simp only [PesEncoder.encode_change_loop] at h
    obtain ⟨en, r, hen, hr, rfl⟩ := both_eq_some.1 h
    have ih := pes_change_loop_length enc rest _ _ _ r hr
    have hl : en.length ≤ 4 := by
      split_ifs at hen
      · obtain ⟨a, c, ha, hc, rfl⟩ := both_eq_some.1 hen
        obtain ⟨_, _, rfl, -⟩ := pes_u16_eq_some ha
        obtain ⟨_, _, rfl, -⟩ := pes_u16_eq_some hc
        simp
      · simp only [Option.some.injEq] at hen
        subst hen
        simp
    simp only [List.length_append, List.length_cons]
    omega

theorem pes_sections_length {F : Type} (ops : FloatOps F) (enc : PesEncoder.pes_encoder F)
    (sections : List Byte) (h : PesEncoder.encode_sections14 ops enc = some sections) :
    sections.length ≤ 88 + 32 * enc.stitch_list.length := by
  unfold PesEncoder.encode_sections14 at h
  obtain ⟨ce, cs, hce, hcs, rfl⟩ := both_eq_some.1 h
  obtain ⟨body, rfl, hbody⟩ := encode_cembone_eq ops enc ce hce
  unfold PesEncoder.encode_csewseg14 at hcs
  obtain ⟨nm, r, hnm, hr, rfl⟩ := both_eq_some.1 hcs
  obtain ⟨sl, tb, hsl, htb, rfl⟩ := both_eq_some.1 hr
  have e0 : PesEncoder.encode_string "CSewSeg" = some [7, 0, 67, 83, 101, 119, 83, 101, 103] := by
    decide
  rw [e0] at hnm
  simp only [Option.some.injEq] at hnm
  subst hnm
  have h1 := (pes_stream_length ops enc _ _ _ sl hsl).2
  unfold PesEncoder.encode_thread_list14 at htb
  obtain ⟨cnt, r1, hcnt, hr1, rfl⟩ := both_eq_some.1 htb
  obtain ⟨en, r2, hen, hr2, rfl⟩ := both_eq_some.1 hr1
  obtain ⟨z1, z2, hz1, hz2, rfl⟩ := both_eq_some.1 hr2
  obtain ⟨_, _, rfl, -⟩ := pes_u16_eq_some hcnt
  obtain ⟨_, _, rfl, -⟩ := pes_u16_eq_some hz1
  obtain ⟨_, _, rfl, -⟩ := pes_u16_eq_some hz2
  have h2 := pes_change_loop_length enc _ _ _ _ en hen
  simp only [List.length_append, List.length_cons, List.length_nil, hbody]
  omega

/-- The size probe of the PES encoder against the output on the accepting sink, in
every state of the PES encoder: the output length when pes_encode1 succeeds, and 0 when
it fails. -/
theorem pes_encode1_size_eq {F : Type} (ops : FloatOps F) (enc : PesEncoder.pes_encoder F)
    (hr : pes_reachable ops enc) :
    (PesEncoder.pes_encode1 ops enc = none → PesCallback.pes_encode1_size ops enc = 0) ∧
    (∀ out, PesEncoder.pes_encode1 ops enc = some out →
      PesCallback.pes_encode1_size ops enc = out.length) := by
  obtain ⟨hnone, hsome⟩ := models_probe _ _ (models_pes_encode1 ops enc) 0
    (le_refl _) (by norm_num)
  refine ⟨fun h => ?_, fun out h => ?_⟩
  · unfold PesCallback.pes_encode1_size PesCallback.pes_encode_size
    rw [if_pos (hnone h)]
  · obtain ⟨p0, p1, p2, p3, sections, pec, hs, hp, -, rfl⟩ := pes_encode1_eq_some ops enc _ h
    obtain ⟨pre, stream, thumbs, rfl, hpre, hstream, hth, -, hpal, hst⟩ :=
      pec_encode_split ops enc.pec_encoder _ hp
    obtain ⟨sbody, hsbody, rfl⟩ := encode_stitch_list_eq_some ops _ stream hstream
    have hsb := pec_stream_length ops _ _ _ _ sbody hsbody
    have hinv := pes_reachable_inv ops enc hr
    have hsec := pes_sections_length ops enc sections hs
    have hlen : (0 : Int) + (([35, 80, 69, 83, 48, 48, 48, 49, p0, p1, p2, p3,
        0, 0, 1, 0, 1, 0, 0xFF, 0xFF, 0, 0] ++
        (sections ++ (pre ++ (sbody ++ [0xFF]) ++ thumbs)) : List Byte).length : Int) ≤
        2147483647 := by
      simp only [List.length_append, List.length_cons, List.length_nil, hpre, hth] at hst ⊢
      have : (enc.pec_encoder.palette.length + 1) * 228 ≤ 257 * 228 :=
        Nat.mul_le_mul_right _ (by omega)
      push_cast at hst ⊢
      omega
    have := (hsome _ h).1 hlen
    unfold PesCallback.pes_encode1_size PesCallback.pes_encode_size
    rw [this]
    simp

/-- C20 as stated fails: overflow_pec_encoder has one thread, and pec_encode delivers 512
bytes to the sink that accepts every chunk before it returns false, while
pec_encoded_size is 0; in the same way pes_encode1 delivers 640 bytes for
overflow_pes_encoder, which has one thread, while pes_encode1_size is 0. -/
theorem size_probe_counterexample :
    overflow_pec_encoder.thread_count = 1 ∧
    (PecCallback.pec_encode gridOps overflow_pec_encoder store_chunk []).2 = false ∧
    (PecCallback.pec_encode gridOps overflow_pec_encoder store_chunk []).1.length = 512 ∧
    PecCallback.pec_encoded_size gridOps overflow_pec_encoder = 0 ∧
    overflow_pes_encoder.thread_count = 1 ∧
    (PesCallback.pes_encode1 gridOps overflow_pes_encoder store_chunk []).2 = false ∧
    (PesCallback.pes_encode1 gridOps overflow_pes_encoder store_chunk []).1.length = 640 ∧
    PesCallback.pes_encode1_size gridOps overflow_pes_encoder = 0 := by
  refine ⟨by decide, by decide, by decide, by decide, by decide, by decide, by decide,
    by decide⟩

theorem probe_of_store (w : (σ : Type) → encode_callback σ → encode_step σ)
    (o : Option (List Byte)) (h : models w o) (size : Int)
    (hnone : o = none → size = 0) (hsome : ∀ out, o = some out → size = out.length) :
    ((w (List Byte) store_chunk []).2 = true →
      size = ((w (List Byte) store_chunk []).1.length : Int)) ∧
    ((w (List Byte) store_chunk []).2 = false → size = 0) := by
  obtain ⟨sn, ss⟩ := models_store w o h []
  cases ho : o with
  | none =>
    refine ⟨fun ht => ?_, fun _ => hnone ho⟩
    rw [sn ho] at ht
    exact absurd ht (by simp)
  | some out =>
    have := ss out ho
    refine ⟨fun _ => ?_, fun hf => ?_⟩
    · rw [this, hsome out ho]
      simp
    · rw [this] at hf
      exact absurd hf (by simp)

/-- C20 (amended). The size probe against the emitted length: in every state of the PEC
encoder, when pec_encode returns true on the sink that accepts every chunk,
pec_encoded_size equals the number of bytes delivered to that sink, and when pec_encode
returns false there, pec_encoded_size is 0 whatever was delivered before the failure; the
same holds for pes_encode1_size and pes_encode1 in every state of the PES encoder (a state
reached from pes_encoder_init by the append operations and pes_encode_transform). -/
theorem size_probe_matches {F : Type} (ops : FloatOps F) :
    (∀ encoder : PecEncoder.pec_encoder F,
      ((PecCallback.pec_encode ops encoder store_chunk []).2 = true →
        PecCallback.pec_encoded_size ops encoder =
          ((PecCallback.pec_encode ops encoder store_chunk []).1.length : Int)) ∧
      ((PecCallback.pec_encode ops encoder store_chunk []).2 = false →
        PecCallback.pec_encoded_size ops encoder = 0)) ∧
    (∀ encoder : PesEncoder.pes_encoder F, pes_reachable ops encoder →
      ((PesCallback.pes_encode1 ops encoder store_chunk []).2 = true →
        PesCallback.pes_encode1_size ops encoder =
          ((PesCallback.pes_encode1 ops encoder store_chunk []).1.length : Int)) ∧
      ((PesCallback.pes_encode1 ops encoder store_chunk []).2 = false →
        PesCallback.pes_encode1_size ops encoder = 0)) :=
  ⟨fun encoder => probe_of_store _ _ (models_pec_encode ops encoder) _
      (pec_encoded_size_eq ops encoder).1 (pec_encoded_size_eq ops encoder).2,
   fun encoder hr => probe_of_store _ _ (models_pes_encode1 ops encoder) _
      (pes_encode1_size_eq ops encoder hr).1 (pes_encode1_size_eq ops encoder hr).2⟩

theorem sample_pes_stored :
    (PesCallback.pes_encode1 gridOps sample_pes_encoder store_chunk []).2 = true := by
  obtain ⟨out, h⟩ := Option.isSome_iff_exists.1 sample_pes_encodes
  rw [(models_store _ _ (models_pes_encode1 gridOps sample_pes_encoder) []).2 out h]

theorem size_probe_matches_witness :
    PecCallback.pec_encoded_size gridOps sample_pec_encoder =
      ((PecCallback.pec_encode gridOps sample_pec_encoder store_chunk []).1.length : Int) ∧
    PesCallback.pes_encode1_size gridOps sample_pes_encoder =
      ((PesCallback.pes_encode1 gridOps sample_pes_encoder store_chunk []).1.length : Int) :=
  ⟨((size_probe_matches gridOps).1 sample_pec_encoder).1 (by decide),
   ((size_probe_matches gridOps).2 sample_pes_encoder sample_pes_reachable).1
     sample_pes_stored⟩

/-! ## Blocks of the CSewSeg section on a thread change without the jump flag -/

/-- C29 fails on unflagged_change_encoder: stitch 1 is not marked jump and its
thread_index differs from that of stitch 0, is_block holds for it and pes_encode1
succeeds, but encode_stitch_list writes no block header for it: the block sequence is
one header (type 0, thread 1, stitch_count 1) followed by two coordinate pairs, so the
stitch_count field is 1 where two pairs follow the header. -/
theorem pes_block_header_missing :
    unflagged_change_encoder.stitch_list.map (fun s => (s.thread_index, s.jump)) =
      [(0, false), (1, false)] ∧
    PesEncoder.is_block unflagged_change_encoder.stitch_list 1 = true ∧
    PesEncoder.block_stitch_count unflagged_change_encoder.stitch_list 0 = 1 ∧
    PesEncoder.encode_stitch_list gridOps unflagged_change_encoder =
      some ([0, 0, 1, 0, 1, 0] ++ [0, 0, 0, 0] ++ [10, 0, 0, 0]) ∧
    (PesEncoder.pes_encode1 gridOps unflagged_change_encoder).isSome = true := by
  refine ⟨by decide, by decide, by decide, by decide, by decide⟩

/-- C30 fails on unflagged_change_encoder: the running block_count is 3 (1 for the first
stitch and 2 for the stitch on which the thread changes) and CEmbOne carries 3 in its
block count field (bytes 67 and 68 of the section), but encode_stitch_list writes a
single block header. -/
theorem pes_block_count_mismatch :
    unflagged_change_encoder.block_count = 3 ∧
    (PesEncoder.encode_cembone gridOps unflagged_change_encoder).map
      (fun l => (l.drop 67).take 2) = some [3, 0] ∧
    PesEncoder.encode_stitch_list gridOps unflagged_change_encoder =
      some ([0, 0, 1, 0, 1, 0] ++ [0, 0, 0, 0, 10, 0, 0, 0]) := by
  refine ⟨by decide, by decide, by decide⟩

/-! ## Bounds of the PES and SVG embroidery encoders -/

/-- The outcome of append_stitch of the PES encoder on the bounds: a failure leaves them
as they are, a success applies update_bounds. -/
theorem pes_append_bounds {F : Type} (ops : FloatOps F) (alloc : PesEncoder.alloc_outcomes)
    (e : PesEncoder.pes_encoder F) (ti : Int) (x y : F) (jump : Bool) :
    ((PesEncoder.append_stitch ops alloc e ti x y jump).2 = false →
      (PesEncoder.append_stitch ops alloc e ti x y jump).1.bounds = e.bounds) ∧
    ((PesEncoder.append_stitch ops alloc e ti x y jump).2 = true →
      (PesEncoder.append_stitch ops alloc e ti x y jump).1.bounds =
        PesEncoder.update_bounds ops e.bounds x y) := by
  unfold PesEncoder.append_stitch
  simp only []
  generalize hg : (if e.stitch_capacity ≤ e.stitch_count then
        if e.stitch_capacity +
            (if e.stitch_capacity = 0 then 100
             else if 10000 < e.stitch_capacity then 10000 else e.stitch_capacity) <
            2147483647 / 2 ∧ alloc.pes_list = true then
          { e with stitch_capacity := e.stitch_capacity +
            (if e.stitch_capacity = 0 then 100
             else if 10000 < e.stitch_capacity then 10000 else e.stitch_capacity) }
        else e
      else e) = g
  have hg1 : g.bounds = e.bounds := by
    rw [← hg]; split_ifs <;> rfl
  clear hg
  generalize (if g.stitch_count = 0 ∨
        g.stitch_list.getLast?.any (fun last => decide (ti ≠ last.thread_index)) = true then
        PecEncoder.pec_append_thread ops alloc.pec_stop g.pec_encoder
          (pec_palette_index_by_rgb (g.thread_list.getD ti.toNat pec_undefined_thread).rgb)
      else (g.pec_encoder, true)) = T
  generalize (if g.stitch_list.getLast?.any
        (fun last => decide (ti ≠ last.thread_index)) = true then
      PecEncoder.pec_append_jump_stitch ops alloc.pec_stitch T.1 x y
    else if jump = true then
      PecEncoder.pec_append_trim_stitch ops alloc.pec_stitch T.1 x y
    else PecEncoder.pec_append_stitch ops alloc.pec_stitch T.1 x y) = S
  by_cases c1 : ti < 0 ∨ e.thread_count ≤ ti
  · simp only [if_pos c1]
    exact ⟨fun _ => by trivial, fun h => absurd h (by simp)⟩
  · simp only [if_neg c1]
    by_cases c2 : g.stitch_capacity ≤ g.stitch_count
    · simp only [if_pos c2]
      exact ⟨fun _ => hg1, fun h => absurd h (by simp)⟩
    · simp only [if_neg c2]
      by_cases c3 : T.2 = false
      · simp only [if_pos c3]
        exact ⟨fun _ => hg1, fun h => absurd h (by simp)⟩
      · simp only [if_neg c3]
        by_cases c4 : S.2 = false
        · simp only [if_pos c4]
          exact ⟨fun _ => hg1, fun h => absurd h (by simp)⟩
        · simp only [if_neg c4]
          exact ⟨fun h => absurd h (by simp), fun _ => by rw [hg1]⟩

/-- The outcome of append_stitch of the SVG embroidery encoder: a failure leaves the
stitch list and the bounds as they are, a success records the stitch and applies
update_bounds. -/
theorem svg_append_cases {F : Type} (ops : FloatOps F) (alloc_ok : Bool)
    (e : SvgEmbEncoder.svg_emb_encoder F) (ti : Int) (x y : F) (jump : Bool) :
    ((SvgEmbEncoder.append_stitch ops alloc_ok e ti x y jump).2 = false →
      (SvgEmbEncoder.append_stitch ops alloc_ok e ti x y jump).1.bounds = e.bounds ∧
      (SvgEmbEncoder.append_stitch ops alloc_ok e ti x y jump).1.stitch_list = e.stitch_list) ∧
    ((SvgEmbEncoder.append_stitch ops alloc_ok e ti x y jump).2 = true →
      (SvgEmbEncoder.append_stitch ops alloc_ok e ti x y jump).1.bounds =
        SvgEmbEncoder.update_bounds ops e.bounds x y ∧
      (SvgEmbEncoder.append_stitch ops alloc_ok e ti x y jump).1.stitch_list =
        e.stitch_list ++ [⟨ti, x, y, jump⟩]) := by
  unfold SvgEmbEncoder.append_stitch
  simp only []
  generalize hg : (if e.stitch_capacity ≤ e.stitch_count then
        if e.stitch_capacity +
            (if e.stitch_capacity = 0 then 100
             else if 10000 < e.stitch_capacity then 10000 else e.stitch_capacity) <
            2147483647 / 2 ∧ alloc_ok = true then
          { e with stitch_capacity := e.stitch_capacity +
            (if e.stitch_capacity = 0 then 100
             else if 10000 < e.stitch_capacity then 10000 else e.stitch_capacity) }
        else e
      else e) = g
  have hg1 : g.bounds = e.bounds ∧ g.stitch_list = e.stitch_list := by
    rw [← hg]; split_ifs <;> exact ⟨rfl, rfl⟩
  clear hg
  by_cases c1 : ti < 0 ∨ e.thread_count ≤ ti
  · simp only [if_pos c1]
    exact ⟨fun _ => by simp, fun h => absurd h (by simp)⟩
  · simp only [if_neg c1]
    by_cases c2 : g.stitch_capacity ≤ g.stitch_count
    · simp only [if_pos c2]
      exact ⟨fun _ => hg1, fun h => absurd h (by simp)⟩
    · simp only [if_neg c2]
      exact ⟨fun h => absurd h (by simp), fun _ => by rw [hg1.1, hg1.2]; exact ⟨rfl, rfl⟩⟩

theorem minimum_step {F : Type} (ops : FloatOps F) (hlt : lt_strict_order ops) (m x : F)
    (l : List F) (h : is_minimum ops m l) :
    is_minimum ops (if ops.lt x m = true then x else m) (l ++ [x]) := by
  obtain ⟨hm, hle⟩ := h
  by_cases c : ops.lt x m = true
  · rw [if_pos c]
    refine ⟨by simp, fun v hv => ?_⟩
    rcases List.mem_append.1 hv with hv | hv
    · cases hvx : ops.lt v x with
      | false => rfl
      | true =>
        have := hlt.2 v x m hvx c
        rw [hle v hv] at this
        exact absurd this (by simp)
    · simp only [List.mem_singleton] at hv
      rw [hv]; exact hlt.1 x
  · rw [if_neg c]
    refine ⟨List.mem_append_left _ hm, fun v hv => ?_⟩
    rcases List.mem_append.1 hv with hv | hv
    · exact hle v hv
    · simp only [List.mem_singleton] at hv
      rw [hv]; simpa using c

theorem maximum_step {F : Type} (ops : FloatOps F) (hlt : lt_strict_order ops) (m x : F)
    (l : List F) (h : is_maximum ops m l) :
    is_maximum ops (if ops.lt m x = true then x else m) (l ++ [x]) := by
  obtain ⟨hm, hle⟩ := h
  by_cases c : ops.lt m x = true
  · rw [if_pos c]
    refine ⟨by simp, fun v hv => ?_⟩
    rcases List.mem_append.1 hv with hv | hv
    · cases hvx : ops.lt x v with
      | false => rfl
      | true =>
        have := hlt.2 m x v c hvx
        rw [hle v hv] at this
        exact absurd this (by simp)
    · simp only [List.mem_singleton] at hv
      rw [hv]; exact hlt.1 x
  · rw [if_neg c]
    refine ⟨List.mem_append_left _ hm, fun v hv => ?_⟩
    rcases List.mem_append.1 hv with hv | hv
    · exact hle v hv
    · simp only [List.mem_singleton] at hv
      rw [hv]; simpa using c

theorem lt_asymm_of_strict {F : Type} (ops : FloatOps F) (hlt : lt_strict_order ops) (a b : F)
    (h : ops.lt a b = true) : ops.lt b a = false := by
  cases hba : ops.lt b a with
  | false => rfl
  | true =>
    have := hlt.2 a b a h hba
    rw [hlt.1 a] at this
    exact absurd this (by simp)

/-- The bounds of every state of the PES encoder: valid exactly when a stitch is
recorded, and then the extremes of the recorded coordinates. -/
theorem pes_bounds_inv {F : Type} (ops : FloatOps F) (hlt : lt_strict_order ops)
    (e : PesEncoder.pes_encoder F) (hr : pes_reachable ops e) :
    (e.bounds.valid = true ↔ e.stitch_list ≠ []) ∧
    (e.bounds.valid = true →
      is_minimum ops e.bounds.min_x (e.stitch_list.map (fun s => s.x)) ∧
      is_minimum ops e.bounds.min_y (e.stitch_list.map (fun s => s.y)) ∧
      is_maximum ops e.bounds.max_x (e.stitch_list.map (fun s => s.x)) ∧
      is_maximum ops e.bounds.max_y (e.stitch_list.map (fun s => s.y))) := by
  have step : ∀ (e : PesEncoder.pes_encoder F) (alloc : PesEncoder.alloc_outcomes) (ti : Int)
      (x y : F) (jump : Bool),
      ((e.bounds.valid = true ↔ e.stitch_list ≠ []) ∧
        (e.bounds.valid = true →
          is_minimum ops e.bounds.min_x (e.stitch_list.map (fun s => s.x)) ∧
          is_minimum ops e.bounds.min_y (e.stitch_list.map (fun s => s.y)) ∧
          is_maximum ops e.bounds.max_x (e.stitch_list.map (fun s => s.x)) ∧
          is_maximum ops e.bounds.max_y (e.stitch_list.map (fun s => s.y)))) →
      (((PesEncoder.append_stitch ops alloc e ti x y jump).1.bounds.valid = true ↔
          (PesEncoder.append_stitch ops alloc e ti x y jump).1.stitch_list ≠ []) ∧
        ((PesEncoder.append_stitch ops alloc e ti x y jump).1.bounds.valid = true →
          is_minimum ops (PesEncoder.append_stitch ops alloc e ti x y jump).1.bounds.min_x
            ((PesEncoder.append_stitch ops alloc e ti x y jump).1.stitch_list.map
              (fun s => s.x)) ∧
          is_minimum ops (PesEncoder.append_stitch ops alloc e ti x y jump).1.bounds.min_y
            ((PesEncoder.append_stitch ops alloc e ti x y jump).1.stitch_list.map
              (fun s => s.y)) ∧
          is_maximum ops (PesEncoder.append_stitch ops alloc e ti x y jump).1.bounds.max_x
            ((PesEncoder.append_stitch ops alloc e ti x y jump).1.stitch_list.map
              (fun s => s.x)) ∧
          is_maximum ops (PesEncoder.append_stitch ops alloc e ti x y jump).1.bounds.max_y
            ((PesEncoder.append_stitch ops alloc e ti x y jump).1.stitch_list.map
              (fun s => s.y)))) := by
    intro e alloc ti x y jump ih
    obtain ⟨bf, bs⟩ := pes_append_bounds ops alloc e ti x y jump
    obtain ⟨-, ls, lf⟩ := pes_append_cases ops alloc e ti x y jump
    cases hflag : (PesEncoder.append_stitch ops alloc e ti x y jump).2
    · rw [bf hflag, lf hflag]; exact ih
    · rw [bs hflag, ls hflag]
      unfold PesEncoder.update_bounds
      by_cases hv : e.bounds.valid = true
      · obtain ⟨m1, m2, m3, m4⟩ := ih.2 hv
        simp only [hv, Bool.not_true, Bool.false_eq_true, if_false, List.map_append,
          List.map_cons, List.map_nil]
        refine ⟨by simp, fun _ => ?_⟩
        exact
          ⟨minimum_step ops hlt _ _ _ m1, minimum_step ops hlt _ _ _ m2,
            maximum_step ops hlt _ _ _ m3, maximum_step ops hlt _ _ _ m4⟩
      · have hv2 : e.bounds.valid = false := by simpa using hv
        have hl : e.stitch_list = [] := by
          by_contra hne
          exact hv (ih.1.2 hne)
        simp only [hv2, Bool.not_false, if_true, hl, List.nil_append, List.map_cons,
          List.map_nil]
        refine ⟨by simp, fun _ => ?_⟩
        exact
          ⟨⟨by simp, fun v hv => by simp at hv; rw [hv]; exact hlt.1 _⟩,
           ⟨by simp, fun v hv => by simp at hv; rw [hv]; exact hlt.1 _⟩,
           ⟨by simp, fun v hv => by simp at hv; rw [hv]; exact hlt.1 _⟩,
           ⟨by simp, fun v hv => by simp at hv; rw [hv]; exact hlt.1 _⟩⟩
  induction hr with
  | init =>
    exact ⟨⟨fun h => absurd h (by simp [PesEncoder.pes_encoder_init]),
      fun h => absurd rfl h⟩, fun h => absurd h (by simp [PesEncoder.pes_encoder_init])⟩
  | append_thread e thread _ ih =>
    unfold PesEncoder.pes_append_thread
    split_ifs
    · exact ih
    · exact ih
  | append_stitch e alloc ti x y _ ih => exact step e alloc ti x y false ih
  | append_jump_stitch e alloc ti x y _ ih => exact step e alloc ti x y true ih
  | encode_transform e t _ ih => exact ih

/-- The bounds of every state of the SVG embroidery encoder: valid exactly when a stitch is
recorded, and then the extremes of the recorded coordinates. -/
theorem svg_bounds_inv {F : Type} (ops : FloatOps F) (hlt : lt_strict_order ops)
    (e : SvgEmbEncoder.svg_emb_encoder F) (hr : svg_reachable ops e) :
    (e.bounds.valid = true ↔ e.stitch_list ≠ []) ∧
    (e.bounds.valid = true →
      is_minimum ops e.bounds.min_x (e.stitch_list.map (fun s => s.x)) ∧
      is_minimum ops e.bounds.min_y (e.stitch_list.map (fun s => s.y)) ∧
      is_maximum ops e.bounds.max_x (e.stitch_list.map (fun s => s.x)) ∧
      is_maximum ops e.bounds.max_y (e.stitch_list.map (fun s => s.y))) := by
  have step : ∀ (e : SvgEmbEncoder.svg_emb_encoder F) (alloc : Bool) (ti : Int)
      (x y : F) (jump : Bool),
      ((e.bounds.valid = true ↔ e.stitch_list ≠ []) ∧
        (e.bounds.valid = true →
          is_minimum ops e.bounds.min_x (e.stitch_list.map (fun s => s.x)) ∧
          is_minimum ops e.bounds.min_y (e.stitch_list.map (fun s => s.y)) ∧
          is_maximum ops e.bounds.max_x (e.stitch_list.map (fun s => s.x)) ∧
          is_maximum ops e.bounds.max_y (e.stitch_list.map (fun s => s.y)))) →
      (((SvgEmbEncoder.append_stitch ops alloc e ti x y jump).1.bounds.valid = true ↔
          (SvgEmbEncoder.append_stitch ops alloc e ti x y jump).1.stitch_list ≠ []) ∧
        ((SvgEmbEncoder.append_stitch ops alloc e ti x y jump).1.bounds.valid = true →
          is_minimum ops (SvgEmbEncoder.append_stitch ops alloc e ti x y jump).1.bounds.min_x
            ((SvgEmbEncoder.append_stitch ops alloc e ti x y jump).1.stitch_list.map
              (fun s => s.x)) ∧
          is_minimum ops (SvgEmbEncoder.append_stitch ops alloc e ti x y jump).1.bounds.min_y
            ((SvgEmbEncoder.append_stitch ops alloc e ti x y jump).1.stitch_list.map
              (fun s => s.y)) ∧
          is_maximum ops (SvgEmbEncoder.append_stitch ops alloc e ti x y jump).1.bounds.max_x
            ((SvgEmbEncoder.append_stitch ops alloc e ti x y jump).1.stitch_list.map
              (fun s => s.x)) ∧
          is_maximum ops (SvgEmbEncoder.append_stitch ops alloc e ti x y jump).1.bounds.max_y
            ((SvgEmbEncoder.append_stitch ops alloc e ti x y jump).1.stitch_list.map
              (fun s => s.y)))) := by
    intro e alloc ti x y jump ih
    obtain ⟨cf, cs⟩ := svg_append_cases ops alloc e ti x y jump
    have bf := fun h => (cf h).1
    have lf := fun h => (cf h).2
    have bs := fun h => (cs h).1
    have ls := fun h => (cs h).2
    cases hflag : (SvgEmbEncoder.append_stitch ops alloc e ti x y jump).2
    · rw [bf hflag, lf hflag]; exact ih
    · rw [bs hflag, ls hflag]
      unfold SvgEmbEncoder.update_bounds
      by_cases hv : e.bounds.valid = true
      · obtain ⟨m1, m2, m3, m4⟩ := ih.2 hv
        simp only [hv, Bool.not_true, Bool.false_eq_true, if_false, List.map_append,
          List.map_cons, List.map_nil]
        refine ⟨by simp, fun _ => ?_⟩
        exact
          ⟨minimum_step ops hlt _ _ _ m1, minimum_step ops hlt _ _ _ m2,
            maximum_step ops hlt _ _ _ m3, maximum_step ops hlt _ _ _ m4⟩
      · have hv2 : e.bounds.valid = false := by simpa using hv
        have hl : e.stitch_list = [] := by
          by_contra hne
          exact hv (ih.1.2 hne)
        simp only [hv2, Bool.not_false, if_true, hl, List.nil_append, List.map_cons,
          List.map_nil]
        refine ⟨by simp, fun _ => ?_⟩
        exact
          ⟨⟨by simp, fun v hv => by simp at hv; rw [hv]; exact hlt.1 _⟩,
           ⟨by simp, fun v hv => by simp at hv; rw [hv]; exact hlt.1 _⟩,
           ⟨by simp, fun v hv => by simp at hv; rw [hv]; exact hlt.1 _⟩,
           ⟨by simp, fun v hv => by simp at hv; rw [hv]; exact hlt.1 _⟩⟩
  induction hr with
  | init =>
    exact ⟨⟨fun h => absurd h (by simp [SvgEmbEncoder.svg_emb_encoder_init]),
      fun h => absurd rfl h⟩, fun h => absurd h (by simp [SvgEmbEncoder.svg_emb_encoder_init])⟩
  | append_thread e thread _ ih =>
    unfold SvgEmbEncoder.svg_emb_append_thread
    split_ifs
    · exact ih
    · exact ih
  | append_stitch e alloc ti x y _ ih => exact step e alloc ti x y false ih
  | append_jump_stitch e alloc ti x y _ ih => exact step e alloc ti x y true ih
  | encode_transform e t _ ih => exact ih

theorem pes_update_bounds_monotone {F : Type} (ops : FloatOps F) (hlt : lt_strict_order ops)
    (b : PesEncoder.pes_bounds F) (x y : F) (hv : b.valid = true) :
    ops.lt b.min_x (PesEncoder.update_bounds ops b x y).min_x = false ∧
    ops.lt b.min_y (PesEncoder.update_bounds ops b x y).min_y = false ∧
    ops.lt (PesEncoder.update_bounds ops b x y).max_x b.max_x = false ∧
    ops.lt (PesEncoder.update_bounds ops b x y).max_y b.max_y = false := by
  unfold PesEncoder.update_bounds
  simp only [hv, Bool.not_true, Bool.false_eq_true, if_false]
  refine ⟨?_, ?_, ?_, ?_⟩
  · by_cases c : ops.lt x b.min_x = true
    · rw [if_pos c]; exact lt_asymm_of_strict ops hlt _ _ c
    · rw [if_neg c]; exact hlt.1 _
  · by_cases c : ops.lt y b.min_y = true
    · rw [if_pos c]; exact lt_asymm_of_strict ops hlt _ _ c
    · rw [if_neg c]; exact hlt.1 _
  · by_cases c : ops.lt b.max_x x = true
    · rw [if_pos c]; exact lt_asymm_of_strict ops hlt _ _ c
    · rw [if_neg c]; exact hlt.1 _
  · by_cases c : ops.lt b.max_y y = true
    · rw [if_pos c]; exact lt_asymm_of_strict ops hlt _ _ c
    · rw [if_neg c]; exact hlt.1 _

theorem svg_update_bounds_monotone {F : Type} (ops : FloatOps F) (hlt : lt_strict_order ops)
    (b : SvgEmbEncoder.svg_emb_bounds F) (x y : F) (hv : b.valid = true) :
    ops.lt b.min_x (SvgEmbEncoder.update_bounds ops b x y).min_x = false ∧
    ops.lt b.min_y (SvgEmbEncoder.update_bounds ops b x y).min_y = false ∧
    ops.lt (SvgEmbEncoder.update_bounds ops b x y).max_x b.max_x = false ∧
    ops.lt (SvgEmbEncoder.update_bounds ops b x y).max_y b.max_y = false := by
  unfold SvgEmbEncoder.update_bounds
  simp only [hv, Bool.not_true, Bool.false_eq_true, if_false]
  refine ⟨?_, ?_, ?_, ?_⟩
  · by_cases c : ops.lt x b.min_x = true
    · rw [if_pos c]; exact lt_asymm_of_strict ops hlt _ _ c
    · rw [if_neg c]; exact hlt.1 _
  · by_cases c : ops.lt y b.min_y = true
    · rw [if_pos c]; exact lt_asymm_of_strict ops hlt _ _ c
    · rw [if_neg c]; exact hlt.1 _
  · by_cases c : ops.lt b.max_x x = true
    · rw [if_pos c]; exact lt_asymm_of_strict ops hlt _ _ c
    · rw [if_neg c]; exact hlt.1 _
  · by_cases c : ops.lt b.max_y y = true
    · rw [if_pos c]; exact lt_asymm_of_strict ops hlt _ _ c
    · rw [if_neg c]; exact hlt.1 _

/-- C22. Bounds invariant of the PES and SVG embroidery encoders, for a float comparison
that is irreflexive and transitive. The bounds of a new encoder are invalid. In every
state reached by append operations the bounds are valid exactly when a stitch is
recorded, and then min_x, min_y, max_x, max_y are the minimum and the maximum of the x
and y coordinates of the recorded stitches. From such a state, appending a thread leaves
the bounds as they are, a failed stitch append (plain or jump) leaves them as they are,
and a successful one on valid bounds neither raises a minimum nor lowers a maximum. -/
theorem encoder_bounds_invariant {F : Type} (ops : FloatOps F) (hlt : lt_strict_order ops) :
    ((PesEncoder.pes_encoder_init ops).bounds.valid = false ∧
      ∀ e : PesEncoder.pes_encoder F, pes_reachable ops e →
        (e.bounds.valid = true ↔ e.stitch_list ≠ []) ∧
        (e.bounds.valid = true →
          is_minimum ops e.bounds.min_x (e.stitch_list.map (fun s => s.x)) ∧
          is_minimum ops e.bounds.min_y (e.stitch_list.map (fun s => s.y)) ∧
          is_maximum ops e.bounds.max_x (e.stitch_list.map (fun s => s.x)) ∧
          is_maximum ops e.bounds.max_y (e.stitch_list.map (fun s => s.y))) ∧
        (∀ thread, (PesEncoder.pes_append_thread e thread).1.bounds = e.bounds) ∧
        ∀ (alloc : PesEncoder.alloc_outcomes) (ti : Int) (x y : F) (jump : Bool),
          ((PesEncoder.append_stitch ops alloc e ti x y jump).2 = false →
            (PesEncoder.append_stitch ops alloc e ti x y jump).1.bounds = e.bounds) ∧
          ((PesEncoder.append_stitch ops alloc e ti x y jump).2 = true →
            e.bounds.valid = true →
            ops.lt e.bounds.min_x
              (PesEncoder.append_stitch ops alloc e ti x y jump).1.bounds.min_x = false ∧
            ops.lt e.bounds.min_y
              (PesEncoder.append_stitch ops alloc e ti x y jump).1.bounds.min_y = false ∧
            ops.lt (PesEncoder.append_stitch ops alloc e ti x y jump).1.bounds.max_x
              e.bounds.max_x = false ∧
            ops.lt (PesEncoder.append_stitch ops alloc e ti x y jump).1.bounds.max_y
              e.bounds.max_y = false)) ∧
    ((SvgEmbEncoder.svg_emb_encoder_init ops).bounds.valid = false ∧
      ∀ e : SvgEmbEncoder.svg_emb_encoder F, svg_reachable ops e →
        (e.bounds.valid = true ↔ e.stitch_list ≠ []) ∧
        (e.bounds.valid = true →
          is_minimum ops e.bounds.min_x (e.stitch_list.map (fun s => s.x)) ∧
          is_minimum ops e.bounds.min_y (e.stitch_list.map (fun s => s.y)) ∧
          is_maximum ops e.bounds.max_x (e.stitch_list.map (fun s => s.x)) ∧
          is_maximum ops e.bounds.max_y (e.stitch_list.map (fun s => s.y))) ∧
        (∀ thread, (SvgEmbEncoder.svg_emb_append_thread e thread).1.bounds = e.bounds) ∧
        ∀ (alloc : Bool) (ti : Int) (x y : F) (jump : Bool),
          ((SvgEmbEncoder.append_stitch ops alloc e ti x y jump).2 = false →
            (SvgEmbEncoder.append_stitch ops alloc e ti x y jump).1.bounds = e.bounds) ∧
          ((SvgEmbEncoder.append_stitch ops alloc e ti x y jump).2 = true →
            e.bounds.valid = true →
            ops.lt e.bounds.min_x
              (SvgEmbEncoder.append_stitch ops alloc e ti x y jump).1.bounds.min_x = false ∧
            ops.lt e.bounds.min_y
              (SvgEmbEncoder.append_stitch ops alloc e ti x y jump).1.bounds.min_y = false ∧
            ops.lt (SvgEmbEncoder.append_stitch ops alloc e ti x y jump).1.bounds.max_x
              e.bounds.max_x = false ∧
            ops.lt (SvgEmbEncoder.append_stitch ops alloc e ti x y jump).1.bounds.max_y
              e.bounds.max_y = false)) := by
  refine ⟨⟨rfl, fun e hr => ?_⟩, ⟨rfl, fun e hr => ?_⟩⟩
  · obtain ⟨h1, h2⟩ := pes_bounds_inv ops hlt e hr
    refine ⟨h1, h2, fun thread => ?_, fun alloc ti x y jump => ?_⟩
    · unfold PesEncoder.pes_append_thread
      split_ifs <;> rfl
    · obtain ⟨bf, bs⟩ := pes_append_bounds ops alloc e ti x y jump
      refine ⟨bf, fun hs hv => ?_⟩
      rw [bs hs]
      exact pes_update_bounds_monotone ops hlt e.bounds x y hv
  · obtain ⟨h1, h2⟩ := svg_bounds_inv ops hlt e hr
    refine ⟨h1, h2, fun thread => ?_, fun alloc ti x y jump => ?_⟩
    · unfold SvgEmbEncoder.svg_emb_append_thread
      split_ifs <;> rfl
    · obtain ⟨cf, cs⟩ := svg_append_cases ops alloc e ti x y jump
      refine ⟨fun h => (cf h).1, fun hs hv => ?_⟩
      rw [(cs hs).1]
      exact svg_update_bounds_monotone ops hlt e.bounds x y hv

theorem gridOps_lt_strict_order : lt_strict_order gridOps := by
  refine ⟨fun a => ?_, fun a b c h1 h2 => ?_⟩
  · show decide (a < a) = false
    simp
  · have h1 : decide (a < b) = true := h1
    have h2 : decide (b < c) = true := h2
    show decide (a < c) = true
    simp only [decide_eq_true_eq] at h1 h2 ⊢
    omega

/-- The bounds invariant holds on the fixed-point instance, whose comparison is that of
the integers. -/
theorem encoder_bounds_invariant_witness :
    lt_strict_order gridOps ∧
    (PesEncoder.pes_encoder_init gridOps).bounds.valid = false ∧
    (SvgEmbEncoder.svg_emb_encoder_init gridOps).bounds.valid = false :=
  ⟨gridOps_lt_strict_order,
    (encoder_bounds_invariant gridOps gridOps_lt_strict_order).1.1,
    (encoder_bounds_invariant gridOps gridOps_lt_strict_order).2.1⟩

/-! ## Encoders without stitches -/

theorem snprintf_length (size : Nat) (text : List Byte) :
    (snprintf size text).length ≤ size - 1 := by
  unfold snprintf
  exact le_trans (List.takeWhile_prefix _).length_le (List.length_take_le _ _)

theorem feed_single {σ : Type} (cb : encode_callback σ) (data : List Byte) :
    write cb data = feed cb [data] true := by
  funext s
  simp only [feed, and_then, test, write]
  by_cases c : (cb s data).2 = true
  · rw [if_pos c]; exact Prod.ext rfl c
  · rw [if_neg c]; exact Prod.ext rfl (by simpa using c)

theorem and_then_assoc {σ : Type} (a b c : encode_step σ) :
    and_then (and_then a b) c = and_then a (and_then b c) := by
  funext s
  simp only [and_then]
  by_cases h : (a s).2 = true
  · simp only [h, if_true]
  · simp only [h, if_false]
    simp

theorem and_then_test_left {σ : Type} (a : encode_step σ) : and_then (test true) a = a := by
  funext s
  simp [and_then, test]

theorem feed_append_true {σ : Type} (cb : encode_callback σ) (a b : List (List Byte)) :
    and_then (feed cb a true) (feed cb b true) = feed cb (a ++ b) true := by
  induction a with
  | nil => exact and_then_test_left _
  | cons c rest ih =>
    show and_then (and_then (write cb c) (feed cb rest true)) (feed cb b true) =
      and_then (write cb c) (feed cb (rest ++ b) true)
    rw [and_then_assoc, ih]

/-- A state of the SVG embroidery encoder without stitches has the bounds that
svg_emb_encoder_init sets. -/
theorem svg_unstitched_bounds {F : Type} (ops : FloatOps F)
    (e : SvgEmbEncoder.svg_emb_encoder F) (hr : svg_reachable ops e)
    (h : e.stitch_list = []) : e.bounds = (SvgEmbEncoder.svg_emb_encoder_init ops).bounds := by
  have step : ∀ (e : SvgEmbEncoder.svg_emb_encoder F) (alloc : Bool) (ti : Int) (x y : F)
      (jump : Bool),
      (e.stitch_list = [] → e.bounds = (SvgEmbEncoder.svg_emb_encoder_init ops).bounds) →
      (SvgEmbEncoder.append_stitch ops alloc e ti x y jump).1.stitch_list = [] →
      (SvgEmbEncoder.append_stitch ops alloc e ti x y jump).1.bounds =
        (SvgEmbEncoder.svg_emb_encoder_init ops).bounds := by
    intro e alloc ti x y jump ih h
    obtain ⟨cf, cs⟩ := svg_append_cases ops alloc e ti x y jump
    cases hflag : (SvgEmbEncoder.append_stitch ops alloc e ti x y jump).2 with
    | false =>
      rw [(cf hflag).1]
      rw [(cf hflag).2] at h
      exact ih h
    | true =>
      rw [(cs hflag).2] at h
      simp at h
  induction hr with
  | init => rfl
  | append_thread e thread _ ih =>
    have hb : (SvgEmbEncoder.svg_emb_append_thread e thread).1.bounds = e.bounds := by
      unfold SvgEmbEncoder.svg_emb_append_thread
      split_ifs <;> rfl
    have hl : (SvgEmbEncoder.svg_emb_append_thread e thread).1.stitch_list = e.stitch_list := by
      unfold SvgEmbEncoder.svg_emb_append_thread
      split_ifs <;> rfl
    rw [hb]
    rw [hl] at h
    exact ih h
  | append_stitch e alloc ti x y _ ih => exact step e alloc ti x y false ih h
  | append_jump_stitch e alloc ti x y _ ih => exact step e alloc ti x y true ih h
  | encode_transform e t _ ih => exact ih h

/-- The run of svg_emb_encode on a state without stitches offers the callback the chunks
of the skeleton. -/
theorem svg_encode_unstitched {F : Type} (ops : FloatOps F) (txt : SvgOps F)
    (e : SvgEmbEncoder.svg_emb_encoder F)
    (hb : e.bounds = (SvgEmbEncoder.svg_emb_encoder_init ops).bounds)
    (h : e.stitch_list = []) (σ : Type) (cb : encode_callback σ) :
    SvgEmbEncoder.svg_emb_encode txt e cb =
      feed cb (svg_skeleton ops txt e.affine_transform) true := by
  unfold SvgEmbEncoder.svg_emb_encode SvgEmbEncoder.encode_header
    SvgEmbEncoder.encode_transform_header SvgEmbEncoder.encode_stitch_list
    SvgEmbEncoder.encode_transform_footer SvgEmbEncoder.encode_footer svg_skeleton
  have hc : e.stitch_count = 0 := by
    unfold SvgEmbEncoder.svg_emb_encoder.stitch_count
    rw [h]; rfl
  simp only [h, hb, hc, SvgEmbEncoder.encode_stitch_loop, if_true,
    SvgEmbEncoder.svg_emb_encoder_init]
  by_cases c : txt.pes_is_identity_transform e.affine_transform = true
  · simp only [c, if_true, feed_single, and_then_test_left, feed_append_true]
    simp
  · simp only [c, if_false, Bool.false_eq_true, feed_single, and_then_test_left,
      feed_append_true]
    simp

theorem skeleton_sizes (H G : List Byte) (hH : H.length ≤ 1024 - 1) (hG : G.length ≤ 256 - 1)
    (identity : Bool) :
    (∀ c ∈ [H] ++ (if identity = true then [] else [G, ascii "  </g>\n"]) ++
        [ascii "</svg>\n"], c.length ≤ 0xFFFF) ∧
    0 < ([H] ++ (if identity = true then [] else [G, ascii "  </g>\n"]) ++
        [ascii "</svg>\n"]).flatten.length ∧
    ([H] ++ (if identity = true then [] else [G, ascii "  </g>\n"]) ++
        [ascii "</svg>\n"]).flatten.length ≤ 2147483647 := by
  have h1 : (ascii "  </g>\n").length = 7 := by decide
  have h2 : (ascii "</svg>\n").length = 7 := by decide
  cases identity with
  | true =>
    simp only [if_true, List.append_nil]
    refine ⟨fun c hc => ?_, ?_, ?_⟩
    · simp only [List.cons_append, List.nil_append, List.mem_cons, List.mem_singleton,
        List.not_mem_nil, or_false] at hc
      rcases hc with rfl | rfl <;> omega
    · simp only [List.cons_append, List.nil_append, List.flatten_cons, List.flatten_nil,
        List.length_append, List.append_nil]
      omega
    · simp only [List.cons_append, List.nil_append, List.flatten_cons, List.flatten_nil,
        List.length_append, List.append_nil]
      omega
  | false =>
    simp only [Bool.false_eq_true, if_false]
    refine ⟨fun c hc => ?_, ?_, ?_⟩
    · simp only [List.cons_append, List.nil_append, List.mem_cons, List.mem_singleton,
        List.not_mem_nil, or_false] at hc
      rcases hc with rfl | rfl | rfl | rfl <;> omega
    · simp only [List.cons_append, List.nil_append, List.flatten_cons, List.flatten_nil,
        List.length_append, List.append_nil]
      omega
    · simp only [List.cons_append, List.nil_append, List.flatten_cons, List.flatten_nil,
        List.length_append, List.append_nil]
      omega

theorem svg_skeleton_sizes {F : Type} (ops : FloatOps F) (txt : SvgOps F)
    (t : PesEncoder.pes_transform F) :
    (∀ c ∈ svg_skeleton ops txt t, c.length ≤ 0xFFFF) ∧
    0 < (svg_skeleton ops txt t).flatten.length ∧
    (svg_skeleton ops txt t).flatten.length ≤ 2147483647 := by
  unfold svg_skeleton
  exact skeleton_sizes _ _ (snprintf_length 1024 _) (snprintf_length 256 _) _

theorem both_none_left (b : Option (List Byte)) : both none b = none := rfl

/-- A state of the PES encoder on which no stitch append has been called has the PEC
encoder that pes_encoder_init sets and no stitch. -/
theorem pes_unstitched_inv {F : Type} (ops : FloatOps F) (e : PesEncoder.pes_encoder F)
    (hr : pes_unstitched ops e) :
    e.pec_encoder = PecEncoder.pec_encoder_init ops ∧ e.stitch_list = [] := by
  induction hr with
  | init => exact ⟨rfl, rfl⟩
  | append_thread e thread _ ih =>
    unfold PesEncoder.pes_append_thread
    split_ifs
    · exact ih
    · exact ih
  | encode_transform e t _ ih => exact ih

/-- The encoder pes_encode1 fails on a state whose PEC encoder has no thread: the guard
of encode_threads refuses the PEC section. -/
theorem pes_encode1_none_of_no_thread {F : Type} (ops : FloatOps F)
    (e : PesEncoder.pes_encoder F) (h : e.pec_encoder.thread_count < 1) :
    PesEncoder.pes_encode1 ops e = none := by
  have h1 : PecEncoder.encode_threads e.pec_encoder = none := by
    unfold PecEncoder.encode_threads
    rw [if_pos (Or.inl h)]
  have h2 : PesEncoder.encode_pec ops e = none := by
    unfold PesEncoder.encode_pec PecEncoder.pec_encode
    rw [h1]
    simp only [both_none_right, both_none_left]
  unfold PesEncoder.pes_encode1
  rw [h2]
  simp only [both_none_right]

theorem pes_encode1_fails_of_no_thread {F : Type} (ops : FloatOps F)
    (e : PesEncoder.pes_encoder F) (h : e.pec_encoder.thread_count < 1) :
    (∀ (σ : Type) (cb : encode_callback σ) (s : σ),
      (PesCallback.pes_encode1 ops e cb s).2 = false) ∧
    PesCallback.pes_encode1_size ops e = 0 := by
  have hn := pes_encode1_none_of_no_thread ops e h
  have hm := models_pes_encode1 ops e
  rw [hn] at hm
  refine ⟨fun σ cb s => models_none _ hm σ cb s, ?_⟩
  unfold PesCallback.pes_encode1_size PesCallback.pes_encode_size
  rw [if_pos (models_none _ hm Int encoded_size 0)]

/-- C21 fails for pes_encode1: on the PES encoder that pes_encoder_init returns, to which
no stitch has been appended, pes_encode1 on the accepting callback returns false and
pes_encode1_size is 0, not positive. -/
theorem pes_encode1_unstitched_counterexample :
    (PesEncoder.pes_encoder_init gridOps).stitch_list = [] ∧
    (PesCallback.pes_encode1 gridOps (PesEncoder.pes_encoder_init gridOps)
      store_chunk []).2 = false ∧
    ¬ 0 < PesCallback.pes_encode1_size gridOps (PesEncoder.pes_encoder_init gridOps) := by
  have h := pes_encode1_fails_of_no_thread gridOps (PesEncoder.pes_encoder_init gridOps)
    (by decide)
  refine ⟨rfl, h.1 _ store_chunk [], ?_⟩
  rw [h.2]
  decide

/-- C21, amended. On an SVG embroidery encoder without stitches svg_emb_encode offers
every callback the chunks of the skeleton (the header with prolog, DOCTYPE and the svg
element of width and height 0.0 - 0.0, the g element tags unless the transform is the
identity, and the closing svg tag, without any path element), succeeds on the accepting
callback, and svg_emb_encode_size is the positive length of that text. On a PES encoder
on which no stitch append has been called, pes_encode1 returns false on every callback
and pes_encode1_size is 0. -/
theorem unstitched_encode {F : Type} (ops : FloatOps F) (txt : SvgOps F) :
    (∀ e : SvgEmbEncoder.svg_emb_encoder F, svg_reachable ops e → e.stitch_list = [] →
      (∀ (σ : Type) (cb : encode_callback σ),
        SvgEmbEncoder.svg_emb_encode txt e cb =
          feed cb (svg_skeleton ops txt e.affine_transform) true) ∧
      SvgEmbEncoder.svg_emb_encode txt e store_chunk [] =
        ((svg_skeleton ops txt e.affine_transform).flatten, true) ∧
      SvgEmbEncoder.svg_emb_encode_size txt e =
        (svg_skeleton ops txt e.affine_transform).flatten.length ∧
      0 < SvgEmbEncoder.svg_emb_encode_size txt e) ∧
    (∀ e : PesEncoder.pes_encoder F, pes_unstitched ops e →
      e.stitch_list = [] ∧
      (∀ (σ : Type) (cb : encode_callback σ) (s : σ),
        (PesCallback.pes_encode1 ops e cb s).2 = false) ∧
      PesCallback.pes_encode1_size ops e = 0) := by
  refine ⟨fun e hr hl => ?_, fun e hu => ?_⟩
  · have hrun := svg_encode_unstitched ops txt e (svg_unstitched_bounds ops e hr hl) hl
    obtain ⟨hc, hpos, hmax⟩ := svg_skeleton_sizes ops txt e.affine_transform
    have hsize : SvgEmbEncoder.svg_emb_encode txt e encoded_size 0 =
        (((svg_skeleton ops txt e.affine_transform).flatten.length : Int), true) := by
      rw [hrun Int encoded_size]
      have := (feed_encoded_size _ true hc 0 (le_refl _) (by norm_num)).1
        (by simp only [zero_add]; exact_mod_cast hmax)
      rw [this, zero_add]
    have hs : SvgEmbEncoder.svg_emb_encode_size txt e =
        (svg_skeleton ops txt e.affine_transform).flatten.length := by
      unfold SvgEmbEncoder.svg_emb_encode_size
      rw [hsize]
      simp
    refine ⟨hrun, ?_, hs, ?_⟩
    · rw [hrun (List Byte) store_chunk, feed_store_chunk]
      rfl
    · rw [hs]
      exact_mod_cast hpos
  · obtain ⟨hp, hl⟩ := pes_unstitched_inv ops e hu
    have ht : e.pec_encoder.thread_count < 1 := by
      rw [hp]
      show ((0 : Nat) : Int) < 1
      norm_num
    exact ⟨hl, pes_encode1_fails_of_no_thread ops e ht⟩

/-- The amended statement applies to unstitched_svg_encoder, which has one thread, a
translation and no stitch, and to unstitched_pes_encoder. -/
theorem unstitched_encode_witness :
    (svg_reachable gridOps unstitched_svg_encoder ∧ unstitched_svg_encoder.stitch_list = [] ∧
      0 < SvgEmbEncoder.svg_emb_encode_size gridSvgOps unstitched_svg_encoder) ∧
    (pes_unstitched gridOps unstitched_pes_encoder ∧
      PesCallback.pes_encode1_size gridOps unstitched_pes_encoder = 0) :=
  ⟨⟨svg_reachable.encode_transform _ _ (svg_reachable.append_thread _ _ svg_reachable.init),
      rfl,
      ((unstitched_encode gridOps gridSvgOps).1 unstitched_svg_encoder
        (svg_reachable.encode_transform _ _
          (svg_reachable.append_thread _ _ svg_reachable.init)) rfl).2.2.2⟩,
    ⟨pes_unstitched.append_thread _ _ pes_unstitched.init,
      ((unstitched_encode gridOps gridSvgOps).2 unstitched_pes_encoder
        (pes_unstitched.append_thread _ _ pes_unstitched.init)).2.2⟩⟩

/-! ## Thumbnails: the pixels of the encoder and of the decoder -/

theorem plot_pixel_byte : ∀ b : Fin 256, ∀ i j : Fin 8,
    (((b.val ||| (1 <<< i.val)) % 256) &&& (1 <<< j.val) ≠ 0) ↔
      (b.val &&& (1 <<< j.val) ≠ 0 ∨ j = i) := by decide

theorem thumbnail_plot_length (t : PecEncoder.pec_thumbnail) (c r : Int) :
    (PecEncoder.thumbnail_plot t c r).image.length = t.image.length := by
  unfold PecEncoder.thumbnail_plot
  split_ifs
  · simp
  · rfl

/-- The effect of thumbnail_plot on the pixels of an image: within the image, the pixel
`(x, y)` is set after the call for `(c, r)` when it was set before or is `(c, r)`. -/
theorem thumbnail_plot_pixel (t : PecEncoder.pec_thumbnail) (hl : t.image.length = 228)
    (c r x y : Int) (hx0 : 0 ≤ x) (hx1 : x < 48) (hy0 : 0 ≤ y) (hy1 : y < 38) :
    thumbnail_pixel (PecEncoder.thumbnail_plot t c r) x y = true ↔
      (thumbnail_pixel t x y = true ∨ (x = c ∧ y = r)) := by
  unfold PecEncoder.thumbnail_plot
  by_cases hin : 0 ≤ c ∧ c < PecEncoder.PEC_THUMBNAIL_WIDTH ∧ 0 ≤ r ∧
      r < PecEncoder.PEC_THUMBNAIL_HEIGHT
  · rw [if_pos hin]
    obtain ⟨hc0, hc1, hr0, hr1⟩ := hin
    have hc1 : c < 48 := hc1
    have hr1 : r < 38 := hr1
    unfold thumbnail_pixel
    simp only [decide_eq_true_eq, List.getD_eq_getElem?_getD, List.getElem?_modify]
    have hm : (6 * y + x / 8).toNat < t.image.length := by omega
    rw [List.getElem?_eq_getElem hm]
    simp only [Option.map_eq_map, Option.map_some', Option.getD_some]
    by_cases hsame : (6 * r + c / 8).toNat = (6 * y + x / 8).toNat
    · rw [if_pos hsame]
      have hi : (c % 8).toNat < 8 := by omega
      have hj : (x % 8).toNat < 8 := by omega
      have key := plot_pixel_byte (t.image[(6 * y + x / 8).toNat]) ⟨(c % 8).toNat, hi⟩
        ⟨(x % 8).toNat, hj⟩
      simp only [Fin.mk.injEq] at key
      show ((t.image[(6 * y + x / 8).toNat].val ||| 1 <<< (c % 8).toNat) % 256) &&&
        1 <<< (x % 8).toNat ≠ 0 ↔ _
      rw [key]
      constructor
      · rintro (h | h)
        · exact Or.inl h
        · exact Or.inr ⟨by omega, by omega⟩
      · rintro (h | ⟨h1, h2⟩)
        · exact Or.inl h
        · exact Or.inr (by rw [h1])
    · rw [if_neg hsame]
      constructor
      · intro h; exact Or.inl h
      · rintro (h | ⟨h1, h2⟩)
        · exact h
        · exact absurd (by rw [h1, h2]) hsame
  · rw [if_neg hin]
    constructor
    · intro h; exact Or.inl h
    · rintro (h | ⟨h1, h2⟩)
      · exact h
      · exact absurd ⟨by omega, by rw [← h1]; exact hx1, by omega, by rw [← h2]; exact hy1⟩ hin

theorem plot_all_length (pixels : List (Int × Int)) :
    ∀ t : PecEncoder.pec_thumbnail, (plot_all t pixels).image.length = t.image.length := by
  induction pixels with
  | nil => intro t; rfl
  | cons p rest ih =>
    intro t
    show (plot_all (PecEncoder.thumbnail_plot t p.1 p.2) rest).image.length = _
    rw [ih, thumbnail_plot_length]

/-- The pixels set after a sequence of thumbnail_plot calls are those set before and those
of the calls. -/
theorem plot_all_pixel (pixels : List (Int × Int)) :
    ∀ (t : PecEncoder.pec_thumbnail), t.image.length = 228 →
    ∀ (x y : Int), 0 ≤ x → x < 48 → 0 ≤ y → y < 38 →
      (thumbnail_pixel (plot_all t pixels) x y = true ↔
        (thumbnail_pixel t x y = true ∨ (x, y) ∈ pixels)) := by
  induction pixels with
  | nil => intro t _ x y _ _ _ _; simp [plot_all]
  | cons p rest ih =>
    intro t hl x y hx0 hx1 hy0 hy1
    show thumbnail_pixel (plot_all (PecEncoder.thumbnail_plot t p.1 p.2) rest) x y = true ↔ _
    rw [ih _ (by rw [thumbnail_plot_length, hl]) x y hx0 hx1 hy0 hy1,
      thumbnail_plot_pixel t hl p.1 p.2 x y hx0 hx1 hy0 hy1]
    simp only [List.mem_cons, Prod.ext_iff]
    tauto

theorem foldl_flatMap_pairs {α : Type} (f : α → Int × Int) (g : α → Int × Int) (l : List α) :
    ∀ t : PecEncoder.pec_thumbnail,
      l.foldl (fun t i => PecEncoder.thumbnail_plot
        (PecEncoder.thumbnail_plot t (f i).1 (f i).2) (g i).1 (g i).2) t =
      plot_all t (l.flatMap (fun i => [f i, g i])) := by
  induction l with
  | nil => intro t; rfl
  | cons a rest ih =>
    intro t
    simp only [List.foldl_cons, List.flatMap_cons, ih]
    rfl

theorem plot_all_append (a b : List (Int × Int)) (t : PecEncoder.pec_thumbnail) :
    plot_all t (a ++ b) = plot_all (plot_all t a) b := by
  unfold plot_all
  rw [List.foldl_append]

/-- The function thumbnail_frame is the sequence of plots of frame_pixels. -/
theorem thumbnail_frame_eq (t : PecEncoder.pec_thumbnail) :
    PecEncoder.thumbnail_frame t = plot_all t frame_pixels := by
  unfold PecEncoder.thumbnail_frame frame_pixels
  rw [plot_all_append, plot_all_append]
  rw [← foldl_flatMap_pairs (fun i : Nat => (4 + (i : Int), 1)) (fun i => (4 + (i : Int), 36)),
    ← foldl_flatMap_pairs (fun i : Nat => (1, 4 + (i : Int))) (fun i => (46, 4 + (i : Int)))]
  rfl

theorem thumbnail_frame_length (t : PecEncoder.pec_thumbnail) :
    (PecEncoder.thumbnail_frame t).image.length = t.image.length := by
  rw [thumbnail_frame_eq, plot_all_length]

theorem frame_pixels_in_range :
    ∀ p ∈ frame_pixels, 0 ≤ p.1 ∧ p.1 < 48 ∧ 0 ≤ p.2 ∧ p.2 < 38 := by decide

theorem foldl_framed_plot_length {F : Type} (ops : FloatOps F)
    (bounds : PecEncoder.pec_bounds F) (fx fy : Int → F) (l : List Int) :
    ∀ t : PecEncoder.pec_thumbnail,
      (l.foldl (fun t i => PecEncoder.thumbnail_framed_plot ops t (fx i) (fy i) bounds)
        t).image.length = t.image.length := by
  induction l with
  | nil => intro t; rfl
  | cons i rest ih =>
    intro t
    simp only [List.foldl_cons]
    rw [ih]
    unfold PecEncoder.thumbnail_framed_plot
    split
    · exact thumbnail_plot_length _ _ _
    · rfl

theorem thumbnail_framed_line_length {F : Type} (ops : FloatOps F)
    (t : PecEncoder.pec_thumbnail) (a b : PecEncoder.pec_stitch F)
    (bounds : PecEncoder.pec_bounds F) :
    (PecEncoder.thumbnail_framed_line ops t a b bounds).image.length = t.image.length := by
  unfold PecEncoder.thumbnail_framed_line
  split_ifs
  · rfl
  · exact foldl_framed_plot_length ops bounds (fun i => ops.lerp i a.x b.x)
      (fun i => ops.lerp i a.y b.y) _ t

theorem thumbnail_all_lines_length {F : Type} (ops : FloatOps F)
    (bounds : PecEncoder.pec_bounds F) :
    ∀ (l : List (PecEncoder.pec_stitch F)) (t : PecEncoder.pec_thumbnail),
      (PecEncoder.thumbnail_all_lines ops bounds t l).image.length = t.image.length
  | [], _ => rfl
  | [_], _ => rfl
  | a :: b :: rest, t => by
    rw [PecEncoder.thumbnail_all_lines, thumbnail_all_lines_length ops bounds (b :: rest),
      thumbnail_framed_line_length]

theorem thumbnail_run_lines_length {F : Type} (ops : FloatOps F)
    (e : PecEncoder.pec_encoder F) :
    ∀ (fuel : Nat) (t : PecEncoder.pec_thumbnail) (k : Nat),
      (PecEncoder.thumbnail_run_lines ops e fuel t k).1.image.length = t.image.length
  | 0, _, _ => rfl
  | fuel + 1, t, k => by
    unfold PecEncoder.thumbnail_run_lines
    split
    · rfl
    · split_ifs
      · split
        · rfl
        · rw [thumbnail_run_lines_length ops e fuel, thumbnail_framed_line_length]
      · rfl

/-- The layout of a successful pec_encode output, as far as the thumbnails need it: 532
bytes of header, with the thumbnail size at 34 and 35 and the offset of the thumbnails
minus 512 at 514 and 515, the stitch stream, and the output of encode_thumbnail_list. -/
theorem pec_thumbnail_layout {F : Type} (ops : FloatOps F) (e : PecEncoder.pec_encoder F)
    (out : List Byte) (h : PecEncoder.pec_encode ops e = some out) :
    ∃ (pre stream thumbs : List Byte) (lo hi : Byte),
      out = pre ++ (stream ++ thumbs) ∧ pre.length = 532 ∧
      pre[34]? = some 6 ∧ pre[35]? = some 38 ∧ pre[514]? = some lo ∧ pre[515]? = some hi ∧
      lo.val + 256 * hi.val = 20 + stream.length ∧
      PecEncoder.encode_stitch_list ops e = some stream ∧
      PecEncoder.encode_thumbnail_list ops e = some thumbs ∧
      1 ≤ e.palette.length ∧ e.palette.length ≤ 256 := by
  obtain ⟨cnt, lo, hi, pal, sz, stream, thumbs, hpal, hsz, hstream, hthumbs, hn1, hn2, hcnt,
    hlohi, rfl⟩ := pec_encode_eq_some ops e out h
  obtain ⟨hpl, -⟩ := encode_palette_eq_some e.palette pal hpal
  have hszl := encode_size_eq_some ops e sz hsz
  have hhead : pec_head.length = 48 := rfl
  have hP : (pec_head ++ ([cnt] ++ (pal ++
      List.replicate (463 - e.palette.length) (32 : Byte)))).length = 512 := by
    simp only [List.length_append, hhead, List.length_singleton, hpl, List.length_replicate]
    omega
  refine ⟨(pec_head ++ ([cnt] ++ (pal ++ List.replicate (463 - e.palette.length) 32))) ++
      ([0, 0, lo, hi, 0x00, 0x31, 0xFF, 0xF0] ++ sz), stream, thumbs, lo, hi, ?_, ?_, ?_, ?_,
      ?_, ?_, ?_, hstream, hthumbs, hn1, hn2⟩
  · simp only [List.append_assoc]
  · rw [List.length_append, hP]
    simp only [List.length_append, List.length_cons, List.length_nil, hszl]
  · rw [List.getElem?_append_left (by rw [hP]; decide),
      List.getElem?_append_left (by rw [hhead]; decide)]
    rfl
  · rw [List.getElem?_append_left (by rw [hP]; decide),
      List.getElem?_append_left (by rw [hhead]; decide)]
    rfl
  · rw [List.getElem?_append_right (by rw [hP]; decide), hP]; rfl
  · rw [List.getElem?_append_right (by rw [hP]; decide), hP]; rfl
  · have h1 := lo.isLt
    have h2 := hi.isLt
    omega

theorem encode_thumbnail_rows_eq (t : PecEncoder.pec_thumbnail) (hl : t.image.length = 228) :
    PecEncoder.encode_thumbnail_rows t = some t.image := by
  have h1 : PecEncoder.encode_thumbnail_rows t =
      some ((List.range 228).map (fun j => t.image.getD j 0)) := rfl
  rw [h1]
  congr 1
  apply List.ext_getElem
  · simp [hl]
  · intro n h2 h3
    simp only [List.getElem_map, List.getElem_range, List.getD_eq_getElem?_getD]
    rw [List.getElem?_eq_getElem h3]
    rfl

theorem thread_thumbnail_images_spec {F : Type} (ops : FloatOps F)
    (e : PecEncoder.pec_encoder F) :
    ∀ (n k : Nat),
      (thread_thumbnail_images ops e n k).length = n ∧
      (∀ t ∈ thread_thumbnail_images ops e n k, t.image.length = 228) ∧
      PecEncoder.encode_thread_thumbnails ops e n k =
        some ((thread_thumbnail_images ops e n k).flatMap (fun t => t.image))
  | 0, _ => ⟨rfl, fun t ht => by simp [thread_thumbnail_images] at ht, rfl⟩
  | n + 1, k => by
    obtain ⟨h1, h2, h3⟩ := thread_thumbnail_images_spec ops e n
      ((PecEncoder.thumbnail_run_lines ops e e.stitch_list.length
        PecEncoder.thumbnail_zero k).2 + 1)
    have hl : (PecEncoder.thumbnail_frame (PecEncoder.thumbnail_run_lines ops e
        e.stitch_list.length PecEncoder.thumbnail_zero k).1).image.length = 228 := by
      rw [thumbnail_frame_length, thumbnail_run_lines_length]
      rfl
    refine ⟨?_, ?_, ?_⟩
    · simp only [thread_thumbnail_images, List.length_cons, h1]
    · intro t ht
      simp only [thread_thumbnail_images, List.mem_cons] at ht
      rcases ht with rfl | ht
      · exact hl
      · exact h2 t ht
    · simp only [PecEncoder.encode_thread_thumbnails, thread_thumbnail_images,
        List.flatMap_cons]
      rw [h3]
      unfold PecEncoder.encode_thumbnail
      rw [encode_thumbnail_rows_eq _ hl]
      rfl

/-- The output of encode_thumbnail_list is the images of encoder_thumbnails one after the
other, each of 228 bytes, one more than there are threads. -/
theorem encoder_thumbnails_spec {F : Type} (ops : FloatOps F) (e : PecEncoder.pec_encoder F) :
    (encoder_thumbnails ops e).length = e.palette.length + 1 ∧
    (∀ t ∈ encoder_thumbnails ops e, t.image.length = 228) ∧
    PecEncoder.encode_thumbnail_list ops e =
      some ((encoder_thumbnails ops e).flatMap (fun t => t.image)) := by
  obtain ⟨h1, h2, h3⟩ := thread_thumbnail_images_spec ops e e.palette.length 1
  have hl : (PecEncoder.thumbnail_frame (PecEncoder.thumbnail_all_lines ops e.bounds
      PecEncoder.thumbnail_zero e.stitch_list)).image.length = 228 := by
    rw [thumbnail_frame_length, thumbnail_all_lines_length]
    rfl
  refine ⟨?_, ?_, ?_⟩
  · simp only [encoder_thumbnails, List.length_cons, h1]
  · intro t ht
    simp only [encoder_thumbnails, List.mem_cons] at ht
    rcases ht with rfl | ht
    · exact hl
    · exact h2 t ht
  · simp only [PecEncoder.encode_thumbnail_list, encoder_thumbnails, List.flatMap_cons]
    rw [h3]
    unfold PecEncoder.encode_thumbnail
    rw [encode_thumbnail_rows_eq _ hl]
    rfl

theorem images_at (ts : List PecEncoder.pec_thumbnail) :
    (∀ t ∈ ts, t.image.length = 228) →
    ∀ (k : Nat) (t : PecEncoder.pec_thumbnail), ts[k]? = some t →
      ((ts.flatMap (fun t => t.image)).drop (228 * k)).take 228 = t.image := by
  induction ts with
  | nil => intro _ k t h; simp at h
  | cons a rest ih =>
    intro hall k t h
    have ha : a.image.length = 228 := hall a (List.mem_cons_self _ _)
    cases k with
    | zero =>
      simp only [List.getElem?_cons_zero, Option.some.injEq] at h
      subst h
      simp only [List.flatMap_cons, Nat.mul_zero, List.drop_zero]
      rw [List.take_append_of_le_length (by omega), List.take_of_length_le (by omega)]
    | succ k =>
      simp only [List.getElem?_cons_succ] at h
      simp only [List.flatMap_cons]
      have e1 : 228 * (k + 1) = a.image.length + 228 * k := by omega
      rw [e1, List.drop_append]
      exact ih (fun t ht => hall t (List.mem_cons_of_mem _ ht)) k t h

theorem thread_thumbnail_images_framed {F : Type} (ops : FloatOps F)
    (e : PecEncoder.pec_encoder F) :
    ∀ (n k : Nat), ∀ t ∈ thread_thumbnail_images ops e n k,
      ∃ t0 : PecEncoder.pec_thumbnail, t0.image.length = 228 ∧
        t = PecEncoder.thumbnail_frame t0
  | 0, _ => fun t ht => by simp [thread_thumbnail_images] at ht
  | n + 1, k => by
    intro t ht
    simp only [thread_thumbnail_images, List.mem_cons] at ht
    rcases ht with rfl | ht
    · exact ⟨_, by rw [thumbnail_run_lines_length]; rfl, rfl⟩
    · exact thread_thumbnail_images_framed ops e n _ t ht

theorem encoder_thumbnails_framed {F : Type} (ops : FloatOps F) (e : PecEncoder.pec_encoder F) :
    ∀ t ∈ encoder_thumbnails ops e,
      ∃ t0 : PecEncoder.pec_thumbnail, t0.image.length = 228 ∧
        t = PecEncoder.thumbnail_frame t0 := by
  intro t ht
  simp only [encoder_thumbnails, List.mem_cons] at ht
  rcases ht with rfl | ht
  · exact ⟨_, by rw [thumbnail_all_lines_length]; rfl, rfl⟩
  · exact thread_thumbnail_images_framed ops e _ _ t ht

/-- The layout of a successful pec_encode output with the thumbnails as the images of
encoder_thumbnails. -/
theorem pec_thumbnail_layout_images {F : Type} (ops : FloatOps F)
    (e : PecEncoder.pec_encoder F) (out : List Byte)
    (h : PecEncoder.pec_encode ops e = some out) :
    ∃ (pre stream : List Byte) (lo hi : Byte),
      out = pre ++ (stream ++ (encoder_thumbnails ops e).flatMap (fun t => t.image)) ∧
      pre.length = 532 ∧
      pre[34]? = some 6 ∧ pre[35]? = some 38 ∧ pre[514]? = some lo ∧ pre[515]? = some hi ∧
      lo.val + 256 * hi.val = 20 + stream.length ∧
      PecEncoder.encode_stitch_list ops e = some stream ∧
      1 ≤ e.palette.length ∧ e.palette.length ≤ 256 := by
  obtain ⟨pre, stream, thumbs, lo, hi, hout, hpre, h34, h35, h514, h515, hoff, hstream,
    hthumbs, hn1, hn2⟩ := pec_thumbnail_layout ops e out h
  obtain ⟨-, -, hlist⟩ := encoder_thumbnails_spec ops e
  have hlist2 : thumbs = (encoder_thumbnails ops e).flatMap (fun t => t.image) :=
    Option.some.inj (hthumbs.symm.trans hlist)
  refine ⟨pre, stream, lo, hi, ?_, hpre, h34, h35, h514, h515, hoff, hstream, hn1, hn2⟩
  rw [hout, hlist2]

theorem decode_u16lsb_at (d : PecDecoder.pec_decoder) (off : Nat) (lo hi : Byte)
    (h0 : d.data[off]? = some lo) (h1 : d.data[off + 1]? = some hi) :
    PecDecoder.decode_u16lsb d off = some (lo.val + 256 * hi.val) := by
  unfold PecDecoder.decode_u16lsb PecDecoder.pec_decoder.size
  have hlt : off + 1 < d.data.length := by
    rcases Nat.lt_or_ge (off + 1) d.data.length with h | h
    · exact h
    · rw [List.getElem?_eq_none h] at h1; cases h1
  have hc : ¬ ((off : Int) < 0 ∨ (d.data.length : Int) < off + 2) := by omega
  rw [if_neg hc]
  have e0 : ((off : Int)).toNat = off := by omega
  have e1 : ((off : Int) + 1).toNat = off + 1 := by omega
  rw [e0, e1, List.getD_eq_getElem?_getD, List.getD_eq_getElem?_getD, h0, h1]
  simp only [Option.getD_some]
  rw [lor_shift8]

/-- The pixel that pec_thumbnail_pixel reads from a PEC container whose thumbnails are the
images `ts` is the pixel of image `k`. -/
theorem pec_thumbnail_pixel_eq (pre stream : List Byte) (lo hi : Byte)
    (ts : List PecEncoder.pec_thumbnail) (hpre : pre.length = 532)
    (h34 : pre[34]? = some 6) (h35 : pre[35]? = some 38)
    (h514 : pre[514]? = some lo) (h515 : pre[515]? = some hi)
    (hoff : lo.val + 256 * hi.val = 20 + stream.length)
    (hall : ∀ t ∈ ts, t.image.length = 228)
    (k : Nat) (t : PecEncoder.pec_thumbnail) (hk : ts[k]? = some t)
    (x y : Int) (hx0 : 0 ≤ x) (hx1 : x < 48) (hy0 : 0 ≤ y) (hy1 : y < 38) :
    PecDecoder.pec_thumbnail_width ⟨pre ++ (stream ++ ts.flatMap (fun t => t.image))⟩ = 48 ∧
    PecDecoder.pec_thumbnail_height ⟨pre ++ (stream ++ ts.flatMap (fun t => t.image))⟩ = 38 ∧
    PecDecoder.pec_thumbnail_pixel ⟨pre ++ (stream ++ ts.flatMap (fun t => t.image))⟩ k x y =
      thumbnail_pixel t x y := by
  have hw : PecDecoder.pec_thumbnail_width
      ⟨pre ++ (stream ++ ts.flatMap (fun t => t.image))⟩ = 48 := by
    unfold PecDecoder.pec_thumbnail_width
    rw [decode_u8_eq _ 34 (by decide) 6
      (by show (pre ++ _)[34]? = _; rw [List.getElem?_append_left (by omega)]; exact h34)]
    rfl
  have hh : PecDecoder.pec_thumbnail_height
      ⟨pre ++ (stream ++ ts.flatMap (fun t => t.image))⟩ = 38 := by
    unfold PecDecoder.pec_thumbnail_height
    rw [decode_u8_eq _ 35 (by decide) 38
      (by show (pre ++ _)[35]? = _; rw [List.getElem?_append_left (by omega)]; exact h35)]
    rfl
  refine ⟨hw, hh, ?_⟩
  have hto : PecDecoder.decode_thumbnail_offset
      ⟨pre ++ (stream ++ ts.flatMap (fun t => t.image))⟩ =
      some (((lo.val + 256 * hi.val : Nat) : Int) + 512) := by
    unfold PecDecoder.decode_thumbnail_offset
    have := decode_u16lsb_at ⟨pre ++ (stream ++ ts.flatMap (fun t => t.image))⟩ 514 lo hi
      (by show (pre ++ _)[514]? = _; rw [List.getElem?_append_left (by omega)]; exact h514)
      (by show (pre ++ _)[515]? = _; rw [List.getElem?_append_left (by omega)]; exact h515)
    rw [show ((514 : Nat) : Int) = 514 from rfl] at this
    rw [this]
  have hj : (6 * y + x / 8).toNat < 228 := by omega
  have himg := images_at ts hall k t hk
  have hlen : t.image.length = 228 := hall t (List.getElem?_mem hk)
  have hbyte : (pre ++ (stream ++ ts.flatMap (fun t => t.image)))[
      532 + stream.length + 228 * k + (6 * y + x / 8).toNat]? =
      some (t.image.getD (6 * y + x / 8).toNat 0) := by
    rw [List.getElem?_append_right (by omega), List.getElem?_append_right (by omega)]
    have e1 : 532 + stream.length + 228 * k + (6 * y + x / 8).toNat - pre.length -
        stream.length = 228 * k + (6 * y + x / 8).toNat := by omega
    rw [e1, ← List.getElem?_drop, ← List.getElem?_take_of_lt hj, himg,
      List.getD_eq_getElem?_getD, List.getElem?_eq_getElem (by omega)]
    rfl
  unfold PecDecoder.pec_thumbnail_pixel
  rw [hto]
  simp only [hw, hh]
  have e2 : ((lo.val + 256 * hi.val : Nat) : Int) + 512 + Int.tdiv (↑k * 48 * 38) 8 +
      Int.tdiv (x + 48 * y) 8 =
      ((532 + stream.length + 228 * k + (6 * y + x / 8).toNat : Nat) : Int) := by
    rw [Int.tdiv_eq_ediv (by positivity) (by decide), Int.tdiv_eq_ediv (by omega) (by decide),
      hoff]
    push_cast
    omega
  rw [e2, decode_u8_eq _ _ (by positivity) _ (by rw [Int.toNat_ofNat]; exact hbyte)]
  simp only [thumbnail_pixel]
  rw [Int.tmod_eq_emod hx0 (by decide)]

/-- C23. Thumbnails agree between writer and reader. For every successful pec_encode
output the decoder reports the thumbnail width 48 and height 38; after the 532 header
bytes and the stitch stream the output holds the images that encode_thumbnail_list
writes, thread_count + 1 of them, each of 228 bytes; for every image k up to
thread_count and every pixel of the 48 by 38 grid, pec_thumbnail_pixel is the bit
x mod 8 of byte 6 * y + x / 8 of the image of the encoder, and every pixel of the frame
that thumbnail_frame draws reads back as set. The bits of an image are those of the
plots: none in the cleared image, and after thumbnail_plot those set before and the
plotted one. -/
theorem pec_thumbnails_agree {F : Type} (ops : FloatOps F) (e : PecEncoder.pec_encoder F)
    (out : List Byte) (h : PecEncoder.pec_encode ops e = some out) :
    PecDecoder.pec_thumbnail_width ⟨out⟩ = 48 ∧
    PecDecoder.pec_thumbnail_height ⟨out⟩ = 38 ∧
    ((encoder_thumbnails ops e).length : Int) = e.thread_count + 1 ∧
    (∀ t ∈ encoder_thumbnails ops e, t.image.length = 228) ∧
    (∃ stream, PecEncoder.encode_stitch_list ops e = some stream ∧
      out.drop (532 + stream.length) = (encoder_thumbnails ops e).flatMap (fun t => t.image)) ∧
    (∀ k : Nat, (k : Int) ≤ e.thread_count →
      ∃ t, (encoder_thumbnails ops e)[k]? = some t ∧
        (∀ x y : Int, 0 ≤ x → x < 48 → 0 ≤ y → y < 38 →
          PecDecoder.pec_thumbnail_pixel ⟨out⟩ k x y = thumbnail_pixel t x y) ∧
        ∀ p ∈ frame_pixels, PecDecoder.pec_thumbnail_pixel ⟨out⟩ k p.1 p.2 = true) ∧
    (∀ x y : Int, 0 ≤ x → x < 48 → 0 ≤ y → y < 38 →
      thumbnail_pixel PecEncoder.thumbnail_zero x y = false) ∧
    (∀ (t : PecEncoder.pec_thumbnail), t.image.length = 228 →
      ∀ c r x y : Int, 0 ≤ x → x < 48 → 0 ≤ y → y < 38 →
        (thumbnail_pixel (PecEncoder.thumbnail_plot t c r) x y = true ↔
          (thumbnail_pixel t x y = true ∨ (x = c ∧ y = r)))) := by
  obtain ⟨pre, stream, lo, hi, rfl, hpre, h34, h35, h514, h515, hoff, hstream, hn1, hn2⟩ :=
    pec_thumbnail_layout_images ops e out h
  obtain ⟨hlen, hall, -⟩ := encoder_thumbnails_spec ops e
  have hpix : ∀ (k : Nat) (t : PecEncoder.pec_thumbnail),
      (encoder_thumbnails ops e)[k]? = some t →
      ∀ x y : Int, 0 ≤ x → x < 48 → 0 ≤ y → y < 38 →
        PecDecoder.pec_thumbnail_width
          ⟨pre ++ (stream ++ (encoder_thumbnails ops e).flatMap (fun t => t.image))⟩ = 48 ∧
        PecDecoder.pec_thumbnail_height
          ⟨pre ++ (stream ++ (encoder_thumbnails ops e).flatMap (fun t => t.image))⟩ = 38 ∧
        PecDecoder.pec_thumbnail_pixel
          ⟨pre ++ (stream ++ (encoder_thumbnails ops e).flatMap (fun t => t.image))⟩ k x y =
          thumbnail_pixel t x y :=
    fun k t hk x y hx0 hx1 hy0 hy1 =>
      pec_thumbnail_pixel_eq pre stream lo hi (encoder_thumbnails ops e) hpre h34 h35 h514
        h515 hoff hall k t hk x y hx0 hx1 hy0 hy1
  have h0 : (encoder_thumbnails ops e)[0]? = some
      (PecEncoder.thumbnail_frame (PecEncoder.thumbnail_all_lines ops e.bounds
        PecEncoder.thumbnail_zero e.stitch_list)) := by
    unfold encoder_thumbnails
    exact List.getElem?_cons_zero
  obtain ⟨hw, hh, -⟩ := hpix 0 _ h0 0 0 (le_refl _) (by norm_num) (le_refl _) (by norm_num)
  refine ⟨hw, hh, ?_, hall, ⟨stream, hstream, ?_⟩, ?_, ?_, ?_⟩
  · rw [hlen]
    simp only [PecEncoder.pec_encoder.thread_count]
    push_cast
    ring
  · have hps : (pre ++ stream).length = 532 + stream.length := by
      rw [List.length_append, hpre]
    rw [← List.append_assoc, ← hps, List.drop_left]
  · intro k hk
    have hk1 : k < (encoder_thumbnails ops e).length := by
      rw [hlen]
      simp only [PecEncoder.pec_encoder.thread_count] at hk
      omega
    refine ⟨(encoder_thumbnails ops e)[k], List.getElem?_eq_getElem hk1, ?_, ?_⟩
    · intro x y hx0 hx1 hy0 hy1
      exact (hpix k _ (List.getElem?_eq_getElem hk1) x y hx0 hx1 hy0 hy1).2.2
    · intro p hp
      obtain ⟨hx0, hx1, hy0, hy1⟩ := frame_pixels_in_range p hp
      rw [(hpix k _ (List.getElem?_eq_getElem hk1) p.1 p.2 hx0 hx1 hy0 hy1).2.2]
      have hmem : (encoder_thumbnails ops e)[k] ∈ encoder_thumbnails ops e :=
        List.getElem_mem _
      have hframed : ∀ t ∈ encoder_thumbnails ops e, ∃ t0 : PecEncoder.pec_thumbnail,
          t0.image.length = 228 ∧ t = PecEncoder.thumbnail_frame t0 :=
        encoder_thumbnails_framed ops e
      obtain ⟨t0, hl0, ht0⟩ := hframed _ hmem
      rw [ht0, thumbnail_frame_eq, plot_all_pixel frame_pixels t0 hl0 p.1 p.2 hx0 hx1 hy0 hy1]
      exact Or.inr hp
  · intro x y hx0 hx1 hy0 hy1
    unfold thumbnail_pixel PecEncoder.thumbnail_zero
    have hj : (6 * y + x / 8).toNat < 228 := by omega
    simp only [List.getD_eq_getElem?_getD, List.getElem?_replicate, hj, if_true,
      Option.getD_some]
    simp
  · intro t hl c r x y hx0 hx1 hy0 hy1
    exact thumbnail_plot_pixel t hl c r x y hx0 hx1 hy0 hy1

/-- The statement applies to sample_pec_encoder, whose output holds two images: pixel
(4, 1) of the frame reads back as set in both, and pixel (0, 0), that nothing plots, as
clear in the first. -/
theorem pec_thumbnails_agree_witness :
    ∃ out : List Byte, PecEncoder.pec_encode gridOps sample_pec_encoder = some out ∧
      PecDecoder.pec_thumbnail_width ⟨out⟩ = 48 ∧
      PecDecoder.pec_thumbnail_pixel ⟨out⟩ 0 4 1 = true ∧
      PecDecoder.pec_thumbnail_pixel ⟨out⟩ 1 4 1 = true := by
  obtain ⟨out, h⟩ := Option.isSome_iff_exists.1
    (by decide : (PecEncoder.pec_encode gridOps sample_pec_encoder).isSome = true)
  obtain ⟨h1, -, -, -, -, h6, -, -⟩ := pec_thumbnails_agree gridOps sample_pec_encoder out h
  obtain ⟨t0, -, -, hf0⟩ := h6 0 (by decide)
  obtain ⟨t1, -, -, hf1⟩ := h6 1 (by decide)
  exact ⟨out, h, h1, hf0 (4, 1) (by decide), hf1 (4, 1) (by decide)⟩
end Libpes

namespace Libpes
open Sax

/-! ## sax_strcmp -/

theorem strlen_nil : strlen [] = 0 := rfl

theorem strlen_cons (d : Byte) (s : List Byte) :
    strlen (d :: s) = if d = 0 then 0 else strlen s + 1 := by
  unfold strlen
  by_cases h : d = 0
  · simp [h]
  · simp [h]

theorem sax_strcmp_lists : ∀ (n : Nat) (cur s : List Byte), n ≤ cur.length →
    (∀ b ∈ cur.take n, b ≠ 0) →
    Int.sign (if strlen s ≤ n then strncmp cur s n
      else if strncmp cur s n = 0 then -1 else strncmp cur s n) =
      Int.sign (strcmp (cur.take n) s) ∧
    ((if strlen s ≤ n then strncmp cur s n
      else if strncmp cur s n = 0 then -1 else strncmp cur s n) = 0 ↔
      cur.take n = s.takeWhile (fun b => decide (b ≠ 0)))
  | 0, cur, s, _, _ => by
    simp only [strncmp, List.take_zero, strcmp]
    cases s with
    | nil => simp [strlen]
    | cons d s =>
      rw [strlen_cons]
      by_cases hd : d = 0
      · simp [hd]
      · have hpos : 0 < d.val := Nat.pos_of_ne_zero (fun h => hd (Fin.ext h))
        simp only [hd, if_false, Nat.le_zero, Nat.succ_ne_zero, List.getD_cons_zero]
        refine ⟨?_, ?_⟩
        · have hneg : (0 : Int) - ((d.val : Nat) : Int) < 0 := by omega
          rw [Int.sign_eq_neg_one_of_neg hneg]
          rfl
        · simp [hd]
  | n + 1, [], s, h, _ => by simp at h
  | n + 1, c :: cur, s, h, hz => by
    have hc : c ≠ 0 := hz c (by simp)
    have ih := sax_strcmp_lists n cur s.tail (by simpa using h)
      (fun b hb => hz b (by simp [hb]))
    simp only [strncmp, List.take_succ_cons, strcmp, List.getD_cons_zero, List.tail_cons]
    by_cases hd : c ≠ s.getD 0 0
    · simp only [hd, if_true, ne_eq, not_false_eq_true]
      have hne : (c.val : Int) - (s.getD 0 0).val ≠ 0 := by
        intro h0
        exact hd (Fin.ext (by omega))
      simp only [hne, if_false, ite_self, false_iff]
      refine ⟨trivial, ?_⟩
      cases s with
      | nil => simp
      | cons d s =>
        simp only [List.getD_cons_zero] at hd
        by_cases hd0 : d = 0
        · simp [hd0]
        · simp only [List.takeWhile_cons, hd0, ne_eq, not_false_eq_true, decide_True, if_true,
            List.cons.injEq, not_and]
          intro h1
          exact absurd h1 hd
    · simp only [ne_eq, not_not] at hd
      cases s with
      | nil =>
        simp only [List.getD_nil] at hd
        exact absurd hd hc
      | cons d s =>
        simp only [List.getD_cons_zero] at hd
        subst hd
        simp only [List.getD_cons_zero, ne_eq, not_true_eq_false, if_false, hc, List.tail_cons,
          strlen_cons, Nat.add_le_add_iff_right, List.takeWhile_cons, not_false_eq_true,
          decide_True, if_true, List.cons.injEq, true_and]
        simp only [List.tail_cons] at ih
        exact ih

/-- C28. The function sax_strcmp is strcmp on the characters of the token: for every
token whose first `length` characters are in the buffer and hold no NUL, whatever follows
them, and every string s, the sign of sax_strcmp(token, s) is the sign of strcmp on the
characters of the token and s, and the result is 0 exactly when the characters of the
token are those of s. -/
theorem sax_strcmp_sign (token : sax_token) (s : List Byte)
    (hlen : token.length ≤ token.cursor.length) (hnul : ∀ b ∈ token.chars, b ≠ 0) :
    Int.sign (sax_strcmp token s) = Int.sign (strcmp token.chars s) ∧
    (sax_strcmp token s = 0 ↔ token.chars = s.takeWhile (fun b => decide (b ≠ 0))) :=
  sax_strcmp_lists token.length token.cursor s hlen hnul

/-- The statement applies to sample_token, the three characters `svg` in front of more
text: it compares equal to `svg`, below `svgs` and above `sv`. -/
theorem sax_strcmp_sign_witness :
    sample_token.length ≤ sample_token.cursor.length ∧
    (∀ b ∈ sample_token.chars, b ≠ 0) ∧
    sax_strcmp sample_token (ascii "svg") = 0 ∧
    Int.sign (sax_strcmp sample_token (ascii "svgs")) = -1 ∧
    Int.sign (sax_strcmp sample_token (ascii "sv")) = 1 :=
  ⟨by decide, by decide,
    (sax_strcmp_sign sample_token (ascii "svg") (by decide) (by decide)).2.2 (by decide),
    by decide, by decide⟩

/-! ## The parser on arbitrary callbacks and on the recording callbacks -/

section deliver

variable {α : Type} (ocb ccb : Option (sax_element_callback α))
  (acb : Option (sax_attribute_callback α)) (ecb : Option (sax_error_callback α))

theorem deliver_append (B1 B2 : List sax_event) :
    ∀ arg : α, deliver ocb ccb acb ecb (B1 ++ B2) arg =
      deliver ocb ccb acb ecb B2 (deliver ocb ccb acb ecb B1 arg) := by
  induction B1 with
  | nil => intro arg; rfl
  | cons ev rest ih =>
    intro arg
    cases ev <;> exact ih _

theorem deliver_record (B : List sax_event) :
    ∀ L : List sax_event, deliver (some record_opening) (some record_closing)
      (some record_attribute) (some record_error) B L = L ++ B := by
  induction B with
  | nil => intro L; simp [deliver]
  | cons ev rest ih =>
    intro L
    cases ev <;>
      simp [deliver, ih, record_opening, record_closing, record_attribute, record_error]

theorem parse_error_deliver (t : sax_token) (message : String) (arg : α) :
    parse_error t message ecb arg =
      ⟨false, t, deliver ocb ccb acb ecb [sax_event.error t message] arg⟩ := by
  unfold parse_error
  cases ecb <;> rfl

theorem parse_error_record (t : sax_token) (message : String) (L : List sax_event) :
    parse_error t message (some record_error) L = ⟨false, t, L ++ [sax_event.error t message]⟩ :=
  rfl

/-- The run of parse_attribute on callbacks that return true is the run on the recording
callbacks, with the events delivered to the callbacks. -/
theorem parse_attribute_deliver (ha : attribute_accepts acb) (t : sax_token) (arg : α) :
    parse_attribute t acb ecb arg =
      ⟨(attribute_run t).valid, (attribute_run t).c,
        deliver ocb ccb acb ecb (attribute_run t).arg arg⟩ := by
  unfold attribute_run parse_attribute
  simp only []
  split_ifs with h1 h2 h3
  · rw [parse_error_deliver ocb ccb acb ecb, parse_error_record]
    simp only [List.nil_append]
  · rw [parse_error_deliver ocb ccb acb ecb, parse_error_record]
    simp only [List.nil_append]
  · rw [parse_error_deliver ocb ccb acb ecb, parse_error_record]
    simp only [List.nil_append]
  · cases acb with
    | none => simp only [record_attribute, List.nil_append, deliver]
    | some f =>
      simp only [record_attribute, List.nil_append, deliver]
      rw [ha f rfl]

end deliver

theorem parse_attribute_record (t : sax_token) (L : List sax_event) :
    parse_attribute t (some record_attribute) (some record_error) L =
      ⟨(attribute_run t).valid, (attribute_run t).c, L ++ (attribute_run t).arg⟩ := by
  rw [parse_attribute_deliver (some record_opening) (some record_closing)
    (some record_attribute) (some record_error) (fun f hf a v arg => by
      cases hf; rfl) t L, deliver_record]

section deliver_list

variable {α : Type} (ocb ccb : Option (sax_element_callback α))
  (acb : Option (sax_attribute_callback α)) (ecb : Option (sax_error_callback α))

theorem parse_attribute_list_loop_deliver (ha : attribute_accepts acb) :
    ∀ (fuel : Nat) (t : sax_token) (arg : α),
      parse_attribute_list_loop acb ecb fuel t arg =
        ⟨(attribute_list_run fuel t).valid, (attribute_list_run fuel t).c,
          deliver ocb ccb acb ecb (attribute_list_run fuel t).arg arg⟩ ∧
      ∀ L : List sax_event,
        parse_attribute_list_loop (some record_attribute) (some record_error) fuel t L =
          ⟨(attribute_list_run fuel t).valid, (attribute_list_run fuel t).c,
            L ++ (attribute_list_run fuel t).arg⟩
  | 0, t, arg => ⟨rfl, fun L => by simp [attribute_list_run, parse_attribute_list_loop]⟩
  | fuel + 1, t, arg => by
    have ih := parse_attribute_list_loop_deliver ha fuel
    unfold attribute_list_run
    simp only [parse_attribute_list_loop]
    by_cases h : (skip_space t).cursor.getD 0 0 = 47 ∨ (skip_space t).cursor.getD 0 0 = 62
    · simp only [h, if_true]
      exact ⟨rfl, fun L => by simp⟩
    · simp only [h, if_false]
      rw [parse_attribute_deliver ocb ccb acb ecb ha]
      simp only [parse_attribute_record]
      by_cases hv : (attribute_run (skip_space t)).valid = true
      · simp only [hv, if_true, List.nil_append]
        refine ⟨?_, fun L => ?_⟩
        · rw [(ih _ _).1, (ih (attribute_run (skip_space t)).c arg).2, deliver_append]
        · rw [(ih (attribute_run (skip_space t)).c arg).2,
            (ih (attribute_run (skip_space t)).c arg).2 (attribute_run (skip_space t)).arg,
            List.append_assoc]
      · have hv2 : (attribute_run (skip_space t)).valid = false := by simpa using hv
        simp only [hv2, Bool.false_eq_true, if_false, List.nil_append]
        exact ⟨trivial, fun L => trivial⟩

end deliver_list

section deliver_element

variable {α : Type} (ocb ccb : Option (sax_element_callback α))
  (acb : Option (sax_attribute_callback α)) (ecb : Option (sax_error_callback α))

theorem element_closing_deliver (hc : element_accepts ccb) (name : sax_token) (level : Int)
    (arg : α) :
    element_closing name level ccb arg =
      (level - 1,
        deliver ocb ccb acb ecb
          (element_closing name level (some record_closing) []).2.1 arg,
        true) := by
  unfold element_closing
  cases ccb with
  | none =>
    by_cases h : 0 < level
    · simp only [h, if_true, record_closing, List.nil_append, deliver]
    · simp only [h, if_false, deliver]
  | some f =>
    by_cases h : 0 < level
    · simp only [h, if_true, record_closing, List.nil_append, deliver]
      rw [← hc f rfl name arg]
    · simp only [h, if_false, deliver]

theorem element_closing_record (name : sax_token) (level : Int) (L : List sax_event) :
    element_closing name level (some record_closing) L =
      (level - 1, L ++ (element_closing name level (some record_closing) []).2.1, true) := by
  unfold element_closing
  by_cases h : 0 < level
  · simp only [h, if_true, record_closing, List.nil_append]
  · simp only [h, if_false, List.append_nil]

theorem element_closing_level (name : sax_token) (level : Int)
    (cb : Option (sax_element_callback α)) (arg : α) :
    (element_closing name level cb arg).1 = level - 1 := rfl

theorem element_closing_record_flag (name : sax_token) (level : Int) (L : List sax_event) :
    (element_closing name level (some record_closing) L).2.2 = true := by
  unfold element_closing
  by_cases h : 0 < level
  · simp only [h, if_true, record_closing]
  · simp only [h, if_false]

theorem element_opening_deliver (ho : element_accepts ocb) (name : sax_token) (level : Int)
    (arg : α) :
    element_opening name level ocb arg =
      (level + 1, deliver ocb ccb acb ecb [sax_event.opening name] arg, true) := by
  unfold element_opening
  cases ocb with
  | none => simp only [deliver]
  | some f =>
    simp only [deliver]
    rw [← ho f rfl name arg]

theorem element_opening_record (name : sax_token) (level : Int) (L : List sax_event) :
    element_opening name level (some record_opening) L =
      (level + 1, L ++ [sax_event.opening name], true) := rfl

/-- The run of parse_element_closing on callbacks that return true is the run on the
recording callbacks, with the events delivered to the callbacks. -/
theorem parse_element_closing_deliver (hc : element_accepts ccb) (t : sax_token)
    (level : Int) (arg : α) :
    parse_element_closing t level ccb ecb arg =
      ⟨(closing_run t level).valid, (closing_run t level).c, (closing_run t level).level,
        deliver ocb ccb acb ecb (closing_run t level).arg arg⟩ := by
  unfold closing_run parse_element_closing
  simp only []
  split_ifs with h1
  · rw [parse_error_deliver ocb ccb acb ecb, parse_error_record]
    simp only [List.nil_append]
  · rw [element_closing_deliver ocb ccb acb ecb hc]
    simp only [element_closing_level, element_closing_record_flag]

theorem expect_closing_bracket_deliver (t : sax_token) (level : Int) (arg : α) :
    expect_closing_bracket t level ecb arg =
      ⟨(expect_closing_bracket t level (some record_error) []).valid,
        (expect_closing_bracket t level (some record_error) []).c,
        (expect_closing_bracket t level (some record_error) []).level,
        deliver ocb ccb acb ecb (expect_closing_bracket t level (some record_error) []).arg
          arg⟩ := by
  unfold expect_closing_bracket
  split_ifs with h1
  · rw [parse_error_deliver ocb ccb acb ecb, parse_error_record]
    simp only [List.nil_append]
  · simp only [deliver]

theorem expect_closing_bracket_record (t : sax_token) (level : Int) (L : List sax_event) :
    expect_closing_bracket t level (some record_error) L =
      ⟨(expect_closing_bracket t level (some record_error) []).valid,
        (expect_closing_bracket t level (some record_error) []).c,
        (expect_closing_bracket t level (some record_error) []).level,
        L ++ (expect_closing_bracket t level (some record_error) []).arg⟩ := by
  unfold expect_closing_bracket
  split_ifs with h1
  · simp only [parse_error_record, List.nil_append]
  · simp only [List.append_nil]

end deliver_element

section deliver_opening

variable {α : Type} (ocb ccb : Option (sax_element_callback α))
  (acb : Option (sax_attribute_callback α)) (ecb : Option (sax_error_callback α))

/-- The run of parse_element_opening on callbacks that return true is the run on the
recording callbacks, with the events delivered to the callbacks. -/
theorem parse_element_opening_deliver (ho : element_accepts ocb) (hc : element_accepts ccb)
    (ha : attribute_accepts acb) (t : sax_token) (level : Int) (arg : α) :
    parse_element_opening t level ocb ccb acb ecb arg =
      ⟨(opening_run t level).valid, (opening_run t level).c, (opening_run t level).level,
        deliver ocb ccb acb ecb (opening_run t level).arg arg⟩ := by
  unfold opening_run parse_element_opening parse_attribute_list
  simp only []
  rw [element_opening_deliver ocb ccb acb ecb ho, element_opening_record]
  simp only [Bool.true_eq_false, if_false, List.nil_append]
  rw [(parse_attribute_list_loop_deliver ocb ccb acb ecb ha _ _ _).1,
    (parse_attribute_list_loop_deliver ocb ccb acb ecb ha _ (parse_name t).2 arg).2]
  simp only []
  generalize attribute_list_run ((parse_name t).2.cursor.length + 1) (parse_name t).2 = run
  generalize (parse_name t).1 = name
  by_cases hv : run.valid = false
  · simp only [hv, if_true, deliver_append]
  · have hv1 : run.valid = true := by simpa using hv
    simp only [hv1, Bool.true_eq_false, if_false]
    by_cases hs : run.c.cursor.getD 0 0 = 47
    · simp only [hs, if_true]
      rw [element_closing_deliver ocb ccb acb ecb hc,
        element_closing_record name (level + 1) ([sax_event.opening name] ++ run.arg)]
      simp only [Bool.true_eq_false, if_false]
      rw [expect_closing_bracket_deliver ocb ccb acb ecb,
        expect_closing_bracket_record _ _
          ([sax_event.opening name] ++ run.arg ++
            (element_closing name (level + 1) (some record_closing) []).2.1)]
      simp only [deliver_append]
    · simp only [hs, if_false]
      rw [expect_closing_bracket_deliver ocb ccb acb ecb,
        expect_closing_bracket_record _ _ ([sax_event.opening name] ++ run.arg)]
      simp only [deliver_append]

theorem parse_comment_deliver (t : sax_token) (arg : α) :
    parse_comment t ecb arg =
      ⟨(parse_comment t (some record_error) []).valid,
        (parse_comment t (some record_error) []).c,
        deliver ocb ccb acb ecb (parse_comment t (some record_error) []).arg arg⟩ := by
  unfold parse_comment
  simp only []
  split_ifs with h1
  · simp only [deliver]
  · rw [parse_error_deliver ocb ccb acb ecb, parse_error_record]
    simp only [List.nil_append]

theorem parse_declaration_deliver (t : sax_token) (arg : α) :
    parse_declaration t ecb arg =
      ⟨(parse_declaration t (some record_error) []).valid,
        (parse_declaration t (some record_error) []).c,
        deliver ocb ccb acb ecb (parse_declaration t (some record_error) []).arg arg⟩ := by
  unfold parse_declaration
  simp only []
  split_ifs with h1
  · simp only [deliver]
  · rw [parse_error_deliver ocb ccb acb ecb, parse_error_record]
    simp only [List.nil_append]

theorem parse_processing_deliver (t : sax_token) (arg : α) :
    parse_processing t ecb arg =
      ⟨(parse_processing t (some record_error) []).valid,
        (parse_processing t (some record_error) []).c,
        deliver ocb ccb acb ecb (parse_processing t (some record_error) []).arg arg⟩ := by
  unfold parse_processing
  simp only []
  split_ifs with h1
  · simp only [deliver]
  · rw [parse_error_deliver ocb ccb acb ecb, parse_error_record]
    simp only [List.nil_append]

/-- The run of parse_element on callbacks that return true is the run on the recording
callbacks, with the events delivered to the callbacks. -/
theorem parse_element_deliver (ho : element_accepts ocb) (hc : element_accepts ccb)
    (ha : attribute_accepts acb) (t : sax_token) (level : Int) (arg : α) :
    parse_element t level ocb ccb acb ecb arg =
      ⟨(element_run t level).valid, (element_run t level).c, (element_run t level).level,
        deliver ocb ccb acb ecb (element_run t level).arg arg⟩ := by
  unfold element_run parse_element
  split_ifs with h1 h2 h3 h4
  · exact parse_element_closing_deliver ocb ccb acb ecb hc _ _ _
  · rw [parse_comment_deliver ocb ccb acb ecb]
    simp only [parsed.at_level]
  · rw [parse_declaration_deliver ocb ccb acb ecb]
    simp only [parsed.at_level]
  · rw [parse_processing_deliver ocb ccb acb ecb]
    simp only [parsed.at_level]
  · exact parse_element_opening_deliver ocb ccb acb ecb ho hc ha _ _ _

end deliver_opening

theorem record_accepts :
    element_accepts (some record_opening) ∧ element_accepts (some record_closing) ∧
      attribute_accepts (some record_attribute) :=
  ⟨fun f hf e arg => by cases hf; rfl, fun f hf e arg => by cases hf; rfl,
    fun f hf a v arg => by cases hf; rfl⟩

theorem parse_element_record (t : sax_token) (level : Int) (L : List sax_event) :
    parse_element t level (some record_opening) (some record_closing) (some record_attribute)
      (some record_error) L =
      ⟨(element_run t level).valid, (element_run t level).c, (element_run t level).level,
        L ++ (element_run t level).arg⟩ := by
  rw [parse_element_deliver _ _ _ _ record_accepts.1 record_accepts.2.1 record_accepts.2.2,
    deliver_record]

section deliver_children

variable {α : Type} (ocb ccb : Option (sax_element_callback α))
  (acb : Option (sax_attribute_callback α)) (ecb : Option (sax_error_callback α))

/-- The run of the loop of parse_children on callbacks that return true is the run on the
recording callbacks, with the events delivered to the callbacks; on the recording
callbacks the events are added to the log. -/
theorem parse_children_loop_deliver (ho : element_accepts ocb) (hc : element_accepts ccb)
    (ha : attribute_accepts acb) :
    ∀ (fuel : Nat) (t : sax_token) (level element_count : Int) (arg : α),
      parse_children_loop ocb ccb acb ecb fuel t level element_count arg =
        ⟨(children_run fuel t level element_count).valid,
          (children_run fuel t level element_count).c,
          (children_run fuel t level element_count).level,
          deliver ocb ccb acb ecb (children_run fuel t level element_count).arg arg⟩ ∧
      ∀ L : List sax_event,
        parse_children_loop (some record_opening) (some record_closing)
          (some record_attribute) (some record_error) fuel t level element_count L =
          ⟨(children_run fuel t level element_count).valid,
            (children_run fuel t level element_count).c,
            (children_run fuel t level element_count).level,
            L ++ (children_run fuel t level element_count).arg⟩
  | 0, t, level, element_count, arg =>
    ⟨rfl, fun L => by simp [children_run, parse_children_loop]⟩
  | fuel + 1, t, level, element_count, arg => by
    have ih := parse_children_loop_deliver ho hc ha fuel
    unfold children_run
    simp only [parse_children_loop]
    by_cases h : t.cursor.getD 0 0 ≠ 0 ∧ (element_count = 0 ∨ 0 ≤ level)
    · simp only [if_pos h]
      by_cases h60 : t.cursor.getD 0 0 = 60
      · simp only [if_pos h60]
        rw [parse_element_deliver ocb ccb acb ecb ho hc ha]
        simp only [parse_element_record]
        generalize element_run (next_char t) level = run
        by_cases hv : run.valid = false
        · simp only [if_pos hv, List.nil_append]
          exact ⟨trivial, fun L => trivial⟩
        · simp only [if_neg hv, List.nil_append]
          refine ⟨?_, fun L => ?_⟩
          · rw [(ih _ _ _ _).1, (ih run.c run.level (element_count + 1) arg).2 run.arg,
              deliver_append]
          · rw [(ih run.c run.level (element_count + 1) arg).2,
              (ih run.c run.level (element_count + 1) arg).2 run.arg, List.append_assoc]
      · simp only [if_neg h60]
        by_cases hsp : isspace (t.cursor.getD 0 0) = true
        · simp only [if_pos hsp]
          exact ⟨(ih _ _ _ _).1, fun L => (ih (next_char t) level element_count arg).2 L⟩
        · simp only [if_neg hsp]
          rw [parse_error_deliver ocb ccb acb ecb]
          simp only [parse_error_record, parsed.at_level, List.nil_append]
          exact ⟨trivial, fun L => trivial⟩
    · simp only [if_neg h, deliver, List.append_nil]
      exact ⟨trivial, fun L => trivial⟩

end deliver_children

/-! ## Tokens: the cursor moves forward, and the length of the working token is not read -/

theorem next_char_cursor (t : sax_token) :
    (next_char t).cursor = if t.cursor.getD 0 0 ≠ 0 then t.cursor.tail else t.cursor := by
  unfold next_char
  by_cases h10 : t.cursor.getD 0 0 = 10
  · have h0 : t.cursor.getD 0 0 ≠ 0 := by rw [h10]; decide
    simp only [if_pos h10, if_pos h0]
    split_ifs <;> rfl
  · by_cases h0 : t.cursor.getD 0 0 ≠ 0
    · simp only [if_neg h10, if_pos h0]
      split_ifs <;> rfl
    · simp only [if_neg h10, if_neg h0]
      split_ifs <;> rfl

theorem next_char_cursor_length (t : sax_token) :
    (next_char t).cursor.length ≤ t.cursor.length := by
  rw [next_char_cursor]
  split_ifs
  · simp
  · exact le_refl _

theorem next_char_cursor_lt (t : sax_token) (h : t.cursor.getD 0 0 ≠ 0) :
    (next_char t).cursor.length < t.cursor.length := by
  rw [next_char_cursor, if_pos h]
  cases hc : t.cursor with
  | nil => rw [hc] at h; exact absurd rfl h
  | cons a rest => simp

/-- The function next_char does not read the length of its token. -/
theorem next_char_place (t t1 : sax_token) (h : t.place = t1.place) :
    next_char t = next_char t1 := by
  obtain ⟨r, c, i, l, cur⟩ := t
  obtain ⟨r1, c1, i1, l1, cur1⟩ := t1
  simp only [sax_token.place, sax_token.mk.injEq] at h
  obtain ⟨rfl, rfl, rfl, -, rfl⟩ := h
  unfold next_char
  by_cases h10 : cur.getD 0 0 = 10
  · simp only [if_pos h10]
  · by_cases h0 : cur.getD 0 0 ≠ 0
    · simp only [if_neg h10, if_pos h0]
    · simp only [if_neg h10, if_neg h0]
      have h00 : cur.getD 0 0 = 0 := by simpa using h0
      simp only [if_pos h00]

theorem place_cursor (t t1 : sax_token) (h : t.place = t1.place) : t.cursor = t1.cursor := by
  have := congrArg sax_token.cursor h
  exact this

theorem place_with_length (t t1 : sax_token) (h : t.place = t1.place) (n : Nat) :
    { t with length := n } = { t1 with length := n } := by
  obtain ⟨r, c, i, l, cur⟩ := t
  obtain ⟨r1, c1, i1, l1, cur1⟩ := t1
  simp only [sax_token.place, sax_token.mk.injEq] at h
  obtain ⟨rfl, rfl, rfl, -, rfl⟩ := h
  rfl

theorem place_of_with_length (t : sax_token) (n : Nat) :
    ({ t with length := n } : sax_token).place = t.place := rfl

theorem advance_while_cursor_length (p : Byte → Bool) :
    ∀ (fuel : Nat) (t : sax_token) (n : Nat),
      (advance_while p fuel t n).1.cursor.length ≤ t.cursor.length
  | 0, t, n => le_refl _
  | fuel + 1, t, n => by
    unfold advance_while
    split_ifs
    · exact le_trans (advance_while_cursor_length p fuel (next_char t) (n + 1))
        (next_char_cursor_length t)
    · exact le_refl _

/-- The loop advance_while does not read the length of its token. -/
theorem advance_while_place (p : Byte → Bool) :
    ∀ (fuel : Nat) (t t1 : sax_token) (n : Nat), t.place = t1.place →
      (advance_while p fuel t n).2 = (advance_while p fuel t1 n).2 ∧
      (advance_while p fuel t n).1.place = (advance_while p fuel t1 n).1.place
  | 0, t, t1, n, h => ⟨rfl, h⟩
  | fuel + 1, t, t1, n, h => by
    unfold advance_while
    rw [place_cursor t t1 h, next_char_place t t1 h]
    split_ifs
    · exact ⟨rfl, rfl⟩
    · exact ⟨rfl, h⟩

theorem parse_name_place (t t1 : sax_token) (h : t.place = t1.place) :
    (parse_name t).1 = (parse_name t1).1 ∧ (parse_name t).2.place = (parse_name t1).2.place := by
  unfold parse_name
  have hf : t1.cursor.length = t.cursor.length := by rw [place_cursor t t1 h]
  obtain ⟨h1, h2⟩ := advance_while_place valid_name_char t.cursor.length t t1 0 h
  simp only []
  rw [hf, ← h1]
  exact ⟨place_with_length t t1 h _, h2⟩

theorem parse_name_fst_place (t : sax_token) : (parse_name t).1.place = t.place := rfl

theorem parse_attribute_value_place (t t1 : sax_token) (q : Byte) (h : t.place = t1.place) :
    (parse_attribute_value t q).1 = (parse_attribute_value t1 q).1 ∧
    (parse_attribute_value t q).2.place = (parse_attribute_value t1 q).2.place := by
  unfold parse_attribute_value
  have hf : t1.cursor.length = t.cursor.length := by rw [place_cursor t t1 h]
  obtain ⟨h1, h2⟩ := advance_while_place (fun c => decide (c ≠ 0) && decide (c ≠ q))
    t.cursor.length t t1 0 h
  simp only []
  rw [hf, ← h1]
  exact ⟨place_with_length t t1 h _, h2⟩

theorem skip_space_place (t t1 : sax_token) (h : t.place = t1.place) :
    (skip_space t).place = (skip_space t1).place := by
  unfold skip_space
  rw [← place_cursor t t1 h]
  exact (advance_while_place isspace t.cursor.length t t1 0 h).2

theorem parse_name_cursor_length (t : sax_token) :
    (parse_name t).2.cursor.length ≤ t.cursor.length :=
  advance_while_cursor_length _ _ _ _

theorem skip_space_cursor_length (t : sax_token) :
    (skip_space t).cursor.length ≤ t.cursor.length :=
  advance_while_cursor_length _ _ _ _

theorem parse_attribute_value_cursor_length (t : sax_token) (q : Byte) :
    (parse_attribute_value t q).2.cursor.length ≤ t.cursor.length :=
  advance_while_cursor_length _ _ _ _

/-! ## The recorded runs, step by step -/

theorem attribute_list_run_zero (t : sax_token) :
    attribute_list_run 0 t = ⟨false, t, []⟩ := rfl

/-- One turn of the loop of parse_attribute_list on the recording callbacks. -/
theorem attribute_list_run_succ (fuel : Nat) (t : sax_token) :
    attribute_list_run (fuel + 1) t =
      if (skip_space t).cursor.getD 0 0 = 47 ∨ (skip_space t).cursor.getD 0 0 = 62 then
        ⟨true, skip_space t, []⟩
      else if (attribute_run (skip_space t)).valid = true then
        ⟨(attribute_list_run fuel (attribute_run (skip_space t)).c).valid,
          (attribute_list_run fuel (attribute_run (skip_space t)).c).c,
          (attribute_run (skip_space t)).arg ++
            (attribute_list_run fuel (attribute_run (skip_space t)).c).arg⟩
      else ⟨false, (attribute_run (skip_space t)).c, (attribute_run (skip_space t)).arg⟩ := by
  unfold attribute_list_run
  simp only [parse_attribute_list_loop]
  by_cases h : (skip_space t).cursor.getD 0 0 = 47 ∨ (skip_space t).cursor.getD 0 0 = 62
  · simp only [if_pos h]
  · simp only [if_neg h, parse_attribute_record, List.nil_append]
    by_cases hv : (attribute_run (skip_space t)).valid = true
    · simp only [if_pos hv]
      exact (parse_attribute_list_loop_deliver (some record_opening) (some record_closing)
        (some record_attribute) (some record_error) record_accepts.2.2 fuel _ []).2 _
    · simp only [if_neg hv]

theorem children_run_zero (t : sax_token) (level element_count : Int) :
    children_run 0 t level element_count = ⟨false, t, level, []⟩ := rfl

/-- One turn of the loop of parse_children on the recording callbacks. -/
theorem children_run_succ (fuel : Nat) (t : sax_token) (level element_count : Int) :
    children_run (fuel + 1) t level element_count =
      if t.cursor.getD 0 0 ≠ 0 ∧ (element_count = 0 ∨ 0 ≤ level) then
        if t.cursor.getD 0 0 = 60 then
          if (element_run (next_char t) level).valid = false then
            element_run (next_char t) level
          else
            ⟨(children_run fuel (element_run (next_char t) level).c
                (element_run (next_char t) level).level (element_count + 1)).valid,
              (children_run fuel (element_run (next_char t) level).c
                (element_run (next_char t) level).level (element_count + 1)).c,
              (children_run fuel (element_run (next_char t) level).c
                (element_run (next_char t) level).level (element_count + 1)).level,
              (element_run (next_char t) level).arg ++
                (children_run fuel (element_run (next_char t) level).c
                  (element_run (next_char t) level).level (element_count + 1)).arg⟩
        else if isspace (t.cursor.getD 0 0) = true then
          children_run fuel (next_char t) level element_count
        else ⟨false, t, level, [sax_event.error t "Unrecognized character"]⟩
      else ⟨true, t, level, []⟩ := by
  unfold children_run
  simp only [parse_children_loop]
  by_cases h : t.cursor.getD 0 0 ≠ 0 ∧ (element_count = 0 ∨ 0 ≤ level)
  · simp only [if_pos h]
    by_cases h60 : t.cursor.getD 0 0 = 60
    · simp only [if_pos h60, parse_element_record, List.nil_append]
      by_cases hv : (element_run (next_char t) level).valid = false
      · simp only [if_pos hv]
      · simp only [if_neg hv]
        exact (parse_children_loop_deliver (some record_opening) (some record_closing)
          (some record_attribute) (some record_error) record_accepts.1 record_accepts.2.1
          record_accepts.2.2 fuel _ _ _ []).2 _
    · simp only [if_neg h60]
      by_cases hsp : isspace (t.cursor.getD 0 0) = true
      · simp only [if_pos hsp]
      · simp only [if_neg hsp, parse_error_record, parsed.at_level, List.nil_append]
  · simp only [if_neg h]

/-- The run of parse_attribute does not read the length of its token, a failure
apart. -/
theorem attribute_run_place (t t1 : sax_token) (h : t.place = t1.place) :
    attribute_run t1 = attribute_run t ∨
      ((attribute_run t).valid = false ∧ (attribute_run t1).valid = false) := by
  obtain ⟨hn1, hn2⟩ := parse_name_place t t1 h
  have hc : (parse_name t1).2.cursor = (parse_name t).2.cursor := (place_cursor _ _ hn2).symm
  have hx : next_char (parse_name t1).2 = next_char (parse_name t).2 :=
    (next_char_place _ _ hn2).symm
  unfold attribute_run parse_attribute
  simp only []
  rw [← hn1, hc, hx]
  by_cases h1 : (parse_name t).2.cursor.getD 0 0 ≠ 61
  · simp only [if_pos h1, parse_error_record]
    exact Or.inr ⟨trivial, trivial⟩
  · simp only [if_neg h1]
    exact Or.inl trivial

/-- The outcome of parse_attribute on the recording callbacks: one attribute event and
a shorter text on success, one error event on failure. -/
theorem attribute_run_cases (t : sax_token) :
    ((attribute_run t).valid = true ∧
      (∃ name value, (attribute_run t).arg = [sax_event.attr name value]) ∧
      (attribute_run t).c.cursor.length < t.cursor.length) ∨
    ((attribute_run t).valid = false ∧
      (∃ token message, (attribute_run t).arg = [sax_event.error token message]) ∧
      (attribute_run t).c.cursor.length ≤ t.cursor.length) := by
  unfold attribute_run parse_attribute
  simp only []
  have hn := parse_name_cursor_length t
  generalize (parse_name t).1 = name
  generalize (parse_name t).2 = p1 at hn ⊢
  by_cases h1 : p1.cursor.getD 0 0 ≠ 61
  · simp only [if_pos h1, parse_error_record, List.nil_append]
    exact Or.inr ⟨trivial, ⟨_, _, rfl⟩, hn⟩
  · simp only [if_neg h1]
    have h61 : p1.cursor.getD 0 0 ≠ 0 := by
      have : p1.cursor.getD 0 0 = 61 := by simpa using h1
      rw [this]; decide
    have hx := next_char_cursor_lt _ h61
    generalize next_char p1 = p2 at hx ⊢
    by_cases h2 : p2.cursor.getD 0 0 ≠ 39 ∧ p2.cursor.getD 0 0 ≠ 34
    · simp only [if_pos h2, parse_error_record, List.nil_append]
      exact Or.inr ⟨trivial, ⟨_, _, rfl⟩, by omega⟩
    · simp only [if_neg h2]
      have hy := next_char_cursor_length p2
      have hz := parse_attribute_value_cursor_length (next_char p2) (p2.cursor.getD 0 0)
      generalize (parse_attribute_value (next_char p2) (p2.cursor.getD 0 0)).1 = value
      generalize (parse_attribute_value (next_char p2) (p2.cursor.getD 0 0)).2 = p4 at hz ⊢
      by_cases h3 : p4.cursor.getD 0 0 ≠ p2.cursor.getD 0 0
      · simp only [if_pos h3, parse_error_record, List.nil_append]
        exact Or.inr ⟨trivial, ⟨_, _, rfl⟩, by omega⟩
      · simp only [if_neg h3, record_attribute, List.nil_append]
        have hw := next_char_cursor_length p4
        exact Or.inl ⟨trivial, ⟨_, _, rfl⟩, by omega⟩

/-- The outcome of the loop of parse_attribute_list on the recording callbacks: on
success the events are attribute events and the loop stops on `/` or `>`; the cursor
does not move back. -/
theorem attribute_list_run_cases :
    ∀ (fuel : Nat) (t : sax_token),
      ((attribute_list_run fuel t).valid = true →
        (∀ ev ∈ (attribute_list_run fuel t).arg, ev.is_attribute = true) ∧
        ((attribute_list_run fuel t).c.cursor.getD 0 0 = 47 ∨
          (attribute_list_run fuel t).c.cursor.getD 0 0 = 62)) ∧
      (attribute_list_run fuel t).c.cursor.length ≤ t.cursor.length
  | 0, t => ⟨fun h => by simp [attribute_list_run_zero] at h, le_refl _⟩
  | fuel + 1, t => by
    rw [attribute_list_run_succ]
    have hs := skip_space_cursor_length t
    by_cases h : (skip_space t).cursor.getD 0 0 = 47 ∨ (skip_space t).cursor.getD 0 0 = 62
    · simp only [if_pos h]
      exact ⟨fun _ => ⟨fun ev hev => by simp at hev, h⟩, hs⟩
    · simp only [if_neg h]
      obtain ⟨ih1, ih2⟩ := attribute_list_run_cases fuel (attribute_run (skip_space t)).c
      rcases attribute_run_cases (skip_space t) with ⟨hv, ⟨name, value, harg⟩, hlt⟩ |
        ⟨hv, -, hle⟩
      · simp only [if_pos hv]
        refine ⟨fun hvalid => ?_, by omega⟩
        obtain ⟨h1, h2⟩ := ih1 hvalid
        refine ⟨fun ev hev => ?_, h2⟩
        rw [harg] at hev
        simp only [List.singleton_append, List.mem_cons] at hev
        rcases hev with rfl | hev
        · rfl
        · exact h1 ev hev
      · have hv1 : ¬ (attribute_run (skip_space t)).valid = true := by rw [hv]; simp
        simp only [if_neg hv1]
        exact ⟨fun hvalid => by simp at hvalid, by omega⟩

/-- The loop of parse_attribute_list does not read the length of its token, a failure
apart. -/
theorem attribute_list_run_place :
    ∀ (fuel : Nat) (t t1 : sax_token), t.place = t1.place →
      (attribute_list_run fuel t1).valid = (attribute_list_run fuel t).valid ∧
      ((attribute_list_run fuel t).valid = true →
        (attribute_list_run fuel t1).arg = (attribute_list_run fuel t).arg ∧
        (attribute_list_run fuel t1).c.place = (attribute_list_run fuel t).c.place)
  | 0, t, t1, h => ⟨rfl, fun hv => by simp [attribute_list_run_zero] at hv⟩
  | fuel + 1, t, t1, h => by
    have hs := skip_space_place t t1 h
    have hc : (skip_space t1).cursor = (skip_space t).cursor := (place_cursor _ _ hs).symm
    rw [attribute_list_run_succ, attribute_list_run_succ, hc]
    by_cases hb : (skip_space t).cursor.getD 0 0 = 47 ∨ (skip_space t).cursor.getD 0 0 = 62
    · simp only [if_pos hb]
      exact ⟨trivial, fun _ => ⟨trivial, hs.symm⟩⟩
    · simp only [if_neg hb]
      rcases attribute_run_place (skip_space t) (skip_space t1) hs with heq | ⟨hf, hf1⟩
      · rw [heq]
        exact ⟨rfl, fun _ => ⟨rfl, rfl⟩⟩
      · have hn : ¬ (attribute_run (skip_space t)).valid = true := by rw [hf]; simp
        have hn1 : ¬ (attribute_run (skip_space t1)).valid = true := by rw [hf1]; simp
        simp only [if_neg hn, if_neg hn1]
        exact ⟨trivial, fun hv => by simp at hv⟩

theorem expect_closing_bracket_run (t : sax_token) (level : Int) :
    expect_closing_bracket t level (some record_error) [] =
      if t.cursor.getD 0 0 ≠ 62 then
        ⟨false, t, level, [sax_event.error t "Expected \x27>\x27"]⟩
      else ⟨true, next_char t, level, []⟩ := by
  unfold expect_closing_bracket
  split_ifs <;> simp only [parse_error_record, List.nil_append]

/-- The run of parse_element_opening on the recording callbacks, in terms of the run of
the attribute loop. -/
theorem opening_run_eq (t : sax_token) (level : Int) :
    opening_run t level =
      if (attribute_list_run ((parse_name t).2.cursor.length + 1) (parse_name t).2).valid
          = false then
        ⟨false,
          (attribute_list_run ((parse_name t).2.cursor.length + 1) (parse_name t).2).c,
          level + 1,
          sax_event.opening (parse_name t).1 ::
            (attribute_list_run ((parse_name t).2.cursor.length + 1) (parse_name t).2).arg⟩
      else if (attribute_list_run ((parse_name t).2.cursor.length + 1)
          (parse_name t).2).c.cursor.getD 0 0 = 47 then
        ⟨(expect_closing_bracket (next_char (attribute_list_run
            ((parse_name t).2.cursor.length + 1) (parse_name t).2).c) level
            (some record_error) []).valid,
          (expect_closing_bracket (next_char (attribute_list_run
            ((parse_name t).2.cursor.length + 1) (parse_name t).2).c) level
            (some record_error) []).c,
          level,
          sax_event.opening (parse_name t).1 ::
            ((attribute_list_run ((parse_name t).2.cursor.length + 1) (parse_name t).2).arg ++
              ((if 0 < level + 1 then [sax_event.closing (parse_name t).1] else []) ++
                (expect_closing_bracket (next_char (attribute_list_run
                  ((parse_name t).2.cursor.length + 1) (parse_name t).2).c) level
                  (some record_error) []).arg))⟩
      else
        ⟨(expect_closing_bracket (attribute_list_run
            ((parse_name t).2.cursor.length + 1) (parse_name t).2).c (level + 1)
            (some record_error) []).valid,
          (expect_closing_bracket (attribute_list_run
            ((parse_name t).2.cursor.length + 1) (parse_name t).2).c (level + 1)
            (some record_error) []).c,
          level + 1,
          sax_event.opening (parse_name t).1 ::
            ((attribute_list_run ((parse_name t).2.cursor.length + 1) (parse_name t).2).arg ++
              (expect_closing_bracket (attribute_list_run
                ((parse_name t).2.cursor.length + 1) (parse_name t).2).c (level + 1)
                (some record_error) []).arg)⟩ := by
  unfold opening_run parse_element_opening parse_attribute_list
  simp only []
  rw [element_opening_record]
  simp only [Bool.true_eq_false, if_false, List.nil_append]
  rw [(parse_attribute_list_loop_deliver (some record_opening) (some record_closing)
    (some record_attribute) (some record_error) record_accepts.2.2 _ (parse_name t).2 []).2]
  simp only []
  generalize attribute_list_run ((parse_name t).2.cursor.length + 1) (parse_name t).2 = run
  generalize (parse_name t).1 = name
  by_cases hv : run.valid = false
  · simp only [if_pos hv, List.singleton_append]
  · simp only [if_neg hv]
    by_cases hs : run.c.cursor.getD 0 0 = 47
    · simp only [if_pos hs]
      rw [element_closing_record name (level + 1) ([sax_event.opening name] ++ run.arg)]
      simp only [Bool.true_eq_false, if_false]
      rw [expect_closing_bracket_record _ _
        ([sax_event.opening name] ++ run.arg ++
          (element_closing name (level + 1) (some record_closing) []).2.1)]
      have e1 : level + 1 - 1 = level := by omega
      simp only [e1, expect_closing_bracket_run]
      unfold element_closing
      by_cases hl : 0 < level + 1
      · simp only [if_pos hl, record_closing, List.nil_append, List.singleton_append,
          List.cons_append, List.append_assoc]
        split_ifs <;> simp
      · simp only [if_neg hl, List.nil_append, List.singleton_append,
          List.cons_append, List.append_assoc, List.append_nil]
        split_ifs <;> simp
    · simp only [if_neg hs]
      rw [expect_closing_bracket_record _ _ ([sax_event.opening name] ++ run.arg)]
      simp only [expect_closing_bracket_run, List.singleton_append, List.cons_append]
      split_ifs <;> simp

/-- The run of parse_element_opening on the recording callbacks is the outcome that the
name and the run of the attribute loop give. -/
theorem opening_run_outcome (t : sax_token) (level : Int) :
    opening_run t level = opening_outcome (parse_name t).1 (opening_attributes t) level := by
  rw [opening_run_eq]
  unfold opening_outcome opening_attributes
  simp only [expect_closing_bracket_run]
  generalize attribute_list_run ((parse_name t).2.cursor.length + 1) (parse_name t).2 = run
  generalize (parse_name t).1 = name
  by_cases h1 : run.valid = false
  · simp only [if_pos h1]
  · simp only [if_neg h1]
    by_cases h2 : run.c.cursor.getD 0 0 = 47
    · simp only [if_pos h2]
      by_cases h3 : (next_char run.c).cursor.getD 0 0 ≠ 62
      · simp only [if_pos h3]
      · simp only [if_neg h3, List.append_nil]
    · simp only [if_neg h2]
      by_cases h3 : run.c.cursor.getD 0 0 ≠ 62
      · simp only [if_pos h3]
      · simp only [if_neg h3, List.append_nil]

/-- The run of parse_element_closing on the recording callbacks. -/
theorem closing_run_eq (t : sax_token) (level : Int) :
    closing_run t level =
      if (skip_space (parse_name t).2).cursor.getD 0 0 ≠ 62 then
        ⟨false, skip_space (parse_name t).2, level,
          [sax_event.error (skip_space (parse_name t).2) "Expected \x27>\x27"]⟩
      else
        ⟨true, next_char (skip_space (parse_name t).2), level - 1,
          if 0 < level then [sax_event.closing (parse_name t).1] else []⟩ := by
  unfold closing_run parse_element_closing
  simp only []
  by_cases h : (skip_space (parse_name t).2).cursor.getD 0 0 ≠ 62
  · simp only [if_pos h, parse_error_record, List.nil_append]
  · simp only [if_neg h]
    unfold element_closing
    by_cases hl : 0 < level
    · simp only [if_pos hl, record_closing, List.nil_append]
    · simp only [if_neg hl]

theorem seek_cursor_length (hit : sax_token → Bool) :
    ∀ (fuel : Nat) (t : sax_token), (seek hit fuel t).1.cursor.length ≤ t.cursor.length
  | 0, t => le_refl _
  | fuel + 1, t => by
    unfold seek
    split_ifs
    · exact le_refl _
    · exact le_trans (seek_cursor_length hit fuel (next_char t)) (next_char_cursor_length t)
    · exact le_refl _

/-- The runs of parse_comment, parse_declaration and parse_processing on the recording
callbacks: no event on success, whatever the level, and the cursor does not move
back. -/
theorem parse_comment_run (t : sax_token) :
    ((parse_comment t (some record_error) []).valid = true →
      (parse_comment t (some record_error) []).arg = []) ∧
    (parse_comment t (some record_error) []).c.cursor.length ≤ t.cursor.length := by
  unfold parse_comment
  simp only []
  have hs := seek_cursor_length (fun t => decide (t.cursor.getD 0 0 = 45 ∧
    t.cursor.getD 1 0 = 45 ∧ t.cursor.getD 2 0 = 62)) t.cursor.length t
  generalize seek (fun t => decide (t.cursor.getD 0 0 = 45 ∧
    t.cursor.getD 1 0 = 45 ∧ t.cursor.getD 2 0 = 62)) t.cursor.length t = found at hs ⊢
  by_cases h : found.2 = true
  · simp only [if_pos h]
    have h1 := next_char_cursor_length found.1
    have h2 := next_char_cursor_length (next_char found.1)
    have h3 := next_char_cursor_length (next_char (next_char found.1))
    exact ⟨fun _ => trivial, by omega⟩
  · simp only [if_neg h, parse_error_record]
    exact ⟨fun hv => by simp at hv, hs⟩

theorem parse_declaration_run (t : sax_token) :
    ((parse_declaration t (some record_error) []).valid = true →
      (parse_declaration t (some record_error) []).arg = []) ∧
    (parse_declaration t (some record_error) []).c.cursor.length ≤ t.cursor.length := by
  unfold parse_declaration
  simp only []
  have hs := seek_cursor_length (fun t => decide (t.cursor.getD 0 0 = 62)) t.cursor.length t
  generalize seek (fun t => decide (t.cursor.getD 0 0 = 62)) t.cursor.length t = found at hs ⊢
  by_cases h : found.2 = true
  · simp only [if_pos h]
    have h1 := next_char_cursor_length found.1
    exact ⟨fun _ => trivial, by omega⟩
  · simp only [if_neg h, parse_error_record]
    exact ⟨fun hv => by simp at hv, hs⟩

theorem parse_processing_run (t : sax_token) :
    ((parse_processing t (some record_error) []).valid = true →
      (parse_processing t (some record_error) []).arg = []) ∧
    (parse_processing t (some record_error) []).c.cursor.length ≤ t.cursor.length := by
  unfold parse_processing
  simp only []
  have hs := seek_cursor_length (fun t => decide (t.cursor.getD 0 0 = 63 ∧
    t.cursor.getD 1 0 = 62)) t.cursor.length t
  generalize seek (fun t => decide (t.cursor.getD 0 0 = 63 ∧
    t.cursor.getD 1 0 = 62)) t.cursor.length t = found at hs ⊢
  by_cases h : found.2 = true
  · simp only [if_pos h]
    have h1 := next_char_cursor_length found.1
    have h2 := next_char_cursor_length (next_char found.1)
    exact ⟨fun _ => trivial, by omega⟩
  · simp only [if_neg h, parse_error_record]
    exact ⟨fun hv => by simp at hv, hs⟩

/-- The run of parse_element on the recording callbacks, by the first character of the
tag. -/
theorem element_run_eq (t : sax_token) (level : Int) :
    element_run t level =
      if t.cursor.getD 0 0 = 47 then closing_run (next_char t) level
      else if t.cursor.getD 0 0 = 33 then
        if (next_char t).cursor.getD 0 0 = 45 ∧ (next_char t).cursor.getD 1 0 = 45 then
          (parse_comment (next_char (next_char (next_char t))) (some record_error)
            []).at_level level
        else (parse_declaration (next_char t) (some record_error) []).at_level level
      else if t.cursor.getD 0 0 = 63 then
        (parse_processing (next_char t) (some record_error) []).at_level level
      else opening_run t level := by
  unfold element_run parse_element closing_run opening_run
  split_ifs <;> trivial

/-- A successful outcome of parse_element_opening, whatever the level: the opening event
of the name, the attribute events, and for a tag that ends with `/>` the closing event
of the same name. -/
theorem opening_outcome_valid (name : sax_token) (run : parsed (List sax_event)) (l0 : Int)
    (hv : (opening_outcome name run l0).valid = true) :
    run.valid = true ∧
    ∃ (self_closing : Bool),
      (run.c.cursor.getD 0 0 = 47 ↔ self_closing = true) ∧
      (if self_closing = true then (next_char run.c).cursor.getD 0 0 = 62
        else run.c.cursor.getD 0 0 = 62) ∧
      ∀ level : Int, opening_outcome name run level =
        ⟨true, if self_closing = true then next_char (next_char run.c) else next_char run.c,
          if self_closing = true then level else level + 1,
          sax_event.opening name ::
            (run.arg ++ if self_closing = true ∧ 0 < level + 1 then
              [sax_event.closing name] else [])⟩ := by
  unfold opening_outcome at hv ⊢
  by_cases h1 : run.valid = false
  · simp only [if_pos h1] at hv
    simp at hv
  · simp only [if_neg h1] at hv ⊢
    refine ⟨by simpa using h1, ?_⟩
    by_cases h2 : run.c.cursor.getD 0 0 = 47
    · simp only [if_pos h2] at hv ⊢
      by_cases h3 : (next_char run.c).cursor.getD 0 0 ≠ 62
      · simp only [if_pos h3] at hv
        simp at hv
      · simp only [if_neg h3]
        refine ⟨true, ⟨fun _ => rfl, fun _ => h2⟩, ?_, fun level => ?_⟩
        · simp only [if_true]
          simpa using h3
        · simp only [if_true, true_and]
    · simp only [if_neg h2] at hv ⊢
      by_cases h3 : run.c.cursor.getD 0 0 ≠ 62
      · simp only [if_pos h3] at hv
        simp at hv
      · simp only [if_neg h3]
        refine ⟨false, ⟨fun h => absurd h h2, fun h => by simp at h⟩, ?_, fun level => ?_⟩
        · simp only [Bool.false_eq_true, if_false]
          simpa using h3
        · simp only [Bool.false_eq_true, if_false, false_and, List.append_nil]

/-- The outcome of parse_element_opening reads the run of the attribute loop through its
flag, its events and the place of its token, a failure apart. -/
theorem opening_outcome_place (name : sax_token) (run run1 : parsed (List sax_event))
    (l0 : Int) (hv : (opening_outcome name run l0).valid = true)
    (h1 : run1.valid = run.valid) (h2 : run1.arg = run.arg) (h3 : run1.c.place = run.c.place)
    (level : Int) :
    opening_outcome name run1 level = opening_outcome name run level := by
  obtain ⟨hrv, sc, hsc, hbr, -⟩ := opening_outcome_valid name run l0 hv
  have hcur := place_cursor _ _ h3
  have hnext := next_char_place _ _ h3
  unfold opening_outcome
  rw [h1, h2, hcur, hnext]
  have hne : ¬ run.valid = false := by rw [hrv]; simp
  simp only [if_neg hne]
  cases sc with
  | true =>
    simp only [if_true] at hbr
    have h47 := hsc.2 rfl
    have h62 : ¬ (next_char run.c).cursor.getD 0 0 ≠ 62 := by simpa using hbr
    simp only [if_pos h47, if_neg h62]
  | false =>
    simp only [Bool.false_eq_true, if_false] at hbr
    have h47 : ¬ run.c.cursor.getD 0 0 = 47 := fun h => by
      have := hsc.1 h
      simp at this
    have h62 : ¬ run.c.cursor.getD 0 0 ≠ 62 := by simpa using hbr
    simp only [if_neg h47, if_neg h62]

theorem deliver_attributes {α : Type} (ocb ccb : Option (sax_element_callback α))
    (ecb : Option (sax_error_callback α)) (attrs : List sax_event)
    (h : ∀ ev ∈ attrs, ev.is_attribute = true) (arg : α) :
    deliver ocb ccb none ecb attrs arg = arg := by
  induction attrs with
  | nil => rfl
  | cons ev rest ih =>
    have hrest := ih (fun ev hev => h ev (List.mem_cons_of_mem _ hev))
    have hev := h ev (List.mem_cons_self _ _)
    cases ev with
    | attr a v => simpa only [deliver] using hrest
    | opening e => simp [sax_event.is_attribute] at hev
    | closing e => simp [sax_event.is_attribute] at hev
    | error e m => simp [sax_event.is_attribute] at hev

theorem opening_attributes_place (t t1 : sax_token) (h : t.place = t1.place) :
    (opening_attributes t1).valid = (opening_attributes t).valid ∧
    ((opening_attributes t).valid = true →
      (opening_attributes t1).arg = (opening_attributes t).arg ∧
      (opening_attributes t1).c.place = (opening_attributes t).c.place) := by
  obtain ⟨-, hn2⟩ := parse_name_place t t1 h
  have hf : (parse_name t1).2.cursor.length = (parse_name t).2.cursor.length := by
    rw [place_cursor _ _ hn2]
  unfold opening_attributes
  rw [hf]
  exact attribute_list_run_place _ _ _ hn2

/-- Re-entry on the element token of a successful run of parse_element_opening:
sax_parse_attributes with the recording callbacks delivers the attribute events of the
run, and the first call of sax_parse_children and sax_parse_siblings stops where the run
did, with the flag `closed` set exactly for a tag that ends with `/>`. -/
theorem opening_reentry (t : sax_token) (l0 : Int) (hv : (opening_run t l0).valid = true)
    (h47 : t.cursor.getD 0 0 ≠ 47) (h33 : t.cursor.getD 0 0 ≠ 33)
    (h63 : t.cursor.getD 0 0 ≠ 63) :
    ∃ (c : sax_token) (attrs : List sax_event) (self_closing : Bool),
      c.cursor.length ≤ t.cursor.length ∧
      (∀ ev ∈ attrs, ev.is_attribute = true) ∧
      (∀ level : Int, opening_run t level =
        ⟨true, c, if self_closing = true then level else level + 1,
          sax_event.opening (parse_name t).1 ::
            (attrs ++ if self_closing = true ∧ 0 < level + 1 then
              [sax_event.closing (parse_name t).1] else [])⟩) ∧
      sax_attribute_events (parse_name t).1 = (attrs, true) ∧
      parse_own_element (parse_name t).1 =
        ⟨true, c, if self_closing = true then 0 else 1, self_closing⟩ := by
  rw [opening_run_outcome] at hv
  obtain ⟨hrv, sc, hsc, hbr, hrun⟩ := opening_outcome_valid _ _ l0 hv
  obtain ⟨hcases, hlen⟩ := attribute_list_run_cases ((parse_name t).2.cursor.length + 1)
    (parse_name t).2
  have hattr : ∀ ev ∈ (opening_attributes t).arg, ev.is_attribute = true := (hcases hrv).1
  have hlen1 : (opening_attributes t).c.cursor.length ≤ t.cursor.length :=
    le_trans hlen (parse_name_cursor_length t)
  obtain ⟨hp1, hp2⟩ := opening_attributes_place t (parse_name t).1
    (parse_name_fst_place t).symm
  obtain ⟨hp3, hp4⟩ := hp2 hrv
  have hname : (parse_name (parse_name t).1).1 = (parse_name t).1 :=
    (parse_name_place t (parse_name t).1 (parse_name_fst_place t).symm).1.symm
  refine ⟨_, (opening_attributes t).arg, sc, ?_, hattr,
    fun level => by rw [opening_run_outcome]; exact hrun level, ?_, ?_⟩
  · have hx := next_char_cursor_length (opening_attributes t).c
    have hy := next_char_cursor_length (next_char (opening_attributes t).c)
    split_ifs <;> omega
  · show ((opening_attributes (parse_name t).1).arg,
      (opening_attributes (parse_name t).1).valid) = _
    rw [hp1, hp3, hrv]
  · unfold parse_own_element
    have hacc : element_accepts (some element_closed) := fun f hf e arg => by
      cases hf; rfl
    rw [parse_element_deliver none (some element_closed) none none
      (fun f hf => by cases hf) hacc (fun f hf => by cases hf)]
    have hcur : (parse_name t).1.cursor = t.cursor := rfl
    rw [element_run_eq, hcur, if_neg h47, if_neg h33, if_neg h63, opening_run_outcome, hname,
      opening_outcome_place _ _ _ l0 hv hp1 hp3 hp4, hrun 0]
    simp only [deliver, deliver_append, deliver_attributes none (some element_closed) none
      _ hattr]
    cases sc with
    | true => simp [deliver, element_closed]
    | false => simp [deliver]

theorem at_level_other (r : parsed (List sax_event)) (l0 : Int)
    (hv : (r.at_level l0).valid = true) (ha : r.valid = true → r.arg = []) (level : Int) :
    r.at_level level =
      ⟨true, r.c, sax_tag.other.next_level level, sax_tag.other.events level⟩ := by
  obtain ⟨v, c, a⟩ := r
  simp only [parsed.at_level] at hv ha ⊢
  subst hv
  rw [ha rfl]
  rfl

theorem closing_run_tag (t : sax_token) (l0 : Int) (hv : (closing_run t l0).valid = true) :
    ∃ c : sax_token, c.cursor.length ≤ t.cursor.length ∧
      ∀ level : Int, closing_run t level =
        ⟨true, c, (sax_tag.closing (parse_name t).1).next_level level,
          (sax_tag.closing (parse_name t).1).events level⟩ := by
  rw [closing_run_eq] at hv
  have hn := parse_name_cursor_length t
  have hs := skip_space_cursor_length (parse_name t).2
  have hy := next_char_cursor_length (skip_space (parse_name t).2)
  by_cases h62 : (skip_space (parse_name t).2).cursor.getD 0 0 ≠ 62
  · rw [if_pos h62] at hv
    simp at hv
  · refine ⟨next_char (skip_space (parse_name t).2), by omega, fun level => ?_⟩
    rw [closing_run_eq, if_neg h62]
    simp only [sax_tag.next_level, sax_tag.events]

theorem opening_run_tag (t : sax_token) (l0 : Int) (hv : (opening_run t l0).valid = true)
    (h47 : t.cursor.getD 0 0 ≠ 47) (h33 : t.cursor.getD 0 0 ≠ 33)
    (h63 : t.cursor.getD 0 0 ≠ 63) :
    ∃ (tag : sax_tag) (c : sax_token),
      c.cursor.length ≤ t.cursor.length ∧ tag.reentry c ∧
      ∀ level : Int, 0 ≤ level →
        opening_run t level = ⟨true, c, tag.next_level level, tag.events level⟩ := by
  obtain ⟨c, attrs, sc, hlen, hattr, hrun, hre1, hre2⟩ := opening_reentry t l0 hv h47 h33 h63
  generalize (parse_name t).1 = name at hrun hre1 hre2
  cases sc with
  | true =>
    refine ⟨sax_tag.self_closing name attrs, c, hlen, ⟨hattr, hre1, hre2⟩, fun level hl => ?_⟩
    rw [hrun level]
    have hl1 : 0 < level + 1 := by omega
    simp only [if_true, true_and, if_pos hl1, sax_tag.next_level, sax_tag.events]
  | false =>
    refine ⟨sax_tag.opening name attrs, c, hlen, ⟨hattr, hre1, hre2⟩, fun level hl => ?_⟩
    rw [hrun level]
    simp only [Bool.false_eq_true, if_false, false_and, List.append_nil,
      sax_tag.next_level, sax_tag.events]

/-- A run of parse_element on the recording callbacks that succeeds at one level
succeeds at every level that is not negative, stops at the same place, which is not
before the tag, and delivers the events of one tag. -/
theorem element_run_tag (t : sax_token) (l0 : Int) (hv : (element_run t l0).valid = true) :
    ∃ (tag : sax_tag) (c : sax_token),
      c.cursor.length ≤ t.cursor.length ∧ tag.reentry c ∧
      ∀ level : Int, 0 ≤ level →
        element_run t level = ⟨true, c, tag.next_level level, tag.events level⟩ := by
  rw [element_run_eq] at hv
  have hx := next_char_cursor_length t
  by_cases h47 : t.cursor.getD 0 0 = 47
  · rw [if_pos h47] at hv
    obtain ⟨c, hc, hrun⟩ := closing_run_tag (next_char t) l0 hv
    refine ⟨sax_tag.closing (parse_name (next_char t)).1, c, le_trans hc hx, trivial,
      fun level _ => ?_⟩
    rw [element_run_eq, if_pos h47]
    exact hrun level
  · rw [if_neg h47] at hv
    by_cases h33 : t.cursor.getD 0 0 = 33
    · rw [if_pos h33] at hv
      by_cases hc : (next_char t).cursor.getD 0 0 = 45 ∧ (next_char t).cursor.getD 1 0 = 45
      · rw [if_pos hc] at hv
        obtain ⟨h1, h2⟩ := parse_comment_run (next_char (next_char (next_char t)))
        have hy := next_char_cursor_length (next_char t)
        have hz := next_char_cursor_length (next_char (next_char t))
        refine ⟨sax_tag.other,
          (parse_comment (next_char (next_char (next_char t))) (some record_error) []).c,
          le_trans h2 (le_trans hz (le_trans hy hx)), trivial, fun level _ => ?_⟩
        rw [element_run_eq, if_neg h47, if_pos h33, if_pos hc]
        exact at_level_other _ l0 hv h1 level
      · rw [if_neg hc] at hv
        obtain ⟨h1, h2⟩ := parse_declaration_run (next_char t)
        refine ⟨sax_tag.other, (parse_declaration (next_char t) (some record_error) []).c,
          le_trans h2 hx, trivial, fun level _ => ?_⟩
        rw [element_run_eq, if_neg h47, if_pos h33, if_neg hc]
        exact at_level_other _ l0 hv h1 level
    · rw [if_neg h33] at hv
      by_cases h63 : t.cursor.getD 0 0 = 63
      · rw [if_pos h63] at hv
        obtain ⟨h1, h2⟩ := parse_processing_run (next_char t)
        refine ⟨sax_tag.other, (parse_processing (next_char t) (some record_error) []).c,
          le_trans h2 hx, trivial, fun level _ => ?_⟩
        rw [element_run_eq, if_neg h47, if_neg h33, if_pos h63]
        exact at_level_other _ l0 hv h1 level
      · rw [if_neg h63] at hv
        obtain ⟨tag, c, hlen, hre, hrun⟩ := opening_run_tag t l0 hv h47 h33 h63
        refine ⟨tag, c, hlen, hre, fun level hl => ?_⟩
        rw [element_run_eq, if_neg h47, if_neg h33, if_neg h63]
        exact hrun level hl

/-! ## Events and depth -/

theorem until_close_attrs (attrs : List sax_event)
    (h : ∀ ev ∈ attrs, ev.is_attribute = true) (d : Nat) (rest : List sax_event) :
    until_close d (attrs ++ rest) = attrs ++ until_close d rest := by
  induction attrs with
  | nil => rfl
  | cons ev tl ih =>
    have htl := ih (fun ev hev => h ev (List.mem_cons_of_mem _ hev))
    have hev := h ev (List.mem_cons_self _ _)
    cases ev with
    | attr a v =>
      simp only [List.cons_append, until_close, htl]
    | opening e => simp [sax_event.is_attribute] at hev
    | closing e => simp [sax_event.is_attribute] at hev
    | error e m => simp [sax_event.is_attribute] at hev

theorem after_close_attrs (attrs : List sax_event)
    (h : ∀ ev ∈ attrs, ev.is_attribute = true) (d : Nat) (rest : List sax_event) :
    after_close d (attrs ++ rest) = after_close d rest := by
  induction attrs with
  | nil => rfl
  | cons ev tl ih =>
    have htl := ih (fun ev hev => h ev (List.mem_cons_of_mem _ hev))
    have hev := h ev (List.mem_cons_self _ _)
    cases ev with
    | attr a v =>
      simp only [List.cons_append, after_close, htl]
    | opening e => simp [sax_event.is_attribute] at hev
    | closing e => simp [sax_event.is_attribute] at hev
    | error e m => simp [sax_event.is_attribute] at hev

theorem until_close_nil (d : Nat) : until_close d [] = [] := by
  cases d <;> rfl

theorem after_close_nil (d : Nat) : after_close d [] = [] := by
  cases d <;> rfl

theorem until_close_cons_opening (d : Nat) (e : sax_token) (rest : List sax_event) :
    until_close d (sax_event.opening e :: rest) =
      sax_event.opening e :: until_close (d + 1) rest := by
  cases d <;> rfl

theorem until_close_cons_closing (d : Nat) (e : sax_token) (rest : List sax_event) :
    until_close (d + 1) (sax_event.closing e :: rest) =
      sax_event.closing e :: until_close d rest := rfl

theorem after_close_cons_opening (d : Nat) (e : sax_token) (rest : List sax_event) :
    after_close d (sax_event.opening e :: rest) = after_close (d + 1) rest := by
  cases d <;> rfl

theorem after_close_cons_closing (d : Nat) (e : sax_token) (rest : List sax_event) :
    after_close (d + 1) (sax_event.closing e :: rest) = after_close d rest := rfl

theorem until_close_opening (name : sax_token) (attrs : List sax_event)
    (h : ∀ ev ∈ attrs, ev.is_attribute = true) (d : Nat) (rest : List sax_event) :
    until_close d (sax_event.opening name :: attrs ++ rest) =
      sax_event.opening name :: attrs ++ until_close (d + 1) rest := by
  rw [List.cons_append, until_close_cons_opening, until_close_attrs attrs h, List.cons_append]

theorem after_close_opening (name : sax_token) (attrs : List sax_event)
    (h : ∀ ev ∈ attrs, ev.is_attribute = true) (d : Nat) (rest : List sax_event) :
    after_close d (sax_event.opening name :: attrs ++ rest) = after_close (d + 1) rest := by
  rw [List.cons_append, after_close_cons_opening, after_close_attrs attrs h]

theorem until_close_self_closing (name : sax_token) (attrs : List sax_event)
    (h : ∀ ev ∈ attrs, ev.is_attribute = true) (d : Nat) (rest : List sax_event) :
    until_close d (sax_event.opening name :: (attrs ++ [sax_event.closing name]) ++ rest) =
      sax_event.opening name :: (attrs ++ [sax_event.closing name]) ++ until_close d rest := by
  rw [List.cons_append, List.append_assoc, until_close_cons_opening,
    until_close_attrs attrs h, List.singleton_append, until_close_cons_closing,
    List.cons_append, List.append_assoc, List.singleton_append]

theorem after_close_self_closing (name : sax_token) (attrs : List sax_event)
    (h : ∀ ev ∈ attrs, ev.is_attribute = true) (d : Nat) (rest : List sax_event) :
    after_close d (sax_event.opening name :: (attrs ++ [sax_event.closing name]) ++ rest) =
      after_close d rest := by
  rw [List.cons_append, List.append_assoc, after_close_cons_opening,
    after_close_attrs attrs h, List.singleton_append, after_close_cons_closing]

/-- The loop of parse_children stops at once below level 0 after an element. -/
theorem children_run_stopped (fuel : Nat) (t : sax_token) (level element_count : Int)
    (hl : level < 0) (hc : 0 < element_count) :
    children_run (fuel + 1) t level element_count = ⟨true, t, level, []⟩ := by
  rw [children_run_succ]
  have h : ¬ (t.cursor.getD 0 0 ≠ 0 ∧ (element_count = 0 ∨ 0 ≤ level)) := by
    intro ⟨_, h2⟩
    omega
  rw [if_neg h]

/-- The loop of parse_children stops at once at the end of the text. -/
theorem children_run_at_end (fuel : Nat) (t : sax_token) (level element_count : Int)
    (h0 : t.cursor.getD 0 0 = 0) :
    children_run (fuel + 1) t level element_count = ⟨true, t, level, []⟩ := by
  rw [children_run_succ]
  have h : ¬ (t.cursor.getD 0 0 ≠ 0 ∧ (element_count = 0 ∨ 0 ≤ level)) := by
    intro ⟨h1, _⟩
    exact h1 h0
  rw [if_neg h]

/-! ## The loop of parse_children, turn by turn -/

theorem children_run_element (fuel : Nat) (t : sax_token) (level element_count : Int)
    (h60 : t.cursor.getD 0 0 = 60) (hl : 0 ≤ level) (tag : sax_tag) (c : sax_token)
    (hrun : element_run (next_char t) level =
      ⟨true, c, tag.next_level level, tag.events level⟩) :
    children_run (fuel + 1) t level element_count =
      ⟨(children_run fuel c (tag.next_level level) (element_count + 1)).valid,
        (children_run fuel c (tag.next_level level) (element_count + 1)).c,
        (children_run fuel c (tag.next_level level) (element_count + 1)).level,
        tag.events level ++
          (children_run fuel c (tag.next_level level) (element_count + 1)).arg⟩ := by
  have hcond : t.cursor.getD 0 0 ≠ 0 ∧ (element_count = 0 ∨ 0 ≤ level) :=
    ⟨by rw [h60]; decide, Or.inr hl⟩
  rw [children_run_succ, if_pos hcond, if_pos h60, hrun]
  simp only [Bool.true_eq_false, if_false]

theorem children_run_space (fuel : Nat) (t : sax_token) (level element_count : Int)
    (h0 : t.cursor.getD 0 0 ≠ 0) (h60 : t.cursor.getD 0 0 ≠ 60)
    (hsp : isspace (t.cursor.getD 0 0) = true) (hl : 0 ≤ level) :
    children_run (fuel + 1) t level element_count =
      children_run fuel (next_char t) level element_count := by
  rw [children_run_succ, if_pos ⟨h0, Or.inr hl⟩, if_neg h60, if_pos hsp]

/-- A turn of the loop of parse_children that succeeds, at a level that is not negative:
the end of the text, a tag that parses, or white space. -/
theorem children_run_turn (fuel : Nat) (t : sax_token) (level element_count : Int)
    (hl : 0 ≤ level) (hv : (children_run (fuel + 1) t level element_count).valid = true) :
    t.cursor.getD 0 0 = 0 ∨
    (t.cursor.getD 0 0 = 60 ∧ (element_run (next_char t) level).valid = true) ∨
    (t.cursor.getD 0 0 ≠ 0 ∧ t.cursor.getD 0 0 ≠ 60 ∧ isspace (t.cursor.getD 0 0) = true) := by
  by_cases h0 : t.cursor.getD 0 0 = 0
  · exact Or.inl h0
  · rw [children_run_succ, if_pos ⟨h0, Or.inr hl⟩] at hv
    by_cases h60 : t.cursor.getD 0 0 = 60
    · rw [if_pos h60] at hv
      by_cases hE : (element_run (next_char t) level).valid = false
      · rw [if_pos hE, hE] at hv
        simp at hv
      · exact Or.inr (Or.inl ⟨h60, by simpa using hE⟩)
    · rw [if_neg h60] at hv
      by_cases hsp : isspace (t.cursor.getD 0 0) = true
      · exact Or.inr (Or.inr ⟨h0, h60, hsp⟩)
      · rw [if_neg hsp] at hv
        simp at hv

/-- The level shift. A run of the loop of parse_children at level `r + k + 1` that
succeeds, and the run on the same text at level `r`: the second succeeds and delivers
the events of the first up to the closing event of the element open at the start, on
whose tag it stops. -/
theorem children_run_shift :
    ∀ (fuel : Nat) (t : sax_token) (r k : Nat) (count count1 : Int),
      t.cursor.length < fuel → 0 ≤ count → 0 ≤ count1 →
      (children_run fuel t ((r : Int) + k + 1) count).valid = true →
      (children_run fuel t r count1).valid = true ∧
      (children_run fuel t r count1).arg =
        until_close r (children_run fuel t ((r : Int) + k + 1) count).arg ∧
      shift_rest (children_run fuel t r count1).level (children_run fuel t r count1).c
        (children_run fuel t ((r : Int) + k + 1) count).arg r k
  | 0, t, r, k, count, count1, hf, _, _, _ => absurd hf (Nat.not_lt_zero _)
  | fuel + 1, t, r, k, count, count1, hf, hc, hc1, hv => by
    have hr : (0 : Int) ≤ r := Int.ofNat_nonneg r
    have hrk : (0 : Int) ≤ (r : Int) + k + 1 := by omega
    rcases children_run_turn fuel t _ count hrk hv with h0 | ⟨h60, hE⟩ | ⟨h0, h60, hsp⟩
    · rw [children_run_at_end _ _ _ _ h0, children_run_at_end _ _ _ _ h0]
      exact ⟨rfl, (until_close_nil r).symm, Or.inr ⟨hr, h0, after_close_nil r⟩⟩
    · obtain ⟨tag, c, hlen, hre, hrun⟩ := element_run_tag _ _ hE
      have hx := next_char_cursor_lt t (by rw [h60]; decide)
      have hcf : c.cursor.length < fuel := by omega
      rw [children_run_element fuel t _ count h60 hrk tag c (hrun _ hrk)] at hv ⊢
      rw [children_run_element fuel t r count1 h60 hr tag c (hrun _ hr)]
      simp only [] at hv ⊢
      cases tag with
      | other =>
        simp only [sax_tag.next_level, sax_tag.events, List.nil_append] at hv ⊢
        exact children_run_shift fuel c r k (count + 1) (count1 + 1) hcf (by omega)
          (by omega) hv
      | opening name attrs =>
        simp only [sax_tag.next_level, sax_tag.events] at hv ⊢
        have e1 : (r : Int) + k + 1 + 1 = ((r + 1 : Nat) : Int) + k + 1 := by
          push_cast; ring
        have e2 : (r : Int) + 1 = ((r + 1 : Nat) : Int) := by push_cast; rfl
        rw [e1] at hv ⊢
        rw [e2]
        obtain ⟨i1, i2, i3⟩ := children_run_shift fuel c (r + 1) k (count + 1) (count1 + 1)
          hcf (by omega) (by omega) hv
        refine ⟨i1, ?_, ?_⟩
        · rw [until_close_opening name attrs hre.1, i2]
        · unfold shift_rest at i3 ⊢
          rw [after_close_opening name attrs hre.1]
          exact i3
      | self_closing name attrs =>
        simp only [sax_tag.next_level, sax_tag.events] at hv ⊢
        obtain ⟨i1, i2, i3⟩ := children_run_shift fuel c r k (count + 1) (count1 + 1)
          hcf (by omega) (by omega) hv
        refine ⟨i1, ?_, ?_⟩
        · rw [until_close_self_closing name attrs hre.1, i2]
        · unfold shift_rest at i3 ⊢
          rw [after_close_self_closing name attrs hre.1]
          exact i3
      | closing name =>
        simp only [sax_tag.next_level, sax_tag.events] at hv ⊢
        have hpos : (0 : Int) < (r : Int) + k + 1 := by omega
        rw [if_pos hpos]
        cases r with
        | zero =>
          have hneg : ¬ (0 : Int) < ((0 : Nat) : Int) := by simp
          rw [if_neg hneg]
          obtain ⟨fuel1, rfl⟩ : ∃ fuel1, fuel = fuel1 + 1 := ⟨fuel - 1, by omega⟩
          have hstop := children_run_stopped fuel1 c (((0 : Nat) : Int) - 1) (count1 + 1)
            (by simp) (by omega)
          rw [hstop]
          simp only [List.nil_append]
          refine ⟨trivial, rfl, Or.inl ⟨by simp, fuel1 + 1, count + 1, hcf, by omega, ?_, ?_⟩⟩
          · have e3 : ((0 : Nat) : Int) + k + 1 - 1 = (k : Int) := by simp
            rw [e3] at hv
            exact hv
          · have e3 : ((0 : Nat) : Int) + k + 1 - 1 = (k : Int) := by simp
            rw [e3]
            rfl
        | succ r1 =>
          have hpos1 : (0 : Int) < ((r1 + 1 : Nat) : Int) := by push_cast; omega
          rw [if_pos hpos1]
          have e1 : ((r1 + 1 : Nat) : Int) + k + 1 - 1 = (r1 : Int) + k + 1 := by
            push_cast; ring
          have e2 : ((r1 + 1 : Nat) : Int) - 1 = (r1 : Int) := by push_cast; ring
          rw [e1] at hv ⊢
          rw [e2]
          obtain ⟨i1, i2, i3⟩ := children_run_shift fuel c r1 k (count + 1) (count1 + 1)
            hcf (by omega) (by omega) hv
          refine ⟨i1, ?_, ?_⟩
          · rw [List.singleton_append, List.singleton_append, until_close_cons_closing, i2]
          · unfold shift_rest at i3 ⊢
            rw [List.singleton_append, after_close_cons_closing]
            exact i3
    · have hx := next_char_cursor_lt t h0
      rw [children_run_space fuel t _ count h0 h60 hsp hrk] at hv ⊢
      rw [children_run_space fuel t r count1 h0 h60 hsp hr]
      exact children_run_shift fuel (next_char t) r k count count1 (by omega) hc hc1 hv

/-- A run of the loop of parse_children that succeeds at a level that is not negative
depends neither on the fuel, once it exceeds the length of the text, nor on the count
of elements; its events hold the closing event of no element that was open at the
start, they do not start with an attribute event, and none is an error event. -/
theorem children_run_stable :
    ∀ (fuel : Nat) (t : sax_token) (r : Nat) (count : Int),
      t.cursor.length < fuel → 0 ≤ count → (children_run fuel t r count).valid = true →
      (∀ (fuel2 : Nat) (count2 : Int), t.cursor.length < fuel2 → 0 ≤ count2 →
        children_run fuel2 t r count2 = children_run fuel t r count) ∧
      until_close r (children_run fuel t r count).arg = (children_run fuel t r count).arg ∧
      (children_run fuel t r count).arg.takeWhile sax_event.is_attribute = [] ∧
      ∀ e m, sax_event.error e m ∉ (children_run fuel t r count).arg
  | 0, t, r, count, hf, _, _ => absurd hf (Nat.not_lt_zero _)
  | fuel + 1, t, r, count, hf, hc, hv => by
    have hr : (0 : Int) ≤ r := Int.ofNat_nonneg r
    rcases children_run_turn fuel t _ count hr hv with h0 | ⟨h60, hE⟩ | ⟨h0, h60, hsp⟩
    · rw [children_run_at_end _ _ _ _ h0]
      refine ⟨fun fuel2 count2 h2 _ => ?_, until_close_nil r, rfl, fun e m h => by simp at h⟩
      obtain ⟨f2, rfl⟩ : ∃ f2, fuel2 = f2 + 1 := ⟨fuel2 - 1, by omega⟩
      exact children_run_at_end _ _ _ _ h0
    · obtain ⟨tag, c, hlen, hre, hrun⟩ := element_run_tag _ _ hE
      have hx := next_char_cursor_lt t (by rw [h60]; decide)
      have hcf : c.cursor.length < fuel := by omega
      have hstep : ∀ (fuel2 : Nat) (count2 : Int), t.cursor.length < fuel2 →
          children_run fuel2 t r count2 =
            ⟨(children_run (fuel2 - 1) c (tag.next_level r) (count2 + 1)).valid,
              (children_run (fuel2 - 1) c (tag.next_level r) (count2 + 1)).c,
              (children_run (fuel2 - 1) c (tag.next_level r) (count2 + 1)).level,
              tag.events r ++
                (children_run (fuel2 - 1) c (tag.next_level r) (count2 + 1)).arg⟩ := by
        intro fuel2 count2 h2
        obtain ⟨f2, rfl⟩ : ∃ f2, fuel2 = f2 + 1 := ⟨fuel2 - 1, by omega⟩
        exact children_run_element f2 t r count2 h60 hr tag c (hrun _ hr)
      rw [children_run_element fuel t r count h60 hr tag c (hrun _ hr)] at hv ⊢
      simp only [] at hv ⊢
      cases tag with
      | other =>
        simp only [sax_tag.next_level, sax_tag.events, List.nil_append] at hv hstep ⊢
        obtain ⟨j1, j2, j3, j4⟩ := children_run_stable fuel c r (count + 1) hcf (by omega) hv
        refine ⟨fun fuel2 count2 h2 hc2 => ?_, j2, j3, j4⟩
        rw [hstep fuel2 count2 h2, j1 (fuel2 - 1) (count2 + 1) (by omega) (by omega)]
      | opening name attrs =>
        simp only [sax_tag.next_level, sax_tag.events] at hv hstep ⊢
        have e2 : (r : Int) + 1 = ((r + 1 : Nat) : Int) := by push_cast; rfl
        rw [e2] at hv ⊢
        obtain ⟨j1, j2, j3, j4⟩ := children_run_stable fuel c (r + 1) (count + 1) hcf
          (by omega) hv
        refine ⟨fun fuel2 count2 h2 hc2 => ?_, ?_, rfl, ?_⟩
        · rw [hstep fuel2 count2 h2, e2, j1 (fuel2 - 1) (count2 + 1) (by omega) (by omega)]
        · rw [until_close_opening name attrs hre.1, j2]
        · intro e m hmem
          rcases List.mem_cons.1 hmem with h | h
          · exact sax_event.noConfusion h
          · rcases List.mem_append.1 h with h | h
            · have := hre.1 _ h
              simp [sax_event.is_attribute] at this
            · exact j4 e m h
      | self_closing name attrs =>
        simp only [sax_tag.next_level, sax_tag.events] at hv hstep ⊢
        obtain ⟨j1, j2, j3, j4⟩ := children_run_stable fuel c r (count + 1) hcf (by omega) hv
        refine ⟨fun fuel2 count2 h2 hc2 => ?_, ?_, rfl, ?_⟩
        · rw [hstep fuel2 count2 h2, j1 (fuel2 - 1) (count2 + 1) (by omega) (by omega)]
        · rw [until_close_self_closing name attrs hre.1, j2]
        · intro e m hmem
          rcases List.mem_cons.1 hmem with h | h
          · exact sax_event.noConfusion h
          · rcases List.mem_append.1 h with h | h
            · rcases List.mem_append.1 h with h | h
              · have := hre.1 _ h
                simp [sax_event.is_attribute] at this
              · simp at h
            · exact j4 e m h
      | closing name =>
        simp only [sax_tag.next_level, sax_tag.events] at hv hstep ⊢
        cases r with
        | zero =>
          have hneg : ¬ (0 : Int) < ((0 : Nat) : Int) := by simp
          simp only [if_neg hneg, List.nil_append] at hstep ⊢
          obtain ⟨fuel1, rfl⟩ : ∃ fuel1, fuel = fuel1 + 1 := ⟨fuel - 1, by omega⟩
          have hstop := children_run_stopped fuel1 c (((0 : Nat) : Int) - 1) (count + 1)
            (by simp) (by omega)
          rw [hstop]
          refine ⟨fun fuel2 count2 h2 hc2 => ?_, rfl, rfl, fun e m h => by simp at h⟩
          rw [hstep fuel2 count2 h2]
          obtain ⟨f3, hf3⟩ : ∃ f3, fuel2 - 1 = f3 + 1 := ⟨fuel2 - 1 - 1, by omega⟩
          rw [hf3, children_run_stopped f3 c (((0 : Nat) : Int) - 1) (count2 + 1)
            (by simp) (by omega)]
        | succ r1 =>
          have hpos1 : (0 : Int) < ((r1 + 1 : Nat) : Int) := by push_cast; omega
          simp only [if_pos hpos1] at hstep ⊢
          have e2 : ((r1 + 1 : Nat) : Int) - 1 = (r1 : Int) := by push_cast; ring
          rw [e2] at hv ⊢
          obtain ⟨j1, j2, j3, j4⟩ := children_run_stable fuel c r1 (count + 1) hcf
            (by omega) hv
          refine ⟨fun fuel2 count2 h2 hc2 => ?_, ?_, rfl, ?_⟩
          · rw [hstep fuel2 count2 h2, e2,
              j1 (fuel2 - 1) (count2 + 1) (by omega) (by omega)]
          · rw [List.singleton_append, until_close_cons_closing, j2]
          · intro e m hmem
            rcases List.mem_append.1 hmem with h | h
            · simp at h
            · exact j4 e m h
    · have hx := next_char_cursor_lt t h0
      rw [children_run_space fuel t r count h0 h60 hsp hr] at hv ⊢
      obtain ⟨j1, j2, j3, j4⟩ := children_run_stable fuel (next_char t) r count (by omega)
        hc hv
      refine ⟨fun fuel2 count2 h2 hc2 => ?_, j2, j3, j4⟩
      obtain ⟨f2, rfl⟩ : ∃ f2, fuel2 = f2 + 1 := ⟨fuel2 - 1, by omega⟩
      rw [children_run_space f2 t r count2 h0 h60 hsp hr]
      exact j1 f2 count2 (by omega) hc2

/-- A run of the loop of parse_children that succeeds at level `k`, run again from the
same place at a level `r` that is not above `k`, succeeds and delivers the events of the
first run up to the closing event that closes level `r`. -/
theorem children_rerun (fuel : Nat) (t : sax_token) (r k : Nat) (count : Int)
    (hf : t.cursor.length < fuel) (hc : 0 ≤ count) (hrk : r ≤ k)
    (hv : (children_run fuel t k count).valid = true) :
    (children_run (t.cursor.length + 1) t r 0).valid = true ∧
    (children_run (t.cursor.length + 1) t r 0).arg =
      until_close r (children_run fuel t k count).arg := by
  rcases Nat.eq_or_lt_of_le hrk with h | h
  · subst h
    obtain ⟨j1, j2, -, -⟩ := children_run_stable fuel t r count hf hc hv
    rw [j1 _ 0 (Nat.lt_succ_self _) le_rfl]
    exact ⟨hv, j2.symm⟩
  · obtain ⟨k1, rfl⟩ : ∃ k1, k = r + k1 + 1 := ⟨k - r - 1, by omega⟩
    have e : ((r + k1 + 1 : Nat) : Int) = (r : Int) + k1 + 1 := by push_cast; rfl
    rw [e] at hv ⊢
    obtain ⟨i1, i2, -⟩ := children_run_shift fuel t r k1 count 0 hf hc le_rfl hv
    obtain ⟨j1, -⟩ := children_run_stable fuel t r 0 hf le_rfl i1
    rw [j1 _ 0 (Nat.lt_succ_self _) le_rfl]
    exact ⟨i1, i2⟩

/-- Events without an error event leave the state alone when the error callback is the
only callback. -/
theorem deliver_no_error {α : Type} (ecb : Option (sax_error_callback α))
    (events : List sax_event) (h : ∀ e m, sax_event.error e m ∉ events) (arg : α) :
    deliver none none none ecb events arg = arg := by
  induction events with
  | nil => rfl
  | cons ev rest ih =>
    have hrest := ih (fun e m hm => h e m (List.mem_cons_of_mem _ hm))
    cases ev with
    | attr a v => simpa only [deliver] using hrest
    | opening e => simpa only [deliver] using hrest
    | closing e => simpa only [deliver] using hrest
    | error e m => exact absurd (List.mem_cons_self _ _) (h e m)

theorem parse_children_run (t : sax_token) (level : Int) :
    parse_children t level (some record_opening) (some record_closing)
      (some record_attribute) (some record_error) [] =
      children_run (t.cursor.length + 1) t level 0 := rfl

theorem parse_children_skip (t : sax_token) (level : Int) :
    parse_children t level none none none (some record_error) ([] : List sax_event) =
      ⟨(children_run (t.cursor.length + 1) t level 0).valid,
        (children_run (t.cursor.length + 1) t level 0).c,
        (children_run (t.cursor.length + 1) t level 0).level,
        deliver none none none (some record_error)
          (children_run (t.cursor.length + 1) t level 0).arg []⟩ := by
  unfold parse_children
  exact (parse_children_loop_deliver none none none (some record_error)
    (fun f h => Option.noConfusion h) (fun f h => Option.noConfusion h)
    (fun f h => Option.noConfusion h) _ t level 0 []).1

/-- The children of an element whose tag ends with `>`: sax_parse_children runs the loop
of parse_children after the tag at level 0. -/
theorem sax_children_events_open (name c : sax_token)
    (h : parse_own_element name = ⟨true, c, 1, false⟩) :
    sax_children_events name =
      ((children_run (c.cursor.length + 1) c 0 0).arg,
        (children_run (c.cursor.length + 1) c 0 0).valid) := by
  unfold sax_children_events sax_parse_children
  simp only [h, Bool.true_eq_false, Bool.false_eq_true, if_false]
  rw [parse_children_run]
  rfl

/-- A self-closing element has no children. -/
theorem sax_children_events_closed (name c : sax_token)
    (h : parse_own_element name = ⟨true, c, 0, true⟩) :
    sax_children_events name = ([], true) := by
  unfold sax_children_events sax_parse_children
  simp only [h, Bool.true_eq_false, if_false, if_true]

/-- The siblings of a self-closing element: sax_parse_siblings runs the loop of
parse_children after the tag at level 0. -/
theorem sax_sibling_events_closed (name c : sax_token)
    (h : parse_own_element name = ⟨true, c, 0, true⟩) :
    sax_sibling_events name =
      ((children_run (c.cursor.length + 1) c 0 0).arg,
        (children_run (c.cursor.length + 1) c 0 0).valid) := by
  unfold sax_sibling_events sax_parse_siblings
  simp only [h, Bool.true_eq_false, if_false]
  unfold parse_text
  rw [parse_children_run]

/-- The siblings of an element whose tag ends with `>`, when the run over its children
succeeds without an error event: sax_parse_siblings runs the loop of parse_children
from where that run stopped, one level above. -/
theorem sax_sibling_events_open (name c : sax_token)
    (h : parse_own_element name = ⟨true, c, 1, false⟩)
    (hv : (children_run (c.cursor.length + 1) c 0 0).valid = true)
    (hq : ∀ e m, sax_event.error e m ∉ (children_run (c.cursor.length + 1) c 0 0).arg) :
    sax_sibling_events name =
      ((children_run ((children_run (c.cursor.length + 1) c 0 0).c.cursor.length + 1)
          (children_run (c.cursor.length + 1) c 0 0).c
          ((children_run (c.cursor.length + 1) c 0 0).level + 1) 0).arg,
        (children_run ((children_run (c.cursor.length + 1) c 0 0).c.cursor.length + 1)
          (children_run (c.cursor.length + 1) c 0 0).c
          ((children_run (c.cursor.length + 1) c 0 0).level + 1) 0).valid) := by
  unfold sax_sibling_events sax_parse_siblings
  simp only [h, Bool.true_eq_false, if_false, if_true]
  have e0 : (1 : Int) - 1 = 0 := rfl
  rw [e0, parse_children_skip, deliver_no_error _ _ hq]
  simp only [hv, Bool.true_eq_false, if_false]
  unfold parse_text
  rw [parse_children_run]

theorem takeWhile_attrs (attrs rest : List sax_event)
    (h : ∀ ev ∈ attrs, ev.is_attribute = true)
    (hrest : rest.takeWhile sax_event.is_attribute = []) :
    (attrs ++ rest).takeWhile sax_event.is_attribute = attrs ∧
    (attrs ++ rest).dropWhile sax_event.is_attribute = rest := by
  induction attrs with
  | nil =>
    have := List.takeWhile_append_dropWhile sax_event.is_attribute rest
    rw [hrest, List.nil_append] at this
    exact ⟨hrest, this⟩
  | cons ev attrs ih =>
    have hev := h ev (List.mem_cons_self _ _)
    obtain ⟨i1, i2⟩ := ih (fun ev hm => h ev (List.mem_cons_of_mem _ hm))
    rw [List.cons_append, List.takeWhile_cons, List.dropWhile_cons, if_pos hev, if_pos hev,
      i1, i2]
    exact ⟨rfl, rfl⟩

theorem split_skip (A B pre post : List sax_event) (x : sax_event) (hx : x ∉ A)
    (h : A ++ B = pre ++ x :: post) : ∃ pre2, B = pre2 ++ x :: post := by
  rcases List.append_eq_append_iff.1 h with ⟨a, -, h2⟩ | ⟨c, h1, h2⟩
  · exact ⟨a, h2⟩
  · cases c with
    | nil => exact ⟨[], by rw [List.nil_append] at h2 ⊢; exact h2.symm⟩
    | cons y c =>
      rw [List.cons_append] at h2
      have hy : x = y := (List.cons.inj h2).1
      subst hy
      exact absurd (by rw [h1]; simp) hx

/-- Re-entry on the element token of an opening tag that ends with `>`, from the run of
the loop of parse_children after the tag. -/
theorem reentry_opening (fuel : Nat) (c : sax_token) (r : Nat) (count : Int)
    (name : sax_token) (attrs : List sax_event) (hf : c.cursor.length < fuel)
    (hc : 0 ≤ count) (hre : (sax_tag.opening name attrs).reentry c)
    (hv : (children_run fuel c ((r : Int) + 1) count).valid = true) :
    reentry_at name (attrs ++ (children_run fuel c ((r : Int) + 1) count).arg) := by
  obtain ⟨ha, hattr, hown⟩ := hre
  have e1 : (r : Int) + 1 = ((r + 1 : Nat) : Int) := by push_cast; rfl
  have e2 : (r : Int) + 1 = ((0 : Nat) : Int) + r + 1 := by simp
  have hz : ((0 : Nat) : Int) = 0 := rfl
  have hv1 := hv
  rw [e1] at hv1
  obtain ⟨-, -, j3, -⟩ := children_run_stable fuel c (r + 1) count hf hc hv1
  rw [← e1] at j3
  obtain ⟨tw, dw⟩ := takeWhile_attrs attrs _ ha j3
  have hv2 := hv
  rw [e2] at hv2
  obtain ⟨i1, i2, i3⟩ := children_run_shift fuel c 0 r count 0 hf hc le_rfl hv2
  rw [← e2] at i2 i3
  obtain ⟨k1, -, -, k4⟩ := children_run_stable fuel c 0 0 hf le_rfl i1
  have hchild := k1 (c.cursor.length + 1) 0 (Nat.lt_succ_self _) le_rfl
  rw [← hchild] at i1 i2 i3 k4
  rw [hz] at i1 i2 i3 k4
  refine ⟨?_, ?_, ?_⟩
  · rw [tw]
    exact hattr
  · rw [dw, sax_children_events_open name c hown, i1, i2]
  · rw [dw, sax_sibling_events_open name c hown i1 k4]
    rcases i3 with ⟨hl, fuel2, count2, h2, hc2, hv3, ha3⟩ | ⟨hl, h0, ha0⟩
    · rw [hl]
      have e0 : (-1 : Int) + 1 = ((0 : Nat) : Int) := rfl
      rw [e0]
      obtain ⟨m1, m2⟩ := children_rerun fuel2 _ 0 r count2 h2 hc2 (Nat.zero_le _) hv3
      rw [m1, m2, ha3]
    · rw [children_run_at_end _ _ _ _ h0, ha0]
      rfl

/-- Re-entry on the element token of a self-closing tag, from the run of the loop of
parse_children after the tag. -/
theorem reentry_self_closing (fuel : Nat) (c : sax_token) (r : Nat) (count : Int)
    (name : sax_token) (attrs : List sax_event) (hf : c.cursor.length < fuel)
    (hc : 0 ≤ count) (hre : (sax_tag.self_closing name attrs).reentry c)
    (hv : (children_run fuel c r count).valid = true) :
    reentry_at name
      (attrs ++ [sax_event.closing name] ++ (children_run fuel c r count).arg) := by
  obtain ⟨ha, hattr, hown⟩ := hre
  rw [List.append_assoc, List.singleton_append]
  obtain ⟨tw, dw⟩ := takeWhile_attrs attrs
    (sax_event.closing name :: (children_run fuel c r count).arg) ha rfl
  obtain ⟨m1, m2⟩ := children_rerun fuel c 0 r count hf hc (Nat.zero_le _) hv
  have hz : ((0 : Nat) : Int) = 0 := rfl
  rw [hz] at m1 m2
  refine ⟨?_, ?_, ?_⟩
  · rw [tw]
    exact hattr
  · rw [dw, sax_children_events_closed name c hown]
    rfl
  · rw [dw, sax_sibling_events_closed name c hown, m1, m2]
    rfl

/-- Re-entry on the element token of every opening event of a run of the loop of
parse_children that succeeds. -/
theorem children_run_reentry :
    ∀ (fuel : Nat) (t : sax_token) (r : Nat) (count : Int),
      t.cursor.length < fuel → 0 ≤ count → (children_run fuel t r count).valid = true →
      ∀ (pre : List sax_event) (e : sax_token) (post : List sax_event),
        (children_run fuel t r count).arg = pre ++ sax_event.opening e :: post →
        reentry_at e post
  | 0, t, r, count, hf, _, _ => absurd hf (Nat.not_lt_zero _)
  | fuel + 1, t, r, count, hf, hc, hv => by
    have hr : (0 : Int) ≤ r := Int.ofNat_nonneg r
    intro pre e post hsplit
    rcases children_run_turn fuel t _ count hr hv with h0 | ⟨h60, hE⟩ | ⟨h0, h60, hsp⟩
    · rw [children_run_at_end _ _ _ _ h0] at hsplit
      simp at hsplit
    · obtain ⟨tag, c, hlen, hre, hrun⟩ := element_run_tag _ _ hE
      have hx := next_char_cursor_lt t (by rw [h60]; decide)
      have hcf : c.cursor.length < fuel := by omega
      rw [children_run_element fuel t r count h60 hr tag c (hrun _ hr)] at hv hsplit
      simp only [] at hv hsplit
      cases tag with
      | other =>
        simp only [sax_tag.next_level, sax_tag.events, List.nil_append] at hv hsplit
        exact children_run_reentry fuel c r (count + 1) hcf (by omega) hv pre e post hsplit
      | opening name attrs =>
        simp only [sax_tag.next_level, sax_tag.events] at hv hsplit
        cases pre with
        | nil =>
          rw [List.nil_append, List.cons_append] at hsplit
          obtain ⟨h1, h2⟩ := List.cons.inj hsplit
          have hname : name = e := sax_event.opening.inj h1
          subst hname
          rw [← h2]
          exact reentry_opening fuel c r (count + 1) name attrs hcf (by omega) hre hv
        | cons p pre1 =>
          rw [List.cons_append, List.cons_append] at hsplit
          have h2 := (List.cons.inj hsplit).2
          have hnot : sax_event.opening e ∉ attrs := fun hm => by
            have := hre.1 _ hm
            simp [sax_event.is_attribute] at this
          obtain ⟨pre2, h3⟩ := split_skip _ _ _ _ _ hnot h2
          have e2 : (r : Int) + 1 = ((r + 1 : Nat) : Int) := by push_cast; rfl
          rw [e2] at hv h3
          exact children_run_reentry fuel c (r + 1) (count + 1) hcf (by omega) hv pre2 e
            post h3
      | self_closing name attrs =>
        simp only [sax_tag.next_level, sax_tag.events] at hv hsplit
        cases pre with
        | nil =>
          rw [List.nil_append, List.cons_append] at hsplit
          obtain ⟨h1, h2⟩ := List.cons.inj hsplit
          have hname : name = e := sax_event.opening.inj h1
          subst hname
          rw [← h2]
          exact reentry_self_closing fuel c r (count + 1) name attrs hcf (by omega) hre hv
        | cons p pre1 =>
          rw [List.cons_append, List.cons_append] at hsplit
          have h2 := (List.cons.inj hsplit).2
          have hnot : sax_event.opening e ∉ attrs ++ [sax_event.closing name] :=
            fun hm => by
              rcases List.mem_append.1 hm with h | h
              · have := hre.1 _ h
                simp [sax_event.is_attribute] at this
              · simp at h
          obtain ⟨pre2, h3⟩ := split_skip _ _ _ _ _ hnot h2
          exact children_run_reentry fuel c r (count + 1) hcf (by omega) hv pre2 e post h3
      | closing name =>
        simp only [sax_tag.next_level, sax_tag.events] at hv hsplit
        have hnot : sax_event.opening e ∉
            (if (0 : Int) < r then [sax_event.closing name] else []) := fun hm => by
          by_cases hpos : (0 : Int) < r
          · rw [if_pos hpos] at hm
            simp at hm
          · rw [if_neg hpos] at hm
            simp at hm
        obtain ⟨pre2, h3⟩ := split_skip _ _ _ _ _ hnot hsplit
        cases r with
        | zero =>
          obtain ⟨fuel1, rfl⟩ : ∃ fuel1, fuel = fuel1 + 1 := ⟨fuel - 1, by omega⟩
          rw [children_run_stopped fuel1 c (((0 : Nat) : Int) - 1) (count + 1)
            (by simp) (by omega)] at h3
          simp at h3
        | succ r1 =>
          have e2 : ((r1 + 1 : Nat) : Int) - 1 = (r1 : Int) := by push_cast; ring
          rw [e2] at hv h3
          exact children_run_reentry fuel c r1 (count + 1) hcf (by omega) hv pre2 e post h3
    · have hx := next_char_cursor_lt t h0
      rw [children_run_space fuel t r count h0 h60 hsp hr] at hv hsplit
      exact children_run_reentry fuel (next_char t) r count (by omega) hc hv pre e post
        hsplit

/-- Re-entry on the element token of every opening event of a parse that succeeds. -/
theorem sax_events_reentry (text : List Byte) (log : List sax_event)
    (h : sax_events text = (log, true)) (pre : List sax_event) (e : sax_token)
    (post : List sax_event) (hlog : log = pre ++ sax_event.opening e :: post) :
    reentry_at e post := by
  unfold sax_events sax_parse_text parse_text at h
  rw [parse_children_run] at h
  obtain ⟨h1, h2⟩ := Prod.mk.inj h
  have hz : (0 : Int) = ((0 : Nat) : Int) := rfl
  rw [hz] at h1 h2
  exact children_run_reentry _ _ 0 0 (Nat.lt_succ_self _) le_rfl h2 pre e post
    (h1.trans hlog)

/-! ## Re-entry on an element token -/

/-- C25. Attribute re-entry: on a text that sax_parse_text parses successfully, for every
element opening event of the parse, sax_parse_attributes on the token of the event
succeeds and delivers exactly the attribute events that the parse delivers right after
that opening event, the same tokens in the same order, and nothing else. On the text of
the test, the first event opens `svg` and re-entry on its token delivers the five
attribute events of the test, and event 25 opens `g` and re-entry on its token delivers
no event. -/
theorem attribute_reentry :
    (∀ (text : List Byte) (log : List sax_event), sax_events text = (log, true) →
      ∀ (pre : List sax_event) (e : sax_token) (post : List sax_event),
        log = pre ++ sax_event.opening e :: post →
        sax_attribute_events e = (post.takeWhile sax_event.is_attribute, true)) ∧
    (fixture_events[0]? = some (sax_event.opening (fixture_element 0)) ∧
      (fixture_element 0).chars = ascii "svg" ∧
      (sax_attribute_events (fixture_element 0)).2 = true ∧
      (sax_attribute_events (fixture_element 0)).1.map sax_event.invocation =
        [(sax_type.SAX_ATTRIBUTE, 4, 6, ascii "width", ascii "84.1mm"),
          (sax_type.SAX_ATTRIBUTE, 4, 21, ascii "height", ascii "51.1mm"),
          (sax_type.SAX_ATTRIBUTE, 4, 37, ascii "version", ascii "1.1"),
          (sax_type.SAX_ATTRIBUTE, 5, 6, ascii "viewBox", ascii "0 0 84.1 51.1"),
          (sax_type.SAX_ATTRIBUTE, 5, 30, ascii "xmlns",
            ascii "http://www.w3.org/2000/svg")] ∧
      fixture_events[25]? = some (sax_event.opening (fixture_element 25)) ∧
      (fixture_element 25).chars = ascii "g" ∧
      sax_attribute_events (fixture_element 25) = ([], true)) :=
  ⟨fun text log h pre e post hlog => (sax_events_reentry text log h pre e post hlog).1,
    by decide!⟩

/-- The attribute re-entry on the first `path` element of the text of the test. -/
theorem attribute_reentry_witness :
    sax_events fixture_xml = (fixture_events, true) ∧
    fixture_events =
      fixture_events.take 6 ++ sax_event.opening (fixture_element 6) ::
        fixture_events.drop 7 ∧
    sax_attribute_events (fixture_element 6) =
      ((fixture_events.drop 7).takeWhile sax_event.is_attribute, true) :=
  ⟨by decide!, by decide!,
    attribute_reentry.1 fixture_xml fixture_events (by decide!) (fixture_events.take 6)
      (fixture_element 6) (fixture_events.drop 7) (by decide!)⟩

/-- C26. Children re-entry: on a text that sax_parse_text parses successfully, for every
element opening event of the parse, sax_parse_children on the token of the event
succeeds and delivers exactly the events that the parse delivers after the attribute
events of the element and before its closing event, in order, and nothing of the
element itself; when the closing event follows the attribute events at once, as for a
self-closing element, it delivers no event. On the text of the test, re-entry on `g`
delivers the thirteen events of its two `path` elements, and re-entry on the first
`path` delivers no event. -/
theorem children_reentry :
    (∀ (text : List Byte) (log : List sax_event), sax_events text = (log, true) →
      ∀ (pre : List sax_event) (e : sax_token) (post : List sax_event),
        log = pre ++ sax_event.opening e :: post →
        sax_children_events e =
          (until_close 0 (post.dropWhile sax_event.is_attribute), true) ∧
        ∀ (e2 : sax_token) (rest : List sax_event),
          post.dropWhile sax_event.is_attribute = sax_event.closing e2 :: rest →
          sax_children_events e = ([], true)) ∧
    (fixture_events[25]? = some (sax_event.opening (fixture_element 25)) ∧
      (fixture_element 25).chars = ascii "g" ∧
      (sax_children_events (fixture_element 25)).2 = true ∧
      (sax_children_events (fixture_element 25)).1.map sax_event.invocation =
        (fixture_reference.drop 26).take 13 ∧
      fixture_events[6]? = some (sax_event.opening (fixture_element 6)) ∧
      (fixture_element 6).chars = ascii "path" ∧
      sax_children_events (fixture_element 6) = ([], true)) :=
  ⟨fun text log h pre e post hlog =>
      ⟨(sax_events_reentry text log h pre e post hlog).2.1, fun e2 rest hrest => by
        rw [(sax_events_reentry text log h pre e post hlog).2.1, hrest]
        rfl⟩,
    by decide!⟩

/-- The children re-entry on the `g` element of the text of the test. -/
theorem children_reentry_witness :
    sax_events fixture_xml = (fixture_events, true) ∧
    fixture_events =
      fixture_events.take 25 ++ sax_event.opening (fixture_element 25) ::
        fixture_events.drop 26 ∧
    sax_children_events (fixture_element 25) =
      (until_close 0 ((fixture_events.drop 26).dropWhile sax_event.is_attribute), true) :=
  ⟨by decide!, by decide!,
    (children_reentry.1 fixture_xml fixture_events (by decide!) (fixture_events.take 25)
      (fixture_element 25) (fixture_events.drop 26) (by decide!)).1⟩

/-- C27. Siblings re-entry: on a text that sax_parse_text parses successfully, for every
element opening event of the parse, sax_parse_siblings on the token of the event
succeeds and delivers exactly the events that the parse delivers after the closing
event of the element and before the closing event of its parent, in order: the events
of the elements that follow it under the same parent, nothing of the element or of its
children, and not the closing event of the parent; when the closing event of the parent
follows that of the element at once, or nothing follows, it delivers no event. On the
text of the test, re-entry on the first `path` delivers the 35 events of the four
elements that follow it, re-entry on `g` the seven events of the last `path`, and
re-entry on `svg` no event. -/
theorem siblings_reentry :
    (∀ (text : List Byte) (log : List sax_event), sax_events text = (log, true) →
      ∀ (pre : List sax_event) (e : sax_token) (post : List sax_event),
        log = pre ++ sax_event.opening e :: post →
        sax_sibling_events e =
          (until_close 0 (after_close 0 (post.dropWhile sax_event.is_attribute)), true) ∧
        (after_close 0 (post.dropWhile sax_event.is_attribute) = [] →
          sax_sibling_events e = ([], true)) ∧
        ∀ (e2 : sax_token) (rest : List sax_event),
          after_close 0 (post.dropWhile sax_event.is_attribute) =
            sax_event.closing e2 :: rest →
          sax_sibling_events e = ([], true)) ∧
    (fixture_events[6]? = some (sax_event.opening (fixture_element 6)) ∧
      (fixture_element 6).chars = ascii "path" ∧
      (sax_sibling_events (fixture_element 6)).2 = true ∧
      (sax_sibling_events (fixture_element 6)).1.map sax_event.invocation =
        (fixture_reference.drop 12).take 35 ∧
      fixture_events[25]? = some (sax_event.opening (fixture_element 25)) ∧
      (fixture_element 25).chars = ascii "g" ∧
      (sax_sibling_events (fixture_element 25)).2 = true ∧
      (sax_sibling_events (fixture_element 25)).1.map sax_event.invocation =
        (fixture_reference.drop 40).take 7 ∧
      fixture_events[0]? = some (sax_event.opening (fixture_element 0)) ∧
      (fixture_element 0).chars = ascii "svg" ∧
      sax_sibling_events (fixture_element 0) = ([], true)) :=
  ⟨fun text log h pre e post hlog =>
      ⟨(sax_events_reentry text log h pre e post hlog).2.2,
        fun hnone => by
          rw [(sax_events_reentry text log h pre e post hlog).2.2, hnone]
          rfl,
        fun e2 rest hrest => by
          rw [(sax_events_reentry text log h pre e post hlog).2.2, hrest]
          rfl⟩,
    by decide!, by decide!, by decide!, by decide!, by decide!⟩

/-- The siblings re-entry on the `g` element of the text of the test. -/
theorem siblings_reentry_witness :
    sax_events fixture_xml = (fixture_events, true) ∧
    fixture_events =
      fixture_events.take 25 ++ sax_event.opening (fixture_element 25) ::
        fixture_events.drop 26 ∧
    sax_sibling_events (fixture_element 25) =
      (until_close 0
        (after_close 0 ((fixture_events.drop 26).dropWhile sax_event.is_attribute)),
        true) :=
  ⟨by decide!, by decide!,
    (siblings_reentry.1 fixture_xml fixture_events (by decide!) (fixture_events.take 25)
      (fixture_element 25) (fixture_events.drop 26) (by decide!)).1⟩
end Libpes

namespace Libpes
open pec_stitch_type Pec

/-! ## The palette mapping of PES version 1 -/

theorem rgb_norm2_nonneg (u v : pec_rgb) : 0 ≤ rgb_norm2 u v := by
  unfold rgb_norm2
  simp only []
  have h1 := mul_self_nonneg (v.r - u.r)
  have h2 := mul_self_nonneg (v.g - u.g)
  have h3 := mul_self_nonneg (v.b - u.b)
  omega

theorem rgb_norm2_self (u : pec_rgb) : rgb_norm2 u u = 0 := by
  unfold rgb_norm2
  simp

theorem rgb_norm2_eq_zero (u v : pec_rgb) (h : rgb_norm2 u v = 0) : v = u := by
  unfold rgb_norm2 at h
  simp only [] at h
  have n1 := mul_self_nonneg (v.r - u.r)
  have n2 := mul_self_nonneg (v.g - u.g)
  have n3 := mul_self_nonneg (v.b - u.b)
  have hr : (v.r - u.r) * (v.r - u.r) = 0 := by omega
  have hg : (v.g - u.g) * (v.g - u.g) = 0 := by omega
  have hb : (v.b - u.b) * (v.b - u.b) = 0 := by omega
  have h1 : v.r = u.r := by have := mul_self_eq_zero.1 hr; omega
  have h2 : v.g = u.g := by have := mul_self_eq_zero.1 hg; omega
  have h3 : v.b = u.b := by have := mul_self_eq_zero.1 hb; omega
  cases u
  cases v
  simp only [] at h1 h2 h3
  rw [h1, h2, h3]

/-- C36. Palette quantisation is idempotent: for every RGB u, with
i = pec_palette_index_by_rgb(u) and v = pec_palette_thread(i).rgb,
pec_palette_index_by_rgb(v) = i; a colour that went once through the palette mapping
of PES version 1 is mapped to the same index and the same RGB again. -/
theorem palette_quantisation_idempotent (u : pec_rgb) :
    pec_palette_index_by_rgb (pec_palette_thread (pec_palette_index_by_rgb u)).rgb =
      pec_palette_index_by_rgb u ∧
    (pec_palette_thread (pec_palette_index_by_rgb
        (pec_palette_thread (pec_palette_index_by_rgb u)).rgb)).rgb =
      (pec_palette_thread (pec_palette_index_by_rgb u)).rgb := by
  obtain ⟨h0, h63, hmin⟩ := palette_index_first_minimum u
  generalize hi : pec_palette_index_by_rgb u = i at h0 h63 hmin ⊢
  generalize hv : (pec_palette_thread i).rgb = v at hmin ⊢
  obtain ⟨k0, k63, kmin⟩ := palette_index_first_minimum v
  generalize hk : pec_palette_index_by_rgb v = k at k0 k63 kmin ⊢
  have ei : ((i.toNat : Nat) : Int) = i := by omega
  have ek : ((k.toNat : Nat) : Int) = k := by omega
  have a := kmin i.toNat (by omega)
  rw [ei, hv, rgb_norm2_self] at a
  have hz : rgb_norm2 v (pec_palette_thread k).rgb = 0 :=
    le_antisymm a.1 (rgb_norm2_nonneg _ _)
  have hkv : (pec_palette_thread k).rgb = v := rgb_norm2_eq_zero _ _ hz
  have hle : k ≤ i := by
    by_contra hlt
    have := a.2 (by omega)
    omega
  have hge : i ≤ k := by
    by_contra hlt
    have b := (hmin k.toNat (by omega)).2
    rw [ek, hkv] at b
    have := b (by omega)
    omega
  have hki : k = i := le_antisymm hle hge
  exact ⟨hki, by rw [hki, hv]⟩

/-! ## The PEC offset of a PES file -/

/-- C37 fails on a buffer of 533 bytes that starts with `#PES0001` and holds the PEC
offset -1 (the bytes FF FF FF FF at offset 8): init_pec compares the offset with the
size of the buffer only, so it hands pec_decoder_init the address one byte before the
buffer with the size 534, and the PEC decoder is made from bytes outside the input. A
buffer of the same size with the PEC offset 0 is rejected, as the claim says: 533 bytes
are fewer than 534. -/
theorem pes_negative_pec_offset_read (calloc_zero : Bool) :
    PesDecoder.pes_decoder_init gridOps calloc_zero
      (ascii "#PES0001" ++ [255, 255, 255, 255] ++ List.replicate 521 0) =
      .out_of_bounds ∧
    PesDecoder.pes_decoder_init gridOps calloc_zero
      (ascii "#PES0001" ++ [0, 0, 0, 0] ++ List.replicate 521 0) = .null := by
  cases calloc_zero <;> exact ⟨rfl, rfl⟩

/-! ## The bounds of the PEC encoder and the Stop -/

section stop_bounds
open PecEncoder

/-- C34 fails on the calls pec_append_thread(e, 1), pec_append_stitch(e, 5.0, 5.0),
pec_append_thread(e, 2): the second pec_append_thread appends the Stop through
append_stitch with the coordinates (0.0, 0.0), and append_stitch calls update_bounds on
them, so the bounds go from the point (5.0, 5.0) to the box from (0.0, 0.0) to
(5.0, 5.0); coordinates are in tenths of a millimetre. In general a pec_append_thread
that succeeds on an encoder with stitches leaves the bounds that update_bounds gives for
(0.0, 0.0), and on an encoder without stitches it leaves the bounds as they are. -/
theorem pec_append_thread_moves_bounds :
    ((pec_append_stitch gridOps true (pec_append_thread gridOps true
        (pec_encoder_init gridOps) 1).1 50 50).1.bounds = ⟨50, 50, 50, 50, true⟩ ∧
      (pec_append_thread gridOps true
        (pec_append_stitch gridOps true (pec_append_thread gridOps true
          (pec_encoder_init gridOps) 1).1 50 50).1 2).2 = true ∧
      (pec_append_thread gridOps true
        (pec_append_stitch gridOps true (pec_append_thread gridOps true
          (pec_encoder_init gridOps) 1).1 50 50).1 2).1.bounds = ⟨0, 0, 50, 50, true⟩) ∧
    ∀ {F : Type} (ops : FloatOps F) (alloc_ok : Bool) (e : pec_encoder F)
      (palette_index : Int), (pec_append_thread ops alloc_ok e palette_index).2 = true →
      (pec_append_thread ops alloc_ok e palette_index).1.bounds =
        if e.stitch_count = 0 then e.bounds
        else update_bounds ops e.bounds ops.zero ops.zero := by
  refine ⟨⟨rfl, rfl, rfl⟩, fun ops alloc_ok e palette_index h => ?_⟩
  unfold pec_append_thread at h ⊢
  by_cases hmax : PEC_MAX_THREADS ≤ e.thread_count
  · rw [if_pos hmax] at h
    exact absurd h (by simp)
  · rw [if_neg hmax] at h ⊢
    simp only [pec_encoder.stitch_count] at h ⊢
    by_cases hs : (e.stitch_list.length : Int) = 0
    · rw [if_pos hs, if_pos hs]
    · rw [if_neg hs] at h ⊢
      rw [if_neg hs]
      unfold append_stitch at h ⊢
      simp only [pec_encoder.thread_count, pec_encoder.stitch_count] at h ⊢
      split_ifs at h ⊢ <;> rfl

end stop_bounds

/-! ## The stitch stream of the PEC encoder -/

section pec_stream
open PecEncoder PecDecoder

/-- The loop of encode_stitch_list on a list that is cut at a stitch: the bytes of the
stitches before the cut, then the bytes of the rest, which the loop writes with the stop
counter that the Stops before the cut leave. -/
theorem encode_stitch_loop_cut {F : Type} (ops : FloatOps F) :
    ∀ (before : List (pec_stitch F)) (rest : List (pec_stitch F)) (x y stop : Int)
      (body : List Byte),
      encode_stitch_loop ops (before ++ rest) x y stop = some body →
      ∃ (head tail : List Byte) (x1 y1 : Int),
        encode_stitch_loop ops before x y stop = some head ∧
        encode_stitch_loop ops rest x1 y1
          (if before.countP is_stop % 2 = 0 then stop else 3 - stop) = some tail ∧
        body = head ++ tail
  | [], rest, x, y, stop, body, h => ⟨[], body, x, y, rfl, by simpa using h, rfl⟩
  | s :: before, rest, x, y, stop, body, h => by
    rw [List.cons_append] at h
    by_cases hs : s.type = PEC_STITCH_STOP
    · simp only [encode_stitch_loop, if_pos hs] at h
      obtain ⟨a, b, ha, hb, rfl⟩ := both_eq_some.1 h
      obtain ⟨head, tail, x1, y1, h1, h2, rfl⟩ :=
        encode_stitch_loop_cut ops before rest x y (3 - stop) b hb
      have hc : List.countP is_stop (s :: before) = List.countP is_stop before + 1 := by
        rw [List.countP_cons_of_pos]
        simp [is_stop, hs]
      refine ⟨a ++ head, tail, x1, y1, ?_, ?_, by rw [List.append_assoc]⟩
      · simp only [encode_stitch_loop, if_pos hs, ha, h1]; rfl
      · rw [hc]
        by_cases hp : List.countP is_stop before % 2 = 0
        · rw [if_pos hp] at h2
          rw [if_neg (by omega)]
          exact h2
        · rw [if_neg hp] at h2
          rw [if_pos (by omega)]
          have e : 3 - (3 - stop) = stop := by ring
          rw [e] at h2
          exact h2
    · simp only [encode_stitch_loop, if_neg hs] at h
      obtain ⟨a, b, ha, hb, rfl⟩ := both_eq_some.1 h
      obtain ⟨head, tail, x1, y1, h1, h2, rfl⟩ :=
        encode_stitch_loop_cut ops before rest _ _ stop b hb
      have hc : List.countP is_stop (s :: before) = List.countP is_stop before := by
        rw [List.countP_cons_of_neg]
        simp [is_stop, hs]
      refine ⟨a ++ head, tail, x1, y1, ?_, ?_, by rw [List.append_assoc]⟩
      · simp only [encode_stitch_loop, if_neg hs, ha, h1]; rfl
      · rw [hc]
        exact h2

theorem decode_stitch_coordinate_congr (d1 d2 : pec_decoder) (p : Int)
    (hd : ∀ o, p ≤ o → decode_u8 d1 o = decode_u8 d2 o) (o c : Int) (t : pec_stitch_type)
    (ho : p ≤ o) :
    decode_stitch_coordinate d1 o c t = decode_stitch_coordinate d2 o c t := by
  unfold decode_stitch_coordinate
  rw [hd o ho, hd (o + 1) (by omega)]

theorem decode_stitch_coordinate_offset (d : pec_decoder) (o c : Int) (t : pec_stitch_type)
    (r : Int × Int × pec_stitch_type) (h : decode_stitch_coordinate d o c t = some r) :
    o ≤ r.1 := by
  unfold decode_stitch_coordinate at h
  cases h1 : decode_u8 d o with
  | none => rw [h1] at h; exact absurd h (by simp)
  | some u =>
    rw [h1] at h
    simp only [] at h
    by_cases hb : u &&& 0x80 ≠ 0
    · rw [if_pos hb] at h
      cases h2 : decode_u8 d (o + 1) with
      | none => rw [h2] at h; exact absurd h (by simp)
      | some v =>
        rw [h2] at h
        simp only [Option.some.injEq] at h
        rw [← h]
        show o ≤ o + 2
        omega
    · rw [if_neg hb] at h
      simp only [Option.some.injEq] at h
      rw [← h]
      show o ≤ o + 1
      omega

/-- The loop of pec_stitch_foreach from an offset on reads the buffer from that offset
on only. -/
theorem stitch_foreach_loop_congr {F σ : Type} (ops : FloatOps F)
    (cb : pec_stitch_callback F σ) (d1 d2 : pec_decoder) (p : Int)
    (hd : ∀ o, p ≤ o → decode_u8 d1 o = decode_u8 d2 o) :
    ∀ (fuel : Nat) (i o x y : Int) (arg : σ), p ≤ o →
      stitch_foreach_loop ops d1 cb fuel i o x y arg =
        stitch_foreach_loop ops d2 cb fuel i o x y arg
  | 0, _, _, _, _, _, _ => rfl
  | fuel + 1, i, o, x, y, arg, ho => by
    have ih := stitch_foreach_loop_congr ops cb d1 d2 p hd fuel
    simp only [stitch_foreach_loop]
    rw [hd o ho]
    cases h8 : decode_u8 d2 o with
    | none => rfl
    | some cmd =>
      simp only []
      by_cases hff : cmd = 0xFF
      · simp only [if_pos hff]
      · simp only [if_neg hff]
        by_cases hfe : cmd = 0xFE
        · simp only [if_pos hfe]
          rw [ih _ _ _ _ _ (by omega)]
        · simp only [if_neg hfe]
          rw [decode_stitch_coordinate_congr d1 d2 p hd o x _ ho]
          cases hx : decode_stitch_coordinate d2 o x PEC_STITCH_NORMAL with
          | none => rfl
          | some r1 =>
            obtain ⟨o1, x1, t1⟩ := r1
            have ho1 : o ≤ o1 := decode_stitch_coordinate_offset d2 o x _ _ hx
            simp only []
            rw [decode_stitch_coordinate_congr d1 d2 p hd o1 y _ (by omega)]
            cases hy : decode_stitch_coordinate d2 o1 y t1 with
            | none => rfl
            | some r2 =>
              obtain ⟨o2, y1, t2⟩ := r2
              have ho2 : o1 ≤ o2 := decode_stitch_coordinate_offset d2 o1 y _ _ hy
              simp only []
              rw [ih _ _ _ _ _ (by omega)]

theorem decode_u8_after (front back : List Byte) (c a b : Byte) (o : Int)
    (ho : (front.length : Int) + 3 ≤ o) :
    decode_u8 ⟨front ++ c :: a :: b :: back⟩ o =
      if ((front.length + 3 + back.length : Nat) : Int) < o + 1 then none
      else some (back.getD (o.toNat - (front.length + 3)) 0).val := by
  unfold decode_u8 pec_decoder.size
  have e : front ++ c :: a :: b :: back = (front ++ [c, a, b]) ++ back := by simp
  have hl : (front ++ c :: a :: b :: back).length = front.length + 3 + back.length := by
    simp only [List.length_append, List.length_cons]
    omega
  simp only [hl]
  by_cases hs : ((front.length + 3 + back.length : Nat) : Int) < o + 1
  · rw [if_pos hs, if_pos (Or.inr hs)]
  · rw [if_neg hs, if_neg (by omega)]
    simp only [e]
    rw [List.getD_append_right _ _ _ _ (by simp; omega)]
    simp

/-- The decoder skips the two bytes after the marker 0xFE: the loop of
pec_stitch_foreach at a marker gives the same result whatever the two bytes are. -/
theorem stitch_foreach_loop_skip {F σ : Type} (ops : FloatOps F)
    (cb : pec_stitch_callback F σ) (front back : List Byte) (a b a1 b1 : Byte)
    (fuel : Nat) (i x y : Int) (arg : σ) :
    stitch_foreach_loop ops ⟨front ++ 0xFE :: a :: b :: back⟩ cb fuel i front.length x y arg =
      stitch_foreach_loop ops ⟨front ++ 0xFE :: a1 :: b1 :: back⟩ cb fuel i front.length
        x y arg := by
  cases fuel with
  | zero => rfl
  | succ fuel =>
    simp only [stitch_foreach_loop, decode_u8_at]
    have hff : ¬ ((0xFE : Byte).val = 0xFF) := by decide
    have hfe : (0xFE : Byte).val = 0xFE := by decide
    simp only [if_neg hff, if_pos hfe]
    rw [stitch_foreach_loop_congr ops cb ⟨front ++ 0xFE :: a :: b :: back⟩
      ⟨front ++ 0xFE :: a1 :: b1 :: back⟩ (front.length + 3)
      (fun o ho => by rw [decode_u8_after _ _ _ _ _ _ ho, decode_u8_after _ _ _ _ _ _ ho])
      fuel _ _ _ _ _ (le_refl _)]

/-- C33. Stop alternation on write: in the stitch stream that pec_encode writes, which
starts at offset 532 of the output, every Stop of the stitch list is written after the
bytes of the stitches before it as the marker byte 0xFE, the byte 0xB0 and the stop
counter, and the counter is 2 for a Stop with an even number of Stops before it and 1
for a Stop with an odd number: 2, 1, 2, 1, ... from the first Stop on. The decoder skips
the two bytes after the marker without interpreting them: the loop of pec_stitch_foreach
at a marker gives the same result whatever the two bytes are. -/
theorem stop_counter_alternates {F : Type} (ops : FloatOps F) (e : pec_encoder F)
    (out : List Byte) (h : pec_encode ops e = some out) :
    (∃ pre stream thumbs : List Byte, out = pre ++ stream ++ thumbs ∧ pre.length = 532 ∧
      encode_stitch_list ops e = some stream ∧
      ∀ (before : List (pec_stitch F)) (s : pec_stitch F) (after : List (pec_stitch F)),
        e.stitch_list = before ++ s :: after → s.type = PEC_STITCH_STOP →
        ∃ head tail : List Byte,
          encode_stitch_loop ops before (ops.pec_raw_coordinate e.bounds.min_x)
            (ops.pec_raw_coordinate e.bounds.min_y) 2 = some head ∧
          stream = head ++
            [0xFE, 0xB0, if before.countP is_stop % 2 = 0 then 2 else 1] ++ tail) ∧
    ∀ {σ : Type} (cb : pec_stitch_callback F σ) (front back : List Byte)
      (a b a1 b1 : Byte) (fuel : Nat) (i x y : Int) (arg : σ),
      stitch_foreach_loop ops ⟨front ++ 0xFE :: a :: b :: back⟩ cb fuel i front.length x y
          arg =
        stitch_foreach_loop ops ⟨front ++ 0xFE :: a1 :: b1 :: back⟩ cb fuel i front.length
          x y arg := by
  refine ⟨?_, fun cb front back a b a1 b1 fuel i x y arg =>
    stitch_foreach_loop_skip ops cb front back a b a1 b1 fuel i x y arg⟩
  obtain ⟨pre, stream, thumbs, h1, h2, h3, -⟩ := pec_encode_split ops e out h
  refine ⟨pre, stream, thumbs, h1, h2, h3, fun before s after hl hs => ?_⟩
  obtain ⟨body, hb, rfl⟩ := encode_stitch_list_eq_some ops e stream h3
  rw [hl] at hb
  obtain ⟨head, tail, x1, y1, c1, c2, rfl⟩ := encode_stitch_loop_cut ops before (s :: after)
    _ _ 2 body hb
  simp only [encode_stitch_loop, if_pos hs] at c2
  obtain ⟨m, rest, hm, -, rfl⟩ := both_eq_some.1 c2
  refine ⟨head, rest ++ [0xFF], c1, ?_⟩
  have hmark : m = [0xFE, 0xB0, if before.countP is_stop % 2 = 0 then 2 else 1] := by
    by_cases hp : List.countP is_stop before % 2 = 0
    · rw [if_pos hp] at hm ⊢
      have e2 : both (encode_u16lsb 45310) (encode_u8 2) = some [0xFE, 0xB0, 2] := by decide
      rw [e2] at hm
      exact (Option.some.inj hm).symm
    · rw [if_neg hp] at hm ⊢
      have e1 : both (encode_u16lsb 45310) (encode_u8 (3 - 2)) = some [0xFE, 0xB0, 1] := by
        decide
      rw [e1] at hm
      exact (Option.some.inj hm).symm
  rw [hmark]
  simp only [List.append_assoc]

theorem stop_counter_alternates_witness :
    ∃ (out stream head tail : List Byte),
      pec_encode gridOps stop_pec_encoder = some out ∧
      encode_stitch_list gridOps stop_pec_encoder = some stream ∧
      stream = head ++ [0xFE, 0xB0, 1] ++ tail := by
  obtain ⟨out, h⟩ := Option.isSome_iff_exists.1
    (by decide : (pec_encode gridOps stop_pec_encoder).isSome = true)
  obtain ⟨-, stream, -, -, -, h3, h4⟩ := (stop_counter_alternates gridOps stop_pec_encoder
    out h).1
  obtain ⟨head, tail, -, h5⟩ := h4
    [⟨0, 0, PEC_STITCH_NORMAL⟩, ⟨10, 10, PEC_STITCH_NORMAL⟩, ⟨0, 0, PEC_STITCH_STOP⟩,
      ⟨20, 5, PEC_STITCH_JUMP⟩, ⟨30, 15, PEC_STITCH_NORMAL⟩] ⟨0, 0, PEC_STITCH_STOP⟩
    [⟨40, 0, PEC_STITCH_JUMP⟩] rfl rfl
  exact ⟨out, stream, head, tail, h, h3, h5⟩

theorem first_byte_bound (n : Fin 16) (k : Fin 3) : n.val ||| 0x80 ||| k.val * 16 ≤ 0xAF := by
  revert n k
  decide

/-- The first byte that encode_stitch writes for a delta in range is at most 0xAF. -/
theorem encode_stitch_first_byte (t : pec_stitch_type) (d : Int) (h1 : -0x800 ≤ d)
    (h2 : d ≤ 0x7FF) :
    ∃ (b : Byte) (rest : List Byte), encode_stitch t d = some (b :: rest) ∧ b.val ≤ 0xAF := by
  by_cases hs : t = PEC_STITCH_NORMAL ∧ -0x40 ≤ d ∧ d ≤ 0x3F
  · obtain ⟨b, hb, -, hlt⟩ := encode_stitch_short d hs.2.1 hs.2.2
    rw [hs.1]
    exact ⟨b, [], hb, by omega⟩
  · obtain ⟨b1, b2, hb, hv, -⟩ := encode_stitch_long t d h1 h2 hs
    obtain ⟨k, hk, -⟩ := kind_bits_cases t
    have hn : (d / 256 % 16).toNat < 16 := by omega
    have := first_byte_bound ⟨(d / 256 % 16).toNat, hn⟩ k
    simp only [] at this
    exact ⟨b1, [b2], hb, by rw [hv, hk]; exact this⟩

theorem encode_stitch_in_range (t : pec_stitch_type) (d : Int) (out : List Byte)
    (h : encode_stitch t d = some out) : -0x800 ≤ d ∧ d ≤ 0x7FF := by
  unfold encode_stitch at h
  by_cases hr : d < -0x800 ∨ 0x7FF < d
  · rw [if_pos hr] at h
    exact absurd h (by simp)
  · omega

/-- C35. Stitch framing is unambiguous: for every kind, Normal, Jump or Trim, and every
delta in -2048..2047, encode_stitch succeeds and its first byte is at most 0xAF, hence
neither 0xFE nor 0xFF. So in the stitch stream that pec_encode writes, the bytes of a
stitch that is no Stop start, after the bytes of the stitches before it, with a byte
that is at most 0xAF, and the decoder, which reports a Stop where it meets the command
byte 0xFE and ends where it meets 0xFF, reports exactly one stitch for each stitch of the
list, a Stop exactly for the Stops, and ends with success. -/
theorem stitch_framing_unambiguous {F : Type} (ops : FloatOps F) (e : pec_encoder F)
    (out : List Byte) (h : pec_encode ops e = some out) :
    (∀ (t : pec_stitch_type) (d : Int), -2048 ≤ d → d ≤ 2047 →
      ∃ (b : Byte) (rest : List Byte), encode_stitch t d = some (b :: rest) ∧
        b.val ≤ 0xAF ∧ b.val ≠ 0xFE ∧ b.val ≠ 0xFF) ∧
    (∃ pre stream thumbs : List Byte, out = pre ++ stream ++ thumbs ∧ pre.length = 532 ∧
      encode_stitch_list ops e = some stream ∧
      ∀ (before : List (pec_stitch F)) (s : pec_stitch F) (after : List (pec_stitch F)),
        e.stitch_list = before ++ s :: after → s.type ≠ PEC_STITCH_STOP →
        ∃ (head : List Byte) (b : Byte) (tail : List Byte),
          encode_stitch_loop ops before (ops.pec_raw_coordinate e.bounds.min_x)
            (ops.pec_raw_coordinate e.bounds.min_y) 2 = some head ∧
          stream = head ++ b :: tail ∧ b.val ≤ 0xAF) ∧
    ∃ events : List (stitch_event F),
      pec_decoder_init out = some ⟨out⟩ ∧
      pec_stitch_foreach ops ⟨out⟩ record_stitch [] = (events, true) ∧
      events.length = e.stitch_list.length ∧
      ∀ (i : Nat) (s : pec_stitch F), e.stitch_list[i]? = some s →
        ∃ ev : stitch_event F, events[i]? = some ev ∧
          (ev.stitch_type = PEC_STITCH_STOP ↔ s.type = PEC_STITCH_STOP) := by
  refine ⟨fun t d h1 h2 => ?_, ?_, ?_⟩
  · obtain ⟨b, rest, hb, hle⟩ := encode_stitch_first_byte t d h1 h2
    exact ⟨b, rest, hb, hle, by omega, by omega⟩
  · obtain ⟨pre, stream, thumbs, h1, h2, h3, -⟩ := pec_encode_split ops e out h
    refine ⟨pre, stream, thumbs, h1, h2, h3, fun before s after hl hs => ?_⟩
    obtain ⟨body, hb, rfl⟩ := encode_stitch_list_eq_some ops e stream h3
    rw [hl] at hb
    obtain ⟨head, tail, x1, y1, c1, c2, rfl⟩ := encode_stitch_loop_cut ops before
      (s :: after) _ _ 2 body hb
    simp only [encode_stitch_loop, if_neg hs] at c2
    obtain ⟨m, rest, hm, -, rfl⟩ := both_eq_some.1 c2
    obtain ⟨mx, my, hx, -, rfl⟩ := both_eq_some.1 hm
    obtain ⟨r1, r2⟩ := encode_stitch_in_range _ _ _ hx
    obtain ⟨b, bs, hb1, hle⟩ := encode_stitch_first_byte s.type _ r1 r2
    rw [hx] at hb1
    have hmx : mx = b :: bs := Option.some.inj hb1
    refine ⟨head, b, bs ++ my ++ rest ++ [0xFF], c1, ?_, hle⟩
    rw [hmx]
    simp only [List.append_assoc, List.cons_append]
  · obtain ⟨hd, hrun⟩ := pec_stitch_foreach_encoded ops e out h record_stitch
      (fun log ev => log ++ [ev]) (fun s i x y t => rfl) []
    rw [foldl_record, List.nil_append] at hrun
    obtain ⟨hlen, hspec⟩ := pec_reported_spec ops (ops.pec_raw_coordinate e.bounds.min_x)
      (ops.pec_raw_coordinate e.bounds.min_y) e.stitch_list 0
      (ops.pec_raw_coordinate e.bounds.min_x) (ops.pec_raw_coordinate e.bounds.min_y)
    refine ⟨_, hd, hrun, hlen, fun i s hi => ?_⟩
    obtain ⟨ev, h1, -, h3, -⟩ := hspec i s hi
    exact ⟨ev, h1, by rw [h3]⟩

theorem stitch_framing_unambiguous_witness :
    ∃ (out : List Byte) (events : List (stitch_event Int)),
      pec_encode gridOps stop_pec_encoder = some out ∧
      pec_stitch_foreach gridOps ⟨out⟩ record_stitch [] = (events, true) ∧
      events.length = 7 := by
  obtain ⟨out, h⟩ := Option.isSome_iff_exists.1
    (by decide : (pec_encode gridOps stop_pec_encoder).isSome = true)
  obtain ⟨events, -, h2, h3, -⟩ := (stitch_framing_unambiguous gridOps stop_pec_encoder
    out h).2.2
  exact ⟨out, events, h, h2, h3⟩

end pec_stream

/-! ## The thread table of PES version 1 -/

/-- C31 fails on unflagged_change_encoder, where the thread changes on stitch 1, which
is not marked jump: encode_thread_list14 writes the count 2 and the pairs (0, 5) and
(1, 2), so the run that starts at stitch 1 has block_index 1 = 1 + 2 * 0, as the claim
says, but encode_stitch_list writes a single block header and no jump block, and the
block sequence has no block 1 that introduces the run. -/
theorem pes_thread_table_block_missing :
    unflagged_change_encoder.stitch_list.map (fun s => (s.thread_index, s.jump)) =
      [(0, false), (1, false)] ∧
    PesEncoder.encode_thread_list14 unflagged_change_encoder =
      some ([2, 0] ++ [0, 0, 5, 0] ++ [1, 0, 2, 0] ++ [0, 0, 0, 0]) ∧
    PesEncoder.encode_stitch_list gridOps unflagged_change_encoder =
      some ([0, 0, 1, 0, 1, 0] ++ [0, 0, 0, 0] ++ [10, 0, 0, 0]) := by
  refine ⟨by decide, by decide, by decide⟩

/-! ## The companion PEC encoder of the PES encoder -/

section companion
open PecEncoder

/-- What a pec_append_thread that succeeds does: it appends the palette index, and a
Stop when the encoder has stitches. -/
theorem pec_append_thread_success {F : Type} (ops : FloatOps F) (a : Bool)
    (e : pec_encoder F) (p : Int) (h : (pec_append_thread ops a e p).2 = true) :
    (pec_append_thread ops a e p).1.palette = e.palette ++ [p] ∧
    (pec_append_thread ops a e p).1.stitch_list =
      e.stitch_list ++ (if e.stitch_count = 0 then [] else [⟨ops.zero, ops.zero,
        PEC_STITCH_STOP⟩]) := by
  unfold pec_append_thread at h ⊢
  by_cases hmax : PEC_MAX_THREADS ≤ e.thread_count
  · rw [if_pos hmax] at h
    exact absurd h (by simp)
  · rw [if_neg hmax] at h ⊢
    simp only [pec_encoder.stitch_count] at h ⊢
    by_cases hs : (e.stitch_list.length : Int) = 0
    · rw [if_pos hs, if_pos hs]
      exact ⟨rfl, by simp⟩
    · rw [if_neg hs] at h ⊢
      rw [if_neg hs]
      obtain ⟨-, hp, -, hok, -⟩ := pec_append_cases ops a
        { e with palette := e.palette ++ [p] } PEC_STITCH_STOP ops.zero ops.zero
      exact ⟨hp, (hok h).2.1⟩

/-- What a pec_append_thread does whatever it returns: the palette keeps its entries,
and the stitches that are no Stop stay as they are. -/
theorem pec_append_thread_any {F : Type} (ops : FloatOps F) (a : Bool)
    (e : pec_encoder F) (p : Int) :
    e.palette.length ≤ (pec_append_thread ops a e p).1.palette.length ∧
    nonstop_count (pec_append_thread ops a e p).1 = nonstop_count e ∧
    (e.stitch_list = [] → (pec_append_thread ops a e p).1.stitch_list = []) := by
  unfold pec_append_thread
  by_cases hmax : PEC_MAX_THREADS ≤ e.thread_count
  · rw [if_pos hmax]
    exact ⟨le_refl _, rfl, fun h => h⟩
  · rw [if_neg hmax]
    simp only [pec_encoder.stitch_count]
    by_cases hs : (e.stitch_list.length : Int) = 0
    · rw [if_pos hs]
      exact ⟨by simp, rfl, fun h => h⟩
    · rw [if_neg hs]
      obtain ⟨-, hp, hfail, hok, -⟩ := pec_append_cases ops a
        { e with palette := e.palette ++ [p] } PEC_STITCH_STOP ops.zero ops.zero
      refine ⟨by rw [hp]; simp, ?_, fun hnil => ?_⟩
      · unfold nonstop_count
        by_cases hr : (PecEncoder.append_stitch ops a { e with palette := e.palette ++ [p] }
            PEC_STITCH_STOP ops.zero ops.zero).2 = true
        · rw [(hok hr).2.1]
          simp [is_stop]
        · rw [(hfail (by simpa using hr)).1]
      · rw [hnil] at hs
        exact absurd rfl hs

/-- What an append of a stitch to the PEC encoder does to the count of stitches that
are no Stop. -/
theorem pec_append_nonstop {F : Type} (ops : FloatOps F) (a : Bool) (e : pec_encoder F)
    (t : pec_stitch_type) (x y : F) (ht : t ≠ PEC_STITCH_STOP) :
    (PecEncoder.append_stitch ops a e t x y).1.palette = e.palette ∧
    ((PecEncoder.append_stitch ops a e t x y).2 = true →
      nonstop_count (PecEncoder.append_stitch ops a e t x y).1 = nonstop_count e + 1) ∧
    ((PecEncoder.append_stitch ops a e t x y).2 = false →
      nonstop_count (PecEncoder.append_stitch ops a e t x y).1 = nonstop_count e ∧
      (PecEncoder.append_stitch ops a e t x y).1.stitch_list = e.stitch_list) := by
  obtain ⟨-, hp, hfail, hok, -⟩ := pec_append_cases ops a e t x y
  refine ⟨hp, fun h => ?_, fun h => ?_⟩
  · unfold nonstop_count
    rw [(hok h).2.1]
    simp [is_stop, ht]
  · unfold nonstop_count
    rw [(hfail h).1]
    exact ⟨rfl, rfl⟩

theorem runs_after_append {F : Type} (s : PesEncoder.pes_stitch F) :
    ∀ (l : List (PesEncoder.pes_stitch F)) (prev : Int),
      runs_after prev (l ++ [s]) = runs_after prev l +
        (if s.thread_index ≠ ((l.getLast?.map (fun p => p.thread_index)).getD prev) then 1
          else 0)
  | [], prev => by simp [runs_after]
  | a :: l, prev => by
    rw [List.cons_append]
    simp only [runs_after]
    rw [runs_after_append s l a.thread_index]
    have e : ((a :: l).getLast?.map (fun p => p.thread_index)).getD prev =
        (l.getLast?.map (fun p => p.thread_index)).getD a.thread_index := by
      cases l with
      | nil => rfl
      | cons b l =>
        rw [List.getLast?_cons_cons]
        cases hgl : (b :: l).getLast? with
        | none => exact absurd (List.getLast?_eq_none_iff.1 hgl) (by simp)
        | some q => rfl
    rw [e]
    omega

/-- The number of thread runs after one more stitch: one more when the stitch is the
first one or its thread differs from that of the stitch before. -/
theorem thread_runs_append {F : Type} (l : List (PesEncoder.pes_stitch F))
    (s : PesEncoder.pes_stitch F) :
    thread_runs (l ++ [s]) = thread_runs l +
      (if (l.isEmpty ||
          l.getLast?.any (fun last => decide (s.thread_index ≠ last.thread_index))) = true
        then 1 else 0) := by
  cases l with
  | nil => simp [thread_runs, runs_after]
  | cons a l =>
    rw [List.cons_append]
    simp only [thread_runs]
    rw [runs_after_append s l a.thread_index]
    cases l with
    | nil =>
      simp only [List.getLast?_nil, Option.map_none', Option.getD_none, List.isEmpty_cons,
        Bool.false_or, List.getLast?_singleton, Option.any_some, decide_eq_true_eq]
      omega
    | cons b l =>
      rw [List.getLast?_cons_cons]
      cases hgl : (b :: l).getLast? with
      | none => exact absurd (List.getLast?_eq_none_iff.1 hgl) (by simp)
      | some q =>
        simp only [Option.map_some', Option.getD_some, List.isEmpty_cons, Bool.false_or,
          Option.any_some, decide_eq_true_eq]
        omega

/-- The stitch type that append_stitch of pes-encoder.c hands the PEC encoder. -/
theorem pes_append_unfold {F : Type} (ops : FloatOps F) (alloc : PesEncoder.alloc_outcomes)
    (e : PesEncoder.pes_encoder F) (ti : Int) (x y : F) (jump : Bool) :
    ∃ g : PesEncoder.pes_encoder F,
      g.pec_encoder = e.pec_encoder ∧ g.stitch_list = e.stitch_list ∧
      g.thread_list = e.thread_list ∧
      ((PesEncoder.append_stitch ops alloc e ti x y jump).2 = false ∧
        (PesEncoder.append_stitch ops alloc e ti x y jump).1.pec_encoder = e.pec_encoder ∨
      (∃ threaded : pec_encoder F × Bool,
        threaded = (if g.stitch_count = 0 ∨
            g.stitch_list.getLast?.any (fun last => decide (ti ≠ last.thread_index)) = true
          then pec_append_thread ops alloc.pec_stop g.pec_encoder
            (pec_palette_index_by_rgb
              (g.thread_list.getD ti.toNat pec_undefined_thread).rgb)
          else (g.pec_encoder, true)) ∧
        ((threaded.2 = false ∧
          (PesEncoder.append_stitch ops alloc e ti x y jump).2 = false ∧
          (PesEncoder.append_stitch ops alloc e ti x y jump).1.pec_encoder = threaded.1) ∨
        (threaded.2 = true ∧
          (PesEncoder.append_stitch ops alloc e ti x y jump).2 =
            (PecEncoder.append_stitch ops alloc.pec_stitch threaded.1
              (if g.stitch_list.getLast?.any
                  (fun last => decide (ti ≠ last.thread_index)) = true
                then PEC_STITCH_JUMP
                else if jump = true then PEC_STITCH_TRIM else PEC_STITCH_NORMAL) x y).2 ∧
          (PesEncoder.append_stitch ops alloc e ti x y jump).1.pec_encoder =
            (PecEncoder.append_stitch ops alloc.pec_stitch threaded.1
              (if g.stitch_list.getLast?.any
                  (fun last => decide (ti ≠ last.thread_index)) = true
                then PEC_STITCH_JUMP
                else if jump = true then PEC_STITCH_TRIM else PEC_STITCH_NORMAL) x y).1)))) := by
  unfold PesEncoder.append_stitch
  by_cases h1 : ti < 0 ∨ e.thread_count ≤ ti
  · rw [if_pos h1]
    exact ⟨e, rfl, rfl, rfl, Or.inl ⟨rfl, rfl⟩⟩
  · rw [if_neg h1]
    simp only []
    generalize hg : (if e.stitch_capacity ≤ e.stitch_count then
        if e.stitch_capacity +
            (if e.stitch_capacity = 0 then 100
              else if 10000 < e.stitch_capacity then 10000 else e.stitch_capacity) <
              2147483647 / 2 ∧ alloc.pes_list = true then
          { e with stitch_capacity := e.stitch_capacity +
            (if e.stitch_capacity = 0 then 100
              else if 10000 < e.stitch_capacity then 10000 else e.stitch_capacity) }
        else e
      else e) = g
    have hgp : g.pec_encoder = e.pec_encoder ∧ g.stitch_list = e.stitch_list ∧
        g.thread_list = e.thread_list := by
      rw [← hg]
      split_ifs <;> exact ⟨rfl, rfl, rfl⟩
    refine ⟨g, hgp.1, hgp.2.1, hgp.2.2, ?_⟩
    by_cases h2 : g.stitch_capacity ≤ g.stitch_count
    · rw [if_pos h2]
      exact Or.inl ⟨rfl, hgp.1⟩
    · rw [if_neg h2]
      refine Or.inr ⟨_, rfl, ?_⟩
      generalize (if g.stitch_count = 0 ∨
          g.stitch_list.getLast?.any (fun last => decide (ti ≠ last.thread_index)) = true
        then pec_append_thread ops alloc.pec_stop g.pec_encoder
          (pec_palette_index_by_rgb (g.thread_list.getD ti.toNat pec_undefined_thread).rgb)
        else (g.pec_encoder, true)) = threaded
      by_cases h3 : threaded.2 = false
      · rw [if_pos h3]
        exact Or.inl ⟨h3, rfl, rfl⟩
      · rw [if_neg h3]
        refine Or.inr ⟨by simpa using h3, ?_⟩
        have hst : (if g.stitch_list.getLast?.any
              (fun last => decide (ti ≠ last.thread_index)) = true
            then pec_append_jump_stitch ops alloc.pec_stitch threaded.1 x y
            else if jump = true then pec_append_trim_stitch ops alloc.pec_stitch threaded.1 x y
            else pec_append_stitch ops alloc.pec_stitch threaded.1 x y) =
            PecEncoder.append_stitch ops alloc.pec_stitch threaded.1
              (if g.stitch_list.getLast?.any
                  (fun last => decide (ti ≠ last.thread_index)) = true
                then PEC_STITCH_JUMP
                else if jump = true then PEC_STITCH_TRIM else PEC_STITCH_NORMAL) x y := by
          split_ifs <;> rfl
        rw [hst]
        generalize PecEncoder.append_stitch ops alloc.pec_stitch threaded.1
          (if g.stitch_list.getLast?.any
              (fun last => decide (ti ≠ last.thread_index)) = true
            then PEC_STITCH_JUMP
            else if jump = true then PEC_STITCH_TRIM else PEC_STITCH_NORMAL) x y = stitched
        by_cases h4 : stitched.2 = false
        · rw [if_pos h4]
          exact ⟨h4.symm, rfl⟩
        · rw [if_neg h4]
          exact ⟨by simpa using h4, rfl⟩

theorem nonstop_pos_ne_nil {F : Type} (e : pec_encoder F) (h : 0 < nonstop_count e) :
    e.stitch_count ≠ 0 := by
  unfold nonstop_count at h
  unfold pec_encoder.stitch_count
  have := List.countP_le_length (fun s : pec_stitch F => !is_stop s) (l := e.stitch_list)
  omega

/-- What an append_stitch of pes-encoder.c that succeeds appends to the companion PEC
encoder, on a state whose PEC encoder has as many stitches that are no Stop as the PES
encoder has stitches. -/
theorem pes_append_effect {F : Type} (ops : FloatOps F) (alloc : PesEncoder.alloc_outcomes)
    (e : PesEncoder.pes_encoder F) (ti : Int) (x y : F) (jump : Bool)
    (hinv : nonstop_count e.pec_encoder = e.stitch_list.length)
    (hnil : e.stitch_list = [] → e.pec_encoder.stitch_list = [])
    (h : (PesEncoder.append_stitch ops alloc e ti x y jump).2 = true) :
    (e.stitch_list = [] →
      (PesEncoder.append_stitch ops alloc e ti x y jump).1.pec_encoder.palette =
        e.pec_encoder.palette ++ [pec_palette_index_by_rgb
          (e.thread_list.getD ti.toNat pec_undefined_thread).rgb] ∧
      (PesEncoder.append_stitch ops alloc e ti x y jump).1.pec_encoder.stitch_list =
        e.pec_encoder.stitch_list ++
          [⟨x, y, if jump = true then PEC_STITCH_TRIM else PEC_STITCH_NORMAL⟩]) ∧
    (∀ last, e.stitch_list.getLast? = some last → last.thread_index ≠ ti →
      (PesEncoder.append_stitch ops alloc e ti x y jump).1.pec_encoder.palette =
        e.pec_encoder.palette ++ [pec_palette_index_by_rgb
          (e.thread_list.getD ti.toNat pec_undefined_thread).rgb] ∧
      (PesEncoder.append_stitch ops alloc e ti x y jump).1.pec_encoder.stitch_list =
        e.pec_encoder.stitch_list ++
          [⟨ops.zero, ops.zero, PEC_STITCH_STOP⟩, ⟨x, y, PEC_STITCH_JUMP⟩]) ∧
    (∀ last, e.stitch_list.getLast? = some last → last.thread_index = ti →
      (PesEncoder.append_stitch ops alloc e ti x y jump).1.pec_encoder.palette =
        e.pec_encoder.palette ∧
      (PesEncoder.append_stitch ops alloc e ti x y jump).1.pec_encoder.stitch_list =
        e.pec_encoder.stitch_list ++
          [⟨x, y, if jump = true then PEC_STITCH_TRIM else PEC_STITCH_NORMAL⟩]) := by
  obtain ⟨g, g1, g2, g3, hcase⟩ := pes_append_unfold ops alloc e ti x y jump
  have hsc : g.stitch_count = e.stitch_list.length := by
    unfold PesEncoder.pes_encoder.stitch_count
    rw [g2]
  rcases hcase with ⟨hf, -⟩ | ⟨threaded, hth, hcase2⟩
  · rw [hf] at h
    exact absurd h (by simp)
  rcases hcase2 with ⟨-, hf, -⟩ | ⟨ht2, hflag, hpec⟩
  · rw [hf] at h
    exact absurd h (by simp)
  rw [hflag] at h
  rw [hpec]
  rw [g1, g2, g3, hsc] at hth
  rw [g2] at h ⊢
  obtain ⟨-, hp, -, hok, -⟩ := pec_append_cases ops alloc.pec_stitch threaded.1
    (if e.stitch_list.getLast?.any (fun last => decide (ti ≠ last.thread_index)) = true
      then PEC_STITCH_JUMP
      else if jump = true then PEC_STITCH_TRIM else PEC_STITCH_NORMAL) x y
  obtain ⟨-, hlist, -⟩ := hok h
  rw [hp, hlist]
  refine ⟨fun hempty => ?_, fun last hlast hne => ?_, fun last hlast heq => ?_⟩
  · have hc : (e.stitch_list.length : Int) = 0 ∨
        e.stitch_list.getLast?.any (fun last => decide (ti ≠ last.thread_index)) = true :=
      Or.inl (by rw [hempty]; rfl)
    rw [if_pos hc] at hth
    rw [hth] at ht2 ⊢
    obtain ⟨q1, q2⟩ := pec_append_thread_success ops _ _ _ ht2
    have hz : e.pec_encoder.stitch_count = 0 := by
      unfold pec_encoder.stitch_count
      rw [hnil hempty]
      rfl
    rw [q1, q2, if_pos hz, hempty]
    exact ⟨rfl, by simp⟩
  · have hany : e.stitch_list.getLast?.any (fun last => decide (ti ≠ last.thread_index)) =
        true := by
      rw [hlast]
      simp only [Option.any_some, decide_eq_true_eq]
      exact fun h => hne h.symm
    rw [if_pos (Or.inr hany)] at hth
    rw [hth] at ht2 ⊢
    obtain ⟨q1, q2⟩ := pec_append_thread_success ops _ _ _ ht2
    have hpos : 0 < nonstop_count e.pec_encoder := by
      rw [hinv]
      cases hl : e.stitch_list with
      | nil => rw [hl] at hlast; simp at hlast
      | cons a l => simp
    rw [q1, q2, if_neg (nonstop_pos_ne_nil _ hpos), if_pos hany]
    exact ⟨rfl, by simp⟩
  · have hany : ¬ (e.stitch_list.getLast?.any
        (fun last => decide (ti ≠ last.thread_index)) = true) := by
      rw [hlast]
      simp only [Option.any_some, decide_eq_true_eq]
      exact fun h => h heq.symm
    have hlen : ¬ ((e.stitch_list.length : Int) = 0) := by
      cases hl : e.stitch_list with
      | nil => rw [hl] at hlast; simp at hlast
      | cons a l => simp; omega
    have hc : ¬ ((e.stitch_list.length : Int) = 0 ∨
        e.stitch_list.getLast?.any (fun last => decide (ti ≠ last.thread_index)) = true) :=
      fun h => h.elim hlen hany
    rw [if_neg hc] at hth
    rw [hth, if_neg hany]
    exact ⟨rfl, rfl⟩

theorem threaded_any {F : Type} (ops : FloatOps F) (a : Bool) (c : Prop) [Decidable c]
    (pec : pec_encoder F) (p : Int) :
    pec.palette.length ≤
      (if c then pec_append_thread ops a pec p else (pec, true)).1.palette.length ∧
    nonstop_count (if c then pec_append_thread ops a pec p else (pec, true)).1 =
      nonstop_count pec ∧
    (pec.stitch_list = [] →
      (if c then pec_append_thread ops a pec p else (pec, true)).1.stitch_list = []) := by
  by_cases hc : c
  · rw [if_pos hc]
    exact pec_append_thread_any ops a pec p
  · rw [if_neg hc]
    exact ⟨le_refl _, rfl, fun h => h⟩

/-- What an append_stitch of pes-encoder.c that fails leaves of the companion PEC
encoder: the stitches that are no Stop, and at least the palette entries. -/
theorem pes_append_failed {F : Type} (ops : FloatOps F) (alloc : PesEncoder.alloc_outcomes)
    (e : PesEncoder.pes_encoder F) (ti : Int) (x y : F) (jump : Bool)
    (h : (PesEncoder.append_stitch ops alloc e ti x y jump).2 = false) :
    e.pec_encoder.palette.length ≤
      (PesEncoder.append_stitch ops alloc e ti x y jump).1.pec_encoder.palette.length ∧
    nonstop_count (PesEncoder.append_stitch ops alloc e ti x y jump).1.pec_encoder =
      nonstop_count e.pec_encoder ∧
    (e.pec_encoder.stitch_list = [] →
      (PesEncoder.append_stitch ops alloc e ti x y jump).1.pec_encoder.stitch_list = []) := by
  obtain ⟨g, g1, g2, g3, hcase⟩ := pes_append_unfold ops alloc e ti x y jump
  rcases hcase with ⟨-, hp⟩ | ⟨threaded, hth, hcase2⟩
  · rw [hp]
    exact ⟨le_refl _, rfl, fun h => h⟩
  have hany := threaded_any ops alloc.pec_stop (g.stitch_count = 0 ∨
      g.stitch_list.getLast?.any (fun last => decide (ti ≠ last.thread_index)) = true)
    g.pec_encoder (pec_palette_index_by_rgb
      (g.thread_list.getD ti.toNat pec_undefined_thread).rgb)
  rw [← hth, g1] at hany
  rcases hcase2 with ⟨-, -, hp⟩ | ⟨-, hflag, hp⟩
  · rw [hp]
    exact hany
  · rw [hflag] at h
    rw [hp]
    have hkind : (if g.stitch_list.getLast?.any
          (fun last => decide (ti ≠ last.thread_index)) = true
        then PEC_STITCH_JUMP
        else if jump = true then PEC_STITCH_TRIM else PEC_STITCH_NORMAL) ≠
        PEC_STITCH_STOP := by
      split_ifs <;> decide
    obtain ⟨q1, -, q3⟩ := pec_append_nonstop ops alloc.pec_stitch threaded.1 _ x y hkind
    obtain ⟨q4, q5⟩ := q3 h
    rw [q1, q4, q5]
    exact hany

/-- The companion PEC encoder after an append_stitch of pes-encoder.c, whatever it
returns: it has as many stitches that are no Stop as the PES encoder has stitches, and
at least as many palette entries as the PES stitches have thread runs, exactly as many
when it had so before and the append succeeds. -/
theorem pes_append_companion {F : Type} (ops : FloatOps F)
    (alloc : PesEncoder.alloc_outcomes) (e : PesEncoder.pes_encoder F) (ti : Int) (x y : F)
    (jump : Bool) (hinv : nonstop_count e.pec_encoder = e.stitch_list.length)
    (hnil : e.stitch_list = [] → e.pec_encoder.stitch_list = [])
    (hruns : thread_runs e.stitch_list ≤ e.pec_encoder.palette.length) :
    nonstop_count (PesEncoder.append_stitch ops alloc e ti x y jump).1.pec_encoder =
      (PesEncoder.append_stitch ops alloc e ti x y jump).1.stitch_list.length ∧
    ((PesEncoder.append_stitch ops alloc e ti x y jump).1.stitch_list = [] →
      (PesEncoder.append_stitch ops alloc e ti x y jump).1.pec_encoder.stitch_list = []) ∧
    thread_runs (PesEncoder.append_stitch ops alloc e ti x y jump).1.stitch_list ≤
      (PesEncoder.append_stitch ops alloc e ti x y jump).1.pec_encoder.palette.length ∧
    ((PesEncoder.append_stitch ops alloc e ti x y jump).2 = true →
      e.pec_encoder.palette.length = thread_runs e.stitch_list →
      (PesEncoder.append_stitch ops alloc e ti x y jump).1.pec_encoder.palette.length =
        thread_runs (PesEncoder.append_stitch ops alloc e ti x y jump).1.stitch_list) := by
  obtain ⟨-, hsucc, hfail⟩ := pes_append_cases ops alloc e ti x y jump
  by_cases hr : (PesEncoder.append_stitch ops alloc e ti x y jump).2 = true
  · obtain ⟨ha, hb, hc⟩ := pes_append_effect ops alloc e ti x y jump hinv hnil hr
    rw [hsucc hr, thread_runs_append]
    unfold nonstop_count at hinv ⊢
    cases hl : e.stitch_list.getLast? with
    | none =>
      have hempty : e.stitch_list = [] := List.getLast?_eq_none_iff.1 hl
      obtain ⟨p1, p2⟩ := ha hempty
      have hie : e.stitch_list.isEmpty = true := by rw [hempty]; rfl
      rw [p1, p2, hie]
      simp only [Bool.true_or, if_true]
      refine ⟨?_, by simp, by simp; omega, fun _ h => by simp; omega⟩
      rw [List.countP_append, hinv]
      cases jump <;> simp [is_stop]
    | some last =>
      have hne : e.stitch_list ≠ [] := fun h => by rw [h] at hl; simp at hl
      have hie : e.stitch_list.isEmpty = false := by
        cases hq : e.stitch_list with
        | nil => exact absurd hq hne
        | cons a l => rfl
      by_cases hti : last.thread_index = ti
      · obtain ⟨p1, p2⟩ := hc last hl hti
        rw [p1, p2, hie]
        simp only [Option.any_some, Bool.false_or, decide_eq_true_eq]
        have hn : ¬ (ti ≠ last.thread_index) := fun h => h hti.symm
        rw [if_neg hn]
        refine ⟨?_, by simp, by omega, fun _ h => by omega⟩
        rw [List.countP_append, hinv]
        cases jump <;> simp [is_stop]
      · obtain ⟨p1, p2⟩ := hb last hl hti
        rw [p1, p2, hie]
        simp only [Option.any_some, Bool.false_or, decide_eq_true_eq]
        have hn : ti ≠ last.thread_index := fun h => hti h.symm
        rw [if_pos hn]
        refine ⟨?_, by simp, by simp; omega, fun _ h => by simp; omega⟩
        rw [List.countP_append, hinv]
        simp [is_stop]
  · have hr2 : (PesEncoder.append_stitch ops alloc e ti x y jump).2 = false := by
      simpa using hr
    obtain ⟨f1, f2, f3⟩ := pes_append_failed ops alloc e ti x y jump hr2
    rw [hfail hr2, f2]
    exact ⟨hinv, fun h => f3 (hnil h), le_trans hruns f1, fun h => absurd h hr⟩

/-- The companion PEC encoder in every state of the PES encoder. -/
theorem pes_reachable_companion {F : Type} (ops : FloatOps F)
    (e : PesEncoder.pes_encoder F) (h : pes_reachable ops e) :
    nonstop_count e.pec_encoder = e.stitch_list.length ∧
    (e.stitch_list = [] → e.pec_encoder.stitch_list = []) ∧
    thread_runs e.stitch_list ≤ e.pec_encoder.palette.length := by
  induction h with
  | init => exact ⟨rfl, fun _ => rfl, Nat.zero_le _⟩
  | append_thread e thread _ ih =>
    unfold PesEncoder.pes_append_thread
    split_ifs <;> exact ih
  | append_stitch e alloc ti x y _ ih =>
    obtain ⟨q1, q2, q3, -⟩ := pes_append_companion ops alloc e ti x y false ih.1 ih.2.1 ih.2.2
    exact ⟨q1, q2, q3⟩
  | append_jump_stitch e alloc ti x y _ ih =>
    obtain ⟨q1, q2, q3, -⟩ := pes_append_companion ops alloc e ti x y true ih.1 ih.2.1 ih.2.2
    exact ⟨q1, q2, q3⟩
  | encode_transform e t _ ih => exact ih

/-- The companion PEC encoder in a state reached by appends that all succeeded. -/
theorem pes_appended_companion {F : Type} (ops : FloatOps F)
    (e : PesEncoder.pes_encoder F) (h : pes_appended ops e) :
    pes_reachable ops e ∧ e.pec_encoder.palette.length = thread_runs e.stitch_list := by
  induction h with
  | init => exact ⟨.init, rfl⟩
  | append_thread e thread _ ih =>
    refine ⟨.append_thread e thread ih.1, ?_⟩
    unfold PesEncoder.pes_append_thread
    split_ifs <;> exact ih.2
  | append_stitch e alloc ti x y _ hok ih =>
    obtain ⟨i1, i2, i3⟩ := pes_reachable_companion ops e ih.1
    exact ⟨.append_stitch e alloc ti x y ih.1,
      (pes_append_companion ops alloc e ti x y false i1 i2 i3).2.2.2 hok ih.2⟩
  | append_jump_stitch e alloc ti x y _ hok ih =>
    obtain ⟨i1, i2, i3⟩ := pes_reachable_companion ops e ih.1
    exact ⟨.append_jump_stitch e alloc ti x y ih.1,
      (pes_append_companion ops alloc e ti x y true i1 i2 i3).2.2.2 hok ih.2⟩
  | encode_transform e t _ ih => exact ⟨.encode_transform e t ih.1, ih.2⟩

/-- C32 fails on the state after one pes_append_thread and a pes_append_stitch that fails
because the stitch list of the companion PEC encoder cannot grow: the append returns
false after pec_append_thread has stored the palette index, so the PEC encoder has one
thread where the PES encoder has no stitch and no thread run. -/
theorem pes_failed_append_counterexample :
    pes_reachable gridOps failed_append_encoder ∧
    (PesEncoder.pes_append_stitch gridOps ⟨true, true, false⟩
      (PesEncoder.pes_append_thread (PesEncoder.pes_encoder_init gridOps)
        (pec_palette_thread 5)).1 0 0 0).2 = false ∧
    failed_append_encoder.stitch_list = [] ∧
    thread_runs failed_append_encoder.stitch_list = 0 ∧
    failed_append_encoder.pec_encoder.thread_count = 1 :=
  ⟨.append_stitch _ _ _ _ _ (.append_thread _ _ .init), by decide, rfl, by decide,
    by decide⟩

/-- C32, amended. Every PES append drives the companion PEC encoder: in every state of
the PES encoder, an append_stitch with thread t at (x, y) that succeeds, which is
pes_append_stitch with the jump flag clear and pes_append_jump_stitch with the flag
set, appends to the companion PEC encoder (a) for the first stitch, the nearest palette
index of the thread and then one stitch at (x, y), a Trim with the jump flag and a
Normal without; (b) when t differs from the thread of the previous stitch, the nearest
palette index of t, the Stop that it synthesizes, and then a Jump stitch at (x, y);
(c) otherwise a Trim stitch at (x, y) when the jump flag is set and a Normal stitch at
(x, y) when it is not. So the number of PEC stitches that are no Stop always equals the
number of PES stitches, and the PEC thread count is at least the number of thread runs
and equals it when every pes_append_stitch and pes_append_jump_stitch made so far
returned success. -/
theorem pes_append_drives_pec {F : Type} (ops : FloatOps F) (e : PesEncoder.pes_encoder F)
    (h : pes_reachable ops e) :
    (∀ (alloc : PesEncoder.alloc_outcomes) (t : Int) (x y : F),
      PesEncoder.pes_append_stitch ops alloc e t x y =
        PesEncoder.append_stitch ops alloc e t x y false ∧
      PesEncoder.pes_append_jump_stitch ops alloc e t x y =
        PesEncoder.append_stitch ops alloc e t x y true) ∧
    (∀ (alloc : PesEncoder.alloc_outcomes) (t : Int) (x y : F) (jump : Bool),
      (PesEncoder.append_stitch ops alloc e t x y jump).2 = true →
      (e.stitch_list = [] →
        (PesEncoder.append_stitch ops alloc e t x y jump).1.pec_encoder.palette =
          e.pec_encoder.palette ++ [pec_palette_index_by_rgb
            (e.thread_list.getD t.toNat pec_undefined_thread).rgb] ∧
        (PesEncoder.append_stitch ops alloc e t x y jump).1.pec_encoder.stitch_list =
          e.pec_encoder.stitch_list ++
            [⟨x, y, if jump = true then PEC_STITCH_TRIM else PEC_STITCH_NORMAL⟩]) ∧
      (∀ last, e.stitch_list.getLast? = some last → last.thread_index ≠ t →
        (PesEncoder.append_stitch ops alloc e t x y jump).1.pec_encoder.palette =
          e.pec_encoder.palette ++ [pec_palette_index_by_rgb
            (e.thread_list.getD t.toNat pec_undefined_thread).rgb] ∧
        (PesEncoder.append_stitch ops alloc e t x y jump).1.pec_encoder.stitch_list =
          e.pec_encoder.stitch_list ++
            [⟨ops.zero, ops.zero, PEC_STITCH_STOP⟩, ⟨x, y, PEC_STITCH_JUMP⟩]) ∧
      (∀ last, e.stitch_list.getLast? = some last → last.thread_index = t →
        (PesEncoder.append_stitch ops alloc e t x y jump).1.pec_encoder.palette =
          e.pec_encoder.palette ∧
        (PesEncoder.append_stitch ops alloc e t x y jump).1.pec_encoder.stitch_list =
          e.pec_encoder.stitch_list ++
            [⟨x, y, if jump = true then PEC_STITCH_TRIM else PEC_STITCH_NORMAL⟩])) ∧
    nonstop_count e.pec_encoder = e.stitch_list.length ∧
    (thread_runs e.stitch_list : Int) ≤ e.pec_encoder.thread_count ∧
    (pes_appended ops e → e.pec_encoder.thread_count = thread_runs e.stitch_list) := by
  obtain ⟨i1, i2, i3⟩ := pes_reachable_companion ops e h
  refine ⟨fun alloc t x y => ⟨rfl, rfl⟩, fun alloc t x y jump hok =>
    pes_append_effect ops alloc e t x y jump i1 i2 hok, i1, ?_, fun ha => ?_⟩
  · unfold pec_encoder.thread_count
    exact_mod_cast i3
  · unfold pec_encoder.thread_count
    exact_mod_cast (pes_appended_companion ops e ha).2

theorem pes_append_drives_pec_witness :
    pes_reachable gridOps sample_pes_encoder ∧
    nonstop_count sample_pes_encoder.pec_encoder = 3 ∧
    sample_pes_encoder.stitch_list.length = 3 :=
  ⟨sample_pes_reachable,
    ((pes_append_drives_pec gridOps sample_pes_encoder sample_pes_reachable).2.2.1).trans
      (by decide),
    by decide⟩

end companion

/-! ## The thread indices of the change table of a PES decoder -/

section change_range
open PesDecoder

theorem block_stitches_null_offset {F σ τ : Type} (ops : FloatOps F) (d : pes_decoder) :
    ∀ (n : Nat) (i off : Int) (a : σ) (b : τ),
      (block_stitches ops d (none : Option (pes_stitch_callback F σ)) n i off a).2 =
        (block_stitches ops d (none : Option (pes_stitch_callback F τ)) n i off b).2 := by
  intro n
  induction n with
  | zero => intro i off a b; rfl
  | succ n ih =>
    intro i off a b
    simp only [block_stitches]
    cases decode_i16lsb d (off + 0) with
    | none => rfl
    | some x =>
      cases decode_i16lsb d (off + 2) with
      | none => rfl
      | some y => exact ih _ _ _ _

/-- With null callbacks the offset at which the block loop ends does not depend on the
state of the callbacks. -/
theorem block_loop_null_offset {F σ τ : Type} (ops : FloatOps F) (d : pes_decoder) :
    ∀ (fuel : Nat) (bi off ci : Int) (th : pec_thread) (a : σ) (b : τ),
      (block_loop ops d none (none : Option (pes_stitch_callback F σ)) fuel bi off ci th
        a).2 =
        (block_loop ops d none (none : Option (pes_stitch_callback F τ)) fuel bi off ci th
          b).2 := by
  intro fuel
  induction fuel with
  | zero => intro bi off ci th a b; rfl
  | succ fuel ih =>
    intro bi off ci th a b
    simp only [block_loop]
    by_cases hp : ¬ (off < d.pec_offset)
    · rw [if_pos hp, if_pos hp]
    · rw [if_neg hp, if_neg hp]
      cases decode_u16lsb d (off + 0) with
      | none => rfl
      | some stitch_type =>
        cases decode_u16lsb d (off + 2) with
        | none => rfl
        | some block_id =>
          cases decode_u16lsb d (off + 4) with
          | none => rfl
          | some stitch_count =>
            simp only [Bool.true_eq_false, if_false]
            have hs := block_stitches_null_offset ops d stitch_count.toNat 0 (off + 6) a b
            have ha := block_stitches_null_arg (σ := σ) ops d stitch_count.toNat 0 (off + 6) a
            have hb := block_stitches_null_arg (σ := τ) ops d stitch_count.toNat 0 (off + 6) b
            rw [← hs]
            cases h2 : (block_stitches ops d (none : Option (pes_stitch_callback F σ))
                stitch_count.toNat 0 (off + 6) a).2 with
            | none => rfl
            | some offset1 =>
              simp only []
              cases decode_u16lsb d offset1 with
              | none => rfl
              | some code =>
                simp only []
                by_cases hc : code ≠ 0x8003
                · rw [if_pos hc, if_pos hc]
                · rw [if_neg hc, if_neg hc, ha, hb]
                  exact ih _ _ _ _ _ _

/-- The loop of thread_foreach, when it does not fail, keeps an invariant that every call
of the callback keeps when it returns true; the invariant knows the number of calls
made. -/
theorem thread_foreach_loop_ok {σ : Type} (d : pes_decoder) (cb : pes_thread_callback σ)
    (Inv : Int → σ → Prop)
    (hcb : ∀ s i b t, 0 ≤ i → 0 ≤ b → 0 ≤ t → Inv i s → (cb s i b t).2 = true →
      Inv (i + 1) (cb s i b t).1) :
    ∀ (n : Nat) (i off : Int) (arg : σ), 0 ≤ i → Inv i arg →
      ∀ o, (thread_foreach_loop d cb n i off arg).2 = some o →
        Inv (i + n) (thread_foreach_loop d cb n i off arg).1 := by
  intro n
  induction n with
  | zero =>
    intro i off arg _ h o _
    simpa [thread_foreach_loop] using h
  | succ n ih =>
    intro i off arg hi h o ho
    simp only [thread_foreach_loop] at ho ⊢
    cases hb : decode_u16lsb d (off + 0) with
    | none => rw [hb] at ho; exact absurd ho (by simp)
    | some b =>
      rw [hb] at ho
      simp only [] at ho ⊢
      cases ht : decode_u16lsb d (off + 2) with
      | none => rw [ht] at ho; exact absurd ho (by simp)
      | some t =>
        rw [ht] at ho
        simp only [] at ho ⊢
        by_cases hf : (cb arg i b t).2 = false
        · rw [if_pos hf] at ho
          exact absurd ho (by simp)
        · rw [if_neg hf] at ho ⊢
          have hstep := hcb arg i b t hi (pes_decode_u16lsb_nonneg _ _ _ hb)
            (pes_decode_u16lsb_nonneg _ _ _ ht) h (by simpa using hf)
          have := ih (i + 1) (off + 4) _ (by omega) hstep o ho
          have e : i + ((n + 1 : Nat) : Int) = i + 1 + n := by push_cast; ring
          rw [e]
          exact this

/-- A pass of stitch_foreach with a thread callback only that succeeds: the block loop
ends at the offset of the thread table, whose count is read there, and the state is that
of the loop of thread_foreach, which does not fail. -/
theorem stitch_foreach_pass {F σ : Type} (ops : FloatOps F) (d : pes_decoder)
    (cb : pes_thread_callback σ) (arg : σ)
    (h : (stitch_foreach ops d none (none : Option (pes_stitch_callback F σ)) (some cb)
      arg).2 = true) :
    ∃ (off tc o : Int),
      (block_loop ops d none (none : Option (pes_stitch_callback F Unit))
        (d.data.length + 1) 0 (d.csewseg_offset + 9) 0 pec_undefined_thread ()).2 =
        some off ∧
      decode_u16lsb d off = some tc ∧
      (thread_foreach_loop d cb tc.toNat 0 (off + 2) arg).2 = some o ∧
      (stitch_foreach ops d none (none : Option (pes_stitch_callback F σ)) (some cb)
        arg).1 = (thread_foreach_loop d cb tc.toNat 0 (off + 2) arg).1 := by
  unfold stitch_foreach at h ⊢
  simp only [] at h ⊢
  have harg := block_loop_null_arg (σ := σ) ops d (d.data.length + 1) 0
    (d.csewseg_offset + 9) 0 pec_undefined_thread arg
  have hoff := block_loop_null_offset (σ := σ) (τ := Unit) ops d (d.data.length + 1) 0
    (d.csewseg_offset + 9) 0 pec_undefined_thread arg ()
  rw [← hoff]
  generalize block_loop ops d none (none : Option (pes_stitch_callback F σ))
    (d.data.length + 1) 0 (d.csewseg_offset + 9) 0 pec_undefined_thread arg = r at *
  obtain ⟨r1, r2⟩ := r
  simp only [] at harg h ⊢
  subst harg
  cases r2 with
  | none => exact absurd h (by simp)
  | some off =>
    simp only [] at h ⊢
    unfold thread_foreach at h ⊢
    cases htc : decode_u16lsb d off with
    | none => rw [htc] at h; exact absurd h (by simp)
    | some tc =>
      rw [htc] at h
      simp only [] at h ⊢
      cases ho : (thread_foreach_loop d cb tc.toNat 0 (off + 2) r1).2 with
      | none => rw [ho] at h; exact absurd h (by simp)
      | some o => exact ⟨off, tc, o, rfl, htc, ho, rfl⟩

/-- The offset of the thread table depends on the buffer and on the offsets of the
decoder only. -/
theorem table_offset_congr {F : Type} (ops : FloatOps F) (d d1 : pes_decoder)
    (h : d.data = d1.data) (hp : d.pec_offset = d1.pec_offset)
    (hc : d.csewseg_offset = d1.csewseg_offset) :
    (block_loop ops d none (none : Option (pes_stitch_callback F Unit))
      (d.data.length + 1) 0 (d.csewseg_offset + 9) 0 pec_undefined_thread ()).2 =
    (block_loop ops d1 none (none : Option (pes_stitch_callback F Unit))
      (d1.data.length + 1) 0 (d1.csewseg_offset + 9) 0 pec_undefined_thread ()).2 := by
  rw [block_loop_null_cb ops d d1 h hp (d.data.length + 1) 0 0 (d.csewseg_offset + 9) 0 0
    pec_undefined_thread pec_undefined_thread (), h, hc]

/-- The number that the counting pass of init_palette and init_change returns is the
count of the thread table. -/
theorem change_count_pass {F : Type} (ops : FloatOps F) (d : pes_decoder)
    (h : (stitch_foreach ops d none (none : Option (pes_stitch_callback F Int))
      (some change_count_cb) 0).2 = true) :
    ∃ (off tc : Int),
      (block_loop ops d none (none : Option (pes_stitch_callback F Unit))
        (d.data.length + 1) 0 (d.csewseg_offset + 9) 0 pec_undefined_thread ()).2 =
        some off ∧
      decode_u16lsb d off = some tc ∧ 0 ≤ tc ∧
      (stitch_foreach ops d none (none : Option (pes_stitch_callback F Int))
        (some change_count_cb) 0).1 = tc := by
  obtain ⟨off, tc, o, h1, h2, h3, h4⟩ := stitch_foreach_pass ops d change_count_cb 0 h
  have htc := pes_decode_u16lsb_nonneg _ _ _ h2
  refine ⟨off, tc, h1, h2, htc, ?_⟩
  rw [h4]
  have := thread_foreach_loop_ok d change_count_cb (fun i c => c = i)
    (fun s i b t _ _ _ hs _ => by simp only [change_count_cb]; rw [hs]) tc.toNat 0 (off + 2)
    0 (le_refl _) rfl o h3
  rw [this]
  omega

theorem change_thread_cb_range (T : Int) (n : Nat) (s : pes_decoder) (i b t : Int)
    (hi : 0 ≤ i) (ht : 0 ≤ t)
    (h : s.thread_count = T ∧ s.change_list.length = n ∧
      ∀ (j : Nat) (c : pes_change), (j : Int) < i → s.change_list[j]? = some c →
        0 ≤ c.thread_index ∧ c.thread_index < T)
    (hflag : (change_thread_cb s i b t).2 = true) :
    (change_thread_cb s i b t).1.thread_count = T ∧
    (change_thread_cb s i b t).1.change_list.length = n ∧
    ∀ (j : Nat) (c : pes_change), (j : Int) < i + 1 →
      (change_thread_cb s i b t).1.change_list[j]? = some c →
      0 ≤ c.thread_index ∧ c.thread_index < T := by
  unfold change_thread_cb at hflag ⊢
  simp only [decide_eq_true_eq] at hflag
  simp only [List.length_set]
  refine ⟨h.1, h.2.1, fun j c hj hc => ?_⟩
  rw [List.getElem?_set] at hc
  by_cases hij : i.toNat = j
  · rw [if_pos hij] at hc
    split_ifs at hc
    simp only [Option.some.injEq] at hc
    rw [← hc]
    exact ⟨ht, by rw [← h.1]; exact hflag⟩
  · rw [if_neg hij] at hc
    exact h.2.2 j c (by omega) hc

theorem palette_thread_cb_range (T : Int) (n : Nat) (s : pes_decoder) (i b t : Int)
    (hi : 0 ≤ i)
    (h : s.thread_count = T ∧ s.change_list.length = n ∧
      ∀ (j : Nat) (c : pes_change), (j : Int) < i → s.change_list[j]? = some c →
        0 ≤ c.thread_index ∧ c.thread_index < T)
    (hflag : (palette_thread_cb s i b t).2 = true) :
    (palette_thread_cb s i b t).1.thread_count = T ∧
    (palette_thread_cb s i b t).1.change_list.length = n ∧
    ∀ (j : Nat) (c : pes_change), (j : Int) < i + 1 →
      (palette_thread_cb s i b t).1.change_list[j]? = some c →
      0 ≤ c.thread_index ∧ c.thread_index < T := by
  unfold palette_thread_cb at hflag ⊢
  exact change_thread_cb_range T n _ i b i hi hi h hflag

/-- A writing pass of init_palette or init_change that succeeds on a change list that is
not longer than the thread table: every entry of the list is written, with a thread
index that the callback has accepted. -/
theorem write_pass_range {F : Type} (ops : FloatOps F) (dd start : pes_decoder)
    (cb : pes_thread_callback pes_decoder) (T : Int) (n : Nat)
    (hstep : ∀ s i b t, 0 ≤ i → 0 ≤ b → 0 ≤ t →
      (s.thread_count = T ∧ s.change_list.length = n ∧
        ∀ (j : Nat) (c : pes_change), (j : Int) < i → s.change_list[j]? = some c →
          0 ≤ c.thread_index ∧ c.thread_index < T) →
      (cb s i b t).2 = true →
      ((cb s i b t).1.thread_count = T ∧ (cb s i b t).1.change_list.length = n ∧
        ∀ (j : Nat) (c : pes_change), (j : Int) < i + 1 →
          (cb s i b t).1.change_list[j]? = some c →
          0 ≤ c.thread_index ∧ c.thread_index < T))
    (hT : start.thread_count = T) (hn : start.change_list.length = n)
    (hok : (stitch_foreach ops dd none (none : Option (pes_stitch_callback F pes_decoder))
      (some cb) start).2 = true)
    (off tc : Int)
    (hoff : (block_loop ops dd none (none : Option (pes_stitch_callback F Unit))
      (dd.data.length + 1) 0 (dd.csewseg_offset + 9) 0 pec_undefined_thread ()).2 =
      some off)
    (htc : decode_u16lsb dd off = some tc) (hle : n ≤ tc.toNat) :
    (stitch_foreach ops dd none (none : Option (pes_stitch_callback F pes_decoder))
      (some cb) start).1.thread_count = T ∧
    ∀ c ∈ (stitch_foreach ops dd none (none : Option (pes_stitch_callback F pes_decoder))
      (some cb) start).1.change_list, 0 ≤ c.thread_index ∧ c.thread_index < T := by
  obtain ⟨off1, tc1, o, h1, h2, h3, h4⟩ := stitch_foreach_pass ops dd cb start hok
  rw [hoff] at h1
  have e1 : off1 = off := (Option.some.inj h1).symm
  subst e1
  rw [htc] at h2
  have e2 : tc1 = tc := (Option.some.inj h2).symm
  subst e2
  rw [h4]
  have key := thread_foreach_loop_ok dd cb
    (fun i s => s.thread_count = T ∧ s.change_list.length = n ∧
      ∀ (j : Nat) (c : pes_change), (j : Int) < i → s.change_list[j]? = some c →
        0 ≤ c.thread_index ∧ c.thread_index < T)
    hstep tc1.toNat 0 (off1 + 2) start (le_refl _)
    ⟨hT, hn, fun j c hj _ => absurd hj (by omega)⟩ o h3
  refine ⟨key.1, fun c hc => ?_⟩
  obtain ⟨j, hj⟩ := List.mem_iff_getElem?.1 hc
  have hlt : j < n := by
    have := (List.getElem?_eq_some_iff.1 hj).1
    rw [key.2.1] at this
    exact this
  exact key.2.2 j c (by omega) hj

theorem write_pass_range_from {F : Type} (ops : FloatOps F) (d0 dd start : pes_decoder)
    (cb : pes_thread_callback pes_decoder) (T : Int) (n : Nat)
    (hstep : ∀ s i b t, 0 ≤ i → 0 ≤ b → 0 ≤ t →
      (s.thread_count = T ∧ s.change_list.length = n ∧
        ∀ (j : Nat) (c : pes_change), (j : Int) < i → s.change_list[j]? = some c →
          0 ≤ c.thread_index ∧ c.thread_index < T) →
      (cb s i b t).2 = true →
      ((cb s i b t).1.thread_count = T ∧ (cb s i b t).1.change_list.length = n ∧
        ∀ (j : Nat) (c : pes_change), (j : Int) < i + 1 →
          (cb s i b t).1.change_list[j]? = some c →
          0 ≤ c.thread_index ∧ c.thread_index < T))
    (hT : start.thread_count = T) (hn : start.change_list.length = n)
    (hok : (stitch_foreach ops dd none (none : Option (pes_stitch_callback F pes_decoder))
      (some cb) start).2 = true)
    (hd : d0.data = dd.data) (hp : d0.pec_offset = dd.pec_offset)
    (hc : d0.csewseg_offset = dd.csewseg_offset)
    (off tc : Int)
    (hoff : (block_loop ops d0 none (none : Option (pes_stitch_callback F Unit))
      (d0.data.length + 1) 0 (d0.csewseg_offset + 9) 0 pec_undefined_thread ()).2 =
      some off)
    (htc : decode_u16lsb d0 off = some tc) (hle : n ≤ tc.toNat) :
    (stitch_foreach ops dd none (none : Option (pes_stitch_callback F pes_decoder))
      (some cb) start).1.thread_count = T ∧
    ∀ c ∈ (stitch_foreach ops dd none (none : Option (pes_stitch_callback F pes_decoder))
      (some cb) start).1.change_list, 0 ≤ c.thread_index ∧ c.thread_index < T :=
  write_pass_range ops dd start cb T n hstep hT hn hok off tc
    ((table_offset_congr ops d0 dd hd hp hc).symm.trans hoff)
    ((pes_decode_u16_data d0 dd hd off).symm.trans htc) hle

theorem init_palette_range {F : Type} (ops : FloatOps F) (cz : Bool) (d4 d5 : pes_decoder)
    (h5 : init_palette ops cz d4 = some d5) :
    ∀ c ∈ d5.change_list, 0 ≤ c.thread_index ∧ c.thread_index < d5.thread_count := by
  unfold init_palette at h5
  simp only [] at h5
  split at h5
  · exact absurd h5 (by simp)
  · rename_i hr
    split at h5
    · exact absurd h5 (by simp)
    · split at h5
      · exact absurd h5 (by simp)
      · rename_i hr2
        simp only [Option.some.injEq] at h5
        have hr1 : (stitch_foreach ops d4 none (none : Option (pes_stitch_callback F Int))
            (some change_count_cb) 0).2 = true := by
          simpa using hr
        obtain ⟨off, tc, hoff, htc, hnn, hcount⟩ := change_count_pass ops d4 hr1
        rw [hcount] at h5 hr2
        have hok : (stitch_foreach ops
            { d4 with
                thread_list := some (List.replicate tc.toNat zero_thread)
                thread_count := tc
                change_list := List.replicate tc.toNat ⟨0, 0⟩
                change_count := tc } none
            (none : Option (pes_stitch_callback F pes_decoder)) (some palette_thread_cb)
            { d4 with
                thread_list := some (List.replicate tc.toNat zero_thread)
                thread_count := tc
                change_list := List.replicate tc.toNat ⟨0, 0⟩
                change_count := tc }).2 = true := by
          simpa using hr2
        have key := write_pass_range_from ops d4 _ _ palette_thread_cb tc tc.toNat
          (fun s i b t hi _ _ hs hf => palette_thread_cb_range tc tc.toNat s i b t hi hs hf)
          (by rfl) (by exact List.length_replicate _ _) hok rfl rfl rfl off tc hoff htc (le_refl _)
        rw [← h5, key.1]
        exact key.2

theorem init_change_range {F : Type} (ops : FloatOps F) (cz : Bool) (d4 d5 : pes_decoder)
    (h5 : init_change ops cz d4 = some d5) :
    ∀ c ∈ d5.change_list, 0 ≤ c.thread_index ∧ c.thread_index < d5.thread_count := by
  unfold init_change at h5
  simp only [] at h5
  split at h5
  · exact absurd h5 (by simp)
  · rename_i hr
    split at h5
    · exact absurd h5 (by simp)
    · split at h5
      · exact absurd h5 (by simp)
      · rename_i hr2
        simp only [Option.some.injEq] at h5
        have hr1 : (stitch_foreach ops d4 none (none : Option (pes_stitch_callback F Int))
            (some change_count_cb) 0).2 = true := by
          simpa using hr
        obtain ⟨off, tc, hoff, htc, hnn, hcount⟩ := change_count_pass ops d4 hr1
        rw [hcount] at h5 hr2
        have hok : (stitch_foreach ops
            { d4 with change_list := List.replicate tc.toNat ⟨0, 0⟩ } none
            (none : Option (pes_stitch_callback F pes_decoder)) (some change_thread_cb)
            { d4 with change_list := List.replicate tc.toNat ⟨0, 0⟩ }).2 = true := by
          simpa using hr2
        have key := write_pass_range_from ops d4 _ _ change_thread_cb d4.thread_count tc.toNat
          (fun s i b t hi _ ht hs hf =>
            change_thread_cb_range d4.thread_count tc.toNat s i b t hi ht hs hf)
          (by rfl) (by exact List.length_replicate _ _) hok rfl rfl rfl off tc hoff htc (le_refl _)
        rw [← h5]
        simp only []
        rw [key.1]
        exact key.2

theorem init_threads_loop_length (d : pes_decoder) :
    ∀ (n : Nat) (i off : Int) (l : List pec_thread) (o : Int),
      init_threads_loop d n i off = some (l, o) → l.length = n := by
  intro n
  induction n with
  | zero =>
    intro i off l o h
    unfold init_threads_loop at h
    simp only [Option.some.injEq, Prod.mk.injEq] at h
    rw [← h.1]
    rfl
  | succ n ih =>
    intro i off l o h
    unfold init_threads_loop at h
    split at h
    · exact absurd h (by simp)
    · simp only [] at h
      split at h
      · split at h
        · exact absurd h (by simp)
        · split at h
          · exact absurd h (by simp)
          · split at h
            · exact absurd h (by simp)
            · split at h
              · exact absurd h (by simp)
              · rename_i rest o6 hrest
                simp only [Option.some.injEq, Prod.mk.injEq] at h
                rw [← h.1, List.length_cons, ih _ _ _ _ hrest]
      · exact absurd h (by simp)

theorem init_threads_table (cz : Bool) (d d1 : pes_decoder) (off o1 : Int)
    (h : init_threads cz d off = some (d1, o1)) :
    ∃ l, d1.thread_list = some l ∧ (l.length : Int) = d1.thread_count := by
  unfold init_threads at h
  split at h
  · exact absurd h (by simp)
  · rename_i tc htc
    split at h
    · exact absurd h (by simp)
    · split at h
      · exact absurd h (by simp)
      · rename_i threads o2 hl
        simp only [Option.some.injEq, Prod.mk.injEq] at h
        rw [← h.1]
        refine ⟨threads, rfl, ?_⟩
        simp only []
        rw [init_threads_loop_length d _ _ _ _ _ hl]
        exact Int.toNat_of_nonneg (pes_decode_u16lsb_nonneg _ _ _ htc)

theorem init_version5_table (cz : Bool) (d d2 : pes_decoder)
    (h : init_version5 cz d = some d2) :
    ∃ l, d2.thread_list = some l ∧ (l.length : Int) = d2.thread_count := by
  unfold init_version5 at h
  split at h
  · exact absurd h (by simp)
  · simp only [] at h
    split at h
    · exact absurd h (by simp)
    · split at h
      · exact absurd h (by simp)
      · rename_i d1 o2 ht
        simp only [Option.some.injEq] at h
        rw [← h]
        exact init_threads_table cz _ d1 _ o2 ht

theorem init_version6_table (cz : Bool) (d d2 : pes_decoder)
    (h : init_version6 cz d = some d2) :
    ∃ l, d2.thread_list = some l ∧ (l.length : Int) = d2.thread_count := by
  unfold init_version6 at h
  split at h
  · exact absurd h (by simp)
  · simp only [] at h
    split at h
    · exact absurd h (by simp)
    · split at h
      · exact absurd h (by simp)
      · rename_i d1 o2 ht
        simp only [Option.some.injEq] at h
        rw [← h]
        exact init_threads_table cz _ d1 _ o2 ht

theorem init_version1_table (d d2 : pes_decoder) (h : init_version1 d = some d2) :
    d2.thread_list = d.thread_list := by
  unfold init_version1 at h
  simp only [Option.some.injEq] at h
  rw [← h]

theorem init_version4_table (d d2 : pes_decoder) (h : init_version4 d = some d2) :
    d2.thread_list = d.thread_list := by
  unfold init_version4 at h
  split at h
  · exact absurd h (by simp)
  · simp only [] at h
    split at h
    · exact absurd h (by simp)
    · simp only [Option.some.injEq] at h
      rw [← h]

/-- The last step of pes_decoder_init: init_palette for a decoder without a thread table
(versions 1 and 4), init_change for a decoder whose thread table init_threads has read
(versions 5 and 6). -/
theorem pes_decoder_init_cases {F : Type} (ops : FloatOps F) (cz : Bool) (data : List Byte)
    (d : pes_decoder) (h : pes_decoder_init ops cz data = .decoder d) :
    ∃ d4 : pes_decoder,
      (d4.thread_list = none ∧ init_palette ops cz d4 = some d) ∨
      ((∃ l, d4.thread_list = some l ∧ (l.length : Int) = d4.thread_count) ∧
        init_change ops cz d4 = some d) := by
  unfold pes_decoder_init at h
  split at h
  · exact absurd h (by simp)
  · simp only [] at h
    split at h
    · exact absurd h (by simp)
    · split at h
      · exact absurd h (by simp)
      · split at h
        · exact absurd h (by simp)
        · split at h
          · exact absurd h (by simp)
          · split at h
            · exact absurd h (by simp)
            · rename_i d2 hv
              split at h
              · exact absurd h (by simp)
              · split at h
                · exact absurd h (by simp)
                · split at h
                  · rename_i hnone
                    split at h
                    · exact absurd h (by simp)
                    · rename_i d5 h5
                      simp only [init_result.decoder.injEq] at h
                      rw [← h]
                      refine ⟨_, Or.inl ⟨?_, h5⟩⟩
                      exact hnone
                  · rename_i l hsome
                    split at h
                    · exact absurd h (by simp)
                    · rename_i d5 h5
                      simp only [init_result.decoder.injEq] at h
                      rw [← h]
                      refine ⟨_, Or.inr ⟨?_, h5⟩⟩
                      simp only [] at hsome ⊢
                      split_ifs at hv
                      · rw [init_version1_table _ _ hv] at hsome
                        exact absurd hsome (by simp)
                      · rw [init_version4_table _ _ hv] at hsome
                        exact absurd hsome (by simp)
                      · exact init_version5_table cz _ _ hv
                      · exact init_version6_table cz _ _ hv

theorem init_palette_table {F : Type} (ops : FloatOps F) (cz : Bool) (d4 d5 : pes_decoder)
    (h5 : init_palette ops cz d4 = some d5) :
    ∃ l, d5.thread_list = some l ∧ (l.length : Int) = d5.thread_count := by
  unfold init_palette at h5
  simp only [] at h5
  split at h5
  · exact absurd h5 (by simp)
  · rename_i hr
    split at h5
    · exact absurd h5 (by simp)
    · split at h5
      · exact absurd h5 (by simp)
      · simp only [Option.some.injEq] at h5
        have hr1 : (stitch_foreach ops d4 none (none : Option (pes_stitch_callback F Int))
            (some change_count_cb) 0).2 = true := by
          simpa using hr
        obtain ⟨off, tc, hoff, htc, hnn, hcount⟩ := change_count_pass ops d4 hr1
        rw [hcount] at h5
        rw [← h5]
        have key := stitch_foreach_inv (F := F) ops
          { d4 with
              thread_list := some (List.replicate tc.toNat zero_thread)
              thread_count := tc
              change_list := List.replicate tc.toNat ⟨0, 0⟩
              change_count := tc } palette_thread_cb
          (fun s => s.thread_count = tc ∧ ∃ l, s.thread_list = some l ∧ l.length = tc.toNat)
          (fun s i b t _ hs => by
            obtain ⟨h1, l, h2, h3⟩ := hs
            unfold palette_thread_cb change_thread_cb
            simp only [h2, Option.getD_some]
            exact ⟨h1, _, rfl, by rw [List.length_set]; exact h3⟩)
          { d4 with
              thread_list := some (List.replicate tc.toNat zero_thread)
              thread_count := tc
              change_list := List.replicate tc.toNat ⟨0, 0⟩
              change_count := tc }
          ⟨rfl, _, rfl, List.length_replicate _ _⟩
        obtain ⟨k1, l, k2, k3⟩ := key
        exact ⟨l, k2, by rw [k1, k3]; exact Int.toNat_of_nonneg hnn⟩

theorem init_change_table {F : Type} (ops : FloatOps F) (cz : Bool) (d4 d5 : pes_decoder)
    (hl : ∃ l, d4.thread_list = some l ∧ (l.length : Int) = d4.thread_count)
    (h5 : init_change ops cz d4 = some d5) :
    ∃ l, d5.thread_list = some l ∧ (l.length : Int) = d5.thread_count := by
  unfold init_change at h5
  simp only [] at h5
  split at h5
  · exact absurd h5 (by simp)
  · split at h5
    · exact absurd h5 (by simp)
    · split at h5
      · exact absurd h5 (by simp)
      · simp only [Option.some.injEq] at h5
        rw [← h5]
        have key := stitch_foreach_inv (F := F) ops
          { d4 with change_list := List.replicate (stitch_foreach ops d4 none
              (none : Option (pes_stitch_callback F Int))
              (some change_count_cb) 0).1.toNat ⟨0, 0⟩ } change_thread_cb
          (fun s => s.thread_count = d4.thread_count ∧ s.thread_list = d4.thread_list)
          (fun s i b t _ hs => by
            unfold change_thread_cb
            exact hs)
          { d4 with change_list := List.replicate (stitch_foreach ops d4 none
              (none : Option (pes_stitch_callback F Int))
              (some change_count_cb) 0).1.toNat ⟨0, 0⟩ }
          ⟨rfl, rfl⟩
        obtain ⟨l, h1, h2⟩ := hl
        refine ⟨l, ?_, ?_⟩
        · simp only []
          rw [key.2]
          exact h1
        · simp only []
          rw [key.1]
          exact h2

/-- C40. Thread lookups during PES iteration are always in range: for every decoder
that pes_decoder_init returns (for the versions 1, 4, 5 and 6, which are all it
accepts, and for every buffer), every entry of the change list has
0 <= thread_index < thread_count, and the thread list holds thread_count entries, so the
access thread_list[change_list[change_index].thread_index] of stitch_foreach stays
inside the thread list. -/
theorem change_thread_index_in_range {F : Type} (ops : FloatOps F) (cz : Bool)
    (data : List Byte) (d : pes_decoder)
    (h : pes_decoder_init ops cz data = .decoder d) :
    (∀ c ∈ d.change_list, 0 ≤ c.thread_index ∧ c.thread_index < d.thread_count) ∧
    ∃ l, d.thread_list = some l ∧ (l.length : Int) = d.thread_count ∧
      ∀ c ∈ d.change_list, c.thread_index.toNat < l.length := by
  obtain ⟨d4, h4 | h4⟩ := pes_decoder_init_cases ops cz data d h
  · have hr := init_palette_range ops cz d4 d h4.2
    obtain ⟨l, h1, h2⟩ := init_palette_table ops cz d4 d h4.2
    refine ⟨hr, l, h1, h2, fun c hc => ?_⟩
    have := hr c hc
    omega
  · have hr := init_change_range ops cz d4 d h4.2
    obtain ⟨l, h1, h2⟩ := init_change_table ops cz d4 d h4.1 h4.2
    refine ⟨hr, l, h1, h2, fun c hc => ?_⟩
    have := hr c hc
    omega

theorem change_thread_index_in_range_witness :
    ∃ (out : List Byte) (d : pes_decoder),
      PesEncoder.pes_encode1 gridOps sample_pes_encoder = some out ∧
      pes_decoder_init gridOps true out = .decoder d ∧
      d.change_list = [⟨0, 0⟩, ⟨1, 1⟩] ∧
      ((∀ c ∈ d.change_list, 0 ≤ c.thread_index ∧ c.thread_index < d.thread_count) ∧
        ∃ l, d.thread_list = some l ∧ (l.length : Int) = d.thread_count ∧
          ∀ c ∈ d.change_list, c.thread_index.toNat < l.length) := by
  obtain ⟨out, h⟩ := Option.isSome_iff_exists.1 sample_pes_encodes
  obtain ⟨sections, pec, sl, pre, post, n0, n1, -, -, -, -, -, -, -, -, hinit, -⟩ :=
    pes_decoder_init_encoded gridOps true sample_pes_encoder sample_pes_reachable
      sample_pes_jump_on_change (by rw [sample_pes_stitches]; exact List.cons_ne_nil _ _) out h
  obtain ⟨d, h1, -, -, -, -, -, -, -, -⟩ :=
    pes_decode_encoded gridOps true sample_pes_encoder sample_pes_reachable
      (by rw [sample_pes_stitches]; exact List.cons_ne_nil _ _) sample_pes_jump_on_change out h
  have hd := h1.symm.trans hinit
  simp only [init_result.decoder.injEq] at hd
  have hcl : d.change_list = [⟨0, 0⟩, ⟨1, 1⟩] := by
    rw [hd]
    show List.map Prod.fst (changes_of sample_pes_encoder.thread_list
      sample_pes_encoder.stitch_list) = [⟨0, 0⟩, ⟨1, 1⟩]
    decide
  exact ⟨out, d, h, h1, hcl, change_thread_index_in_range gridOps true out d h1⟩

end change_range
end Libpes

namespace Libpes
open Sax

/-! ## Closing events never outnumber opening events -/

/-- Events that neither open nor close an element leave the depth as it is. -/
theorem quiet_depth (A : List sax_event)
    (hq : ∀ ev ∈ A, ev.is_opening = false ∧ ev.is_closing = false) (B : List sax_event)
    (d : Nat) :
    (never_below d (A ++ B) ↔ never_below d B) ∧
    depth_after d (A ++ B) = depth_after d B := by
  induction A with
  | nil => exact ⟨Iff.rfl, rfl⟩
  | cons ev A ih =>
    have hev := hq ev (List.mem_cons_self _ _)
    have ih2 := ih (fun ev hm => hq ev (List.mem_cons_of_mem _ hm))
    cases ev with
    | opening e => simp [sax_event.is_opening] at hev
    | closing e => simp [sax_event.is_closing] at hev
    | attr a v => simpa only [List.cons_append, never_below, depth_after] using ih2
    | error e m => simpa only [List.cons_append, never_below, depth_after] using ih2

theorem never_below_append :
    ∀ (A B : List sax_event) (d : Nat), never_below d A → never_below (depth_after d A) B →
      never_below d (A ++ B)
  | [], _, _, _, hb => hb
  | sax_event.opening e :: A, B, d, ha, hb => by
    simp only [List.cons_append, never_below, depth_after] at ha hb ⊢
    exact never_below_append A B _ ha hb
  | sax_event.closing e :: A, B, d, ha, hb => by
    simp only [List.cons_append, never_below, depth_after] at ha hb ⊢
    exact ⟨ha.1, never_below_append A B _ ha.2 hb⟩
  | sax_event.attr a v :: A, B, d, ha, hb => by
    simp only [List.cons_append, never_below, depth_after] at ha hb ⊢
    exact never_below_append A B _ ha hb
  | sax_event.error e m :: A, B, d, ha, hb => by
    simp only [List.cons_append, never_below, depth_after] at ha hb ⊢
    exact never_below_append A B _ ha hb

/-- In a list of events in which every closing event closes an open element, no prefix
has more closing events than opening events and elements open at the start. -/
theorem never_below_prefix :
    ∀ (l : List sax_event) (d : Nat), never_below d l → ∀ n : Nat,
      (l.take n).countP sax_event.is_closing ≤
        (l.take n).countP sax_event.is_opening + d
  | [], _, _, n => by simp
  | ev :: l, d, h, 0 => by simp
  | sax_event.opening e :: l, d, h, n + 1 => by
    simp only [never_below] at h
    have := never_below_prefix l (d + 1) h n
    simp only [List.take_succ_cons, List.countP_cons, sax_event.is_opening,
      sax_event.is_closing]
    simp
    omega
  | sax_event.closing e :: l, d, h, n + 1 => by
    simp only [never_below] at h
    have := never_below_prefix l (d - 1) h.2 n
    simp only [List.take_succ_cons, List.countP_cons, sax_event.is_opening,
      sax_event.is_closing]
    simp
    omega
  | sax_event.attr a v :: l, d, h, n + 1 => by
    simp only [never_below] at h
    have := never_below_prefix l d h n
    simp only [List.take_succ_cons, List.countP_cons, sax_event.is_opening,
      sax_event.is_closing]
    simp
    omega
  | sax_event.error e m :: l, d, h, n + 1 => by
    simp only [never_below] at h
    have := never_below_prefix l d h n
    simp only [List.take_succ_cons, List.countP_cons, sax_event.is_opening,
      sax_event.is_closing]
    simp
    omega

/-- The events of a run of parse_attribute neither open nor close an element. -/
theorem attribute_run_quiet (t : sax_token) :
    ∀ ev ∈ (attribute_run t).arg, ev.is_opening = false ∧ ev.is_closing = false := by
  intro ev hev
  rcases attribute_run_cases t with ⟨-, ⟨name, value, h⟩, -⟩ | ⟨-, ⟨tok, m, h⟩, -⟩
  · rw [h] at hev
    rw [List.mem_singleton.1 hev]
    exact ⟨rfl, rfl⟩
  · rw [h] at hev
    rw [List.mem_singleton.1 hev]
    exact ⟨rfl, rfl⟩

/-- The events of a run of the loop of parse_attribute_list neither open nor close an
element. -/
theorem attribute_list_run_quiet :
    ∀ (fuel : Nat) (t : sax_token),
      ∀ ev ∈ (attribute_list_run fuel t).arg, ev.is_opening = false ∧ ev.is_closing = false
  | 0, t => by
    rw [attribute_list_run_zero]
    intro ev hev
    simp at hev
  | fuel + 1, t => by
    rw [attribute_list_run_succ]
    intro ev hev
    by_cases h : (skip_space t).cursor.getD 0 0 = 47 ∨ (skip_space t).cursor.getD 0 0 = 62
    · rw [if_pos h] at hev
      simp at hev
    · rw [if_neg h] at hev
      by_cases hv : (attribute_run (skip_space t)).valid = true
      · rw [if_pos hv] at hev
        rcases List.mem_append.1 hev with h1 | h1
        · exact attribute_run_quiet _ ev h1
        · exact attribute_list_run_quiet fuel _ ev h1
      · rw [if_neg hv] at hev
        exact attribute_run_quiet _ ev hev

theorem quiet_alone (A : List sax_event)
    (hq : ∀ ev ∈ A, ev.is_opening = false ∧ ev.is_closing = false) (d : Nat) :
    never_below d A ∧ depth_after d A = d := by
  have h := quiet_depth A hq [] d
  rw [List.append_nil] at h
  exact ⟨h.1.2 trivial, h.2⟩

theorem opening_outcome_depth (name : sax_token) (run : parsed (List sax_event)) (r : Nat)
    (hq : ∀ ev ∈ run.arg, ev.is_opening = false ∧ ev.is_closing = false) :
    never_below r (opening_outcome name run r).arg ∧
    ((opening_outcome name run r).valid = true →
      (opening_outcome name run r).level = (depth_after r (opening_outcome name run r).arg :
        Nat)) := by
  have hpos : (0 : Int) < (r : Int) + 1 := by omega
  unfold opening_outcome
  by_cases h1 : run.valid = false
  · simp only [if_pos h1, never_below]
    exact ⟨(quiet_alone _ hq _).1, fun h => absurd h (by simp)⟩
  · simp only [if_neg h1]
    by_cases h2 : run.c.cursor.getD 0 0 = 47
    · simp only [if_pos h2, if_pos hpos]
      by_cases h3 : (next_char run.c).cursor.getD 0 0 ≠ 62
      · simp only [if_pos h3, never_below]
        refine ⟨?_, fun h => absurd h (by simp)⟩
        rw [(quiet_depth _ hq _ _).1]
        simp [never_below]
      · simp only [if_neg h3, never_below, depth_after]
        rw [(quiet_depth _ hq _ _).1, (quiet_depth _ hq _ _).2]
        simp [never_below, depth_after]
    · simp only [if_neg h2]
      by_cases h3 : run.c.cursor.getD 0 0 ≠ 62
      · simp only [if_pos h3, never_below]
        refine ⟨?_, fun h => absurd h (by simp)⟩
        rw [(quiet_depth _ hq _ _).1]
        simp [never_below]
      · simp only [if_neg h3, never_below, depth_after]
        refine ⟨(quiet_alone _ hq _).1, fun _ => ?_⟩
        rw [(quiet_alone _ hq _).2]
        push_cast
        rfl

theorem closing_run_depth (t : sax_token) (r : Nat) :
    never_below r (closing_run t r).arg ∧
    ((closing_run t r).valid = true →
      (closing_run t r).level = (depth_after r (closing_run t r).arg : Nat) ∨
      ((closing_run t r).level = -1 ∧ (closing_run t r).arg = [])) := by
  rw [closing_run_eq]
  by_cases h : (skip_space (parse_name t).2).cursor.getD 0 0 ≠ 62
  · simp only [if_pos h, never_below]
    exact ⟨trivial, fun h => absurd h (by simp)⟩
  · simp only [if_neg h]
    cases r with
    | zero =>
      have hn : ¬ (0 : Int) < ((0 : Nat) : Int) := by simp
      simp only [if_neg hn, never_below]
      exact ⟨trivial, fun _ => Or.inr (by simp)⟩
    | succ r =>
      have hp : (0 : Int) < ((r + 1 : Nat) : Int) := by push_cast; omega
      simp only [if_pos hp, never_below, depth_after]
      refine ⟨⟨Nat.succ_pos _, trivial⟩, fun _ => Or.inl ?_⟩
      push_cast
      simp

theorem misc_quiet (t : sax_token) :
    (∀ ev ∈ (parse_comment t (some record_error) []).arg,
      ev.is_opening = false ∧ ev.is_closing = false) ∧
    (∀ ev ∈ (parse_declaration t (some record_error) []).arg,
      ev.is_opening = false ∧ ev.is_closing = false) ∧
    (∀ ev ∈ (parse_processing t (some record_error) []).arg,
      ev.is_opening = false ∧ ev.is_closing = false) := by
  refine ⟨?_, ?_, ?_⟩
  · unfold parse_comment
    simp only []
    split_ifs
    · intro ev hev; simp at hev
    · intro ev hev
      simp only [parse_error_record, List.nil_append, List.mem_singleton] at hev
      rw [hev]
      exact ⟨rfl, rfl⟩
  · unfold parse_declaration
    simp only []
    split_ifs
    · intro ev hev; simp at hev
    · intro ev hev
      simp only [parse_error_record, List.nil_append, List.mem_singleton] at hev
      rw [hev]
      exact ⟨rfl, rfl⟩
  · unfold parse_processing
    simp only []
    split_ifs
    · intro ev hev; simp at hev
    · intro ev hev
      simp only [parse_error_record, List.nil_append, List.mem_singleton] at hev
      rw [hev]
      exact ⟨rfl, rfl⟩

theorem at_level_depth (p : parsed (List sax_event)) (r : Nat)
    (hq : ∀ ev ∈ p.arg, ev.is_opening = false ∧ ev.is_closing = false) :
    never_below r (p.at_level r).arg ∧
    ((p.at_level r).valid = true →
      (p.at_level r).level = (depth_after r (p.at_level r).arg : Nat) ∨
      ((p.at_level r).level = -1 ∧ (p.at_level r).arg = [])) := by
  obtain ⟨q1, q2⟩ := quiet_alone _ hq r
  unfold parsed.at_level
  exact ⟨q1, fun _ => Or.inl (by simp only []; rw [q2])⟩

/-- The events of a run of parse_element at a level that is not negative: every closing
event closes an open element, and after a run that succeeds the level is the number of
open elements, or -1 after a closing tag met with no element open, which delivers no
event. -/
theorem element_run_depth (t : sax_token) (r : Nat) :
    never_below r (element_run t r).arg ∧
    ((element_run t r).valid = true →
      (element_run t r).level = (depth_after r (element_run t r).arg : Nat) ∨
      ((element_run t r).level = -1 ∧ (element_run t r).arg = [])) := by
  rw [element_run_eq]
  by_cases h47 : t.cursor.getD 0 0 = 47
  · rw [if_pos h47]
    exact closing_run_depth _ r
  · rw [if_neg h47]
    by_cases h33 : t.cursor.getD 0 0 = 33
    · rw [if_pos h33]
      by_cases hc : (next_char t).cursor.getD 0 0 = 45 ∧ (next_char t).cursor.getD 1 0 = 45
      · rw [if_pos hc]
        exact at_level_depth _ r (misc_quiet _).1
      · rw [if_neg hc]
        exact at_level_depth _ r (misc_quiet _).2.1
    · rw [if_neg h33]
      by_cases h63 : t.cursor.getD 0 0 = 63
      · rw [if_pos h63]
        exact at_level_depth _ r (misc_quiet _).2.2
      · rw [if_neg h63, opening_run_outcome]
        obtain ⟨q1, q2⟩ := opening_outcome_depth (parse_name t).1 (opening_attributes t) r
          (attribute_list_run_quiet _ _)
        exact ⟨q1, fun h => Or.inl (q2 h)⟩

/-- The events of a run of the loop of parse_children from a level that is not negative,
whether it succeeds or not: every closing event closes an open element. -/
theorem children_run_depth :
    ∀ (fuel : Nat) (t : sax_token) (r : Nat) (count : Int), 0 ≤ count →
      never_below r (children_run fuel t r count).arg
  | 0, t, r, count, _ => by
    rw [children_run_zero]
    trivial
  | fuel + 1, t, r, count, hc => by
    rw [children_run_succ]
    by_cases h : t.cursor.getD 0 0 ≠ 0 ∧ (count = 0 ∨ (0 : Int) ≤ r)
    · rw [if_pos h]
      by_cases h60 : t.cursor.getD 0 0 = 60
      · rw [if_pos h60]
        obtain ⟨e1, e2⟩ := element_run_depth (next_char t) r
        by_cases hv : (element_run (next_char t) r).valid = false
        · rw [if_pos hv]
          exact e1
        · rw [if_neg hv]
          simp only []
          rcases e2 (by simpa using hv) with hl | ⟨hl, harg⟩
          · rw [hl]
            exact never_below_append _ _ _ e1
              (children_run_depth fuel _ _ (count + 1) (by omega))
          · rw [hl, harg, List.nil_append]
            cases fuel with
            | zero =>
              rw [children_run_zero]
              trivial
            | succ fuel =>
              rw [children_run_stopped fuel _ (-1) (count + 1) (by omega) (by omega)]
              trivial
      · rw [if_neg h60]
        by_cases hsp : isspace (t.cursor.getD 0 0) = true
        · rw [if_pos hsp]
          exact children_run_depth fuel _ r count hc
        · rw [if_neg hsp]
          trivial
    · rw [if_neg h]
      trivial

/-- The loop of parse_children at level 0 on a closing tag: the tag delivers no closing
event and the loop ends there, with an error event when the tag has no `>`. -/
theorem children_run_unmatched (fuel : Nat) (t : sax_token) (count : Int) (hc : 0 ≤ count)
    (h60 : t.cursor.getD 0 0 = 60) (h47 : (next_char t).cursor.getD 0 0 = 47) :
    ((children_run (fuel + 2) t 0 count).valid = true ∧
      (children_run (fuel + 2) t 0 count).level = -1 ∧
      (children_run (fuel + 2) t 0 count).arg = []) ∨
    ((children_run (fuel + 2) t 0 count).valid = false ∧
      ∃ token message,
        (children_run (fuel + 2) t 0 count).arg = [sax_event.error token message]) := by
  have hcond : t.cursor.getD 0 0 ≠ 0 ∧ (count = 0 ∨ (0 : Int) ≤ 0) :=
    ⟨by rw [h60]; decide, Or.inr (le_refl _)⟩
  rw [children_run_succ, if_pos hcond, if_pos h60, element_run_eq, if_pos h47,
    closing_run_eq]
  generalize skip_space (parse_name (next_char (next_char t))).2 = c
  generalize (parse_name (next_char (next_char t))).1 = name
  by_cases h : c.cursor.getD 0 0 ≠ 62
  · rw [if_pos h, if_pos rfl]
    exact Or.inr ⟨rfl, _, _, rfl⟩
  · have hn : ¬ (0 : Int) < 0 := by decide
    rw [if_neg h, if_neg hn, if_neg (fun h => Bool.noConfusion h)]
    rw [children_run_stopped fuel _ (0 - 1) (count + 1) (by omega) (by omega)]
    exact Or.inl ⟨rfl, rfl, rfl⟩

/-- C39. The XML event stream never closes more than it opened: for every input text and
every prefix of the sequence of events that sax_parse_text delivers, whether the parse
succeeds or not, the number of element closing events is at most the number of element
opening events. A closing tag met with no element open delivers no closing event and
ends the parse: the loop of parse_children at level 0 returns at the tag without an
opening or closing event, as on the text `<a></a></b><c/>`, whose parse succeeds with
the two events of `a`. -/
theorem closing_never_exceeds_opening :
    (∀ (text : List Byte) (n : Nat),
      ((sax_events text).1.take n).countP sax_event.is_closing ≤
        ((sax_events text).1.take n).countP sax_event.is_opening) ∧
    (∀ (fuel : Nat) (t : sax_token) (count : Int), 0 ≤ count →
      t.cursor.getD 0 0 = 60 → (next_char t).cursor.getD 0 0 = 47 →
      ((children_run (fuel + 2) t 0 count).valid = true ∧
        (children_run (fuel + 2) t 0 count).level = -1 ∧
        (children_run (fuel + 2) t 0 count).arg = []) ∨
      ((children_run (fuel + 2) t 0 count).valid = false ∧
        ∃ token message,
          (children_run (fuel + 2) t 0 count).arg = [sax_event.error token message])) ∧
    ((sax_events (ascii "<a></a></b><c/>")).2 = true ∧
      (sax_events (ascii "<a></a></b><c/>")).1.map sax_event.invocation =
        [(sax_type.SAX_ELEMENT_OPENING, 1, 2, ascii "a", []),
          (sax_type.SAX_ELEMENT_CLOSING, 1, 6, ascii "a", [])]) := by
  refine ⟨fun text n => ?_, fun fuel t count hc h60 h47 =>
    children_run_unmatched fuel t count hc h60 h47, by decide!⟩
  have h := children_run_depth (text.length + 1) ⟨1, 1, 0, 1, text⟩ 0 0 (le_refl _)
  have e : (sax_events text).1 =
      (children_run (text.length + 1) ⟨1, 1, 0, 1, text⟩ ((0 : Nat) : Int) 0).arg := rfl
  rw [e]
  exact never_below_prefix _ 0 h n

theorem closing_never_exceeds_opening_witness :
    ((sax_events fixture_xml).1.take 40).countP sax_event.is_closing ≤
      ((sax_events fixture_xml).1.take 40).countP sax_event.is_opening :=
  closing_never_exceeds_opening.1 fixture_xml 40
/-! ## The thread table of the SVG-emb decoder -/

theorem stroke_value_rgb : ∀ i, i < 257 →
    SvgEmbDecoder.parse_rgb (stroke_value i) =
      some ⟨0, ((i / 256 : Nat) : Int), ((i % 256 : Nat) : Int)⟩ := by
  decide!

theorem path_opening_call (state : SvgEmbDecoder.svg_emb_thread_state Unit) :
    SvgEmbDecoder.thread_element_opening_cb unit_g_ops path_name state =
      ({ state with path_element := true }, true) := by
  have h1 : ¬ sax_strcmp path_name (ascii "g") = 0 := by decide
  have h2 : sax_strcmp path_name (ascii "path") = 0 := by decide
  unfold SvgEmbDecoder.thread_element_opening_cb
  simp only [if_neg h1, h2, decide_True]

theorem stroke_call (value : sax_token) (state : SvgEmbDecoder.svg_emb_thread_state Unit)
    (h : state.path_element = true) :
    SvgEmbDecoder.thread_attribute_cb stroke_name value state =
      SvgEmbDecoder.parse_color value state := by
  have h1 : sax_strcmp stroke_name (ascii "stroke") = 0 := by decide
  unfold SvgEmbDecoder.thread_attribute_cb
  rw [if_pos ⟨h, h1⟩]

theorem find_thread_loop_none (rgb : pec_rgb) :
    ∀ (l : List pec_thread) (i : Int),
      (∀ t ∈ l, ¬ (t.rgb.r = rgb.r ∧ t.rgb.g = rgb.g ∧ t.rgb.b = rgb.b)) →
      SvgEmbDecoder.find_thread_loop rgb i l = -1
  | [], i, _ => rfl
  | t :: rest, i, h => by
    unfold SvgEmbDecoder.find_thread_loop
    rw [if_neg (h t (List.mem_cons_self _ _))]
    exact find_thread_loop_none rgb rest (i + 1)
      (fun u hu => h u (List.mem_cons_of_mem _ hu))

/-- A colour that find_thread_index does not find: parse_color writes it after the
thread_count entries of the table and adds one to thread_count, whatever thread_count
is. -/
theorem parse_color_new {α : Type} (color : sax_token)
    (state : SvgEmbDecoder.svg_emb_thread_state α) (rgb : pec_rgb)
    (hrgb : SvgEmbDecoder.parse_rgb color = some rgb)
    (hfind : SvgEmbDecoder.find_thread_index state.decoder rgb = -1) :
    (SvgEmbDecoder.parse_color color state).2 = true ∧
    (SvgEmbDecoder.parse_color color state).1.path_element = state.path_element ∧
    (SvgEmbDecoder.parse_color color state).1.decoder.thread_count =
      state.decoder.thread_count + 1 ∧
    ∃ c : pec_thread, c.index = state.decoder.thread_count ∧ c.rgb = rgb ∧
      (SvgEmbDecoder.parse_color color state).1.decoder.thread_list =
        state.decoder.thread_list.take state.decoder.thread_count.toNat ++ [c] := by
  unfold SvgEmbDecoder.parse_color
  rw [hrgb]
  simp only [hfind, if_true]
  exact ⟨trivial, trivial, trivial, _, rfl, rfl, rfl⟩

/-- The calls for the elements `k`, ..., `k + m - 1` of `many_colours`, from a table that
holds the threads of the elements before them: every call returns true and every element
adds its thread. -/
theorem path_calls_table :
    ∀ (m k : Nat) (s : SvgEmbDecoder.svg_emb_thread_state Unit), k + m ≤ 257 →
      thread_table s.decoder = ((k : Int), (List.range k).map colour_entry) →
      (path_calls (List.range' k m) s).2 = true ∧
      thread_table (path_calls (List.range' k m) s).1.decoder =
        (((k + m : Nat) : Int), (List.range (k + m)).map colour_entry)
  | 0, k, s, _, h => ⟨rfl, h⟩
  | m + 1, k, s, hk, h => by
    rw [List.range'_succ]
    unfold path_calls
    simp only [path_opening_call, Bool.true_eq_false, if_false]
    rw [stroke_call _ _ rfl]
    unfold thread_table at h
    simp only [Prod.mk.injEq] at h
    obtain ⟨hc, hl⟩ := h
    have hlen : s.decoder.thread_list.length = k := by
      have := congrArg List.length hl
      simpa using this
    have hfind : SvgEmbDecoder.find_thread_index
        ({ s with path_element := true } :
          SvgEmbDecoder.svg_emb_thread_state Unit).decoder
        ⟨0, ((k / 256 : Nat) : Int), ((k % 256 : Nat) : Int)⟩ = -1 := by
      unfold SvgEmbDecoder.find_thread_index
      apply find_thread_loop_none
      intro t ht hm
      have ht1 : t ∈ s.decoder.thread_list := List.mem_of_mem_take ht
      have hg : (t.index, t.rgb.r, t.rgb.g, t.rgb.b) ∈
          s.decoder.thread_list.map (fun t => (t.index, t.rgb.r, t.rgb.g, t.rgb.b)) :=
        List.mem_map.2 ⟨t, ht1, rfl⟩
      rw [hl] at hg
      obtain ⟨j, hj, he⟩ := List.mem_map.1 hg
      have hjk : j < k := List.mem_range.1 hj
      unfold colour_entry at he
      simp only [Prod.mk.injEq] at he
      obtain ⟨-, -, e2, e3⟩ := he
      simp only [] at hm
      obtain ⟨-, m2, m3⟩ := hm
      rw [← e2] at m2
      rw [← e3] at m3
      omega
    obtain ⟨p1, p2, p3, c, p4, p5, p6⟩ := parse_color_new (stroke_value k)
      { s with path_element := true } _ (stroke_value_rgb k (by omega)) hfind
    rw [if_neg (by rw [p1]; exact Bool.noConfusion)]
    have hnext : thread_table
        (SvgEmbDecoder.parse_color (stroke_value k) { s with path_element := true }).1.decoder =
        (((k + 1 : Nat) : Int), (List.range (k + 1)).map colour_entry) := by
      unfold thread_table
      rw [p3, p6]
      simp only [hc, Int.toNat_ofNat]
      rw [List.take_of_length_le (le_of_eq hlen), List.map_append, hl, List.range_succ,
        List.map_append]
      simp only [List.map_cons, List.map_nil, Prod.mk.injEq]
      refine ⟨by push_cast; rfl, ?_⟩
      congr 1
      unfold colour_entry
      rw [p5]
      simp only [List.cons.injEq, Prod.mk.injEq, and_true]
      rw [p4, hc]
    have key := path_calls_table m (k + 1) _ (by omega) hnext
    have e : k + 1 + m = k + (m + 1) := by omega
    rw [e] at key
    exact key

/-- C38 fails: parse_color writes a colour that find_thread_index does not find after the
thread_count entries of the table and adds one to thread_count, whatever thread_count
is; it does not compare the index with PES_MAX_THREADS. On the text `many_colours`, with
257 `path` elements whose stroke colours all differ, the calls that the parser makes to
the callbacks of init_threads all return true and leave 257 threads, the last of them
written at index 256, beyond the 256 entries of the array. On the first three elements
of that text (72 characters) svg_emb_decoder_init returns the table that these calls
give. -/
theorem svg_emb_thread_table_overflow :
    (∀ (α : Type) (color : sax_token) (state : SvgEmbDecoder.svg_emb_thread_state α)
      (rgb : pec_rgb), SvgEmbDecoder.parse_rgb color = some rgb →
      SvgEmbDecoder.find_thread_index state.decoder rgb = -1 →
      (SvgEmbDecoder.parse_color color state).2 = true ∧
      (SvgEmbDecoder.parse_color color state).1.decoder.thread_count =
        state.decoder.thread_count + 1 ∧
      ∃ c : pec_thread, c.index = state.decoder.thread_count ∧ c.rgb = rgb ∧
        (SvgEmbDecoder.parse_color color state).1.decoder.thread_list =
          state.decoder.thread_list.take state.decoder.thread_count.toNat ++ [c]) ∧
    ((path_calls (List.range 257) (thread_start many_colours)).2 = true ∧
      thread_table (path_calls (List.range 257) (thread_start many_colours)).1.decoder =
        (257, (List.range 257).map colour_entry) ∧
      colour_entry 256 = (256, 0, 1, 0)) ∧
    ((SvgEmbDecoder.svg_emb_decoder_init unit_g_ops (many_colours.take 72) none ()).map
        thread_table =
      some (thread_table (path_calls (List.range 3)
        (thread_start (many_colours.take 72))).1.decoder) ∧
      thread_table (path_calls (List.range 3) (thread_start (many_colours.take 72))).1.decoder =
        (3, [(0, 0, 0, 0), (1, 0, 0, 1), (2, 0, 0, 2)])) := by
  refine ⟨fun α color state rgb hrgb hfind => ?_, ?_, ⟨by decide!, by decide!⟩⟩
  · obtain ⟨p1, -, p3, p4⟩ := parse_color_new color state rgb hrgb hfind
    exact ⟨p1, p3, p4⟩
  · have key := path_calls_table 257 0 (thread_start many_colours) (by omega) rfl
    rw [← List.range_eq_range'] at key
    exact ⟨key.1, key.2, by decide⟩

theorem svg_emb_thread_table_overflow_witness :
    SvgEmbDecoder.parse_rgb (stroke_value 256) = some ⟨0, 1, 0⟩ ∧
    SvgEmbDecoder.find_thread_index full_table_state.decoder ⟨0, 1, 0⟩ = -1 ∧
    full_table_state.decoder.thread_count = 256 ∧
    (SvgEmbDecoder.parse_color (stroke_value 256) full_table_state).2 = true ∧
    (SvgEmbDecoder.parse_color (stroke_value 256) full_table_state).1.decoder.thread_count =
      256 + 1 :=
  ⟨by decide, by decide!, rfl,
    (svg_emb_thread_table_overflow.1 Unit (stroke_value 256) full_table_state ⟨0, 1, 0⟩
      (by decide) (by decide!)).1,
    (svg_emb_thread_table_overflow.1 Unit (stroke_value 256) full_table_state ⟨0, 1, 0⟩
      (by decide) (by decide!)).2.1⟩

/-! ## The places of the tokens -/

theorem next_char_fields (t : sax_token) :
    (next_char t).index = (if t.cursor.getD 0 0 ≠ 0 then t.index + 1 else t.index) ∧
    (next_char t).row = (if t.cursor.getD 0 0 = 10 then t.row + 1 else t.row) ∧
    (next_char t).column = (if t.cursor.getD 0 0 = 10 then 1
      else if t.cursor.getD 0 0 ≠ 0 then t.column + 1 else t.column) := by
  unfold next_char
  by_cases h10 : t.cursor.getD 0 0 = 10
  · have h0 : t.cursor.getD 0 0 ≠ 0 := by rw [h10]; decide
    simp only [if_pos h10, if_pos h0]
    split_ifs <;> exact ⟨rfl, rfl, rfl⟩
  · by_cases h0 : t.cursor.getD 0 0 ≠ 0
    · simp only [if_neg h10, if_pos h0]
      split_ifs <;> exact ⟨rfl, rfl, rfl⟩
    · simp only [if_neg h10, if_neg h0]
      split_ifs <;> exact ⟨rfl, rfl, rfl⟩

theorem row_at_succ (text : List Byte) (i : Nat) (c : Byte) (h : text[i]? = some c) :
    row_at text (i + 1) = row_at text i + (if c = 10 then 1 else 0) := by
  unfold row_at
  rw [List.take_succ, h]
  simp only [Option.toList_some, List.filter_append, List.length_append]
  by_cases hc : c = 10
  · simp [hc]
    omega
  · simp [hc]

theorem column_at_succ (text : List Byte) (i : Nat) (c : Byte) (h : text[i]? = some c) :
    column_at text (i + 1) = (if c = 10 then 1 else column_at text i + 1) := by
  unfold column_at
  rw [List.take_succ, h]
  simp only [Option.toList_some, List.reverse_append, List.reverse_cons, List.reverse_nil,
    List.nil_append, List.singleton_append]
  by_cases hc : c = 10
  · simp [hc]
  · simp [hc]
    omega

/-- The cursor of a token that stands in a text at a character that is not the NUL. -/
theorem placed_cursor (text : List Byte) (t : sax_token) (h : placed_in text t)
    (h0 : t.cursor.getD 0 0 ≠ 0) :
    text[t.index]? = some (t.cursor.getD 0 0) ∧ t.index < text.length ∧
    t.cursor.tail = text.drop (t.index + 1) ∧ text.getD t.index 0 = t.cursor.getD 0 0 := by
  obtain ⟨h1, h2, -, -⟩ := h
  have hlt : t.index < text.length := by
    by_contra hge
    rw [h2, List.drop_eq_nil_of_le (by omega)] at h0
    exact h0 rfl
  have hd : text.drop t.index = text[t.index] :: text.drop (t.index + 1) :=
    List.drop_eq_getElem_cons hlt
  rw [h2, hd]
  simp only [List.getD_cons_zero, List.tail_cons]
  refine ⟨List.getElem?_eq_getElem hlt, hlt, trivial, ?_⟩
  rw [List.getD_eq_getElem?_getD, List.getElem?_eq_getElem hlt]
  rfl

theorem next_char_placed (text : List Byte) (t : sax_token) (h : placed_in text t) :
    placed_in text (next_char t) := by
  obtain ⟨f1, f2, f3⟩ := next_char_fields t
  have fc := next_char_cursor t
  by_cases h0 : t.cursor.getD 0 0 ≠ 0
  · obtain ⟨g1, g2, g3, -⟩ := placed_cursor text t h h0
    rw [if_pos h0] at f1 fc
    obtain ⟨-, -, k3, k4⟩ := h
    refine ⟨by rw [f1]; omega, by rw [fc, f1]; exact g3, ?_, ?_⟩
    · rw [f2, f1, row_at_succ text t.index _ g1, k3]
      split_ifs <;> rfl
    · rw [f3, f1, column_at_succ text t.index _ g1, k4, if_pos h0]
  · rw [if_neg h0] at f1 fc
    have h00 : t.cursor.getD 0 0 = 0 := by simpa using h0
    have h10 : t.cursor.getD 0 0 ≠ 10 := by rw [h00]; decide
    rw [if_neg h10] at f2
    rw [if_neg h10, if_neg h0] at f3
    obtain ⟨k1, k2, k3, k4⟩ := h
    exact ⟨by rw [f1]; exact k1, by rw [fc, f1]; exact k2, by rw [f2, f1]; exact k3,
      by rw [f3, f1]; exact k4⟩

theorem next_char_index_le (t : sax_token) : t.index ≤ (next_char t).index := by
  rw [(next_char_fields t).1]
  split_ifs <;> omega

theorem next_char_index (t : sax_token) (h : t.cursor.getD 0 0 ≠ 0) :
    (next_char t).index = t.index + 1 := by
  rw [(next_char_fields t).1, if_pos h]

/-- The loop advance_while on a token that stands in the text: it stops on the first
character that does not satisfy `p`, and has counted the characters before it. -/
theorem advance_while_placed (text : List Byte) (p : Byte → Bool) (hp : p 0 = false) :
    ∀ (fuel : Nat) (t : sax_token) (n : Nat), t.cursor.length ≤ fuel → placed_in text t →
      placed_in text (advance_while p fuel t n).1 ∧
      (advance_while p fuel t n).1.index = t.index + (t.cursor.takeWhile p).length ∧
      (advance_while p fuel t n).2 = n + (t.cursor.takeWhile p).length ∧
      p ((advance_while p fuel t n).1.cursor.getD 0 0) = false
  | 0, t, n, hf, h => by
    have hnil : t.cursor = [] := List.length_eq_zero.1 (by omega)
    unfold advance_while
    rw [hnil]
    exact ⟨h, rfl, rfl, hp⟩
  | fuel + 1, t, n, hf, h => by
    unfold advance_while
    by_cases hc : p (t.cursor.getD 0 0) = true
    · rw [if_pos hc]
      have h0 : t.cursor.getD 0 0 ≠ 0 := by
        intro h00
        rw [h00, hp] at hc
        exact Bool.noConfusion hc
      have hcur := next_char_cursor t
      rw [if_pos h0] at hcur
      have hidx := next_char_index t h0
      cases hl : t.cursor with
      | nil => rw [hl] at h0; exact absurd rfl h0
      | cons a rest =>
        rw [hl] at hc hcur hf
        simp only [List.getD_cons_zero, List.tail_cons] at hc hcur
        have ih := advance_while_placed text p hp fuel (next_char t) (n + 1)
          (by rw [hcur]; simp only [List.length_cons] at hf; omega)
          (next_char_placed text t h)
        rw [hcur, hidx] at ih
        rw [List.takeWhile_cons, if_pos hc, List.length_cons]
        refine ⟨ih.1, ?_, ?_, ih.2.2.2⟩
        · rw [ih.2.1]; omega
        · rw [ih.2.2.1]; omega
    · rw [if_neg hc]
      have hf2 : p (t.cursor.getD 0 0) = false := by simpa using hc
      have htw : t.cursor.takeWhile p = [] := by
        cases hl : t.cursor with
        | nil => rfl
        | cons a rest =>
          rw [hl] at hf2
          simp only [List.getD_cons_zero] at hf2
          rw [List.takeWhile_cons, hf2]
          rfl
      rw [htw]
      exact ⟨h, rfl, rfl, hf2⟩

theorem valid_name_char_zero : valid_name_char 0 = false := by decide

theorem isspace_zero : isspace 0 = false := by decide

/-- The name that parse_name reads from a token that stands in the text. -/
theorem parse_name_placed (text : List Byte) (t : sax_token) (h : placed_in text t) :
    token_at text valid_name_char (parse_name t).1 = true ∧
    (parse_name t).1.index = t.index ∧
    placed_in text (parse_name t).2 ∧
    (parse_name t).2.index = t.index + (parse_name t).1.length := by
  obtain ⟨a1, a2, a3, -⟩ :=
    advance_while_placed text valid_name_char valid_name_char_zero t.cursor.length t 0
      (le_refl _) h
  unfold parse_name
  simp only []
  refine ⟨?_, trivial, a1, ?_⟩
  · unfold token_at
    simp only [Bool.and_eq_true, decide_eq_true_eq]
    obtain ⟨k1, k2, k3, k4⟩ := h
    refine ⟨⟨⟨⟨k1, k2⟩, k3⟩, k4⟩, ?_⟩
    rw [a3, ← k2]
    omega
  · rw [a2, a3]
    omega

theorem skip_space_placed (text : List Byte) (t : sax_token) (h : placed_in text t) :
    placed_in text (skip_space t) ∧ t.index ≤ (skip_space t).index := by
  obtain ⟨a1, a2, -, -⟩ :=
    advance_while_placed text isspace isspace_zero t.cursor.length t 0 (le_refl _) h
  unfold skip_space
  exact ⟨a1, by rw [a2]; omega⟩

theorem document_order_append (text : List Byte) :
    ∀ (A B : List sax_event) (lo : Nat) (last : Option sax_token),
      document_order text lo last (A ++ B) =
        (document_order text lo last A).bind (fun s => document_order text s.1 s.2 B)
  | [], B, lo, last => rfl
  | sax_event.opening e :: A, B, lo, last => by
    simp only [List.cons_append, document_order]
    split_ifs
    · exact document_order_append text A B _ _
    · rfl
  | sax_event.attr a v :: A, B, lo, last => by
    simp only [List.cons_append, document_order]
    split_ifs
    · exact document_order_append text A B _ _
    · rfl
  | sax_event.closing e :: A, B, lo, last => by
    simp only [List.cons_append, document_order]
    split_ifs
    · exact document_order_append text A B _ _
    · exact document_order_append text A B _ _
    · rfl
  | sax_event.error e m :: A, B, lo, last => by
    simp only [List.cons_append, document_order]
    exact document_order_append text A B _ _

/-- The order of two runs one after the other. -/
theorem document_order_chain (text : List Byte) (A B : List sax_event) (lo mid : Nat)
    (last last1 : Option sax_token) (bound : Nat)
    (hA : ∃ lo1, document_order text lo last A = some (lo1, last1) ∧ lo1 ≤ mid)
    (hB : ∀ lo1, lo1 ≤ mid →
      ∃ lo2 last2, document_order text lo1 last1 B = some (lo2, last2) ∧ lo2 ≤ bound) :
    ∃ lo2 last2, document_order text lo last (A ++ B) = some (lo2, last2) ∧ lo2 ≤ bound := by
  obtain ⟨lo1, h1, h2⟩ := hA
  rw [document_order_append, h1]
  exact hB lo1 h2

/-- The value that parse_attribute_value reads from a token that stands in the text
right after the quote `q`. -/
theorem parse_attribute_value_placed (text : List Byte) (t : sax_token) (q : Byte)
    (h : placed_in text t) (hq : text.getD (t.index - 1) 0 = q) :
    token_at text (value_char text (parse_attribute_value t q).1.index)
      (parse_attribute_value t q).1 = true ∧
    (parse_attribute_value t q).1.index = t.index ∧
    placed_in text (parse_attribute_value t q).2 ∧
    (parse_attribute_value t q).2.index = t.index + (parse_attribute_value t q).1.length := by
  obtain ⟨a1, a2, a3, -⟩ :=
    advance_while_placed text (fun c => decide (c ≠ 0) && decide (c ≠ q)) (by simp)
      t.cursor.length t 0 (le_refl _) h
  unfold parse_attribute_value
  simp only []
  refine ⟨?_, trivial, a1, ?_⟩
  · unfold token_at value_char
    simp only [Bool.and_eq_true, decide_eq_true_eq]
    obtain ⟨k1, k2, k3, k4⟩ := h
    refine ⟨⟨⟨⟨k1, k2⟩, k3⟩, k4⟩, ?_⟩
    rw [a3, ← k2, hq]
    omega
  · rw [a2, a3]
    omega

theorem document_order_attr (text : List Byte) (lo : Nat) (last : Option sax_token)
    (a v : sax_token)
    (h : lo ≤ a.index ∧ token_at text valid_name_char a = true ∧
      text.getD (a.index + a.length) 0 = 61 ∧ v.index = a.index + a.length + 2 ∧
      token_at text (value_char text v.index) v = true) :
    document_order text lo last [sax_event.attr a v] =
      some (v.index + v.length + 1, last) := by
  simp only [document_order]
  rw [if_pos h]

theorem document_order_error (text : List Byte) (lo : Nat) (last : Option sax_token)
    (e : sax_token) (m : String) :
    document_order text lo last [sax_event.error e m] = some (lo, last) := rfl

/-- The run of parse_attribute from a token that stands in the text: its event is in
the order of the document and the run stops at a token that stands in the text. -/
theorem attribute_run_order (text : List Byte) (t : sax_token) (h : placed_in text t)
    (lo : Nat) (last : Option sax_token) (hlo : lo ≤ t.index) :
    placed_in text (attribute_run t).c ∧ t.index ≤ (attribute_run t).c.index ∧
    ∃ lo1, document_order text lo last (attribute_run t).arg = some (lo1, last) ∧
      lo1 ≤ (attribute_run t).c.index := by
  obtain ⟨n1, n2, n3, n4⟩ := parse_name_placed text t h
  unfold attribute_run parse_attribute
  simp only []
  generalize (parse_name t).1 = name at n1 n2 n4 ⊢
  generalize (parse_name t).2 = p1 at n3 n4 ⊢
  by_cases h1 : p1.cursor.getD 0 0 ≠ 61
  · simp only [if_pos h1, parse_error_record, List.nil_append]
    exact ⟨n3, by omega, lo, document_order_error text lo last _ _, by omega⟩
  · simp only [if_neg h1]
    have h61 : p1.cursor.getD 0 0 = 61 := by simpa using h1
    have h0 : p1.cursor.getD 0 0 ≠ 0 := by rw [h61]; decide
    have p2 := next_char_placed text _ n3
    have i2 := next_char_index _ h0
    have c1 := (placed_cursor text _ n3 h0).2.2.2
    rw [h61] at c1
    generalize next_char p1 = t2 at p2 i2 ⊢
    by_cases h2 : t2.cursor.getD 0 0 ≠ 39 ∧ t2.cursor.getD 0 0 ≠ 34
    · simp only [if_pos h2, parse_error_record, List.nil_append]
      exact ⟨p2, by omega, lo, document_order_error text lo last _ _, by omega⟩
    · simp only [if_neg h2]
      have hq0 : t2.cursor.getD 0 0 ≠ 0 := by
        intro h00
        rw [h00] at h2
        exact h2 ⟨by decide, by decide⟩
      have p3 := next_char_placed text _ p2
      have i3 := next_char_index _ hq0
      have c2 := (placed_cursor text _ p2 hq0).2.2.2
      generalize next_char t2 = t3 at p3 i3 ⊢
      generalize t2.cursor.getD 0 0 = q at hq0 c2 ⊢
      have hq : text.getD (t3.index - 1) 0 = q := by
        rw [i3, Nat.add_sub_cancel]
        exact c2
      obtain ⟨v1, v2, v3, v4⟩ := parse_attribute_value_placed text _ _ p3 hq
      generalize (parse_attribute_value t3 q).1 = value at v1 v2 v4 ⊢
      generalize (parse_attribute_value t3 q).2 = p4 at v3 v4 ⊢
      by_cases h3 : p4.cursor.getD 0 0 ≠ q
      · simp only [if_pos h3, parse_error_record, List.nil_append]
        exact ⟨v3, by omega, lo, document_order_error text lo last _ _, by omega⟩
      · simp only [if_neg h3, record_attribute, List.nil_append]
        have h4 : p4.cursor.getD 0 0 ≠ 0 := by
          have : p4.cursor.getD 0 0 = q := by simpa using h3
          rw [this]
          exact hq0
        have p5 := next_char_placed text _ v3
        have i5 := next_char_index _ h4
        refine ⟨p5, by omega, ?_⟩
        have hcond : lo ≤ name.index ∧ token_at text valid_name_char name = true ∧
            text.getD (name.index + name.length) 0 = 61 ∧
            value.index = name.index + name.length + 2 ∧
            token_at text (value_char text value.index) value = true := by
          refine ⟨by omega, n1, ?_, by omega, v1⟩
          rw [n2, ← n4]
          exact c1
        exact ⟨_, document_order_attr text lo last _ _ hcond, by omega⟩

/-- The run of the loop of parse_attribute_list from a token that stands in the text:
its events are in the order of the document and leave the last opening token as it
is. -/
theorem attribute_list_run_order (text : List Byte) :
    ∀ (fuel : Nat) (t : sax_token), placed_in text t →
      ∀ (lo : Nat) (last : Option sax_token), lo ≤ t.index →
        placed_in text (attribute_list_run fuel t).c ∧
        t.index ≤ (attribute_list_run fuel t).c.index ∧
        ∃ lo1, document_order text lo last (attribute_list_run fuel t).arg =
            some (lo1, last) ∧
          lo1 ≤ (attribute_list_run fuel t).c.index
  | 0, t, h, lo, last, hlo => by
    rw [attribute_list_run_zero]
    exact ⟨h, le_refl _, lo, rfl, hlo⟩
  | fuel + 1, t, h, lo, last, hlo => by
    rw [attribute_list_run_succ]
    obtain ⟨s1, s2⟩ := skip_space_placed text t h
    generalize skip_space t = t1 at s1 s2 ⊢
    by_cases hend : t1.cursor.getD 0 0 = 47 ∨ t1.cursor.getD 0 0 = 62
    · rw [if_pos hend]
      exact ⟨s1, s2, lo, rfl, le_trans hlo s2⟩
    · rw [if_neg hend]
      obtain ⟨a1, a2, lo1, a3, a4⟩ := attribute_run_order text t1 s1 lo last (by omega)
      by_cases hv : (attribute_run t1).valid = true
      · rw [if_pos hv]
        obtain ⟨b1, b2, lo2, b3, b4⟩ :=
          attribute_list_run_order text fuel (attribute_run t1).c a1 lo1 last a4
        refine ⟨b1, le_trans s2 (le_trans a2 b2), lo2, ?_, b4⟩
        show document_order text lo last ((attribute_run t1).arg ++
          (attribute_list_run fuel (attribute_run t1).c).arg) = some (lo2, last)
        rw [document_order_append, a3]
        exact b3
      · rw [if_neg hv]
        exact ⟨a1, le_trans s2 a2, lo1, a3, a4⟩

theorem document_order_opening (text : List Byte) (lo : Nat) (last : Option sax_token)
    (e : sax_token) (rest : List sax_event)
    (h : lo < e.index ∧ text.getD (e.index - 1) 0 = 60 ∧
      token_at text valid_name_char e = true) :
    document_order text lo last (sax_event.opening e :: rest) =
      document_order text (e.index + e.length) (some e) rest := by
  simp only [document_order]
  rw [if_pos h]

/-- The end of a tag that closes itself, after the attribute events: the closing event
has the token of the opening event. -/
theorem document_order_self_closing (text : List Byte) (lo : Nat) (name : sax_token)
    (level : Int) (E : List sax_event)
    (hE : E = [] ∨ ∃ e m, E = [sax_event.error e m]) :
    ∃ last2, document_order text lo (some name)
      ((if 0 < level + 1 then [sax_event.closing name] else []) ++ E) = some (lo, last2) := by
  by_cases hl : 0 < level + 1
  · rw [if_pos hl]
    simp only [List.singleton_append, document_order, if_true]
    rcases hE with hE | ⟨e, m, hE⟩
    · rw [hE]
      exact ⟨none, rfl⟩
    · rw [hE]
      exact ⟨none, rfl⟩
  · rw [if_neg hl, List.nil_append]
    rcases hE with hE | ⟨e, m, hE⟩
    · rw [hE]
      exact ⟨some name, rfl⟩
    · rw [hE]
      exact ⟨some name, rfl⟩

/-- The outcome of parse_element_opening, from a name at its place and a run of the
attribute loop in the order of the document: the events of the tag are in the order of
the document. -/
theorem opening_outcome_order (text : List Byte) (name : sax_token)
    (run : parsed (List sax_event)) (level : Int) (lo : Nat) (last : Option sax_token)
    (hname : lo < name.index ∧ text.getD (name.index - 1) 0 = 60 ∧
      token_at text valid_name_char name = true)
    (hc : placed_in text run.c) (hi : name.index + name.length ≤ run.c.index)
    (hrun : ∃ lo1, document_order text (name.index + name.length) (some name) run.arg =
      some (lo1, some name) ∧ lo1 ≤ run.c.index) :
    placed_in text (opening_outcome name run level).c ∧
    name.index ≤ (opening_outcome name run level).c.index ∧
    ∃ lo2 last2, document_order text lo last (opening_outcome name run level).arg =
        some (lo2, last2) ∧
      lo2 ≤ (opening_outcome name run level).c.index := by
  obtain ⟨lo1, r1, r2⟩ := hrun
  have n1 := next_char_placed text run.c hc
  have n2 := next_char_index_le run.c
  have n3 := next_char_placed text _ n1
  have n4 := next_char_index_le (next_char run.c)
  unfold opening_outcome
  generalize next_char (next_char run.c) = c2 at n3 n4 ⊢
  generalize next_char run.c = c1 at n1 n2 n3 n4 ⊢
  have b0 : name.index ≤ run.c.index := le_trans (Nat.le_add_right _ _) hi
  have b1 : name.index ≤ c1.index := le_trans b0 n2
  have b2 : name.index ≤ c2.index := le_trans b1 n4
  have d1 : lo1 ≤ c1.index := le_trans r2 n2
  have d2 : lo1 ≤ c2.index := le_trans d1 n4
  by_cases h1 : run.valid = false
  · rw [if_pos h1]
    refine ⟨hc, b0, lo1, some name, ?_, r2⟩
    show document_order text lo last (sax_event.opening name :: run.arg) = _
    rw [document_order_opening text lo last name _ hname]
    exact r1
  · rw [if_neg h1]
    by_cases h2 : run.c.cursor.getD 0 0 = 47
    · rw [if_pos h2]
      by_cases h3 : c1.cursor.getD 0 0 ≠ 62
      · rw [if_pos h3]
        obtain ⟨last2, hs⟩ := document_order_self_closing text lo1 name level
          [sax_event.error c1 "Expected \x27>\x27"] (Or.inr ⟨_, _, rfl⟩)
        refine ⟨n1, b1, lo1, last2, ?_, d1⟩
        show document_order text lo last (sax_event.opening name :: (run.arg ++ _)) = _
        rw [document_order_opening text lo last name _ hname, document_order_append, r1]
        exact hs
      · rw [if_neg h3]
        obtain ⟨last2, hs⟩ := document_order_self_closing text lo1 name level [] (Or.inl rfl)
        rw [List.append_nil] at hs
        refine ⟨n3, b2, lo1, last2, ?_, d2⟩
        show document_order text lo last (sax_event.opening name :: (run.arg ++ _)) = _
        rw [document_order_opening text lo last name _ hname, document_order_append, r1]
        exact hs
    · rw [if_neg h2]
      by_cases h3 : run.c.cursor.getD 0 0 ≠ 62
      · rw [if_pos h3]
        refine ⟨hc, b0, lo1, some name, ?_, r2⟩
        show document_order text lo last (sax_event.opening name :: (run.arg ++ _)) = _
        rw [document_order_opening text lo last name _ hname, document_order_append, r1]
        rfl
      · rw [if_neg h3]
        refine ⟨n1, b1, lo1, some name, ?_, d1⟩
        show document_order text lo last (sax_event.opening name :: run.arg) = _
        rw [document_order_opening text lo last name _ hname]
        exact r1

/-- The run of parse_element_opening from the token right after a `<`. -/
theorem opening_run_order (text : List Byte) (t : sax_token) (level : Int)
    (h : placed_in text t) (lo : Nat) (last : Option sax_token)
    (hlo : lo < t.index) (hlt : text.getD (t.index - 1) 0 = 60) :
    placed_in text (opening_run t level).c ∧ t.index ≤ (opening_run t level).c.index ∧
    ∃ lo2 last2, document_order text lo last (opening_run t level).arg = some (lo2, last2) ∧
      lo2 ≤ (opening_run t level).c.index := by
  rw [opening_run_outcome]
  obtain ⟨n1, n2, n3, n4⟩ := parse_name_placed text t h
  unfold opening_attributes
  obtain ⟨a1, a2, a3⟩ := attribute_list_run_order text ((parse_name t).2.cursor.length + 1)
    (parse_name t).2 n3 ((parse_name t).1.index + (parse_name t).1.length)
    (some (parse_name t).1) (by rw [n4, n2])
  generalize attribute_list_run ((parse_name t).2.cursor.length + 1) (parse_name t).2 = run
    at a1 a2 a3 ⊢
  generalize (parse_name t).2 = p1 at n3 n4 a2 ⊢
  generalize (parse_name t).1 = name at n1 n2 n4 a3 ⊢
  have key := opening_outcome_order text name run level lo last
    ⟨by rw [n2]; exact hlo, by rw [n2]; exact hlt, n1⟩ a1 (by rw [n2, ← n4]; exact a2) a3
  rw [n2] at key
  exact key

theorem document_order_closing (text : List Byte) (lo : Nat) (last : Option sax_token)
    (e : sax_token)
    (h : lo + 2 ≤ e.index ∧ text.getD (e.index - 2) 0 = 60 ∧
      text.getD (e.index - 1) 0 = 47 ∧ token_at text valid_name_char e = true) :
    ∃ lo2, document_order text lo last [sax_event.closing e] = some (lo2, none) ∧
      lo2 ≤ e.index + e.length := by
  simp only [document_order]
  by_cases hl : last = some e
  · rw [if_pos hl]
    exact ⟨lo, rfl, by omega⟩
  · rw [if_neg hl, if_pos h]
    exact ⟨_, rfl, le_refl _⟩

/-- The run of parse_element_closing from the token right after `</`: the closing event
has the name that stands there. -/
theorem closing_run_order (text : List Byte) (t : sax_token) (level : Int)
    (h : placed_in text t) (lo : Nat) (last : Option sax_token)
    (hlo : lo + 2 ≤ t.index) (hlt : text.getD (t.index - 2) 0 = 60)
    (hsl : text.getD (t.index - 1) 0 = 47) :
    placed_in text (closing_run t level).c ∧ t.index ≤ (closing_run t level).c.index ∧
    ∃ lo2 last2, document_order text lo last (closing_run t level).arg = some (lo2, last2) ∧
      lo2 ≤ (closing_run t level).c.index := by
  rw [closing_run_eq]
  obtain ⟨n1, n2, n3, n4⟩ := parse_name_placed text t h
  obtain ⟨s1, s2⟩ := skip_space_placed text _ n3
  have x1 := next_char_placed text _ s1
  have x2 := next_char_index_le (skip_space (parse_name t).2)
  generalize next_char (skip_space (parse_name t).2) = c1 at x1 x2 ⊢
  generalize skip_space (parse_name t).2 = c at s1 s2 x2 ⊢
  generalize (parse_name t).2 = p1 at n3 n4 s2 ⊢
  generalize (parse_name t).1 = name at n1 n2 n4 ⊢
  have b0 : t.index ≤ c.index := by omega
  have b1 : t.index ≤ c1.index := by omega
  by_cases hb : c.cursor.getD 0 0 ≠ 62
  · rw [if_pos hb]
    exact ⟨s1, b0, lo, last, rfl, by simp only []; omega⟩
  · rw [if_neg hb]
    refine ⟨x1, b1, ?_⟩
    simp only []
    by_cases hl : 0 < level
    · rw [if_pos hl]
      obtain ⟨lo2, k1, k2⟩ := document_order_closing text lo last name
        ⟨by rw [n2]; exact hlo, by rw [n2]; exact hlt, by rw [n2]; exact hsl, n1⟩
      exact ⟨lo2, none, k1, by omega⟩
    · rw [if_neg hl]
      exact ⟨lo, last, rfl, by omega⟩

theorem seek_placed (text : List Byte) (hit : sax_token → Bool) :
    ∀ (fuel : Nat) (t : sax_token), placed_in text t →
      placed_in text (seek hit fuel t).1 ∧ t.index ≤ (seek hit fuel t).1.index
  | 0, t, h => ⟨h, le_refl _⟩
  | fuel + 1, t, h => by
    unfold seek
    split_ifs
    · exact ⟨h, le_refl _⟩
    · obtain ⟨k1, k2⟩ := seek_placed text hit fuel (next_char t) (next_char_placed text t h)
      exact ⟨k1, le_trans (next_char_index_le t) k2⟩
    · exact ⟨h, le_refl _⟩

/-- The events of a tag that is not an element: none, or one error event; they are in
the order of the document wherever they stand. -/
theorem document_order_quiet (text : List Byte) (lo : Nat) (last : Option sax_token)
    (E : List sax_event) (hE : E = [] ∨ ∃ e m, E = [sax_event.error e m]) :
    document_order text lo last E = some (lo, last) := by
  rcases hE with hE | ⟨e, m, hE⟩
  · rw [hE]
    rfl
  · rw [hE]
    rfl

theorem parse_comment_placed (text : List Byte) (t : sax_token) (h : placed_in text t) :
    placed_in text (parse_comment t (some record_error) []).c ∧
    t.index ≤ (parse_comment t (some record_error) []).c.index ∧
    ((parse_comment t (some record_error) []).arg = [] ∨
      ∃ e m, (parse_comment t (some record_error) []).arg = [sax_event.error e m]) := by
  unfold parse_comment
  simp only []
  obtain ⟨s1, s2⟩ := seek_placed text (fun t => decide (t.cursor.getD 0 0 = 45 ∧
    t.cursor.getD 1 0 = 45 ∧ t.cursor.getD 2 0 = 62)) t.cursor.length t h
  generalize seek (fun t => decide (t.cursor.getD 0 0 = 45 ∧
    t.cursor.getD 1 0 = 45 ∧ t.cursor.getD 2 0 = 62)) t.cursor.length t = found at s1 s2 ⊢
  by_cases hf : found.2 = true
  · simp only [if_pos hf]
    have a1 := next_char_placed text _ s1
    have a2 := next_char_placed text _ a1
    have a3 := next_char_placed text _ a2
    have b1 := next_char_index_le found.1
    have b2 := next_char_index_le (next_char found.1)
    have b3 := next_char_index_le (next_char (next_char found.1))
    exact ⟨a3, le_trans s2 (le_trans b1 (le_trans b2 b3)), Or.inl trivial⟩
  · simp only [if_neg hf, parse_error_record, List.nil_append]
    exact ⟨s1, s2, Or.inr ⟨_, _, rfl⟩⟩

theorem parse_declaration_placed (text : List Byte) (t : sax_token) (h : placed_in text t) :
    placed_in text (parse_declaration t (some record_error) []).c ∧
    t.index ≤ (parse_declaration t (some record_error) []).c.index ∧
    ((parse_declaration t (some record_error) []).arg = [] ∨
      ∃ e m, (parse_declaration t (some record_error) []).arg = [sax_event.error e m]) := by
  unfold parse_declaration
  simp only []
  obtain ⟨s1, s2⟩ := seek_placed text (fun t => decide (t.cursor.getD 0 0 = 62))
    t.cursor.length t h
  generalize seek (fun t => decide (t.cursor.getD 0 0 = 62)) t.cursor.length t = found
    at s1 s2 ⊢
  by_cases hf : found.2 = true
  · simp only [if_pos hf]
    have a1 := next_char_placed text _ s1
    have b1 := next_char_index_le found.1
    exact ⟨a1, le_trans s2 b1, Or.inl trivial⟩
  · simp only [if_neg hf, parse_error_record, List.nil_append]
    exact ⟨s1, s2, Or.inr ⟨_, _, rfl⟩⟩

theorem parse_processing_placed (text : List Byte) (t : sax_token) (h : placed_in text t) :
    placed_in text (parse_processing t (some record_error) []).c ∧
    t.index ≤ (parse_processing t (some record_error) []).c.index ∧
    ((parse_processing t (some record_error) []).arg = [] ∨
      ∃ e m, (parse_processing t (some record_error) []).arg = [sax_event.error e m]) := by
  unfold parse_processing
  simp only []
  obtain ⟨s1, s2⟩ := seek_placed text (fun t => decide (t.cursor.getD 0 0 = 63 ∧
    t.cursor.getD 1 0 = 62)) t.cursor.length t h
  generalize seek (fun t => decide (t.cursor.getD 0 0 = 63 ∧
    t.cursor.getD 1 0 = 62)) t.cursor.length t = found at s1 s2 ⊢
  by_cases hf : found.2 = true
  · simp only [if_pos hf]
    have a1 := next_char_placed text _ s1
    have a2 := next_char_placed text _ a1
    have b1 := next_char_index_le found.1
    have b2 := next_char_index_le (next_char found.1)
    exact ⟨a2, le_trans s2 (le_trans b1 b2), Or.inl trivial⟩
  · simp only [if_neg hf, parse_error_record, List.nil_append]
    exact ⟨s1, s2, Or.inr ⟨_, _, rfl⟩⟩

/-- A tag that is not an element, at a level. -/
theorem at_level_order (text : List Byte) (p : parsed (List sax_event)) (level : Int)
    (t : sax_token) (lo : Nat) (last : Option sax_token) (hlo : lo ≤ t.index)
    (h : placed_in text p.c ∧ t.index ≤ p.c.index ∧
      (p.arg = [] ∨ ∃ e m, p.arg = [sax_event.error e m])) :
    placed_in text (p.at_level level).c ∧ t.index ≤ (p.at_level level).c.index ∧
    ∃ lo2 last2, document_order text lo last (p.at_level level).arg = some (lo2, last2) ∧
      lo2 ≤ (p.at_level level).c.index :=
  ⟨h.1, h.2.1, lo, last, document_order_quiet text lo last _ h.2.2, le_trans hlo h.2.1⟩

/-- The run of parse_element from the token right after a `<`: the events of the tag are
in the order of the document. -/
theorem element_run_order (text : List Byte) (t : sax_token) (level : Int)
    (h : placed_in text t) (lo : Nat) (last : Option sax_token)
    (hlo : lo < t.index) (hlt : text.getD (t.index - 1) 0 = 60) :
    placed_in text (element_run t level).c ∧ t.index ≤ (element_run t level).c.index ∧
    ∃ lo2 last2, document_order text lo last (element_run t level).arg = some (lo2, last2) ∧
      lo2 ≤ (element_run t level).c.index := by
  rw [element_run_eq]
  have p1 := next_char_placed text t h
  have i1 := next_char_index_le t
  by_cases h47 : t.cursor.getD 0 0 = 47
  · rw [if_pos h47]
    have h0 : t.cursor.getD 0 0 ≠ 0 := by rw [h47]; decide
    have ix := next_char_index t h0
    have cx := (placed_cursor text t h h0).2.2.2
    rw [h47] at cx
    obtain ⟨k1, k2, k3⟩ := closing_run_order text (next_char t) level p1 lo last
      (by omega)
      (by
        rw [ix]
        have e : t.index + 1 - 2 = t.index - 1 := by omega
        rw [e]
        exact hlt)
      (by rw [ix, Nat.add_sub_cancel]; exact cx)
    exact ⟨k1, le_trans i1 k2, k3⟩
  · rw [if_neg h47]
    by_cases h33 : t.cursor.getD 0 0 = 33
    · rw [if_pos h33]
      by_cases hcm : (next_char t).cursor.getD 0 0 = 45 ∧ (next_char t).cursor.getD 1 0 = 45
      · rw [if_pos hcm]
        have p2 := next_char_placed text _ p1
        have i2 := next_char_index_le (next_char t)
        have p3 := next_char_placed text _ p2
        have i3 := next_char_index_le (next_char (next_char t))
        obtain ⟨k1, k2, k3⟩ := parse_comment_placed text _ p3
        exact at_level_order text _ level t lo last (le_of_lt hlo)
          ⟨k1, le_trans i1 (le_trans i2 (le_trans i3 k2)), k3⟩
      · rw [if_neg hcm]
        obtain ⟨k1, k2, k3⟩ := parse_declaration_placed text _ p1
        exact at_level_order text _ level t lo last (le_of_lt hlo)
          ⟨k1, le_trans i1 k2, k3⟩
    · rw [if_neg h33]
      by_cases h63 : t.cursor.getD 0 0 = 63
      · rw [if_pos h63]
        obtain ⟨k1, k2, k3⟩ := parse_processing_placed text _ p1
        exact at_level_order text _ level t lo last (le_of_lt hlo)
          ⟨k1, le_trans i1 k2, k3⟩
      · rw [if_neg h63]
        exact opening_run_order text t level h lo last hlo hlt

/-- The run of the loop of parse_children from a token that stands in the text: its
events are in the order of the document. -/
theorem children_run_order (text : List Byte) :
    ∀ (fuel : Nat) (t : sax_token) (level count : Int), placed_in text t →
      ∀ (lo : Nat) (last : Option sax_token), lo ≤ t.index →
        ∃ lo2 last2, document_order text lo last (children_run fuel t level count).arg =
          some (lo2, last2)
  | 0, t, level, count, h, lo, last, hlo => by
    rw [children_run_zero]
    exact ⟨lo, last, rfl⟩
  | fuel + 1, t, level, count, h, lo, last, hlo => by
    rw [children_run_succ]
    by_cases hgo : t.cursor.getD 0 0 ≠ 0 ∧ (count = 0 ∨ 0 ≤ level)
    · rw [if_pos hgo]
      have p1 := next_char_placed text t h
      have ix := next_char_index t hgo.1
      by_cases h60 : t.cursor.getD 0 0 = 60
      · rw [if_pos h60]
        have cx := (placed_cursor text t h hgo.1).2.2.2
        rw [h60] at cx
        obtain ⟨k1, k2, lo1, last1, k3, k4⟩ := element_run_order text (next_char t) level p1
          lo last (by omega) (by rw [ix, Nat.add_sub_cancel]; exact cx)
        by_cases hv : (element_run (next_char t) level).valid = false
        · rw [if_pos hv]
          exact ⟨lo1, last1, k3⟩
        · rw [if_neg hv]
          obtain ⟨lo2, last2, k5⟩ := children_run_order text fuel
            (element_run (next_char t) level).c (element_run (next_char t) level).level
            (count + 1) k1 lo1 last1 k4
          refine ⟨lo2, last2, ?_⟩
          show document_order text lo last ((element_run (next_char t) level).arg ++ _) = _
          rw [document_order_append, k3]
          exact k5
      · rw [if_neg h60]
        by_cases hsp : isspace (t.cursor.getD 0 0) = true
        · rw [if_pos hsp]
          exact children_run_order text fuel (next_char t) level count p1 lo last (by omega)
        · rw [if_neg hsp]
          exact ⟨lo, last, rfl⟩
    · rw [if_neg hgo]
      exact ⟨lo, last, rfl⟩

/-- The events of sax_parse_text on the recording callbacks are in the order of the
document, for every text. -/
theorem sax_events_order (text : List Byte) :
    (document_order text 0 none (sax_events text).1).isSome = true := by
  obtain ⟨lo2, last2, h⟩ := children_run_order text (text.length + 1)
    ⟨1, 1, 0, 1, text⟩ 0 0 ⟨Nat.zero_le _, rfl, rfl, rfl⟩ 0 none (le_refl _)
  have e : (sax_events text).1 = (children_run (text.length + 1) ⟨1, 1, 0, 1, text⟩ 0 0).arg :=
    rfl
  rw [e, h]
  rfl

/-- The closing event that parse_element_opening delivers, for a tag that closes itself,
has the token of the opening event of the tag. -/
theorem opening_run_closing (t : sax_token) (level : Int) (e : sax_token)
    (he : sax_event.closing e ∈ (opening_run t level).arg) :
    (opening_run t level).arg.head? = some (sax_event.opening e) ∧
    e = (parse_name t).1 := by
  rw [opening_run_outcome] at he ⊢
  unfold opening_attributes at he ⊢
  have hq := attribute_list_run_quiet ((parse_name t).2.cursor.length + 1) (parse_name t).2
  generalize attribute_list_run ((parse_name t).2.cursor.length + 1) (parse_name t).2 = run
    at he hq ⊢
  generalize (parse_name t).1 = name at he ⊢
  have hrun : sax_event.closing e ∉ run.arg := fun hm => by
    have := (hq _ hm).2
    exact Bool.noConfusion this
  have hname : e = name := by
    unfold opening_outcome at he
    split_ifs at he <;>
      simp only [List.mem_cons, List.mem_append, List.mem_singleton, List.not_mem_nil,
        sax_event.closing.injEq, or_false, false_or, reduceCtorEq] at he <;>
      first
        | exact absurd he hrun
        | (rcases he with he | he
           · exact absurd he hrun
           · exact he)
  subst hname
  refine ⟨?_, rfl⟩
  unfold opening_outcome
  split_ifs <;> rfl

/-- C24. XML event order and positions: for every text, the events that sax_parse_text
delivers to the recording callbacks are in the order of the document, and every name
and attribute value has the index, the row and the column, counted from 1, of its first
character and its whole length: an opening event has the name right after `<`, an
attribute event the name, then `=`, a quote and the value, and a closing event either
the very token of the opening event before it or the name right after `</`. The closing
event that parse_element_opening delivers for an element that closes itself has the
token of the opening event of the same tag, and the closing event of parse_element_closing
has the name that parse_name reads inside the closing tag. On the text of the test the
parse succeeds with 48 events, the first the opening of svg at row 4 column 2 and the
last the closing of svg at row 26 column 3, and the parse without callbacks succeeds
too. -/
theorem event_order_and_positions :
    (∀ text : List Byte,
      (document_order text 0 none (sax_events text).1).isSome = true) ∧
    (∀ (t : sax_token) (level : Int) (e : sax_token),
      sax_event.closing e ∈ (opening_run t level).arg →
      (opening_run t level).arg.head? = some (sax_event.opening e) ∧
        e = (parse_name t).1) ∧
    (∀ (t : sax_token) (level : Int), 0 < level → (closing_run t level).valid = true →
      (closing_run t level).arg = [sax_event.closing (parse_name t).1]) ∧
    ((sax_events fixture_xml).2 = true ∧ (sax_events fixture_xml).1.length = 48 ∧
      (sax_events fixture_xml).1.head?.map sax_event.invocation =
        some (sax_type.SAX_ELEMENT_OPENING, 4, 2, ascii "svg", []) ∧
      (sax_events fixture_xml).1.getLast?.map sax_event.invocation =
        some (sax_type.SAX_ELEMENT_CLOSING, 26, 3, ascii "svg", []) ∧
      sax_parse_quiet fixture_xml = true) := by
  refine ⟨sax_events_order, opening_run_closing, fun t level hl hv => ?_,
    by decide!, by decide!, by decide!, by decide!, by decide!⟩
  rw [closing_run_eq] at hv ⊢
  by_cases hb : (skip_space (parse_name t).2).cursor.getD 0 0 ≠ 62
  · rw [if_pos hb] at hv
    exact absurd hv (by simp)
  · rw [if_neg hb]
    simp only [if_pos hl]

theorem event_order_and_positions_witness :
    (document_order (ascii "<a b=\"1\"/>") 0 none
      (sax_events (ascii "<a b=\"1\"/>")).1).isSome = true ∧
    (sax_events (ascii "<a b=\"1\"/>")).1.map sax_event.invocation =
      [(sax_type.SAX_ELEMENT_OPENING, 1, 2, ascii "a", []),
        (sax_type.SAX_ATTRIBUTE, 1, 4, ascii "b", ascii "1"),
        (sax_type.SAX_ELEMENT_CLOSING, 1, 2, ascii "a", [])] :=
  ⟨event_order_and_positions.1 (ascii "<a b=\"1\"/>"), by decide!⟩
end Libpes

namespace Libpes
open Sax
/-! ## The transcoders -/

/-- Helper: transcode calls pes_encode on the state of `transcoded` when its flag is set,
and returns false without calling it otherwise. -/
theorem transcode_eq_transcoded {F σ : Type} (ops : FloatOps F)
    (txt : SvgEmbDecoder.TextOps F)
    (gops : SvgEmbDecoder.GOps (SvgEmbPesTranscoder.transcoder_state F σ))
    (alloc : PesEncoder.alloc_outcomes)
    (pes_encode : PesEncoder.pes_encoder F → encode_callback σ → encode_step σ)
    (svg_emb_text : List Byte) (encode_cb : encode_callback σ)
    (error_cb : Option (sax_error_callback σ)) (arg : σ) :
    SvgEmbPesTranscoder.transcode ops txt gops alloc pes_encode svg_emb_text encode_cb
        error_cb arg =
      if (SvgEmbPesTranscoder.transcoded ops txt gops alloc svg_emb_text error_cb arg).2 =
          false then
        ((SvgEmbPesTranscoder.transcoded ops txt gops alloc svg_emb_text error_cb arg).1.arg,
          false)
      else
        pes_encode
          (SvgEmbPesTranscoder.transcoded ops txt gops alloc svg_emb_text error_cb
            arg).1.encoder encode_cb
          (SvgEmbPesTranscoder.transcoded ops txt gops alloc svg_emb_text error_cb
            arg).1.arg := by
  simp only [SvgEmbPesTranscoder.transcode, SvgEmbPesTranscoder.transcoded]
  split
  · simp
  · split
    · rename_i h1
      simp [h1]
    · rfl

/-- Helper: the file that svg_emb_pes1_transcode stores on the fixed-point instance is the
file of pes_encode1 for the encoder of the state of `transcoded`, behind what the state
holds, and there is none when the flag of that state is false or pes_encode1 fails. -/
theorem grid_svg_to_pes_eq (text : List Byte) :
    grid_svg_to_pes text =
      if (grid_transcoded text).2 = true then
        (PesEncoder.pes_encode1 gridOps (grid_transcoded text).1.encoder).map
          (fun out => (grid_transcoded text).1.arg ++ out)
      else none := by
  unfold grid_svg_to_pes SvgEmbPesTranscoder.svg_emb_pes1_transcode
  rw [transcode_eq_transcoded]
  change (if (if (grid_transcoded text).2 = false then
        ((grid_transcoded text).1.arg, false)
      else PesCallback.pes_encode1 gridOps (grid_transcoded text).1.encoder store_chunk
        (grid_transcoded text).1.arg).2 = true then
      some (if (grid_transcoded text).2 = false then
        ((grid_transcoded text).1.arg, false)
      else PesCallback.pes_encode1 gridOps (grid_transcoded text).1.encoder store_chunk
        (grid_transcoded text).1.arg).1
    else none) = _
  cases hf : (grid_transcoded text).2 with
  | false => simp
  | true =>
    simp only [Bool.true_eq_false, if_false, if_true]
    have hm := models_store _ _ (models_pes_encode1 gridOps (grid_transcoded text).1.encoder)
      (grid_transcoded text).1.arg
    cases ho : PesEncoder.pes_encode1 gridOps (grid_transcoded text).1.encoder with
    | none =>
      have h2 := hm.1 ho
      simp only [] at h2
      simp [h2]
    | some out =>
      have h2 := hm.2 out ho
      simp only [] at h2
      simp [h2]
/-- C3 fails on far_colour_text: the text is what svg_emb_encode writes for
far_colour_encoder, two paths in two palette colours with identity transform and steps of
0.5 mm, and svg_emb_pes1_transcode returns false on it. The steps
before pes_encode succeed and give the two threads and the four stitches; the colour
change has put a Stop at (0, 0) in the PEC stitch list, so the PEC bounds start at 0
while the PES bounds start at 300.0, and pec_encode fails on the first delta of 3000 raw
units. With the bounds of the stitches alone the same state encodes, and far_plain_text,
the same paths in one colour, is transcoded to a file that starts with "#PES0001" and
back to itself. -/
theorem svg_pes1_transcode_fails_far_from_origin :
    (SvgEmbEncoder.svg_emb_encode gridSvgOps far_colour_encoder store_chunk [] =
      (far_colour_text, true) ∧
    (SvgEmbPesTranscoder.svg_emb_pes1_transcode gridOps gridTextOps (gridGOps _) alloc_all
      far_colour_text store_chunk none []).2 = false ∧
    (grid_transcoded far_colour_text).2 = true ∧
    (grid_transcoded far_colour_text).1.encoder.thread_list.map (fun t => t.rgb) =
      [⟨0xec, 0, 0⟩, ⟨0x0f, 0x75, 0xff⟩] ∧
    (grid_transcoded far_colour_text).1.encoder.stitch_list.map
        (fun s => (s.thread_index, s.x, s.y, s.jump)) =
      [(0, 3000, 100, false), (0, 3005, 100, false), (1, 3005, 100, true),
        (1, 3010, 100, false)] ∧
    (grid_transcoded far_colour_text).1.encoder.pec_encoder.stitch_list.map
        (fun s => (s.x, s.y, s.type)) =
      [(3000, 100, pec_stitch_type.PEC_STITCH_NORMAL),
        (3005, 100, pec_stitch_type.PEC_STITCH_NORMAL),
        (0, 0, pec_stitch_type.PEC_STITCH_STOP),
        (3005, 100, pec_stitch_type.PEC_STITCH_JUMP),
        (3010, 100, pec_stitch_type.PEC_STITCH_NORMAL)] ∧
    (let b := (grid_transcoded far_colour_text).1.encoder.bounds
     (b.min_x, b.min_y, b.max_x, b.max_y, b.valid)) = (3000, 100, 3010, 100, true) ∧
    (let b := (grid_transcoded far_colour_text).1.encoder.pec_encoder.bounds
     (b.min_x, b.min_y, b.max_x, b.max_y, b.valid)) = (0, 0, 3010, 100, true) ∧
    PecEncoder.pec_encode gridOps (grid_transcoded far_colour_text).1.encoder.pec_encoder =
      none ∧
    (PesEncoder.pes_encode1 gridOps
      { (grid_transcoded far_colour_text).1.encoder with
        pec_encoder :=
          { (grid_transcoded far_colour_text).1.encoder.pec_encoder with
            bounds := ⟨3000, 100, 3010, 100, true⟩ } }).isSome = true) ∧
    (SvgEmbEncoder.svg_emb_encode gridSvgOps far_plain_encoder store_chunk [] =
      (far_plain_text, true) ∧
    (grid_svg_to_pes far_plain_text).map (fun l => l.take 8) = some (ascii "#PES0001") ∧
    (grid_svg_to_pes far_plain_text).bind grid_pes_to_svg = some far_plain_text) := by
  refine ⟨by decide!, ?_⟩
  rw [grid_svg_to_pes_eq]
  decide!
/-- C4 fails on the file B of unflagged_change_encoder, two palette threads and a stitch
of each one 1.0 mm apart with identity transform: pes_encode1 writes B, and
pes_svg_emb_transcode returns false on B without calling the encode callback, because
pes_decoder_init returns NULL. B holds one block header with stitch count 1 followed by
two coordinate pairs, and the decoder reads the second pair as the thread table. The
claim also fails on unused_thread_encoder, whose first thread has no stitch: both
transcodes succeed, the text between them is unused_thread_text with the single colour
of thread 1, and the second file differs from the first at offset 106, where the block
header holds thread_index + 1, which is 2 in the first file and 1 in the second. -/
theorem pes_svg_pes_round_trip_fails :
    (∃ B, PesEncoder.pes_encode1 gridOps unflagged_change_encoder = some B ∧
      (∀ calloc_zero : Bool,
        PesDecoder.pes_decoder_init gridOps calloc_zero B = PesDecoder.init_result.null ∧
        PesSvgEmbTranscoder.pes_svg_emb_transcode gridOps gridSvgOps calloc_zero true B
          store_chunk [] = some ([], false)) ∧
      grid_pes_to_svg B = none ∧
      (B.drop 8).take 4 = [132, 0, 0, 0] ∧
      (B.drop 104).take 28 =
        [0, 0, 1, 0, 1, 0, 0, 0, 0, 0, 10, 0, 0, 0, 2, 0, 0, 0, 5, 0, 1, 0, 2, 0, 0, 0,
          0, 0]) ∧
    (∃ B, PesEncoder.pes_encode1 gridOps unused_thread_encoder = some B ∧
      grid_pes_to_svg B = some unused_thread_text ∧
      ∃ B2, grid_svg_to_pes unused_thread_text = some B2 ∧
        B.getD 106 0 = 2 ∧ B2.getD 106 0 = 1 ∧ B2 ≠ B) := by
  constructor
  · have h1 : (PesEncoder.pes_encode1 gridOps unflagged_change_encoder).map
        (fun B => (PesDecoder.pes_decoder_init gridOps true B,
          PesDecoder.pes_decoder_init gridOps false B)) =
        some (PesDecoder.init_result.null, PesDecoder.init_result.null) := by rfl
    have h2 : (PesEncoder.pes_encode1 gridOps unflagged_change_encoder).map
        (fun B => ((B.drop 8).take 4, (B.drop 104).take 28)) =
        some ([132, 0, 0, 0],
          [0, 0, 1, 0, 1, 0, 0, 0, 0, 0, 10, 0, 0, 0, 2, 0, 0, 0, 5, 0, 1, 0, 2, 0, 0, 0,
            0, 0]) := by decide!
    cases hB : PesEncoder.pes_encode1 gridOps unflagged_change_encoder with
    | none => rw [hB] at h2; exact absurd h2 (by simp)
    | some B =>
      rw [hB] at h1 h2
      simp only [Option.map_some', Option.some.injEq, Prod.mk.injEq] at h1 h2
      have h3 : ∀ calloc_zero : Bool,
          PesDecoder.pes_decoder_init gridOps calloc_zero B =
            PesDecoder.init_result.null := by
        intro c
        cases c
        · exact h1.2
        · exact h1.1
      refine ⟨B, rfl, fun c => ⟨h3 c, ?_⟩, ?_, h2.1, h2.2⟩
      · simp only [PesSvgEmbTranscoder.pes_svg_emb_transcode, h3 c]
      · simp only [grid_pes_to_svg, PesSvgEmbTranscoder.pes_svg_emb_transcode, h3 true]
  · have h : (PesEncoder.pes_encode1 gridOps unused_thread_encoder).bind grid_pes_to_svg =
          some unused_thread_text ∧
        (PesEncoder.pes_encode1 gridOps unused_thread_encoder).map
          (fun l => l.getD 106 0) = some 2 ∧
        (grid_svg_to_pes unused_thread_text).map (fun l => l.getD 106 0) = some 1 := by
      rw [grid_svg_to_pes_eq]
      decide!
    obtain ⟨h1, h2, h3⟩ := h
    cases hB : PesEncoder.pes_encode1 gridOps unused_thread_encoder with
    | none => rw [hB] at h2; exact absurd h2 (by simp)
    | some B =>
      rw [hB] at h1 h2
      simp only [Option.some_bind, Option.map_some', Option.some.injEq] at h1 h2
      cases hB2 : grid_svg_to_pes unused_thread_text with
      | none => rw [hB2] at h3; exact absurd h3 (by simp)
      | some B2 =>
        rw [hB2] at h3
        simp only [Option.map_some', Option.some.injEq] at h3
        refine ⟨B, rfl, h1, B2, rfl, h2, h3, ?_⟩
        intro h
        rw [h, h2] at h3
        exact absurd h3 (by decide)
end Libpes
